import Mathlib

/-!
# foomatic-combo-xml: the streaming parser

A shallow embedding of `parse` from `foomatic-combo-xml.c` (operations
`PARSE_OP_PRINTER`, `PARSE_OP_DRIVER` and `PARSE_OP_OPTION`) together with the
helpers it uses, followed by theorems about the tag scanner, the constraint
evaluator and the rewriting of the documents.

## Conventions of the embedding

* A C string is the list of its characters up to (not including) the
  terminating NUL: `CStr`.  The fixed-size arrays of the C code are modelled
  as unbounded; inputs that overflow them are outside the model.
* `p + k` on a C string is `List.drop k`.  When `k` exceeds the length of the
  string the C code reads the cells behind the terminator; the model reads the
  empty string there.
* The buffer `*data` and the cursor `scan` are modelled as a zipper: the state
  holds `out`, the buffer content before the cursor (`data[0 .. scan)`), and
  the scan loop recurses over the content from the cursor on.  All splices of
  the C code touch only `data[0 .. scan]`, and every one of them leaves the
  distance between cursor and end of content unchanged, so one loop iteration
  consumes exactly one character of the remaining input.
* Pointers into the buffer (`lasttag`, `lasttagend`, `lastenumval`, ...) are
  offsets from `*data`, `none` is `NULL`.
* Debug output, warnings on `stderr` and `linecount` (used only in messages)
  are not modelled.
-/

-- The in-place reuse of constructor cells miscompiles updates of the large state
-- records below in this toolchain; evaluation is kept sound by turning it off.
set_option compiler.reuse false

namespace Foomatic

/-- A C string: the characters before the terminating NUL. -/
abbrev CStr := List Char

/-! ## libc helpers -/

/-- The character of a string literal, as a `CStr`. -/
def lit (s : String) : CStr := s.toList

/-- The terminator of a C string. -/
def chNUL : Char := Char.ofNat 0
/-- Newline. -/
def chNL : Char := Char.ofNat 10
/-- Horizontal tab. -/
def chTAB : Char := Char.ofNat 9
/-- Carriage return. -/
def chCR : Char := Char.ofNat 13
/-- Double quote. -/
def chDQ : Char := Char.ofNat 34
/-- Single quote. -/
def chSQ : Char := Char.ofNat 39

/-- A character array that holds the C string `s` and, behind its terminator,
the bytes `tail`, after the string `b` and its terminator have been written to
its start: the bytes behind the new terminator. -/
def staleBehind (s tail b : CStr) : CStr := (s ++ chNUL :: tail).drop (b.length + 1)

/-- The C string at offset `k` of a character array that holds the C string `s`
and, behind its terminator, the bytes `tail`: the rest of `s` for `k` up to the
terminator, and behind it the bytes of `tail` up to their first terminator. -/
def strFrom (s tail : CStr) (k : Nat) : CStr :=
  if k ≤ s.length then s.drop k
  else (tail.drop (k - s.length - 1)).takeWhile fun c => c ≠ chNUL

/-- C `strstr`: the suffix of the haystack that starts at the first occurrence
of the needle, `none` for `NULL`. -/
def strstr : CStr → CStr → Option CStr
  | [], needle => if needle = [] then some [] else none
  | c :: hs, needle =>
    if needle.isPrefixOf (c :: hs) then some (c :: hs) else strstr hs needle

/-- C `strspn`: length of the longest prefix made of characters of `accept`. -/
def strspn (s accept : CStr) : Nat := (s.takeWhile (fun c => accept.contains c)).length

/-- C `strcasecmp(a, b) == 0`. -/
def strcaseeq (a b : CStr) : Bool := a.map Char.toLower == b.map Char.toLower

/-- C `strncasecmp(a, b, n) == 0`. -/
def strncaseeq (a b : CStr) (n : Nat) : Bool := strcaseeq (a.take n) (b.take n)

/-- C `isspace` in the "C" locale. -/
def isspace (c : Char) : Bool :=
  c.toNat = 32 || (9 ≤ c.toNat && c.toNat ≤ 13)

/-- C `isdigit`. -/
def isdigit (c : Char) : Bool := 48 ≤ c.toNat && c.toNat ≤ 57

/-- A value of the C type `double` (IEEE 754 binary64): a NaN, an infinity, or
the finite number `(-1) ^ neg * mant * 2 ^ exp`. -/
inductive Dbl where
  | nan
  | inf (neg : Bool)
  | fin (neg : Bool) (mant : Nat) (exp : Int)
deriving DecidableEq, Repr

/-- The number `mant * 2 ^ exp` with its sign, scaled by `2 ^ (-k)`, for
`k ≤ exp`. -/
def Dbl.scaled (neg : Bool) (mant : Nat) (exp k : Int) : Int :=
  if neg then - ((mant * 2 ^ (exp - k).toNat : Nat) : Int)
  else ((mant * 2 ^ (exp - k).toNat : Nat) : Int)

/-- C `a < b` on values of type `double`: false when an operand is a NaN, and
`-0` is not below `0`. -/
def Dbl.lt : Dbl → Dbl → Bool
  | .fin n1 m1 e1, .fin n2 m2 e2 =>
    decide (Dbl.scaled n1 m1 e1 (min e1 e2) < Dbl.scaled n2 m2 e2 (min e1 e2))
  | .inf n1, .inf n2 => n1 && !n2
  | .inf n1, .fin _ _ _ => n1
  | .fin _ _ _, .inf n2 => !n2
  | .nan, _ => false
  | _, .nan => false

/-- The number of halvings that take `n` below 2, that is the position of its
leading binary digit; `fuel` bounds the number of halvings. -/
def log2Fuel : Nat → Nat → Nat
  | 0, _ => 0
  | fuel + 1, n => if 2 ≤ n then log2Fuel fuel (n / 2) + 1 else 0

/-- The value of type `double` nearest to `num / den`, with the sign `neg`:
53 binary digits, ties to the even neighbour, `-1074` the smallest exponent of
the last digit, and an infinity from `2 ^ 1024 - 2 ^ 970` on. -/
def roundDbl (neg : Bool) (num den : Nat) : Dbl :=
  if num = 0 ∨ den = 0 then .fin neg 0 0
  else
    let k : Int := (log2Fuel num num : Int) - (log2Fuel den den : Int)
    let ge : Bool :=
      if 0 ≤ k then decide (den * 2 ^ k.toNat ≤ num) else decide (den ≤ num * 2 ^ (-k).toNat)
    let e : Int := if ge then k else k - 1
    let u : Int := max (e - 52) (-1074)
    let n1 := num * 2 ^ (-u).toNat
    let d1 := den * 2 ^ u.toNat
    let q := n1 / d1
    let r := n1 % d1
    let m := if d1 < 2 * r ∨ (2 * r = d1 ∧ q % 2 = 1) then q + 1 else q
    if 971 < u ∨ (u = 971 ∧ m = 2 ^ 53) then .inf neg else .fin neg m u

/-- Reads a run of decimal digits: the accumulated value, the number of digits
read and the rest of the string. -/
def readDigits : CStr → Nat → Nat → Nat × Nat × CStr
  | [], acc, n => (acc, n, [])
  | c :: cs, acc, n =>
    if isdigit c then readDigits cs (acc * 10 + (c.toNat - 48)) (n + 1) else (acc, n, c :: cs)

/-- The value of a hexadecimal digit. -/
def hexValue (c : Char) : Option Nat :=
  if isdigit c then some (c.toNat - 48)
  else if 97 ≤ c.toNat ∧ c.toNat ≤ 102 then some (c.toNat - 87)
  else if 65 ≤ c.toNat ∧ c.toNat ≤ 70 then some (c.toNat - 55)
  else none

/-- Reads a run of hexadecimal digits: the accumulated value, the number of
digits read and the rest of the string. -/
def readHexDigits : CStr → Nat → Nat → Nat × Nat × CStr
  | [], acc, n => (acc, n, [])
  | c :: cs, acc, n =>
    match hexValue c with
    | some v => readHexDigits cs (acc * 16 + v) (n + 1)
    | none => (acc, n, c :: cs)

/-- Reads an optional sign: whether it is a minus, and the rest. -/
def readSign : CStr → Bool × CStr
  | [] => (false, [])
  | c :: cs => if c = '-' then (true, cs) else if c = '+' then (false, cs) else (false, c :: cs)

/-- Reads an exponent behind its letter: an optional sign and digits; `0` when
no digit follows. -/
def readExponent (r : CStr) : Int :=
  let (eneg, r2) := readSign r
  let (ev, ne, _) := readDigits r2 0 0
  if ne = 0 then 0 else if eneg then - (ev : Int) else (ev : Int)

/-- A number in hexadecimal notation at the start of the string: `0x` or `0X`,
hexadecimal digits with an optional fraction, at least one digit, and an
optional binary exponent behind `p` or `P`.  The result is the pair `(m, e)`
of the number `m * 2 ^ e`. -/
def readHexNumber (s : CStr) : Option (Nat × Int) :=
  match s with
  | z :: x :: r =>
    if z = '0' ∧ (x = 'x' ∨ x = 'X') then
      let (ip, ni, r1) := readHexDigits r 0 0
      let (mant, nf, r2) :=
        match r1 with
        | [] => (ip, 0, [])
        | c :: r' => if c = '.' then readHexDigits r' ip 0 else (ip, 0, c :: r')
      if ni + nf = 0 then none
      else
        let ex : Int :=
          match r2 with
          | [] => 0
          | c :: r3 => if c = 'p' ∨ c = 'P' then readExponent r3 else 0
        some (mant, ex - 4 * (nf : Int))
    else none
  | _ => none

/-- A number in decimal notation at the start of the string: digits with an
optional fraction, at least one digit, and an optional exponent behind `e` or
`E`.  The result is the pair `(m, e)` of the number `m * 10 ^ e`. -/
def readDecNumber (s : CStr) : Option (Nat × Int) :=
  let (ip, ni, s3) := readDigits s 0 0
  let (mant, nf, s4) :=
    match s3 with
    | [] => (ip, 0, [])
    | c :: r => if c = '.' then readDigits r ip 0 else (ip, 0, c :: r)
  if ni + nf = 0 then none
  else
    let ex : Int :=
      match s4 with
      | [] => 0
      | c :: r => if c = 'e' ∨ c = 'E' then readExponent r else 0
    some (mant, ex - (nf : Int))

/-- C `atof`, that is `strtod(s, NULL)`, with its result rounded to the nearest
value of type `double` (ties to even), as the C library of the platform does:
optional white space, an optional sign, then `inf` or `nan` in either case, a
number in hexadecimal notation, or a number in decimal notation; `0` when none
of them starts the string. -/
def atof (s : CStr) : Dbl :=
  let s1 := s.dropWhile isspace
  let (neg, s2) := readSign s1
  if strncaseeq s2 (lit "inf") 3 then .inf neg
  else if strncaseeq s2 (lit "nan") 3 then .nan
  else
    match readHexNumber s2 with
    | some (m, e) => roundDbl neg (m * 2 ^ e.toNat) (2 ^ (-e).toNat)
    | none =>
      match readDecNumber s2 with
      | some (m, e) => roundDbl neg (m * 10 ^ e.toNat) (10 ^ (-e).toNat)
      | none => .fin false 0 0

/-! ## ID translation -/

/-- The ID translation table: pairs of old id and new id, in table order. -/
abbrev IdList := List (CStr × CStr)

/-- Source `translateid`: the new id of the first entry whose old id is the
given one, the given id when there is none. -/
def translateid (oldid : CStr) : IdList → CStr
  | [] => oldid
  | (o, n) :: rest => if oldid = o then n else translateid oldid rest

/-! ## The scanner state -/

/-- Result of one action of the engine on a state. -/
inductive Step (α : Type) where
  /-- The scan goes on in the given state. -/
  | next (s : α)
  /-- The function freed the buffer, set `*data = NULL` and returned `r`. -/
  | discard (r : Int)
  /-- A fatal file-format error: `exit(1)`. -/
  | fatal
  /-- The C code leaves the model here: arithmetic on a `NULL` mark or a splice
  whose bounds lie outside the scanned part of the buffer. -/
  | undefined

/-- Sequencing of actions: the first result that is not `next` ends the chain. -/
def Step.bind {α β : Type} : Step α → (α → Step β) → Step β
  | .next s, f => f s
  | .discard r, _ => .discard r
  | .fatal, _ => .fatal
  | .undefined, _ => .undefined

/-- The mode-independent local variables of `parse`. -/
structure Core where
  /-- Buffer content before the scan cursor, `data[0 .. scan)`; inside the
  tag-end actions it also holds the `>` under the cursor. -/
  out : CStr := []
  nestinglevel : Int := 0
  inxmlheader : Bool := true
  intag : Bool := false
  incomment : Bool := false
  tagnamefound : Bool := false
  intagword : Bool := false
  inquotes : Bool := false
  insinglequotes : Bool := false
  indoublequotes : Bool := false
  /-- Values `TAG_OPEN = 1`, `TAG_CLOSE = -1`, `TAG_EMPTY = 0`. -/
  tagtype : Int := 0
  /-- Offset of the `<` of the last tag (`NULL` before the first tag, where it
  is never read). -/
  lasttag : Nat := 0
  /-- Offset of the `>` of the last tag, `none` for `NULL`. -/
  lasttagend : Option Nat := none
  tagwordstart : Nat := 0
  currtagname : CStr := []
  currtagparam : CStr := []
  currtagbody : CStr := []
  /-- The bytes of the array `currtagbody` behind the terminator of its string:
  what longer texts have left there. -/
  bodytail : CStr := []
  comboconfirmed : Int := 0

/-- The state of a parse: the mode-independent variables and those of the mode. -/
structure PState (σ : Type) where
  core : Core
  m : σ

/-- Tag type constants of the source. -/
def TAG_OPEN : Int := 1
/-- Closing tag. -/
def TAG_CLOSE : Int := -1
/-- Tag without body. -/
def TAG_EMPTY : Int := 0

/-- The three places where `parse` switches on `operation`: after the name of a
tag has been read, after a further word of a tag has been read, and at the `>`
that ends a tag (after `nestinglevel` has been updated). -/
structure Hooks (σ : Type) where
  onName : PState σ → Step (PState σ)
  onParam : PState σ → PState σ
  onEnd : PState σ → Step (PState σ)

/-- Removal of the file header at the opening tag of the root element:
`inxmlheader = 0; nestinglevel = 1;` and the `memmove` that makes the buffer
start at `lasttag`, with `scan`, `tagwordstart` and `lasttag` rebased and
`lasttagend = NULL`. -/
def removeHeader (c : Core) : Core :=
  { c with
    inxmlheader := false
    nestinglevel := 1
    out := c.out.drop c.lasttag
    tagwordstart := c.tagwordstart - c.lasttag
    lasttag := 0
    lasttagend := none }

/-- Deletion of the span from the mark `last` up to and including the character
under the cursor: `memmove(last, scan + 1, ...); datalength -= scan + 1 - last;
scan = last - 1`.  Here `c.out` is `data[0 .. scan]`. -/
def deleteSpan (c : Core) (last : Nat) : Step Core :=
  if 1 ≤ last ∧ last ≤ c.out.length then .next { c with out := c.out.take last } else .undefined

/-- Insertion of `text` at the mark `pos`: the content from `pos` on moves right
by the length of the text, and so does the cursor (`scan += l`). -/
def insertAt (c : Core) (pos : Nat) (text : CStr) : Step Core :=
  if pos ≤ c.out.length then .next { c with out := c.out.take pos ++ text ++ c.out.drop pos }
  else .undefined

/-- The mark `lasttagend + 1`. -/
def markAfter (lasttagend : Option Nat) : Option Nat := lasttagend.map (· + 1)

/-! ## The tag scanner -/

/-- The word delimiters of the scanner: line break, `/`, `>`, blank, tab and
carriage return. -/
def isDelim (ch : Char) : Bool :=
  ch = chNL || ch = '/' || ch = '>' || ch = ' ' || ch = chTAB || ch = chCR

/-- The loop increment `scan++`: the character under the cursor joins the
scanned part of the buffer. -/
def advance {σ : Type} (s : PState σ) (ch : Char) : PState σ :=
  { s with core := { s.core with out := s.core.out ++ [ch] } }

/-- A word inside a tag is finished: the first word is the tag name, every
further word a parameter. -/
def wordEnd {σ : Type} (h : Hooks σ) (s : PState σ) : Step (PState σ) :=
  let c := { s.core with intagword := false }
  let w := c.out.drop c.tagwordstart
  if c.tagnamefound then
    .next (h.onParam { s with core := { c with currtagparam := w } })
  else
    h.onName { s with core := { c with tagnamefound := true, currtagname := w } }

/-- The `>` that ends a tag which is not a comment: the text before the tag
becomes `currtagbody` (source lines 876-878: the text and its terminator are
written to the start of the array, the bytes behind them stay), the nesting
level follows the tag type, the actions of the mode run, and the tag end is
recorded. -/
def tagEnd {σ : Type} (h : Hooks σ) (s : PState σ) : Step (PState σ) :=
  let c := { s.core with intag := false }
  if !c.inxmlheader && !c.tagnamefound then .fatal
  else
    let body : Step CStr :=
      match c.lasttagend with
      | some e =>
        if e + 1 ≤ c.lasttag then .next ((c.out.drop (e + 1)).take (c.lasttag - e - 1))
        else .undefined
      | none => .next c.currtagbody
    body.bind fun b =>
      let c1 := { c with
        currtagbody := b
        bodytail :=
          match c.lasttagend with
          | some _ => staleBehind c.currtagbody c.bodytail b
          | none => c.bodytail
        nestinglevel := c.nestinglevel + c.tagtype
        out := c.out ++ ['>'] }
      (h.onEnd { s with core := c1 }).bind fun s3 =>
        .next { s3 with core := { s3.core with lasttagend := some (s3.core.out.length - 1) } }

/-- The comment test at a `<` (source lines 393-400): at least three characters
follow in the buffer and they are `!--`. -/
def opensComment : CStr → Bool
  | a :: b :: d :: _ => a = '!' && b = '-' && d = '-'
  | _ => false

/-- One iteration of the scan loop on the character `ch` under the cursor;
`rest` is the buffer content behind it. -/
def step {σ : Type} (h : Hooks σ) (s : PState σ) (ch : Char) (rest : CStr) :
    Step (PState σ) :=
  let c := s.core
  if ch = '<' then
    if c.inquotes then .next (advance s ch)
    else if c.intag then
      if !c.incomment && !c.inxmlheader then .fatal else .next (advance s ch)
    else
      let c1 := { c with intag := true }
      let c2 := if opensComment rest then { c1 with incomment := true, tagtype := TAG_EMPTY } else c1
      let c3 :=
        if c2.incomment then c2
        else { c2 with tagnamefound := false, tagtype := TAG_OPEN, lasttag := c.out.length }
      .next (advance { s with core := c3 } ch)
  else if isDelim ch then
    if c.inquotes then .next (advance s ch)
    else if c.intag then
      let words : Step (PState σ) :=
        if c.incomment then .next s
        else
          (if c.intagword then wordEnd h s else .next s).bind fun s1 =>
            if ch = '/' then
              .next { s1 with core := { s1.core with
                tagtype := if s1.core.tagnamefound then TAG_EMPTY else TAG_CLOSE } }
            else .next s1
      words.bind fun s2 =>
        if ch = '>' then
          if s2.core.incomment then
            if (lit "--").isSuffixOf s2.core.out then
              .next (advance { s2 with core := { s2.core with incomment := false, intag := false } } ch)
            else .next (advance s2 ch)
          else tagEnd h s2
        else .next (advance s2 ch)
    else .next (advance s ch)
  else
    if c.intag && !c.incomment then
      let sq := if ch = chSQ then !c.insinglequotes else c.insinglequotes
      let dq := if ch = chDQ then !c.indoublequotes else c.indoublequotes
      let c1 := { c with insinglequotes := sq, indoublequotes := dq, inquotes := sq || dq }
      let c2 := if c1.intagword then c1 else { c1 with intagword := true, tagwordstart := c.out.length }
      .next (advance { s with core := c2 } ch)
    else .next (advance s ch)

/-- The scan loop `for (scan = *data; *scan != 0; scan++)` from a state `s`
over the buffer content from the cursor on. -/
def scanLoop {σ : Type} (h : Hooks σ) : PState σ → CStr → Step (PState σ)
  | s, [] => .next s
  | s, ch :: rest =>
    match step h s ch rest with
    | .next s1 => scanLoop h s1 rest
    | .discard r => .discard r
    | .fatal => .fatal
    | .undefined => .undefined

/-! ## Option mode: state and request context -/

/-- Source `enum option_types`. -/
inductive OptionType where
  | ENUM
  | BOOL
  | INT
  | FLOAT
deriving DecidableEq, Repr

/-- The inputs of `parse` that Option mode reads and never writes. -/
structure Ctx where
  /-- Requested printer id `pid` (not `NULL` in Option mode). -/
  pid : CStr
  /-- Requested driver name. -/
  driver : CStr
  /-- The `name=value` and bare `name` settings of the command line. -/
  defaultsettings : List CStr := []
  /-- Value of `*nopjl`: the driver does not allow PJL options. -/
  nopjl : Bool := false
  idlist : IdList := []
  /-- The static `make` of the printer file parsed before. -/
  make : CStr := []
  /-- The static `model` of the printer file parsed before. -/
  model : CStr := []

/-- Source `trpid`: the requested printer id translated through the table. -/
def Ctx.trpid (ctx : Ctx) : CStr := translateid ctx.pid ctx.idlist

/-- The local variables of `parse` used in Option mode.  The sentinels `in...`
hold `nestinglevel + 1` of the tag that set them, `0` when cleared.  The
character arrays start empty here; in C they are uninitialised and written
before they are read on documents whose elements are properly opened. -/
structure OptSt where
  inmake : Int := 0
  inmodel : Int := 0
  indriver : Int := 0
  inprinter : Int := 0
  inoption : Int := 0
  inargshortname : Int := 0
  inargexecution : Int := 0
  inargpjl : Int := 0
  inevshortname : Int := 0
  inen : Int := 0
  inargmax : Int := 0
  inargmin : Int := 0
  inenumval : Int := 0
  inconstraints : Int := 0
  inconstraint : Int := 0
  inargdefault : Int := 0
  enumvaltoberemoved : Bool := false
  optionqualified : Bool := false
  enumvalqualified : Bool := true
  numenumvals : Nat := 1
  optiontype : OptionType := .ENUM
  printerhiscore : Int := 0
  driverhiscore : Int := 0
  userdefault : Bool := false
  userdefaultfound : Bool := false
  userdefaultvalue : CStr := []
  userdefaultid : CStr := []
  currevid : CStr := []
  maxnumvalue : Dbl := .fin false 0 0
  minnumvalue : Dbl := .fin false 0 0
  csense : Bool := false
  cprinter : CStr := []
  cmake : CStr := []
  cmodel : CStr := []
  cdriver : CStr := []
  cargdefault : CStr := []
  argdefault : CStr := []
  lastenumval : Option Nat := none
  lastconstraints : Option Nat := none
  lastoption : Option Nat := none

/-- Option-mode state of the parse. -/
abbrev OState := PState OptSt

/-! ## Option mode: a tag name has been read (source lines 537-650) -/

/-- Action on the tag name in Option mode, on the variables of the mode.  `c`
holds the mode-independent variables at that moment. -/
def optNameM (ctx : Ctx) (c : Core) (m : OptSt) : Step OptSt :=
  let nm := c.currtagname
  let lvl := c.nestinglevel + 1
  if nm = lit "make" then .next { m with inmake := lvl }
  else if nm = lit "model" then .next { m with inmodel := lvl }
  else if nm = lit "driver" then .next { m with indriver := lvl }
  else if nm = lit "printer" then .next { m with inprinter := lvl }
  else if nm = lit "arg_defval" then .next { m with inargdefault := lvl }
  else if nm = lit "arg_shortname" then .next { m with inargshortname := lvl }
  else if nm = lit "arg_execution" then .next { m with inargexecution := lvl }
  else if nm = lit "arg_pjl" then
    -- a PJL option of a driver that does not allow PJL options is skipped
    if m.inargexecution ≠ 0 ∧ ctx.nopjl = true then .discard c.comboconfirmed
    else .next { m with inargpjl := lvl }
  else if nm = lit "arg_max" then .next { m with inargmax := lvl }
  else if nm = lit "arg_min" then .next { m with inargmin := lvl }
  else if nm = lit "ev_shortname" then .next { m with inevshortname := lvl }
  else if nm = lit "en" then .next { m with inen := lvl }
  else if nm = lit "enum_val" then
    if c.tagtype = TAG_OPEN then
      match c.lasttagend with
      | some e =>
        .next { m with
          inenumval := lvl, enumvalqualified := true, enumvaltoberemoved := false,
          lastenumval := some (e + 1) }
      | none => .undefined
    else .next { m with inenumval := lvl }
  else if nm = lit "constraints" then
    if c.tagtype = TAG_OPEN then
      match c.lasttagend with
      | some e =>
        .next { m with
          inconstraints := lvl, printerhiscore := 0, driverhiscore := 0,
          lastconstraints := some (e + 1) }
      | none => .undefined
    else .next { m with inconstraints := lvl }
  else if nm = lit "constraint" then
    if c.tagtype = TAG_OPEN then
      .next { m with
        inconstraint := lvl, cprinter := [], cmake := [], cmodel := [], cdriver := [],
        cargdefault := [], csense := false }
    else .next { m with inconstraint := lvl }
  else if nm = lit "option" then
    if c.tagtype = TAG_CLOSE then
      match c.lasttagend with
      | some e => .next { m with inoption := lvl, lastoption := some (e + 1) }
      | none => .undefined
    else if c.tagtype = TAG_OPEN then .next { m with inoption := lvl, argdefault := [] }
    else .next { m with inoption := lvl }
  else .next m

/-- Action on the tag name in Option mode, on the mode-independent variables:
the opening tag of the root element `option` removes the file header. -/
def optNameCore (c : Core) : Core :=
  if c.currtagname = lit "option" ∧ c.tagtype = TAG_OPEN then removeHeader c else c

/-- Action on the tag name in Option mode. -/
def optName (ctx : Ctx) (s : OState) : Step OState :=
  (optNameM ctx s.core s.m).bind fun m1 => .next { core := optNameCore s.core, m := m1 }

/-! ## Option mode: a tag parameter has been read (source lines 783-819) -/

/-- Action on a further word of a tag in Option mode, on the variables of the
mode.  The id of an enum value is the parameter behind the first four
characters of `id="`, without its last character; for a parameter that ends
within these four characters the source reads behind the terminator of
`currtagparam`, and the id is empty here. -/
def optParamM (c : Core) (m : OptSt) : OptSt :=
  let nm := c.currtagname
  let p := c.currtagparam
  if nm = lit "constraint" then
    match strstr p (lit "sense") with
    | some r =>
      if (strstr (r.drop 5) (lit "true")).isSome then { m with csense := true }
      else if (strstr (r.drop 5) (lit "false")).isSome then { m with csense := false }
      else m
    | none => m
  else if nm = lit "option" then
    match strstr p (lit "type") with
    | some r =>
      if (strstr (r.drop 4) (lit "enum")).isSome then
        { m with numenumvals := 0, optiontype := .ENUM }
      else if (strstr (r.drop 4) (lit "bool")).isSome then { m with optiontype := .BOOL }
      else if (strstr (r.drop 4) (lit "int")).isSome then { m with optiontype := .INT }
      else if (strstr (r.drop 4) (lit "float")).isSome then { m with optiontype := .FLOAT }
      else m
    | none => m
  else if nm = lit "enum_val" then
    match strstr p (lit "id") with
    | some r => { m with currevid := (r.drop 4).dropLast }
    | none => m
  else m

/-- Action on a further word of a tag in Option mode. -/
def optParam (s : OState) : OState := { s with m := optParamM s.core s.m }

/-! ## Option mode: user-supplied defaults (source lines 1027-1128) -/

/-- One round of the loop over `defaultsettings` at the end of the option's
short name `body`: a setting `body=value` is checked against the option type,
a bare `body` or `nobody` sets a boolean option. -/
def applySetting (body : CStr) (m : OptSt) (ds : CStr) : OptSt :=
  if strstr ds body = some ds ∧ (ds.drop body.length).head? = some '=' then
    let v := ds.drop (body.length + 1)
    match m.optiontype with
    | .BOOL =>
      if strcaseeq v (lit "true") || strcaseeq v (lit "yes") || strcaseeq v (lit "on") then
        { m with userdefault := true, userdefaultvalue := lit "1" }
      else if strcaseeq v (lit "false") || strcaseeq v (lit "no") || strcaseeq v (lit "off") then
        { m with userdefault := true, userdefaultvalue := lit "0" }
      else if !strcaseeq v (lit "0") && !strcaseeq v (lit "1") then
        { m with userdefault := false, userdefaultvalue := v }
      else { m with userdefault := true, userdefaultvalue := v }
    | .INT =>
      if strspn v (lit "+-0123456789") < v.length then
        { m with userdefault := false, userdefaultvalue := v }
      else { m with userdefault := true, userdefaultvalue := v }
    | .FLOAT =>
      if strspn v (lit "+-0123456789.eE") < v.length then
        { m with userdefault := false, userdefaultvalue := v }
      else { m with userdefault := true, userdefaultvalue := v }
    | .ENUM => { m with userdefault := true, userdefaultvalue := v }
  else if ds = body ∧ m.optiontype = .BOOL then
    { m with userdefault := true, userdefaultvalue := lit "1" }
  else if ds.drop 2 = body ∧ strncaseeq ds (lit "no") 2 = true ∧ m.optiontype = .BOOL then
    { m with userdefault := true, userdefaultvalue := lit "0" }
  else m

/-- End of an `en` element: inside `arg_shortname` the user's settings are
looked up, inside `ev_shortname` the user's value is compared with the short
name of the enum value. -/
def overInEn (ctx : Ctx) (c : Core) (m : OptSt) : OptSt :=
  if c.nestinglevel < m.inen then
    if m.inargshortname ≠ 0 then
      ctx.defaultsettings.foldl (applySetting c.currtagbody) { m with inen := 0 }
    else if m.inevshortname ≠ 0 ∧ m.userdefault = true ∧ m.userdefaultvalue = c.currtagbody then
      { m with inen := 0, userdefaultid := m.currevid, userdefaultfound := true }
    else { m with inen := 0 }
  else m

/-! ## Option mode: numeric bounds (source lines 1129-1166) -/

/-- End of `arg_max`: for a numeric option the bound is read and a user default
above it is made invalid. -/
def overInArgMax (c : Core) (m : OptSt) : OptSt :=
  if c.nestinglevel < m.inargmax then
    if m.optiontype = .INT ∨ m.optiontype = .FLOAT then
      { m with
        inargmax := 0
        maxnumvalue := atof c.currtagbody
        userdefault :=
          if m.userdefault = true ∧ Dbl.lt (atof c.currtagbody) (atof m.userdefaultvalue) = true
          then false else m.userdefault }
    else { m with inargmax := 0 }
  else m

/-- End of `arg_min`: for a numeric option the bound is read and a user default
below it is made invalid. -/
def overInArgMin (c : Core) (m : OptSt) : OptSt :=
  if c.nestinglevel < m.inargmin then
    if m.optiontype = .INT ∨ m.optiontype = .FLOAT then
      { m with
        inargmin := 0
        minnumvalue := atof c.currtagbody
        userdefault :=
          if m.userdefault = true ∧ Dbl.lt (atof m.userdefaultvalue) (atof c.currtagbody) = true
          then false else m.userdefault }
    else { m with inargmin := 0 }
  else m

/-- The sentinels that are only cleared (source lines 1167-1178). -/
def clearSentinels (c : Core) (m : OptSt) : OptSt :=
  { m with
    inargshortname := if c.nestinglevel < m.inargshortname then 0 else m.inargshortname
    inargexecution := if c.nestinglevel < m.inargexecution then 0 else m.inargexecution
    inargpjl := if c.nestinglevel < m.inargpjl then 0 else m.inargpjl
    inevshortname := if c.nestinglevel < m.inevshortname then 0 else m.inevshortname }

/-! ## Option mode: the fields of a constraint (source lines 1179-1205) -/

/-- The text of a `printer` element as it is appended to `cprinter`: an id that
starts with `p` loses its first eight characters (`printer/`).  For a text of
fewer than eight characters this is the string at `currtagbody + 8` of an array
whose bytes behind the terminator are zero; `collectFieldsAt` reads the array
as the scan left it. -/
def shortPrinterId (body : CStr) : CStr :=
  if body.head? = some 'p' then body.drop 8 else body

/-- End of `printer`, `make`, `model`, `driver` and `arg_defval`: the sentinel is
cleared, and inside a constraint the text is appended to the field of the
constraint. -/
def collectFields (c : Core) (m : OptSt) : OptSt :=
  { m with
    inprinter := if c.nestinglevel < m.inprinter then 0 else m.inprinter
    cprinter :=
      if c.nestinglevel < m.inprinter ∧ m.inconstraint ≠ 0
      then m.cprinter ++ shortPrinterId c.currtagbody else m.cprinter
    inmake := if c.nestinglevel < m.inmake then 0 else m.inmake
    cmake :=
      if c.nestinglevel < m.inmake ∧ m.inconstraint ≠ 0
      then m.cmake ++ c.currtagbody else m.cmake
    inmodel := if c.nestinglevel < m.inmodel then 0 else m.inmodel
    cmodel :=
      if c.nestinglevel < m.inmodel ∧ m.inconstraint ≠ 0
      then m.cmodel ++ c.currtagbody else m.cmodel
    indriver := if c.nestinglevel < m.indriver then 0 else m.indriver
    cdriver :=
      if c.nestinglevel < m.indriver ∧ m.inconstraint ≠ 0
      then m.cdriver ++ c.currtagbody else m.cdriver
    inargdefault := if c.nestinglevel < m.inargdefault then 0 else m.inargdefault
    cargdefault :=
      if c.nestinglevel < m.inargdefault ∧ m.inconstraint ≠ 0
      then m.cargdefault ++ c.currtagbody else m.cargdefault }

/-! ## Option mode: evaluation of a constraint (source lines 1206-1328) -/

/-- Source `printerscore` of a completed constraint with the selectors
`cprinter`, `cmake`, `cmodel`. -/
def printerScore (ctx : Ctx) (cprinter cmake cmodel : CStr) : Int :=
  if cprinter ≠ [] then
    if translateid cprinter ctx.idlist = ctx.trpid then 2 else -1
  else if cmake ≠ [] then
    if cmake = ctx.make then
      if cmodel ≠ [] then
        if cmodel = ctx.model then 2 else -1
      else 1
    else -1
  else 0

/-- Source `driverscore` of a completed constraint with the selector `cdriver`,
for an array `cdriver` in which only zero bytes stand behind the terminator of
the selector: the selector matches when it is the requested driver, alone or
behind a prefix of seven characters (`driver/`).  `driverScoreAt` is the score
for an array with other bytes behind the terminator. -/
def driverScore (ctx : Ctx) (cdriver : CStr) : Int :=
  if cdriver ≠ [] then
    if cdriver = ctx.driver ∨ cdriver.drop 7 = ctx.driver then 1 else -1
  else 0

/-- The test "Any sort of match?" of the source (line 1285). -/
def gotMatch (ps ds : Int) : Bool :=
  decide ((ps > 0 ∨ ds > 0) ∧ (ps > -1 ∧ ds > -1))

/-- The test "Does this beat the best match to date?" of the source (line 1290). -/
def beatsBest (ps ds hp hd : Int) : Bool :=
  decide ((ps ≥ hp ∧ ds ≥ hd) ∨ ps = 2)

/-- The constraint is a null constraint (source line 1222). -/
def isNullConstraint (m : OptSt) : Bool :=
  decide (m.cmake = [] ∧ m.cmodel = [] ∧ m.cprinter = [] ∧ m.cdriver = [])

/-- The constraint has both a printer id and a make or model (source line 1227). -/
def hasPrinterAndMake (m : OptSt) : Bool :=
  decide ((m.cmake ≠ [] ∨ m.cmodel ≠ []) ∧ m.cprinter ≠ [])

/-- The actions of a winning constraint (source lines 1297-1324): the high
scores are raised, and the sense of the constraint becomes the qualification of
the enum value, or that of the option together with its default. -/
def recordWin (ps ds : Int) (m : OptSt) : OptSt :=
  { m with
    printerhiscore := if ps > m.printerhiscore then ps else m.printerhiscore
    driverhiscore := if ds > m.driverhiscore then ds else m.driverhiscore
    enumvalqualified := if m.inenumval ≠ 0 then m.csense else m.enumvalqualified
    optionqualified := if m.inenumval ≠ 0 then m.optionqualified else m.csense
    argdefault := if m.inenumval ≠ 0 then m.argdefault else m.cargdefault }

/-- Evaluation of the completed constraint held in `m`. -/
def evalConstraint (ctx : Ctx) (m : OptSt) : OptSt :=
  if isNullConstraint m then m
  else if hasPrinterAndMake m then m
  else
    let ps := printerScore ctx m.cprinter m.cmake m.cmodel
    let ds := driverScore ctx m.cdriver
    if gotMatch ps ds then
      if beatsBest ps ds m.printerhiscore m.driverhiscore then recordWin ps ds m else m
    else m

/-- End of a `constraint` element. -/
def overInConstraint (ctx : Ctx) (c : Core) (m : OptSt) : OptSt :=
  if c.nestinglevel < m.inconstraint then evalConstraint ctx { m with inconstraint := 0 } else m

/-! ## Option mode: end of `constraints`, `enum_val` and `option` (source lines 1329-1452) -/

/-- Deletion from an optional mark up to the cursor: nothing happens for `NULL`. -/
def deleteFrom (c : Core) : Option Nat → Step Core
  | some p => deleteSpan c p
  | none => .next c

/-- Insertion of an optional text at a mark. -/
def insertLine (c : Core) : Option (Nat × CStr) → Step Core
  | some (p, t) => insertAt c p t
  | none => .next c

/-- End of a `constraints` block, on the variables of the mode: an enum value
that did not qualify is marked for removal, an option that did not qualify is
discarded.  The second component is the mark from which the block is cut out of
the buffer: the block stays when the enum value around it goes anyway. -/
def constraintsEndM (c : Core) (m : OptSt) : Step (OptSt × Option Nat) :=
  if c.nestinglevel < m.inconstraints then
    if m.inenumval = 0 ∧ m.optionqualified = false then .discard c.comboconfirmed
    else
      let rem : Bool :=
        if m.inenumval ≠ 0 ∧ m.enumvalqualified = false then true else m.enumvaltoberemoved
      .next ({ m with inconstraints := 0, enumvaltoberemoved := rem },
        if m.inenumval = 0 ∨ rem = false then m.lastconstraints else none)
  else .next (m, none)

/-- End of a `constraints` block (source lines 1329-1377). -/
def overInConstraints (s : OState) : Step OState :=
  (constraintsEndM s.core s.m).bind fun r =>
    (deleteFrom s.core r.2).bind fun c => .next { core := c, m := r.1 }

/-- End of an `enum_val` element, on the variables of the mode: a value marked
for removal is cut out of the buffer from its mark, any other value is counted. -/
def enumValEndM (c : Core) (m : OptSt) : OptSt × Option Nat :=
  if c.nestinglevel < m.inenumval then
    if m.enumvaltoberemoved = true then ({ m with inenumval := 0 }, m.lastenumval)
    else ({ m with inenumval := 0, numenumvals := m.numenumvals + 1 }, none)
  else (m, none)

/-- End of an `enum_val` element (source lines 1378-1399). -/
def overInEnumVal (s : OState) : Step OState :=
  (deleteFrom s.core (enumValEndM s.core s.m).2).bind fun c =>
    .next { core := c, m := (enumValEndM s.core s.m).1 }

/-- The line written by `sprintf(defaultline, ...)`. -/
def defaultLine (argdefault : CStr) : CStr :=
  chNL :: lit "  <arg_defval>" ++ argdefault ++ lit "</arg_defval>"

/-- The value of `argdefault` that goes into the default line (source lines
1422-1436): the user's value for a boolean or numeric option, the id found for
the user's value for an enum option, the default of the winning constraint
otherwise. -/
def chosenDefault (m : OptSt) : CStr :=
  if m.userdefault = true then
    if m.optiontype = .ENUM then
      if m.userdefaultfound = true then m.userdefaultid else m.argdefault
    else m.userdefaultvalue
  else m.argdefault

/-- End of the `option` element, on the variables of the mode: the document is
discarded when no enum value applies or the option did not qualify; otherwise
the default line is inserted at the mark `lastoption` when there is a default
to write. -/
def optionEndM (c : Core) (m : OptSt) : Step (OptSt × Option (Nat × CStr)) :=
  if c.nestinglevel < m.inoption then
    if m.numenumvals = 0 ∨ m.optionqualified = false then .discard c.comboconfirmed
    else if m.argdefault ≠ [] ∨ m.userdefault = true then
      match m.lastoption with
      | some p =>
        .next ({ m with inoption := 0, argdefault := chosenDefault m },
          some (p, defaultLine (chosenDefault m)))
      | none => .next ({ m with inoption := 0 }, none)
    else .next ({ m with inoption := 0 }, none)
  else .next (m, none)

/-- End of the `option` element (source lines 1400-1452). -/
def overInOption (s : OState) : Step OState :=
  (optionEndM s.core s.m).bind fun r =>
    (insertLine s.core r.2).bind fun c => .next { core := c, m := r.1 }

/-- The actions at the end of a tag that touch only the variables of the mode
(source lines 1027-1328), in the order of the source. -/
def optEndM (ctx : Ctx) (c : Core) (m : OptSt) : OptSt :=
  overInConstraint ctx c
    (collectFields c (clearSentinels c (overInArgMin c (overInArgMax c (overInEn ctx c m)))))

/-- Action at the end of a tag in Option mode (source lines 1020-1452). -/
def optEnd (ctx : Ctx) (s : OState) : Step OState :=
  (overInConstraints { s with m := optEndM ctx s.core s.m }).bind fun s7 =>
    (overInEnumVal s7).bind fun s8 => overInOption s8

/-- The actions of `operation == PARSE_OP_OPTION`. -/
def optionHooks (ctx : Ctx) : Hooks OptSt where
  onName := optName ctx
  onParam := optParam
  onEnd := optEnd ctx

/-! ## The function `parse` in Option mode -/

/-- What a call of `parse` leaves behind. -/
inductive Outcome where
  /-- The call returned `ret`; `data` is the content of the buffer, `none` when
  the buffer was freed and `*data` set to `NULL`. -/
  | returned (data : Option CStr) (ret : Int)
  /-- The call ended the program with `exit(1)`. -/
  | fatal
  /-- The call left the model. -/
  | undefined
deriving DecidableEq, Repr

/-- The state at the start of `parse` in Option mode. -/
def optInit : OState := { core := {}, m := {} }

/-- The outcome of a scan that started at the beginning of the buffer. -/
def finish {σ : Type} : Step (PState σ) → Outcome
  | .next s => .returned (some s.core.out) s.core.comboconfirmed
  | .discard r => .returned none r
  | .fatal => .fatal
  | .undefined => .undefined

/-- Source `parse(&data, pid, driver, ..., PARSE_OP_OPTION, ...)` on the buffer
content `data`. -/
def parseOption (ctx : Ctx) (data : CStr) : Outcome :=
  finish (scanLoop (optionHooks ctx) optInit data)

/-! ## Derived notions used in the statements -/

/-- The completed constraint held in `m` wins: the evaluation reaches the branch
"This constraint wins" (source lines 1294-1324). -/
def constraintWins (ctx : Ctx) (m : OptSt) : Bool :=
  !isNullConstraint m && !hasPrinterAndMake m &&
    gotMatch (printerScore ctx m.cprinter m.cmake m.cmodel) (driverScore ctx m.cdriver) &&
    beatsBest (printerScore ctx m.cprinter m.cmake m.cmodel) (driverScore ctx m.cdriver)
      m.printerhiscore m.driverhiscore

/-- Request for the printer `HP-LaserJet` with the driver `hpijs`. -/
def ctxLaserJetHpijs : Ctx := { pid := lit "HP-LaserJet", driver := lit "hpijs" }

/-- A constraint at option scope that names the requested printer but another
driver (`gs`), with `sense="true"`, right after the opening of its block. -/
def mPrinterOtherDriver : OptSt :=
  { cprinter := lit "HP-LaserJet", cdriver := lit "gs", csense := true }

/-- A constraint inside an enum value that names the requested printer but
another driver (`gs`), with `sense="false"`; the enum value is still qualified. -/
def mEnumPrinterOtherDriver : OptSt :=
  { cprinter := lit "HP-LaserJet", cdriver := lit "driver/gs", csense := false,
    inenumval := 4, enumvalqualified := true }

/-- The scan loop over the part `pre` of the buffer content that is followed by
`suf`: the iterations on the characters of `pre`, with the look-ahead of the
comment test reaching into `suf`.  Scanning `pre ++ suf` is scanning `pre` and
then `suf` from the state reached (`scanLoop_append`). -/
def scanPrefix {σ : Type} (h : Hooks σ) : PState σ → CStr → CStr → Step (PState σ)
  | s, [], _ => .next s
  | s, ch :: pre, suf =>
    match step h s ch (pre ++ suf) with
    | .next s1 => scanPrefix h s1 pre suf
    | .discard r => .discard r
    | .fatal => .fatal
    | .undefined => .undefined

/-- The scanner is between two tags: no tag, comment, word or quotation is open. -/
def TextMode (c : Core) : Prop :=
  c.intag = false ∧ c.incomment = false ∧ c.inquotes = false ∧ c.insinglequotes = false ∧
    c.indoublequotes = false ∧ c.intagword = false

/-- A character of a tag name or of an unquoted word: neither `<`, nor a word
delimiter, nor a quote. -/
def PlainChar (ch : Char) : Prop :=
  ch ≠ '<' ∧ isDelim ch = false ∧ ch ≠ chSQ ∧ ch ≠ chDQ

/-- The state in which the action on a tag name runs, for a tag that starts in
state `s` with the characters `pre` (`<` or `</`) followed by the name `nm`. -/
def atTagName {σ : Type} (s : PState σ) (ty : Int) (pre nm : CStr) : PState σ :=
  { s with core := { s.core with
      intag := true
      tagnamefound := true
      tagtype := ty
      lasttag := s.core.out.length
      intagword := false
      tagwordstart := s.core.out.length + pre.length
      out := s.core.out ++ (pre ++ nm)
      currtagname := nm } }

/-- The scanned part of the buffer grows by `w`. -/
def advanceBy {σ : Type} (s : PState σ) (w : CStr) : PState σ :=
  { s with core := { s.core with out := s.core.out ++ w } }

/-! ## Derived notions of the tag scanner -/

/-- Inside a tag, in the middle of a word, outside quotes. -/
def InWord (c : Core) : Prop :=
  c.intag = true ∧ c.incomment = false ∧ c.intagword = true ∧ c.inquotes = false ∧
    c.insinglequotes = false ∧ c.indoublequotes = false

/-- Inside a tag, between two words. -/
def InGap (c : Core) : Prop :=
  c.intag = true ∧ c.incomment = false ∧ c.intagword = false ∧ c.inquotes = false ∧
    c.insinglequotes = false ∧ c.indoublequotes = false

/-- Inside a tag, in a word, inside double quotes. -/
def InDQ (c : Core) : Prop :=
  c.intag = true ∧ c.incomment = false ∧ c.intagword = true ∧ c.inquotes = true ∧
    c.insinglequotes = false ∧ c.indoublequotes = true

/-- The state right after the `<` of a tag that is not a comment. -/
def afterLt {σ : Type} (s : PState σ) : PState σ :=
  { s with core := { s.core with
      intag := true, tagnamefound := false, tagtype := TAG_OPEN, lasttag := s.core.out.length,
      out := s.core.out ++ ['<'] } }

/-- The state after the first character of a word. -/
def startWord {σ : Type} (s : PState σ) (ch : Char) : PState σ :=
  { s with core := { s.core with
      intagword := true, tagwordstart := s.core.out.length, out := s.core.out ++ [ch] } }

/-- The state after an opening double quote inside a word. -/
def openDQ {σ : Type} (s : PState σ) : PState σ :=
  { s with core := { s.core with
      indoublequotes := true, inquotes := true, out := s.core.out ++ [chDQ] } }

/-- The state after the closing double quote of a word. -/
def closeDQ {σ : Type} (s : PState σ) : PState σ :=
  { s with core := { s.core with
      indoublequotes := false, inquotes := false, out := s.core.out ++ [chDQ] } }

/-- A word of a tag: plain characters, or plain characters followed by a text
in double quotes that holds no quote. -/
inductive TagWord : CStr → Prop where
  | plain (ch : Char) (w : CStr) (h : ∀ c ∈ ch :: w, PlainChar c) : TagWord (ch :: w)
  | quoted (ch : Char) (a v : CStr) (ha : ∀ c ∈ ch :: a, PlainChar c)
      (hv : ∀ c ∈ v, c ≠ chDQ ∧ c ≠ chSQ) : TagWord (ch :: a ++ chDQ :: v ++ [chDQ])

/-- The state at the end of a word `w` that started between two words. -/
def afterWord {σ : Type} (s : PState σ) (w : CStr) : PState σ :=
  { s with core := { s.core with
      intagword := true, tagwordstart := s.core.out.length, out := s.core.out ++ w } }

/-- The flags of the tag scanner agree in two states. -/
def SameFlags (a b : Core) : Prop :=
  a.intag = b.intag ∧ a.incomment = b.incomment ∧ a.intagword = b.intagword ∧
    a.inquotes = b.inquotes ∧ a.insinglequotes = b.insinglequotes ∧
    a.indoublequotes = b.indoublequotes ∧ a.tagnamefound = b.tagnamefound

/-- The actions of a mode leave the flags of the tag scanner alone. -/
structure FlagSafe {σ : Type} (h : Hooks σ) : Prop where
  onName : ∀ s s1, h.onName s = .next s1 → SameFlags s1.core s.core
  onParam : ∀ s, SameFlags (h.onParam s).core s.core
  onEnd : ∀ s s1, h.onEnd s = .next s1 → SameFlags s1.core s.core

/-- The state in which the action on a tag name runs, when the name ends in
state `t`. -/
def nameState {σ : Type} (t : PState σ) : PState σ :=
  { t with core := { t.core with
      intagword := false, tagnamefound := true,
      currtagname := t.core.out.drop t.core.tagwordstart } }

/-- The state in which the action on a tag parameter runs, when the word ends
in state `t`. -/
def paramState {σ : Type} (t : PState σ) : PState σ :=
  { t with core := { t.core with
      intagword := false, currtagparam := t.core.out.drop t.core.tagwordstart } }

/-- The state after the `/` that follows the `<` of a closing tag. -/
def afterLtSlash {σ : Type} (s : PState σ) : PState σ :=
  { s with core := { s.core with
      intag := true, tagnamefound := false, tagtype := TAG_CLOSE, lasttag := s.core.out.length,
      out := s.core.out ++ ['<', '/'] } }

/-- A name of a tag: plain characters, the first of them not `!`. -/
def TagName (nm : CStr) : Prop :=
  ∃ ch w, nm = ch :: w ∧ ch ≠ '!' ∧ ∀ c ∈ ch :: w, PlainChar c

/-- The state in which the action on the parameter `w` runs, for a word that
starts in state `t`. -/
def atParam {σ : Type} (t : PState σ) (w : CStr) : PState σ :=
  { t with core := { t.core with
      intagword := false, tagwordstart := t.core.out.length, out := t.core.out ++ w,
      currtagparam := w } }

/-- Two values of the mode-independent variables differ at most in the scanned
part of the buffer. -/
def SameButOut (a b : Core) : Prop := a = { b with out := a.out }

instance (ch : Char) : Decidable (PlainChar ch) := by
  unfold PlainChar
  infer_instance

/-- The actions of a mode leave `comboconfirmed` alone. -/
structure ComboSafe {σ : Type} (h : Hooks σ) : Prop where
  onName : ∀ s s1, h.onName s = .next s1 → s1.core.comboconfirmed = s.core.comboconfirmed
  onParam : ∀ s, (h.onParam s).core.comboconfirmed = s.core.comboconfirmed
  onEnd : ∀ s s1, h.onEnd s = .next s1 → s1.core.comboconfirmed = s.core.comboconfirmed

/-- The action went on. -/
def Step.isNext {α : Type} : Step α → Bool
  | .next _ => true
  | _ => false

/-- The state in which the action went on, `d` when it did not. -/
def Step.getD {α : Type} : Step α → α → α
  | .next s, _ => s
  | _, d => d

instance (c : Core) : Decidable (TextMode c) := by
  unfold TextMode
  infer_instance

/-- Request for the printer `HP-LaserJet` with the driver `gs`, which does not
allow PJL options. -/
def ctxNoPjl : Ctx := { pid := lit "HP-LaserJet", driver := lit "gs", nopjl := true }

/-- The beginning of an option document, up to the inside of `arg_execution`. -/
def pjlDocPre : CStr :=
  lit "<option type=\"bool\" id=\"opt/1\">\n <arg_execution>\n  "

/-- The rest of that document behind `<arg_pjl `. -/
def pjlDocSuf : CStr :=
  lit "/>\n </arg_execution>\n</option>\n"

/-! ## Derived notions of Option mode: tags as events -/

/-- The state in which the end action of a tag runs, when the `>` is read in
state `t` and the last tag ended at offset `e`. -/
def endState {σ : Type} (t : PState σ) (e : Nat) : PState σ :=
  { t with core := { t.core with
      intag := false
      currtagbody := (t.core.out.drop (e + 1)).take (t.core.lasttag - e - 1)
      bodytail := staleBehind t.core.currtagbody t.core.bodytail
        ((t.core.out.drop (e + 1)).take (t.core.lasttag - e - 1))
      nestinglevel := t.core.nestinglevel + t.core.tagtype
      out := t.core.out ++ ['>'] } }

/-- The assignment `lasttagend = scan` that closes the end of a tag. -/
def markEnd {σ : Type} (s : PState σ) : PState σ :=
  { s with core := { s.core with lasttagend := some (s.core.out.length - 1) } }

/-- No child element of the option ends at nesting level `lv`: every sentinel
but `inoption` is at most `lv`. -/
structure Quiet (m : OptSt) (lv : Int) : Prop where
  inmake : m.inmake ≤ lv
  inmodel : m.inmodel ≤ lv
  indriver : m.indriver ≤ lv
  inprinter : m.inprinter ≤ lv
  inargshortname : m.inargshortname ≤ lv
  inargexecution : m.inargexecution ≤ lv
  inargpjl : m.inargpjl ≤ lv
  inevshortname : m.inevshortname ≤ lv
  inen : m.inen ≤ lv
  inargmax : m.inargmax ≤ lv
  inargmin : m.inargmin ≤ lv
  inenumval : m.inenumval ≤ lv
  inconstraints : m.inconstraints ≤ lv
  inconstraint : m.inconstraint ≤ lv
  inargdefault : m.inargdefault ≤ lv

/-- The scanner stands right behind a tag, between two tags, at nesting level `n`. -/
structure AfterTag (s : OState) (n : Int) : Prop where
  text : TextMode s.core
  level : s.core.nestinglevel = n
  mark : s.core.lasttagend = some (s.core.out.length - 1)
  nonempty : s.core.out ≠ []

/-- The mode-independent variables when the name action of a tag runs: the tag
starts with `pre` (`<` or `</`) and the name `nm`, behind the text `t` that
follows the last tag. -/
def nameCore (s : OState) (ty : Int) (t pre nm : CStr) : Core :=
  (atTagName (advanceBy s t) ty pre nm).core

/-- The mode-independent variables when the end action of that tag runs. -/
def endCore (s : OState) (ty : Int) (t pre nm : CStr) : Core :=
  { nameCore s ty t pre nm with
    intag := false
    currtagbody := t
    bodytail := staleBehind s.core.currtagbody s.core.bodytail t
    nestinglevel := s.core.nestinglevel + ty
    out := s.core.out ++ (t ++ (pre ++ (nm ++ ['>']))) }

/-- The state behind a tag whose end action has changed the variables of the
mode to `m1` and has not touched the buffer. -/
def afterTagState (s : OState) (ty : Int) (t pre nm : CStr) (m1 : OptSt) : OState :=
  markEnd { core := endCore s ty t pre nm, m := m1 }

/-- Request for the printer `HP-LaserJet` with the driver `gs`. -/
def ctxLaserJetGs : Ctx where
  pid := lit "HP-LaserJet"
  driver := lit "gs"
  make := lit "HP"
  model := lit "LaserJet"

/-- An enum option with one enum value and no constraints at option scope. -/
def docEnumNoConstraints : CStr :=
  lit "<option type=\"enum\" id=\"opt/1\">\n <enum_vals>\n  <enum_val id=\"ev/a\">\n  </enum_val>\n </enum_vals>\n</option>\n"

/-- A boolean option qualified by a constraint that carries no default value. -/
def docBoolNoDefault : CStr :=
  lit "<option type=\"bool\" id=\"opt/2\">\n <constraints>\n  <constraint sense=\"true\">\n   <driver>gs</driver>\n  </constraint>\n </constraints>\n</option>\n"

/-- The part of `docBoolWithDefault` before the text in front of `</option>`. -/
def docBoolWithDefaultPre : CStr :=
  lit "<option type=\"bool\" id=\"opt/3\">\n <arg_shortname><en>Duplex</en></arg_shortname>\n <constraints>\n  <constraint sense=\"true\">\n   <driver>gs</driver>\n   <arg_defval>0</arg_defval>\n  </constraint>\n </constraints>"

/-- The state of the scan of `docBoolWithDefaultPre`, followed by the closing
tag of the option. -/
def stBoolWithDefault : OState :=
  (scanPrefix (optionHooks ctxLaserJetGs) optInit docBoolWithDefaultPre
    ([chNL] ++ (lit "</option>" ++ [chNL]))).getD optInit

/-- The elements whose text is a field of a constraint. -/
inductive LeafKind where
  | printer
  | make
  | model
  | driver
  | argdefval
deriving DecidableEq, Repr

/-- The tag name of a field element. -/
def LeafKind.tag : LeafKind → CStr
  | .printer => lit "printer"
  | .make => lit "make"
  | .model => lit "model"
  | .driver => lit "driver"
  | .argdefval => lit "arg_defval"

/-- The sentinel of a field element set to `v`. -/
def LeafKind.setSentinel (k : LeafKind) (m : OptSt) (v : Int) : OptSt :=
  match k with
  | .printer => { m with inprinter := v }
  | .make => { m with inmake := v }
  | .model => { m with inmodel := v }
  | .driver => { m with indriver := v }
  | .argdefval => { m with inargdefault := v }

/-- What the end of a field element with the text `text` does inside a
constraint: the sentinel is cleared and the text joins the field. -/
def LeafKind.effect (k : LeafKind) (text : CStr) (m : OptSt) : OptSt :=
  match k with
  | .printer => { m with inprinter := 0, cprinter := m.cprinter ++ shortPrinterId text }
  | .make => { m with inmake := 0, cmake := m.cmake ++ text }
  | .model => { m with inmodel := 0, cmodel := m.cmodel ++ text }
  | .driver => { m with indriver := 0, cdriver := m.cdriver ++ text }
  | .argdefval => { m with inargdefault := 0, cargdefault := m.cargdefault ++ text }

/-- Scanning the text `txt` (followed by `suf`) from the state `s` goes on, and
ends right behind a tag at nesting level `n` with the scanned part `out` of the
buffer and the variables `m` of the mode. -/
def Scans (ctx : Ctx) (s : OState) (txt suf : CStr) (n : Int) (out : CStr) (m : OptSt) : Prop :=
  ∃ s1, scanPrefix (optionHooks ctx) s txt suf = .next s1 ∧ AfterTag s1 n ∧ s1.core.out = out ∧
    s1.m = m ∧ s1.core.comboconfirmed = s.core.comboconfirmed

/-- A field element of a constraint: white space, opening tag, text, closing
tag. -/
structure Leaf where
  ws : CStr
  kind : LeafKind
  text : CStr

/-- The text of a field element in the document. -/
def Leaf.render (l : Leaf) : CStr :=
  (l.ws ++ ('<' :: l.kind.tag ++ ['>'])) ++ (l.text ++ ('<' :: '/' :: l.kind.tag ++ ['>']))

/-- A field element holds no `<` in its white space and text. -/
def Leaf.Clean (l : Leaf) : Prop := (∀ c ∈ l.ws, c ≠ '<') ∧ (∀ c ∈ l.text, c ≠ '<')

/-- The texts of a list of field elements, one behind the other. -/
def renderLeaves : List Leaf → CStr
  | [] => []
  | l :: ls => l.render ++ renderLeaves ls

/-- What a list of field elements does to the fields of the constraint. -/
def leavesEffect : List Leaf → OptSt → OptSt
  | [], m => m
  | l :: ls, m => leavesEffect ls (l.kind.effect l.text m)

/-- The mode-independent variables when the action on the parameter `w` of the
opening tag `<nm w>` runs, behind the text `t` that follows the last tag. -/
def paramCore (s : OState) (t nm w : CStr) : Core :=
  (atParam (advance (atTagName (advanceBy s t) TAG_OPEN ['<'] nm) ' ') w).core

/-- The state behind the opening tag `<nm w>` whose end action finds nothing to
do. -/
def afterParamTag (s : OState) (t nm w : CStr) (m2 : OptSt) : OState :=
  markEnd (endState { core := paramCore s t nm w, m := m2 } (s.core.out.length - 1))

/-- The parameter `sense="true"` or `sense="false"` of a constraint. -/
def senseWord (b : Bool) : CStr :=
  's' :: lit "ense=" ++ chDQ :: (if b then lit "true" else lit "false") ++ [chDQ]

/-- A constraint element: white space, the opening tag with its sense, the field
elements, white space, the closing tag. -/
structure Constraint where
  ws : CStr
  sense : Bool
  fields : List Leaf
  wsEnd : CStr

/-- The text of a constraint element in the document. -/
def Constraint.render (c : Constraint) : CStr :=
  (c.ws ++ (('<' :: lit "constraint" ++ [' ']) ++ (senseWord c.sense ++ ['>']))) ++
    (renderLeaves c.fields ++ (c.wsEnd ++ ('<' :: '/' :: lit "constraint" ++ ['>'])))

/-- A constraint element holds no `<` in its white space and texts. -/
def Constraint.Clean (c : Constraint) : Prop :=
  (∀ ch ∈ c.ws, ch ≠ '<') ∧ (∀ l ∈ c.fields, l.Clean) ∧ (∀ ch ∈ c.wsEnd, ch ≠ '<')

/-- The variables of the mode behind the opening tag of a constraint whose
sentinel is `v`. -/
def Constraint.start (c : Constraint) (v : Int) (m : OptSt) : OptSt :=
  { m with
    inconstraint := v, cprinter := [], cmake := [], cmodel := [], cdriver := [],
    cargdefault := [], csense := c.sense }

/-- What a constraint element does to the variables of the mode: its fields are
collected and the completed constraint is evaluated. -/
def Constraint.effect (ctx : Ctx) (c : Constraint) (m : OptSt) : OptSt :=
  evalConstraint ctx (leavesEffect c.fields (c.start 0 m))

/-- The texts of a list of constraint elements, one behind the other. -/
def renderConstraints : List Constraint → CStr
  | [] => []
  | c :: cs => c.render ++ renderConstraints cs

/-- What a list of constraint elements does to the variables of the mode. -/
def constraintsEffect (ctx : Ctx) : List Constraint → OptSt → OptSt
  | [], m => m
  | c :: cs, m => constraintsEffect ctx cs (c.effect ctx m)

/-- A `constraints` block: white space, the opening tag, the constraint
elements, white space, the closing tag. -/
structure Block where
  ws : CStr
  cs : List Constraint
  wsEnd : CStr

/-- The text of a `constraints` block in the document. -/
def Block.render (b : Block) : CStr :=
  (b.ws ++ ('<' :: lit "constraints" ++ ['>'])) ++
    (renderConstraints b.cs ++ (b.wsEnd ++ ('<' :: '/' :: lit "constraints" ++ ['>'])))

/-- A `constraints` block holds no `<` in its white space and texts. -/
def Block.Clean (b : Block) : Prop :=
  (∀ ch ∈ b.ws, ch ≠ '<') ∧ (∀ c ∈ b.cs, c.Clean) ∧ (∀ ch ∈ b.wsEnd, ch ≠ '<')

/-- The variables of the mode behind the opening tag of a `constraints` block
that starts at offset `mark`, with the sentinel `v`. -/
def blockStart (mark : Nat) (v : Int) (m : OptSt) : OptSt :=
  { m with inconstraints := v, printerhiscore := 0, driverhiscore := 0,
           lastconstraints := some mark }

/-- The variables of the mode when the constraints of the block that starts at
offset `mark` have been evaluated, one after the other. -/
def Block.verdict (ctx : Ctx) (b : Block) (mark : Nat) (m : OptSt) : OptSt :=
  constraintsEffect ctx b.cs (blockStart mark 0 m)

/-- No element whose end is handled on the variables of the mode alone ends at
nesting level `lv`: the sentinels read by `optEndM` are at most `lv`. -/
structure Calm (m : OptSt) (lv : Int) : Prop where
  inmake : m.inmake ≤ lv
  inmodel : m.inmodel ≤ lv
  indriver : m.indriver ≤ lv
  inprinter : m.inprinter ≤ lv
  inargshortname : m.inargshortname ≤ lv
  inargexecution : m.inargexecution ≤ lv
  inargpjl : m.inargpjl ≤ lv
  inevshortname : m.inevshortname ≤ lv
  inen : m.inen ≤ lv
  inargmax : m.inargmax ≤ lv
  inargmin : m.inargmin ≤ lv
  inconstraint : m.inconstraint ≤ lv
  inargdefault : m.inargdefault ≤ lv

/-- The text that a field element adds to its field: a printer id is shortened. -/
def Leaf.value (l : Leaf) : CStr :=
  if l.kind = .printer then shortPrinterId l.text else l.text

/-- The sentinel of the field elements of kind `k` behind the field elements
`ls`, from the value `v`. -/
def sentinelBehind (k : LeafKind) : List Leaf → Int → Int
  | [], v => v
  | l :: ls, v => sentinelBehind k ls (if l.kind = k then 0 else v)

/-- The field of kind `k` behind the field elements `ls`, from the content `f`. -/
def fieldBehind (k : LeafKind) : List Leaf → CStr → CStr
  | [], f => f
  | l :: ls, f => fieldBehind k ls (if l.kind = k then f ++ l.value else f)

/-- The variables of the mode behind the field elements `ls` of a constraint. -/
def collect (ls : List Leaf) (m : OptSt) : OptSt :=
  { m with
    inprinter := sentinelBehind .printer ls m.inprinter
    cprinter := fieldBehind .printer ls m.cprinter
    inmake := sentinelBehind .make ls m.inmake
    cmake := fieldBehind .make ls m.cmake
    inmodel := sentinelBehind .model ls m.inmodel
    cmodel := fieldBehind .model ls m.cmodel
    indriver := sentinelBehind .driver ls m.indriver
    cdriver := fieldBehind .driver ls m.cdriver
    inargdefault := sentinelBehind .argdefval ls m.inargdefault
    cargdefault := fieldBehind .argdefval ls m.cargdefault }

/-- The selector of kind `k` of a constraint, as collected from its field
elements. -/
def Constraint.selector (c : Constraint) (k : LeafKind) : CStr := fieldBehind k c.fields []

/-- Source `printerscore` of a constraint element. -/
def Constraint.printerScore (ctx : Ctx) (c : Constraint) : Int :=
  Foomatic.printerScore ctx (c.selector .printer) (c.selector .make) (c.selector .model)

/-- Source `driverscore` of a constraint element. -/
def Constraint.driverScore (ctx : Ctx) (c : Constraint) : Int :=
  Foomatic.driverScore ctx (c.selector .driver)

/-- The constraint element wins against the high scores `hp` and `hd`. -/
def Constraint.wins (ctx : Ctx) (c : Constraint) (hp hd : Int) : Bool :=
  constraintWins ctx
    { cprinter := c.selector .printer, cmake := c.selector .make, cmodel := c.selector .model,
      cdriver := c.selector .driver, printerhiscore := hp, driverhiscore := hd }

/-- The constraint selects the requested printer by its id: the printer selector
translates to the translated requested id, there is no make or model selector,
and a driver selector, if there is one, matches the requested driver. -/
structure SelectsPrinter (ctx : Ctx) (c : Constraint) : Prop where
  printer : c.selector .printer ≠ []
  exact : translateid (c.selector .printer) ctx.idlist = ctx.trpid
  make : c.selector .make = []
  model : c.selector .model = []
  driver : c.driverScore ctx ≠ -1

/-- The constraint has a make selector only, and it is the make of the printer. -/
structure SelectsMake (ctx : Ctx) (c : Constraint) : Prop where
  printer : c.selector .printer = []
  make : c.selector .make = ctx.make
  nonempty : c.selector .make ≠ []
  model : c.selector .model = []
  driver : c.selector .driver = []

/-- The `constraints` block of the two constraints `a` and `b`, in this order
or in the other. -/
def twoBlock (ws : CStr) (a b : Constraint) (wsEnd : CStr) (aFirst : Bool) : Block :=
  { ws := ws, cs := if aFirst then [a, b] else [b, a], wsEnd := wsEnd }

instance (l : Leaf) : Decidable l.Clean := by
  unfold Leaf.Clean
  infer_instance

instance (c : Constraint) : Decidable c.Clean := by
  unfold Constraint.Clean
  infer_instance

instance (b : Block) : Decidable b.Clean := by
  unfold Block.Clean
  infer_instance

/-- A constraint with sense `false` whose printer selector is the requested
printer and whose driver selector is another driver. -/
def cPrinterOtherDriver : Constraint where
  ws := lit "\n  "
  sense := false
  fields := [⟨lit "\n   ", .printer, lit "printer/HP-LaserJet"⟩, ⟨lit "\n   ", .driver, lit "other"⟩]
  wsEnd := lit "\n  "

/-- A constraint with sense `false` that selects the printer `HP-LaserJet` by
its id. -/
def cPrinter : Constraint where
  ws := lit "\n  "
  sense := false
  fields := [⟨lit "\n   ", .printer, lit "printer/HP-LaserJet"⟩]
  wsEnd := lit "\n  "

/-- A constraint with sense `true` that selects the make `HP`. -/
def cMake : Constraint where
  ws := lit "\n  "
  sense := true
  fields := [⟨lit "\n   ", .make, lit "HP"⟩]
  wsEnd := lit "\n  "

/-- The opening tag of a boolean option. -/
def boolHead : CStr := lit "<option type=\"bool\" id=\"opt/5\">"

/-- The closing tag of an option. -/
def optionTail : CStr := lit "\n</option>\n"

/-- An enum option up to a `constraints` block in its first enum value. -/
def enumHead : CStr :=
  lit "<option type=\"enum\" id=\"opt/6\">\n <enum_vals>\n  <enum_val id=\"ev/a\">\n   <ev_shortname><en>A</en></ev_shortname>"

/-- The rest of the enum option behind the closing tag of its first enum value. -/
def enumTail : CStr := lit "\n </enum_vals>\n</option>\n"

/-- The state of the scan in front of the block of `cMake` and `cPrinter` at
option scope. -/
def stBoolHead : OState :=
  (scanPrefix (optionHooks ctxLaserJetGs) optInit boolHead
    ((twoBlock (lit "\n ") cPrinter cMake (lit "\n ") false).render ++ optionTail)).getD optInit

/-- The state of the scan in front of the block of `cPrinter` and `cMake` in
the first enum value. -/
def stEnumHead : OState :=
  (scanPrefix (optionHooks ctxLaserJetGs) optInit enumHead
    ((twoBlock (lit "\n   ") cPrinter cMake (lit "\n   ") true).render ++
      (lit "\n  " ++ (lit "</enum_val>" ++ enumTail)))).getD optInit

/-- The tag name is none of those that Option mode acts on. -/
def Unknown (nm : CStr) : Prop :=
  nm ≠ lit "make" ∧ nm ≠ lit "model" ∧ nm ≠ lit "driver" ∧ nm ≠ lit "printer" ∧
  nm ≠ lit "arg_defval" ∧ nm ≠ lit "arg_shortname" ∧ nm ≠ lit "arg_execution" ∧
  nm ≠ lit "arg_pjl" ∧ nm ≠ lit "arg_max" ∧ nm ≠ lit "arg_min" ∧ nm ≠ lit "ev_shortname" ∧
  nm ≠ lit "en" ∧ nm ≠ lit "enum_val" ∧ nm ≠ lit "constraints" ∧ nm ≠ lit "constraint" ∧
  nm ≠ lit "option"

instance (nm : CStr) : Decidable (Unknown nm) := by
  unfold Unknown
  infer_instance

instance (nm : CStr) : Decidable (TagName nm) := by
  unfold TagName
  exact match nm with
    | [] => isFalse (by rintro ⟨ch, w, h, _⟩; cases h)
    | ch :: w =>
      if h : ch ≠ '!' ∧ ∀ c ∈ ch :: w, PlainChar c then isTrue ⟨ch, w, rfl, h.1, h.2⟩
      else isFalse (by
        rintro ⟨ch1, w1, e, h1, h2⟩
        cases e
        exact h ⟨h1, h2⟩)

/-- No child element of the option or of the enum value is open: every sentinel
but `inoption` and `inenumval` is 0. -/
structure Rest (m : OptSt) : Prop where
  inmake : m.inmake = 0
  inmodel : m.inmodel = 0
  indriver : m.indriver = 0
  inprinter : m.inprinter = 0
  inargshortname : m.inargshortname = 0
  inargexecution : m.inargexecution = 0
  inargpjl : m.inargpjl = 0
  inevshortname : m.inevshortname = 0
  inen : m.inen = 0
  inargmax : m.inargmax = 0
  inargmin : m.inargmin = 0
  inconstraints : m.inconstraints = 0
  inconstraint : m.inconstraint = 0
  inargdefault : m.inargdefault = 0

/-- The sentinels of two values of the variables of the mode agree. -/
structure SameSentinels (a b : OptSt) : Prop where
  inmake : a.inmake = b.inmake
  inmodel : a.inmodel = b.inmodel
  indriver : a.indriver = b.indriver
  inprinter : a.inprinter = b.inprinter
  inoption : a.inoption = b.inoption
  inargshortname : a.inargshortname = b.inargshortname
  inargexecution : a.inargexecution = b.inargexecution
  inargpjl : a.inargpjl = b.inargpjl
  inevshortname : a.inevshortname = b.inevshortname
  inen : a.inen = b.inen
  inargmax : a.inargmax = b.inargmax
  inargmin : a.inargmin = b.inargmin
  inenumval : a.inenumval = b.inenumval
  inconstraints : a.inconstraints = b.inconstraints
  inconstraint : a.inconstraint = b.inconstraint
  inargdefault : a.inargdefault = b.inargdefault

/-- What the end of an `en` element with the text `text` does to the variables
of the mode. -/
def enEffect (ctx : Ctx) (text : CStr) (m : OptSt) : OptSt :=
  if m.inargshortname ≠ 0 then
    ctx.defaultsettings.foldl (applySetting text) { m with inen := 0 }
  else if m.inevshortname ≠ 0 ∧ m.userdefault = true ∧ m.userdefaultvalue = text then
    { m with inen := 0, userdefaultid := m.currevid, userdefaultfound := true }
  else { m with inen := 0 }

/-- The text of an element `<nm><en>text</en></nm>`. -/
def renderWrapped (ws nm ws1 text ws2 : CStr) : CStr :=
  (ws ++ ('<' :: nm ++ ['>'])) ++
    (((ws1 ++ ('<' :: lit "en" ++ ['>'])) ++ (text ++ ('<' :: '/' :: lit "en" ++ ['>']))) ++
      (ws2 ++ ('<' :: '/' :: nm ++ ['>'])))

/-- What an element `<nm><en>text</en></nm>` with a name that Option mode does
not know does to the variables of the mode: the sentinel of `en` is cleared. -/
def wrappedEffect (m : OptSt) : OptSt := { m with inen := 0 }

/-- What one setting of the command line says about the option with the short
name `body` and the type `ty`: `none` when the setting does not name the
option, otherwise whether the value is accepted, and the value. -/
def settingOutcome (body : CStr) (ty : OptionType) (ds : CStr) : Option (Bool × CStr) :=
  if strstr ds body = some ds ∧ (ds.drop body.length).head? = some '=' then
    let v := ds.drop (body.length + 1)
    match ty with
    | .BOOL =>
      if strcaseeq v (lit "true") || strcaseeq v (lit "yes") || strcaseeq v (lit "on") then
        some (true, lit "1")
      else if strcaseeq v (lit "false") || strcaseeq v (lit "no") || strcaseeq v (lit "off") then
        some (true, lit "0")
      else if !strcaseeq v (lit "0") && !strcaseeq v (lit "1") then some (false, v)
      else some (true, v)
    | .INT => if strspn v (lit "+-0123456789") < v.length then some (false, v) else some (true, v)
    | .FLOAT =>
      if strspn v (lit "+-0123456789.eE") < v.length then some (false, v) else some (true, v)
    | .ENUM => some (true, v)
  else if ds = body ∧ ty = .BOOL then some (true, lit "1")
  else if ds.drop 2 = body ∧ strncaseeq ds (lit "no") 2 = true ∧ ty = .BOOL then
    some (true, lit "0")
  else none

/-- The user default in `m` replaced by an outcome, if there is one. -/
def setUserDefault (m : OptSt) : Option (Bool × CStr) → OptSt
  | some p => { m with userdefault := p.1, userdefaultvalue := p.2 }
  | none => m

/-- What the settings of the command line say about the option: the last
setting that names the option decides. -/
def lastOutcome (body : CStr) (ty : OptionType) : List CStr → Option (Bool × CStr)
  | [] => none
  | ds :: l =>
    match lastOutcome body ty l with
    | some p => some p
    | none => settingOutcome body ty ds

/-- What an `arg_shortname` element with the text `text` does to the variables
of the mode: the last setting of the command line that names the option sets
the user default. -/
def shortnameEffect (ctx : Ctx) (text : CStr) (m : OptSt) : OptSt :=
  setUserDefault { m with inen := 0, inargshortname := 0 }
    (lastOutcome text m.optiontype ctx.defaultsettings)

/-- What an `ev_shortname` element with the text `text` does to the variables
of the mode: when the text is the value of the user default, the id of the enum
value becomes the id of the user default. -/
def evShortnameEffect (text : CStr) (m : OptSt) : OptSt :=
  if m.userdefault = true ∧ m.userdefaultvalue = text then
    { m with inen := 0, inevshortname := 0, userdefaultid := m.currevid, userdefaultfound := true }
  else { m with inen := 0, inevshortname := 0 }

/-- What an `arg_max` element with the text `text` does to the variables of the
mode. -/
def argMaxEffect (text : CStr) (m : OptSt) : OptSt :=
  if m.optiontype = .INT ∨ m.optiontype = .FLOAT then
    { m with
      inargmax := 0
      maxnumvalue := atof text
      userdefault :=
        if m.userdefault = true ∧ Dbl.lt (atof text) (atof m.userdefaultvalue) = true
        then false else m.userdefault }
  else { m with inargmax := 0 }

/-- What an `arg_min` element with the text `text` does to the variables of the
mode. -/
def argMinEffect (text : CStr) (m : OptSt) : OptSt :=
  if m.optiontype = .INT ∨ m.optiontype = .FLOAT then
    { m with
      inargmin := 0
      minnumvalue := atof text
      userdefault :=
        if m.userdefault = true ∧ Dbl.lt (atof m.userdefaultvalue) (atof text) = true
        then false else m.userdefault }
  else { m with inargmin := 0 }

/-- The outcome of the parse at the closing tag of the option element, with
`out` scanned before the text `t` in front of the closing tag and the variables
`m` of the mode: the document is dropped when no enum value applies or the
option did not qualify; otherwise the default line is inserted when there is a
default to write. -/
def closeOutcome (out : CStr) (m : OptSt) (t trailer : CStr) : Outcome :=
  if m.numenumvals = 0 ∨ m.optionqualified = false then .returned none 0
  else if m.argdefault ≠ [] ∨ m.userdefault = true then
    .returned (some (out ++ (defaultLine (chosenDefault m) ++ (t ++ (lit "</option>" ++ trailer)))))
      0
  else .returned (some (out ++ (t ++ (lit "</option>" ++ trailer)))) 0

/-- An element that Option mode reads over: an element with a name it does not
know, a field element outside constraints, or an element with an unknown name
that wraps an `en` element. -/
inductive Filler where
  | plain (ws nm text : CStr)
  | field (l : Leaf)
  | wrapped (ws nm ws1 text ws2 : CStr)

/-- The text of a filler element in the document. -/
def Filler.render : Filler → CStr
  | .plain ws nm text => (ws ++ ('<' :: nm ++ ['>'])) ++ (text ++ ('<' :: '/' :: nm ++ ['>']))
  | .field l => l.render
  | .wrapped ws nm ws1 text ws2 => renderWrapped ws nm ws1 text ws2

/-- The texts of a filler element hold no `<`, and its name is a tag name that
Option mode does not know. -/
def Filler.Clean : Filler → Prop
  | .plain ws nm text =>
    (∀ c ∈ ws, c ≠ '<') ∧ (∀ c ∈ text, c ≠ '<') ∧ TagName nm ∧ Unknown nm
  | .field l => l.Clean
  | .wrapped ws nm ws1 text ws2 =>
    (∀ c ∈ ws, c ≠ '<') ∧ (∀ c ∈ ws1, c ≠ '<') ∧ (∀ c ∈ text, c ≠ '<') ∧
      (∀ c ∈ ws2, c ≠ '<') ∧ TagName nm ∧ Unknown nm

instance (f : Filler) : Decidable f.Clean := by
  cases f <;> unfold Filler.Clean <;> infer_instance

/-- What a filler element does to the variables of the mode: it clears a
sentinel at most. -/
def Filler.effect : Filler → OptSt → OptSt
  | .plain _ _ _, m => m
  | .field l, m => l.kind.setSentinel m 0
  | .wrapped _ _ _ _ _, m => wrappedEffect m

/-- The variables of the mode between two child elements: no child element is
open, and the sentinels of the enum value and of the option are `e` and `o`. -/
structure Frame (m : OptSt) (e o : Int) : Prop where
  rest : Rest m
  inenumval : m.inenumval = e
  inoption : m.inoption = o

/-- A child element of an enum value: a filler element or the `ev_shortname`
element. -/
inductive EvItem where
  | filler (f : Filler)
  | shortname (ws ws1 text ws2 : CStr)

/-- The text of a child element of an enum value in the document. -/
def EvItem.render : EvItem → CStr
  | .filler f => f.render
  | .shortname ws ws1 text ws2 => renderWrapped ws (lit "ev_shortname") ws1 text ws2

/-- The texts of a child element of an enum value hold no `<`. -/
def EvItem.Clean : EvItem → Prop
  | .filler f => f.Clean
  | .shortname ws ws1 text ws2 =>
    (∀ c ∈ ws, c ≠ '<') ∧ (∀ c ∈ ws1, c ≠ '<') ∧ (∀ c ∈ text, c ≠ '<') ∧ (∀ c ∈ ws2, c ≠ '<')

instance (i : EvItem) : Decidable i.Clean := by
  cases i <;> unfold EvItem.Clean <;> infer_instance

/-- What a child element of an enum value does to the variables of the mode. -/
def EvItem.effect : EvItem → OptSt → OptSt
  | .filler f, m => f.effect m
  | .shortname _ _ text _, m => evShortnameEffect text m

/-- The texts of a list of child elements of an enum value, one behind the other. -/
def renderEvItems : List EvItem → CStr
  | [] => []
  | i :: l => i.render ++ renderEvItems l

/-- What a list of child elements of an enum value does to the variables of the
mode. -/
def evItemsEffect : List EvItem → OptSt → OptSt
  | [], m => m
  | i :: l, m => evItemsEffect l (i.effect m)

/-- The parameter `id="..."` of an enum value. -/
def idWord (id : CStr) : CStr := 'i' :: lit "d=" ++ chDQ :: id ++ [chDQ]

/-- An enum value: white space, the opening tag with its id, child elements, an
optional `constraints` block, white space, the closing tag. -/
structure EnumVal where
  ws : CStr
  id : CStr
  items : List EvItem
  block : Option Block
  wsEnd : CStr

/-- The text of the opening tag of an enum value, with the white space in front
of it. -/
def EnumVal.head (ev : EnumVal) : CStr :=
  ev.ws ++ (('<' :: lit "enum_val" ++ [' ']) ++ (idWord ev.id ++ ['>']))

/-- The text of the optional `constraints` block. -/
def renderBlock : Option Block → CStr
  | some b => b.render
  | none => []

/-- The text of the closing tag of an enum value, with the white space in front
of it. -/
def EnumVal.tail (ev : EnumVal) : CStr := ev.wsEnd ++ ('<' :: '/' :: lit "enum_val" ++ ['>'])

/-- The text of an enum value in the document. -/
def EnumVal.render (ev : EnumVal) : CStr :=
  ev.head ++ (renderEvItems ev.items ++ (renderBlock ev.block ++ ev.tail))

/-- The text of an enum value that stays in the document: its `constraints`
block is gone. -/
def EnumVal.kept (ev : EnumVal) : CStr := ev.head ++ (renderEvItems ev.items ++ ev.tail)

/-- The texts of an enum value hold no `<`, and its id holds no quote. -/
def EnumVal.Clean (ev : EnumVal) : Prop :=
  (∀ c ∈ ev.ws, c ≠ '<') ∧ (∀ c ∈ ev.id, c ≠ chDQ ∧ c ≠ chSQ) ∧ (∀ i ∈ ev.items, i.Clean) ∧
    (∀ b ∈ ev.block, b.Clean) ∧ (∀ c ∈ ev.wsEnd, c ≠ '<')

instance (ev : EnumVal) : Decidable ev.Clean := by
  unfold EnumVal.Clean
  have : Decidable (∀ b ∈ ev.block, b.Clean) :=
    match ev.block with
    | none => isTrue (by simp)
    | some b => if h : b.Clean then isTrue (by simpa using h) else isFalse (by simpa using h)
  infer_instance

/-- The variables of the mode behind the opening tag of an enum value at nesting
level `n`, with `out` scanned before the enum value. -/
def EnumVal.start (ev : EnumVal) (n : Int) (out : CStr) (m : OptSt) : OptSt :=
  { m with
    inenumval := n + 1, enumvalqualified := true, enumvaltoberemoved := false,
    lastenumval := some out.length, currevid := ev.id }

/-- The variables of the mode behind the optional `constraints` block of an
enum value: an enum value that does not qualify is marked for removal. -/
def judgeBlock (ctx : Ctx) (mark : Nat) (m : OptSt) : Option Block → OptSt
  | none => m
  | some b =>
    if (b.verdict ctx mark m).enumvalqualified = true ∧
        (b.verdict ctx mark m).enumvaltoberemoved = false then
      { b.verdict ctx mark m with inconstraints := 0 }
    else { b.verdict ctx mark m with inconstraints := 0, enumvaltoberemoved := true }

/-- The variables of the mode in front of the closing tag of an enum value. -/
def EnumVal.judged (ctx : Ctx) (ev : EnumVal) (n : Int) (out : CStr) (m : OptSt) : OptSt :=
  judgeBlock ctx (out ++ (ev.head ++ renderEvItems ev.items)).length
    (evItemsEffect ev.items (ev.start n out m)) ev.block

/-- The scanned part of the buffer and the variables of the mode behind an enum
value: an enum value marked for removal is cut out, any other is counted. -/
def EnumVal.run (ctx : Ctx) (ev : EnumVal) (n : Int) (x : CStr × OptSt) : CStr × OptSt :=
  if (ev.judged ctx n x.1 x.2).enumvaltoberemoved = true then
    (x.1, { ev.judged ctx n x.1 x.2 with inenumval := 0 })
  else
    (x.1 ++ ev.kept,
      { ev.judged ctx n x.1 x.2 with
        inenumval := 0, numenumvals := (ev.judged ctx n x.1 x.2).numenumvals + 1 })

/-- Two values of the variables of the mode agree in everything but the
sentinels and the id found for the user default. -/
structure SameData (a b : OptSt) : Prop where
  enumvaltoberemoved : a.enumvaltoberemoved = b.enumvaltoberemoved
  optionqualified : a.optionqualified = b.optionqualified
  enumvalqualified : a.enumvalqualified = b.enumvalqualified
  numenumvals : a.numenumvals = b.numenumvals
  optiontype : a.optiontype = b.optiontype
  printerhiscore : a.printerhiscore = b.printerhiscore
  driverhiscore : a.driverhiscore = b.driverhiscore
  userdefault : a.userdefault = b.userdefault
  userdefaultvalue : a.userdefaultvalue = b.userdefaultvalue
  currevid : a.currevid = b.currevid
  maxnumvalue : a.maxnumvalue = b.maxnumvalue
  minnumvalue : a.minnumvalue = b.minnumvalue
  csense : a.csense = b.csense
  cprinter : a.cprinter = b.cprinter
  cmake : a.cmake = b.cmake
  cmodel : a.cmodel = b.cmodel
  cdriver : a.cdriver = b.cdriver
  cargdefault : a.cargdefault = b.cargdefault
  argdefault : a.argdefault = b.argdefault
  lastenumval : a.lastenumval = b.lastenumval
  lastconstraints : a.lastconstraints = b.lastconstraints
  lastoption : a.lastoption = b.lastoption

/-- The texts of a list of enum values, one behind the other. -/
def renderEnumVals : List EnumVal → CStr
  | [] => []
  | ev :: l => ev.render ++ renderEnumVals l

/-- The scanned part of the buffer and the variables of the mode behind a list
of enum values. -/
def runEnumVals (ctx : Ctx) (n : Int) : List EnumVal → CStr × OptSt → CStr × OptSt
  | [], x => x
  | ev :: l, x => runEnumVals ctx n l (ev.run ctx n x)

/-- A child element of the option: a filler element, the `arg_shortname`
element, `arg_max`, `arg_min`, a `constraints` block, or the element
`enum_vals` with its enum values. -/
inductive Item where
  | filler (f : Filler)
  | shortname (ws ws1 text ws2 : CStr)
  | argmax (ws text : CStr)
  | argmin (ws text : CStr)
  | block (b : Block)
  | enumvals (ws : CStr) (evs : List EnumVal) (wsEnd : CStr)

/-- The text of a child element of the option in the document. -/
def Item.render : Item → CStr
  | .filler f => f.render
  | .shortname ws ws1 text ws2 => renderWrapped ws (lit "arg_shortname") ws1 text ws2
  | .argmax ws text =>
    (ws ++ ('<' :: lit "arg_max" ++ ['>'])) ++ (text ++ ('<' :: '/' :: lit "arg_max" ++ ['>']))
  | .argmin ws text =>
    (ws ++ ('<' :: lit "arg_min" ++ ['>'])) ++ (text ++ ('<' :: '/' :: lit "arg_min" ++ ['>']))
  | .block b => b.render
  | .enumvals ws evs wsEnd =>
    (ws ++ ('<' :: lit "enum_vals" ++ ['>'])) ++
      (renderEnumVals evs ++ (wsEnd ++ ('<' :: '/' :: lit "enum_vals" ++ ['>'])))

/-- The texts of a child element of the option hold no `<`. -/
def Item.Clean : Item → Prop
  | .filler f => f.Clean
  | .shortname ws ws1 text ws2 =>
    (∀ c ∈ ws, c ≠ '<') ∧ (∀ c ∈ ws1, c ≠ '<') ∧ (∀ c ∈ text, c ≠ '<') ∧ (∀ c ∈ ws2, c ≠ '<')
  | .argmax ws text => (∀ c ∈ ws, c ≠ '<') ∧ (∀ c ∈ text, c ≠ '<')
  | .argmin ws text => (∀ c ∈ ws, c ≠ '<') ∧ (∀ c ∈ text, c ≠ '<')
  | .block b => b.Clean
  | .enumvals ws evs wsEnd =>
    (∀ c ∈ ws, c ≠ '<') ∧ (∀ ev ∈ evs, ev.Clean) ∧ (∀ c ∈ wsEnd, c ≠ '<')

instance (i : Item) : Decidable i.Clean := by
  cases i <;> unfold Item.Clean <;> infer_instance

/-- The scanned part of the buffer and the variables of the mode behind a child
element of the option at nesting level `n`; a `constraints` block that does not
qualify the option ends the parse. -/
def Item.run (ctx : Ctx) (n : Int) : Item → CStr × OptSt → Step (CStr × OptSt)
  | .filler f, x => .next (x.1 ++ f.render, f.effect x.2)
  | .shortname ws ws1 text ws2, x =>
    .next (x.1 ++ renderWrapped ws (lit "arg_shortname") ws1 text ws2,
      shortnameEffect ctx text x.2)
  | .argmax ws text, x => .next (x.1 ++ (Item.argmax ws text).render, argMaxEffect text x.2)
  | .argmin ws text, x => .next (x.1 ++ (Item.argmin ws text).render, argMinEffect text x.2)
  | .block b, x =>
    if (b.verdict ctx x.1.length x.2).optionqualified = false then .discard 0
    else .next (x.1, { b.verdict ctx x.1.length x.2 with inconstraints := 0 })
  | .enumvals ws evs wsEnd, x =>
    .next
      ((runEnumVals ctx (n + 1) evs (x.1 ++ (ws ++ ('<' :: lit "enum_vals" ++ ['>'])), x.2)).1 ++
          (wsEnd ++ ('<' :: '/' :: lit "enum_vals" ++ ['>'])),
        (runEnumVals ctx (n + 1) evs (x.1 ++ (ws ++ ('<' :: lit "enum_vals" ++ ['>'])), x.2)).2)

/-- The texts of a list of child elements of the option, one behind the other. -/
def renderItems : List Item → CStr
  | [] => []
  | i :: l => i.render ++ renderItems l

/-- The scanned part of the buffer and the variables of the mode behind a list
of child elements of the option. -/
def runItems (ctx : Ctx) (n : Int) : List Item → CStr × OptSt → Step (CStr × OptSt)
  | [], x => .next x
  | i :: l, x => (i.run ctx n x).bind (runItems ctx n l)

/-- Scanning the text `txt` from the state `s` has the result `r`: it goes on as
`Scans` says, or it frees the buffer. -/
def ScansTo (ctx : Ctx) (s : OState) (txt suf : CStr) (n : Int) :
    Step (CStr × OptSt) → Prop
  | .next x => Scans ctx s txt suf n x.1 x.2
  | .discard _ => scanPrefix (optionHooks ctx) s txt suf = .discard s.core.comboconfirmed
  | .fatal => False
  | .undefined => False

/-- A child element of the option that leaves the user default alone: a filler
element or a `constraints` block. -/
def Item.Neutral : Item → Prop
  | .filler _ => True
  | .block _ => True
  | _ => False

instance (i : Item) : Decidable i.Neutral := by
  cases i <;> unfold Item.Neutral <;> infer_instance

/-- Two values of the variables of the mode agree in the option type and the
user default. -/
structure SameUser (a b : OptSt) : Prop where
  optiontype : a.optiontype = b.optiontype
  userdefault : a.userdefault = b.userdefault
  userdefaultvalue : a.userdefaultvalue = b.userdefaultvalue

/-- The child elements of a numeric option in which the short name comes before
the bounds: the `arg_shortname` element, `arg_max` and `arg_min`, with elements
that leave the user default alone around them. -/
structure BoundedOption where
  before : List Item
  nameWs : CStr
  nameWs1 : CStr
  name : CStr
  nameWs2 : CStr
  mid1 : List Item
  maxWs : CStr
  max : CStr
  mid2 : List Item
  minWs : CStr
  min : CStr
  rest : List Item

/-- The child elements of a numeric option, in document order. -/
def BoundedOption.items (d : BoundedOption) : List Item :=
  d.before ++ Item.shortname d.nameWs d.nameWs1 d.name d.nameWs2 ::
    (d.mid1 ++ Item.argmax d.maxWs d.max :: (d.mid2 ++ Item.argmin d.minWs d.min :: d.rest))

/-- The elements around the short name and the bounds leave the user default
alone. -/
def BoundedOption.Neutral (d : BoundedOption) : Prop :=
  (∀ i ∈ d.before, i.Neutral) ∧ (∀ i ∈ d.mid1, i.Neutral) ∧ (∀ i ∈ d.mid2, i.Neutral) ∧
    (∀ i ∈ d.rest, i.Neutral)

instance (d : BoundedOption) : Decidable d.Neutral := by
  unfold BoundedOption.Neutral
  infer_instance

/-- Request for the printer `HP-LaserJet` with the driver `gs` and one setting
on the command line. -/
def ctxSetting (setting : CStr) : Ctx where
  pid := lit "HP-LaserJet"
  driver := lit "gs"
  make := lit "HP"
  model := lit "LaserJet"
  defaultsettings := [setting]

/-- The opening tag of the integer option `Copies`. -/
def copiesHead : CStr := lit "<option type=\"int\" id=\"opt/Copies\">"

/-- A block with one constraint that qualifies the option for the driver `gs`
and carries the default value `1`. -/
def blockGsDefault : Block where
  ws := lit "\n "
  cs := [{ ws := lit "\n  ", sense := true,
           fields := [⟨lit "\n   ", .driver, lit "gs"⟩, ⟨lit "\n   ", .argdefval, lit "1"⟩],
           wsEnd := lit "\n  " }]
  wsEnd := lit "\n "

/-- The child elements of the integer option `Copies` with the bounds 1 and 10. -/
def copiesOption : BoundedOption where
  before := [.filler (.wrapped (lit "\n ") (lit "arg_longname") [] (lit "Copies") [])]
  nameWs := lit "\n "
  nameWs1 := []
  name := lit "Copies"
  nameWs2 := []
  mid1 := []
  maxWs := lit "\n "
  max := lit "10"
  mid2 := []
  minWs := lit "\n "
  min := lit "1"
  rest := [.block blockGsDefault]

/-- The child elements of the integer option `Copies` with the bounds in front
of the short name. -/
def copiesBoundsFirst : List Item :=
  [.argmax (lit "\n ") (lit "10"), .argmin (lit "\n ") (lit "1"),
    .shortname (lit "\n ") [] (lit "Copies") [], .block blockGsDefault]

/-- The state of the scan behind the opening tag of the option `Copies`, for
the setting `Copies=50`. -/
def stCopies : OState :=
  (scanPrefix (optionHooks (ctxSetting (lit "Copies=50"))) optInit copiesHead
    (renderItems copiesOption.items ++ ([chNL] ++ (lit "</option>" ++ [chNL])))).getD optInit

instance (m : OptSt) (lv : Int) : Decidable (Quiet m lv) :=
  if h : (m.inmake ≤ lv ∧ m.inmodel ≤ lv ∧ m.indriver ≤ lv ∧ m.inprinter ≤ lv) ∧
      (m.inargshortname ≤ lv ∧ m.inargexecution ≤ lv ∧ m.inargpjl ≤ lv ∧ m.inevshortname ≤ lv) ∧
      (m.inen ≤ lv ∧ m.inargmax ≤ lv ∧ m.inargmin ≤ lv ∧ m.inenumval ≤ lv) ∧
      (m.inconstraints ≤ lv ∧ m.inconstraint ≤ lv ∧ m.inargdefault ≤ lv) then
    isTrue
      { inmake := h.1.1, inmodel := h.1.2.1, indriver := h.1.2.2.1, inprinter := h.1.2.2.2,
        inargshortname := h.2.1.1, inargexecution := h.2.1.2.1, inargpjl := h.2.1.2.2.1,
        inevshortname := h.2.1.2.2.2, inen := h.2.2.1.1, inargmax := h.2.2.1.2.1,
        inargmin := h.2.2.1.2.2.1, inenumval := h.2.2.1.2.2.2, inconstraints := h.2.2.2.1,
        inconstraint := h.2.2.2.2.1, inargdefault := h.2.2.2.2.2 }
  else
    isFalse fun q =>
      h ⟨⟨q.inmake, q.inmodel, q.indriver, q.inprinter⟩,
        ⟨q.inargshortname, q.inargexecution, q.inargpjl, q.inevshortname⟩,
        ⟨q.inen, q.inargmax, q.inargmin, q.inenumval⟩,
        ⟨q.inconstraints, q.inconstraint, q.inargdefault⟩⟩

instance (s : OState) (n : Int) : Decidable (AfterTag s n) :=
  if h : TextMode s.core ∧ s.core.nestinglevel = n ∧
      s.core.lasttagend = some (s.core.out.length - 1) ∧ s.core.out ≠ [] then
    isTrue { text := h.1, level := h.2.1, mark := h.2.2.1, nonempty := h.2.2.2 }
  else isFalse fun a => h ⟨a.text, a.level, a.mark, a.nonempty⟩

instance (m : OptSt) : Decidable (Rest m) :=
  if h : (m.inmake = 0 ∧ m.inmodel = 0 ∧ m.indriver = 0 ∧ m.inprinter = 0) ∧
      (m.inargshortname = 0 ∧ m.inargexecution = 0 ∧ m.inargpjl = 0 ∧ m.inevshortname = 0) ∧
      (m.inen = 0 ∧ m.inargmax = 0 ∧ m.inargmin = 0) ∧
      (m.inconstraints = 0 ∧ m.inconstraint = 0 ∧ m.inargdefault = 0) then
    isTrue
      { inmake := h.1.1, inmodel := h.1.2.1, indriver := h.1.2.2.1, inprinter := h.1.2.2.2,
        inargshortname := h.2.1.1, inargexecution := h.2.1.2.1, inargpjl := h.2.1.2.2.1,
        inevshortname := h.2.1.2.2.2, inen := h.2.2.1.1, inargmax := h.2.2.1.2.1,
        inargmin := h.2.2.1.2.2, inconstraints := h.2.2.2.1, inconstraint := h.2.2.2.2.1,
        inargdefault := h.2.2.2.2.2 }
  else
    isFalse fun q =>
      h ⟨⟨q.inmake, q.inmodel, q.indriver, q.inprinter⟩,
        ⟨q.inargshortname, q.inargexecution, q.inargpjl, q.inevshortname⟩,
        ⟨q.inen, q.inargmax, q.inargmin⟩, ⟨q.inconstraints, q.inconstraint, q.inargdefault⟩⟩

instance (m : OptSt) (e o : Int) : Decidable (Frame m e o) :=
  if h : Rest m ∧ m.inenumval = e ∧ m.inoption = o then
    isTrue { rest := h.1, inenumval := h.2.1, inoption := h.2.2 }
  else isFalse fun f => h ⟨f.rest, f.inenumval, f.inoption⟩

instance (ctx : Ctx) (c : Constraint) : Decidable (SelectsPrinter ctx c) :=
  if h : c.selector .printer ≠ [] ∧ translateid (c.selector .printer) ctx.idlist = ctx.trpid ∧
      c.selector .make = [] ∧ c.selector .model = [] ∧ c.driverScore ctx ≠ -1 then
    isTrue { printer := h.1, exact := h.2.1, make := h.2.2.1, model := h.2.2.2.1,
             driver := h.2.2.2.2 }
  else isFalse fun f => h ⟨f.printer, f.exact, f.make, f.model, f.driver⟩

instance (ctx : Ctx) (c : Constraint) : Decidable (SelectsMake ctx c) :=
  if h : c.selector .printer = [] ∧ c.selector .make = ctx.make ∧ c.selector .make ≠ [] ∧
      c.selector .model = [] ∧ c.selector .driver = [] then
    isTrue { printer := h.1, make := h.2.1, nonempty := h.2.2.1, model := h.2.2.2.1,
             driver := h.2.2.2.2 }
  else isFalse fun f => h ⟨f.printer, f.make, f.nonempty, f.model, f.driver⟩

/-- The high scores and the qualification of an enum value behind each
constraint of a block: a winning constraint raises the high scores and sets the
qualification to its sense. -/
def senseFold (ctx : Ctx) : List Constraint → Int × Int × Bool → Int × Int × Bool
  | [], a => a
  | c :: cs, a =>
    if c.wins ctx a.1 a.2.1 = true then
      senseFold ctx cs
        (if c.printerScore ctx > a.1 then c.printerScore ctx else a.1,
          if c.driverScore ctx > a.2.1 then c.driverScore ctx else a.2.1, c.sense)
    else senseFold ctx cs a

/-- The enum value qualifies: it has no `constraints` block, or the last
winning constraint of its block has the sense `true` (or no constraint wins). -/
def EnumVal.qualifies (ctx : Ctx) (ev : EnumVal) : Bool :=
  match ev.block with
  | none => true
  | some b => (senseFold ctx b.cs (0, 0, true)).2.2

/-- The texts of the enum values that qualify, without their `constraints`
blocks, one behind the other. -/
def renderKept (ctx : Ctx) : List EnumVal → CStr
  | [] => []
  | ev :: l => (if ev.qualifies ctx = true then ev.kept else []) ++ renderKept ctx l

/-- Two values of the variables of the mode agree in what an enum value leaves
alone: the qualification and the default of the option and the user default. -/
structure SameOption (a b : OptSt) : Prop where
  optionqualified : a.optionqualified = b.optionqualified
  argdefault : a.argdefault = b.argdefault
  optiontype : a.optiontype = b.optiontype
  userdefault : a.userdefault = b.userdefault
  userdefaultvalue : a.userdefaultvalue = b.userdefaultvalue

/-- The opening tag of the enum option `PageSize`. -/
def pageSizeHead : CStr := lit "<option type=\"enum\" id=\"opt/PageSize\">"

/-- A block with one constraint that qualifies the option for the driver `gs`
and carries no default value. -/
def blockGs : Block where
  ws := lit "\n "
  cs := [{ ws := lit "\n  ", sense := true, fields := [⟨lit "\n   ", .driver, lit "gs"⟩],
           wsEnd := lit "\n  " }]
  wsEnd := lit "\n "

/-- A block with one constraint that qualifies the option for the driver `gs`
and carries the default value `ev/A4`. -/
def blockGsA4 : Block where
  ws := lit "\n "
  cs := [{ ws := lit "\n  ", sense := true,
           fields := [⟨lit "\n   ", .driver, lit "gs"⟩, ⟨lit "\n   ", .argdefval, lit "ev/A4"⟩],
           wsEnd := lit "\n  " }]
  wsEnd := lit "\n "

/-- A block with one constraint that excludes the printers of the make `HP`. -/
def blockNotHP : Block where
  ws := lit "\n   "
  cs := [{ ws := lit "\n    ", sense := false, fields := [⟨lit "\n     ", .make, lit "HP"⟩],
           wsEnd := lit "\n    " }]
  wsEnd := lit "\n   "

/-- The enum value `A4`, without constraints. -/
def evA4 : EnumVal where
  ws := lit "\n  "
  id := lit "ev/A4"
  items := [.shortname (lit "\n   ") [] (lit "A4") []]
  block := none
  wsEnd := lit "\n  "

/-- The enum value `A3`, excluded for the printers of the make `HP`. -/
def evA3 : EnumVal where
  ws := lit "\n  "
  id := lit "ev/A3"
  items := [.shortname (lit "\n   ") [] (lit "A3") []]
  block := some blockNotHP
  wsEnd := lit "\n  "

/-- The element `enum_vals` of the option `PageSize`. -/
def pageSizeVals : Item := .enumvals (lit "\n ") [evA4, evA3] (lit "\n ")

/-- The state of the scan in front of the element `enum_vals` of the option
`PageSize`, behind an option-level block with the default value `ev/A4`. -/
def stPageSize : OState :=
  (scanPrefix (optionHooks ctxLaserJetGs) optInit (pageSizeHead ++ blockGsA4.render)
    (pageSizeVals.render ++ ([chNL] ++ (lit "</option>" ++ [chNL])))).getD optInit

/-- Two values of the variables of the mode agree in the id found for the user
default. -/
structure SameFound (a b : OptSt) : Prop where
  userdefaultid : a.userdefaultid = b.userdefaultid
  userdefaultfound : a.userdefaultfound = b.userdefaultfound

/-- One of the child elements is an `ev_shortname` element with the text `v`. -/
def namedIn (v : CStr) : List EvItem → Bool
  | [] => false
  | .shortname _ _ text _ :: l => decide (text = v) || namedIn v l
  | .filler _ :: l => namedIn v l

/-- The enum value has the short name `v`. -/
def EnumVal.named (v : CStr) (ev : EnumVal) : Bool := namedIn v ev.items

/-- The id of the last enum value with the short name `v`. -/
def findId (v : CStr) : List EnumVal → Option CStr
  | [] => none
  | ev :: l =>
    match findId v l with
    | some id => some id
    | none => if ev.named v = true then some ev.id else none

/-- The child elements of an option with one `arg_shortname` element and at
most one `enum_vals` element behind it; all other elements leave the user
default alone. -/
structure NamedOption where
  before : List Item
  nameWs : CStr
  nameWs1 : CStr
  name : CStr
  nameWs2 : CStr
  mid : List Item
  vals : Option (CStr × List EnumVal × CStr)
  rest : List Item

/-- The element `enum_vals` of the option, if it has one. -/
def NamedOption.valItems (d : NamedOption) : List Item :=
  match d.vals with
  | some p => [.enumvals p.1 p.2.1 p.2.2]
  | none => []

/-- The enum values of the option. -/
def NamedOption.evs (d : NamedOption) : List EnumVal :=
  match d.vals with
  | some p => p.2.1
  | none => []

/-- The child elements of the option in the order of the document. -/
def NamedOption.items (d : NamedOption) : List Item :=
  d.before ++ (.shortname d.nameWs d.nameWs1 d.name d.nameWs2 :: (d.mid ++ (d.valItems ++ d.rest)))

/-- The elements around the short name and the enum values leave the user
default alone. -/
def NamedOption.Neutral (d : NamedOption) : Prop :=
  (∀ i ∈ d.before, i.Neutral) ∧ (∀ i ∈ d.mid, i.Neutral) ∧ (∀ i ∈ d.rest, i.Neutral)

instance (d : NamedOption) : Decidable d.Neutral := by
  unfold NamedOption.Neutral; infer_instance

/-- The text of the inserted `arg_defval` element, `none` when no element is
inserted: `u` is what the command line says about the option, `evs` are the
enum values, `argdefault` is the default value of the winning option-level
constraint. -/
def insertedDefault (ty : OptionType) (u : Option (Bool × CStr)) (evs : List EnumVal)
    (argdefault : CStr) : Option CStr :=
  match u with
  | some (true, v) =>
    if ty = .ENUM then some ((findId v evs).getD argdefault) else some v
  | _ => if argdefault ≠ [] then some argdefault else none

/-- An `arg_defval` element at option level with the text `ev/A4`. -/
def builtinA4 : Item := .filler (.field ⟨lit "\n ", .argdefval, lit "ev/A4"⟩)

/-- The option `PageSize` with the elements `before` in front of its short
name and the option-level `constraints` block `b`. -/
def pageSizeOption (before : List Item) (b : Block) : NamedOption where
  before := before
  nameWs := lit "\n "
  nameWs1 := []
  name := lit "PageSize"
  nameWs2 := []
  mid := [.block b]
  vals := some (lit "\n ", [evA4, evA3], lit "\n ")
  rest := []

/-- The state of the scan behind the opening tag of the option `PageSize`, for
the setting `PageSize=A3`. -/
def stPageSizeA3 : OState :=
  (scanPrefix (optionHooks (ctxSetting (lit "PageSize=A3"))) optInit pageSizeHead
    (renderItems (pageSizeOption [] blockGsA4).items ++
      ([chNL] ++ (lit "</option>" ++ [chNL])))).getD optInit

/-! ## Device mode (`PARSE_OP_PRINTER`) -/

/-- The local variables of `parse` used in Device mode, and the static arrays
`make` and `model`.  The arrays `cid` and `cppd` are uninitialised in C and are
read before the first write (source line 923): their content at the start of
the call is part of the initial state. -/
structure PrnSt where
  inprinter : Int := 0
  inmake : Int := 0
  inmodel : Int := 0
  inautodetect : Int := 0
  indriver : Int := 0
  indrivers : Int := 0
  inid : Int := 0
  inppd : Int := 0
  inlang : Int := 0
  inpostscript : Int := 0
  cid : CStr := []
  cppd : CStr := []
  /-- The static `make`. -/
  make : CStr := []
  /-- The static `model`. -/
  model : CStr := []
deriving DecidableEq, Repr

/-- Device-mode state of the parse. -/
abbrev PrnState := PState PrnSt

/-- Action on the tag name in Device mode, on the variables of the mode (source
lines 429-490).  `c` holds the mode-independent variables at that moment. -/
def prnNameM (c : Core) (m : PrnSt) : PrnSt :=
  let nm := c.currtagname
  let lvl := c.nestinglevel + 1
  if nm = lit "make" then { m with inmake := lvl }
  else if nm = lit "model" then { m with inmodel := lvl }
  else if nm = lit "autodetect" then { m with inautodetect := lvl }
  else if nm = lit "driver" then
    if m.indrivers ≠ 0 ∧ c.tagtype = TAG_OPEN then { m with indriver := lvl, cid := [] }
    else { m with indriver := lvl }
  else if nm = lit "drivers" then { m with indrivers := lvl }
  else if nm = lit "id" then { m with inid := lvl }
  else if nm = lit "printer" then { m with inprinter := lvl }
  else if nm = lit "postscript" then
    if m.inlang ≠ 0 ∧ c.tagtype = TAG_OPEN then
      { m with inpostscript := lvl, cid := [], cppd := [] }
    else { m with inpostscript := lvl }
  else if nm = lit "ppd" then { m with inppd := lvl }
  else if nm = lit "lang" then { m with inlang := lvl }
  else m

/-- Action on the tag name in Device mode, on the mode-independent variables:
the opening tag of the root element `printer` removes the file header (source
lines 455-472). -/
def prnNameCore (c : Core) : Core :=
  if c.currtagname = lit "printer" ∧ c.tagtype = TAG_OPEN then removeHeader c else c

/-- Action on the tag name in Device mode. -/
def prnName (s : PrnState) : Step PrnState :=
  .next { core := prnNameCore s.core, m := prnNameM s.core s.m }

/-- End of `make` and of `model` (source lines 888-899): the text in front of
the tag joins the static array, unless an `autodetect` element is open. -/
def overPrnMakeModel (c : Core) (m : PrnSt) : PrnSt :=
  let m1 := if c.nestinglevel < m.inprinter then { m with inprinter := 0 } else m
  let m2 :=
    if c.nestinglevel < m1.inmake then
      if m1.inautodetect = 0 then { m1 with inmake := 0, make := m1.make ++ c.currtagbody }
      else { m1 with inmake := 0 }
    else m1
  if c.nestinglevel < m2.inmodel then
    if m2.inautodetect = 0 then { m2 with inmodel := 0, model := m2.model ++ c.currtagbody }
    else { m2 with inmodel := 0 }
  else m2

/-- End of `autodetect` and `drivers` (source lines 899-900). -/
def overPrnGroups (c : Core) (m : PrnSt) : PrnSt :=
  let m1 := if c.nestinglevel < m.inautodetect then { m with inautodetect := 0 } else m
  if c.nestinglevel < m1.indrivers then { m1 with indrivers := 0 } else m1

/-- The test at the end of a `driver` element (source lines 901-922): inside
`drivers`, a driver id that is not empty and is the requested driver. -/
def driverConfirms (ctx : Ctx) (c : Core) (m : PrnSt) : Bool :=
  decide (c.nestinglevel < m.indriver) && decide (m.indrivers ≠ 0) && decide (m.cid ≠ []) &&
    decide (m.cid = ctx.driver)

/-- End of a `driver` element, on the variables of the mode. -/
def overPrnDriver (c : Core) (m : PrnSt) : PrnSt :=
  if c.nestinglevel < m.indriver then { m with indriver := 0 } else m

/-- Source lines 923-930: a PPD file makes the driver id `Postscript`; the end
of an `id` element sets the driver id; the end of `lang`. -/
def overPrnId (c : Core) (m : PrnSt) : PrnSt :=
  let m1 := if m.cppd ≠ [] then { m with cid := lit "Postscript" } else m
  let m2 := if c.nestinglevel < m1.inid then { m1 with inid := 0, cid := c.currtagbody } else m1
  if c.nestinglevel < m2.inlang then { m2 with inlang := 0 } else m2

/-- The test at the end of a `postscript` element (source lines 931-946). -/
def postscriptConfirms (ctx : Ctx) (c : Core) (m : PrnSt) : Bool :=
  decide (c.nestinglevel < m.inpostscript) && decide (m.cid = ctx.driver)

/-- The characters skipped in front of the location of a PPD file. -/
def isPpdBlank (ch : Char) : Bool := ch = ' ' || ch = chNL || ch = chCR || ch = chTAB

/-- End of `postscript` and `ppd`, on the variables of the mode (source lines
931-957): the location of the PPD file is the text without leading white space. -/
def overPrnPpd (c : Core) (m : PrnSt) : PrnSt :=
  let m1 := if c.nestinglevel < m.inpostscript then { m with inpostscript := 0 } else m
  if c.nestinglevel < m1.inppd then
    { m1 with inppd := 0, cppd := c.currtagbody.dropWhile isPpdBlank }
  else m1

/-- The variables of the mode behind the end of a tag in Device mode. -/
def prnEndM (c : Core) (m : PrnSt) : PrnSt :=
  overPrnPpd c (overPrnId c (overPrnDriver c (overPrnGroups c (overPrnMakeModel c m))))

/-- The end of this tag confirms the combination of printer and driver: by the
`drivers` section or by the `postscript` section. -/
def prnConfirms (ctx : Ctx) (c : Core) (m : PrnSt) : Bool :=
  driverConfirms ctx c (overPrnGroups c (overPrnMakeModel c m)) ||
    postscriptConfirms ctx c
      (overPrnId c (overPrnDriver c (overPrnGroups c (overPrnMakeModel c m))))

/-- Action at the end of a tag in Device mode (source lines 886-957). -/
def prnEnd (ctx : Ctx) (s : PrnState) : Step PrnState :=
  .next
    { core := if prnConfirms ctx s.core s.m = true then { s.core with comboconfirmed := 1 }
        else s.core,
      m := prnEndM s.core s.m }

/-- The actions of `operation == PARSE_OP_PRINTER`. -/
def printerHooks (ctx : Ctx) : Hooks PrnSt where
  onName := prnName
  onParam := fun s => s
  onEnd := prnEnd ctx

/-- The state at the start of `parse` in Device mode: the static arrays `make`
and `model` hold what earlier calls left there, `cid` and `cppd` what the stack
holds. -/
def prnInit (make model cid cppd : CStr) : PrnState :=
  { core := {}, m := { make := make, model := model, cid := cid, cppd := cppd } }

/-- The check behind the scan loop in Device mode (source lines 1893-1901): a
printer file without make or without model ends the program. -/
def prnCheck (s : PrnState) : Step PrnState :=
  if s.m.make = [] ∨ s.m.model = [] then .fatal else .next s

/-- The state in which `parse` returns in Device mode. -/
def parsePrinterState (ctx : Ctx) (init : PrnState) (data : CStr) : Step PrnState :=
  (scanLoop (printerHooks ctx) init data).bind prnCheck

/-- Source `parse(&data, pid, driver, ..., PARSE_OP_PRINTER, ...)` on the buffer
content `data`. -/
def parsePrinter (ctx : Ctx) (init : PrnState) (data : CStr) : Outcome :=
  finish (parsePrinterState ctx init data)

/-! ## Driver mode (`PARSE_OP_DRIVER`) -/

/-- The local variables of `parse` used in Driver mode, and the cell `*nopjl`.
The array `printerentry` is uninitialised in C until the opening tag of
`printers` clears it: its content at the start is part of the initial state. -/
structure DrvSt where
  inprinter : Int := 0
  inexecution : Int := 0
  innopjl : Int := 0
  inid : Int := 0
  inprinters : Int := 0
  indriver : Int := 0
  printertobesaved : Bool := false
  printerentryfound : Bool := false
  printerentry : CStr := []
  /-- Offset of the mark `lastprinters`, `none` for `NULL`. -/
  lastprinters : Option Nat := none
  /-- Offset of the mark `lastprinter`, `none` for `NULL`. -/
  lastprinter : Option Nat := none
  /-- The cell `*nopjl`. -/
  nopjl : Bool := false
deriving DecidableEq, Repr

/-- Driver-mode state of the parse. -/
abbrev DrvState := PState DrvSt

/-- Action on the tag name in Driver mode, on the variables of the mode (source
lines 491-536).  `c` holds the mode-independent variables at that moment. -/
def drvNameM (c : Core) (m : DrvSt) : Step DrvSt :=
  let nm := c.currtagname
  let lvl := c.nestinglevel + 1
  if nm = lit "printer" then
    if c.tagtype = TAG_OPEN then .next { m with inprinter := lvl, lastprinter := some c.lasttag }
    else .next { m with inprinter := lvl }
  else if nm = lit "execution" then .next { m with inexecution := lvl }
  else if nm = lit "nopjl" then
    if m.inexecution ≠ 0 then .next { m with innopjl := lvl, nopjl := true }
    else .next { m with innopjl := lvl }
  else if nm = lit "id" then .next { m with inid := lvl }
  else if nm = lit "printers" then
    if c.tagtype = TAG_OPEN then
      match c.lasttagend with
      | some e => .next { m with inprinters := lvl, lastprinters := some (e + 1), printerentry := [] }
      | none => .undefined
    else .next { m with inprinters := lvl }
  else if nm = lit "driver" then .next { m with indriver := lvl }
  else .next m

/-- Action on the tag name in Driver mode, on the mode-independent variables:
the opening tag of the root element `driver` removes the file header (source
lines 517-534). -/
def drvNameCore (c : Core) : Core :=
  if c.currtagname = lit "driver" ∧ c.tagtype = TAG_OPEN then removeHeader c else c

/-- Action on the tag name in Driver mode. -/
def drvName (s : DrvState) : Step DrvState :=
  (drvNameM s.core s.m).bind fun m1 => .next { core := drvNameCore s.core, m := m1 }

/-- End of `execution`, `nopjl` and `driver` (source lines 961-963). -/
def overDrvFlags (c : Core) (m : DrvSt) : DrvSt :=
  let m1 := if c.nestinglevel < m.inexecution then { m with inexecution := 0 } else m
  let m2 := if c.nestinglevel < m1.innopjl then { m1 with innopjl := 0 } else m1
  if c.nestinglevel < m2.indriver then { m2 with indriver := 0 } else m2

/-- End of the `printers` block (source lines 964-985): the block is cut out of
the buffer from the mark `lastprinters` on, and the saved printer entry is put
in its place. -/
def overInPrinters (s : DrvState) : Step DrvState :=
  if s.core.nestinglevel < s.m.inprinters then
    match s.m.lastprinters with
    | some p =>
      (deleteSpan s.core p).bind fun c1 =>
        (if s.m.printerentry ≠ [] then insertAt c1 p s.m.printerentry else .next c1).bind
          fun c2 => .next { core := c2, m := { s.m with inprinters := 0 } }
    | none => .next { s with m := { s.m with inprinters := 0 } }
  else .next s

/-- The text put around a saved printer entry (source lines 994 and 999). -/
def entryHead : CStr := chNL :: lit " <printers>" ++ chNL :: lit "  "

/-- The text put behind a saved printer entry. -/
def entryTail : CStr := chNL :: lit " </printers>"

/-- End of a `printer` element (source lines 986-1004): the entry of the
requested printer, from the mark `lastprinter` up to the `>` under the cursor,
is saved in `printerentry`. -/
def overInPrinter (s : DrvState) : Step DrvState :=
  if s.core.nestinglevel < s.m.inprinter then
    if s.m.printertobesaved = true then
      match s.m.lastprinter with
      | some p =>
        if p ≤ s.core.out.length then
          .next { s with m := { s.m with
            inprinter := 0, printertobesaved := false,
            printerentry := s.m.printerentry ++ entryHead ++ s.core.out.drop p ++ entryTail } }
        else .undefined
      | none => .next { s with m := { s.m with inprinter := 0, printertobesaved := false } }
    else .next { s with m := { s.m with inprinter := 0 } }
  else .next s

/-- End of an `id` element (source lines 1005-1018): the string at
`currtagbody + 8` is translated and compared with the translated id of the
requested printer.  For a text of eight characters at least this is the text
behind its first eight characters; for a shorter text it is what earlier texts
have left in the array behind the terminator. -/
def overDrvId (ctx : Ctx) (c : Core) (m : DrvSt) : DrvSt :=
  if c.nestinglevel < m.inid then
    if ctx.trpid = translateid (strFrom c.currtagbody c.bodytail 8) ctx.idlist then
      { m with inid := 0, printerentryfound := true, printertobesaved := true }
    else { m with inid := 0 }
  else m

/-- Action at the end of a tag in Driver mode (source lines 959-1018). -/
def drvEnd (ctx : Ctx) (s : DrvState) : Step DrvState :=
  (overInPrinters { s with m := overDrvFlags s.core s.m }).bind fun s1 =>
    (overInPrinter s1).bind fun s2 => .next { s2 with m := overDrvId ctx s2.core s2.m }

/-- The actions of `operation == PARSE_OP_DRIVER`. -/
def driverHooks (ctx : Ctx) : Hooks DrvSt where
  onName := drvName
  onParam := fun s => s
  onEnd := drvEnd ctx

/-- The state at the start of the scan loop in Driver mode: `*nopjl`, whatever
it held, is set to zero (source line 371). -/
def drvInit (printerentry : CStr) (nopjl : Bool) : DrvState :=
  { core := {},
    m := { ({ printerentry := printerentry, nopjl := nopjl } : DrvSt) with nopjl := false } }

/-- The assignment behind the scan loop in Driver mode (source lines
1902-1913): a printer found in the list of the driver confirms the combination. -/
def drvCheck (s : DrvState) : DrvState :=
  if s.m.printerentryfound = true then { s with core := { s.core with comboconfirmed := 1 } }
  else s

/-- The state in which `parse` returns in Driver mode. -/
def parseDriverState (ctx : Ctx) (init : DrvState) (data : CStr) : Step DrvState :=
  (scanLoop (driverHooks ctx) init data).bind fun s => .next (drvCheck s)

/-- Source `parse(&data, pid, driver, ..., PARSE_OP_DRIVER, ...)` on the buffer
content `data`. -/
def parseDriver (ctx : Ctx) (init : DrvState) (data : CStr) : Outcome :=
  finish (parseDriverState ctx init data)

/-- The value of `*nopjl` behind the call in Driver mode, when it returns. -/
def nopjlAfter (ctx : Ctx) (init : DrvState) (data : CStr) : Option Bool :=
  match parseDriverState ctx init data with
  | .next s => some s.m.nopjl
  | _ => none

/-! ## Documents as lists of tags -/

/-- The three forms of a tag: `<nm ...>`, `</nm ...>` and `<nm ... />`. -/
inductive TagKind where
  | opening
  | closing
  | void
deriving DecidableEq, Repr

/-- The value of `tagtype` when the name of the tag is read: the `/` of a tag
without body comes behind the name. -/
def TagKind.nameType : TagKind → Int
  | .closing => TAG_CLOSE
  | _ => TAG_OPEN

/-- The value of `tagtype` at the `>` of the tag. -/
def TagKind.endType : TagKind → Int
  | .opening => TAG_OPEN
  | .closing => TAG_CLOSE
  | .void => TAG_EMPTY

/-- The characters in front of the name of the tag. -/
def TagKind.start : TagKind → CStr
  | .closing => ['<', '/']
  | _ => ['<']

/-- The characters behind the last word of the tag. -/
def TagKind.stop : TagKind → CStr
  | .void => [' ', '/', '>']
  | _ => ['>']

/-- A tag together with the text in front of it: the text, the form of the tag,
its name and its further words, each of which follows one blank. -/
structure Tok where
  text : CStr
  kind : TagKind
  nm : CStr
  params : List CStr := []
deriving DecidableEq, Repr

/-- The further words of a tag as they stand in the document. -/
def renderWords : List CStr → CStr
  | [] => []
  | w :: l => ' ' :: w ++ renderWords l

/-- The tag from its `<` to its `>`. -/
def Tok.tag (t : Tok) : CStr := t.kind.start ++ (t.nm ++ (renderWords t.params ++ t.kind.stop))

/-- The text in front of the tag, and the tag. -/
def Tok.render (t : Tok) : CStr := t.text ++ t.tag

/-- The text of a list of tags. -/
def renderToks : List Tok → CStr
  | [] => []
  | t :: l => t.render ++ renderToks l

/-- A word of a tag, decided: plain characters, possibly followed by a text in
double quotes that holds no quote and ends the word. -/
def wordOk (w : CStr) : Bool :=
  match w.span (fun c => decide (PlainChar c)) with
  | (a, []) => !a.isEmpty
  | (a, q :: v) =>
    !a.isEmpty && decide (q = chDQ) && decide (v.getLast? = some chDQ) &&
      v.dropLast.all (fun c => decide (c ≠ chDQ ∧ c ≠ chSQ))

/-- The text in front of the tag holds no `<`, the name is a tag name and the
further words are words of a tag. -/
def Tok.Clean (t : Tok) : Prop :=
  (∀ c ∈ t.text, c ≠ '<') ∧ TagName t.nm ∧ ∀ w ∈ t.params, wordOk w = true

instance (t : Tok) : Decidable t.Clean := by
  unfold Tok.Clean; infer_instance

/-- The state of the scan behind the further words of a tag: the action on a
parameter runs at the end of every word. -/
def runWords {σ : Type} (h : Hooks σ) : List CStr → PState σ → PState σ
  | [], t => t
  | w :: l, t => runWords h l (h.onParam (atParam (advance t ' ') w))

/-- The state after the `/` of a tag without body. -/
def slashState {σ : Type} (t : PState σ) : PState σ :=
  { t with core := { t.core with tagtype := TAG_EMPTY, out := t.core.out ++ ['/'] } }

/-- The state in front of the `>` of a tag. -/
def closeState {σ : Type} (k : TagKind) (t : PState σ) : PState σ :=
  match k with
  | .void => slashState (advance t ' ')
  | _ => t

/-- The scan of one tag with the text in front of it, as a sequence of actions:
the action on the name, the actions on the parameters, the end of the tag. -/
def runTok {σ : Type} (h : Hooks σ) (tok : Tok) (s : PState σ) : Step (PState σ) :=
  (h.onName (atTagName (advanceBy s tok.text) tok.kind.nameType tok.kind.start tok.nm)).bind
    fun s1 => tagEnd h (closeState tok.kind (runWords h tok.params s1))

/-- The scan of a list of tags as a sequence of actions. -/
def runToks {σ : Type} (h : Hooks σ) : List Tok → PState σ → Step (PState σ)
  | [], s => .next s
  | t :: l, s => (runTok h t s).bind (runToks h l)

/-- A device document with a make and without a model. -/
def docMakeOnly : CStr := lit "<printer id=\"printer/X\"><make>HP</make></printer>"

/-- A device document with make and model. -/
def docMakeModel : CStr :=
  lit "<printer id=\"printer/X\"><make>HP</make><model>LaserJet</model></printer>"

/-- The state after the `<` that opens a comment. -/
def afterCommentLt {σ : Type} (s : PState σ) : PState σ :=
  { s with core := { s.core with
      intag := true, incomment := true, tagtype := TAG_EMPTY, out := s.core.out ++ ['<'] } }

/-- The buffer ends inside a comment or inside the name of a tag: `tail` is the
opener of a comment followed by characters other than `>`, or a `<` followed by
plain characters that do not open a comment. -/
def OpenAtEnd (tail : CStr) : Prop :=
  (∃ w, tail = lit "<!--" ++ w ∧ ∀ c ∈ w, c ≠ '>') ∨
  (∃ nm, tail = '<' :: nm ∧ (∀ c ∈ nm, PlainChar c) ∧ nm.head? ≠ some '!')

/-! ## The effect of a tag in Device and Driver mode, well-nested documents -/

/-- The scanner stands right behind a tag, between two tags: the mark
`lasttagend` is the last character of the scanned part of the buffer. -/
structure Behind (c : Core) : Prop where
  text : TextMode c
  mark : c.lasttagend = some (c.out.length - 1)
  nonempty : c.out ≠ []

instance (c : Core) : Decidable (Behind c) :=
  if h : TextMode c ∧ c.lasttagend = some (c.out.length - 1) ∧ c.out ≠ [] then
    isTrue ⟨h.1, h.2.1, h.2.2⟩
  else isFalse fun q => h ⟨q.text, q.mark, q.nonempty⟩

/-- The mode-independent variables when the end action of a tag runs: `c` holds
them in front of the text that precedes the tag, `c1` when the action on the
name has run. -/
structure EndCore (c1 : Core) (tok : Tok) (cE : Core) : Prop where
  level : cE.nestinglevel = c1.nestinglevel + tok.kind.endType
  out : cE.out = c1.out ++ (renderWords tok.params ++ tok.kind.stop)
  combo : cE.comboconfirmed = c1.comboconfirmed
  header : cE.inxmlheader = c1.inxmlheader
  name : cE.currtagname = c1.currtagname
  tagtype : cE.tagtype = tok.kind.endType
  intag : cE.intag = false
  incomment : cE.incomment = false
  inquotes : cE.inquotes = false
  insinglequotes : cE.insinglequotes = false
  indoublequotes : cE.indoublequotes = false
  intagword : cE.intagword = false

/-- The mode-independent variables behind the further words of a tag, for a
mode without action on parameters. -/
def wordsCore : List CStr → Core → Core
  | [], c => c
  | w :: l, c =>
    wordsCore l { c with
      intagword := false, tagwordstart := (c.out ++ [' ']).length,
      out := c.out ++ [' '] ++ w, currtagparam := w }

/-- The mode-independent variables in front of the `>` of a tag. -/
def closeCore (k : TagKind) (c : Core) : Core :=
  match k with
  | .void => { c with tagtype := TAG_EMPTY, out := c.out ++ [' '] ++ ['/'] }
  | _ => c

/-- The mode-independent variables when the end action of a tag runs: `c1`
holds them behind the name of the tag, `body` is the text in front of the tag. -/
def endOf (k : TagKind) (ps : List CStr) (c1 : Core) (body : CStr) : Core :=
  { closeCore k (wordsCore ps c1) with
    intag := false
    currtagbody := body
    bodytail :=
      match c1.lasttagend with
      | some _ => staleBehind c1.currtagbody c1.bodytail body
      | none => c1.bodytail
    nestinglevel := (closeCore k (wordsCore ps c1)).nestinglevel +
      (closeCore k (wordsCore ps c1)).tagtype
    out := (closeCore k (wordsCore ps c1)).out ++ ['>'] }

/-- What the further words of a tag leave alone. -/
structure SameTag (a b : Core) : Prop where
  nestinglevel : a.nestinglevel = b.nestinglevel
  lasttag : a.lasttag = b.lasttag
  lasttagend : a.lasttagend = b.lasttagend
  currtagname : a.currtagname = b.currtagname
  currtagbody : a.currtagbody = b.currtagbody
  comboconfirmed : a.comboconfirmed = b.comboconfirmed
  inxmlheader : a.inxmlheader = b.inxmlheader
  intag : a.intag = b.intag
  incomment : a.incomment = b.incomment
  inquotes : a.inquotes = b.inquotes
  insinglequotes : a.insinglequotes = b.insinglequotes
  indoublequotes : a.indoublequotes = b.indoublequotes
  tagnamefound : a.tagnamefound = b.tagnamefound
  bodytail : a.bodytail = b.bodytail

/-- The tag is read as an opening tag with the name `nm` when its name is read:
an opening tag or a tag without body. -/
def Tok.Opens (nm : CStr) (tok : Tok) : Prop := tok.nm = nm ∧ tok.kind ≠ .closing

instance (nm : CStr) (tok : Tok) : Decidable (tok.Opens nm) := by
  unfold Tok.Opens; infer_instance

/-- The mode-independent variables that the action on the name of the tag reads,
at nesting level `lvl`. -/
def Tok.nameProbe (tok : Tok) (lvl : Int) : Core :=
  { currtagname := tok.nm, nestinglevel := lvl, tagtype := tok.kind.nameType }

/-- The mode-independent variables that the end action of the tag reads, for a
tag that starts at nesting level `lvl`. -/
def Tok.endProbe (tok : Tok) (lvl : Int) : Core :=
  { nestinglevel := lvl + tok.kind.endType, currtagbody := tok.text }

/-- The variables of Device mode behind a tag that starts at nesting level
`lvl`. -/
def prnTokM (tok : Tok) (lvl : Int) (m : PrnSt) : PrnSt :=
  prnEndM (tok.endProbe lvl) (prnNameM (tok.nameProbe lvl) m)

/-- The tag confirms the combination of printer and driver. -/
def prnTokConfirms (ctx : Ctx) (tok : Tok) (lvl : Int) (m : PrnSt) : Bool :=
  prnConfirms ctx (tok.endProbe lvl) (prnNameM (tok.nameProbe lvl) m)

/-- What a tag other than the opening tag of the root element does to a state of
Device mode. -/
structure PrnStep (ctx : Ctx) (tok : Tok) (s s1 : PrnState) : Prop where
  behind : Behind s1.core
  out : s1.core.out = s.core.out ++ tok.render
  level : s1.core.nestinglevel = s.core.nestinglevel + tok.kind.endType
  header : s1.core.inxmlheader = s.core.inxmlheader
  m : s1.m = prnTokM tok s.core.nestinglevel s.m
  combo : s1.core.comboconfirmed =
    if prnTokConfirms ctx tok s.core.nestinglevel s.m = true then 1
    else s.core.comboconfirmed

/-- The variables that a tag of a device document changes, apart from the
buffer: the nesting level, the variables of the mode and `comboconfirmed`. -/
structure PrnAbs where
  lvl : Int
  m : PrnSt
  combo : Int
deriving DecidableEq, Repr

/-- The nesting level, the variables of the mode and `comboconfirmed` of a
state of Device mode. -/
def PrnAbs.ofState (s : PrnState) : PrnAbs :=
  { lvl := s.core.nestinglevel, m := s.m, combo := s.core.comboconfirmed }

/-- The effect of one tag of a device document. -/
def prnAbsTok (ctx : Ctx) (a : PrnAbs) (tok : Tok) : PrnAbs :=
  { lvl := a.lvl + tok.kind.endType
    m := prnTokM tok a.lvl a.m
    combo := if prnTokConfirms ctx tok a.lvl a.m = true then 1 else a.combo }

/-- The effect of a list of tags of a device document. -/
def prnAbsRun (ctx : Ctx) (toks : List Tok) (a : PrnAbs) : PrnAbs :=
  toks.foldl (prnAbsTok ctx) a

/-- The variables behind the opening tag of the root element `printer`, read in
the state `s`: the nesting level restarts at 1, and the end of the tag sees the
body that the last tag of the header has left. -/
def prnAbsRoot (ctx : Ctx) (root : Tok) (s : PrnState) : PrnAbs :=
  { lvl := 1 + root.kind.endType
    m := prnEndM { nestinglevel := 1 + root.kind.endType, currtagbody := s.core.currtagbody }
      (prnNameM (root.nameProbe s.core.nestinglevel) s.m)
    combo :=
      if prnConfirms ctx
          { nestinglevel := 1 + root.kind.endType, currtagbody := s.core.currtagbody }
          (prnNameM (root.nameProbe s.core.nestinglevel) s.m) = true then 1
      else s.core.comboconfirmed }

/-- The names of the open elements behind a tag, innermost first. -/
def Tok.push (st : List CStr) (tok : Tok) : List CStr :=
  match tok.kind with
  | .opening => tok.nm :: st
  | .closing => st.tail
  | .void => st

/-- The names of the open elements behind a list of tags. -/
def pushAll (st : List CStr) (toks : List Tok) : List CStr := toks.foldl Tok.push st

/-- The tags are well nested inside the open elements `st`: every closing tag
closes the innermost open element. -/
def nested : List CStr → List Tok → Bool
  | _, [] => true
  | st, t :: l =>
    (match t.kind with
      | .closing => decide (st.head? = some t.nm)
      | _ => true) && nested (t.push st) l

/-- No element with the name `x` lies inside an element of the same name. -/
def noSelfNest (x : CStr) : List CStr → List Tok → Bool
  | _, [] => true
  | st, t :: l =>
    (if t.nm = x ∧ t.kind ≠ .closing then !st.contains x else true) &&
      noSelfNest x (t.push st) l

/-- The value of the sentinel of the elements with the name `x` when the open
elements are `st` and the outermost of them was opened at nesting level `b`:
one more than the nesting level at which the innermost element `x` was opened,
`0` when no element `x` is open. -/
def sentinelAt (x : CStr) (b : Int) : List CStr → Int
  | [] => 0
  | nm :: rest => if nm = x then b + rest.length + 1 else sentinelAt x b rest

/-- The texts of the elements with the name `x` that lie outside every element
with the name `g`, one behind the other: the text of an element is the text in
front of its closing tag. -/
def textsOutside (x g : CStr) : List CStr → List Tok → CStr
  | _, [] => []
  | st, t :: l =>
    (if t.nm = x ∧ t.kind = .closing ∧ ¬ g ∈ st then t.text else []) ++
      textsOutside x g (t.push st) l

/-- A bound for the sentinel of the elements with the name `x` when the open
elements are `st`: the value for the innermost open element `x`, the nesting
level `b` when no element `x` is open. -/
def boundAt (x : CStr) (b : Int) : List CStr → Int
  | [] => b
  | nm :: rest => if nm = x then b + rest.length + 1 else boundAt x b rest

/-- The variables of Device mode that decide about make and model, inside the
open elements `st` of a well-nested device document. -/
structure MakeInv (st : List CStr) (a : PrnAbs) : Prop where
  lvl : a.lvl = 1 + st.length
  inautodetect : a.m.inautodetect = sentinelAt (lit "autodetect") 1 st
  once : st.count (lit "autodetect") ≤ 1
  inmake : a.m.inmake ≤ boundAt (lit "make") 1 st
  inmodel : a.m.inmodel ≤ boundAt (lit "model") 1 st

/-- No tag without body has the name `make` or `model`. -/
def NoVoidMake (toks : List Tok) : Prop :=
  ∀ t ∈ toks, t.kind = .void → t.nm ≠ lit "make" ∧ t.nm ≠ lit "model"

instance (toks : List Tok) : Decidable (NoVoidMake toks) := by
  unfold NoVoidMake; infer_instance

/-- Two values of the variables of Device mode agree in the make, the model and
the sentinels that decide about them. -/
structure SameMake (a b : PrnSt) : Prop where
  make : a.make = b.make
  model : a.model = b.model
  inmake : a.inmake = b.inmake
  inmodel : a.inmodel = b.inmodel
  inautodetect : a.inautodetect = b.inautodetect

/-- The header of the example device document. -/
def devHeader : CStr := lit "<?xml version=\"1.0\"?>\n"

/-- The opening tag of the root element of the example device document. -/
def devRoot : Tok := { text := [], kind := .opening, nm := lit "printer",
                       params := [lit "id=\"printer/HP-LaserJet\""] }

/-- The tags of a device document with make and model, and an `autodetect`
element that holds another make. -/
def devBody : List Tok :=
  [ { text := lit "\n ", kind := .opening, nm := lit "make" },
    { text := lit "HP", kind := .closing, nm := lit "make" },
    { text := lit "\n ", kind := .opening, nm := lit "model" },
    { text := lit "LaserJet", kind := .closing, nm := lit "model" },
    { text := lit "\n ", kind := .opening, nm := lit "autodetect" },
    { text := [], kind := .opening, nm := lit "general" },
    { text := [], kind := .opening, nm := lit "make" },
    { text := lit "Hewlett-Packard", kind := .closing, nm := lit "make" },
    { text := [], kind := .closing, nm := lit "general" },
    { text := [], kind := .closing, nm := lit "autodetect" },
    { text := lit "\n", kind := .closing, nm := lit "printer" } ]

/-- The state of the scan behind the header of the example device document. -/
def stDevHeader : PrnState :=
  (scanPrefix (printerHooks ctxLaserJetGs) (prnInit [] [] [] []) devHeader
    (devRoot.render ++ (renderToks devBody ++ [chNL]))).getD (prnInit [] [] [] [])

/-- The variables that a tag of a driver document changes: the nesting level,
the variables of the mode, the scanned part of the buffer, and the array
`currtagbody` (its string `body` and the bytes `tail` behind the terminator). -/
structure DrvAbs where
  lvl : Int
  m : DrvSt
  out : CStr
  body : CStr
  tail : CStr
deriving DecidableEq, Repr

/-- The nesting level, the variables of the mode, the scanned part of the
buffer and the array `currtagbody` of a state of Driver mode. -/
def DrvAbs.ofState (s : DrvState) : DrvAbs :=
  { lvl := s.core.nestinglevel, m := s.m, out := s.core.out,
    body := s.core.currtagbody, tail := s.core.bodytail }

/-- The mode-independent variables that the action on the name of a tag reads in
Driver mode: the tag follows the scanned part `out` of the buffer. -/
def Tok.drvNameProbe (tok : Tok) (a : DrvAbs) : Core :=
  { currtagname := tok.nm, nestinglevel := a.lvl, tagtype := tok.kind.nameType,
    lasttag := (a.out ++ tok.text).length, lasttagend := some (a.out.length - 1) }

/-- The mode-independent variables that the end action of a tag reads in Driver
mode. -/
def Tok.drvEndProbe (tok : Tok) (a : DrvAbs) : Core :=
  { nestinglevel := a.lvl + tok.kind.endType, currtagbody := tok.text,
    bodytail := staleBehind a.body a.tail tok.text, out := a.out ++ tok.render }

/-- The end of the `printers` block as a function of the variables it reads: the
new variables of the mode and the new scanned part of the buffer. -/
def printersEndA (lvl : Int) (out : CStr) (m : DrvSt) : Step (DrvSt × CStr) :=
  if lvl < m.inprinters then
    match m.lastprinters with
    | some p =>
      if 1 ≤ p ∧ p ≤ out.length then
        .next ({ m with inprinters := 0 }, out.take p ++ m.printerentry)
      else .undefined
    | none => .next ({ m with inprinters := 0 }, out)
  else .next (m, out)

/-- The end of a `printer` element as a function of the variables it reads. -/
def printerEndA (lvl : Int) (out : CStr) (m : DrvSt) : Step DrvSt :=
  if lvl < m.inprinter then
    if m.printertobesaved = true then
      match m.lastprinter with
      | some p =>
        if p ≤ out.length then
          .next { m with
            inprinter := 0, printertobesaved := false,
            printerentry := m.printerentry ++ entryHead ++ out.drop p ++ entryTail }
        else .undefined
      | none => .next { m with inprinter := 0, printertobesaved := false }
    else .next { m with inprinter := 0 }
  else .next m

/-- The end action of Driver mode as a function of the variables it reads: the
nesting level, the array `currtagbody` (the text `body` in front of the tag and
the bytes `tail` behind its terminator) and the scanned part of the buffer. -/
def drvEndA (ctx : Ctx) (lvl : Int) (body tail out : CStr) (m : DrvSt) : Step (DrvSt × CStr) :=
  (printersEndA lvl out (overDrvFlags { nestinglevel := lvl } m)).bind fun r =>
    (printerEndA lvl r.2 r.1).bind fun m2 =>
      .next (overDrvId ctx { nestinglevel := lvl, currtagbody := body, bodytail := tail } m2,
        r.2)

/-- The effect of one tag of a driver document. -/
def drvAbsTok (ctx : Ctx) (a : DrvAbs) (tok : Tok) : Step DrvAbs :=
  (drvNameM (tok.drvNameProbe a) a.m).bind fun m1 =>
    (drvEnd ctx { core := tok.drvEndProbe a, m := m1 }).bind fun s =>
      .next { lvl := a.lvl + tok.kind.endType, m := s.m, out := s.core.out,
              body := tok.text, tail := staleBehind a.body a.tail tok.text }

/-- The effect of a list of tags of a driver document. -/
def drvAbsRun (ctx : Ctx) : List Tok → DrvAbs → Step DrvAbs
  | [], a => .next a
  | t :: l, a => (drvAbsTok ctx a t).bind (drvAbsRun ctx l)

/-- The variables behind the opening tag of the root element `driver`, read in
a state `s` in which no sentinel of the mode is set.  The header is removed at
the name of the tag, with `lasttagend = NULL`, so that the end of the tag
writes nothing to `currtagbody`. -/
def drvAbsRoot (root : Tok) (s : DrvState) : DrvAbs :=
  { lvl := 1 + root.kind.endType
    m := overDrvFlags { nestinglevel := 1 + root.kind.endType }
      { s.m with indriver := s.core.nestinglevel + 1 }
    out := root.tag
    body := s.core.currtagbody
    tail := s.core.bodytail }

/-- No sentinel of a block of the driver document is set. -/
structure DrvClear (m : DrvSt) : Prop where
  inprinters : m.inprinters = 0
  inprinter : m.inprinter = 0
  inid : m.inid = 0

instance (m : DrvSt) : Decidable (DrvClear m) :=
  if h : m.inprinters = 0 ∧ m.inprinter = 0 ∧ m.inid = 0 then isTrue ⟨h.1, h.2.1, h.2.2⟩
  else isFalse fun q => h ⟨q.inprinters, q.inprinter, q.inid⟩

/-! ## Driver documents: the printer list and the marker `nopjl` -/

/-- What the action on the name of a tag does to the variables of Driver mode,
variable by variable. -/
structure DrvNamed (tok : Tok) (a : DrvAbs) (m1 : DrvSt) : Prop where
  inid : m1.inid = if tok.nm = lit "id" then a.lvl + 1 else a.m.inid
  inprinter : m1.inprinter = if tok.nm = lit "printer" then a.lvl + 1 else a.m.inprinter
  inprinters : m1.inprinters = if tok.nm = lit "printers" then a.lvl + 1 else a.m.inprinters
  inexecution :
    m1.inexecution = if tok.nm = lit "execution" then a.lvl + 1 else a.m.inexecution
  nopjl : m1.nopjl = (a.m.nopjl || decide (tok.nm = lit "nopjl" ∧ a.m.inexecution ≠ 0))
  printerentry : m1.printerentry =
    if tok.nm = lit "printers" ∧ tok.kind ≠ .closing then [] else a.m.printerentry
  lastprinters : m1.lastprinters =
    if tok.nm = lit "printers" ∧ tok.kind ≠ .closing then some (a.out.length - 1 + 1)
    else a.m.lastprinters
  lastprinter : m1.lastprinter =
    if tok.nm = lit "printer" ∧ tok.kind ≠ .closing then some (a.out ++ tok.text).length
    else a.m.lastprinter
  printertobesaved : m1.printertobesaved = a.m.printertobesaved
  printerentryfound : m1.printerentryfound = a.m.printerentryfound

/-- The end of `execution`, `nopjl` and `driver` leaves the other variables of
the mode alone. -/
structure SameBlocks (m m1 : DrvSt) : Prop where
  inid : m1.inid = m.inid
  inprinter : m1.inprinter = m.inprinter
  inprinters : m1.inprinters = m.inprinters
  printerentry : m1.printerentry = m.printerentry
  lastprinters : m1.lastprinters = m.lastprinters
  lastprinter : m1.lastprinter = m.lastprinter
  printertobesaved : m1.printertobesaved = m.printertobesaved
  printerentryfound : m1.printerentryfound = m.printerentryfound
  nopjl : m1.nopjl = m.nopjl

/-- What the end action of a tag does to the variables of Driver mode and to
the scanned part `out` of the buffer, when at most one of the blocks
`printers` (`P`), `printer` (`Q`) and `id` (`I`) ends at the tag. -/
structure DrvEnded (ctx : Ctx) (lvl : Int) (body tail buf : CStr) (m : DrvSt) (P Q I : Prop)
    [Decidable P] [Decidable Q] [Decidable I] (r : DrvSt × CStr) : Prop where
  out : r.2 = if P then buf.take (m.lastprinters.getD 0) ++ m.printerentry else buf
  inid : r.1.inid = if I then 0 else m.inid
  inprinter : r.1.inprinter = if Q then 0 else m.inprinter
  inprinters : r.1.inprinters = if P then 0 else m.inprinters
  inexecution : r.1.inexecution = if lvl < m.inexecution then 0 else m.inexecution
  nopjl : r.1.nopjl = m.nopjl
  printerentry : r.1.printerentry =
    if Q ∧ m.printertobesaved = true then
      m.printerentry ++ entryHead ++ buf.drop (m.lastprinter.getD 0) ++ entryTail
    else m.printerentry
  lastprinters : r.1.lastprinters = m.lastprinters
  lastprinter : r.1.lastprinter = m.lastprinter
  printertobesaved : r.1.printertobesaved =
    if Q then false
    else (m.printertobesaved ||
      decide (I ∧ ctx.trpid = translateid (strFrom body tail 8) ctx.idlist))
  printerentryfound : r.1.printerentryfound =
    (m.printerentryfound ||
      decide (I ∧ ctx.trpid = translateid (strFrom body tail 8) ctx.idlist))

/-- The tag closes an `id` element whose text, behind its first eight
characters, translates to the translated id of the requested printer. -/
def idMatches (ctx : Ctx) (t : Tok) : Bool :=
  decide (t.nm = lit "id" ∧ t.kind = .closing ∧
    ctx.trpid = translateid (t.text.drop 8) ctx.idlist)

/-- The tag closes an `id` element, and the string that `parse` reads at
`currtagbody + 8` translates to the translated id of the requested printer;
`body` and `tail` are the string in `currtagbody` and the bytes behind its
terminator in front of the tag. -/
def idMatchesAt (ctx : Ctx) (body tail : CStr) (t : Tok) : Bool :=
  decide (t.nm = lit "id" ∧ t.kind = .closing ∧
    ctx.trpid = translateid (strFrom t.text (staleBehind body tail t.text) 8) ctx.idlist)

/-- The array `currtagbody` behind a list of tags: every tag writes the text in
front of it to the start of the array. -/
def bodyAfter : List Tok → CStr → CStr → CStr × CStr
  | [], b, t => (b, t)
  | x :: l, b, t => bodyAfter l x.text (staleBehind b t x.text)

/-- Some tag of the list closes an `id` element at which `parse` reads the
requested printer; `b` and `t` are the content of `currtagbody` in front of
the list. -/
def namedAt (ctx : Ctx) : List Tok → CStr → CStr → Bool
  | [], _, _ => false
  | x :: l, b, t => idMatchesAt ctx b t x || namedAt ctx l x.text (staleBehind b t x.text)

/-- The sentinels of the blocks of Driver mode inside the open elements `st` of
a well-nested driver document. -/
structure DrvInv (st : List CStr) (a : DrvAbs) : Prop where
  lvl : a.lvl = 1 + st.length
  inid : a.m.inid ≤ boundAt (lit "id") 1 st
  inprinter : a.m.inprinter ≤ boundAt (lit "printer") 1 st
  inprinters : a.m.inprinters ≤ boundAt (lit "printers") 1 st
  out : a.out ≠ []

/-- No tag without body has the name `id`, `printer` or `printers`. -/
def Tok.NoVoidBlock (t : Tok) : Prop :=
  t.kind = .void → t.nm ≠ lit "id" ∧ t.nm ≠ lit "printer" ∧ t.nm ≠ lit "printers"

instance (t : Tok) : Decidable t.NoVoidBlock := by
  unfold Tok.NoVoidBlock; infer_instance

/-- What a tag of a well-nested driver document does to the scanned part of the
buffer and to the variables of the printer list. -/
structure DrvStepped (ctx : Ctx) (tok : Tok) (a a1 : DrvAbs) : Prop where
  out : a1.out =
    if tok.nm = lit "printers" ∧ tok.kind = .closing then
      (a.out ++ tok.render).take (a.m.lastprinters.getD 0) ++ a.m.printerentry
    else a.out ++ tok.render
  printerentry : a1.m.printerentry =
    if tok.nm = lit "printers" ∧ tok.kind ≠ .closing then []
    else if tok.nm = lit "printer" ∧ tok.kind = .closing ∧ a.m.printertobesaved = true then
      a.m.printerentry ++ entryHead ++ (a.out ++ tok.render).drop (a.m.lastprinter.getD 0) ++
        entryTail
    else a.m.printerentry
  lastprinters : a1.m.lastprinters =
    if tok.nm = lit "printers" ∧ tok.kind ≠ .closing then some a.out.length
    else a.m.lastprinters
  lastprinter : a1.m.lastprinter =
    if tok.nm = lit "printer" ∧ tok.kind ≠ .closing then some (a.out ++ tok.text).length
    else a.m.lastprinter
  printertobesaved : a1.m.printertobesaved =
    if tok.nm = lit "printer" ∧ tok.kind = .closing then false
    else (a.m.printertobesaved || idMatchesAt ctx a.body a.tail tok)
  printerentryfound : a1.m.printerentryfound =
    (a.m.printerentryfound || idMatchesAt ctx a.body a.tail tok)
  body : a1.body = tok.text
  tail : a1.tail = staleBehind a.body a.tail tok.text

/-- The tag is no tag of the printer list: its name is neither `printers` nor
`printer`, and it is not a tag `<id />` without body. -/
def Tok.Plain (t : Tok) : Prop :=
  t.nm ≠ lit "printers" ∧ t.nm ≠ lit "printer" ∧ (t.kind = .void → t.nm ≠ lit "id")

instance (t : Tok) : Decidable t.Plain := by
  unfold Tok.Plain; infer_instance

/-- What a list of tags outside the tags of the printer list does: the buffer
keeps them, and a matching `id` element marks the printer as found. -/
structure DrvRan (ctx : Ctx) (toks : List Tok) (a a1 : DrvAbs) : Prop where
  out : a1.out = a.out ++ renderToks toks
  printerentry : a1.m.printerentry = a.m.printerentry
  lastprinters : a1.m.lastprinters = a.m.lastprinters
  lastprinter : a1.m.lastprinter = a.m.lastprinter
  printertobesaved :
    a1.m.printertobesaved = (a.m.printertobesaved || namedAt ctx toks a.body a.tail)
  printerentryfound :
    a1.m.printerentryfound = (a.m.printerentryfound || namedAt ctx toks a.body a.tail)
  body : a1.body = (bodyAfter toks a.body a.tail).1
  tail : a1.tail = (bodyAfter toks a.body a.tail).2

/-- An entry of the printer list of a driver document: the opening tag of a
`printer` element with the text in front of it, the tags inside the element, and
its closing tag. -/
structure PrinterEntry where
  opening : Tok
  inner : List Tok
  closing : Tok
deriving DecidableEq, Repr

/-- The tags of an entry of the printer list. -/
def PrinterEntry.toks (e : PrinterEntry) : List Tok := e.opening :: (e.inner ++ [e.closing])

/-- The `printer` element of an entry, from the `<` of its opening tag to the
`>` of its closing tag. -/
def PrinterEntry.element (e : PrinterEntry) : CStr :=
  e.opening.tag ++ (renderToks e.inner ++ e.closing.render)

/-- The entry holds an `id` element that names the requested printer. -/
def PrinterEntry.listed (ctx : Ctx) (e : PrinterEntry) : Bool := e.inner.any (idMatches ctx)

/-- The entry holds an `id` element at whose end `parse` reads the requested
printer; `b` and `t` are the content of `currtagbody` in front of the entry. -/
def PrinterEntry.listedAt (ctx : Ctx) (e : PrinterEntry) (b t : CStr) : Bool :=
  namedAt ctx e.toks b t

/-- The entry is a well-nested `printer` element, inside the open elements
`st`, that holds no tag of the printer list. -/
def PrinterEntry.Wf (st : List CStr) (e : PrinterEntry) : Prop :=
  (e.opening.kind = .opening ∧ e.opening.nm = lit "printer") ∧
  (e.closing.kind = .closing ∧ e.closing.nm = lit "printer") ∧
  (∀ t ∈ e.inner, t.Plain) ∧
  nested (lit "printer" :: st) e.inner = true ∧
  pushAll (lit "printer" :: st) e.inner = lit "printer" :: st

instance (st : List CStr) (e : PrinterEntry) : Decidable (e.Wf st) := by
  unfold PrinterEntry.Wf; infer_instance

/-- The text of every `id` element of the entry has the eight characters that
`parse` skips. -/
def PrinterEntry.LongIds (e : PrinterEntry) : Prop :=
  ∀ t ∈ e.inner, t.nm = lit "id" → t.kind = .closing → 8 ≤ t.text.length

instance (e : PrinterEntry) : Decidable e.LongIds := by
  unfold PrinterEntry.LongIds; infer_instance

/-- The entry is a well-nested `printer` element, inside the open elements
`st`, that holds no tag of the printer list, and the text of its `id` elements
has the eight characters that `parse` skips (`printer/`). -/
def PrinterEntry.Ok (st : List CStr) (e : PrinterEntry) : Prop :=
  (e.opening.kind = .opening ∧ e.opening.nm = lit "printer") ∧
  (e.closing.kind = .closing ∧ e.closing.nm = lit "printer") ∧
  (∀ t ∈ e.inner, t.Plain) ∧
  nested (lit "printer" :: st) e.inner = true ∧
  pushAll (lit "printer" :: st) e.inner = lit "printer" :: st ∧
  (∀ t ∈ e.inner, t.nm = lit "id" → t.kind = .closing → 8 ≤ t.text.length)

instance (st : List CStr) (e : PrinterEntry) : Decidable (e.Ok st) := by
  unfold PrinterEntry.Ok; infer_instance

/-- The tags of a list of entries. -/
def entriesToks : List PrinterEntry → List Tok
  | [] => []
  | e :: l => e.toks ++ entriesToks l

/-- What `parse` saves of a list of entries: every entry at one of whose `id`
elements it reads the requested printer, in a `printers` element of its own;
`b` and `t` are the content of `currtagbody` in front of the list. -/
def savedEntriesAt (ctx : Ctx) : List PrinterEntry → CStr → CStr → CStr
  | [], _, _ => []
  | e :: l, b, t =>
    (if e.listedAt ctx b t = true then entryHead ++ e.element ++ entryTail else []) ++
      savedEntriesAt ctx l (bodyAfter e.toks b t).1 (bodyAfter e.toks b t).2

/-- For every entry of a list of entries, whether `parse` reads the requested
printer at the end of one of its `id` elements; `b` and `t` are the content of
`currtagbody` in front of the list. -/
def entryFlags (ctx : Ctx) : List PrinterEntry → CStr → CStr → List Bool
  | [], _, _ => []
  | e :: l, b, t =>
    e.listedAt ctx b t :: entryFlags ctx l (bodyAfter e.toks b t).1 (bodyAfter e.toks b t).2

/-- What the entries of the printer list do: the buffer keeps them for the
moment, and those at which `parse` reads the requested printer are saved. -/
structure DrvListed (ctx : Ctx) (es : List PrinterEntry) (a a1 : DrvAbs) : Prop where
  out : a1.out = a.out ++ renderToks (entriesToks es)
  printerentry : a1.m.printerentry = a.m.printerentry ++ savedEntriesAt ctx es a.body a.tail
  lastprinters : a1.m.lastprinters = a.m.lastprinters
  printertobesaved : a1.m.printertobesaved = false
  printerentryfound : a1.m.printerentryfound =
    (a.m.printerentryfound || namedAt ctx (entriesToks es) a.body a.tail)
  body : a1.body = (bodyAfter (entriesToks es) a.body a.tail).1
  tail : a1.tail = (bodyAfter (entriesToks es) a.body a.tail).2

/-- The tag has nothing to do with the printer list: its name is none of
`printers`, `printer` and `id`. -/
def Tok.Neutral (t : Tok) : Prop :=
  t.nm ≠ lit "printers" ∧ t.nm ≠ lit "printer" ∧ t.nm ≠ lit "id"

instance (t : Tok) : Decidable t.Neutral := by
  unfold Tok.Neutral; infer_instance

/-- A driver document behind its header: the opening tag of the root element
`driver`, the tags in front of the printer list, the printer list (the opening
tag of `printers`, the entries, the closing tag of `printers`), and the tags
behind it. -/
structure DriverDoc where
  root : Tok
  before : List Tok
  popen : Tok
  entries : List PrinterEntry
  pclose : Tok
  after : List Tok
deriving DecidableEq, Repr

/-- The tags of the printer list. -/
def DriverDoc.block (d : DriverDoc) : List Tok :=
  d.popen :: (entriesToks d.entries ++ [d.pclose])

/-- The tags of the document behind the opening tag of the root element. -/
def DriverDoc.body (d : DriverDoc) : List Tok := d.before ++ (d.block ++ d.after)

/-- The open elements at the printer list. -/
def DriverDoc.stack (d : DriverDoc) : List CStr := pushAll [lit "driver"] d.before

/-- The document is well formed: the tags are tags, the root element is
`driver` and holds no other `driver` element, the elements are well nested, the
`printer` and `id` elements are those of the entries of the printer list. -/
def DriverDoc.Ok (d : DriverDoc) : Prop :=
  (d.root.kind = .opening ∧ d.root.nm = lit "driver" ∧ d.root.Clean) ∧
  (∀ t ∈ d.body, t.Clean ∧ ¬ t.Opens (lit "driver")) ∧
  ((∀ t ∈ d.before, t.Neutral) ∧ nested [lit "driver"] d.before = true) ∧
  (d.popen.kind = .opening ∧ d.popen.nm = lit "printers") ∧
  (∀ e ∈ d.entries, e.Ok (lit "printers" :: d.stack)) ∧
  (d.pclose.kind = .closing ∧ d.pclose.nm = lit "printers") ∧
  ((∀ t ∈ d.after, t.Neutral) ∧ nested d.stack d.after = true)

instance (d : DriverDoc) : Decidable d.Ok := by
  unfold DriverDoc.Ok; infer_instance

/-- The document is well formed: the tags are tags, the root element is
`driver` and holds no other `driver` element, the elements are well nested, the
`printer` and `id` elements are those of the entries of the printer list.  The
texts of the `id` elements are arbitrary. -/
def DriverDoc.Wf (d : DriverDoc) : Prop :=
  (d.root.kind = .opening ∧ d.root.nm = lit "driver" ∧ d.root.Clean) ∧
  (∀ t ∈ d.body, t.Clean ∧ ¬ t.Opens (lit "driver")) ∧
  ((∀ t ∈ d.before, t.Neutral) ∧ nested [lit "driver"] d.before = true) ∧
  (d.popen.kind = .opening ∧ d.popen.nm = lit "printers") ∧
  (∀ e ∈ d.entries, e.Wf (lit "printers" :: d.stack)) ∧
  (d.pclose.kind = .closing ∧ d.pclose.nm = lit "printers") ∧
  ((∀ t ∈ d.after, t.Neutral) ∧ nested d.stack d.after = true)

instance (d : DriverDoc) : Decidable d.Wf := by
  unfold DriverDoc.Wf; infer_instance

/-- The text of every `id` element of the printer list has the eight characters
that `parse` skips. -/
def DriverDoc.LongIds (d : DriverDoc) : Prop := ∀ e ∈ d.entries, e.LongIds

instance (d : DriverDoc) : Decidable d.LongIds := by
  unfold DriverDoc.LongIds; infer_instance

/-- The content of the array `currtagbody` in front of the entries of the
printer list, when `b` and `t` are its content behind the opening tag of the
root element. -/
def DriverDoc.bodyAt (d : DriverDoc) (b t : CStr) : CStr × CStr :=
  bodyAfter (d.before ++ [d.popen]) b t

/-- The entries of the printer list at which `parse` reads the requested
printer, entry by entry; `b` and `t` are the content of `currtagbody` behind
the opening tag of the root element. -/
def DriverDoc.listedFlags (ctx : Ctx) (d : DriverDoc) (b t : CStr) : List Bool :=
  entryFlags ctx d.entries (d.bodyAt b t).1 (d.bodyAt b t).2

/-- The document as `parse` leaves it: the printer list is replaced by the
saved entries; `b` and `t` are the content of `currtagbody` behind the opening
tag of the root element. -/
def DriverDoc.rewrittenAt (ctx : Ctx) (d : DriverDoc) (b t : CStr) : CStr :=
  d.root.tag ++ (renderToks d.before ++
    (savedEntriesAt ctx d.entries (d.bodyAt b t).1 (d.bodyAt b t).2 ++
      renderToks d.after))

/-- The state behind the header of a driver document: the scanner is between
two tags, and the variables of the printer list are as at the start. -/
structure DrvStart (s : DrvState) : Prop where
  text : TextMode s.core
  clear : DrvClear s.m
  printertobesaved : s.m.printertobesaved = false
  printerentryfound : s.m.printerentryfound = false
  combo : s.core.comboconfirmed = 0

instance (s : DrvState) : Decidable (DrvStart s) :=
  if h : TextMode s.core ∧ DrvClear s.m ∧ s.m.printertobesaved = false ∧
      s.m.printerentryfound = false ∧ s.core.comboconfirmed = 0 then
    isTrue ⟨h.1, h.2.1, h.2.2.1, h.2.2.2.1, h.2.2.2.2⟩
  else isFalse fun q => h ⟨q.text, q.clear, q.printertobesaved, q.printerentryfound, q.combo⟩

/-- A tag `nopjl` stands inside an `execution` element: `st` holds the open
elements in front of the tags. -/
def nopjlInside : List CStr → List Tok → Bool
  | _, [] => false
  | st, t :: l =>
    decide (t.nm = lit "nopjl" ∧ lit "execution" ∈ st) || nopjlInside (t.push st) l

/-- The sentinel of `execution` inside the open elements `st` of a well-nested
driver document in which no `execution` element lies inside another one. -/
structure ExecInv (st : List CStr) (a : DrvAbs) : Prop where
  lvl : a.lvl = 1 + st.length
  inexecution : a.m.inexecution = sentinelAt (lit "execution") 1 st
  once : st.count (lit "execution") ≤ 1

/-- The header of the example driver document. -/
def drvHeader : CStr := lit "<?xml version=\"1.0\"?>\n"

/-- An entry of a printer list for the printer `Foo`. -/
def entryFoo : PrinterEntry where
  opening := { text := lit "\n  ", kind := .opening, nm := lit "printer" }
  inner :=
    [ { text := [], kind := .opening, nm := lit "id" },
      { text := lit "printer/Foo", kind := .closing, nm := lit "id" } ]
  closing := { text := [], kind := .closing, nm := lit "printer" }

/-- An entry of a printer list for the printer `HP-LaserJet`. -/
def entryLaserJet : PrinterEntry where
  opening := { text := lit "\n  ", kind := .opening, nm := lit "printer" }
  inner :=
    [ { text := [], kind := .opening, nm := lit "id" },
      { text := lit "printer/HP-LaserJet", kind := .closing, nm := lit "id" },
      { text := [], kind := .opening, nm := lit "comments" },
      { text := lit "x", kind := .closing, nm := lit "comments" } ]
  closing := { text := [], kind := .closing, nm := lit "printer" }

/-- A driver document with an `execution` element that holds the marker
`<nopjl />`, and a printer list of two entries, the second of which names the
printer `HP-LaserJet`. -/
def drvExample : DriverDoc where
  root := { text := [], kind := .opening, nm := lit "driver", params := [lit "id=\"driver/gs\""] }
  before :=
    [ { text := lit "\n ", kind := .opening, nm := lit "execution" },
      { text := [], kind := .void, nm := lit "nopjl" },
      { text := [], kind := .closing, nm := lit "execution" } ]
  popen := { text := lit "\n ", kind := .opening, nm := lit "printers" }
  entries := [entryFoo, entryLaserJet]
  pclose := { text := lit "\n ", kind := .closing, nm := lit "printers" }
  after := [ { text := lit "\n", kind := .closing, nm := lit "driver" } ]

/-- The example driver document as it stands in the buffer. -/
def drvExampleText : CStr :=
  drvHeader ++ (drvExample.root.render ++ (renderToks drvExample.body ++ [chNL]))

/-- The state of the scan behind the header of the example driver document,
for a call that finds a leftover in `printerentry` and `*nopjl` set. -/
def stDrvHeader : DrvState :=
  (scanPrefix (driverHooks ctxLaserJetGs) (drvInit (lit "old") true) drvHeader
    (drvExample.root.render ++ (renderToks drvExample.body ++ [chNL]))).getD
    (drvInit (lit "old") true)

/-- A driver document with a printer list of one entry, without constraints and
without PJL marker. -/
def docDriverList : CStr :=
  lit ("<driver id=\"driver/gs\">\n <printers>\n  <printer><id>printer/Foo</id></printer>" ++
    "\n </printers>\n</driver>\n")

/-- The tags of a driver document without printer list. -/
def drvPlainBody : List Tok :=
  [ { text := lit "\n ", kind := .opening, nm := lit "name" },
    { text := lit "gs", kind := .closing, nm := lit "name" },
    { text := lit "\n ", kind := .opening, nm := lit "execution" },
    { text := [], kind := .void, nm := lit "ghostscript" },
    { text := [], kind := .closing, nm := lit "execution" },
    { text := lit "\n", kind := .closing, nm := lit "driver" } ]

/-- The state of the scan behind the header of the driver document without
printer list. -/
def stDrvPlain : DrvState :=
  (scanPrefix (driverHooks ctxLaserJetGs) (drvInit [] false) drvHeader
    (drvExample.root.render ++ (renderToks drvPlainBody ++ [chNL]))).getD (drvInit [] false)

/-- A device document whose list of drivers holds two entries, each with the
id of the driver and a ready-made PPD file. -/
def docTwoDrivers : CStr :=
  lit ("<printer id=\"printer/HP-LaserJet\">\n <make>HP</make>\n <model>LaserJet</model>" ++
    "\n <drivers>\n  <driver><id>hpijs</id><ppd>a.ppd</ppd></driver>" ++
    "\n  <driver><id>gs</id><ppd>b.ppd</ppd></driver>\n </drivers>\n</printer>\n")

/-! ## The printer list of the overview (`printerlist_t`, `driverlist_t`) -/

/-- Source `driverlist_t`: a driver in the list of a printer, with the
exceptions in its functionality profile for this printer (`none` for `NULL`). -/
structure DriverRef where
  name : CStr
  functionality : Option CStr := none
deriving DecidableEq, Repr

/-- Source `printerlist_t`: a printer and the list of the drivers it works
with. -/
structure CatalogEntry where
  id : CStr
  drivers : List DriverRef := []
deriving DecidableEq, Repr

/-- The linked list behind `*printerlist`, in list order. -/
abbrev Catalog := List CatalogEntry

/-- The loop "search printer in list" with the creation of a new entry at the
end of the list when the printer is not found (source lines 1516-1537 and
1699-1719), followed by a change `f` of the drivers of the entry. -/
def withPrinter (id : CStr) (f : List DriverRef → List DriverRef) : Catalog → Catalog
  | [] => [{ id := id, drivers := f [] }]
  | e :: l => if e.id = id then { e with drivers := f e.drivers } :: l else e :: withPrinter id f l

/-- The loop "search printer in list" without creation of an entry (source
lines 1751-1759): the drivers of the first entry with the id `id` are changed by
`f`, and nothing happens when there is none. -/
def inPrinter (id : CStr) (f : List DriverRef → List DriverRef) : Catalog → Catalog
  | [] => []
  | e :: l => if e.id = id then { e with drivers := f e.drivers } :: l else e :: inPrinter id f l

/-- The loop that walks to the end of the list of drivers and links a new entry
there (source lines 1538-1557). -/
def appendDriver (d : DriverRef) (ds : List DriverRef) : List DriverRef := ds ++ [d]

/-- The loop that stops at the first driver whose name is `name` up to case, and
links a new entry at the end when there is none (source lines 1584-1602 and
1721-1739). -/
def addDriverOnce (name : CStr) : List DriverRef → List DriverRef
  | [] => [{ name := name }]
  | d :: l => if strcaseeq d.name name then d :: l else d :: addDriverOnce name l

/-- The loop that stops at the first driver whose name is `name` up to case and
unlinks it (source lines 1762-1779 and 1933-1952). -/
def removeDriver (name : CStr) : List DriverRef → List DriverRef
  | [] => []
  | d :: l => if strcaseeq d.name name then l else d :: removeDriver name l

/-- The first entry of the list holds a driver whose name is `name` up to case
(source lines 1660-1671); the list is not empty when this is asked. -/
def listedUnderFirst (name : CStr) : Catalog → Step Bool
  | [] => .undefined
  | e :: _ => .next (e.drivers.any fun d => strcaseeq d.name name)

/-- The driver is added to the first entry of the list, the pseudo printer
`proto`, unless it is there (source lines 1580-1602). -/
def registerProto (name : CStr) : Catalog → Step Catalog
  | [] => .undefined
  | e :: l => .next ({ e with drivers := addDriverOnce name e.drivers } :: l)

/-- The driver is removed from the list of every printer (source lines
1928-1957): in each list the first driver whose name is `name` up to case. -/
def retractDriver (name : CStr) (pl : Catalog) : Catalog :=
  pl.map fun e => { e with drivers := removeDriver name e.drivers }

/-- The first entry with the id `id` (source lines 1997-2003). -/
def locatePrinter (id : CStr) : Catalog → Option CatalogEntry
  | [] => none
  | e :: l => if e.id = id then some e else locatePrinter id l

/-- The first entry with the id `id` is unlinked (source lines 2040-2050). -/
def consumePrinter (id : CStr) : Catalog → Catalog
  | [] => []
  | e :: l => if e.id = id then l else e :: consumePrinter id l

/-- The inputs of `parse` that the overview modes read and never write. -/
structure OvCtx where
  /-- The parameter `pid`, which marks the kind of overview: `NULL` (`none`) for
  all combinations, `"C"` for those with a PPD file, `"c"` for those with a PPD
  file that is not ready-made. -/
  pid : Option CStr := none
  idlist : IdList := []

/-- The test `pid[0] == 'C'`. -/
def OvCtx.readyMade (ctx : OvCtx) : Bool :=
  match ctx.pid with
  | some p => p.head? = some 'C'
  | none => false

/-! ## Overview of the drivers (`PARSE_OP_OV_DRIVER`) -/

/-- The local variables of `parse` used in the overview mode for driver files,
and the list `*printerlist`.  The arrays `cprinter`, `cdriver` and
`dfunctionalityentry` are uninitialised in C: their content at the start is part
of the initial state. -/
structure OvdSt where
  inprinter : Int := 0
  inid : Int := 0
  indfunctionality : Int := 0
  inexecution : Int := 0
  inprototype : Int := 0
  inprinters : Int := 0
  incomments : Int := 0
  indriver : Int := 0
  cprinter : CStr := []
  cdriver : CStr := []
  dfunctionalityentry : CStr := []
  lastdfunctionality : Option Nat := none
  lastprototype : Option Nat := none
  lastprinters : Option Nat := none
  lastcomments : Option Nat := none
  driverhasproto : Bool := false
  printerlist : Catalog := []
  /-- The action on a parameter has computed `NULL + 7` (source line 824): the
  C code leaves the model at the next action. -/
  paramfault : Bool := false
  /-- The function has freed the buffer and returned from inside the scan loop
  (source lines 1607-1611). -/
  returned : Bool := false
deriving DecidableEq, Repr

/-- State of the parse in the overview mode for driver files. -/
abbrev OvdState := PState OvdSt

/-- Action on the tag name in the overview mode for driver files, on the
variables of the mode (source lines 651-693). -/
def ovdNameM (c : Core) (m : OvdSt) : Step OvdSt :=
  let nm := c.currtagname
  let lvl := c.nestinglevel + 1
  if nm = lit "printer" then
    if c.tagtype = TAG_OPEN then
      .next { m with inprinter := lvl, cprinter := [], dfunctionalityentry := [] }
    else .next { m with inprinter := lvl }
  else if nm = lit "id" then .next { m with inid := lvl }
  else if nm = lit "functionality" then
    if c.tagtype = TAG_OPEN then
      .next { m with indfunctionality := lvl, lastdfunctionality := some c.lasttag }
    else .next { m with indfunctionality := lvl }
  else if nm = lit "execution" then .next { m with inexecution := lvl }
  else if nm = lit "prototype" then
    if c.tagtype = TAG_OPEN then
      match c.lasttagend with
      | some e => .next { m with inprototype := lvl, lastprototype := some (e + 1) }
      | none => .undefined
    else .next { m with inprototype := lvl }
  else if nm = lit "printers" then
    if c.tagtype = TAG_OPEN then
      match c.lasttagend with
      | some e => .next { m with inprinters := lvl, lastprinters := some (e + 1) }
      | none => .undefined
    else .next { m with inprinters := lvl }
  else if nm = lit "comments" then
    if c.tagtype = TAG_OPEN then
      match c.lasttagend with
      | some e => .next { m with incomments := lvl, lastcomments := some (e + 1) }
      | none => .undefined
    else .next { m with incomments := lvl }
  else if nm = lit "driver" then .next { m with indriver := lvl }
  else .next m

/-- Action on the tag name in the overview mode for driver files, on the
mode-independent variables: the opening tag of the root element `driver`
removes the file header (source lines 674-692). -/
def ovdNameCore (c : Core) : Core :=
  if c.currtagname = lit "driver" ∧ c.tagtype = TAG_OPEN then removeHeader c else c

/-- Action on the tag name in the overview mode for driver files. -/
def ovdName (s : OvdState) : Step OvdState :=
  if s.m.returned = true then .next s
  else if s.m.paramfault = true then .undefined
  else (ovdNameM s.core s.m).bind fun m1 => .next { core := ovdNameCore s.core, m := m1 }

/-- Action on a further word of a tag in the overview mode for driver files, on
the variables of the mode (source lines 820-829): the parameter `id` of the tag
`driver` gives the short name of the driver, the text behind `driver/` without
its last character. -/
def ovdParamM (c : Core) (m : OvdSt) : OvdSt :=
  if c.currtagname = lit "driver" then
    match strstr c.currtagparam (lit "id") with
    | some r =>
      match strstr (r.drop 2) (lit "driver/") with
      | some r2 => { m with cdriver := (r2.drop 7).dropLast }
      | none => { m with paramfault := true }
    | none => m
  else m

/-- Action on a further word of a tag in the overview mode for driver files. -/
def ovdParam (s : OvdState) : OvdState :=
  if s.m.returned = true then s else { s with m := ovdParamM s.core s.m }

/-- End of `driver` (source line 1455). -/
def overOvdDriver (c : Core) (m : OvdSt) : OvdSt :=
  if c.nestinglevel < m.indriver then { m with indriver := 0 } else m

/-- End of `printers` (source lines 1456-1467): the `printers` block is cut out
of the buffer. -/
def overOvdPrinters (s : OvdState) : Step OvdState :=
  if s.core.nestinglevel < s.m.inprinters then
    match s.m.lastprinters with
    | some p =>
      (deleteSpan s.core p).bind fun c1 => .next { core := c1, m := { s.m with inprinters := 0 } }
    | none => .next { s with m := { s.m with inprinters := 0 } }
  else .next s

/-- End of `comments` (source lines 1468-1480): a `comments` block outside a
`printer` element is cut out of the buffer. -/
def overOvdComments (s : OvdState) : Step OvdState :=
  if s.core.nestinglevel < s.m.incomments then
    match s.m.lastcomments with
    | some p =>
      if s.m.inprinter = 0 then
        (deleteSpan s.core p).bind fun c1 =>
          .next { core := c1, m := { s.m with incomments := 0 } }
      else .next { s with m := { s.m with incomments := 0 } }
    | none => .next { s with m := { s.m with incomments := 0 } }
  else .next s

/-- End of `driver`, `printers` and `comments` (source lines 1455-1480). -/
def overOvdBlocks (s : OvdState) : Step OvdState :=
  (overOvdPrinters { s with m := overOvdDriver s.core s.m }).bind overOvdComments

/-- End of `execution` and `id` (source lines 1481-1491): the id of the printer
is the text behind its first eight characters, translated.  For a text of fewer
than eight characters this is the string at `currtagbody + 8` of an array whose
bytes behind the terminator are zero. -/
def overOvdIds (ctx : OvCtx) (c : Core) (m : OvdSt) : OvdSt :=
  let m1 := if c.nestinglevel < m.inexecution then { m with inexecution := 0 } else m
  if c.nestinglevel < m1.inid then
    { m1 with inid := 0, cprinter := translateid (c.currtagbody.drop 8) ctx.idlist }
  else m1

/-- End of `functionality` (source lines 1492-1507): the element is saved from
the mark `lastdfunctionality` up to the `>` under the cursor. -/
def overOvdFunctionality (s : OvdState) : Step OvdState :=
  if s.core.nestinglevel < s.m.indfunctionality then
    match s.m.lastdfunctionality with
    | some p =>
      if p ≤ s.core.out.length then
        .next { s with m := { s.m with
          indfunctionality := 0, dfunctionalityentry := s.core.out.drop p } }
      else .undefined
    | none => .next { s with m := { s.m with indfunctionality := 0 } }
  else .next s

/-- End of `execution`, `id` and `functionality` (source lines 1481-1507). -/
def overOvdEntry (ctx : OvCtx) (s : OvdState) : Step OvdState :=
  overOvdFunctionality { s with m := overOvdIds ctx s.core s.m }

/-- The entry that the end of a `printer` element links to the list of the
printer (source lines 1545-1552). -/
def ovdDriverRef (m : OvdSt) : DriverRef :=
  { name := m.cdriver,
    functionality := if m.dfunctionalityentry ≠ [] then some m.dfunctionalityentry else none }

/-- End of a `printer` element (source lines 1508-1558): the driver is added to
the entry of the printer, which is created when the list does not hold it. -/
def overOvdPrinter (m : OvdSt) (lvl : Int) : OvdSt :=
  if lvl < m.inprinter then
    { m with
      inprinter := 0,
      printerlist := withPrinter m.cprinter (appendDriver (ovdDriverRef m)) m.printerlist }
  else m

/-- The command line at the end of the `prototype` element, with `pid` set
(source lines 1561-1612): a command line that is not blank registers the driver
under the first entry of the list, a blank one frees the buffer and returns. -/
def ovdRegister (ctx : OvCtx) (body : CStr) (m : OvdSt) : Step OvdSt :=
  if ctx.pid.isSome then
    if body.dropWhile isPpdBlank ≠ [] then
      (registerProto m.cdriver m.printerlist).bind fun pl =>
        .next { m with driverhasproto := true, printerlist := pl }
    else .next { m with returned := true }
  else .next m

/-- The `prototype` block is cut out of the buffer (source lines 1614-1622),
unless the call has returned. -/
def ovdCutPrototype (s : OvdState) : Step OvdState :=
  if s.m.returned = true then .next s
  else
    match s.m.lastprototype with
    | some p => (deleteSpan s.core p).bind fun c1 => .next { core := c1, m := s.m }
    | none => .next s

/-- End of the `prototype` element (source lines 1559-1623). -/
def overOvdPrototype (ctx : OvCtx) (s : OvdState) : Step OvdState :=
  if s.core.nestinglevel < s.m.inprototype then
    (ovdRegister ctx s.core.currtagbody { s.m with inprototype := 0 }).bind fun m2 =>
      ovdCutPrototype { s with m := m2 }
  else .next s

/-- Action at the end of a tag in the overview mode for driver files (source
lines 1453-1623). -/
def ovdEnd (ctx : OvCtx) (s : OvdState) : Step OvdState :=
  if s.m.returned = true then .next s
  else if s.m.paramfault = true then .undefined
  else
    (overOvdBlocks s).bind fun s1 =>
      (overOvdEntry ctx s1).bind fun s2 =>
        overOvdPrototype ctx { s2 with m := overOvdPrinter s2.m s2.core.nestinglevel }

/-- The actions of `operation == PARSE_OP_OV_DRIVER`.  The actions are not
reached again once the function has returned: on such a state they do nothing. -/
def ovDriverHooks (ctx : OvCtx) : Hooks OvdSt where
  onName := ovdName
  onParam := ovdParam
  onEnd := ovdEnd ctx

/-- The scan loop of a mode that can return from inside the loop without
result for the caller but the variables it has written: the loop is left as
soon as `stop` holds of the variables of the mode. -/
def stopLoop {σ : Type} (h : Hooks σ) (stop : σ → Bool) : PState σ → CStr → Step (PState σ)
  | s, [] => .next s
  | s, ch :: rest =>
    if stop s.m = true then .next s
    else
      match step h s ch rest with
      | .next s1 => stopLoop h stop s1 rest
      | .discard r => .discard r
      | .fatal => .fatal
      | .undefined => .undefined

/-- The result of `parse` in an overview mode: the content of the buffer
(`none` when it was freed) and the list `*printerlist` behind the call. -/
inductive OvOutcome where
  | returned (data : Option CStr) (printerlist : Catalog)
  /-- The call ended the program with `exit(1)`. -/
  | fatal
  /-- The call left the model. -/
  | undefined
deriving DecidableEq, Repr

/-- The state at the start of `parse` in the overview mode for driver files. -/
def ovdInit (cprinter cdriver dfunctionalityentry : CStr) (pl : Catalog) : OvdState :=
  { core := {},
    m := { cprinter := cprinter, cdriver := cdriver,
           dfunctionalityentry := dfunctionalityentry, printerlist := pl } }

/-- The actions behind the scan loop in the overview mode for driver files
(source lines 1917-1961): with `pid` set, a driver without command line frees
the buffer and leaves the list of every printer. -/
def ovdFinish (ctx : OvCtx) (s : OvdState) : OvOutcome :=
  if s.m.returned = true then .returned none s.m.printerlist
  else if ctx.pid.isSome ∧ s.m.driverhasproto = false then
    .returned none (retractDriver s.m.cdriver s.m.printerlist)
  else .returned (some s.core.out) s.m.printerlist

/-- Source `parse(&data, pid, NULL, ..., &printerlist, PARSE_OP_OV_DRIVER, ...)`
on the buffer content `data`. -/
def parseOvDriver (ctx : OvCtx) (init : OvdState) (data : CStr) : OvOutcome :=
  match stopLoop (ovDriverHooks ctx) (fun m => m.returned) init data with
  | .next s => ovdFinish ctx s
  | .discard _ => .undefined
  | .fatal => .fatal
  | .undefined => .undefined

/-! ## Overview of the printers (`PARSE_OP_OV_PRINTER`) -/

/-- The local variables of `parse` used in the overview mode for printer files,
the list of ready-made PPD files and the list `*printerlist`.  The character
arrays are uninitialised in C until the opening tag of `printer` clears them:
their content at the start is part of the initial state. -/
structure OvpSt where
  inprinter : Int := 0
  inmake : Int := 0
  inmodel : Int := 0
  infunctionality : Int := 0
  inunverified : Int := 0
  indriver : Int := 0
  indrivers : Int := 0
  inid : Int := 0
  inppd : Int := 0
  inlang : Int := 0
  inpostscript : Int := 0
  inautodetect : Int := 0
  cprinter : CStr := []
  cmake : CStr := []
  cmodel : CStr := []
  cfunctionality : CStr := []
  cunverified : Bool := false
  cdriver : CStr := []
  cid : CStr := []
  cppd : CStr := []
  cautodetectentry : CStr := []
  lastautodetect : Option Nat := none
  driverhasproto : Bool := false
  /-- The list `ppdlist`: pairs of driver and PPD file. -/
  ppdlist : List (CStr × CStr) := []
  printerlist : Catalog := []
deriving DecidableEq, Repr

/-- State of the parse in the overview mode for printer files. -/
abbrev OvpState := PState OvpSt

/-- Action on the tag name in the overview mode for printer files, on the
variables of the mode (source lines 694-776). -/
def ovpNameM (c : Core) (m : OvpSt) : OvpSt :=
  let nm := c.currtagname
  let lvl := c.nestinglevel + 1
  if nm = lit "make" then { m with inmake := lvl }
  else if nm = lit "model" then { m with inmodel := lvl }
  else if nm = lit "functionality" then { m with infunctionality := lvl }
  else if nm = lit "unverified" then { m with inunverified := lvl, cunverified := true }
  else if nm = lit "driver" then
    if m.indrivers ≠ 0 ∧ c.tagtype = TAG_OPEN then { m with indriver := lvl, cid := [], cppd := [] }
    else { m with indriver := lvl }
  else if nm = lit "drivers" then { m with indrivers := lvl }
  else if nm = lit "id" then { m with inid := lvl }
  else if nm = lit "ppd" then { m with inppd := lvl }
  else if nm = lit "lang" then { m with inlang := lvl }
  else if nm = lit "postscript" then
    if m.inlang ≠ 0 ∧ c.tagtype = TAG_OPEN then
      { m with inpostscript := lvl, cid := [], cppd := [] }
    else { m with inpostscript := lvl }
  else if nm = lit "autodetect" then
    if c.tagtype = TAG_OPEN then { m with inautodetect := lvl, lastautodetect := some c.lasttag }
    else { m with inautodetect := lvl }
  else if nm = lit "printer" then
    if c.tagtype = TAG_OPEN then
      { m with
        inprinter := lvl, ppdlist := [], cprinter := [], cmake := [], cmodel := [],
        cfunctionality := [], cunverified := false, cdriver := [], cautodetectentry := [] }
    else { m with inprinter := lvl }
  else m

/-- Action on the tag name in the overview mode for printer files, on the
mode-independent variables: the opening tag of the root element `printer`
removes the file header (source lines 740-757). -/
def ovpNameCore (c : Core) : Core :=
  if c.currtagname = lit "printer" ∧ c.tagtype = TAG_OPEN then removeHeader c else c

/-- Action on the tag name in the overview mode for printer files. -/
def ovpName (s : OvpState) : Step OvpState :=
  .next { core := ovpNameCore s.core, m := ovpNameM s.core s.m }

/-- Action on a further word of a tag in the overview mode for printer files,
on the variables of the mode (source lines 830-846): the parameter `id` of the
tag `printer` gives the short id of the printer, the text behind `printer/`
without its last character. -/
def ovpParamM (c : Core) (m : OvpSt) : OvpSt :=
  if c.currtagname = lit "printer" then
    match strstr c.currtagparam (lit "id") with
    | some r =>
      match strstr (r.drop 2) (lit "printer/") with
      | some r2 => { m with cprinter := (r2.drop 8).dropLast }
      | none => m
    | none => m
  else m

/-- Action on a further word of a tag in the overview mode for printer files. -/
def ovpParam (s : OvpState) : OvpState := { s with m := ovpParamM s.core s.m }

/-- End of `printer`, `make`, `model`, `functionality`, `unverified`, `drivers`
and `lang` (source lines 1629-1646). -/
def overOvpFields (c : Core) (m : OvpSt) : OvpSt :=
  let lvl := c.nestinglevel
  let m1 := if lvl < m.inprinter then { m with inprinter := 0 } else m
  let m2 :=
    if lvl < m1.inmake then
      if m1.inautodetect = 0 then { m1 with inmake := 0, cmake := c.currtagbody }
      else { m1 with inmake := 0 }
    else m1
  let m3 :=
    if lvl < m2.inmodel then
      if m2.inautodetect = 0 then { m2 with inmodel := 0, cmodel := c.currtagbody }
      else { m2 with inmodel := 0 }
    else m2
  let m4 :=
    if lvl < m3.infunctionality then
      { m3 with infunctionality := 0, cfunctionality := c.currtagbody }
    else m3
  let m5 := if lvl < m4.inunverified then { m4 with inunverified := 0 } else m4
  let m6 := if lvl < m5.indrivers then { m5 with indrivers := 0 } else m5
  if lvl < m6.inlang then { m6 with inlang := 0 } else m6

/-- The rule that decides whether a combination of printer and driver is shown
(source lines 1678-1688): every combination when `pid` is not set; otherwise
those whose driver has a command line, unless the entry has a ready-made PPD
file and these are not to be shown, and those with a ready-made PPD file when
these are to be shown. -/
def comboShown (ctx : OvCtx) (driverhasproto : Bool) (cppd : CStr) : Bool :=
  ctx.pid.isNone || (driverhasproto && (decide (cppd = []) || ctx.readyMade)) ||
    (decide (cppd ≠ []) && ctx.readyMade)

/-- The entry of a driver is complete (source lines 1651-1821), with `cid` not
empty: the driver is added to the list of the printer or removed from it, and a
ready-made PPD file joins `ppdlist`. -/
def ovpCombo (ctx : OvCtx) (m : OvpSt) : Step OvpSt :=
  let proto : Step Bool :=
    if m.cid ≠ [] ∧ ctx.pid.isSome then listedUnderFirst m.cid m.printerlist else .next false
  proto.bind fun hp =>
    let m1 := { m with driverhasproto := hp }
    if m1.cid ≠ [] then
      let pl :=
        if comboShown ctx hp m1.cppd = true then
          withPrinter m1.cprinter (addDriverOnce m1.cid) m1.printerlist
        else inPrinter m1.cprinter (removeDriver m1.cid) m1.printerlist
      let ppds :=
        if m1.cppd ≠ [] ∧ (ctx.pid.isNone ∨ ctx.readyMade = true) then
          m1.ppdlist ++ [(m1.cid, m1.cppd)]
        else m1.ppdlist
      .next { m1 with printerlist := pl, ppdlist := ppds }
    else .next m1

/-- The sentinels of `driver` and `postscript` are cleared (source lines
1649-1650). -/
def overOvpDriverFlags (c : Core) (m : OvpSt) : OvpSt :=
  let m1 := if c.nestinglevel < m.indriver then { m with indriver := 0 } else m
  if c.nestinglevel < m1.inpostscript then { m1 with inpostscript := 0 } else m1

/-- End of `driver` and `postscript` (source lines 1647-1823): inside `drivers`
or `lang` the entry of a driver is complete, elsewhere the text is the
recommended driver. -/
def overOvpDriver (ctx : OvCtx) (c : Core) (m : OvpSt) : Step OvpSt :=
  if c.nestinglevel < m.indriver ∨ c.nestinglevel < m.inpostscript then
    if (overOvpDriverFlags c m).indrivers ≠ 0 ∨ (overOvpDriverFlags c m).inlang ≠ 0 then
      ovpCombo ctx (overOvpDriverFlags c m)
    else .next { overOvpDriverFlags c m with cdriver := c.currtagbody }
  else .next m

/-- End of `id` and `ppd` (source lines 1824-1840): the text is the id of the
driver, and the name of the PPD file without leading white space. -/
def overOvpIdPpd (c : Core) (m : OvpSt) : OvpSt :=
  let m1 := if c.nestinglevel < m.inid then { m with inid := 0, cid := c.currtagbody } else m
  if c.nestinglevel < m1.inppd then
    { m1 with inppd := 0, cppd := c.currtagbody.dropWhile isPpdBlank }
  else m1

/-- End of `autodetect` (source lines 1841-1855): the element is saved from the
mark `lastautodetect` up to the `>` under the cursor. -/
def overOvpAutodetect (c : Core) (m : OvpSt) : Step OvpSt :=
  if c.nestinglevel < m.inautodetect then
    match m.lastautodetect with
    | some p =>
      if p ≤ c.out.length then
        .next { m with inautodetect := 0, cautodetectentry := c.out.drop p }
      else .undefined
    | none => .next { m with inautodetect := 0 }
  else .next m

/-- End of `id`, `ppd` and `autodetect` (source lines 1824-1855). -/
def overOvpIds (c : Core) (m : OvpSt) : Step OvpSt :=
  overOvpAutodetect c (overOvpIdPpd c m)

/-- Action at the end of a tag in the overview mode for printer files, on the
variables of the mode (source lines 1624-1856). -/
def ovpEndM (ctx : OvCtx) (c : Core) (m : OvpSt) : Step OvpSt :=
  (overOvpDriver ctx c (overOvpFields c m)).bind (overOvpIds c)

/-- Action at the end of a tag in the overview mode for printer files. -/
def ovpEnd (ctx : OvCtx) (s : OvpState) : Step OvpState :=
  (ovpEndM ctx s.core s.m).bind fun m1 => .next { s with m := m1 }

/-- The actions of `operation == PARSE_OP_OV_PRINTER`. -/
def ovPrinterHooks (ctx : OvCtx) : Hooks OvpSt where
  onName := ovpName
  onParam := ovpParam
  onEnd := ovpEnd ctx

/-- The state at the start of `parse` in the overview mode for printer files:
`m` holds what the uninitialised arrays hold. -/
def ovpInit (m : OvpSt) (pl : Catalog) : OvpState :=
  { core := {},
    m := { cprinter := m.cprinter, cmake := m.cmake, cmodel := m.cmodel,
           cfunctionality := m.cfunctionality, cdriver := m.cdriver, cid := m.cid,
           cppd := m.cppd, cautodetectentry := m.cautodetectentry, printerlist := pl } }

/-- The lines `<driver>name</driver>` of the drivers of a printer. -/
def driverLines : List DriverRef → CStr
  | [] => []
  | d :: l => lit "      <driver>" ++ d.name ++ lit "</driver>" ++ [chNL] ++ driverLines l

/-- The entries `<driverfunctionalityexception>` of the drivers that carry
exceptions in their functionality profile. -/
def exceptionLines : List DriverRef → CStr
  | [] => []
  | d :: l =>
    (match d.functionality with
      | some f =>
        lit "      <driverfunctionalityexception>" ++ [chNL] ++ lit "        <driver>" ++
          d.name ++ lit "</driver>" ++ [chNL] ++ f ++ [chNL] ++
          lit "      </driverfunctionalityexception>" ++ [chNL]
      | none => []) ++ exceptionLines l

/-- The part of an overview entry on the drivers of the printer (source lines
2005-2033 and 2582-2614): the list of the drivers in list order, and the
exceptions when a driver carries some. -/
def driversSection (head : CStr) (ds : List DriverRef) : CStr :=
  head ++ driverLines ds ++ lit "    </drivers>" ++ [chNL] ++
    (if ds.any (fun d => d.functionality.isSome) then
      lit "    <driverfunctionalityexceptions>" ++ [chNL] ++ exceptionLines ds ++
        lit "    </driverfunctionalityexceptions>" ++ [chNL]
    else [])

/-- The lines of the ready-made PPD files (source lines 2053-2072). -/
def ppdLines : List (CStr × CStr) → CStr
  | [] => []
  | p :: l =>
    lit "      <ppd>" ++ [chNL] ++ lit "        <driver>" ++ p.1 ++ lit "</driver>" ++ [chNL] ++
      lit "        <ppdfile>" ++ p.2 ++ lit "</ppdfile>" ++ [chNL] ++ lit "      </ppd>" ++ [chNL] ++
      ppdLines l

/-- The entry of the printer in the overview (source lines 1981-2073), for the
translated id `id` and the entry `e` of the printer in the list, if any. -/
def ovpSummary (m : OvpSt) (id : CStr) (e : Option CatalogEntry) : CStr :=
  lit "  <printer>" ++ [chNL] ++ lit "    <id>" ++ id ++ lit "</id>" ++ [chNL] ++
    lit "    <make>" ++ m.cmake ++ lit "</make>" ++ [chNL] ++
    lit "    <model>" ++ m.cmodel ++ lit "</model>" ++ [chNL] ++
    lit "    <functionality>" ++ m.cfunctionality ++ lit "</functionality>" ++ [chNL] ++
    (if m.cunverified = true then
      lit "    <unverified>" ++ m.cfunctionality ++ lit "</unverified>" ++ [chNL]
    else []) ++
    (if m.cdriver ≠ [] then lit "    <driver>" ++ m.cdriver ++ lit "</driver>" ++ [chNL]
    else []) ++
    (if m.cautodetectentry ≠ [] then lit "    " ++ m.cautodetectentry else []) ++
    (match e with
      | some e => driversSection ([chNL] ++ lit "    <drivers>" ++ [chNL]) e.drivers
      | none => []) ++
    (if m.ppdlist ≠ [] then
      lit "    <ppds>" ++ [chNL] ++ ppdLines m.ppdlist ++ lit "    </ppds>" ++ [chNL]
    else []) ++
    lit "  </printer>" ++ [chNL]

/-- The document yields an entry in the overview: id, make, model and
functionality are not empty (source line 1979). -/
def OvpSt.complete (m : OvpSt) : Bool :=
  decide (m.cprinter ≠ []) && decide (m.cmake ≠ []) && decide (m.cmodel ≠ []) &&
    decide (m.cfunctionality ≠ [])

/-- The actions behind the scan loop in the overview mode for printer files
(source lines 1971-2075): the buffer is emptied and, for a complete document,
filled with the entry of the printer; the entry of the printer leaves the
list. -/
def ovpFinish (ctx : OvCtx) (s : OvpState) : OvOutcome :=
  if s.m.complete = true then
    .returned
      (some (ovpSummary s.m (translateid s.m.cprinter ctx.idlist)
        (locatePrinter (translateid s.m.cprinter ctx.idlist) s.m.printerlist)))
      (consumePrinter (translateid s.m.cprinter ctx.idlist) s.m.printerlist)
  else .returned (some []) s.m.printerlist

/-- Source `parse(&data, pid, NULL, ..., &printerlist, PARSE_OP_OV_PRINTER, ...)`
on the buffer content `data`. -/
def parseOvPrinter (ctx : OvCtx) (init : OvpState) (data : CStr) : OvOutcome :=
  match scanLoop (ovPrinterHooks ctx) init data with
  | .next s => ovpFinish ctx s
  | .discard _ => .undefined
  | .fatal => .fatal
  | .undefined => .undefined

/-! ## The overview run of `main` -/

/-- The loops that replace every `_` by a blank (source lines 2567-2576). -/
def blankUnderscores (s : CStr) : CStr := s.map fun c => if c = '_' then ' ' else c

/-- The make guessed from the id of a printer that has no file of its own
(source lines 2559-2571): the id up to its first `-`. -/
def guessMake (id : CStr) : CStr := blankUnderscores (id.takeWhile fun c => c ≠ '-')

/-- The model guessed from the id of a printer that has no file of its own
(source lines 2560-2576): the id behind its first `-`, and `Unknown model` when
the id holds no `-`. -/
def guessModel (id : CStr) : CStr :=
  match id.dropWhile fun c => c ≠ '-' with
  | [] => lit "Unknown model"
  | _ :: r => blankUnderscores r

/-- The entry that `main` prints for a printer left in the list (source lines
2552-2614). -/
def leftoverEntry (e : CatalogEntry) : CStr :=
  lit "  <printer>" ++ [chNL] ++ lit "    <id>" ++ e.id ++ lit "</id>" ++ [chNL] ++
    lit "    <make>" ++ guessMake e.id ++ lit "</make>" ++ [chNL] ++
    lit "    <model>" ++ guessModel e.id ++ lit "</model>" ++ [chNL] ++
    lit "    <noxmlentry />" ++ [chNL] ++
    (if e.drivers ≠ [] then driversSection (lit "    <drivers>" ++ [chNL]) e.drivers else []) ++
    lit "  </printer>" ++ [chNL]

/-- The loop over the printers left in the list (source lines 2551-2624): every
entry but the pseudo printer `proto` is printed, in list order. -/
def leftovers : Catalog → CStr
  | [] => []
  | e :: l => (if e.id ≠ lit "proto" then leftoverEntry e else []) ++ leftovers l

/-- A file of the database as `parse` meets it: the content of the file and the
content of the uninitialised arrays of `parse` at the call. -/
structure OvFile (σ : Type) where
  stack : σ
  data : CStr

/-- The loop over the driver files (source lines 2448-2475): every file is
parsed in the overview mode for driver files and printed, followed by a line
break, unless its buffer was freed.  An empty file ends the program. -/
def driverPass (ctx : OvCtx) : List (OvFile OvdSt) → Catalog → CStr → Step (Catalog × CStr)
  | [], pl, out => .next (pl, out)
  | f :: fs, pl, out =>
    if f.data = [] then .fatal
    else
      match parseOvDriver ctx
          (ovdInit f.stack.cprinter f.stack.cdriver f.stack.dfunctionalityentry pl) f.data with
      | .returned (some d) pl1 => driverPass ctx fs pl1 (out ++ d ++ [chNL])
      | .returned none pl1 => driverPass ctx fs pl1 out
      | .fatal => .fatal
      | .undefined => .undefined

/-- The loop over the printer files (source lines 2503-2529): every file is
parsed in the overview mode for printer files and its buffer is printed. -/
def printerPass (ctx : OvCtx) : List (OvFile OvpSt) → Catalog → CStr → Step (Catalog × CStr)
  | [], pl, out => .next (pl, out)
  | f :: fs, pl, out =>
    if f.data = [] then .fatal
    else
      match parseOvPrinter ctx (ovpInit f.stack pl) f.data with
      | .returned (some d) pl1 => printerPass ctx fs pl1 (out ++ d)
      | .returned none _ => .undefined
      | .fatal => .fatal
      | .undefined => .undefined

/-- The list at the start of the overview (source lines 2424-2434): with `pid`
set it holds the pseudo printer `proto`. -/
def initialCatalog (ctx : OvCtx) : Catalog :=
  if ctx.pid.isSome then [{ id := lit "proto" }] else []

/-- The overview branch of `main` (source lines 2404-2626) for the driver files
and the printer files in the order in which `readdir` yields them: the text on
the standard output. -/
def overview (ctx : OvCtx) (drivers : List (OvFile OvdSt)) (printers : List (OvFile OvpSt)) :
    Step CStr :=
  (driverPass ctx drivers (initialCatalog ctx) (lit "<overview>" ++ [chNL])).bind fun r1 =>
    (printerPass ctx printers r1.1 r1.2).bind fun r2 =>
      .next (r2.2 ++ leftovers r2.1 ++ lit "</overview>" ++ [chNL])

/-! ## Requests and documents of the overview used in the statements -/

/-- The overview of all combinations of printer and driver (`pid == NULL`). -/
def ovAll : OvCtx := {}

/-- The overview of the combinations with a PPD file, ready-made ones included
(`pid` is `"C"`). -/
def ovPpd : OvCtx := { pid := some (lit "C") }

/-- The overview of the combinations with a PPD file that is not ready-made
(`pid` is `"c"`). -/
def ovNoReadyMade : OvCtx := { pid := some (lit "c") }

/-- A driver document with a command line whose list of printers names the
printer `X` twice. -/
def drvListsTwice : CStr :=
  lit ("<driver id=\"driver/B\">\n <execution>\n  <prototype>gs -q</prototype>\n </execution>" ++
    "\n <printers>\n  <printer>\n   <id>printer/X</id>\n  </printer>" ++
    "\n  <printer>\n   <id>printer/X</id>\n  </printer>\n </printers>\n</driver>\n")

/-- A driver document with an empty command line whose list of printers stands
in front of the `execution` element. -/
def drvEmptyProtoLate : CStr :=
  lit ("<driver id=\"driver/B\">\n <printers>\n  <printer>\n   <id>printer/X</id>\n  </printer>" ++
    "\n </printers>\n <execution>\n  <prototype></prototype>\n </execution>\n</driver>\n")

/-- A driver document with a list of printers and without `prototype` element. -/
def drvNoProto : CStr :=
  lit ("<driver id=\"driver/B\">\n <printers>\n  <printer>\n   <id>printer/X</id>\n  </printer>" ++
    "\n </printers>\n <execution>\n </execution>\n</driver>\n")

/-! ## Notions on the printer list used in the statements -/

/-- No two printers of the list have the same id. -/
def distinctIds (pl : Catalog) : Prop := (pl.map fun e => e.id).Nodup

instance (pl : Catalog) : Decidable (distinctIds pl) := by
  unfold distinctIds; infer_instance

/-- No two drivers of the list have the same name up to case. -/
def distinctDrivers (ds : List DriverRef) : Prop :=
  ds.Pairwise fun a b => strcaseeq a.name b.name = false

instance (ds : List DriverRef) : Decidable (distinctDrivers ds) := by
  unfold distinctDrivers; infer_instance

/-- The list of the printer `id` holds a driver whose name is `name` up to
case. -/
def listsDriver (pl : Catalog) (id name : CStr) : Bool :=
  match locatePrinter id pl with
  | some e => e.drivers.any fun d => strcaseeq d.name name
  | none => false

/-- The driver is registered under the first entry of the list, the pseudo
printer `proto`. -/
def underProto (name : CStr) : Catalog → Bool
  | [] => false
  | e :: _ => e.drivers.any fun d => strcaseeq d.name name

/-- The rule for showing a combination in the words of the specification: no
PPD filter is requested; or the driver has a command line and the entry has no
ready-made PPD file or ready-made PPD files are suppressed; or the entry has a
ready-made PPD file and ready-made PPD files are requested. -/
def comboShownSpec (ctx : OvCtx) (hasproto : Bool) (cppd : CStr) : Bool :=
  ctx.pid.isNone ||
    (hasproto && (decide (cppd = []) || (ctx.pid.isSome && !ctx.readyMade))) ||
    (decide (cppd ≠ []) && ctx.readyMade)

/-- A device document whose list of drivers holds the driver `A` with a
ready-made PPD file. -/
def prnWithPpd : CStr :=
  lit ("<printer id=\"printer/X\">\n <make>HP</make>\n <model>LJ</model>" ++
    "\n <functionality>A</functionality>\n <drivers>\n  <driver>\n   <id>A</id>" ++
    "\n   <ppd>PPD/X.ppd</ppd>\n  </driver>\n </drivers>\n</printer>\n")

/-- A printer list behind the pass over the driver files: the driver `A` has a
command line, and the drivers `A` and `B` name printers. -/
def catAfterDrivers : Catalog :=
  [{ id := lit "proto", drivers := [{ name := lit "A" }] },
   { id := lit "Y", drivers := [{ name := lit "A" }] },
   { id := lit "X", drivers := [{ name := lit "A" }, { name := lit "B" }] },
   { id := lit "Z", drivers := [{ name := lit "B" }] }]

/-- The state behind the scan of the device document `prnWithPpd` in the
overview of the combinations with a PPD file, from the list `catAfterDrivers`. -/
def stPrnWithPpd : OvpState :=
  (scanLoop (ovPrinterHooks ovPpd) (ovpInit {} catAfterDrivers) prnWithPpd).getD (ovpInit {} [])

/-- The variables of the mode at the end of the entry of the driver `A` with a
ready-made PPD file, for the printer `X` and the list `catAfterDrivers`. -/
def stComboPpd : OvpSt :=
  { cprinter := lit "X", cid := lit "A", cppd := lit "PPD/X.ppd", indrivers := 2,
    printerlist := catAfterDrivers }

/-- The opening tag of the root element `root` removes the header in the mode
with the actions `h`: from every state between two tags that satisfies `ok`, the
action on the name of an opening tag `root` leaves `<root` as the scanned part
of the buffer, and so does the scan of `<root` and a blank, tab or line break,
which leaves `<root` and that character. -/
def RemovesHeader {σ : Type} (h : Hooks σ) (root : CStr) (ok : σ → Prop) : Prop :=
  ∀ s : PState σ, TextMode s.core → ok s.m →
    (∃ s1, h.onName (atTagName s TAG_OPEN ['<'] root) = .next s1 ∧ s1.core.out = '<' :: root) ∧
    ∀ ch suf, isDelim ch = true → ch ≠ '/' → ch ≠ '>' →
      ∃ s2, scanPrefix h s ('<' :: root ++ [ch]) suf = .next s2 ∧
        s2.core.out = '<' :: root ++ [ch]

/-- A device document in which an element inside the root element is named
`printer` as well. -/
def docNestedPrinter : CStr :=
  lit ("<?xml version=\"1.0\"?>\n<printer id=\"printer/X\">\n <make>HP</make>\n <model>LJ</model>" ++
    "\n <compatible>\n  <printer>Y</printer>\n </compatible>\n</printer>\n")

/-! ## The effect of a tag in the overview modes -/

/-- The nesting level, the scanned part of the buffer and the variables of the
mode: what a tag changes in a state that stands right behind a tag. -/
structure OvAbs (σ : Type) where
  lvl : Int
  out : CStr
  m : σ

/-- The nesting level, the scanned part of the buffer and the variables of the
mode of a state. -/
def OvAbs.ofState {σ : Type} (s : PState σ) : OvAbs σ :=
  { lvl := s.core.nestinglevel, out := s.core.out, m := s.m }

/-- The mode-independent variables that the action on the name of the tag reads
in an overview mode, at nesting level `lvl` with the scanned part `out` of the
buffer in front of the text of the tag. -/
def Tok.ovNameProbe (tok : Tok) (lvl : Int) (out : CStr) : Core :=
  { currtagname := tok.nm, nestinglevel := lvl, tagtype := tok.kind.nameType,
    lasttag := (out ++ tok.text).length, lasttagend := some (out.length - 1) }

/-- The mode-independent variables that the end action of the tag reads in an
overview mode. -/
def Tok.ovEndProbe (tok : Tok) (lvl : Int) (out : CStr) : Core :=
  { nestinglevel := lvl + tok.kind.endType, currtagbody := tok.text, out := out ++ tok.render }

/-- The mode-independent variables of `c0` with the nesting level, the text in
front of the tag and the scanned part of the buffer of `c`. -/
def reframe (c0 c : Core) : Core :=
  { c0 with nestinglevel := c.nestinglevel, currtagbody := c.currtagbody, out := c.out }

/-- The effect of a tag without parameters in the overview mode for printer
files. -/
def ovpAbsTok (ctx : OvCtx) (a : OvAbs OvpSt) (tok : Tok) : Step (OvAbs OvpSt) :=
  (ovpEndM ctx (tok.ovEndProbe a.lvl a.out) (ovpNameM (tok.ovNameProbe a.lvl a.out) a.m)).bind
    fun m1 => .next { lvl := a.lvl + tok.kind.endType, out := a.out ++ tok.render, m := m1 }

/-- The effect of a list of tags without parameters in the overview mode for
printer files. -/
def ovpAbsRun (ctx : OvCtx) : List Tok → OvAbs OvpSt → Step (OvAbs OvpSt)
  | [], a => .next a
  | t :: l, a => (ovpAbsTok ctx a t).bind (ovpAbsRun ctx l)

/-- The effect of a tag without parameters in the overview mode for driver
files. -/
def ovdAbsTok (ctx : OvCtx) (a : OvAbs OvdSt) (tok : Tok) : Step (OvAbs OvdSt) :=
  (ovdName { core := tok.ovNameProbe a.lvl a.out, m := a.m }).bind fun sN =>
    (ovdEnd ctx { core := tok.ovEndProbe a.lvl a.out, m := sN.m }).bind fun s =>
      .next { lvl := s.core.nestinglevel, out := s.core.out, m := s.m }

/-- The effect of a list of tags without parameters in the overview mode for
driver files. -/
def ovdAbsRun (ctx : OvCtx) : List Tok → OvAbs OvdSt → Step (OvAbs OvdSt)
  | [], a => .next a
  | t :: l, a => (ovdAbsTok ctx a t).bind (ovdAbsRun ctx l)

/-! ## The documents of a small database -/

/-- An opening tag without parameters, with the text in front of it. -/
def tokOpen (text nm : CStr) : Tok := { text := text, kind := .opening, nm := nm }

/-- A closing tag, with the text in front of it. -/
def tokClose (text nm : CStr) : Tok := { text := text, kind := .closing, nm := nm }

/-- The opening tag of the root element of the device document of the printer
`x`. -/
def deviceRootTag (x : CStr) : CStr := lit "<printer id=\"printer/" ++ x ++ lit "\">"

/-- The tags behind the opening tag of the root element in the device document
of a printer with the make `mk`, the model `md` and the functionality `f`, whose
list of drivers names the drivers `a` and `b`, none with a ready-made PPD file. -/
def deviceBodyToks (mk md f a b : CStr) : List Tok :=
  [tokOpen (lit "\n ") (lit "make"), tokClose mk (lit "make"),
   tokOpen (lit "\n ") (lit "model"), tokClose md (lit "model"),
   tokOpen (lit "\n ") (lit "functionality"), tokClose f (lit "functionality"),
   tokOpen (lit "\n ") (lit "drivers"),
   tokOpen (lit "\n  ") (lit "driver"), tokOpen (lit "\n   ") (lit "id"), tokClose a (lit "id"),
   tokClose (lit "\n  ") (lit "driver"),
   tokOpen (lit "\n  ") (lit "driver"), tokOpen (lit "\n   ") (lit "id"), tokClose b (lit "id"),
   tokClose (lit "\n  ") (lit "driver"),
   tokClose (lit "\n ") (lit "drivers"), tokClose (lit "\n") (lit "printer")]

/-- The device document of the printer `x` whose list of drivers names the
drivers `a` and `b`. -/
def deviceDoc (x mk md f a b : CStr) : CStr :=
  deviceRootTag x ++ (renderToks (deviceBodyToks mk md f a b) ++ [chNL])

/-- The opening tag of the root element of the driver document of the driver
`a`. -/
def driverRootTag (a : CStr) : CStr := lit "<driver id=\"driver/" ++ a ++ lit "\">"

/-- The tags behind the opening tag of the root element in the driver document
of a driver with the command line `p`. -/
def driverBodyToks (p : CStr) : List Tok :=
  [tokOpen (lit "\n ") (lit "execution"), tokOpen (lit "\n  ") (lit "prototype"),
   tokClose p (lit "prototype"), tokClose (lit "\n ") (lit "execution"),
   tokClose (lit "\n") (lit "driver")]

/-- The driver document of the driver `a` with the command line `p`. -/
def driverDoc (a p : CStr) : CStr :=
  driverRootTag a ++ (renderToks (driverBodyToks p) ++ [chNL])

/-- The driver document of the driver `a` as the overview prints it: without
the `prototype` element. -/
def driverDocShown (a : CStr) : CStr :=
  driverRootTag a ++ lit "\n <execution>\n </execution>\n</driver>\n"

/-- The entry of the printer `x` in the overview, with the driver `a`. -/
def deviceEntry (x mk md f a : CStr) : CStr :=
  lit "  <printer>\n    <id>" ++ x ++ lit "</id>\n    <make>" ++ mk ++
    lit "</make>\n    <model>" ++ md ++ lit "</model>\n    <functionality>" ++ f ++
    lit "</functionality>\n\n    <drivers>\n      <driver>" ++ a ++
    lit "</driver>\n    </drivers>\n  </printer>\n"



/-- The variables of the overview mode for printer files inside the list of
drivers of the device document `deviceDoc`: `d` is the sentinel of `driver`,
`cid` the id read last, `hp` the flag `driverhasproto`. -/
def inDriversSt (x mk md f cid : CStr) (d : Int) (hp : Bool) (pl : Catalog) : OvpSt :=
  { inprinter := 1, indriver := d, indrivers := 3, cprinter := x, cmake := mk, cmodel := md,
    cfunctionality := f, cid := cid, driverhasproto := hp, printerlist := pl }

/-! ## Comments -/

/-- The state behind a comment that began in state `s`: the scanned part of the
buffer has grown by the comment, `tagtype` holds `TAG_EMPTY`, and nothing else
has changed. -/
def afterComment {σ : Type} (s : PState σ) (comment : CStr) : PState σ :=
  { s with core := { s.core with tagtype := TAG_EMPTY, out := s.core.out ++ comment } }

/-- The text of a comment does not end the comment early: no `>` of
`body ++ "--"` stands right behind two `-`, those of the opener included. -/
def CommentBody (body : CStr) : Prop := ¬ (lit "-->" <:+: lit "--" ++ body ++ lit "--")

instance (body : CStr) : Decidable (CommentBody body) := by
  unfold CommentBody; infer_instance

/-! ## What a scan does to the variables of the mode -/

/-- A relation between the variables of the mode before and after an action that
every action of the mode respects. -/
structure Respects {σ : Type} (h : Hooks σ) (R : σ → σ → Prop) : Prop where
  refl : ∀ a, R a a
  trans : ∀ a b c, R a b → R b c → R a c
  onName : ∀ s s1, h.onName s = .next s1 → R s.m s1.m
  onParam : ∀ s, R s.m (h.onParam s).m
  onEnd : ∀ s s1, h.onEnd s = .next s1 → R s.m s1.m

/-! ## Notions and examples for the invariants of the buffer and of the scanner -/

/-- A constraint with sense `false` that names the requested printer by its id
and by its make as well. -/
def cPrinterAndMake : Constraint where
  ws := lit "\n  "
  sense := false
  fields := [⟨lit "\n   ", .printer, lit "printer/HP-LaserJet"⟩, ⟨lit "\n   ", .make, lit "HP"⟩]
  wsEnd := lit "\n  "

/-- The state of the scan behind the opening tag of a `constraints` block at
option scope. -/
def stInBlock : OState :=
  (scanPrefix (optionHooks ctxLaserJetGs) optInit (boolHead ++ lit "\n <constraints>")
    (cPrinterAndMake.render ++ (lit "\n </constraints>" ++ optionTail))).getD optInit

/-- The constraint `c` wins when it is evaluated behind the constraints `pre`,
from the variables `m` of the mode: it beats the high scores that the
constraints in front of it have left. -/
def winsBehind (ctx : Ctx) (pre : List Constraint) (m : OptSt) (c : Constraint) : Bool :=
  c.wins ctx (constraintsEffect ctx pre m).printerhiscore
    (constraintsEffect ctx pre m).driverhiscore

/-- The verdict of a block is the same in two values of the variables of the
mode: high scores, qualifications, pending default, and the scope. -/
structure SameVerdict (a b : OptSt) : Prop where
  printerhiscore : a.printerhiscore = b.printerhiscore
  driverhiscore : a.driverhiscore = b.driverhiscore
  enumvalqualified : a.enumvalqualified = b.enumvalqualified
  optionqualified : a.optionqualified = b.optionqualified
  argdefault : a.argdefault = b.argdefault

/-- The text of a `constraints` block up to its last constraint. -/
def Block.inner (b : Block) : CStr :=
  (b.ws ++ ('<' :: lit "constraints" ++ ['>'])) ++ renderConstraints b.cs

/-- A constraint with sense `false` that selects the make `HP`. -/
def cMakeNot : Constraint where
  ws := lit "\n  "
  sense := false
  fields := [⟨lit "\n   ", .make, lit "HP"⟩]
  wsEnd := lit "\n  "

/-- A block of two constraints on the make `HP` with opposite senses. -/
def blockTie : Block where
  ws := lit "\n "
  cs := [cMake, cMakeNot]
  wsEnd := lit "\n "

/-- A block in which a constraint on the printer id precedes two constraints on
the make `HP` with opposite senses. -/
def blockOutranked : Block where
  ws := lit "\n "
  cs := [cPrinter, cMakeNot, cMake]
  wsEnd := lit "\n "

/-- The only constraint of the block `blockNotHP`: sense `false` for the make
`HP`. -/
def cNotHP : Constraint where
  ws := lit "\n    "
  sense := false
  fields := [⟨lit "\n     ", .make, lit "HP"⟩]
  wsEnd := lit "\n    "

/-- The option `PageSize` with an option-level block that carries no default
value, the enum value `ev/A4` and the enum value `ev/A3`, which is excluded for
the printers of the make `HP`. -/
def pageSizeDoc : CStr :=
  pageSizeHead ++ (renderItems (pageSizeOption [] blockGs).items ++ optionTail)

/-- The result of the parse of `pageSizeDoc` for the user default
`PageSize=A3`. -/
def pageSizeResult : CStr :=
  lit "<option type=\"enum\" id=\"opt/PageSize\">\n <arg_shortname><en>PageSize</en></arg_shortname>\n <enum_vals>\n  <enum_val id=\"ev/A4\">\n   <ev_shortname><en>A4</en></ev_shortname>\n  </enum_val>\n </enum_vals>\n  <arg_defval>ev/A3</arg_defval>\n</option>\n"

/-- Inside a tag, in a word, behind an apostrophe that has no partner yet. -/
def InSQ (c : Core) : Prop :=
  c.intag = true ∧ c.incomment = false ∧ c.intagword = true ∧ c.inquotes = true ∧
    c.insinglequotes = true

instance (c : Core) : Decidable (InSQ c) := by
  unfold InSQ
  infer_instance

instance (c : Core) : Decidable (InDQ c) := by
  unfold InDQ
  infer_instance

/-- The value of `indoublequotes` behind the characters `x`, from the value `d`:
every double quote toggles it. -/
def dqAfter : CStr → Bool → Bool
  | [], d => d
  | ch :: x, d => dqAfter x (if ch = chDQ then !d else d)

/-- The state of the scan behind the characters `w` of a word that hold an
apostrophe without partner: the cursor has moved, and the quote flags are set. -/
def pendingSQ {σ : Type} (s : PState σ) (dq : Bool) (w : CStr) : PState σ :=
  { s with core := { s.core with
      insinglequotes := true, indoublequotes := dq, inquotes := true,
      out := s.core.out ++ w } }

/-- The state of the scan behind the characters `w` of a word in which every
quote has found its partner. -/
def balanced {σ : Type} (s : PState σ) (w : CStr) : PState σ :=
  { s with core := { s.core with
      insinglequotes := false, indoublequotes := false, inquotes := false,
      out := s.core.out ++ w } }

/-- The rest of a quoted value with one apostrophe, closing double quote
included: `it`, an apostrophe, `s`, a double quote. -/
def valueWithApostrophe : CStr := lit "it" ++ chSQ :: (lit "s" ++ [chDQ])

/-- The state of the scan inside the double quotes of the parameter `id` of an
opening `option` tag. -/
def stInQuotes : OState :=
  (scanPrefix (optionHooks ctxLaserJetGs) optInit (lit "<option id=\"")
    (valueWithApostrophe ++ lit ">\n</option>")).getD optInit

/-- The actions of a mode with the root element `root` write the nesting level
only where the header is removed: the action on a tag name sets it to 1 at the
opening tag of the root element and leaves it alone at every other tag, and the
other actions leave it alone; the type of the tag is not written.  For a mode
whose function returns from inside the loop, `live` says that it has not
returned. -/
structure LevelSafe {σ : Type} (h : Hooks σ) (root : CStr) (live : σ → Prop) : Prop where
  onName : ∀ s s1, live s.m → h.onName s = .next s1 →
    s1.core.nestinglevel =
      (if s.core.currtagname = root ∧ s.core.tagtype = TAG_OPEN then 1
        else s.core.nestinglevel) ∧
    s1.core.tagtype = s.core.tagtype
  onParam : ∀ s, (h.onParam s).core.nestinglevel = s.core.nestinglevel ∧
    (h.onParam s).core.tagtype = s.core.tagtype
  onEnd : ∀ s s1, h.onEnd s = .next s1 → s1.core.nestinglevel = s.core.nestinglevel

/-- The nesting level behind a tag, in a mode with the actions `h` and the root
element `root`: for every tag that is scanned from between two tags, with the
text in front of it, and behind which the scan goes on, the level is the level
in front of the tag, or 1 for a tag that is read as an opening tag of the root
element, plus the type of the tag: 1 for an opening tag, -1 for a closing tag
and 0 for a tag without body. -/
def DepthRule {σ : Type} (h : Hooks σ) (root : CStr) (live : σ → Prop) : Prop :=
  ∀ (tok : Tok) (s s1 : PState σ) (suf : CStr), TextMode s.core → tok.Clean → live s.m →
    scanPrefix h s tok.render suf = .next s1 →
    s1.core.nestinglevel =
      (if tok.Opens root then 1 else s.core.nestinglevel) + tok.kind.endType


/-- The state of the scan behind the opening tag of a boolean option at the
start of the document. -/
def stRoot : OState :=
  (scanPrefix (optionHooks ctxLaserJetGs) optInit boolHead optionTail).getD optInit


/-- The opening tag `<constraints>` behind a line break. -/
def tokConstraints : Tok :=
  { text := lit "\n ", kind := .opening, nm := lit "constraints", params := [] }

/-- The state of the scan behind the tag `<constraints>` that follows the
opening tag of a boolean option. -/
def stBehindOpen : OState :=
  (scanPrefix (optionHooks ctxLaserJetGs) stBoolHead tokConstraints.render optionTail).getD
    optInit

/-! ## The buffer as memory: `memmove` and the pointers into the buffer -/


/-- Source `memmove(mem + dst, mem + src, n)` inside the array `mem`: the `n`
bytes from offset `src` on are copied to offset `dst`, the areas may overlap.
The result is `none` when an area reaches beyond the array (undefined in C). -/
def memmove (mem : List Char) (dst src n : Nat) : Option (List Char) :=
  if src + n ≤ mem.length ∧ dst + n ≤ mem.length then
    some (mem.take dst ++ ((mem.drop src).take n ++ mem.drop (dst + n)))
  else none

/-- Source `memmove(mem + dst, text, l)` for a text of `l` bytes that lies in
another array. -/
def memput (mem : List Char) (dst : Nat) (text : CStr) : Option (List Char) :=
  if dst + text.length ≤ mem.length then
    some (mem.take dst ++ (text ++ mem.drop (dst + text.length)))
  else none

/-- The variables of `parse` that address the buffer, as offsets from `*data`:
the array `*data` itself, `datalength`, the cursor `scan` and the marks of the
tag scanner. -/
structure Raw where
  mem : List Char
  datalength : Nat
  scan : Nat
  lasttag : Nat
  lasttagend : Option Nat
  tagwordstart : Nat

/-- Removal of the file header (source lines 465-471, and the same statements
at 527-533, 641-647, 684-690 and 751-757):
`memmove(*data, lasttag, *data + datalength + 1 - lasttag);
datalength -= lasttag - *data; scan -= lasttag - *data;
tagwordstart -= lasttag - *data; lasttag = *data; lasttagend = NULL;`.
The result is `none` when a pointer would leave the array. -/
def rawRemoveHeader (r : Raw) : Option Raw :=
  if r.lasttag ≤ r.tagwordstart ∧ r.tagwordstart ≤ r.scan ∧ r.scan ≤ r.datalength then
    (memmove r.mem 0 r.lasttag (r.datalength + 1 - r.lasttag)).map fun mem1 =>
      { mem := mem1
        datalength := r.datalength - r.lasttag
        scan := r.scan - r.lasttag
        lasttag := 0
        lasttagend := none
        tagwordstart := r.tagwordstart - r.lasttag }
  else none

/-- Deletion of the span from the mark `last` up to and including the byte
under the cursor (source lines 1368-1371, and the same statements at 970-973,
1389-1392, 1462-1465, 1475-1478 and 1618-1621):
`memmove(last, scan + 1, *data + datalength - scan);
datalength -= scan + 1 - last; scan = last - 1;`.
The result is `none` when a pointer would leave the array. -/
def rawDelete (r : Raw) (last : Nat) : Option Raw :=
  if 1 ≤ last ∧ last ≤ r.scan + 1 ∧ r.scan ≤ r.datalength then
    (memmove r.mem last (r.scan + 1) (r.datalength - r.scan)).map fun mem1 =>
      { r with
        mem := mem1
        datalength := r.datalength - (r.scan + 1 - last)
        scan := last - 1 }
  else none

/-- Insertion of the text `text` of `l` bytes at the mark `pos` (source lines
1441-1445, and the same statements at 978-982):
`memmove(pos + l, pos, *data + datalength - pos + 1); memmove(pos, text, l);
datalength += l; scan += l;`.
The result is `none` when the array has no room for the text. -/
def rawInsert (r : Raw) (pos : Nat) (text : CStr) : Option Raw :=
  if pos ≤ r.datalength then
    (memmove r.mem (pos + text.length) pos (r.datalength - pos + 1)).bind fun mem1 =>
      (memput mem1 pos text).map fun mem2 =>
        { r with
          mem := mem2
          datalength := r.datalength + text.length
          scan := r.scan + text.length }
  else none

/-- The array holds the C string `b`: the content `b` of `datalength` bytes,
the terminator, and the rest `slack` of the allocation. -/
def Raw.Holds (r : Raw) (b slack : CStr) : Prop :=
  r.mem = b ++ chNUL :: slack ∧ r.datalength = b.length

instance (r : Raw) (b slack : CStr) : Decidable (r.Holds b slack) := by
  unfold Raw.Holds
  infer_instance

/-- The bytes of the buffer content behind the cursor: what the scan loop has
yet to visit. -/
def Raw.ahead (r : Raw) : CStr := (r.mem.take r.datalength).drop (r.scan + 1)

/-- The bytes of the buffer up to and including the one under the cursor. -/
def Raw.upto (r : Raw) : CStr := r.mem.take (r.scan + 1)

/-- The loop increment `scan++` (source line 374). -/
def rawAdvance (r : Raw) : Raw := { r with scan := r.scan + 1 }

/-- The scan loop with a budget of iterations, for a mode that leaves the loop as
soon as `stop` holds (`fun _ => false` for a mode that never does): `none` when
the budget is used up before the loop has ended. -/
def scanFuel {σ : Type} (h : Hooks σ) (stop : σ → Bool) :
    Nat → PState σ → CStr → Option (Step (PState σ))
  | _, s, [] => some (.next s)
  | 0, _, _ :: _ => none
  | n + 1, s, ch :: rest =>
    if stop s.m = true then some (.next s)
    else
      match step h s ch rest with
      | .next s1 => scanFuel h stop n s1 rest
      | .discard r => some (.discard r)
      | .fatal => some .fatal
      | .undefined => some .undefined

/-- A buffer of ten bytes that holds the C string `ab<x>cd`, with the cursor on
the `>`, the mark of the last tag on the `<` and the mark of the last word on
the `x`. -/
def rawSample : Raw where
  mem := lit "ab<x>cd" ++ chNUL :: lit "zz"
  datalength := 7
  scan := 4
  lasttag := 2
  lasttagend := none
  tagwordstart := 3

/-- An option document whose winning constraint carries a default value, up to
the name of the closing tag of the option. -/
def docDefaultOpen : CStr := boolHead ++ (blockGsA4.render ++ lit "\n</option")

/-- The state of the scan in front of the `>` of the closing tag of the option
of `docDefaultOpen`. -/
def stBeforeInsert : OState :=
  (scanPrefix (optionHooks ctxLaserJetGs) optInit docDefaultOpen (lit ">\n")).getD optInit

/-- The state of the scan behind the `>` of the closing tag of the option of
`docDefaultOpen`: the default line has been inserted. -/
def stAfterInsert : OState :=
  (scanPrefix (optionHooks ctxLaserJetGs) optInit (docDefaultOpen ++ ['>']) [chNL]).getD optInit

/-! ## Device mode: the buffer behind the scan, for every input -/

/-- The buffer starts with a tag that is read as an opening tag named `printer`:
the `<`, then line breaks, blanks, tabs, carriage returns or further `<`, which
the scanner passes over in front of a tag name, then the name. -/
def Rooted (o : CStr) : Prop :=
  ∃ gap rest, o = '<' :: (gap ++ (lit "printer" ++ rest)) ∧
    ∀ ch ∈ gap, ch = '<' ∨ ch = ' ' ∨ ch = chNL ∨ ch = chTAB ∨ ch = chCR

/-- The scanner is inside a tag, outside a comment, and has not read the name of
the tag yet. -/
def Head (c : Core) : Prop :=
  c.intag = true ∧ c.incomment = false ∧ c.tagnamefound = false

/-- A character that the scanner passes over between the `<` of a tag of type
`ty` and the name of the tag. -/
def GapChar (ty : Int) (ch : Char) : Prop :=
  (ch = '<' ∨ isDelim ch = true) ∧ ch ≠ '>' ∧ (ty = TAG_OPEN → ch ≠ '/')

/-- What holds of the mode-independent variables in Device mode when the part
`pre` of the input has been scanned: the buffer is a suffix of `pre`, all of it
unless it starts with an opening tag named `printer`; outside a tag and inside a
comment no word is open; and in front of the name of a tag the mark `lasttag`
points at the `<` of the tag, with nothing but characters that the scanner
passes over between it and the first word. -/
structure Dev (c : Core) (pre : CStr) : Prop where
  suffix : c.out <:+ pre
  rooted : c.out = pre ∨ Rooted c.out
  idle : c.intag = false ∨ c.incomment = true → c.intagword = false
  mark : Head c → c.lasttag < c.out.length ∧ c.out[c.lasttag]? = some '<'
  gap : Head c → c.intagword = false →
    c.inquotes = false ∧ ∀ ch ∈ c.out.drop (c.lasttag + 1), GapChar c.tagtype ch
  word : Head c → c.intagword = true →
    c.lasttag < c.tagwordstart ∧ c.tagwordstart ≤ c.out.length ∧
      ∀ ch ∈ (c.out.take c.tagwordstart).drop (c.lasttag + 1), GapChar c.tagtype ch

/-- The mode-independent variables behind a character of a word inside a tag:
the quote flags follow the character, and a word is open. -/
def wordCore (c : Core) (ch : Char) : Core :=
  { c with
    insinglequotes := if ch = chSQ then !c.insinglequotes else c.insinglequotes
    indoublequotes := if ch = chDQ then !c.indoublequotes else c.indoublequotes
    inquotes := (if ch = chSQ then !c.insinglequotes else c.insinglequotes) ||
      (if ch = chDQ then !c.indoublequotes else c.indoublequotes)
    intagword := true
    tagwordstart := if c.intagword = true then c.tagwordstart else c.out.length
    out := c.out ++ [ch] }

/-- A device document behind a file header. -/
def docWithHeader : CStr :=
  lit "<?xml version=\"1.0\"?>\n<printer id=\"printer/X\"><make>HP</make><model>LaserJet</model></printer>\n"

/-- The device document of `docWithHeader` without the header. -/
def docMakeModelLine : CStr :=
  lit "<printer id=\"printer/X\"><make>HP</make><model>LaserJet</model></printer>\n"

/-- A text with a make and a model and without any `printer` tag. -/
def docNoRoot : CStr := lit "<make>HP</make><model>LaserJet</model>"

/-- A driver document whose printer list holds an entry for the printer `Foo`
with the comment `Same as HP-LaserJet`, followed by an entry with the id `X`:
no entry has the id of the printer `HP-LaserJet`. -/
def docStaleId : CStr :=
  lit ("<?xml version=\"1.0\"?>\n<driver id=\"driver/gs\">\n <printers>" ++
    "\n  <printer><id>printer/Foo</id><comments>Same as HP-LaserJet</comments></printer>" ++
    "\n  <printer><id>X</id></printer>\n </printers>\n</driver>\n")

/-- A driver document whose printer list holds one entry, with an id that does
not start with `printer/`. -/
def docOtherPrefix : CStr :=
  lit ("<?xml version=\"1.0\"?>\n<driver id=\"driver/gs\">\n <printers>" ++
    "\n  <printer><id>archive/HP-LaserJet</id></printer>\n </printers>\n</driver>\n")

/-- The child elements of the integer option `Copies` with the bounds 1 and
9007199254740992, which is 2^53. -/
def copiesWide : List Item :=
  [.shortname (lit "\n ") [] (lit "Copies") [], .argmax (lit "\n ") (lit "9007199254740992"),
    .argmin (lit "\n ") (lit "1"), .block blockGsDefault]

/-! ## Option mode with the array `cdriver` as memory -/

/-- The variables of Option mode together with the bytes that the array
`cdriver` holds behind the terminator of its string.  The source clears the
field of a constraint by `cdriver[0] = '\0'` (line 622) and fills it by
`strcat` (line 1200): both leave the bytes behind the new terminator as they
are, and `cdriver + 7` (line 1273) reads them when the string has fewer than
seven characters. -/
structure OptArr where
  m : OptSt := {}
  drivertail : CStr := []

/-- Action on the tag name in Option mode, with the array `cdriver` (source
lines 537-650): the opening tag of a constraint writes the terminator to
`cdriver[0]`. -/
def optNameAt (ctx : Ctx) (s : PState OptArr) : Step (PState OptArr) :=
  (optNameM ctx s.core s.m.m).bind fun m1 =>
    .next { core := optNameCore s.core,
            m := { m := m1,
                   drivertail :=
                     if s.core.currtagname = lit "constraint" ∧ s.core.tagtype = TAG_OPEN then
                       staleBehind s.m.m.cdriver s.m.drivertail []
                     else s.m.drivertail } }

/-- Action on a further word of a tag in Option mode, with the array `cdriver`. -/
def optParamAt (s : PState OptArr) : PState OptArr :=
  { s with m := { s.m with m := optParamM s.core s.m.m } }

/-- End of `printer`, `make`, `model`, `driver` and `arg_defval` (source lines
1179-1205), with the arrays `currtagbody` and `cdriver`: for a text that starts
with `p` the string at `currtagbody + 8` is appended to `cprinter`, and the
`strcat` to `cdriver` leaves the bytes behind the new terminator. -/
def collectFieldsAt (c : Core) (x : OptArr) : OptArr :=
  let m := x.m
  { m := { m with
      inprinter := if c.nestinglevel < m.inprinter then 0 else m.inprinter
      cprinter :=
        if c.nestinglevel < m.inprinter ∧ m.inconstraint ≠ 0 then
          if c.currtagbody.head? = some 'p' then
            m.cprinter ++ strFrom c.currtagbody c.bodytail 8
          else m.cprinter ++ c.currtagbody
        else m.cprinter
      inmake := if c.nestinglevel < m.inmake then 0 else m.inmake
      cmake :=
        if c.nestinglevel < m.inmake ∧ m.inconstraint ≠ 0
        then m.cmake ++ c.currtagbody else m.cmake
      inmodel := if c.nestinglevel < m.inmodel then 0 else m.inmodel
      cmodel :=
        if c.nestinglevel < m.inmodel ∧ m.inconstraint ≠ 0
        then m.cmodel ++ c.currtagbody else m.cmodel
      indriver := if c.nestinglevel < m.indriver then 0 else m.indriver
      cdriver :=
        if c.nestinglevel < m.indriver ∧ m.inconstraint ≠ 0
        then m.cdriver ++ c.currtagbody else m.cdriver
      inargdefault := if c.nestinglevel < m.inargdefault then 0 else m.inargdefault
      cargdefault :=
        if c.nestinglevel < m.inargdefault ∧ m.inconstraint ≠ 0
        then m.cargdefault ++ c.currtagbody else m.cargdefault },
    drivertail :=
      if c.nestinglevel < m.indriver ∧ m.inconstraint ≠ 0
      then staleBehind m.cdriver x.drivertail (m.cdriver ++ c.currtagbody) else x.drivertail }

/-- Source `driverscore` of a completed constraint (lines 1269-1277) with the
array `cdriver`, which holds the selector `cdriver` and the bytes `tail` behind
its terminator: the selector matches when it is the requested driver, or when
the string at `cdriver + 7` is. -/
def driverScoreAt (ctx : Ctx) (cdriver tail : CStr) : Int :=
  if cdriver ≠ [] then
    if cdriver = ctx.driver ∨ strFrom cdriver tail 7 = ctx.driver then 1 else -1
  else 0

/-- Evaluation of the completed constraint (source lines 1222-1327), with the
array `cdriver`. -/
def evalConstraintAt (ctx : Ctx) (x : OptArr) : OptArr :=
  let m := x.m
  if isNullConstraint m then x
  else if hasPrinterAndMake m then x
  else
    let ps := printerScore ctx m.cprinter m.cmake m.cmodel
    let ds := driverScoreAt ctx m.cdriver x.drivertail
    if gotMatch ps ds then
      if beatsBest ps ds m.printerhiscore m.driverhiscore then { x with m := recordWin ps ds m }
      else x
    else x

/-- End of a `constraint` element, with the array `cdriver`. -/
def overInConstraintAt (ctx : Ctx) (c : Core) (x : OptArr) : OptArr :=
  if c.nestinglevel < x.m.inconstraint then
    evalConstraintAt ctx { x with m := { x.m with inconstraint := 0 } }
  else x

/-- The actions at the end of a tag that touch only the variables of the mode
(source lines 1027-1328), in the order of the source, with the array
`cdriver`. -/
def optEndMAt (ctx : Ctx) (c : Core) (x : OptArr) : OptArr :=
  let m1 := clearSentinels c (overInArgMin c (overInArgMax c (overInEn ctx c x.m)))
  overInConstraintAt ctx c (collectFieldsAt c { x with m := m1 })

/-- Action at the end of a tag in Option mode (source lines 1020-1452), with the
array `cdriver`. -/
def optEndAt (ctx : Ctx) (s : PState OptArr) : Step (PState OptArr) :=
  let x := optEndMAt ctx s.core s.m
  (overInConstraints { core := s.core, m := x.m }).bind fun s7 =>
    (overInEnumVal s7).bind fun s8 =>
      (overInOption s8).bind fun s9 =>
        .next { core := s9.core, m := { m := s9.m, drivertail := x.drivertail } }

/-- The actions of `operation == PARSE_OP_OPTION`, with the array `cdriver`. -/
def optionHooksAt (ctx : Ctx) : Hooks OptArr where
  onName := optNameAt ctx
  onParam := optParamAt
  onEnd := optEndAt ctx

/-- Source `parse(&data, pid, driver, ..., PARSE_OP_OPTION, ...)` on the buffer
content `data`, with the array `cdriver`; `tail` are the bytes that the array
holds behind its first byte at the start of the call. -/
def parseOptionAt (ctx : Ctx) (tail : CStr) (data : CStr) : Outcome :=
  finish (scanLoop (optionHooksAt ctx) { core := {}, m := { drivertail := tail } } data)

/-- Request for the printer `HP-LaserJet` with the driver `ljet4`. -/
def ctxLaserJetLjet4 : Ctx where
  pid := lit "HP-LaserJet"
  driver := lit "ljet4"
  make := lit "HP"
  model := lit "LaserJet"

/-- An option document up to the end of the `driver` element of its second
constraint: the first constraint (sense `true`) names the driver
`driver/ljet4`, the second (sense `false`) the driver `gs`. -/
def docShortDriverHead : CStr :=
  lit ("<option type=\"bool\" id=\"opt/Duplex\">\n <constraints>" ++
    "\n  <constraint sense=\"true\"><driver>driver/ljet4</driver></constraint>" ++
    "\n  <constraint sense=\"false\"><driver>gs</driver>")

/-- A boolean option that the constraint of the driver `driver/ljet4` admits
and the constraint of the driver `gs` rejects. -/
def docShortDriver : CStr :=
  docShortDriverHead ++ lit "</constraint>\n </constraints>\n</option>\n"

/-- The document `docShortDriver` with the selector `driver/gs` in the place of
`gs`. -/
def docLongDriver : CStr :=
  lit ("<option type=\"bool\" id=\"opt/Duplex\">\n <constraints>" ++
    "\n  <constraint sense=\"true\"><driver>driver/ljet4</driver></constraint>" ++
    "\n  <constraint sense=\"false\"><driver>driver/gs</driver></constraint>" ++
    "\n </constraints>\n</option>\n")

/-- The array `cdriver` behind the scan of `data` in Option mode: its string and
the bytes behind the terminator of the string. -/
def cdriverAfter (ctx : Ctx) (tail : CStr) (data : CStr) : Option (CStr × CStr) :=
  match scanLoop (optionHooksAt ctx) { core := {}, m := { drivertail := tail } } data with
  | .next s => some (s.m.m.cdriver, s.m.drivertail)
  | _ => none

/-! ## An overview with a renamed printer -/

/-- The overview of all combinations, with a translation table that renames the
printer `Old` to `New`. -/
def ovRenamed : OvCtx := { pid := none, idlist := [(lit "Old", lit "New")] }

/-- A driver document of the driver `A` whose list of printers names the
printer `Old`. -/
def drvListsOld : CStr :=
  lit ("<driver id=\"driver/A\">\n <printers>\n  <printer>\n   <id>printer/Old</id>\n  </printer>" ++
    "\n </printers>\n <execution>\n </execution>\n</driver>\n")

/-- The device document of the printer with the id `Old`, whose list of drivers
names the driver `A`. -/
def prnRenamed : CStr :=
  lit ("<printer id=\"printer/Old\">\n <make>M</make>\n <model>N</model>" ++
    "\n <functionality>A</functionality>\n <drivers>\n  <driver><id>A</id></driver>" ++
    "\n </drivers>\n</printer>\n")

/-! ## The scan loop on the buffer as memory

The functions above keep the scanned part of the buffer and let the scan loop
run over the rest of the input.  Here the buffer is the array `*data` with the
cursor `scan` and the length `datalength` as the source has them: the loop
tests the byte under the cursor, the mutations are the `memmove` statements of
the source, and the actions of the five modes call them with the marks they
hold. -/

/-- The state of a parse with the buffer as memory: the variables that address
the buffer, the other mode-independent variables (the fields `out`, `lasttag`,
`lasttagend` and `tagwordstart` of `core` are not used: `raw` holds them) and
the variables of the mode. -/
structure RState (σ : Type) where
  raw : Raw
  core : Core
  m : σ

/-- The mode-independent variables as the actions of a mode read them: `out` is
`data[0 .. scan + k)`, with `k = 0` for the actions on a word of a tag and
`k = 1` for the actions at the `>` of a tag. -/
def RState.view {σ : Type} (s : RState σ) (k : Nat) : Core :=
  { s.core with
    out := s.raw.mem.take (s.raw.scan + k)
    lasttag := s.raw.lasttag
    lasttagend := s.raw.lasttagend
    tagwordstart := s.raw.tagwordstart }

/-- The three places where `parse` switches on `operation`, on the buffer as
memory. -/
structure RawHooks (σ : Type) where
  onName : RState σ → Step (RState σ)
  onParam : RState σ → RState σ
  onEnd : RState σ → Step (RState σ)

/-- Removal of the file header (source lines 463-471 and their copies):
`inxmlheader = 0; nestinglevel = 1;` and the statements of `rawRemoveHeader`. -/
def RState.header {σ : Type} (s : RState σ) : Step (RState σ) :=
  match rawRemoveHeader s.raw with
  | some r =>
    .next { s with raw := r, core := { s.core with inxmlheader := false, nestinglevel := 1 } }
  | none => .undefined

/-- Deletion of the span from the mark `last` up to the byte under the cursor. -/
def RState.delete {σ : Type} (s : RState σ) (last : Nat) : Step (RState σ) :=
  match rawDelete s.raw last with
  | some r => .next { s with raw := r }
  | none => .undefined

/-- Insertion of `text` at the mark `pos`. -/
def RState.insert {σ : Type} (s : RState σ) (pos : Nat) (text : CStr) : Step (RState σ) :=
  match rawInsert s.raw pos text with
  | some r => .next { s with raw := r }
  | none => .undefined

/-- Deletion from an optional mark: nothing happens for `none`. -/
def RState.deleteFrom {σ : Type} (s : RState σ) : Option Nat → Step (RState σ)
  | some p => s.delete p
  | none => .next s

/-- Insertion of an optional text at a mark. -/
def RState.insertLine {σ : Type} (s : RState σ) : Option (Nat × CStr) → Step (RState σ)
  | some (p, t) => s.insert p t
  | none => .next s

/-- The opening tag of the root element `root` removes the file header. -/
def rawRoot {σ : Type} (root : CStr) (s : RState σ) : Step (RState σ) :=
  if s.core.currtagname = root ∧ s.core.tagtype = TAG_OPEN then s.header else .next s

/-! ### Option mode -/

/-- Action on the tag name in Option mode (source lines 537-650). -/
def rawOptName (ctx : Ctx) (s : RState OptSt) : Step (RState OptSt) :=
  (optNameM ctx (s.view 0) s.m).bind fun m1 => rawRoot (lit "option") { s with m := m1 }

/-- Action on a further word of a tag in Option mode (source lines 783-819). -/
def rawOptParam (s : RState OptSt) : RState OptSt := { s with m := optParamM (s.view 0) s.m }

/-- End of a `constraints` block (source lines 1329-1377). -/
def rawOverInConstraints (s : RState OptSt) : Step (RState OptSt) :=
  (constraintsEndM (s.view 1) s.m).bind fun r =>
    (s.deleteFrom r.2).bind fun s1 => .next { s1 with m := r.1 }

/-- End of an `enum_val` element (source lines 1378-1399). -/
def rawOverInEnumVal (s : RState OptSt) : Step (RState OptSt) :=
  (s.deleteFrom (enumValEndM (s.view 1) s.m).2).bind fun s1 =>
    .next { s1 with m := (enumValEndM (s.view 1) s.m).1 }

/-- End of the `option` element (source lines 1400-1452). -/
def rawOverInOption (s : RState OptSt) : Step (RState OptSt) :=
  (optionEndM (s.view 1) s.m).bind fun r =>
    (s.insertLine r.2).bind fun s1 => .next { s1 with m := r.1 }

/-- Action at the end of a tag in Option mode (source lines 1020-1452). -/
def rawOptEnd (ctx : Ctx) (s : RState OptSt) : Step (RState OptSt) :=
  (rawOverInConstraints { s with m := optEndM ctx (s.view 1) s.m }).bind fun s7 =>
    (rawOverInEnumVal s7).bind fun s8 => rawOverInOption s8

/-- The actions of `operation == PARSE_OP_OPTION` on the buffer as memory. -/
def rawOptionHooks (ctx : Ctx) : RawHooks OptSt where
  onName := rawOptName ctx
  onParam := rawOptParam
  onEnd := rawOptEnd ctx

/-! ### Device mode -/

/-- Action on the tag name in Device mode (source lines 426-490). -/
def rawPrnName (s : RState PrnSt) : Step (RState PrnSt) :=
  rawRoot (lit "printer") { s with m := prnNameM (s.view 0) s.m }

/-- Action at the end of a tag in Device mode (source lines 886-957). -/
def rawPrnEnd (ctx : Ctx) (s : RState PrnSt) : Step (RState PrnSt) :=
  .next
    { s with
      core := if prnConfirms ctx (s.view 1) s.m = true then { s.core with comboconfirmed := 1 }
        else s.core
      m := prnEndM (s.view 1) s.m }

/-- The actions of `operation == PARSE_OP_PRINTER` on the buffer as memory. -/
def rawPrinterHooks (ctx : Ctx) : RawHooks PrnSt where
  onName := rawPrnName
  onParam := fun s => s
  onEnd := rawPrnEnd ctx

/-! ### Driver mode -/

/-- Action on the tag name in Driver mode (source lines 491-536). -/
def rawDrvName (s : RState DrvSt) : Step (RState DrvSt) :=
  (drvNameM (s.view 0) s.m).bind fun m1 => rawRoot (lit "driver") { s with m := m1 }

/-- End of the `printers` block (source lines 964-985). -/
def rawOverInPrinters (s : RState DrvSt) : Step (RState DrvSt) :=
  if s.core.nestinglevel < s.m.inprinters then
    match s.m.lastprinters with
    | some p =>
      (s.delete p).bind fun s1 =>
        (if s.m.printerentry ≠ [] then s1.insert p s.m.printerentry else .next s1).bind
          fun s2 => .next { s2 with m := { s.m with inprinters := 0 } }
    | none => .next { s with m := { s.m with inprinters := 0 } }
  else .next s

/-- End of a `printer` element (source lines 986-1004). -/
def rawOverInPrinter (s : RState DrvSt) : Step (RState DrvSt) :=
  if s.core.nestinglevel < s.m.inprinter then
    if s.m.printertobesaved = true then
      match s.m.lastprinter with
      | some p =>
        if p ≤ (s.view 1).out.length then
          .next { s with m := { s.m with
            inprinter := 0, printertobesaved := false,
            printerentry := s.m.printerentry ++ entryHead ++ (s.view 1).out.drop p ++ entryTail } }
        else .undefined
      | none => .next { s with m := { s.m with inprinter := 0, printertobesaved := false } }
    else .next { s with m := { s.m with inprinter := 0 } }
  else .next s

/-- Action at the end of a tag in Driver mode (source lines 959-1018). -/
def rawDrvEnd (ctx : Ctx) (s : RState DrvSt) : Step (RState DrvSt) :=
  (rawOverInPrinters { s with m := overDrvFlags (s.view 1) s.m }).bind fun s1 =>
    (rawOverInPrinter s1).bind fun s2 => .next { s2 with m := overDrvId ctx (s2.view 1) s2.m }

/-- The actions of `operation == PARSE_OP_DRIVER` on the buffer as memory. -/
def rawDriverHooks (ctx : Ctx) : RawHooks DrvSt where
  onName := rawDrvName
  onParam := fun s => s
  onEnd := rawDrvEnd ctx

/-! ### Overview of the drivers -/

/-- Action on the tag name in the overview mode for driver files (source lines
651-693). -/
def rawOvdName (s : RState OvdSt) : Step (RState OvdSt) :=
  if s.m.returned = true then .next s
  else if s.m.paramfault = true then .undefined
  else (ovdNameM (s.view 0) s.m).bind fun m1 => rawRoot (lit "driver") { s with m := m1 }

/-- Action on a further word of a tag in the overview mode for driver files
(source lines 820-829). -/
def rawOvdParam (s : RState OvdSt) : RState OvdSt :=
  if s.m.returned = true then s else { s with m := ovdParamM (s.view 0) s.m }

/-- End of `printers` (source lines 1456-1467). -/
def rawOverOvdPrinters (s : RState OvdSt) : Step (RState OvdSt) :=
  if s.core.nestinglevel < s.m.inprinters then
    match s.m.lastprinters with
    | some p => (s.delete p).bind fun s1 => .next { s1 with m := { s.m with inprinters := 0 } }
    | none => .next { s with m := { s.m with inprinters := 0 } }
  else .next s

/-- End of `comments` (source lines 1468-1480). -/
def rawOverOvdComments (s : RState OvdSt) : Step (RState OvdSt) :=
  if s.core.nestinglevel < s.m.incomments then
    match s.m.lastcomments with
    | some p =>
      if s.m.inprinter = 0 then
        (s.delete p).bind fun s1 => .next { s1 with m := { s.m with incomments := 0 } }
      else .next { s with m := { s.m with incomments := 0 } }
    | none => .next { s with m := { s.m with incomments := 0 } }
  else .next s

/-- End of `functionality` (source lines 1492-1507). -/
def rawOverOvdFunctionality (s : RState OvdSt) : Step (RState OvdSt) :=
  if s.core.nestinglevel < s.m.indfunctionality then
    match s.m.lastdfunctionality with
    | some p =>
      if p ≤ (s.view 1).out.length then
        .next { s with m := { s.m with
          indfunctionality := 0, dfunctionalityentry := (s.view 1).out.drop p } }
      else .undefined
    | none => .next { s with m := { s.m with indfunctionality := 0 } }
  else .next s

/-- The `prototype` block is cut out of the buffer (source lines 1614-1622),
unless the call has returned. -/
def rawOvdCutPrototype (s : RState OvdSt) : Step (RState OvdSt) :=
  if s.m.returned = true then .next s
  else
    match s.m.lastprototype with
    | some p => s.delete p
    | none => .next s

/-- End of the `prototype` element (source lines 1559-1623). -/
def rawOverOvdPrototype (ctx : OvCtx) (s : RState OvdSt) : Step (RState OvdSt) :=
  if s.core.nestinglevel < s.m.inprototype then
    (ovdRegister ctx s.core.currtagbody { s.m with inprototype := 0 }).bind fun m2 =>
      rawOvdCutPrototype { s with m := m2 }
  else .next s

/-- Action at the end of a tag in the overview mode for driver files (source
lines 1453-1623). -/
def rawOvdEnd (ctx : OvCtx) (s : RState OvdSt) : Step (RState OvdSt) :=
  if s.m.returned = true then .next s
  else if s.m.paramfault = true then .undefined
  else
    (rawOverOvdPrinters { s with m := overOvdDriver (s.view 1) s.m }).bind fun s0 =>
      (rawOverOvdComments s0).bind fun s1 =>
        (rawOverOvdFunctionality { s1 with m := overOvdIds ctx (s1.view 1) s1.m }).bind fun s2 =>
          rawOverOvdPrototype ctx { s2 with m := overOvdPrinter s2.m s2.core.nestinglevel }

/-- The actions of `operation == PARSE_OP_OV_DRIVER` on the buffer as memory. -/
def rawOvDriverHooks (ctx : OvCtx) : RawHooks OvdSt where
  onName := rawOvdName
  onParam := rawOvdParam
  onEnd := rawOvdEnd ctx

/-! ### Overview of the printers -/

/-- Action on the tag name in the overview mode for printer files (source lines
694-782). -/
def rawOvpName (s : RState OvpSt) : Step (RState OvpSt) :=
  rawRoot (lit "printer") { s with m := ovpNameM (s.view 0) s.m }

/-- Action on a further word of a tag in the overview mode for printer files
(source lines 830-846). -/
def rawOvpParam (s : RState OvpSt) : RState OvpSt := { s with m := ovpParamM (s.view 0) s.m }

/-- Action at the end of a tag in the overview mode for printer files (source
lines 1624-1856). -/
def rawOvpEnd (ctx : OvCtx) (s : RState OvpSt) : Step (RState OvpSt) :=
  (ovpEndM ctx (s.view 1) s.m).bind fun m1 => .next { s with m := m1 }

/-- The actions of `operation == PARSE_OP_OV_PRINTER` on the buffer as memory. -/
def rawOvPrinterHooks (ctx : OvCtx) : RawHooks OvpSt where
  onName := rawOvpName
  onParam := rawOvpParam
  onEnd := rawOvpEnd ctx

/-! ### The tag scanner and the loop -/

/-- A word inside a tag is finished (source lines 420-850): the word is
`data[tagwordstart .. scan)`. -/
def rawWordEnd {σ : Type} (h : RawHooks σ) (s : RState σ) : Step (RState σ) :=
  let c := { s.core with intagword := false }
  let w := (s.raw.mem.take s.raw.scan).drop s.raw.tagwordstart
  if c.tagnamefound then
    .next (h.onParam { s with core := { c with currtagparam := w } })
  else
    h.onName { s with core := { c with tagnamefound := true, currtagname := w } }

/-- The `>` that ends a tag which is not a comment (source lines 867-1870): the
text `data[lasttagend + 1 .. lasttag)` becomes `currtagbody`, the nesting level
follows the tag type, the actions of the mode run, and `lasttagend = scan`. -/
def rawTagEnd {σ : Type} (h : RawHooks σ) (s : RState σ) : Step (RState σ) :=
  let c := { s.core with intag := false }
  if !c.inxmlheader && !c.tagnamefound then .fatal
  else
    let body : Step CStr :=
      match s.raw.lasttagend with
      | some e =>
        if e + 1 ≤ s.raw.lasttag then
          .next (((s.raw.mem.take s.raw.scan).drop (e + 1)).take (s.raw.lasttag - e - 1))
        else .undefined
      | none => .next c.currtagbody
    body.bind fun b =>
      let c1 := { c with
        currtagbody := b
        bodytail :=
          match s.raw.lasttagend with
          | some _ => staleBehind c.currtagbody c.bodytail b
          | none => c.bodytail
        nestinglevel := c.nestinglevel + c.tagtype }
      (h.onEnd { s with core := c1 }).bind fun s3 =>
        .next { s3 with raw := { s3.raw with lasttagend := some s3.raw.scan } }

/-- The body of the scan loop (source lines 375-1890) on the byte `ch` under the
cursor, without the loop increment. -/
def rawStep {σ : Type} (h : RawHooks σ) (s : RState σ) (ch : Char) : Step (RState σ) :=
  let c := s.core
  if ch = '<' then
    if c.inquotes then .next s
    else if c.intag then
      if !c.incomment && !c.inxmlheader then .fatal else .next s
    else
      let c1 := { c with intag := true }
      let c2 :=
        if opensComment s.raw.ahead then { c1 with incomment := true, tagtype := TAG_EMPTY }
        else c1
      if c2.incomment then .next { s with core := c2 }
      else
        .next { s with
          core := { c2 with tagnamefound := false, tagtype := TAG_OPEN }
          raw := { s.raw with lasttag := s.raw.scan } }
  else if isDelim ch then
    if c.inquotes then .next s
    else if c.intag then
      let words : Step (RState σ) :=
        if c.incomment then .next s
        else
          (if c.intagword then rawWordEnd h s else .next s).bind fun s1 =>
            if ch = '/' then
              .next { s1 with core := { s1.core with
                tagtype := if s1.core.tagnamefound then TAG_EMPTY else TAG_CLOSE } }
            else .next s1
      words.bind fun s2 =>
        if ch = '>' then
          if s2.core.incomment then
            if (lit "--").isSuffixOf (s2.raw.mem.take s2.raw.scan) then
              .next { s2 with core := { s2.core with incomment := false, intag := false } }
            else .next s2
          else rawTagEnd h s2
        else .next s2
    else .next s
  else
    if c.intag && !c.incomment then
      let sq := if ch = chSQ then !c.insinglequotes else c.insinglequotes
      let dq := if ch = chDQ then !c.indoublequotes else c.indoublequotes
      let c1 := { c with insinglequotes := sq, indoublequotes := dq, inquotes := sq || dq }
      if c1.intagword then .next { s with core := c1 }
      else
        .next { s with
          core := { c1 with intagword := true }
          raw := { s.raw with tagwordstart := s.raw.scan } }
    else .next s

/-- The scan loop `for (scan = *data; *scan != '\0'; scan++)` (source line 374)
with a budget of iterations, for a mode that leaves the loop as soon as `stop`
holds (`fun _ => false` for a mode that never does): the loop ends at a zero
byte under the cursor; `none` when the budget is used up before the loop has
ended. -/
def rawLoop {σ : Type} (h : RawHooks σ) (stop : σ → Bool) :
    Nat → RState σ → Option (Step (RState σ))
  | 0, _ => none
  | n + 1, s =>
    match s.raw.mem[s.raw.scan]? with
    | none => some .undefined
    | some ch =>
      if ch = chNUL then some (.next s)
      else if stop s.m = true then some (.next s)
      else
        match rawStep h s ch with
        | .next s1 => rawLoop h stop n { s1 with raw := rawAdvance s1.raw }
        | .discard r => some (.discard r)
        | .fatal => some .fatal
        | .undefined => some .undefined

/-- The buffer at the start of `parse`: the array holds the C string `data` and
the bytes `slack` behind its terminator, `datalength = strlen(*data)` (source
line 369) and the cursor stands on the first byte. -/
def rawStart (data slack : CStr) : Raw :=
  { mem := data ++ chNUL :: slack, datalength := data.length, scan := 0, lasttag := 0,
    lasttagend := none, tagwordstart := 0 }

/-- The state at the start of the scan loop on the buffer as memory, with the
variables of the state `init`. -/
def RState.start {σ : Type} (init : PState σ) (data slack : CStr) : RState σ :=
  { raw := rawStart data slack, core := init.core, m := init.m }

/-- The number of bytes between the cursor and the end of the buffer content. -/
def Raw.left (r : Raw) : Nat := r.datalength - r.scan

/-- The array holds a C string of `datalength` bytes, and the cursor stands on
one of them. -/
def Raw.Inside (r : Raw) : Prop := r.scan < r.datalength ∧ ∃ b slack, r.Holds b slack

/-- The array holds a C string of `datalength` bytes, and the cursor stands on
one of them or on the terminator. -/
def Raw.AtHead (r : Raw) : Prop := r.scan ≤ r.datalength ∧ ∃ b slack, r.Holds b slack

/-- The content of the buffer behind a scan loop on the buffer as memory that
has come to its end at the terminator or at the test `stop`. -/
def rawBuffer {σ : Type} : Option (Step (RState σ)) → Option CStr
  | some (.next s) => some (s.raw.mem.take s.raw.datalength)
  | _ => none

/-- The array `r1` is as good as `r`: when `r` holds a C string with the cursor
on one of its bytes, so does `r1`, and as many bytes lie between the cursor and
the end of the content. -/
def Raw.Kept (r r1 : Raw) : Prop := r.Inside → r1.Inside ∧ r1.left = r.left

/-- An action that leaves the array as good as it finds it. -/
def Keeps {σ : Type} (f : RState σ → Step (RState σ)) : Prop :=
  ∀ s s1, f s = .next s1 → s.raw.Kept s1.raw

/-- The actions of a mode leave the array as good as they find it. -/
structure KeepsHooks {σ : Type} (h : RawHooks σ) : Prop where
  onName : Keeps h.onName
  onParam : ∀ s : RState σ, s.raw.Kept (h.onParam s).raw
  onEnd : Keeps h.onEnd

/-- What is shown of the scan loop of a mode with the actions `h`.  From the
start of `parse` on any input `data`, in an allocation with any bytes `slack`
behind the terminator, a budget of `strlen(data) + 1` iterations brings the loop
to its end; from any state in which the array holds a C string with the cursor
on it, a budget of one more than the number of bytes from the cursor to the end
of the content does.  And in every iteration from such a state that goes on,
the body of the loop, mutations included, leaves the number of bytes between
the cursor and the end of the content as it is, and the loop increment reduces
it by one and leaves the cursor on the C string. -/
def LoopEnds {σ : Type} (h : RawHooks σ) (stop : σ → Bool) : Prop :=
  (∀ (init : PState σ) (data slack : CStr),
    ∃ res, rawLoop h stop (data.length + 1) (RState.start init data slack) = some res) ∧
  (∀ s : RState σ, s.raw.AtHead → ∃ res, rawLoop h stop (s.raw.left + 1) s = some res) ∧
  (∀ (s s1 : RState σ) (ch : Char), s.raw.AtHead → s.raw.mem[s.raw.scan]? = some ch →
    ch ≠ chNUL → rawStep h s ch = .next s1 →
      s1.raw.left = s.raw.left ∧ (rawAdvance s1.raw).AtHead ∧
        (rawAdvance s1.raw).left + 1 = s.raw.left)

/-! ## The two scan loops side by side -/

/-- The state of the scan loop over the rest of the input that belongs to a
state of the scan loop on the buffer as memory: the scanned part of the buffer
is `data[0 .. scan + k)`. -/
def RState.toP {σ : Type} (s : RState σ) (k : Nat) : PState σ := { core := s.view k, m := s.m }

/-- Two outcomes agree: both go on, in results related by `R`, or both return
the same value, or both end the program; an outcome that leaves the model
agrees with every outcome. -/
def Step.Agree {α β : Type} (R : α → β → Prop) : Step α → Step β → Prop
  | .next a, .next b => R a b
  | .discard r, .discard q => r = q
  | .fatal, .fatal => True
  | .undefined, _ => True
  | _, .undefined => True
  | _, _ => False

/-- The array of `s1` holds a C string with the cursor on one of its bytes, and
behind the cursor the bytes that the array of `s` holds there. -/
def RState.Follows {σ : Type} (s s1 : RState σ) : Prop :=
  s1.raw.Inside ∧ s1.raw.ahead = s.raw.ahead

/-- An action on the buffer as memory and an action on the scanned part of the
buffer agree, with the scanned part `data[0 .. scan + k)`. -/
def SimHook {σ : Type} (k : Nat) (rf : RState σ → Step (RState σ))
    (f : PState σ → Step (PState σ)) : Prop :=
  ∀ s : RState σ, s.raw.Inside →
    Step.Agree (fun s1 z1 => z1 = s1.toP k ∧ s.Follows s1) (rf s) (f (s.toP k))

/-- The actions of a mode on the buffer as memory agree with its actions on the
scanned part of the buffer. -/
structure SimHooks {σ : Type} (rh : RawHooks σ) (h : Hooks σ) : Prop where
  onName : SimHook 0 rh.onName h.onName
  byte : ∀ s s1 : RState σ, rh.onName s = .next s1 → s.raw.Inside →
    s1.raw.mem[s1.raw.scan]? = s.raw.mem[s.raw.scan]?
  onParam : ∀ s : RState σ, (rh.onParam s).toP 0 = h.onParam (s.toP 0) ∧ (rh.onParam s).raw = s.raw
  onEnd : SimHook 1 rh.onEnd h.onEnd

/-- The scan loop of a mode on the buffer as memory and its scan loop over the
rest of the input agree: from the start of `parse` on an input `data` without
zero byte, in an allocation with any bytes `slack` behind the terminator, the
outcome of the one loop within `strlen(data) + 1` iterations and the outcome of
the other agree, and where both go on to the actions behind the loop, the
variables are the same and the scanned part of the buffer is `data[0 .. scan)`
of the array. -/
def LoopsAgree {σ : Type} (rh : RawHooks σ) (h : Hooks σ) (stop : σ → Bool) : Prop :=
  ∀ (init : PState σ) (data slack : CStr) (res : Step (RState σ)),
    init.core.out = [] → init.core.lasttag = 0 → init.core.lasttagend = none →
    init.core.tagwordstart = 0 → chNUL ∉ data →
    rawLoop rh stop (data.length + 1) (RState.start init data slack) = some res →
      Step.Agree (fun s1 z1 => z1 = s1.toP 0) res (stopLoop h stop init data)

/-! ## Theorems -/

/-- The evaluation of a constraint either records a win or leaves the state as
it is, according to `constraintWins`. -/
theorem evalConstraint_eq (ctx : Ctx) (m : OptSt) :
    evalConstraint ctx m =
      if constraintWins ctx m then
        recordWin (printerScore ctx m.cprinter m.cmake m.cmodel) (driverScore ctx m.cdriver) m
      else m := by
  unfold evalConstraint constraintWins
  by_cases h1 : isNullConstraint m = true
  · simp [h1]
  · by_cases h2 : hasPrinterAndMake m = true
    · simp [h1, h2]
    · by_cases h3 : gotMatch (printerScore ctx m.cprinter m.cmake m.cmodel)
          (driverScore ctx m.cdriver) = true
      · by_cases h4 : beatsBest (printerScore ctx m.cprinter m.cmake m.cmodel)
            (driverScore ctx m.cdriver) m.printerhiscore m.driverhiscore = true
        · simp [h1, h2, h3, h4]
        · simp [h1, h2, h3, h4]
      · simp [h1, h2, h3]

/-- The score of the driver selector in the array `cdriver` whose bytes behind
the terminator of the selector are all zero is the score `driverScore`. -/
theorem driverScoreAt_nil (ctx : Ctx) (cdriver : CStr) :
    driverScoreAt ctx cdriver [] = driverScore ctx cdriver := by
  unfold driverScoreAt driverScore strFrom
  by_cases h : 7 ≤ cdriver.length
  · rw [if_pos h]
  · rw [if_neg h, List.drop_nil, List.takeWhile_nil,
      List.drop_of_length_le (show cdriver.length ≤ 7 by omega)]

/-- The score of a driver selector of seven characters at least does not depend
on the bytes behind its terminator. -/
theorem driverScoreAt_long (ctx : Ctx) (cdriver tail : CStr) (h : 7 ≤ cdriver.length) :
    driverScoreAt ctx cdriver tail = driverScore ctx cdriver := by
  unfold driverScoreAt driverScore strFrom
  rw [if_pos h]

set_option maxRecDepth 100000 in
/-- C1 at a concrete document, for the requested driver `ljet4`: an option
whose first constraint (sense `true`) names the driver `driver/ljet4` and whose
second constraint (sense `false`) names the driver `gs`.  At the end of the
`driver` element of the second constraint the array `cdriver` holds the
selector `gs`, its terminator and the bytes `ver/ljet4` of the first selector,
so that the string at `cdriver + 7` is `ljet4`: the driver score of the selector
`gs` is 1, the second constraint wins, and the call frees the buffer and returns
0.  With the selector `driver/gs` in its place the score is -1 and the option is
kept. -/
theorem short_driver_selector_scores_match :
    cdriverAfter ctxLaserJetLjet4 [] docShortDriverHead =
      some (lit "gs", lit "ver/ljet4" ++ [chNUL]) ∧
    strFrom (lit "gs") (lit "ver/ljet4" ++ [chNUL]) 7 = lit "ljet4" ∧
    driverScoreAt ctxLaserJetLjet4 (lit "gs") (lit "ver/ljet4" ++ [chNUL]) = 1 ∧
    parseOptionAt ctxLaserJetLjet4 [] docShortDriver = .returned none 0 ∧
    driverScoreAt ctxLaserJetLjet4 (lit "driver/gs") (lit "jet4" ++ [chNUL]) = -1 ∧
    parseOptionAt ctxLaserJetLjet4 [] docLongDriver =
      .returned (some (lit "<option type=\"bool\" id=\"opt/Duplex\">\n</option>\n")) 0 := by
  decide

/-- C2 as stated fails: a constraint with the requested printer and another
driver has scores (2, -1), so "(printerScore >= hp and driverScore >= hd) or
printerScore = 2" holds with the high scores (0, 0) of a fresh block, yet the
constraint does not win: its sense `true` is not recorded and the high scores
stay (0, 0). -/
theorem wins_iff_beatsBest_counterexample :
    printerScore ctxLaserJetHpijs mPrinterOtherDriver.cprinter mPrinterOtherDriver.cmake
      mPrinterOtherDriver.cmodel = 2 ∧
    driverScore ctxLaserJetHpijs mPrinterOtherDriver.cdriver = -1 ∧
    mPrinterOtherDriver.printerhiscore = 0 ∧ mPrinterOtherDriver.driverhiscore = 0 ∧
    isNullConstraint mPrinterOtherDriver = false ∧
    hasPrinterAndMake mPrinterOtherDriver = false ∧
    mPrinterOtherDriver.csense = true ∧
    constraintWins ctxLaserJetHpijs mPrinterOtherDriver = false ∧
    (evalConstraint ctxLaserJetHpijs mPrinterOtherDriver).optionqualified = false ∧
    (evalConstraint ctxLaserJetHpijs mPrinterOtherDriver).printerhiscore = 0 ∧
    (evalConstraint ctxLaserJetHpijs mPrinterOtherDriver).driverhiscore = 0 := by
  decide

/-- C2, amended: an evaluated constraint with the scores (ps, ds) wins against
the high scores (hp, hd) if and only if (ps > 0 or ds > 0) and ps >= 0 and
ds >= 0 and ((ps >= hp and ds >= hd) or ps = 2).  When it wins the evaluation
records the win (high scores raised, sense stored as qualification), otherwise
it leaves the state unchanged. -/
theorem constraint_wins_iff (ctx : Ctx) (m : OptSt)
    (hnull : isNullConstraint m = false) (hboth : hasPrinterAndMake m = false) :
    (constraintWins ctx m = true ↔
      ((printerScore ctx m.cprinter m.cmake m.cmodel > 0 ∨ driverScore ctx m.cdriver > 0) ∧
        printerScore ctx m.cprinter m.cmake m.cmodel ≥ 0 ∧ driverScore ctx m.cdriver ≥ 0 ∧
        ((printerScore ctx m.cprinter m.cmake m.cmodel ≥ m.printerhiscore ∧
            driverScore ctx m.cdriver ≥ m.driverhiscore) ∨
          printerScore ctx m.cprinter m.cmake m.cmodel = 2))) ∧
    (constraintWins ctx m = true →
      evalConstraint ctx m =
        recordWin (printerScore ctx m.cprinter m.cmake m.cmodel) (driverScore ctx m.cdriver) m) ∧
    (constraintWins ctx m = false → evalConstraint ctx m = m) := by
  refine ⟨?_, ?_, ?_⟩
  · simp only [constraintWins, hnull, hboth, gotMatch, beatsBest, Bool.not_false, Bool.true_and,
      Bool.and_eq_true, decide_eq_true_eq]
    constructor
    · rintro ⟨⟨h1, h2, h3⟩, h4⟩
      exact ⟨h1, by omega, by omega, h4⟩
    · rintro ⟨h1, h2, h3, h4⟩
      exact ⟨⟨h1, by omega, by omega⟩, h4⟩
  · intro h; rw [evalConstraint_eq, h]; rfl
  · intro h; rw [evalConstraint_eq, h]; rfl

/-- Witness of the amended C2: a constraint at option scope with only a
matching make selector and `sense="true"` wins in a fresh block, and its sense
becomes the qualification of the option. -/
theorem constraint_wins_iff_witness :
    isNullConstraint { cmake := lit "HP", csense := true } = false ∧
    hasPrinterAndMake { cmake := lit "HP", csense := true } = false ∧
    constraintWins { pid := lit "HP-LaserJet", driver := lit "gs", make := lit "HP" }
      { cmake := lit "HP", csense := true } = true ∧
    (evalConstraint { pid := lit "HP-LaserJet", driver := lit "gs", make := lit "HP" }
      { cmake := lit "HP", csense := true }).optionqualified = true :=
  ⟨by decide, by decide, by decide,
   by
    rw [(constraint_wins_iff { pid := lit "HP-LaserJet", driver := lit "gs", make := lit "HP" }
      { cmake := lit "HP", csense := true } (by decide) (by decide)).2.1 (by decide)]
    decide⟩

/-- C3 as stated fails: inside an enum value, a constraint with `sense="false"`
that names the requested printer (printerScore 2) and another driver
(driverScore -1) does not win: the enum value stays qualified and the high
scores are not raised. -/
theorem exact_printer_always_wins_counterexample :
    printerScore ctxLaserJetHpijs mEnumPrinterOtherDriver.cprinter
      mEnumPrinterOtherDriver.cmake mEnumPrinterOtherDriver.cmodel = 2 ∧
    driverScore ctxLaserJetHpijs mEnumPrinterOtherDriver.cdriver = -1 ∧
    isNullConstraint mEnumPrinterOtherDriver = false ∧
    hasPrinterAndMake mEnumPrinterOtherDriver = false ∧
    mEnumPrinterOtherDriver.csense = false ∧
    mEnumPrinterOtherDriver.enumvalqualified = true ∧
    constraintWins ctxLaserJetHpijs mEnumPrinterOtherDriver = false ∧
    (evalConstraint ctxLaserJetHpijs mEnumPrinterOtherDriver).enumvalqualified = true ∧
    (evalConstraint ctxLaserJetHpijs mEnumPrinterOtherDriver).printerhiscore = 0 := by
  decide

/-- C3, amended: a constraint with printerScore 2 whose driverScore is 0 or 1
(no driver selector, or a matching one) wins whatever the running high scores
are: its sense replaces the qualification of the enum value (inside an enum
value) or of the option (at option scope, together with the pending default),
and the printer high score becomes at least 2. -/
theorem exact_printer_wins (ctx : Ctx) (m : OptSt)
    (hnull : isNullConstraint m = false) (hboth : hasPrinterAndMake m = false)
    (hps : printerScore ctx m.cprinter m.cmake m.cmodel = 2)
    (hds : 0 ≤ driverScore ctx m.cdriver) :
    constraintWins ctx m = true ∧
    evalConstraint ctx m = recordWin 2 (driverScore ctx m.cdriver) m ∧
    (m.inenumval ≠ 0 → (evalConstraint ctx m).enumvalqualified = m.csense) ∧
    (m.inenumval = 0 → (evalConstraint ctx m).optionqualified = m.csense ∧
      (evalConstraint ctx m).argdefault = m.cargdefault) ∧
    2 ≤ (evalConstraint ctx m).printerhiscore := by
  have hw : constraintWins ctx m = true := by
    simp only [constraintWins, hnull, hboth, hps, gotMatch, beatsBest, Bool.not_false,
      Bool.true_and, Bool.and_eq_true, decide_eq_true_eq]
    exact ⟨⟨Or.inl (by omega), by omega, by omega⟩, Or.inr trivial⟩
  have he : evalConstraint ctx m = recordWin 2 (driverScore ctx m.cdriver) m := by
    rw [evalConstraint_eq, hw, hps]; rfl
  refine ⟨hw, he, ?_, ?_, ?_⟩
  · intro h; rw [he]; simp [recordWin, h]
  · intro h; rw [he]; simp [recordWin, h]
  · rw [he]
    unfold recordWin
    by_cases h : m.inenumval = 0
    · simp only [h, ne_eq, not_true_eq_false, ↓reduceIte]
      split <;> omega
    · simp only [h, ne_eq, not_false_eq_true, ↓reduceIte]
      split <;> omega

/-- Witness of the amended C3: the requested printer alone, against the high
scores (2, 1) of an earlier winner, inside an enum value. -/
theorem exact_printer_wins_witness :
    (evalConstraint ctxLaserJetHpijs
      { cprinter := lit "HP-LaserJet", csense := false, inenumval := 4,
        printerhiscore := 2, driverhiscore := 1 }).enumvalqualified = false :=
  (exact_printer_wins ctxLaserJetHpijs
      { cprinter := lit "HP-LaserJet", csense := false, inenumval := 4,
        printerhiscore := 2, driverhiscore := 1 }
      (by decide) (by decide) (by decide) (by decide)).2.2.1 (by decide)

/-- C4: a constraint that wins, or whose evaluation changes the qualification
of the option or of the enum value, the pending default or a high score, has
printerScore >= 0 and driverScore >= 0, and one of the two is positive. -/
theorem win_needs_match (ctx : Ctx) (m : OptSt)
    (h : constraintWins ctx m = true ∨
      (evalConstraint ctx m).optionqualified ≠ m.optionqualified ∨
      (evalConstraint ctx m).enumvalqualified ≠ m.enumvalqualified ∨
      (evalConstraint ctx m).argdefault ≠ m.argdefault ∨
      (evalConstraint ctx m).printerhiscore ≠ m.printerhiscore ∨
      (evalConstraint ctx m).driverhiscore ≠ m.driverhiscore) :
    0 ≤ printerScore ctx m.cprinter m.cmake m.cmodel ∧
    0 ≤ driverScore ctx m.cdriver ∧
    (0 < printerScore ctx m.cprinter m.cmake m.cmodel ∨ 0 < driverScore ctx m.cdriver) := by
  have hw : constraintWins ctx m = true := by
    by_contra hc
    have hf : constraintWins ctx m = false := by simpa using hc
    have he : evalConstraint ctx m = m := by rw [evalConstraint_eq, hf]; rfl
    rw [he] at h
    simp [hf] at h
  simp only [constraintWins, gotMatch, Bool.and_eq_true, decide_eq_true_eq] at hw
  obtain ⟨⟨_, h1, h2, h3⟩, _⟩ := hw
  exact ⟨by omega, by omega, h1⟩

/-- Witness of C4: the printer-only constraint that wins has the scores (2, 0). -/
theorem win_needs_match_witness :
    0 ≤ printerScore ctxLaserJetHpijs (lit "HP-LaserJet") [] [] ∧
    0 ≤ driverScore ctxLaserJetHpijs [] ∧
    (0 < printerScore ctxLaserJetHpijs (lit "HP-LaserJet") [] [] ∨
      0 < driverScore ctxLaserJetHpijs []) :=
  win_needs_match ctxLaserJetHpijs { cprinter := lit "HP-LaserJet", csense := true }
    (Or.inl (by decide))

/-! ## The tag scanner, character by character -/

@[simp] theorem Step.bind_next {α β : Type} (s : α) (f : α → Step β) :
    (Step.next s).bind f = f s := rfl
@[simp] theorem Step.bind_discard {α β : Type} (r : Int) (f : α → Step β) :
    (Step.discard r : Step α).bind f = .discard r := rfl
@[simp] theorem Step.bind_fatal {α β : Type} (f : α → Step β) :
    (Step.fatal : Step α).bind f = .fatal := rfl
@[simp] theorem Step.bind_undefined {α β : Type} (f : α → Step β) :
    (Step.undefined : Step α).bind f = .undefined := rfl

theorem scanPrefix_cons {σ : Type} (h : Hooks σ) (s : PState σ) (ch : Char) (pre suf : CStr) :
    scanPrefix h s (ch :: pre) suf =
      (step h s ch (pre ++ suf)).bind fun s1 => scanPrefix h s1 pre suf := by
  rw [scanPrefix]
  cases step h s ch (pre ++ suf) <;> rfl

theorem scanLoop_cons {σ : Type} (h : Hooks σ) (s : PState σ) (ch : Char) (rest : CStr) :
    scanLoop h s (ch :: rest) = (step h s ch rest).bind fun s1 => scanLoop h s1 rest := by
  rw [scanLoop]
  cases step h s ch rest <;> rfl

theorem scanLoop_append {σ : Type} (h : Hooks σ) (s : PState σ) (pre suf : CStr) :
    scanLoop h s (pre ++ suf) = (scanPrefix h s pre suf).bind fun s1 => scanLoop h s1 suf := by
  induction pre generalizing s with
  | nil => simp [scanPrefix]
  | cons ch pre ih =>
    rw [List.cons_append, scanLoop_cons, scanPrefix_cons]
    cases step h s ch (pre ++ suf) <;> simp [ih]

theorem scanPrefix_append {σ : Type} (h : Hooks σ) (s : PState σ) (a b suf : CStr) :
    scanPrefix h s (a ++ b) suf =
      (scanPrefix h s a (b ++ suf)).bind fun s1 => scanPrefix h s1 b suf := by
  induction a generalizing s with
  | nil => simp [scanPrefix]
  | cons ch a ih =>
    rw [List.cons_append, scanPrefix_cons, scanPrefix_cons, List.append_assoc]
    cases step h s ch (a ++ (b ++ suf)) <;> simp [ih]

theorem scanLoop_eq_scanPrefix {σ : Type} (h : Hooks σ) (s : PState σ) (l : CStr) :
    scanLoop h s l = scanPrefix h s l [] := by
  have := scanLoop_append h s l []
  simp only [List.append_nil] at this
  rw [this]
  cases scanPrefix h s l [] <;> simp [scanLoop]

theorem advanceBy_nil {σ : Type} (s : PState σ) : advanceBy s [] = s := by
  simp [advanceBy]

theorem advanceBy_advance {σ : Type} (s : PState σ) (ch : Char) (w : CStr) :
    advanceBy (advance s ch) w = advanceBy s (ch :: w) := by
  simp [advanceBy, advance]

/-- Outside a tag every character but `<` is skipped. -/
theorem step_text {σ : Type} (h : Hooks σ) (s : PState σ) (ch : Char) (rest : CStr)
    (ht : TextMode s.core) (hc : ch ≠ '<') : step h s ch rest = .next (advance s ch) := by
  obtain ⟨h1, h2, h3, h4, h5, h6⟩ := ht
  unfold step
  simp [hc, h1, h3]

theorem textMode_advance {σ : Type} (s : PState σ) (ch : Char) (ht : TextMode s.core) :
    TextMode (advance s ch).core := ht

theorem scanPrefix_text {σ : Type} (h : Hooks σ) (s : PState σ) (t suf : CStr)
    (ht : TextMode s.core) (hc : ∀ c ∈ t, c ≠ '<') :
    scanPrefix h s t suf = .next (advanceBy s t) := by
  induction t generalizing s with
  | nil => simp [scanPrefix, advanceBy_nil]
  | cons ch t ih =>
    rw [scanPrefix_cons, step_text h s ch _ ht (hc ch (by simp))]
    simp only [Step.bind_next]
    rw [ih (advance s ch) (textMode_advance s ch ht) (fun c hm => hc c (by simp [hm])),
      advanceBy_advance]

theorem plainChar_ne_lt {ch : Char} (h : PlainChar ch) : ch ≠ '<' := h.1

theorem step_inWord {σ : Type} (h : Hooks σ) (s : PState σ) (ch : Char) (rest : CStr)
    (hw : InWord s.core) (hc : PlainChar ch) : step h s ch rest = .next (advance s ch) := by
  obtain ⟨h1, h2, h3, h4, h5, h6⟩ := hw
  obtain ⟨c1, c2, c3, c4⟩ := hc
  unfold step
  simp only [c1, c2, h1, h2, h3, h5, h6, c3, c4, ↓reduceIte, Bool.false_eq_true, Bool.not_false,
    Bool.and_self, Bool.or_self]
  congr 1
  cases s with
  | mk core m =>
    cases core
    simp_all [advance]

theorem scanPrefix_inWord {σ : Type} (h : Hooks σ) (s : PState σ) (w suf : CStr)
    (hw : InWord s.core) (hc : ∀ c ∈ w, PlainChar c) :
    scanPrefix h s w suf = .next (advanceBy s w) := by
  induction w generalizing s with
  | nil => simp [scanPrefix, advanceBy_nil]
  | cons ch w ih =>
    rw [scanPrefix_cons, step_inWord h s ch _ hw (hc ch (by simp))]
    simp only [Step.bind_next]
    rw [ih (advance s ch) hw (fun c hm => hc c (by simp [hm])), advanceBy_advance]

theorem opensComment_cons_of_ne {ch : Char} (rest : CStr) (h : ch ≠ '!') :
    opensComment (ch :: rest) = false := by
  match rest with
  | [] => rfl
  | [_] => rfl
  | b :: d :: r => simp [opensComment, h]

theorem step_lt {σ : Type} (h : Hooks σ) (s : PState σ) (rest : CStr)
    (ht : TextMode s.core) (hn : opensComment rest = false) :
    step h s '<' rest = .next (afterLt s) := by
  obtain ⟨h1, h2, h3, h4, h5, h6⟩ := ht
  unfold step
  simp only [↓reduceIte, h3, h1, Bool.false_eq_true, hn, h2]
  congr 1
  cases s with
  | mk core m =>
    cases core
    simp_all [advance, afterLt]

theorem inGap_afterLt {σ : Type} (s : PState σ) (ht : TextMode s.core) :
    InGap (afterLt s).core := by
  obtain ⟨h1, h2, h3, h4, h5, h6⟩ := ht
  exact ⟨rfl, h2, h6, h3, h4, h5⟩

theorem step_inGap {σ : Type} (h : Hooks σ) (s : PState σ) (ch : Char) (rest : CStr)
    (hg : InGap s.core) (hc : PlainChar ch) : step h s ch rest = .next (startWord s ch) := by
  obtain ⟨h1, h2, h3, h4, h5, h6⟩ := hg
  obtain ⟨c1, c2, c3, c4⟩ := hc
  unfold step
  simp only [c1, c2, h1, h2, h3, h5, h6, c3, c4, ↓reduceIte, Bool.false_eq_true, Bool.not_false,
    Bool.and_self, Bool.or_self]
  congr 1
  cases s with
  | mk core m =>
    cases core
    simp_all [advance, startWord]

theorem inWord_startWord {σ : Type} (s : PState σ) (ch : Char) (hg : InGap s.core) :
    InWord (startWord s ch).core := by
  obtain ⟨h1, h2, h3, h4, h5, h6⟩ := hg
  exact ⟨h1, h2, rfl, h4, h5, h6⟩

/-- A delimiter other than `/` and `>` between the words of a tag is skipped. -/
theorem step_inGap_blank {σ : Type} (h : Hooks σ) (s : PState σ) (ch : Char) (rest : CStr)
    (hg : InGap s.core) (hd : isDelim ch = true) (h1 : ch ≠ '/') (h2 : ch ≠ '>') (h3 : ch ≠ '<') :
    step h s ch rest = .next (advance s ch) := by
  obtain ⟨g1, g2, g3, g4, g5, g6⟩ := hg
  unfold step
  simp [h1, h2, h3, hd, g1, g2, g3, g4]

theorem isDelim_dq : isDelim chDQ = false := by decide
theorem chDQ_ne_lt : chDQ ≠ '<' := by decide
theorem chDQ_ne_sq : chDQ ≠ chSQ := by decide

theorem step_openDQ {σ : Type} (h : Hooks σ) (s : PState σ) (rest : CStr)
    (hw : InWord s.core) : step h s chDQ rest = .next (openDQ s) := by
  obtain ⟨h1, h2, h3, h4, h5, h6⟩ := hw
  unfold step
  simp only [chDQ_ne_lt, isDelim_dq, h1, h2, h3, h5, h6, chDQ_ne_sq, ↓reduceIte,
    Bool.false_eq_true, Bool.not_false, Bool.and_self, Bool.or_true, Bool.false_or]
  congr 1
  cases s with
  | mk core m =>
    cases core
    simp_all [advance, openDQ]

theorem inDQ_openDQ {σ : Type} (s : PState σ) (hw : InWord s.core) : InDQ (openDQ s).core := by
  obtain ⟨h1, h2, h3, h4, h5, h6⟩ := hw
  exact ⟨h1, h2, h3, rfl, h5, rfl⟩

theorem step_inDQ {σ : Type} (h : Hooks σ) (s : PState σ) (ch : Char) (rest : CStr)
    (hq : InDQ s.core) (h1 : ch ≠ chDQ) (h2 : ch ≠ chSQ) :
    step h s ch rest = .next (advance s ch) := by
  obtain ⟨q1, q2, q3, q4, q5, q6⟩ := hq
  unfold step
  by_cases hlt : ch = '<'
  · simp [hlt, q4]
  · by_cases hd : isDelim ch = true
    · simp [hlt, hd, q4]
    · simp only [hlt, hd, q1, q2, q3, q5, q6, h1, h2, ↓reduceIte, Bool.false_eq_true,
        Bool.not_false, Bool.and_self, Bool.or_true, Bool.false_or]
      congr 1
      cases s with
      | mk core m =>
        cases core
        simp_all [advance]

theorem scanPrefix_inDQ {σ : Type} (h : Hooks σ) (s : PState σ) (v suf : CStr)
    (hq : InDQ s.core) (hc : ∀ c ∈ v, c ≠ chDQ ∧ c ≠ chSQ) :
    scanPrefix h s v suf = .next (advanceBy s v) := by
  induction v generalizing s with
  | nil => simp [scanPrefix, advanceBy_nil]
  | cons ch v ih =>
    rw [scanPrefix_cons, step_inDQ h s ch _ hq (hc ch (by simp)).1 (hc ch (by simp)).2]
    simp only [Step.bind_next]
    rw [ih (advance s ch) hq (fun c hm => hc c (by simp [hm])), advanceBy_advance]

theorem step_closeDQ {σ : Type} (h : Hooks σ) (s : PState σ) (rest : CStr)
    (hq : InDQ s.core) : step h s chDQ rest = .next (closeDQ s) := by
  obtain ⟨q1, q2, q3, q4, q5, q6⟩ := hq
  unfold step
  simp only [chDQ_ne_lt, isDelim_dq, q1, q2, q3, q5, q6, chDQ_ne_sq, ↓reduceIte,
    Bool.false_eq_true, Bool.not_false, Bool.not_true, Bool.and_self, Bool.or_self]
  congr 1
  cases s with
  | mk core m =>
    cases core
    simp_all [advance, closeDQ]

theorem inWord_closeDQ {σ : Type} (s : PState σ) (hq : InDQ s.core) :
    InWord (closeDQ s).core := by
  obtain ⟨q1, q2, q3, q4, q5, q6⟩ := hq
  exact ⟨q1, q2, q3, rfl, q5, rfl⟩

theorem inWord_advanceBy {σ : Type} (s : PState σ) (w : CStr) (hw : InWord s.core) :
    InWord (advanceBy s w).core := hw

theorem inDQ_advanceBy {σ : Type} (s : PState σ) (w : CStr) (hw : InDQ s.core) :
    InDQ (advanceBy s w).core := hw

theorem inWord_afterWord {σ : Type} (s : PState σ) (w : CStr) (hg : InGap s.core) :
    InWord (afterWord s w).core := by
  obtain ⟨h1, h2, h3, h4, h5, h6⟩ := hg
  exact ⟨h1, h2, rfl, h4, h5, h6⟩

theorem scanPrefix_word {σ : Type} (h : Hooks σ) (s : PState σ) (w suf : CStr)
    (hg : InGap s.core) (hw : TagWord w) :
    scanPrefix h s w suf = .next (afterWord s w) := by
  cases hw with
  | plain ch w hp =>
    rw [scanPrefix_cons, step_inGap h s ch _ hg (hp ch (by simp))]
    simp only [Step.bind_next]
    rw [scanPrefix_inWord h _ w suf (inWord_startWord s ch hg) (fun c hm => hp c (by simp [hm]))]
    simp [advanceBy, startWord, afterWord]
  | quoted ch a v ha hv =>
    have e : ch :: a ++ chDQ :: v ++ [chDQ] = ch :: (a ++ (chDQ :: (v ++ [chDQ]))) := by simp
    rw [e, scanPrefix_cons, step_inGap h s ch _ hg (ha ch (by simp))]
    simp only [Step.bind_next]
    rw [scanPrefix_append,
      scanPrefix_inWord h _ a _ (inWord_startWord s ch hg) (fun c hm => ha c (by simp [hm]))]
    simp only [Step.bind_next]
    rw [scanPrefix_cons, step_openDQ h _ _ (inWord_advanceBy _ a (inWord_startWord s ch hg))]
    simp only [Step.bind_next]
    rw [scanPrefix_append, scanPrefix_inDQ h _ v _
      (inDQ_openDQ _ (inWord_advanceBy _ a (inWord_startWord s ch hg))) hv]
    simp only [Step.bind_next]
    rw [scanPrefix_cons, step_closeDQ h _ _ (inDQ_advanceBy _ v
      (inDQ_openDQ _ (inWord_advanceBy _ a (inWord_startWord s ch hg))))]
    simp only [Step.bind_next, scanPrefix]
    obtain ⟨h1, h2, h3, h4, h5, h6⟩ := hg
    congr 1
    cases s with
    | mk core m =>
      cases core
      simp_all [advanceBy, startWord, afterWord, openDQ, closeDQ]

theorem isDelim_gt : isDelim '>' = true := by decide
theorem gt_ne_lt : ('>' : Char) ≠ '<' := by decide
theorem gt_ne_slash : ('>' : Char) ≠ '/' := by decide

theorem wordEnd_name {σ : Type} (h : Hooks σ) (t : PState σ)
    (hn : t.core.tagnamefound = false) : wordEnd h t = h.onName (nameState t) := by
  unfold wordEnd
  simp [hn, nameState]

theorem wordEnd_param {σ : Type} (h : Hooks σ) (t : PState σ)
    (hn : t.core.tagnamefound = true) : wordEnd h t = .next (h.onParam (paramState t)) := by
  unfold wordEnd
  simp [hn, paramState]

/-- A `>` right behind the tag name: the name action, then the end of the tag. -/
theorem step_name_gt {σ : Type} (h : Hooks σ) (hs : FlagSafe h) (t : PState σ) (rest : CStr)
    (hw : InWord t.core) (hn : t.core.tagnamefound = false) :
    step h t '>' rest = (h.onName (nameState t)).bind (tagEnd h) := by
  obtain ⟨h1, h2, h3, h4, h5, h6⟩ := hw
  unfold step
  simp only [gt_ne_lt, isDelim_gt, h4, h1, h2, h3, ↓reduceIte, Bool.false_eq_true, gt_ne_slash,
    wordEnd_name h t hn]
  cases hr : h.onName (nameState t) with
  | next s1 =>
    have hf : s1.core.incomment = false := by
      rw [(hs.onName _ _ hr).2.1]
      exact h2
    simp [hf]
  | discard r => rfl
  | fatal => rfl
  | undefined => rfl

/-- A blank right behind the tag name: the name action, and the tag goes on. -/
theorem step_name_blank {σ : Type} (h : Hooks σ) (t : PState σ) (ch : Char) (rest : CStr)
    (hw : InWord t.core) (hn : t.core.tagnamefound = false)
    (hd : isDelim ch = true) (c1 : ch ≠ '/') (c2 : ch ≠ '>') (c3 : ch ≠ '<') :
    step h t ch rest = (h.onName (nameState t)).bind fun s1 => .next (advance s1 ch) := by
  obtain ⟨h1, h2, h3, h4, h5, h6⟩ := hw
  unfold step
  simp only [c3, hd, h4, h1, h2, h3, ↓reduceIte, Bool.false_eq_true, c1, c2,
    wordEnd_name h t hn]
  cases hr : h.onName (nameState t) <;> simp

/-- A `>` right behind a parameter: the parameter action, then the end of the tag. -/
theorem step_param_gt {σ : Type} (h : Hooks σ) (hs : FlagSafe h) (t : PState σ) (rest : CStr)
    (hw : InWord t.core) (hn : t.core.tagnamefound = true) :
    step h t '>' rest = tagEnd h (h.onParam (paramState t)) := by
  obtain ⟨h1, h2, h3, h4, h5, h6⟩ := hw
  unfold step
  have hf : (h.onParam (paramState t)).core.incomment = false := by
    rw [(hs.onParam (paramState t)).2.1]
    exact h2
  simp only [gt_ne_lt, isDelim_gt, h4, h1, h2, h3, ↓reduceIte, Bool.false_eq_true, gt_ne_slash,
    wordEnd_param h t hn, Step.bind_next, hf]

/-- A blank right behind a parameter: the parameter action, and the tag goes on. -/
theorem step_param_blank {σ : Type} (h : Hooks σ) (t : PState σ) (ch : Char) (rest : CStr)
    (hw : InWord t.core) (hn : t.core.tagnamefound = true)
    (hd : isDelim ch = true) (c1 : ch ≠ '/') (c2 : ch ≠ '>') (c3 : ch ≠ '<') :
    step h t ch rest = .next (advance (h.onParam (paramState t)) ch) := by
  obtain ⟨h1, h2, h3, h4, h5, h6⟩ := hw
  unfold step
  simp only [c3, hd, h4, h1, h2, h3, ↓reduceIte, Bool.false_eq_true, c1, c2,
    wordEnd_param h t hn, Step.bind_next]

theorem drop_length_append (a b : CStr) : (a ++ b).drop a.length = b := by
  simp

theorem nameState_afterWord_afterLt {σ : Type} (s : PState σ) (nm : CStr) :
    nameState (afterWord (afterLt s) nm) = atTagName s TAG_OPEN ['<'] nm := by
  cases s with
  | mk core m =>
    cases core
    simp [nameState, afterWord, afterLt, atTagName]

theorem step_slash_afterLt {σ : Type} (h : Hooks σ) (s : PState σ) (rest : CStr)
    (ht : TextMode s.core) : step h (afterLt s) '/' rest = .next (afterLtSlash s) := by
  obtain ⟨h1, h2, h3, h4, h5, h6⟩ := ht
  unfold step
  have e1 : ('/' : Char) ≠ '<' := by decide
  have e2 : isDelim '/' = true := by decide
  have e3 : ('/' : Char) ≠ '>' := by decide
  simp only [e1, e2, e3, ↓reduceIte, afterLt, h3, h2, h6, Bool.false_eq_true, Step.bind_next]
  congr 1
  cases s with
  | mk core m =>
    cases core
    simp_all [advance, afterLtSlash]

theorem inGap_afterLtSlash {σ : Type} (s : PState σ) (ht : TextMode s.core) :
    InGap (afterLtSlash s).core := by
  obtain ⟨h1, h2, h3, h4, h5, h6⟩ := ht
  exact ⟨rfl, h2, h6, h3, h4, h5⟩

theorem nameState_afterWord_afterLtSlash {σ : Type} (s : PState σ) (nm : CStr) :
    nameState (afterWord (afterLtSlash s) nm) = atTagName s TAG_CLOSE ['<', '/'] nm := by
  cases s with
  | mk core m =>
    cases core
    simp [nameState, afterWord, afterLtSlash, atTagName]

theorem TagName.tagWord {nm : CStr} (h : TagName nm) : TagWord nm := by
  obtain ⟨ch, w, rfl, _, hp⟩ := h
  exact TagWord.plain ch w hp

theorem TagName.noComment {nm : CStr} (h : TagName nm) (r : CStr) :
    opensComment (nm ++ r) = false := by
  obtain ⟨ch, w, rfl, hne, _⟩ := h
  exact opensComment_cons_of_ne _ hne

/-- Scanning an opening tag `<nm>` from between two tags: the name action runs
in the state `atTagName`, then the tag ends. -/
theorem scan_open_tag {σ : Type} (h : Hooks σ) (hs : FlagSafe h) (s : PState σ) (nm suf : CStr)
    (ht : TextMode s.core) (hn : TagName nm) :
    scanPrefix h s ('<' :: nm ++ ['>']) suf =
      (h.onName (atTagName s TAG_OPEN ['<'] nm)).bind (tagEnd h) := by
  have e : '<' :: nm ++ ['>'] = '<' :: (nm ++ ['>']) := by simp
  rw [e, scanPrefix_cons, step_lt h s _ ht (by rw [List.append_assoc]; exact hn.noComment _)]
  simp only [Step.bind_next]
  rw [scanPrefix_append, scanPrefix_word h _ nm _ (inGap_afterLt s ht) hn.tagWord]
  simp only [Step.bind_next]
  rw [scanPrefix_cons, step_name_gt h hs _ _ (inWord_afterWord _ nm (inGap_afterLt s ht)) rfl,
    nameState_afterWord_afterLt]
  cases (h.onName (atTagName s TAG_OPEN ['<'] nm)).bind (tagEnd h) <;> simp [scanPrefix]

/-- Scanning a closing tag `</nm>` from between two tags. -/
theorem scan_close_tag {σ : Type} (h : Hooks σ) (hs : FlagSafe h) (s : PState σ) (nm suf : CStr)
    (ht : TextMode s.core) (hn : TagName nm) :
    scanPrefix h s ('<' :: '/' :: nm ++ ['>']) suf =
      (h.onName (atTagName s TAG_CLOSE ['<', '/'] nm)).bind (tagEnd h) := by
  have e : '<' :: '/' :: nm ++ ['>'] = '<' :: '/' :: (nm ++ ['>']) := by simp
  rw [e, scanPrefix_cons, List.cons_append,
    step_lt h s _ ht (opensComment_cons_of_ne _ (by decide))]
  simp only [Step.bind_next]
  rw [scanPrefix_cons, step_slash_afterLt h s _ ht]
  simp only [Step.bind_next]
  rw [scanPrefix_append, scanPrefix_word h _ nm _ (inGap_afterLtSlash s ht) hn.tagWord]
  simp only [Step.bind_next]
  rw [scanPrefix_cons, step_name_gt h hs _ _ (inWord_afterWord _ nm (inGap_afterLtSlash s ht)) rfl,
    nameState_afterWord_afterLtSlash]
  cases (h.onName (atTagName s TAG_CLOSE ['<', '/'] nm)).bind (tagEnd h) <;> simp [scanPrefix]

/-- Scanning the head `<nm ` of a tag with parameters. -/
theorem scan_tag_head {σ : Type} (h : Hooks σ) (s : PState σ) (nm suf : CStr)
    (ht : TextMode s.core) (hn : TagName nm) :
    scanPrefix h s ('<' :: nm ++ [' ']) suf =
      (h.onName (atTagName s TAG_OPEN ['<'] nm)).bind fun s1 => .next (advance s1 ' ') := by
  have e : '<' :: nm ++ [' '] = '<' :: (nm ++ [' ']) := by simp
  rw [e, scanPrefix_cons, step_lt h s _ ht (by rw [List.append_assoc]; exact hn.noComment _)]
  simp only [Step.bind_next]
  rw [scanPrefix_append, scanPrefix_word h _ nm _ (inGap_afterLt s ht) hn.tagWord]
  simp only [Step.bind_next]
  rw [scanPrefix_cons, step_name_blank h _ ' ' _ (inWord_afterWord _ nm (inGap_afterLt s ht)) rfl
    (by decide) (by decide) (by decide) (by decide), nameState_afterWord_afterLt]
  cases h.onName (atTagName s TAG_OPEN ['<'] nm) <;> simp [scanPrefix]

theorem paramState_afterWord {σ : Type} (t : PState σ) (w : CStr) :
    paramState (afterWord t w) = atParam t w := by
  cases t with
  | mk core m =>
    cases core
    simp [paramState, afterWord, atParam]

/-- Scanning a parameter and the blank behind it. -/
theorem scan_param_blank {σ : Type} (h : Hooks σ) (t : PState σ) (w suf : CStr)
    (hg : InGap t.core) (hn : t.core.tagnamefound = true) (hw : TagWord w) :
    scanPrefix h t (w ++ [' ']) suf = .next (advance (h.onParam (atParam t w)) ' ') := by
  rw [scanPrefix_append, scanPrefix_word h _ w _ hg hw]
  simp only [Step.bind_next]
  rw [scanPrefix_cons, step_param_blank h _ ' ' _ (inWord_afterWord _ w hg) hn
    (by decide) (by decide) (by decide) (by decide), paramState_afterWord]
  simp [scanPrefix]

/-- Scanning the last parameter of a tag and the `>` behind it. -/
theorem scan_param_gt {σ : Type} (h : Hooks σ) (hs : FlagSafe h) (t : PState σ) (w suf : CStr)
    (hg : InGap t.core) (hn : t.core.tagnamefound = true) (hw : TagWord w) :
    scanPrefix h t (w ++ ['>']) suf = tagEnd h (h.onParam (atParam t w)) := by
  rw [scanPrefix_append, scanPrefix_word h _ w _ hg hw]
  simp only [Step.bind_next]
  rw [scanPrefix_cons, step_param_gt h hs _ _ (inWord_afterWord _ w hg) hn, paramState_afterWord]
  cases tagEnd h (h.onParam (atParam t w)) <;> simp [scanPrefix]

/-! ## Option mode: what the actions leave unchanged -/

theorem sameFlags_refl (c : Core) : SameFlags c c := ⟨rfl, rfl, rfl, rfl, rfl, rfl, rfl⟩

theorem sameFlags_optNameCore (c : Core) : SameFlags (optNameCore c) c := by
  unfold optNameCore
  split
  · exact ⟨rfl, rfl, rfl, rfl, rfl, rfl, rfl⟩
  · exact sameFlags_refl c

theorem optName_eq_next (ctx : Ctx) (s s1 : OState) (h : optName ctx s = .next s1) :
    ∃ m1, optNameM ctx s.core s.m = .next m1 ∧ s1 = { core := optNameCore s.core, m := m1 } := by
  unfold optName at h
  cases hm : optNameM ctx s.core s.m with
  | next m1 =>
    rw [hm] at h
    simp only [Step.bind_next, Step.next.injEq] at h
    exact ⟨m1, rfl, h.symm⟩
  | discard r => rw [hm] at h; cases h
  | fatal => rw [hm] at h; cases h
  | undefined => rw [hm] at h; cases h

theorem optName_sameFlags (ctx : Ctx) (s s1 : OState) (h : optName ctx s = .next s1) :
    SameFlags s1.core s.core := by
  obtain ⟨m1, _, rfl⟩ := optName_eq_next ctx s s1 h
  exact sameFlags_optNameCore _

theorem sameButOut_refl (c : Core) : SameButOut c c := by
  cases c; rfl

theorem sameButOut_deleteSpan (c c1 : Core) (p : Nat) (h : deleteSpan c p = .next c1) :
    SameButOut c1 c := by
  unfold deleteSpan at h
  split at h
  · cases h; rfl
  · cases h

theorem sameButOut_insertAt (c c1 : Core) (p : Nat) (t : CStr) (h : insertAt c p t = .next c1) :
    SameButOut c1 c := by
  unfold insertAt at h
  split at h
  · cases h; rfl
  · cases h

theorem sameButOut_deleteFrom (c c1 : Core) (d : Option Nat) (h : deleteFrom c d = .next c1) :
    SameButOut c1 c := by
  cases d with
  | none => cases h; exact sameButOut_refl _
  | some p => exact sameButOut_deleteSpan c c1 p h

theorem sameButOut_insertLine (c c1 : Core) (d : Option (Nat × CStr))
    (h : insertLine c d = .next c1) : SameButOut c1 c := by
  cases d with
  | none => cases h; exact sameButOut_refl _
  | some p => exact sameButOut_insertAt c c1 p.1 p.2 h

theorem sameButOut_trans {a b c : Core} (h1 : SameButOut a b) (h2 : SameButOut b c) :
    SameButOut a c := by
  unfold SameButOut at *
  rw [h1, h2]

theorem Step.bind_eq_next {α β : Type} {x : Step α} {f : α → Step β} {b : β}
    (h : x.bind f = .next b) : ∃ a, x = .next a ∧ f a = .next b := by
  cases x with
  | next a => exact ⟨a, rfl, h⟩
  | discard r => cases h
  | fatal => cases h
  | undefined => cases h

theorem overInConstraints_core (s s1 : OState) (h : overInConstraints s = .next s1) :
    SameButOut s1.core s.core := by
  unfold overInConstraints at h
  obtain ⟨r, _, h2⟩ := Step.bind_eq_next h
  obtain ⟨c, h3, h4⟩ := Step.bind_eq_next h2
  cases h4
  exact sameButOut_deleteFrom _ _ _ h3

theorem overInEnumVal_core (s s1 : OState) (h : overInEnumVal s = .next s1) :
    SameButOut s1.core s.core := by
  unfold overInEnumVal at h
  obtain ⟨c, h3, h4⟩ := Step.bind_eq_next h
  cases h4
  exact sameButOut_deleteFrom _ _ _ h3

theorem overInOption_core (s s1 : OState) (h : overInOption s = .next s1) :
    SameButOut s1.core s.core := by
  unfold overInOption at h
  obtain ⟨r, _, h2⟩ := Step.bind_eq_next h
  obtain ⟨c, h3, h4⟩ := Step.bind_eq_next h2
  cases h4
  exact sameButOut_insertLine _ _ _ h3

theorem optEnd_core (ctx : Ctx) (s s1 : OState) (h : optEnd ctx s = .next s1) :
    SameButOut s1.core s.core := by
  unfold optEnd at h
  obtain ⟨s7, h1, h2⟩ := Step.bind_eq_next h
  obtain ⟨s8, h3, h4⟩ := Step.bind_eq_next h2
  exact sameButOut_trans (overInOption_core _ _ h4)
    (sameButOut_trans (overInEnumVal_core _ _ h3)
      (overInConstraints_core { s with m := optEndM ctx s.core s.m } s7 h1))

theorem sameFlags_of_sameButOut {a b : Core} (h : SameButOut a b) : SameFlags a b := by
  unfold SameButOut at h
  rw [h]
  exact ⟨rfl, rfl, rfl, rfl, rfl, rfl, rfl⟩

theorem flagSafe_optionHooks (ctx : Ctx) : FlagSafe (optionHooks ctx) where
  onName := optName_sameFlags ctx
  onParam := fun _ => sameFlags_refl _
  onEnd := fun s s1 h => sameFlags_of_sameButOut (optEnd_core ctx s s1 h)

theorem optNameM_arg_pjl (ctx : Ctx) (c : Core) (m : OptSt) (h : c.currtagname = lit "arg_pjl") :
    optNameM ctx c m =
      if m.inargexecution ≠ 0 ∧ ctx.nopjl = true then .discard c.comboconfirmed
      else .next { m with inargpjl := c.nestinglevel + 1 } := by
  unfold optNameM
  rw [h]
  rfl

theorem wordEnd_combo {σ : Type} (h : Hooks σ) (hk : ComboSafe h) (s s1 : PState σ)
    (hw : wordEnd h s = .next s1) : s1.core.comboconfirmed = s.core.comboconfirmed := by
  unfold wordEnd at hw
  simp only at hw
  split at hw
  · cases hw
    rw [hk.onParam]
  · rw [hk.onName _ _ hw]

theorem tagEnd_combo {σ : Type} (h : Hooks σ) (hk : ComboSafe h) (s s1 : PState σ)
    (hw : tagEnd h s = .next s1) : s1.core.comboconfirmed = s.core.comboconfirmed := by
  unfold tagEnd at hw
  simp only at hw
  split at hw
  · cases hw
  · obtain ⟨b, _, h2⟩ := Step.bind_eq_next hw
    obtain ⟨s3, h3, h4⟩ := Step.bind_eq_next h2
    cases h4
    exact (hk.onEnd _ s3 h3).trans rfl

theorem step_combo {σ : Type} (h : Hooks σ) (hk : ComboSafe h) (s s1 : PState σ) (ch : Char)
    (rest : CStr) (hs : step h s ch rest = .next s1) :
    s1.core.comboconfirmed = s.core.comboconfirmed := by
  unfold step at hs
  simp only at hs
  split at hs
  · split at hs
    · cases hs; rfl
    · split at hs
      · split at hs
        · cases hs
        · cases hs; rfl
      · cases hs
        simp only [advance]
        split <;> split <;> rfl
  · split at hs
    · split at hs
      · cases hs; rfl
      · split at hs
        · obtain ⟨s2, h2, h3⟩ := Step.bind_eq_next hs
          have e2 : s2.core.comboconfirmed = s.core.comboconfirmed := by
            split at h2
            · cases h2; rfl
            · obtain ⟨sw, h4, h5⟩ := Step.bind_eq_next h2
              have e4 : sw.core.comboconfirmed = s.core.comboconfirmed := by
                split at h4
                · exact wordEnd_combo h hk _ _ h4
                · cases h4; rfl
              split at h5
              · cases h5; exact e4
              · cases h5; exact e4
          split at h3
          · split at h3
            · split at h3
              · cases h3; exact e2
              · cases h3; exact e2
            · rw [tagEnd_combo h hk _ _ h3, e2]
          · cases h3; exact e2
        · cases hs; rfl
    · split at hs
      · cases hs
        simp only [advance]
        split <;> rfl
      · cases hs; rfl

theorem scanPrefix_combo {σ : Type} (h : Hooks σ) (hk : ComboSafe h) (s s1 : PState σ)
    (pre suf : CStr) (hs : scanPrefix h s pre suf = .next s1) :
    s1.core.comboconfirmed = s.core.comboconfirmed := by
  induction pre generalizing s with
  | nil =>
    simp only [scanPrefix, Step.next.injEq] at hs
    rw [hs]
  | cons ch pre ih =>
    rw [scanPrefix_cons] at hs
    obtain ⟨s2, h2, h3⟩ := Step.bind_eq_next hs
    rw [ih s2 h3, step_combo h hk _ _ _ _ h2]

theorem comboSafe_optionHooks (ctx : Ctx) : ComboSafe (optionHooks ctx) where
  onName := fun s s1 h => by
    obtain ⟨m1, _, rfl⟩ := optName_eq_next ctx s s1 h
    show (optNameCore s.core).comboconfirmed = _
    unfold optNameCore
    split <;> rfl
  onParam := fun _ => rfl
  onEnd := fun s s1 h => by
    have := optEnd_core ctx s s1 h
    unfold SameButOut at this
    rw [this]

theorem ne_lt_of_isDelim {d : Char} (hd : isDelim d = true) : d ≠ '<' := by
  intro h
  rw [h] at hd
  exact absurd hd (by decide)

/-- When the name action discards the document, so does the iteration on the
delimiter behind the tag name. -/
theorem step_name_discard {σ : Type} (h : Hooks σ) (t : PState σ) (d : Char) (rest : CStr)
    (r : Int) (hw : InWord t.core) (hn : t.core.tagnamefound = false) (hd : isDelim d = true)
    (hr : h.onName (nameState t) = .discard r) : step h t d rest = .discard r := by
  obtain ⟨h1, h2, h3, h4, h5, h6⟩ := hw
  unfold step
  simp only [ne_lt_of_isDelim hd, hd, h4, h1, h2, h3, ↓reduceIte, Bool.false_eq_true,
    wordEnd_name h t hn, hr, Step.bind_discard]

theorem tagName_arg_pjl : TagName (lit "arg_pjl") :=
  ⟨'a', lit "rg_pjl", rfl, by decide, by decide⟩

theorem optInit_combo : optInit.core.comboconfirmed = 0 := rfl

/-- C10: when the scan of an option document reaches, between two tags and
inside the `arg_execution` element, a tag `<arg_pjl` (followed by any word
delimiter), and the PJL-disallowed flag is set, `parse` frees the buffer and
returns 0, whatever qualification its constraints have recorded so far and
whatever follows in the document. -/
theorem pjl_option_discarded (ctx : Ctx) (pre suf : CStr) (d : Char) (s : OState)
    (hno : ctx.nopjl = true) (hd : isDelim d = true)
    (hpre : scanPrefix (optionHooks ctx) optInit pre (lit "<arg_pjl" ++ d :: suf) = .next s)
    (ht : TextMode s.core) (hex : s.m.inargexecution ≠ 0) :
    parseOption ctx (pre ++ (lit "<arg_pjl" ++ d :: suf)) = .returned none 0 := by
  have hc : s.core.comboconfirmed = 0 :=
    (scanPrefix_combo _ (comboSafe_optionHooks ctx) _ _ _ _ hpre).trans optInit_combo
  have e : lit "<arg_pjl" ++ d :: suf = '<' :: (lit "arg_pjl" ++ d :: suf) := rfl
  unfold parseOption
  rw [scanLoop_append, hpre, Step.bind_next, e, scanLoop_cons,
    step_lt _ s _ ht (tagName_arg_pjl.noComment _), Step.bind_next, scanLoop_append,
    scanPrefix_word _ _ _ _ (inGap_afterLt s ht) tagName_arg_pjl.tagWord, Step.bind_next,
    scanLoop_cons,
    step_name_discard _ _ d suf s.core.comboconfirmed
      (inWord_afterWord _ _ (inGap_afterLt s ht)) rfl hd]
  · rw [hc]; rfl
  · rw [nameState_afterWord_afterLt]
    show optName ctx _ = _
    unfold optName
    rw [optNameM_arg_pjl ctx _ _ rfl, if_pos ⟨hex, hno⟩]
    rfl

theorem Step.eq_next_getD {α : Type} (x : Step α) (d : α) (h : x.isNext = true) :
    x = .next (x.getD d) := by
  cases x with
  | next s => rfl
  | discard r => cases h
  | fatal => cases h
  | undefined => cases h

/-- Witness of C10: a boolean option with `<arg_pjl />` in its execution block,
for a driver that forbids PJL. -/
theorem pjl_option_discarded_witness :
    parseOption ctxNoPjl (pjlDocPre ++ (lit "<arg_pjl" ++ ' ' :: pjlDocSuf)) = .returned none 0 :=
  pjl_option_discarded ctxNoPjl pjlDocPre pjlDocSuf ' '
    ((scanPrefix (optionHooks ctxNoPjl) optInit pjlDocPre
      (lit "<arg_pjl" ++ ' ' :: pjlDocSuf)).getD optInit)
    (by decide) (by decide) (Step.eq_next_getD _ _ (by decide)) (by decide) (by decide)

/-! ## Option mode: tags as events -/

theorem tagEnd_eq {σ : Type} (h : Hooks σ) (t : PState σ) (e : Nat)
    (hn : t.core.tagnamefound = true) (he : t.core.lasttagend = some e)
    (hle : e + 1 ≤ t.core.lasttag) :
    tagEnd h t = (h.onEnd (endState t e)).bind fun s3 => .next (markEnd s3) := by
  cases t with
  | mk core m =>
    cases core
    simp only at hn he hle
    subst hn he
    simp only [tagEnd, endState, markEnd, hle, Bool.not_true, Bool.and_false,
      Bool.false_eq_true, ↓reduceIte, Step.bind_next]

theorem overInEn_quiet (ctx : Ctx) (c : Core) (m : OptSt) (h : m.inen ≤ c.nestinglevel) :
    overInEn ctx c m = m := by
  unfold overInEn
  rw [if_neg (by omega)]

theorem overInArgMax_quiet (c : Core) (m : OptSt) (h : m.inargmax ≤ c.nestinglevel) :
    overInArgMax c m = m := by
  unfold overInArgMax
  rw [if_neg (by omega)]

theorem overInArgMin_quiet (c : Core) (m : OptSt) (h : m.inargmin ≤ c.nestinglevel) :
    overInArgMin c m = m := by
  unfold overInArgMin
  rw [if_neg (by omega)]

theorem clearSentinels_quiet (c : Core) (m : OptSt)
    (h1 : m.inargshortname ≤ c.nestinglevel) (h2 : m.inargexecution ≤ c.nestinglevel)
    (h3 : m.inargpjl ≤ c.nestinglevel) (h4 : m.inevshortname ≤ c.nestinglevel) :
    clearSentinels c m = m := by
  unfold clearSentinels
  rw [if_neg (not_lt.mpr h1), if_neg (not_lt.mpr h2), if_neg (not_lt.mpr h3),
    if_neg (not_lt.mpr h4)]

theorem collectFields_quiet (c : Core) (m : OptSt)
    (h1 : m.inprinter ≤ c.nestinglevel) (h2 : m.inmake ≤ c.nestinglevel)
    (h3 : m.inmodel ≤ c.nestinglevel) (h4 : m.indriver ≤ c.nestinglevel)
    (h5 : m.inargdefault ≤ c.nestinglevel) :
    collectFields c m = m := by
  unfold collectFields
  rw [if_neg (not_lt.mpr h1), if_neg (not_lt.mpr h2), if_neg (not_lt.mpr h3),
    if_neg (not_lt.mpr h4), if_neg (not_lt.mpr h5),
    if_neg (fun h => not_lt.mpr h1 h.1), if_neg (fun h => not_lt.mpr h2 h.1),
    if_neg (fun h => not_lt.mpr h3 h.1), if_neg (fun h => not_lt.mpr h4 h.1),
    if_neg (fun h => not_lt.mpr h5 h.1)]

theorem overInConstraint_quiet (ctx : Ctx) (c : Core) (m : OptSt)
    (h : m.inconstraint ≤ c.nestinglevel) : overInConstraint ctx c m = m := by
  unfold overInConstraint
  rw [if_neg (by omega)]

theorem optEndM_quiet (ctx : Ctx) (c : Core) (m : OptSt) (q : Quiet m c.nestinglevel) :
    optEndM ctx c m = m := by
  unfold optEndM
  rw [overInEn_quiet ctx c m q.inen, overInArgMax_quiet c m q.inargmax,
    overInArgMin_quiet c m q.inargmin,
    clearSentinels_quiet c m q.inargshortname q.inargexecution q.inargpjl q.inevshortname,
    collectFields_quiet c m q.inprinter q.inmake q.inmodel q.indriver q.inargdefault,
    overInConstraint_quiet ctx c m q.inconstraint]

theorem constraintsEndM_quiet (c : Core) (m : OptSt) (h : m.inconstraints ≤ c.nestinglevel) :
    constraintsEndM c m = .next (m, none) := by
  unfold constraintsEndM
  rw [if_neg (by omega)]

theorem enumValEndM_quiet (c : Core) (m : OptSt) (h : m.inenumval ≤ c.nestinglevel) :
    enumValEndM c m = (m, none) := by
  unfold enumValEndM
  rw [if_neg (by omega)]

theorem optionEndM_quiet (c : Core) (m : OptSt) (h : m.inoption ≤ c.nestinglevel) :
    optionEndM c m = .next (m, none) := by
  unfold optionEndM
  rw [if_neg (by omega)]

theorem overInConstraints_quiet (s : OState) (h : s.m.inconstraints ≤ s.core.nestinglevel) :
    overInConstraints s = .next s := by
  unfold overInConstraints
  rw [constraintsEndM_quiet _ _ h]
  rfl

theorem overInEnumVal_quiet (s : OState) (h : s.m.inenumval ≤ s.core.nestinglevel) :
    overInEnumVal s = .next s := by
  unfold overInEnumVal
  rw [enumValEndM_quiet _ _ h]
  rfl

theorem overInOption_quiet (s : OState) (h : s.m.inoption ≤ s.core.nestinglevel) :
    overInOption s = .next s := by
  unfold overInOption
  rw [optionEndM_quiet _ _ h]
  rfl

/-- At the end of a tag that ends no element known to Option mode nothing
happens. -/
theorem optEnd_quiet (ctx : Ctx) (s : OState) (q : Quiet s.m s.core.nestinglevel)
    (ho : s.m.inoption ≤ s.core.nestinglevel) : optEnd ctx s = .next s := by
  unfold optEnd
  rw [optEndM_quiet ctx _ _ q]
  have e : ({ s with m := s.m } : OState) = s := rfl
  rw [e, overInConstraints_quiet s q.inconstraints, Step.bind_next,
    overInEnumVal_quiet s q.inenumval, Step.bind_next, overInOption_quiet s ho]

theorem optNameCore_of_close (c : Core) (h : c.tagtype = TAG_CLOSE) : optNameCore c = c := by
  unfold optNameCore
  rw [if_neg]
  rintro ⟨_, h2⟩
  rw [h] at h2
  exact absurd h2 (by decide)

theorem optNameCore_of_name (c : Core) (h : c.currtagname ≠ lit "option") :
    optNameCore c = c := by
  unfold optNameCore
  rw [if_neg]
  rintro ⟨h1, _⟩
  exact h h1

theorem take_drop_text (out w : CStr) (e : Nat) (hle : e + 1 ≤ out.length) :
    ((out ++ w).drop (e + 1)).take (out.length - e - 1) = out.drop (e + 1) := by
  rw [List.drop_append_of_le_length hle, List.take_append_of_le_length (by simp; omega)]
  rw [List.take_of_length_le (by simp; omega)]

/-- Scanning a closing tag in Option mode from between two tags: the name action
on the variables of the mode, then the end action. -/
theorem scan_close_opt (ctx : Ctx) (s : OState) (nm suf : CStr) (e : Nat)
    (ht : TextMode s.core) (hn : TagName nm) (he : s.core.lasttagend = some e)
    (hle : e + 1 ≤ s.core.out.length) :
    scanPrefix (optionHooks ctx) s ('<' :: '/' :: nm ++ ['>']) suf =
      (optNameM ctx (atTagName s TAG_CLOSE ['<', '/'] nm).core s.m).bind fun m1 =>
        (optEnd ctx (endState { core := (atTagName s TAG_CLOSE ['<', '/'] nm).core, m := m1 } e)).bind
          fun s3 => .next (markEnd s3) := by
  rw [scan_close_tag _ (flagSafe_optionHooks ctx) s nm suf ht hn]
  show (optName ctx _).bind _ = _
  unfold optName
  cases hm : optNameM ctx (atTagName s TAG_CLOSE ['<', '/'] nm).core
      (atTagName s TAG_CLOSE ['<', '/'] nm).m with
  | next m1 =>
    have hm' : optNameM ctx (atTagName s TAG_CLOSE ['<', '/'] nm).core s.m = .next m1 := hm
    rw [hm']
    simp only [Step.bind_next]
    rw [optNameCore_of_close _ rfl]
    exact tagEnd_eq _ _ e rfl he hle
  | discard r =>
    have hm' : optNameM ctx (atTagName s TAG_CLOSE ['<', '/'] nm).core s.m = .discard r := hm
    rw [hm']; rfl
  | fatal =>
    have hm' : optNameM ctx (atTagName s TAG_CLOSE ['<', '/'] nm).core s.m = .fatal := hm
    rw [hm']; rfl
  | undefined =>
    have hm' : optNameM ctx (atTagName s TAG_CLOSE ['<', '/'] nm).core s.m = .undefined := hm
    rw [hm']; rfl

theorem length_pos_of_ne_nil {l : CStr} (h : l ≠ []) : 0 < l.length := by
  cases l with
  | nil => exact absurd rfl h
  | cons a l => simp

theorem endState_eq_endCore (s : OState) (ty : Int) (t pre nm : CStr) (m1 : OptSt) (n : Int)
    (ha : AfterTag s n) :
    endState { core := nameCore s ty t pre nm, m := m1 } (s.core.out.length - 1) =
      { core := endCore s ty t pre nm, m := m1 } := by
  have hp := length_pos_of_ne_nil ha.nonempty
  have e1 : s.core.out.length - 1 + 1 = s.core.out.length := by omega
  have hb : List.take ((s.core.out ++ t).length - (s.core.out.length - 1) - 1)
      (List.drop (s.core.out.length - 1 + 1) (s.core.out ++ (t ++ (pre ++ nm)))) = t := by
    rw [e1, List.drop_left]
    have e2 : (s.core.out ++ t).length - (s.core.out.length - 1) - 1 = t.length := by
      simp only [List.length_append]; omega
    rw [e2, List.take_left]
  cases s with
  | mk core m =>
    cases core
    simp only [endState, nameCore, atTagName, advanceBy, endCore] at hb ⊢
    simp only [hb, List.append_assoc]

theorem afterTag_afterTagState (s : OState) (ty : Int) (t pre nm : CStr) (m1 : OptSt) (n : Int)
    (ha : AfterTag s n) : AfterTag (afterTagState s ty t pre nm m1) (n + ty) := by
  obtain ⟨h1, h2, h3, h4, h5, h6⟩ := ha.text
  refine ⟨⟨rfl, h2, h3, h4, h5, rfl⟩, ?_, rfl, ?_⟩
  · show s.core.nestinglevel + ty = n + ty
    rw [ha.level]
  · show s.core.out ++ (t ++ (pre ++ (nm ++ ['>']))) ≠ []
    simp

theorem afterTagState_out (s : OState) (ty : Int) (t pre nm : CStr) (m1 : OptSt) :
    (afterTagState s ty t pre nm m1).core.out = s.core.out ++ (t ++ (pre ++ (nm ++ ['>']))) := rfl

theorem afterTagState_m (s : OState) (ty : Int) (t pre nm : CStr) (m1 : OptSt) :
    (afterTagState s ty t pre nm m1).m = m1 := rfl

theorem afterTagState_combo (s : OState) (ty : Int) (t pre nm : CStr) (m1 : OptSt) :
    (afterTagState s ty t pre nm m1).core.comboconfirmed = s.core.comboconfirmed := rfl

theorem textMode_advanceBy (s : OState) (t : CStr) (h : TextMode s.core) :
    TextMode (advanceBy s t).core := h

/-- Scanning a text and a closing tag in Option mode, from behind a tag. -/
theorem scan_text_close (ctx : Ctx) (s : OState) (t nm suf : CStr) (n : Int)
    (ha : AfterTag s n) (ht : ∀ c ∈ t, c ≠ '<') (hn : TagName nm) :
    scanPrefix (optionHooks ctx) s (t ++ ('<' :: '/' :: nm ++ ['>'])) suf =
      (optNameM ctx (nameCore s TAG_CLOSE t ['<', '/'] nm) s.m).bind fun m1 =>
        (optEnd ctx { core := endCore s TAG_CLOSE t ['<', '/'] nm, m := m1 }).bind
          fun s3 => .next (markEnd s3) := by
  have hp := length_pos_of_ne_nil ha.nonempty
  rw [scanPrefix_append, scanPrefix_text _ s t _ ha.text ht, Step.bind_next,
    scan_close_opt ctx (advanceBy s t) nm suf (s.core.out.length - 1)
      (textMode_advanceBy s t ha.text) hn ha.mark
      (by show _ ≤ (s.core.out ++ t).length; simp only [List.length_append]; omega)]
  congr 1
  funext m1
  rw [← endState_eq_endCore s TAG_CLOSE t ['<', '/'] nm m1 n ha]
  rfl

theorem optNameM_option_close (ctx : Ctx) (c : Core) (m : OptSt) (e : Nat)
    (h1 : c.currtagname = lit "option") (h2 : c.tagtype = TAG_CLOSE)
    (h3 : c.lasttagend = some e) :
    optNameM ctx c m =
      .next { m with inoption := c.nestinglevel + 1, lastoption := some (e + 1) } := by
  unfold optNameM
  rw [h1, h2, h3]
  rfl

theorem tagName_option : TagName (lit "option") :=
  ⟨'o', lit "ption", rfl, by decide, by decide⟩

theorem optionEndM_fire (c : Core) (m : OptSt) (h : c.nestinglevel < m.inoption) :
    optionEndM c m =
      if m.numenumvals = 0 ∨ m.optionqualified = false then .discard c.comboconfirmed
      else if m.argdefault ≠ [] ∨ m.userdefault = true then
        match m.lastoption with
        | some p =>
          .next ({ m with inoption := 0, argdefault := chosenDefault m },
            some (p, defaultLine (chosenDefault m)))
        | none => .next ({ m with inoption := 0 }, none)
      else .next ({ m with inoption := 0 }, none) := by
  unfold optionEndM
  rw [if_pos h]

theorem finish_scan_text {σ : Type} (h : Hooks σ) (s : PState σ) (t : CStr)
    (ht : TextMode s.core) (hc : ∀ c ∈ t, c ≠ '<') :
    finish (scanLoop h s t) = .returned (some (s.core.out ++ t)) s.core.comboconfirmed := by
  rw [scanLoop_eq_scanPrefix, scanPrefix_text h s t [] ht hc]
  rfl

theorem optEnd_option_fire (ctx : Ctx) (x : OState) (q : Quiet x.m x.core.nestinglevel) :
    optEnd ctx x =
      (optionEndM x.core x.m).bind fun r =>
        (insertLine x.core r.2).bind fun c => .next { core := c, m := r.1 } := by
  unfold optEnd
  rw [optEndM_quiet ctx _ _ q]
  have e : ({ x with m := x.m } : OState) = x := rfl
  rw [e, overInConstraints_quiet x q.inconstraints, Step.bind_next,
    overInEnumVal_quiet x q.inenumval, Step.bind_next]
  rfl

theorem insertAt_length (c : Core) (a b text : CStr) (hc : c.out = a ++ b) :
    insertAt c a.length text = .next { c with out := a ++ (text ++ b) } := by
  unfold insertAt
  rw [if_pos (by rw [hc]; simp)]
  congr 2
  rw [hc, List.take_left, List.drop_left, List.append_assoc]

/-- The outcome of the parse at the closing tag of the option element, reached
between two tags with no child element open. -/
theorem parseOption_close (ctx : Ctx) (pre t trailer : CStr) (s : OState) (n : Int)
    (hpre : scanPrefix (optionHooks ctx) optInit pre (t ++ (lit "</option>" ++ trailer)) = .next s)
    (ha : AfterTag s n) (q : Quiet s.m (n - 1))
    (ht : ∀ c ∈ t, c ≠ '<') (htr : ∀ c ∈ trailer, c ≠ '<') :
    parseOption ctx (pre ++ (t ++ (lit "</option>" ++ trailer))) =
      closeOutcome s.core.out s.m t trailer := by
  unfold closeOutcome
  have hc : s.core.comboconfirmed = 0 :=
    (scanPrefix_combo _ (comboSafe_optionHooks ctx) _ _ _ _ hpre).trans optInit_combo
  have hp := length_pos_of_ne_nil ha.nonempty
  have e0 : t ++ (lit "</option>" ++ trailer) =
      (t ++ ('<' :: '/' :: lit "option" ++ ['>'])) ++ trailer := by
    rw [List.append_assoc]; rfl
  have e1 : s.core.out.length - 1 + 1 = s.core.out.length := by omega
  have hlv : (endCore s TAG_CLOSE t ['<', '/'] (lit "option")).nestinglevel = n - 1 := by
    show s.core.nestinglevel + TAG_CLOSE = n - 1
    rw [ha.level]; rfl
  have hq : Quiet ({ s.m with
      inoption := (nameCore s TAG_CLOSE t ['<', '/'] (lit "option")).nestinglevel + 1,
      lastoption := some (s.core.out.length - 1 + 1) } : OptSt)
      (endCore s TAG_CLOSE t ['<', '/'] (lit "option")).nestinglevel := by
    rw [hlv]
    exact ⟨q.1, q.2, q.3, q.4, q.5, q.6, q.7, q.8, q.9, q.10, q.11, q.12, q.13, q.14, q.15⟩
  have hfire : (endCore s TAG_CLOSE t ['<', '/'] (lit "option")).nestinglevel <
      (nameCore s TAG_CLOSE t ['<', '/'] (lit "option")).nestinglevel + 1 := by
    rw [hlv]
    show n - 1 < s.core.nestinglevel + 1
    rw [ha.level]; omega
  conv_lhs =>
    unfold parseOption
    rw [scanLoop_append, hpre, Step.bind_next, e0, scanLoop_append,
      scan_text_close ctx s t (lit "option") trailer n ha ht tagName_option,
      optNameM_option_close ctx (nameCore s TAG_CLOSE t ['<', '/'] (lit "option")) s.m
        (s.core.out.length - 1) rfl rfl ha.mark, Step.bind_next,
      optEnd_option_fire ctx _ hq, optionEndM_fire _ _ hfire]
  by_cases h1 : s.m.numenumvals = 0 ∨ s.m.optionqualified = false
  · rw [if_pos h1, if_pos h1]
    show Outcome.returned none s.core.comboconfirmed = _
    rw [hc]
  · rw [if_neg h1, if_neg h1]
    by_cases h2 : s.m.argdefault ≠ [] ∨ s.m.userdefault = true
    · rw [if_pos h2, if_pos h2]
      simp only [Step.bind_next, insertLine, e1]
      rw [insertAt_length _ s.core.out (t ++ (['<', '/'] ++ (lit "option" ++ ['>']))) _ rfl]
      simp only [Step.bind_next]
      rw [finish_scan_text _ _ trailer ?_ htr]
      · show Outcome.returned _ s.core.comboconfirmed = _
        rw [hc]
        congr 2
        simp [markEnd, chosenDefault, lit]
      · exact ⟨rfl, ha.text.2.1, ha.text.2.2.1, ha.text.2.2.2.1, ha.text.2.2.2.2.1, rfl⟩
    · rw [if_neg h2, if_neg h2]
      simp only [Step.bind_next, insertLine]
      rw [finish_scan_text _ _ trailer ?_ htr]
      · show Outcome.returned _ s.core.comboconfirmed = _
        rw [hc]
        congr 2
        simp [markEnd, endCore, lit]
      · exact ⟨rfl, ha.text.2.1, ha.text.2.2.1, ha.text.2.2.2.1, ha.text.2.2.2.2.1, rfl⟩

/-- C6, amended: at the closing tag of the option element, reached between two
tags with no child element open, the document is discarded when the count of
applicable enum values is zero or the option has not been qualified by an
option-level constraint (for every option type); otherwise it is kept, and the
default line is inserted behind the last tag before the closing tag exactly
when the winning constraint carries a default value or a valid user default
exists. -/
theorem option_close_outcome (ctx : Ctx) (pre t trailer : CStr) (s : OState) (n : Int)
    (hpre : scanPrefix (optionHooks ctx) optInit pre (t ++ (lit "</option>" ++ trailer)) = .next s)
    (ha : AfterTag s n) (q : Quiet s.m (n - 1))
    (ht : ∀ c ∈ t, c ≠ '<') (htr : ∀ c ∈ trailer, c ≠ '<') :
    parseOption ctx (pre ++ (t ++ (lit "</option>" ++ trailer))) =
      if s.m.numenumvals = 0 ∨ s.m.optionqualified = false then .returned none 0
      else if s.m.argdefault ≠ [] ∨ s.m.userdefault = true then
        .returned (some (s.core.out ++
          (defaultLine (chosenDefault s.m) ++ (t ++ (lit "</option>" ++ trailer))))) 0
      else .returned (some (s.core.out ++ (t ++ (lit "</option>" ++ trailer)))) 0 :=
  parseOption_close ctx pre t trailer s n hpre ha q ht htr

set_option maxRecDepth 100000 in
/-- C6 as stated fails twice: an enum option with one applicable enum value
that no option-level constraint qualified is discarded, and a qualified boolean
option whose winning constraint has no default value (and without user default)
is kept without any `arg_defval` line: only its constraints block is gone. -/
theorem option_close_counterexample :
    parseOption ctxLaserJetGs docEnumNoConstraints = .returned none 0 ∧
    parseOption ctxLaserJetGs docBoolNoDefault =
      .returned (some (lit "<option type=\"bool\" id=\"opt/2\">\n</option>\n")) 0 := by
  decide

set_option maxRecDepth 100000 in
/-- Witness of the amended C6: a qualified boolean option whose winning
constraint carries the default `0`. -/
theorem option_close_outcome_witness :
    parseOption ctxLaserJetGs (docBoolWithDefaultPre ++ ([chNL] ++ (lit "</option>" ++ [chNL]))) =
      .returned (some (lit "<option type=\"bool\" id=\"opt/3\">\n <arg_shortname><en>Duplex</en></arg_shortname>\n  <arg_defval>0</arg_defval>\n</option>\n")) 0 :=
  (option_close_outcome ctxLaserJetGs docBoolWithDefaultPre [chNL] [chNL] stBoolWithDefault 2
    (Step.eq_next_getD _ _ (by decide))
    (by decide)
    (by decide)
    (by decide) (by decide)).trans (by decide)

/-- Scanning an opening tag without parameters in Option mode from between two
tags, for an element that is not the root. -/
theorem scan_open_opt (ctx : Ctx) (s : OState) (nm suf : CStr) (e : Nat)
    (ht : TextMode s.core) (hn : TagName nm) (hno : nm ≠ lit "option")
    (he : s.core.lasttagend = some e) (hle : e + 1 ≤ s.core.out.length) :
    scanPrefix (optionHooks ctx) s ('<' :: nm ++ ['>']) suf =
      (optNameM ctx (atTagName s TAG_OPEN ['<'] nm).core s.m).bind fun m1 =>
        (optEnd ctx (endState { core := (atTagName s TAG_OPEN ['<'] nm).core, m := m1 } e)).bind
          fun s3 => .next (markEnd s3) := by
  rw [scan_open_tag _ (flagSafe_optionHooks ctx) s nm suf ht hn]
  show (optName ctx _).bind _ = _
  unfold optName
  have hm0 : (atTagName s TAG_OPEN ['<'] nm).m = s.m := rfl
  rw [hm0]
  cases hm : optNameM ctx (atTagName s TAG_OPEN ['<'] nm).core s.m with
  | next m1 =>
    simp only [Step.bind_next]
    rw [optNameCore_of_name _ hno]
    exact tagEnd_eq _ _ e rfl he hle
  | discard r => rfl
  | fatal => rfl
  | undefined => rfl

/-- Scanning a text and an opening tag whose end action finds nothing to do. -/
theorem scan_text_open (ctx : Ctx) (s : OState) (t nm suf : CStr) (n : Int) (m1 : OptSt)
    (ha : AfterTag s n) (ht : ∀ c ∈ t, c ≠ '<') (hn : TagName nm) (hno : nm ≠ lit "option")
    (hm : optNameM ctx (nameCore s TAG_OPEN t ['<'] nm) s.m = .next m1)
    (q : Quiet m1 (n + 1)) (ho : m1.inoption ≤ n + 1) :
    scanPrefix (optionHooks ctx) s (t ++ ('<' :: nm ++ ['>'])) suf =
      .next (afterTagState s TAG_OPEN t ['<'] nm m1) := by
  have hp := length_pos_of_ne_nil ha.nonempty
  have hlv : (endCore s TAG_OPEN t ['<'] nm).nestinglevel = n + 1 := by
    show s.core.nestinglevel + TAG_OPEN = n + 1
    rw [ha.level]; rfl
  rw [scanPrefix_append, scanPrefix_text _ s t _ ha.text ht, Step.bind_next,
    scan_open_opt ctx (advanceBy s t) nm suf (s.core.out.length - 1)
      (textMode_advanceBy s t ha.text) hn hno ha.mark
      (by show _ ≤ (s.core.out ++ t).length; simp only [List.length_append]; omega)]
  have hm' : optNameM ctx (atTagName (advanceBy s t) TAG_OPEN ['<'] nm).core (advanceBy s t).m =
      .next m1 := hm
  rw [hm', Step.bind_next]
  have he := endState_eq_endCore s TAG_OPEN t ['<'] nm m1 n ha
  have he' : endState { core := (atTagName (advanceBy s t) TAG_OPEN ['<'] nm).core, m := m1 }
      (s.core.out.length - 1) = { core := endCore s TAG_OPEN t ['<'] nm, m := m1 } := he
  rw [he', optEnd_quiet ctx _ (by rw [hlv]; exact q) (by rw [hlv]; exact ho), Step.bind_next]
  rfl

/-- Scanning a text and a closing tag whose end action changes only variables
of the mode. -/
theorem scan_text_close_pure (ctx : Ctx) (s : OState) (t nm suf : CStr) (n : Int)
    (m1 m2 : OptSt) (ha : AfterTag s n) (ht : ∀ c ∈ t, c ≠ '<') (hn : TagName nm)
    (hm : optNameM ctx (nameCore s TAG_CLOSE t ['<', '/'] nm) s.m = .next m1)
    (hend : optEndM ctx (endCore s TAG_CLOSE t ['<', '/'] nm) m1 = m2)
    (h1 : m2.inconstraints ≤ n - 1) (h2 : m2.inenumval ≤ n - 1) (h3 : m2.inoption ≤ n - 1) :
    scanPrefix (optionHooks ctx) s (t ++ ('<' :: '/' :: nm ++ ['>'])) suf =
      .next (afterTagState s TAG_CLOSE t ['<', '/'] nm m2) := by
  have hlv : (endCore s TAG_CLOSE t ['<', '/'] nm).nestinglevel = n - 1 := by
    show s.core.nestinglevel + TAG_CLOSE = n - 1
    rw [ha.level]; rfl
  rw [scan_text_close ctx s t nm suf n ha ht hn, hm, Step.bind_next]
  unfold optEnd
  simp only [hend]
  rw [overInConstraints_quiet _ (by rw [hlv]; exact h1), Step.bind_next,
    overInEnumVal_quiet _ (by rw [hlv]; exact h2), Step.bind_next,
    overInOption_quiet _ (by rw [hlv]; exact h3), Step.bind_next]
  rfl

theorem LeafKind.tagName (k : LeafKind) : TagName k.tag := by
  cases k
  · exact ⟨'p', lit "rinter", rfl, by decide, by decide⟩
  · exact ⟨'m', lit "ake", rfl, by decide, by decide⟩
  · exact ⟨'m', lit "odel", rfl, by decide, by decide⟩
  · exact ⟨'d', lit "river", rfl, by decide, by decide⟩
  · exact ⟨'a', lit "rg_defval", rfl, by decide, by decide⟩

theorem LeafKind.tag_ne_option (k : LeafKind) : k.tag ≠ lit "option" := by
  cases k <;> decide

theorem optNameM_leaf (ctx : Ctx) (c : Core) (m : OptSt) (k : LeafKind)
    (h : c.currtagname = k.tag) :
    optNameM ctx c m = .next (k.setSentinel m (c.nestinglevel + 1)) := by
  unfold optNameM
  rw [h]
  cases k <;> rfl

theorem quiet_setSentinel (k : LeafKind) (m : OptSt) (lv v : Int) (q : Quiet m lv)
    (hv : v ≤ lv) : Quiet (k.setSentinel m v) lv := by
  obtain ⟨q1, q2, q3, q4, q5, q6, q7, q8, q9, q10, q11, q12, q13, q14, q15⟩ := q
  cases k <;> constructor <;> dsimp only [LeafKind.setSentinel] <;> omega

theorem Quiet.mono {m : OptSt} {lv lv' : Int} (q : Quiet m lv) (h : lv ≤ lv') : Quiet m lv' := by
  obtain ⟨q1, q2, q3, q4, q5, q6, q7, q8, q9, q10, q11, q12, q13, q14, q15⟩ := q
  constructor <;> omega

theorem setSentinel_inoption (k : LeafKind) (m : OptSt) (v : Int) :
    (k.setSentinel m v).inoption = m.inoption := by
  cases k <;> rfl

/-- The end of a field element inside a constraint, on the variables of the
mode: `m1` is the state behind the name action of the closing tag. -/
theorem optEndM_leaf (ctx : Ctx) (c : Core) (m : OptSt) (k : LeafKind) (lv : Int)
    (hc : c.nestinglevel = lv) (q : Quiet m lv) (hin : m.inconstraint ≠ 0) :
    optEndM ctx c (k.setSentinel m (lv + 2)) = k.effect c.currtagbody m := by
  obtain ⟨q1, q2, q3, q4, q5, q6, q7, q8, q9, q10, q11, q12, q13, q14, q15⟩ := q
  have n1 := not_lt.mpr q1
  have n2 := not_lt.mpr q2
  have n3 := not_lt.mpr q3
  have n4 := not_lt.mpr q4
  have n5 := not_lt.mpr q5
  have n6 := not_lt.mpr q6
  have n7 := not_lt.mpr q7
  have n8 := not_lt.mpr q8
  have n9 := not_lt.mpr q9
  have n10 := not_lt.mpr q10
  have n11 := not_lt.mpr q11
  have n14 := not_lt.mpr q14
  have n15 := not_lt.mpr q15
  have hpos : lv < lv + 2 := by omega
  cases k <;>
    simp only [optEndM, overInEn, overInArgMax, overInArgMin, clearSentinels, collectFields,
      overInConstraint, LeafKind.setSentinel, LeafKind.effect, hc, n1, n2, n3, n4, n5, n6, n7,
      n8, n9, n10, n11, n14, n15, hpos, hin, ↓reduceIte, ne_eq, not_false_eq_true, and_self,
      and_true, true_and, false_and, not_true_eq_false, and_false]

theorem Scans.append {ctx : Ctx} {s : OState} {a b suf : CStr} {n1 n2 : Int} {o1 o2 : CStr}
    {m1 m2 : OptSt} (h1 : Scans ctx s a (b ++ suf) n1 o1 m1)
    (h2 : ∀ s1 : OState, AfterTag s1 n1 → s1.core.out = o1 → s1.m = m1 →
      Scans ctx s1 b suf n2 o2 m2) :
    Scans ctx s (a ++ b) suf n2 o2 m2 := by
  obtain ⟨s1, e1, a1, ho1, hm1, hc1⟩ := h1
  obtain ⟨s2, e2, a2, ho2, hm2, hc2⟩ := h2 s1 a1 ho1 hm1
  refine ⟨s2, ?_, a2, ho2, hm2, hc2.trans hc1⟩
  rw [scanPrefix_append, e1, Step.bind_next, e2]

theorem tagOpen_eq : TAG_OPEN = 1 := rfl
theorem tagClose_eq : TAG_CLOSE = -1 := rfl

/-- An opening tag whose end action finds nothing to do, as a scan. -/
theorem scans_open (ctx : Ctx) (s : OState) (t nm suf : CStr) (n : Int) (m1 : OptSt)
    (ha : AfterTag s n) (ht : ∀ c ∈ t, c ≠ '<') (hn : TagName nm) (hno : nm ≠ lit "option")
    (hm : optNameM ctx (nameCore s TAG_OPEN t ['<'] nm) s.m = .next m1)
    (q : Quiet m1 (n + 1)) (ho : m1.inoption ≤ n + 1) :
    Scans ctx s (t ++ ('<' :: nm ++ ['>'])) suf (n + 1)
      (s.core.out ++ (t ++ ('<' :: nm ++ ['>']))) m1 :=
  ⟨_, scan_text_open ctx s t nm suf n m1 ha ht hn hno hm q ho,
    afterTag_afterTagState s TAG_OPEN t ['<'] nm m1 n ha, rfl, rfl, rfl⟩

/-- A closing tag whose end action changes only variables of the mode, as a
scan. -/
theorem scans_close_pure (ctx : Ctx) (s : OState) (t nm suf : CStr) (n : Int)
    (m1 m2 : OptSt) (ha : AfterTag s n) (ht : ∀ c ∈ t, c ≠ '<') (hn : TagName nm)
    (hm : optNameM ctx (nameCore s TAG_CLOSE t ['<', '/'] nm) s.m = .next m1)
    (hend : optEndM ctx (endCore s TAG_CLOSE t ['<', '/'] nm) m1 = m2)
    (h1 : m2.inconstraints ≤ n - 1) (h2 : m2.inenumval ≤ n - 1) (h3 : m2.inoption ≤ n - 1) :
    Scans ctx s (t ++ ('<' :: '/' :: nm ++ ['>'])) suf (n - 1)
      (s.core.out ++ (t ++ ('<' :: '/' :: nm ++ ['>']))) m2 :=
  ⟨_, scan_text_close_pure ctx s t nm suf n m1 m2 ha ht hn hm hend h1 h2 h3,
    afterTag_afterTagState s TAG_CLOSE t ['<', '/'] nm m2 n ha, rfl, rfl, rfl⟩

theorem setSentinel_setSentinel (k : LeafKind) (m : OptSt) (a b : Int) :
    k.setSentinel (k.setSentinel m a) b = k.setSentinel m b := by
  cases k <;> rfl

theorem effect_inconstraints (k : LeafKind) (t : CStr) (m : OptSt) :
    (k.effect t m).inconstraints = m.inconstraints := by
  cases k <;> rfl

theorem effect_inenumval (k : LeafKind) (t : CStr) (m : OptSt) :
    (k.effect t m).inenumval = m.inenumval := by
  cases k <;> rfl

theorem effect_inoption (k : LeafKind) (t : CStr) (m : OptSt) :
    (k.effect t m).inoption = m.inoption := by
  cases k <;> rfl

/-- Scanning a field element inside a constraint appends its text to the
field of the constraint. -/
theorem scans_leaf (ctx : Ctx) (s : OState) (l : Leaf) (suf : CStr) (n : Int)
    (ha : AfterTag s n) (q : Quiet s.m n) (ho : s.m.inoption ≤ n)
    (hin : s.m.inconstraint ≠ 0) (hl : l.Clean) :
    Scans ctx s l.render suf n (s.core.out ++ l.render) (l.kind.effect l.text s.m) := by
  unfold Leaf.render
  refine Scans.append
    (scans_open ctx s l.ws l.kind.tag _ n (l.kind.setSentinel s.m (n + 1)) ha hl.1
      l.kind.tagName l.kind.tag_ne_option ?_ ?_ ?_) ?_
  · rw [optNameM_leaf ctx _ _ l.kind rfl]
    show Step.next (l.kind.setSentinel s.m (s.core.nestinglevel + 1)) = _
    rw [ha.level]
  · exact quiet_setSentinel _ _ _ _ (q.mono (by omega)) (le_refl _)
  · rw [setSentinel_inoption]; omega
  · intro s1 a1 ho1 hm1
    have hs := scans_close_pure ctx s1 l.text l.kind.tag suf (n + 1)
      (l.kind.setSentinel s.m (n + 2)) (l.kind.effect l.text s.m) a1 hl.2 l.kind.tagName
      (by
        rw [optNameM_leaf ctx _ _ l.kind rfl, hm1, setSentinel_setSentinel]
        show Step.next (l.kind.setSentinel s.m (s1.core.nestinglevel + 1)) = _
        rw [a1.level]
        have e : n + 1 + 1 = n + 2 := by omega
        rw [e])
      (by
        have hc : (endCore s1 TAG_CLOSE l.text ['<', '/'] l.kind.tag).nestinglevel = n := by
          show s1.core.nestinglevel + TAG_CLOSE = n
          rw [a1.level, tagClose_eq]; omega
        exact optEndM_leaf ctx _ s.m l.kind n hc q hin)
      (by rw [effect_inconstraints]; have := q.inconstraints; omega)
      (by rw [effect_inenumval]; have := q.inenumval; omega)
      (by rw [effect_inoption]; omega)
    have e1 : n + 1 - 1 = n := by omega
    rw [e1, ho1] at hs
    simpa [List.append_assoc] using hs

theorem quiet_effect (k : LeafKind) (t : CStr) (m : OptSt) (lv : Int) (q : Quiet m lv)
    (h0 : 0 ≤ lv) : Quiet (k.effect t m) lv := by
  obtain ⟨q1, q2, q3, q4, q5, q6, q7, q8, q9, q10, q11, q12, q13, q14, q15⟩ := q
  cases k <;> constructor <;> dsimp only [LeafKind.effect] <;> omega

theorem effect_inconstraint (k : LeafKind) (t : CStr) (m : OptSt) :
    (k.effect t m).inconstraint = m.inconstraint := by
  cases k <;> rfl

theorem scans_nil (ctx : Ctx) (s : OState) (suf : CStr) (n : Int) (ha : AfterTag s n) :
    Scans ctx s [] suf n s.core.out s.m :=
  ⟨s, rfl, ha, rfl, rfl, rfl⟩

theorem scans_leaves (ctx : Ctx) (ls : List Leaf) (s : OState) (suf : CStr) (n : Int)
    (ha : AfterTag s n) (q : Quiet s.m n) (ho : s.m.inoption ≤ n) (h0 : 0 ≤ n)
    (hin : s.m.inconstraint ≠ 0) (hl : ∀ l ∈ ls, l.Clean) :
    Scans ctx s (renderLeaves ls) suf n (s.core.out ++ renderLeaves ls)
      (leavesEffect ls s.m) := by
  induction ls generalizing s with
  | nil =>
    simp only [renderLeaves, leavesEffect, List.append_nil]
    exact scans_nil ctx s suf n ha
  | cons l ls ih =>
    simp only [renderLeaves, leavesEffect]
    refine Scans.append (scans_leaf ctx s l _ n ha q ho hin (hl l (by simp))) ?_
    intro s1 a1 ho1 hm1
    have := ih s1 a1 (by rw [hm1]; exact quiet_effect _ _ _ _ q h0)
      (by rw [hm1, effect_inoption]; exact ho)
      (by rw [hm1, effect_inconstraint]; exact hin)
      (fun l' h' => hl l' (by simp [h']))
    rw [ho1, hm1, List.append_assoc] at this
    exact this

theorem afterParamTag_out (s : OState) (t nm w : CStr) (m2 : OptSt) :
    (afterParamTag s t nm w m2).core.out =
      s.core.out ++ (t ++ (('<' :: nm ++ [' ']) ++ (w ++ ['>']))) := by
  show (((s.core.out ++ t) ++ (['<'] ++ nm)) ++ [' ']) ++ w ++ ['>'] = _
  simp

theorem afterTag_afterParamTag (s : OState) (t nm w : CStr) (m2 : OptSt) (n : Int)
    (ha : AfterTag s n) : AfterTag (afterParamTag s t nm w m2) (n + 1) := by
  obtain ⟨h1, h2, h3, h4, h5, h6⟩ := ha.text
  refine ⟨⟨rfl, h2, h3, h4, h5, rfl⟩, ?_, rfl, ?_⟩
  · show s.core.nestinglevel + TAG_OPEN = n + 1
    rw [ha.level]; rfl
  · rw [afterParamTag_out]
    simp

/-- Scanning a text and an opening tag with one parameter whose end action
finds nothing to do. -/
theorem scan_text_open_param (ctx : Ctx) (s : OState) (t nm w suf : CStr) (n : Int)
    (m1 m2 : OptSt) (ha : AfterTag s n) (ht : ∀ c ∈ t, c ≠ '<') (hn : TagName nm)
    (hno : nm ≠ lit "option") (hw : TagWord w)
    (hm : optNameM ctx (nameCore s TAG_OPEN t ['<'] nm) s.m = .next m1)
    (hp : optParamM (paramCore s t nm w) m1 = m2)
    (q : Quiet m2 (n + 1)) (ho : m2.inoption ≤ n + 1) :
    scanPrefix (optionHooks ctx) s (t ++ (('<' :: nm ++ [' ']) ++ (w ++ ['>']))) suf =
      .next (afterParamTag s t nm w m2) := by
  have hp0 := length_pos_of_ne_nil ha.nonempty
  obtain ⟨h1, h2, h3, h4, h5, h6⟩ := ha.text
  rw [scanPrefix_append, scanPrefix_text _ s t _ ha.text ht, Step.bind_next, scanPrefix_append,
    scan_tag_head _ (advanceBy s t) nm _ (textMode_advanceBy s t ha.text) hn]
  show ((optName ctx _).bind _).bind _ = _
  unfold optName
  have hm' : optNameM ctx (atTagName (advanceBy s t) TAG_OPEN ['<'] nm).core
      (atTagName (advanceBy s t) TAG_OPEN ['<'] nm).m = .next m1 := hm
  rw [hm']
  simp only [Step.bind_next]
  rw [optNameCore_of_name _ hno]
  rw [scan_param_gt _ (flagSafe_optionHooks ctx) (advance
    ({ core := (atTagName (advanceBy s t) TAG_OPEN ['<'] nm).core, m := m1 } : OState) ' ')
    w suf ⟨rfl, h2, rfl, h3, h4, h5⟩ rfl hw]
  have e : (optionHooks ctx).onParam (atParam (advance
      ({ core := (atTagName (advanceBy s t) TAG_OPEN ['<'] nm).core, m := m1 } : OState) ' ') w) =
      { core := paramCore s t nm w, m := m2 } := by
    rw [← hp]; rfl
  rw [e, tagEnd_eq _ ({ core := paramCore s t nm w, m := m2 } : OState)
    (s.core.out.length - 1) rfl ha.mark
    (by show _ ≤ (s.core.out ++ t).length; simp only [List.length_append]; omega)]
  show (optEnd ctx _).bind _ = _
  have hlv : (endState ({ core := paramCore s t nm w, m := m2 } : OState)
      (s.core.out.length - 1)).core.nestinglevel = n + 1 := by
    show s.core.nestinglevel + TAG_OPEN = n + 1
    rw [ha.level]; rfl
  rw [optEnd_quiet ctx _ (by rw [hlv]; exact q) (by rw [hlv]; exact ho), Step.bind_next]
  rfl

/-- An opening tag with one parameter whose end action finds nothing to do, as
a scan. -/
theorem scans_open_param (ctx : Ctx) (s : OState) (t nm w suf : CStr) (n : Int)
    (m1 m2 : OptSt) (ha : AfterTag s n) (ht : ∀ c ∈ t, c ≠ '<') (hn : TagName nm)
    (hno : nm ≠ lit "option") (hw : TagWord w)
    (hm : optNameM ctx (nameCore s TAG_OPEN t ['<'] nm) s.m = .next m1)
    (hp : optParamM (paramCore s t nm w) m1 = m2)
    (q : Quiet m2 (n + 1)) (ho : m2.inoption ≤ n + 1) :
    Scans ctx s (t ++ (('<' :: nm ++ [' ']) ++ (w ++ ['>']))) suf (n + 1)
      (s.core.out ++ (t ++ (('<' :: nm ++ [' ']) ++ (w ++ ['>'])))) m2 :=
  ⟨_, scan_text_open_param ctx s t nm w suf n m1 m2 ha ht hn hno hw hm hp q ho,
    afterTag_afterParamTag s t nm w m2 n ha, afterParamTag_out s t nm w m2, rfl, rfl⟩

theorem effect_setInconstraint (k : LeafKind) (t : CStr) (m : OptSt) (v : Int) :
    k.effect t { m with inconstraint := v } = { k.effect t m with inconstraint := v } := by
  cases k <;> rfl

theorem leavesEffect_setInconstraint (ls : List Leaf) (m : OptSt) (v : Int) :
    leavesEffect ls { m with inconstraint := v } =
      { leavesEffect ls m with inconstraint := v } := by
  induction ls generalizing m with
  | nil => rfl
  | cons l ls ih =>
    simp only [leavesEffect]
    rw [effect_setInconstraint, ih]

theorem quiet_leavesEffect (ls : List Leaf) (m : OptSt) (lv : Int) (q : Quiet m lv)
    (h0 : 0 ≤ lv) : Quiet (leavesEffect ls m) lv := by
  induction ls generalizing m with
  | nil => exact q
  | cons l ls ih => exact ih _ (quiet_effect _ _ _ _ q h0)

theorem leavesEffect_inoption (ls : List Leaf) (m : OptSt) :
    (leavesEffect ls m).inoption = m.inoption := by
  induction ls generalizing m with
  | nil => rfl
  | cons l ls ih =>
    simp only [leavesEffect]
    rw [ih, effect_inoption]

theorem quiet_evalConstraint (ctx : Ctx) (m : OptSt) (lv : Int) (q : Quiet m lv) :
    Quiet (evalConstraint ctx m) lv := by
  rw [evalConstraint_eq]
  split
  · obtain ⟨q1, q2, q3, q4, q5, q6, q7, q8, q9, q10, q11, q12, q13, q14, q15⟩ := q
    constructor <;> assumption
  · exact q

theorem evalConstraint_inoption (ctx : Ctx) (m : OptSt) :
    (evalConstraint ctx m).inoption = m.inoption := by
  rw [evalConstraint_eq]
  split <;> rfl

theorem quiet_start (c : Constraint) (m : OptSt) (lv v : Int) (q : Quiet m lv) (hv : v ≤ lv) :
    Quiet (c.start v m) lv := by
  obtain ⟨q1, q2, q3, q4, q5, q6, q7, q8, q9, q10, q11, q12, q13, q14, q15⟩ := q
  constructor <;> assumption

theorem quiet_constraint_effect (ctx : Ctx) (c : Constraint) (m : OptSt) (lv : Int)
    (q : Quiet m lv) (h0 : 0 ≤ lv) : Quiet (c.effect ctx m) lv :=
  quiet_evalConstraint ctx _ lv (quiet_leavesEffect _ _ lv (quiet_start c m lv 0 q h0) h0)

theorem constraint_effect_inoption (ctx : Ctx) (c : Constraint) (m : OptSt) :
    (c.effect ctx m).inoption = m.inoption := by
  unfold Constraint.effect
  rw [evalConstraint_inoption, leavesEffect_inoption]
  rfl

/-- The end of a constraint element, on the variables of the mode. -/
theorem optEndM_constraint (ctx : Ctx) (c : Core) (m : OptSt) (lv : Int)
    (hc : c.nestinglevel = lv) (q : Quiet m lv) :
    optEndM ctx c { m with inconstraint := lv + 2 } =
      evalConstraint ctx { m with inconstraint := 0 } := by
  obtain ⟨q1, q2, q3, q4, q5, q6, q7, q8, q9, q10, q11, q12, q13, q14, q15⟩ := q
  have n1 := not_lt.mpr q1
  have n2 := not_lt.mpr q2
  have n3 := not_lt.mpr q3
  have n4 := not_lt.mpr q4
  have n5 := not_lt.mpr q5
  have n6 := not_lt.mpr q6
  have n7 := not_lt.mpr q7
  have n8 := not_lt.mpr q8
  have n9 := not_lt.mpr q9
  have n10 := not_lt.mpr q10
  have n11 := not_lt.mpr q11
  have n15 := not_lt.mpr q15
  have hpos : lv < lv + 2 := by omega
  simp only [optEndM, overInEn, overInArgMax, overInArgMin, clearSentinels, collectFields,
    overInConstraint, hc, n1, n2, n3, n4, n5, n6, n7, n8, n9, n10, n11, n15, hpos, ↓reduceIte,
    false_and]

theorem tagName_constraint : TagName (lit "constraint") :=
  ⟨'c', lit "onstraint", rfl, by decide, by decide⟩

theorem tagWord_senseWord (b : Bool) : TagWord (senseWord b) := by
  have h := TagWord.quoted 's' (lit "ense=") (if b then lit "true" else lit "false")
    (by decide) (by cases b <;> decide)
  exact h

theorem optNameM_constraint_open (ctx : Ctx) (c : Core) (m : OptSt)
    (h1 : c.currtagname = lit "constraint") (h2 : c.tagtype = TAG_OPEN) :
    optNameM ctx c m = .next { m with
      inconstraint := c.nestinglevel + 1, cprinter := [], cmake := [], cmodel := [],
      cdriver := [], cargdefault := [], csense := false } := by
  unfold optNameM
  rw [h1, h2]
  rfl

theorem optNameM_constraint_close (ctx : Ctx) (c : Core) (m : OptSt)
    (h1 : c.currtagname = lit "constraint") (h2 : c.tagtype = TAG_CLOSE) :
    optNameM ctx c m = .next { m with inconstraint := c.nestinglevel + 1 } := by
  unfold optNameM
  rw [h1, h2]
  rfl

theorem optParamM_sense (c : Core) (m : OptSt) (b : Bool)
    (h1 : c.currtagname = lit "constraint") (h2 : c.currtagparam = senseWord b) :
    optParamM c m = { m with csense := b } := by
  unfold optParamM
  rw [h1, h2]
  cases b <;> rfl

/-- A constraint element as a scan: behind it the completed constraint has been
evaluated. -/
theorem scans_constraint (ctx : Ctx) (s : OState) (c : Constraint) (suf : CStr) (n : Int)
    (ha : AfterTag s n) (q : Quiet s.m n) (ho : s.m.inoption ≤ n) (h0 : 0 ≤ n)
    (hc : c.Clean) :
    Scans ctx s c.render suf n (s.core.out ++ c.render) (c.effect ctx s.m) := by
  obtain ⟨hc1, hc2, hc3⟩ := hc
  have hq1 : Quiet (c.start (n + 1) s.m) (n + 1) :=
    quiet_start c s.m (n + 1) (n + 1) (q.mono (by omega)) (le_refl _)
  have hopen := scans_open_param ctx s c.ws (lit "constraint") (senseWord c.sense)
    (renderLeaves c.fields ++ (c.wsEnd ++ ('<' :: '/' :: lit "constraint" ++ ['>'])) ++ suf) n
    _ (c.start (n + 1) s.m) ha hc1 tagName_constraint (by decide) (tagWord_senseWord _)
    (optNameM_constraint_open ctx _ _ rfl rfl)
    (by rw [optParamM_sense _ _ c.sense rfl rfl, ← ha.level]; rfl)
    hq1 (by show s.m.inoption ≤ n + 1; omega)
  unfold Constraint.render
  refine Scans.append hopen ?_
  intro s1 a1 ho1 hm1
  have hleaves := scans_leaves ctx c.fields s1
    ((c.wsEnd ++ ('<' :: '/' :: lit "constraint" ++ ['>'])) ++ suf) (n + 1) a1
    (by rw [hm1]; exact hq1) (by rw [hm1]; show s.m.inoption ≤ n + 1; omega) (by omega)
    (by rw [hm1]; show n + 1 ≠ 0; omega) hc2
  refine Scans.append hleaves ?_
  intro s2 a2 ho2 hm2
  have hm2' : s2.m = { leavesEffect c.fields (c.start 0 s.m) with inconstraint := n + 1 } := by
    rw [hm2, hm1, ← leavesEffect_setInconstraint]
    rfl
  have hq2 : Quiet (leavesEffect c.fields (c.start 0 s.m)) n :=
    quiet_leavesEffect _ _ n (quiet_start c s.m n 0 q h0) h0
  have hq3 := quiet_constraint_effect ctx c s.m n q h0
  have hclose := scans_close_pure ctx s2 c.wsEnd (lit "constraint") suf (n + 1)
    { leavesEffect c.fields (c.start 0 s.m) with inconstraint := n + 2 } (c.effect ctx s.m)
    a2 hc3 tagName_constraint
    (by
      rw [optNameM_constraint_close ctx _ _ rfl rfl, hm2']
      show Step.next { leavesEffect c.fields (c.start 0 s.m) with
        inconstraint := s2.core.nestinglevel + 1 } = _
      rw [a2.level]
      have e : n + 1 + 1 = n + 2 := by omega
      rw [e])
    (by
      have hl : (endCore s2 TAG_CLOSE c.wsEnd ['<', '/'] (lit "constraint")).nestinglevel = n := by
        show s2.core.nestinglevel + TAG_CLOSE = n
        rw [a2.level, tagClose_eq]; omega
      rw [optEndM_constraint ctx _ _ n hl hq2, ← leavesEffect_setInconstraint]
      rfl)
    (by have := hq3.inconstraints; omega) (by have := hq3.inenumval; omega)
    (by rw [constraint_effect_inoption]; omega)
  have e1 : n + 1 - 1 = n := by omega
  rw [e1, ho2, ho1] at hclose
  simpa [List.append_assoc] using hclose

/-- A list of constraint elements as a scan. -/
theorem scans_constraints (ctx : Ctx) (cs : List Constraint) (s : OState) (suf : CStr) (n : Int)
    (ha : AfterTag s n) (q : Quiet s.m n) (ho : s.m.inoption ≤ n) (h0 : 0 ≤ n)
    (hc : ∀ c ∈ cs, c.Clean) :
    Scans ctx s (renderConstraints cs) suf n (s.core.out ++ renderConstraints cs)
      (constraintsEffect ctx cs s.m) := by
  induction cs generalizing s with
  | nil =>
    simp only [renderConstraints, constraintsEffect, List.append_nil]
    exact scans_nil ctx s suf n ha
  | cons c cs ih =>
    simp only [renderConstraints, constraintsEffect]
    refine Scans.append (scans_constraint ctx s c _ n ha q ho h0 (hc c (by simp))) ?_
    intro s1 a1 ho1 hm1
    have := ih s1 a1 (by rw [hm1]; exact quiet_constraint_effect ctx c _ n q h0)
      (by rw [hm1, constraint_effect_inoption]; exact ho)
      (fun c' h' => hc c' (by simp [h']))
    rw [ho1, hm1, List.append_assoc] at this
    exact this

theorem effect_setInconstraints (k : LeafKind) (t : CStr) (m : OptSt) (v : Int) :
    k.effect t { m with inconstraints := v } = { k.effect t m with inconstraints := v } := by
  cases k <;> rfl

theorem leavesEffect_setInconstraints (ls : List Leaf) (m : OptSt) (v : Int) :
    leavesEffect ls { m with inconstraints := v } =
      { leavesEffect ls m with inconstraints := v } := by
  induction ls generalizing m with
  | nil => rfl
  | cons l ls ih =>
    simp only [leavesEffect]
    rw [effect_setInconstraints, ih]

theorem evalConstraint_setInconstraints (ctx : Ctx) (m : OptSt) (v : Int) :
    evalConstraint ctx { m with inconstraints := v } =
      { evalConstraint ctx m with inconstraints := v } := by
  rw [evalConstraint_eq, evalConstraint_eq]
  have e : constraintWins ctx { m with inconstraints := v } = constraintWins ctx m := rfl
  rw [e]
  split <;> rfl

theorem constraint_effect_setInconstraints (ctx : Ctx) (c : Constraint) (m : OptSt) (v : Int) :
    c.effect ctx { m with inconstraints := v } = { c.effect ctx m with inconstraints := v } := by
  unfold Constraint.effect
  have e : c.start 0 { m with inconstraints := v } = { c.start 0 m with inconstraints := v } :=
    rfl
  rw [e, leavesEffect_setInconstraints, evalConstraint_setInconstraints]

theorem constraintsEffect_setInconstraints (ctx : Ctx) (cs : List Constraint) (m : OptSt)
    (v : Int) :
    constraintsEffect ctx cs { m with inconstraints := v } =
      { constraintsEffect ctx cs m with inconstraints := v } := by
  induction cs generalizing m with
  | nil => rfl
  | cons c cs ih =>
    simp only [constraintsEffect]
    rw [constraint_effect_setInconstraints, ih]

theorem quiet_constraintsEffect (ctx : Ctx) (cs : List Constraint) (m : OptSt) (lv : Int)
    (q : Quiet m lv) (h0 : 0 ≤ lv) : Quiet (constraintsEffect ctx cs m) lv := by
  induction cs generalizing m with
  | nil => exact q
  | cons c cs ih => exact ih _ (quiet_constraint_effect ctx c m lv q h0)

theorem constraintsEffect_inoption (ctx : Ctx) (cs : List Constraint) (m : OptSt) :
    (constraintsEffect ctx cs m).inoption = m.inoption := by
  induction cs generalizing m with
  | nil => rfl
  | cons c cs ih =>
    simp only [constraintsEffect]
    rw [ih, constraint_effect_inoption]

theorem quiet_blockStart (mark : Nat) (m : OptSt) (lv v : Int) (q : Quiet m lv) (hv : v ≤ lv) :
    Quiet (blockStart mark v m) lv := by
  obtain ⟨q1, q2, q3, q4, q5, q6, q7, q8, q9, q10, q11, q12, q13, q14, q15⟩ := q
  constructor <;> assumption

theorem quiet_verdict (ctx : Ctx) (b : Block) (mark : Nat) (m : OptSt) (lv : Int)
    (q : Quiet m lv) (h0 : 0 ≤ lv) : Quiet (b.verdict ctx mark m) lv :=
  quiet_constraintsEffect ctx _ _ lv (quiet_blockStart mark m lv 0 q h0) h0

theorem verdict_inoption (ctx : Ctx) (b : Block) (mark : Nat) (m : OptSt) :
    (b.verdict ctx mark m).inoption = m.inoption := by
  unfold Block.verdict
  rw [constraintsEffect_inoption]
  rfl

theorem verdict_setInconstraints (ctx : Ctx) (b : Block) (mark : Nat) (m : OptSt) (v : Int) :
    constraintsEffect ctx b.cs (blockStart mark v m) =
      { b.verdict ctx mark m with inconstraints := v } := by
  unfold Block.verdict
  rw [← constraintsEffect_setInconstraints]
  rfl

theorem optEndM_quiet_inconstraints (ctx : Ctx) (c : Core) (m : OptSt) (v : Int)
    (q : Quiet m c.nestinglevel) :
    optEndM ctx c { m with inconstraints := v } = { m with inconstraints := v } := by
  unfold optEndM
  rw [overInEn_quiet ctx c { m with inconstraints := v } q.inen,
    overInArgMax_quiet c { m with inconstraints := v } q.inargmax,
    overInArgMin_quiet c { m with inconstraints := v } q.inargmin,
    clearSentinels_quiet c { m with inconstraints := v } q.inargshortname q.inargexecution
      q.inargpjl q.inevshortname,
    collectFields_quiet c { m with inconstraints := v } q.inprinter q.inmake q.inmodel q.indriver
      q.inargdefault,
    overInConstraint_quiet ctx c { m with inconstraints := v } q.inconstraint]

theorem tagName_constraints : TagName (lit "constraints") :=
  ⟨'c', lit "onstraints", rfl, by decide, by decide⟩

theorem optNameM_constraints_open (ctx : Ctx) (c : Core) (m : OptSt) (e : Nat)
    (h1 : c.currtagname = lit "constraints") (h2 : c.tagtype = TAG_OPEN)
    (h3 : c.lasttagend = some e) :
    optNameM ctx c m = .next (blockStart (e + 1) (c.nestinglevel + 1) m) := by
  unfold optNameM
  rw [h1, h2, h3]
  rfl

theorem optNameM_constraints_close (ctx : Ctx) (c : Core) (m : OptSt)
    (h1 : c.currtagname = lit "constraints") (h2 : c.tagtype = TAG_CLOSE) :
    optNameM ctx c m = .next { m with inconstraints := c.nestinglevel + 1 } := by
  unfold optNameM
  rw [h1, h2]
  rfl

/-- The part of a `constraints` block before the white space in front of its
closing tag, as a scan. -/
theorem scans_block_inner (ctx : Ctx) (s : OState) (b : Block) (suf : CStr) (n : Int)
    (ha : AfterTag s n) (q : Quiet s.m n) (ho : s.m.inoption ≤ n) (h0 : 0 ≤ n)
    (hb : b.Clean) :
    Scans ctx s ((b.ws ++ ('<' :: lit "constraints" ++ ['>'])) ++ renderConstraints b.cs) suf
      (n + 1) (s.core.out ++ ((b.ws ++ ('<' :: lit "constraints" ++ ['>'])) ++
        renderConstraints b.cs))
      { b.verdict ctx s.core.out.length s.m with inconstraints := n + 1 } := by
  obtain ⟨hb1, hb2, hb3⟩ := hb
  have hp := length_pos_of_ne_nil ha.nonempty
  have hq1 : Quiet (blockStart s.core.out.length (n + 1) s.m) (n + 1) :=
    quiet_blockStart _ s.m (n + 1) (n + 1) (q.mono (by omega)) (le_refl _)
  have hopen := scans_open ctx s b.ws (lit "constraints") (renderConstraints b.cs ++ suf) n
    (blockStart s.core.out.length (n + 1) s.m) ha hb1 tagName_constraints (by decide)
    (by
      rw [optNameM_constraints_open ctx (nameCore s TAG_OPEN b.ws ['<'] (lit "constraints")) _
        (s.core.out.length - 1) rfl rfl ha.mark]
      show Step.next (blockStart (s.core.out.length - 1 + 1) (s.core.nestinglevel + 1) s.m) = _
      rw [ha.level]
      have e : s.core.out.length - 1 + 1 = s.core.out.length := by omega
      rw [e])
    hq1 (by show s.m.inoption ≤ n + 1; omega)
  refine Scans.append hopen ?_
  intro s1 a1 ho1 hm1
  have hcs := scans_constraints ctx b.cs s1 suf (n + 1) a1 (by rw [hm1]; exact hq1)
    (by rw [hm1]; show s.m.inoption ≤ n + 1; omega) (by omega) hb2
  rw [hm1, verdict_setInconstraints, ho1] at hcs
  simpa [List.append_assoc] using hcs

theorem constraintsEndM_fire (c : Core) (m : OptSt) (h : c.nestinglevel < m.inconstraints) :
    constraintsEndM c m =
      if m.inenumval = 0 ∧ m.optionqualified = false then .discard c.comboconfirmed
      else
        .next ({ m with
            inconstraints := 0
            enumvaltoberemoved :=
              if m.inenumval ≠ 0 ∧ m.enumvalqualified = false then true
              else m.enumvaltoberemoved },
          if m.inenumval = 0 ∨
              (if m.inenumval ≠ 0 ∧ m.enumvalqualified = false then true
                else m.enumvaltoberemoved) = false
          then m.lastconstraints else none) := by
  unfold constraintsEndM
  rw [if_pos h]

theorem constraintsEndM_discard (c : Core) (m : OptSt) (hv : c.nestinglevel < m.inconstraints)
    (h : m.inenumval = 0 ∧ m.optionqualified = false) :
    constraintsEndM c m = .discard c.comboconfirmed := by
  rw [constraintsEndM_fire c m hv, if_pos h]

theorem constraintsEndM_keep (c : Core) (m : OptSt) (p : Nat)
    (hv : c.nestinglevel < m.inconstraints)
    (h : if m.inenumval = 0 then m.optionqualified = true
      else m.enumvalqualified = true ∧ m.enumvaltoberemoved = false)
    (hm : m.lastconstraints = some p) :
    constraintsEndM c m = .next ({ m with inconstraints := 0 }, some p) := by
  rw [constraintsEndM_fire c m hv]
  by_cases h0 : m.inenumval = 0
  · rw [if_pos h0] at h
    rw [if_neg (by rw [h]; simp), if_neg (by simp [h0]), if_pos (Or.inl h0), hm]
  · rw [if_neg h0] at h
    rw [if_neg (by simp [h0]), if_neg (by simp [h.1]), if_pos (Or.inr h.2), hm]

theorem constraintsEndM_mark (c : Core) (m : OptSt) (hv : c.nestinglevel < m.inconstraints)
    (h0 : m.inenumval ≠ 0) (h : m.enumvalqualified = false ∨ m.enumvaltoberemoved = true) :
    constraintsEndM c m =
      .next ({ m with inconstraints := 0, enumvaltoberemoved := true }, none) := by
  have hr : (if m.inenumval ≠ 0 ∧ m.enumvalqualified = false then true
      else m.enumvaltoberemoved) = true := by
    rcases h with h | h
    · rw [if_pos ⟨h0, h⟩]
    · rw [h]; simp
  rw [constraintsEndM_fire c m hv, if_neg (by simp [h0]), hr, if_neg (by simp [h0])]

/-- The end action at the closing tag of a `constraints` block at option scope
whose verdict is that the option does not qualify: the document is dropped. -/
theorem optEnd_block_discard (ctx : Ctx) (c : Core) (m : OptSt) (v : Int)
    (q : Quiet m c.nestinglevel) (hv : c.nestinglevel < v)
    (h : m.inenumval = 0 ∧ m.optionqualified = false) :
    optEnd ctx { core := c, m := { m with inconstraints := v } } =
      .discard c.comboconfirmed := by
  unfold optEnd
  simp only
  rw [optEndM_quiet_inconstraints ctx c m v q]
  unfold overInConstraints
  simp only
  rw [constraintsEndM_discard c { m with inconstraints := v } hv h]
  rfl

/-- The end action at the closing tag of a `constraints` block that leaves the
element around it in place: the block is cut out of the buffer. -/
theorem optEnd_block_keep (ctx : Ctx) (c : Core) (m : OptSt) (v : Int) (p : Nat)
    (q : Quiet m c.nestinglevel) (ho : m.inoption ≤ c.nestinglevel) (hv : c.nestinglevel < v)
    (h : if m.inenumval = 0 then m.optionqualified = true
      else m.enumvalqualified = true ∧ m.enumvaltoberemoved = false)
    (hm : m.lastconstraints = some p) (hp : 1 ≤ p ∧ p ≤ c.out.length) :
    optEnd ctx { core := c, m := { m with inconstraints := v } } =
      .next { core := { c with out := c.out.take p }, m := { m with inconstraints := 0 } } := by
  unfold optEnd
  simp only
  rw [optEndM_quiet_inconstraints ctx c m v q]
  unfold overInConstraints
  simp only
  rw [constraintsEndM_keep c { m with inconstraints := v } p hv h hm]
  simp only [Step.bind_next, deleteFrom]
  unfold deleteSpan
  rw [if_pos hp]
  simp only [Step.bind_next]
  rw [overInEnumVal_quiet _ (by show m.inenumval ≤ c.nestinglevel; exact q.inenumval),
    Step.bind_next,
    overInOption_quiet _ (by show m.inoption ≤ c.nestinglevel; exact ho)]

/-- The end action at the closing tag of a `constraints` block inside an enum
value that does not qualify: the enum value is marked for removal and the block
stays in the buffer. -/
theorem optEnd_block_mark (ctx : Ctx) (c : Core) (m : OptSt) (v : Int)
    (q : Quiet m c.nestinglevel) (ho : m.inoption ≤ c.nestinglevel) (hv : c.nestinglevel < v)
    (h0 : m.inenumval ≠ 0) (h : m.enumvalqualified = false ∨ m.enumvaltoberemoved = true) :
    optEnd ctx { core := c, m := { m with inconstraints := v } } =
      .next { core := c, m := { m with inconstraints := 0, enumvaltoberemoved := true } } := by
  unfold optEnd
  simp only
  rw [optEndM_quiet_inconstraints ctx c m v q]
  unfold overInConstraints
  simp only
  rw [constraintsEndM_mark c { m with inconstraints := v } hv h0 h]
  simp only [Step.bind_next, deleteFrom]
  rw [overInEnumVal_quiet _ (by show m.inenumval ≤ c.nestinglevel; exact q.inenumval),
    Step.bind_next,
    overInOption_quiet _ (by show m.inoption ≤ c.nestinglevel; exact ho)]

theorem afterTag_cut (s : OState) (ty : Int) (t pre nm o : CStr) (m1 : OptSt) (n : Int)
    (ha : AfterTag s n) (ho : o ≠ []) :
    AfterTag (markEnd { core := { endCore s ty t pre nm with out := o }, m := m1 }) (n + ty) := by
  obtain ⟨h1, h2, h3, h4, h5, h6⟩ := ha.text
  refine ⟨⟨rfl, h2, h3, h4, h5, rfl⟩, ?_, rfl, ho⟩
  show s.core.nestinglevel + ty = n + ty
  rw [ha.level]

/-- Scanning the closing tag of a `constraints` block: the end action runs with
the sentinel of the block above the nesting level. -/
theorem scan_block_close (ctx : Ctx) (s : OState) (t suf : CStr) (n : Int) (m : OptSt)
    (ha : AfterTag s (n + 1)) (hm : s.m = { m with inconstraints := n + 1 })
    (ht : ∀ c ∈ t, c ≠ '<') :
    scanPrefix (optionHooks ctx) s (t ++ ('<' :: '/' :: lit "constraints" ++ ['>'])) suf =
      (optEnd ctx { core := endCore s TAG_CLOSE t ['<', '/'] (lit "constraints"),
                    m := { m with inconstraints := n + 2 } }).bind
        fun s3 => .next (markEnd s3) := by
  rw [scan_text_close ctx s t (lit "constraints") suf (n + 1) ha ht tagName_constraints,
    optNameM_constraints_close ctx (nameCore s TAG_CLOSE t ['<', '/'] (lit "constraints")) _
      rfl rfl, Step.bind_next, hm]
  have e : (nameCore s TAG_CLOSE t ['<', '/'] (lit "constraints")).nestinglevel + 1 = n + 2 := by
    show s.core.nestinglevel + 1 = n + 2
    rw [ha.level]; omega
  rw [e]

/-- A `constraints` block at option scope whose verdict is that the option does
not qualify ends the parse: the buffer is freed. -/
theorem scan_block_discard (ctx : Ctx) (s : OState) (b : Block) (suf : CStr) (n : Int)
    (ha : AfterTag s n) (q : Quiet s.m n) (ho : s.m.inoption ≤ n) (h0 : 0 ≤ n)
    (hb : b.Clean)
    (h : (b.verdict ctx s.core.out.length s.m).inenumval = 0 ∧
      (b.verdict ctx s.core.out.length s.m).optionqualified = false) :
    scanPrefix (optionHooks ctx) s b.render suf = .discard s.core.comboconfirmed := by
  obtain ⟨s2, e2, a2, ho2, hm2, hc2⟩ := scans_block_inner ctx s b
    ((b.wsEnd ++ ('<' :: '/' :: lit "constraints" ++ ['>'])) ++ suf) n ha q ho h0 hb
  have hl : (endCore s2 TAG_CLOSE b.wsEnd ['<', '/'] (lit "constraints")).nestinglevel = n := by
    show s2.core.nestinglevel + TAG_CLOSE = n
    rw [a2.level, tagClose_eq]; omega
  unfold Block.render
  rw [← List.append_assoc, scanPrefix_append, e2, Step.bind_next,
    scan_block_close ctx s2 b.wsEnd suf n _ a2 hm2 hb.2.2,
    optEnd_block_discard ctx _ _ _ (by rw [hl]; exact quiet_verdict ctx b _ s.m n q h0)
      (by rw [hl]; omega) h]
  show Step.discard s2.core.comboconfirmed = _
  rw [hc2]

/-- A `constraints` block that leaves the element around it in place is cut out
of the buffer, white space in front of it included. -/
theorem scans_block_keep (ctx : Ctx) (s : OState) (b : Block) (suf : CStr) (n : Int)
    (ha : AfterTag s n) (q : Quiet s.m n) (ho : s.m.inoption ≤ n) (h0 : 0 ≤ n)
    (hb : b.Clean)
    (h : if (b.verdict ctx s.core.out.length s.m).inenumval = 0
      then (b.verdict ctx s.core.out.length s.m).optionqualified = true
      else (b.verdict ctx s.core.out.length s.m).enumvalqualified = true ∧
        (b.verdict ctx s.core.out.length s.m).enumvaltoberemoved = false)
    (hmark : (b.verdict ctx s.core.out.length s.m).lastconstraints = some s.core.out.length) :
    Scans ctx s b.render suf n s.core.out
      { b.verdict ctx s.core.out.length s.m with inconstraints := 0 } := by
  obtain ⟨s2, e2, a2, ho2, hm2, hc2⟩ := scans_block_inner ctx s b
    ((b.wsEnd ++ ('<' :: '/' :: lit "constraints" ++ ['>'])) ++ suf) n ha q ho h0 hb
  have hp := length_pos_of_ne_nil ha.nonempty
  have hl : (endCore s2 TAG_CLOSE b.wsEnd ['<', '/'] (lit "constraints")).nestinglevel = n := by
    show s2.core.nestinglevel + TAG_CLOSE = n
    rw [a2.level, tagClose_eq]; omega
  have hout : (endCore s2 TAG_CLOSE b.wsEnd ['<', '/'] (lit "constraints")).out =
      s.core.out ++ (((b.ws ++ ('<' :: lit "constraints" ++ ['>'])) ++ renderConstraints b.cs) ++
        (b.wsEnd ++ (['<', '/'] ++ (lit "constraints" ++ ['>'])))) := by
    show s2.core.out ++ _ = _
    rw [ho2, List.append_assoc]
  have htake : (endCore s2 TAG_CLOSE b.wsEnd ['<', '/'] (lit "constraints")).out.take
      s.core.out.length = s.core.out := by
    rw [hout, List.take_left]
  have e := optEnd_block_keep ctx (endCore s2 TAG_CLOSE b.wsEnd ['<', '/'] (lit "constraints"))
    (b.verdict ctx s.core.out.length s.m) (n + 2) s.core.out.length
    (by rw [hl]; exact quiet_verdict ctx b _ s.m n q h0)
    (by rw [hl, verdict_inoption]; exact ho) (by rw [hl]; omega) h hmark
    ⟨hp, by rw [hout]; simp⟩
  rw [htake] at e
  refine ⟨markEnd { core := { endCore s2 TAG_CLOSE b.wsEnd ['<', '/'] (lit "constraints") with
      out := s.core.out }, m := { b.verdict ctx s.core.out.length s.m with inconstraints := 0 } },
    ?_, ?_, rfl, rfl, hc2⟩
  · unfold Block.render
    rw [← List.append_assoc, scanPrefix_append, e2, Step.bind_next,
      scan_block_close ctx s2 b.wsEnd suf n _ a2 hm2 hb.2.2, e, Step.bind_next]
  · have := afterTag_cut s2 TAG_CLOSE b.wsEnd ['<', '/'] (lit "constraints") s.core.out
      { b.verdict ctx s.core.out.length s.m with inconstraints := 0 } (n + 1) a2 ha.nonempty
    rw [tagClose_eq] at this
    have e1 : n + 1 + -1 = n := by omega
    rw [e1] at this
    exact this

/-- A `constraints` block inside an enum value that does not qualify stays in
the buffer, and the enum value is marked for removal. -/
theorem scans_block_mark (ctx : Ctx) (s : OState) (b : Block) (suf : CStr) (n : Int)
    (ha : AfterTag s n) (q : Quiet s.m n) (ho : s.m.inoption ≤ n) (h0 : 0 ≤ n)
    (hb : b.Clean)
    (h1 : (b.verdict ctx s.core.out.length s.m).inenumval ≠ 0)
    (h2 : (b.verdict ctx s.core.out.length s.m).enumvalqualified = false ∨
      (b.verdict ctx s.core.out.length s.m).enumvaltoberemoved = true) :
    Scans ctx s b.render suf n (s.core.out ++ b.render)
      { b.verdict ctx s.core.out.length s.m with
        inconstraints := 0, enumvaltoberemoved := true } := by
  obtain ⟨s2, e2, a2, ho2, hm2, hc2⟩ := scans_block_inner ctx s b
    ((b.wsEnd ++ ('<' :: '/' :: lit "constraints" ++ ['>'])) ++ suf) n ha q ho h0 hb
  have hl : (endCore s2 TAG_CLOSE b.wsEnd ['<', '/'] (lit "constraints")).nestinglevel = n := by
    show s2.core.nestinglevel + TAG_CLOSE = n
    rw [a2.level, tagClose_eq]; omega
  have e := optEnd_block_mark ctx (endCore s2 TAG_CLOSE b.wsEnd ['<', '/'] (lit "constraints"))
    (b.verdict ctx s.core.out.length s.m) (n + 2)
    (by rw [hl]; exact quiet_verdict ctx b _ s.m n q h0)
    (by rw [hl, verdict_inoption]; exact ho) (by rw [hl]; omega) h1 h2
  refine ⟨afterTagState s2 TAG_CLOSE b.wsEnd ['<', '/'] (lit "constraints")
    { b.verdict ctx s.core.out.length s.m with inconstraints := 0, enumvaltoberemoved := true },
    ?_, ?_, ?_, rfl, hc2⟩
  · unfold Block.render
    rw [← List.append_assoc, scanPrefix_append, e2, Step.bind_next,
      scan_block_close ctx s2 b.wsEnd suf n _ a2 hm2 hb.2.2, e, Step.bind_next]
    rfl
  · have := afterTag_afterTagState s2 TAG_CLOSE b.wsEnd ['<', '/'] (lit "constraints")
      { b.verdict ctx s.core.out.length s.m with inconstraints := 0, enumvaltoberemoved := true }
      (n + 1) a2
    rw [tagClose_eq] at this
    have e1 : n + 1 + -1 = n := by omega
    rw [e1] at this
    exact this
  · rw [afterTagState_out, ho2]
    unfold Block.render
    simp [List.append_assoc]

theorem Quiet.toCalm {m : OptSt} {lv : Int} (q : Quiet m lv) : Calm m lv :=
  ⟨q.inmake, q.inmodel, q.indriver, q.inprinter, q.inargshortname, q.inargexecution, q.inargpjl,
    q.inevshortname, q.inen, q.inargmax, q.inargmin, q.inconstraint, q.inargdefault⟩

theorem Calm.toQuiet {m : OptSt} {lv : Int} (c : Calm m lv) (h1 : m.inenumval ≤ lv)
    (h2 : m.inconstraints ≤ lv) : Quiet m lv :=
  ⟨c.inmake, c.inmodel, c.indriver, c.inprinter, c.inargshortname, c.inargexecution, c.inargpjl,
    c.inevshortname, c.inen, c.inargmax, c.inargmin, h1, h2, c.inconstraint, c.inargdefault⟩

theorem Calm.weaken {m : OptSt} {lv lv' : Int} (q : Calm m lv) (h : lv ≤ lv') : Calm m lv' := by
  obtain ⟨q1, q2, q3, q4, q5, q6, q7, q8, q9, q10, q11, q12, q13⟩ := q
  constructor <;> omega

theorem Calm.setInenumval {m : OptSt} {lv : Int} (q : Calm m lv) (v : Int) :
    Calm { m with inenumval := v } lv := by
  obtain ⟨q1, q2, q3, q4, q5, q6, q7, q8, q9, q10, q11, q12, q13⟩ := q
  constructor <;> assumption

theorem optEndM_calm (ctx : Ctx) (c : Core) (m : OptSt) (q : Calm m c.nestinglevel) :
    optEndM ctx c m = m := by
  unfold optEndM
  rw [overInEn_quiet ctx c m q.inen, overInArgMax_quiet c m q.inargmax,
    overInArgMin_quiet c m q.inargmin,
    clearSentinels_quiet c m q.inargshortname q.inargexecution q.inargpjl q.inevshortname,
    collectFields_quiet c m q.inprinter q.inmake q.inmodel q.indriver q.inargdefault,
    overInConstraint_quiet ctx c m q.inconstraint]

theorem calm_effect (k : LeafKind) (t : CStr) (m : OptSt) (lv : Int) (q : Calm m lv)
    (h0 : 0 ≤ lv) : Calm (k.effect t m) lv := by
  obtain ⟨q1, q2, q3, q4, q5, q6, q7, q8, q9, q10, q11, q12, q13⟩ := q
  cases k <;> constructor <;> dsimp only [LeafKind.effect] <;> omega

theorem calm_leavesEffect (ls : List Leaf) (m : OptSt) (lv : Int) (q : Calm m lv)
    (h0 : 0 ≤ lv) : Calm (leavesEffect ls m) lv := by
  induction ls generalizing m with
  | nil => exact q
  | cons l ls ih => exact ih _ (calm_effect _ _ _ _ q h0)

theorem calm_evalConstraint (ctx : Ctx) (m : OptSt) (lv : Int) (q : Calm m lv) :
    Calm (evalConstraint ctx m) lv := by
  rw [evalConstraint_eq]
  split
  · obtain ⟨q1, q2, q3, q4, q5, q6, q7, q8, q9, q10, q11, q12, q13⟩ := q
    constructor <;> assumption
  · exact q

theorem calm_start (c : Constraint) (m : OptSt) (lv v : Int) (q : Calm m lv) (hv : v ≤ lv) :
    Calm (c.start v m) lv := by
  obtain ⟨q1, q2, q3, q4, q5, q6, q7, q8, q9, q10, q11, q12, q13⟩ := q
  constructor <;> assumption

theorem calm_constraint_effect (ctx : Ctx) (c : Constraint) (m : OptSt) (lv : Int)
    (q : Calm m lv) (h0 : 0 ≤ lv) : Calm (c.effect ctx m) lv :=
  calm_evalConstraint ctx _ lv (calm_leavesEffect _ _ lv (calm_start c m lv 0 q h0) h0)

theorem calm_constraintsEffect (ctx : Ctx) (cs : List Constraint) (m : OptSt) (lv : Int)
    (q : Calm m lv) (h0 : 0 ≤ lv) : Calm (constraintsEffect ctx cs m) lv := by
  induction cs generalizing m with
  | nil => exact q
  | cons c cs ih => exact ih _ (calm_constraint_effect ctx c m lv q h0)

theorem calm_verdict (ctx : Ctx) (b : Block) (mark : Nat) (m : OptSt) (lv : Int)
    (q : Calm m lv) (h0 : 0 ≤ lv) : Calm (b.verdict ctx mark m) lv := by
  obtain ⟨q1, q2, q3, q4, q5, q6, q7, q8, q9, q10, q11, q12, q13⟩ := q
  exact calm_constraintsEffect ctx _ _ lv (by constructor <;> assumption) h0

theorem tagName_enum_val : TagName (lit "enum_val") :=
  ⟨'e', lit "num_val", rfl, by decide, by decide⟩

theorem optNameM_enum_val_close (ctx : Ctx) (c : Core) (m : OptSt)
    (h1 : c.currtagname = lit "enum_val") (h2 : c.tagtype = TAG_CLOSE) :
    optNameM ctx c m = .next { m with inenumval := c.nestinglevel + 1 } := by
  unfold optNameM
  rw [h1, h2]
  rfl

/-- Scanning the closing tag of an enum value: the end action runs with the
sentinel of the enum value above the nesting level. -/
theorem scan_enum_val_close (ctx : Ctx) (s : OState) (t suf : CStr) (n : Int)
    (ha : AfterTag s n) (ht : ∀ c ∈ t, c ≠ '<') :
    scanPrefix (optionHooks ctx) s (t ++ ('<' :: '/' :: lit "enum_val" ++ ['>'])) suf =
      (optEnd ctx { core := endCore s TAG_CLOSE t ['<', '/'] (lit "enum_val"),
                    m := { s.m with inenumval := n + 1 } }).bind
        fun s3 => .next (markEnd s3) := by
  rw [scan_text_close ctx s t (lit "enum_val") suf n ha ht tagName_enum_val,
    optNameM_enum_val_close ctx (nameCore s TAG_CLOSE t ['<', '/'] (lit "enum_val")) _
      rfl rfl, Step.bind_next]
  have e : (nameCore s TAG_CLOSE t ['<', '/'] (lit "enum_val")).nestinglevel + 1 = n + 1 := by
    show s.core.nestinglevel + 1 = n + 1
    rw [ha.level]
  rw [e]

/-- The end action at the closing tag of an enum value that is marked for
removal: the buffer is cut back to the mark of the enum value. -/
theorem optEnd_enum_val_cut (ctx : Ctx) (c : Core) (m : OptSt) (v : Int) (p : Nat)
    (q : Calm m c.nestinglevel) (hic : m.inconstraints ≤ c.nestinglevel)
    (ho : m.inoption ≤ c.nestinglevel) (hv : c.nestinglevel < v)
    (hrem : m.enumvaltoberemoved = true) (hm : m.lastenumval = some p)
    (hp : 1 ≤ p ∧ p ≤ c.out.length) :
    optEnd ctx { core := c, m := { m with inenumval := v } } =
      .next { core := { c with out := c.out.take p }, m := { m with inenumval := 0 } } := by
  unfold optEnd
  simp only
  rw [optEndM_calm ctx c { m with inenumval := v } (q.setInenumval v),
    overInConstraints_quiet _ (by show m.inconstraints ≤ c.nestinglevel; exact hic),
    Step.bind_next]
  unfold overInEnumVal enumValEndM
  simp only
  rw [if_pos hv, if_pos hrem]
  simp only [deleteFrom, hm]
  unfold deleteSpan
  rw [if_pos hp]
  simp only [Step.bind_next]
  rw [overInOption_quiet _ (by show m.inoption ≤ c.nestinglevel; exact ho)]

/-- The end action at the closing tag of an enum value that stays: the value is
counted. -/
theorem optEnd_enum_val_keep (ctx : Ctx) (c : Core) (m : OptSt) (v : Int)
    (q : Calm m c.nestinglevel) (hic : m.inconstraints ≤ c.nestinglevel)
    (ho : m.inoption ≤ c.nestinglevel) (hv : c.nestinglevel < v)
    (hrem : m.enumvaltoberemoved = false) :
    optEnd ctx { core := c, m := { m with inenumval := v } } =
      .next { core := c, m := { m with inenumval := 0, numenumvals := m.numenumvals + 1 } } := by
  unfold optEnd
  simp only
  rw [optEndM_calm ctx c { m with inenumval := v } (q.setInenumval v),
    overInConstraints_quiet _ (by show m.inconstraints ≤ c.nestinglevel; exact hic),
    Step.bind_next]
  unfold overInEnumVal enumValEndM
  simp only
  rw [if_pos hv, if_neg (by rw [hrem]; simp)]
  simp only [deleteFrom, Step.bind_next]
  rw [overInOption_quiet _ (by show m.inoption ≤ c.nestinglevel; exact ho)]

/-- The closing tag of an enum value that is marked for removal, as a scan: the
buffer is cut back to the mark set at the opening tag. -/
theorem scans_enum_val_cut (ctx : Ctx) (s : OState) (t suf : CStr) (n : Int) (p : Nat)
    (ha : AfterTag s n) (q : Calm s.m (n - 1)) (hic : s.m.inconstraints ≤ n - 1)
    (ho : s.m.inoption ≤ n - 1) (ht : ∀ c ∈ t, c ≠ '<')
    (hrem : s.m.enumvaltoberemoved = true) (hm : s.m.lastenumval = some p)
    (hp : 1 ≤ p ∧ p ≤ s.core.out.length) :
    Scans ctx s (t ++ ('<' :: '/' :: lit "enum_val" ++ ['>'])) suf (n - 1) (s.core.out.take p)
      { s.m with inenumval := 0 } := by
  have hl : (endCore s TAG_CLOSE t ['<', '/'] (lit "enum_val")).nestinglevel = n - 1 := by
    show s.core.nestinglevel + TAG_CLOSE = n - 1
    rw [ha.level, tagClose_eq]; omega
  have hout : (endCore s TAG_CLOSE t ['<', '/'] (lit "enum_val")).out =
      s.core.out ++ (t ++ (['<', '/'] ++ (lit "enum_val" ++ ['>']))) := rfl
  have htake : (endCore s TAG_CLOSE t ['<', '/'] (lit "enum_val")).out.take p =
      s.core.out.take p := by
    rw [hout, List.take_append_of_le_length hp.2]
  have e := optEnd_enum_val_cut ctx (endCore s TAG_CLOSE t ['<', '/'] (lit "enum_val")) s.m
    (n + 1) p (by rw [hl]; exact q) (by rw [hl]; exact hic) (by rw [hl]; exact ho)
    (by rw [hl]; omega) hrem hm ⟨hp.1, by rw [hout, List.length_append]; omega⟩
  rw [htake] at e
  have hne : s.core.out.take p ≠ [] := by
    intro h
    have := congrArg List.length h
    rw [List.length_take] at this
    simp only [List.length_nil] at this
    omega
  refine ⟨markEnd { core := { endCore s TAG_CLOSE t ['<', '/'] (lit "enum_val") with
      out := s.core.out.take p }, m := { s.m with inenumval := 0 } }, ?_, ?_, rfl, rfl, rfl⟩
  · rw [scan_enum_val_close ctx s t suf n ha ht, e, Step.bind_next]
  · have := afterTag_cut s TAG_CLOSE t ['<', '/'] (lit "enum_val") (s.core.out.take p)
      { s.m with inenumval := 0 } n ha hne
    rw [tagClose_eq] at this
    exact this

/-- The closing tag of an enum value that stays, as a scan: the value is
counted. -/
theorem scans_enum_val_keep (ctx : Ctx) (s : OState) (t suf : CStr) (n : Int)
    (ha : AfterTag s n) (q : Calm s.m (n - 1)) (hic : s.m.inconstraints ≤ n - 1)
    (ho : s.m.inoption ≤ n - 1) (ht : ∀ c ∈ t, c ≠ '<')
    (hrem : s.m.enumvaltoberemoved = false) :
    Scans ctx s (t ++ ('<' :: '/' :: lit "enum_val" ++ ['>'])) suf (n - 1)
      (s.core.out ++ (t ++ ('<' :: '/' :: lit "enum_val" ++ ['>'])))
      { s.m with inenumval := 0, numenumvals := s.m.numenumvals + 1 } := by
  have hl : (endCore s TAG_CLOSE t ['<', '/'] (lit "enum_val")).nestinglevel = n - 1 := by
    show s.core.nestinglevel + TAG_CLOSE = n - 1
    rw [ha.level, tagClose_eq]; omega
  have e := optEnd_enum_val_keep ctx (endCore s TAG_CLOSE t ['<', '/'] (lit "enum_val")) s.m
    (n + 1) (by rw [hl]; exact q) (by rw [hl]; exact hic) (by rw [hl]; exact ho)
    (by rw [hl]; omega) hrem
  refine ⟨afterTagState s TAG_CLOSE t ['<', '/'] (lit "enum_val")
    { s.m with inenumval := 0, numenumvals := s.m.numenumvals + 1 }, ?_, ?_, rfl, rfl, rfl⟩
  · rw [scan_enum_val_close ctx s t suf n ha ht, e, Step.bind_next]
    rfl
  · have := afterTag_afterTagState s TAG_CLOSE t ['<', '/'] (lit "enum_val")
      { s.m with inenumval := 0, numenumvals := s.m.numenumvals + 1 } n ha
    rw [tagClose_eq] at this
    exact this

theorem leavesEffect_eq (ls : List Leaf) (m : OptSt) : leavesEffect ls m = collect ls m := by
  induction ls generalizing m with
  | nil => rfl
  | cons l ls ih =>
    simp only [leavesEffect]
    rw [ih]
    obtain ⟨ws, k, t⟩ := l
    cases k <;> rfl

theorem constraint_effect_cases (ctx : Ctx) (c : Constraint) (m : OptSt) :
    c.effect ctx m =
      if c.wins ctx m.printerhiscore m.driverhiscore then
        recordWin (c.printerScore ctx) (c.driverScore ctx) (collect c.fields (c.start 0 m))
      else collect c.fields (c.start 0 m) := by
  unfold Constraint.effect
  rw [leavesEffect_eq, evalConstraint_eq]
  rfl

theorem constraint_effect_inenumval (ctx : Ctx) (c : Constraint) (m : OptSt) :
    (c.effect ctx m).inenumval = m.inenumval := by
  rw [constraint_effect_cases]
  split <;> rfl

theorem constraint_effect_lastenumval (ctx : Ctx) (c : Constraint) (m : OptSt) :
    (c.effect ctx m).lastenumval = m.lastenumval := by
  rw [constraint_effect_cases]
  split <;> rfl

theorem constraint_effect_lastconstraints (ctx : Ctx) (c : Constraint) (m : OptSt) :
    (c.effect ctx m).lastconstraints = m.lastconstraints := by
  rw [constraint_effect_cases]
  split <;> rfl

theorem constraint_effect_numenumvals (ctx : Ctx) (c : Constraint) (m : OptSt) :
    (c.effect ctx m).numenumvals = m.numenumvals := by
  rw [constraint_effect_cases]
  split <;> rfl

theorem constraint_effect_enumvaltoberemoved (ctx : Ctx) (c : Constraint) (m : OptSt) :
    (c.effect ctx m).enumvaltoberemoved = m.enumvaltoberemoved := by
  rw [constraint_effect_cases]
  split <;> rfl

/-- A winning constraint inside an enum value sets the qualification of the
enum value to its sense; at option scope that of the option. -/
theorem constraint_effect_wins (ctx : Ctx) (c : Constraint) (m : OptSt)
    (h : c.wins ctx m.printerhiscore m.driverhiscore = true) :
    (c.effect ctx m).enumvalqualified =
        (if m.inenumval ≠ 0 then c.sense else m.enumvalqualified) ∧
      (c.effect ctx m).optionqualified =
        (if m.inenumval ≠ 0 then m.optionqualified else c.sense) ∧
      (c.effect ctx m).printerhiscore =
        (if c.printerScore ctx > m.printerhiscore then c.printerScore ctx
          else m.printerhiscore) ∧
      (c.effect ctx m).driverhiscore =
        (if c.driverScore ctx > m.driverhiscore then c.driverScore ctx else m.driverhiscore) := by
  rw [constraint_effect_cases, if_pos h]
  exact ⟨rfl, rfl, rfl, rfl⟩

/-- A constraint that does not win leaves qualifications and high scores alone. -/
theorem constraint_effect_loses (ctx : Ctx) (c : Constraint) (m : OptSt)
    (h : c.wins ctx m.printerhiscore m.driverhiscore = false) :
    (c.effect ctx m).enumvalqualified = m.enumvalqualified ∧
      (c.effect ctx m).optionqualified = m.optionqualified ∧
      (c.effect ctx m).printerhiscore = m.printerhiscore ∧
      (c.effect ctx m).driverhiscore = m.driverhiscore ∧
      (c.effect ctx m).argdefault = m.argdefault := by
  rw [constraint_effect_cases, if_neg (by rw [h]; simp)]
  exact ⟨rfl, rfl, rfl, rfl, rfl⟩

theorem driverScore_range (ctx : Ctx) (d : CStr) :
    driverScore ctx d = 1 ∨ driverScore ctx d = -1 ∨ driverScore ctx d = 0 := by
  unfold driverScore
  split
  · split
    · exact Or.inl rfl
    · exact Or.inr (Or.inl rfl)
  · exact Or.inr (Or.inr rfl)

theorem SelectsPrinter.scoreTwo {ctx : Ctx} {c : Constraint} (h : SelectsPrinter ctx c) :
    c.printerScore ctx = 2 := by
  unfold Constraint.printerScore printerScore
  rw [if_pos h.printer, if_pos h.exact]

theorem SelectsPrinter.alwaysWins {ctx : Ctx} {c : Constraint} (h : SelectsPrinter ctx c)
    (hp hd : Int) : c.wins ctx hp hd = true := by
  have h1 : c.printerScore ctx = 2 := h.scoreTwo
  have h2 := h.driver
  have h3 := driverScore_range ctx (c.selector .driver)
  unfold Constraint.wins constraintWins isNullConstraint hasPrinterAndMake gotMatch beatsBest
  unfold Constraint.printerScore at h1
  unfold Constraint.driverScore at h2
  rw [h.make, h.model] at h1
  simp only [h.make, h.model, h1, h.printer]
  simp only [ne_eq, not_true_eq_false, or_self, false_and, not_false_eq_true, and_false,
    decide_False, Bool.not_false, Bool.true_and, Bool.and_eq_true, decide_eq_true_eq, or_true,
    and_true]
  omega

theorem SelectsMake.scoreOne {ctx : Ctx} {c : Constraint} (h : SelectsMake ctx c) :
    c.printerScore ctx = 1 := by
  unfold Constraint.printerScore Foomatic.printerScore
  rw [if_neg (by rw [h.printer]; simp), if_pos h.nonempty, if_pos h.make,
    if_neg (by rw [h.model]; simp)]

theorem SelectsMake.loses {ctx : Ctx} {c : Constraint} (h : SelectsMake ctx c)
    (hp hd : Int) (h2 : 2 ≤ hp) : c.wins ctx hp hd = false := by
  have h1 : c.printerScore ctx = 1 := h.scoreOne
  unfold Constraint.printerScore at h1
  unfold Constraint.wins constraintWins beatsBest
  simp only [h1]
  simp only [Bool.and_eq_false_imp, decide_eq_false_iff_not]
  intro _ _
  omega

/-- The verdict of a block of two constraints, one that selects the requested
printer by its id with sense `false` and one that selects by the make only: the
enum value around the block does not qualify, at option scope the option. -/
theorem verdict_twoBlock (ctx : Ctx) (ws wsEnd : CStr) (a b : Constraint) (aFirst : Bool)
    (mark : Nat) (m : OptSt) (ha : SelectsPrinter ctx a) (hs : a.sense = false)
    (hb : SelectsMake ctx b) :
    ((twoBlock ws a b wsEnd aFirst).verdict ctx mark m).inenumval = m.inenumval ∧
      (m.inenumval = 0 →
        ((twoBlock ws a b wsEnd aFirst).verdict ctx mark m).optionqualified = false) ∧
      (m.inenumval ≠ 0 →
        ((twoBlock ws a b wsEnd aFirst).verdict ctx mark m).enumvalqualified = false) := by
  cases aFirst
  · -- the make constraint first
    show (a.effect ctx (b.effect ctx (blockStart mark 0 m))).inenumval = _ ∧ _
    have hi : (b.effect ctx (blockStart mark 0 m)).inenumval = m.inenumval :=
      constraint_effect_inenumval ctx b _
    obtain ⟨w1, w2, _, _⟩ := constraint_effect_wins ctx a (b.effect ctx (blockStart mark 0 m))
      (ha.alwaysWins _ _)
    refine ⟨by rw [constraint_effect_inenumval, hi], ?_, ?_⟩
    · intro h0
      show (a.effect ctx (b.effect ctx (blockStart mark 0 m))).optionqualified = false
      rw [w2, hi, if_neg (by simp [h0]), hs]
    · intro h0
      show (a.effect ctx (b.effect ctx (blockStart mark 0 m))).enumvalqualified = false
      rw [w1, hi, if_pos h0, hs]
  · -- the printer constraint first
    show (b.effect ctx (a.effect ctx (blockStart mark 0 m))).inenumval = _ ∧ _
    have hi : (a.effect ctx (blockStart mark 0 m)).inenumval = m.inenumval :=
      constraint_effect_inenumval ctx a _
    obtain ⟨w1, w2, w3, _⟩ := constraint_effect_wins ctx a (blockStart mark 0 m) (ha.alwaysWins _ _)
    have hp : (a.effect ctx (blockStart mark 0 m)).printerhiscore = 2 := by
      rw [w3, ha.scoreTwo]
      rfl
    obtain ⟨l1, l2, _, _, _⟩ := constraint_effect_loses ctx b (a.effect ctx (blockStart mark 0 m))
      (hb.loses _ _ (by rw [hp]))
    refine ⟨by rw [constraint_effect_inenumval, hi], ?_, ?_⟩
    · intro h0
      show (b.effect ctx (a.effect ctx (blockStart mark 0 m))).optionqualified = false
      rw [l2, w2]
      show (if m.inenumval ≠ 0 then _ else a.sense) = false
      rw [if_neg (by simp [h0]), hs]
    · intro h0
      show (b.effect ctx (a.effect ctx (blockStart mark 0 m))).enumvalqualified = false
      rw [l1, w1]
      show (if m.inenumval ≠ 0 then a.sense else _) = false
      rw [if_pos h0, hs]

theorem constraintsEffect_lastenumval (ctx : Ctx) (cs : List Constraint) (m : OptSt) :
    (constraintsEffect ctx cs m).lastenumval = m.lastenumval := by
  induction cs generalizing m with
  | nil => rfl
  | cons c cs ih =>
    simp only [constraintsEffect]
    rw [ih, constraint_effect_lastenumval]

theorem constraintsEffect_numenumvals (ctx : Ctx) (cs : List Constraint) (m : OptSt) :
    (constraintsEffect ctx cs m).numenumvals = m.numenumvals := by
  induction cs generalizing m with
  | nil => rfl
  | cons c cs ih =>
    simp only [constraintsEffect]
    rw [ih, constraint_effect_numenumvals]

theorem constraintsEffect_inenumval (ctx : Ctx) (cs : List Constraint) (m : OptSt) :
    (constraintsEffect ctx cs m).inenumval = m.inenumval := by
  induction cs generalizing m with
  | nil => rfl
  | cons c cs ih =>
    simp only [constraintsEffect]
    rw [ih, constraint_effect_inenumval]

theorem constraintsEffect_lastconstraints (ctx : Ctx) (cs : List Constraint) (m : OptSt) :
    (constraintsEffect ctx cs m).lastconstraints = m.lastconstraints := by
  induction cs generalizing m with
  | nil => rfl
  | cons c cs ih =>
    simp only [constraintsEffect]
    rw [ih, constraint_effect_lastconstraints]

theorem constraintsEffect_enumvaltoberemoved (ctx : Ctx) (cs : List Constraint) (m : OptSt) :
    (constraintsEffect ctx cs m).enumvaltoberemoved = m.enumvaltoberemoved := by
  induction cs generalizing m with
  | nil => rfl
  | cons c cs ih =>
    simp only [constraintsEffect]
    rw [ih, constraint_effect_enumvaltoberemoved]

theorem quiet_of_inenumval {m : OptSt} {lv lv' : Int} (q : Quiet { m with inenumval := 0 } lv)
    (h : lv ≤ lv') (he : m.inenumval ≤ lv') : Quiet m lv' := by
  obtain ⟨q1, q2, q3, q4, q5, q6, q7, q8, q9, q10, q11, q12, q13, q14, q15⟩ := q
  simp only at q1 q2 q3 q4 q5 q6 q7 q8 q9 q10 q11 q13 q14 q15
  constructor <;> omega

theorem calm_of_inenumval {m : OptSt} {lv : Int} (q : Quiet { m with inenumval := 0 } lv) :
    Calm m lv := by
  obtain ⟨q1, q2, q3, q4, q5, q6, q7, q8, q9, q10, q11, q12, q13, q14, q15⟩ := q
  constructor <;> assumption

theorem lit_enum_val_close : lit "</enum_val>" = '<' :: '/' :: lit "enum_val" ++ ['>'] := rfl

/-- A scan that frees the buffer ends the parse with the result 0. -/
theorem parseOption_discard (ctx : Ctx) (pre x rest : CStr) (s : OState)
    (hpre : scanPrefix (optionHooks ctx) optInit pre (x ++ rest) = .next s)
    (hx : scanPrefix (optionHooks ctx) s x rest = .discard s.core.comboconfirmed) :
    parseOption ctx (pre ++ (x ++ rest)) = .returned none 0 := by
  have hc : s.core.comboconfirmed = 0 :=
    (scanPrefix_combo _ (comboSafe_optionHooks ctx) _ _ _ _ hpre).trans optInit_combo
  unfold parseOption
  rw [scanLoop_append, hpre, Step.bind_next, scanLoop_append, hx, Step.bind_discard, hc]
  rfl

theorem optNameM_unknown (ctx : Ctx) (c : Core) (m : OptSt) (h : Unknown c.currtagname) :
    optNameM ctx c m = .next m := by
  obtain ⟨h1, h2, h3, h4, h5, h6, h7, h8, h9, h10, h11, h12, h13, h14, h15, h16⟩ := h
  unfold optNameM
  simp only [h1, h2, h3, h4, h5, h6, h7, h8, h9, h10, h11, h12, h13, h14, h15, h16, ↓reduceIte]

/-- An element `<nm>text</nm>` whose actions change only variables of the mode,
as a scan: `m1` are the variables behind the name of the opening tag, `m2`
those behind the name of the closing tag, `m3` those behind the element. -/
theorem scans_pair (ctx : Ctx) (s : OState) (ws nm text suf : CStr) (n : Int)
    (m1 m2 m3 : OptSt) (ha : AfterTag s n) (hws : ∀ c ∈ ws, c ≠ '<')
    (htext : ∀ c ∈ text, c ≠ '<') (hn : TagName nm) (hno : nm ≠ lit "option")
    (hopen : optNameM ctx (nameCore s TAG_OPEN ws ['<'] nm) s.m = .next m1)
    (q1 : Quiet m1 (n + 1)) (ho1 : m1.inoption ≤ n + 1)
    (hclose : ∀ s1 : OState, AfterTag s1 (n + 1) →
      optNameM ctx (nameCore s1 TAG_CLOSE text ['<', '/'] nm) m1 = .next m2)
    (hend : ∀ s1 : OState, AfterTag s1 (n + 1) →
      optEndM ctx (endCore s1 TAG_CLOSE text ['<', '/'] nm) m2 = m3)
    (h1 : m3.inconstraints ≤ n) (h2 : m3.inenumval ≤ n) (h3 : m3.inoption ≤ n) :
    Scans ctx s ((ws ++ ('<' :: nm ++ ['>'])) ++ (text ++ ('<' :: '/' :: nm ++ ['>']))) suf n
      (s.core.out ++ ((ws ++ ('<' :: nm ++ ['>'])) ++ (text ++ ('<' :: '/' :: nm ++ ['>']))))
      m3 := by
  refine Scans.append (scans_open ctx s ws nm _ n m1 ha hws hn hno hopen q1 ho1) ?_
  intro s1 a1 ho hm
  have hs := scans_close_pure ctx s1 text nm suf (n + 1) m2 m3 a1 htext hn
    (by rw [hm]; exact hclose s1 a1) (hend s1 a1) (by omega) (by omega) (by omega)
  have e1 : n + 1 - 1 = n := by omega
  rw [e1, ho] at hs
  simpa [List.append_assoc] using hs

/-- An element `<nm>text</nm>` with a name that Option mode does not know
changes nothing. -/
theorem scans_plain (ctx : Ctx) (s : OState) (ws nm text suf : CStr) (n : Int)
    (ha : AfterTag s n) (q : Quiet s.m n) (ho : s.m.inoption ≤ n)
    (hws : ∀ c ∈ ws, c ≠ '<') (htext : ∀ c ∈ text, c ≠ '<') (hn : TagName nm)
    (hu : Unknown nm) :
    Scans ctx s ((ws ++ ('<' :: nm ++ ['>'])) ++ (text ++ ('<' :: '/' :: nm ++ ['>']))) suf n
      (s.core.out ++ ((ws ++ ('<' :: nm ++ ['>'])) ++ (text ++ ('<' :: '/' :: nm ++ ['>']))))
      s.m := by
  refine scans_pair ctx s ws nm text suf n s.m s.m s.m ha hws htext hn hu.2.2.2.2.2.2.2.2.2.2.2.2.2.2.2
    (optNameM_unknown ctx _ _ hu) (q.mono (by omega)) (by omega)
    (fun s1 _ => optNameM_unknown ctx _ _ hu) (fun s1 a1 => ?_) q.inconstraints q.inenumval ho
  have hl : (endCore s1 TAG_CLOSE text ['<', '/'] nm).nestinglevel = n := by
    show s1.core.nestinglevel + TAG_CLOSE = n
    rw [a1.level, tagClose_eq]; omega
  exact optEndM_quiet ctx _ _ (by rw [hl]; exact q)

theorem SameSentinels.reflS (m : OptSt) : SameSentinels m m :=
  ⟨rfl, rfl, rfl, rfl, rfl, rfl, rfl, rfl, rfl, rfl, rfl, rfl, rfl, rfl, rfl, rfl⟩

theorem SameSentinels.transS {a b c : OptSt} (h1 : SameSentinels a b) (h2 : SameSentinels b c) :
    SameSentinels a c := by
  obtain ⟨a1, a2, a3, a4, a5, a6, a7, a8, a9, a10, a11, a12, a13, a14, a15, a16⟩ := h1
  obtain ⟨b1, b2, b3, b4, b5, b6, b7, b8, b9, b10, b11, b12, b13, b14, b15, b16⟩ := h2
  constructor <;> omega

theorem SameSentinels.quietOf {a b : OptSt} {lv : Int} (h : SameSentinels a b) (q : Quiet b lv) :
    Quiet a lv := by
  obtain ⟨a1, a2, a3, a4, a5, a6, a7, a8, a9, a10, a11, a12, a13, a14, a15, a16⟩ := h
  obtain ⟨q1, q2, q3, q4, q5, q6, q7, q8, q9, q10, q11, q12, q13, q14, q15⟩ := q
  constructor <;> omega

theorem SameSentinels.rest {a b : OptSt} (h : SameSentinels a b) (q : Rest b) : Rest a := by
  obtain ⟨a1, a2, a3, a4, a5, a6, a7, a8, a9, a10, a11, a12, a13, a14, a15, a16⟩ := h
  obtain ⟨q1, q2, q3, q4, q5, q6, q7, q8, q9, q10, q11, q12, q13, q14⟩ := q
  constructor <;> omega

theorem Rest.quietAt {m : OptSt} {lv : Int} (r : Rest m) (h0 : 0 ≤ lv) (he : m.inenumval ≤ lv) :
    Quiet m lv := by
  obtain ⟨q1, q2, q3, q4, q5, q6, q7, q8, q9, q10, q11, q12, q13, q14⟩ := r
  constructor <;> omega

theorem applySetting_same (body : CStr) (m : OptSt) (ds : CStr) :
    SameSentinels (applySetting body m ds) m := by
  unfold applySetting
  dsimp only
  repeat' split
  all_goals constructor <;> rfl

theorem applySettings_same (body : CStr) (l : List CStr) (m : OptSt) :
    SameSentinels (l.foldl (applySetting body) m) m := by
  induction l generalizing m with
  | nil => exact SameSentinels.reflS m
  | cons ds l ih => exact (ih _).transS (applySetting_same body m ds)

theorem overInEn_fire (ctx : Ctx) (c : Core) (m : OptSt) (v : Int) (h : c.nestinglevel < v) :
    overInEn ctx c { m with inen := v } = enEffect ctx c.currtagbody m := by
  unfold overInEn enEffect
  rw [if_pos h]

theorem enEffect_same (ctx : Ctx) (text : CStr) (m : OptSt) :
    SameSentinels (enEffect ctx text m) { m with inen := 0 } := by
  unfold enEffect
  split
  · exact applySettings_same text _ _
  · split <;> constructor <;> rfl

theorem optEndM_of_overInEn (ctx : Ctx) (c : Core) (m x : OptSt) (h : overInEn ctx c m = x)
    (q : Quiet x c.nestinglevel) : optEndM ctx c m = x := by
  unfold optEndM
  rw [h, overInArgMax_quiet c x q.inargmax, overInArgMin_quiet c x q.inargmin,
    clearSentinels_quiet c x q.inargshortname q.inargexecution q.inargpjl q.inevshortname,
    collectFields_quiet c x q.inprinter q.inmake q.inmodel q.indriver q.inargdefault,
    overInConstraint_quiet ctx c x q.inconstraint]

theorem optEndM_of_overInArgMax (ctx : Ctx) (c : Core) (m x : OptSt)
    (hen : m.inen ≤ c.nestinglevel) (h : overInArgMax c m = x) (q : Quiet x c.nestinglevel) :
    optEndM ctx c m = x := by
  unfold optEndM
  rw [overInEn_quiet ctx c m hen, h, overInArgMin_quiet c x q.inargmin,
    clearSentinels_quiet c x q.inargshortname q.inargexecution q.inargpjl q.inevshortname,
    collectFields_quiet c x q.inprinter q.inmake q.inmodel q.indriver q.inargdefault,
    overInConstraint_quiet ctx c x q.inconstraint]

theorem optEndM_of_overInArgMin (ctx : Ctx) (c : Core) (m x : OptSt)
    (hen : m.inen ≤ c.nestinglevel) (hmax : m.inargmax ≤ c.nestinglevel)
    (h : overInArgMin c m = x) (q : Quiet x c.nestinglevel) :
    optEndM ctx c m = x := by
  unfold optEndM
  rw [overInEn_quiet ctx c m hen, overInArgMax_quiet c m hmax, h,
    clearSentinels_quiet c x q.inargshortname q.inargexecution q.inargpjl q.inevshortname,
    collectFields_quiet c x q.inprinter q.inmake q.inmodel q.indriver q.inargdefault,
    overInConstraint_quiet ctx c x q.inconstraint]

theorem optEndM_of_clearSentinels (ctx : Ctx) (c : Core) (m x : OptSt)
    (hen : m.inen ≤ c.nestinglevel) (hmax : m.inargmax ≤ c.nestinglevel)
    (hmin : m.inargmin ≤ c.nestinglevel)
    (h : clearSentinels c m = x) (q : Quiet x c.nestinglevel) :
    optEndM ctx c m = x := by
  unfold optEndM
  rw [overInEn_quiet ctx c m hen, overInArgMax_quiet c m hmax, overInArgMin_quiet c m hmin, h,
    collectFields_quiet c x q.inprinter q.inmake q.inmodel q.indriver q.inargdefault,
    overInConstraint_quiet ctx c x q.inconstraint]

theorem optEndM_of_collectFields (ctx : Ctx) (c : Core) (m x : OptSt)
    (hen : m.inen ≤ c.nestinglevel) (hmax : m.inargmax ≤ c.nestinglevel)
    (hmin : m.inargmin ≤ c.nestinglevel) (h1 : m.inargshortname ≤ c.nestinglevel)
    (h2 : m.inargexecution ≤ c.nestinglevel) (h3 : m.inargpjl ≤ c.nestinglevel)
    (h4 : m.inevshortname ≤ c.nestinglevel)
    (h : collectFields c m = x) (q : Quiet x c.nestinglevel) :
    optEndM ctx c m = x := by
  unfold optEndM
  rw [overInEn_quiet ctx c m hen, overInArgMax_quiet c m hmax, overInArgMin_quiet c m hmin,
    clearSentinels_quiet c m h1 h2 h3 h4, h, overInConstraint_quiet ctx c x q.inconstraint]

theorem tagName_en : TagName (lit "en") := by decide

theorem optNameM_en (ctx : Ctx) (c : Core) (m : OptSt) (h : c.currtagname = lit "en") :
    optNameM ctx c m = .next { m with inen := c.nestinglevel + 1 } := by
  unfold optNameM
  rw [h]
  rfl

theorem quiet_setInen {m : OptSt} {lv : Int} (q : Quiet m lv) (v : Int) (hv : v ≤ lv) :
    Quiet { m with inen := v } lv := by
  obtain ⟨q1, q2, q3, q4, q5, q6, q7, q8, q9, q10, q11, q12, q13, q14, q15⟩ := q
  constructor <;> assumption

/-- An `en` element as a scan. -/
theorem scans_en (ctx : Ctx) (s : OState) (ws text suf : CStr) (n : Int)
    (ha : AfterTag s n) (q : Quiet s.m n) (ho : s.m.inoption ≤ n) (h0 : 0 ≤ n)
    (hws : ∀ c ∈ ws, c ≠ '<') (htext : ∀ c ∈ text, c ≠ '<') :
    Scans ctx s ((ws ++ ('<' :: lit "en" ++ ['>'])) ++ (text ++ ('<' :: '/' :: lit "en" ++ ['>'])))
      suf n
      (s.core.out ++ ((ws ++ ('<' :: lit "en" ++ ['>'])) ++
        (text ++ ('<' :: '/' :: lit "en" ++ ['>']))))
      (enEffect ctx text s.m) := by
  have hq : Quiet (enEffect ctx text s.m) n := (enEffect_same ctx text s.m).quietOf (quiet_setInen q 0 h0)
  have hi : (enEffect ctx text s.m).inoption = s.m.inoption := (enEffect_same ctx text s.m).inoption
  refine scans_pair ctx s ws (lit "en") text suf n { s.m with inen := n + 1 }
    { s.m with inen := n + 2 } (enEffect ctx text s.m) ha hws htext tagName_en (by decide)
    ?_ (quiet_setInen (q.mono (by omega)) _ (le_refl _)) (by show s.m.inoption ≤ n + 1; omega)
    (fun s1 a1 => ?_) (fun s1 a1 => ?_) hq.inconstraints hq.inenumval (by rw [hi]; exact ho)
  · rw [optNameM_en ctx _ _ rfl]
    show Step.next { s.m with inen := s.core.nestinglevel + 1 } = _
    rw [ha.level]
  · rw [optNameM_en ctx _ _ rfl]
    show Step.next { s.m with inen := s1.core.nestinglevel + 1 } = _
    rw [a1.level]
    have e : n + 1 + 1 = n + 2 := by omega
    rw [e]
  · have hl : (endCore s1 TAG_CLOSE text ['<', '/'] (lit "en")).nestinglevel = n := by
      show s1.core.nestinglevel + TAG_CLOSE = n
      rw [a1.level, tagClose_eq]; omega
    exact optEndM_of_overInEn ctx _ _ _ (overInEn_fire ctx _ s.m (n + 2) (by rw [hl]; omega))
      (by rw [hl]; exact hq)

/-- An element `<nm>inner</nm>` around a scanned part `inner`, whose own actions
change only variables of the mode, as a scan: `m1` are the variables behind the
name of the opening tag, `mi` those behind `inner`, `m2` those behind the name
of the closing tag, `m3` those behind the element. -/
theorem scans_wrap (ctx : Ctx) (s : OState) (ws nm inner wsEnd suf : CStr) (n : Int)
    (m1 mi m2 m3 : OptSt) (ha : AfterTag s n) (hws : ∀ c ∈ ws, c ≠ '<')
    (hwsEnd : ∀ c ∈ wsEnd, c ≠ '<') (hn : TagName nm) (hno : nm ≠ lit "option")
    (hopen : optNameM ctx (nameCore s TAG_OPEN ws ['<'] nm) s.m = .next m1)
    (q1 : Quiet m1 (n + 1)) (ho1 : m1.inoption ≤ n + 1)
    (hinner : ∀ (s1 : OState) (suf1 : CStr), AfterTag s1 (n + 1) → s1.m = m1 →
      Scans ctx s1 inner suf1 (n + 1) (s1.core.out ++ inner) mi)
    (hclose : ∀ s2 : OState, AfterTag s2 (n + 1) →
      optNameM ctx (nameCore s2 TAG_CLOSE wsEnd ['<', '/'] nm) mi = .next m2)
    (hend : ∀ s2 : OState, AfterTag s2 (n + 1) →
      optEndM ctx (endCore s2 TAG_CLOSE wsEnd ['<', '/'] nm) m2 = m3)
    (h1 : m3.inconstraints ≤ n) (h2 : m3.inenumval ≤ n) (h3 : m3.inoption ≤ n) :
    Scans ctx s ((ws ++ ('<' :: nm ++ ['>'])) ++ (inner ++ (wsEnd ++ ('<' :: '/' :: nm ++ ['>']))))
      suf n
      (s.core.out ++ ((ws ++ ('<' :: nm ++ ['>'])) ++
        (inner ++ (wsEnd ++ ('<' :: '/' :: nm ++ ['>'])))))
      m3 := by
  refine Scans.append (scans_open ctx s ws nm _ n m1 ha hws hn hno hopen q1 ho1) ?_
  intro s1 a1 o1 e1
  refine Scans.append (hinner s1 _ a1 e1) ?_
  intro s2 a2 o2 e2
  have hs := scans_close_pure ctx s2 wsEnd nm suf (n + 1) m2 m3 a2 hwsEnd hn
    (by rw [e2]; exact hclose s2 a2) (hend s2 a2) (by omega) (by omega) (by omega)
  have e : n + 1 - 1 = n := by omega
  rw [e, o2, o1] at hs
  simpa [List.append_assoc] using hs

theorem enEffect_rest (ctx : Ctx) (text : CStr) (m : OptSt) (h1 : m.inargshortname = 0)
    (h2 : m.inevshortname = 0) : enEffect ctx text m = { m with inen := 0 } := by
  unfold enEffect
  rw [if_neg (by simp [h1]), if_neg (by simp [h2])]

/-- An element `<nm><en>text</en></nm>` with a name that Option mode does not
know, as a scan. -/
theorem scans_wrapped (ctx : Ctx) (s : OState) (ws nm ws1 text ws2 suf : CStr) (n : Int)
    (ha : AfterTag s n) (r : Rest s.m) (he : s.m.inenumval ≤ n) (ho : s.m.inoption ≤ n)
    (h0 : 0 ≤ n) (hws : ∀ c ∈ ws, c ≠ '<') (hws1 : ∀ c ∈ ws1, c ≠ '<')
    (htext : ∀ c ∈ text, c ≠ '<') (hws2 : ∀ c ∈ ws2, c ≠ '<') (hn : TagName nm)
    (hu : Unknown nm) :
    Scans ctx s (renderWrapped ws nm ws1 text ws2) suf n
      (s.core.out ++ renderWrapped ws nm ws1 text ws2) (wrappedEffect s.m) := by
  have q : Quiet s.m n := r.quietAt h0 he
  have q3 : Quiet (wrappedEffect s.m) n := quiet_setInen q 0 h0
  refine scans_wrap ctx s ws nm _ ws2 suf n s.m (wrappedEffect s.m) (wrappedEffect s.m)
    (wrappedEffect s.m) ha hws hws2 hn hu.2.2.2.2.2.2.2.2.2.2.2.2.2.2.2
    (optNameM_unknown ctx _ _ hu) (q.mono (by omega)) (by omega) ?_
    (fun s2 _ => optNameM_unknown ctx _ _ hu) (fun s2 a2 => ?_) q3.inconstraints q3.inenumval ho
  · intro s1 suf1 a1 e1
    have := scans_en ctx s1 ws1 text suf1 (n + 1) a1 (by rw [e1]; exact q.mono (by omega))
      (by rw [e1]; omega) (by omega) hws1 htext
    rw [e1, enEffect_rest ctx text s.m r.inargshortname r.inevshortname] at this
    exact this
  · have hl : (endCore s2 TAG_CLOSE ws2 ['<', '/'] nm).nestinglevel = n := by
      show s2.core.nestinglevel + TAG_CLOSE = n
      rw [a2.level, tagClose_eq]; omega
    exact optEndM_quiet ctx _ _ (by rw [hl]; exact q3)

theorem applySetting_outcome (body : CStr) (m : OptSt) (ds : CStr) :
    applySetting body m ds = setUserDefault m (settingOutcome body m.optiontype ds) := by
  unfold applySetting settingOutcome
  cases m with
  | mk a1 a2 a3 a4 a5 a6 a7 a8 a9 a10 a11 a12 a13 a14 a15 a16 a17 a18 a19 a20 ty =>
    cases ty <;> dsimp only <;> split_ifs <;> rfl

theorem setUserDefault_optiontype (m : OptSt) (p : Option (Bool × CStr)) :
    (setUserDefault m p).optiontype = m.optiontype := by
  cases p <;> rfl

theorem setUserDefault_twice (m : OptSt) (p : Option (Bool × CStr)) (r : Bool × CStr) :
    setUserDefault (setUserDefault m p) (some r) = setUserDefault m (some r) := by
  cases p <;> rfl

theorem applySettings_outcome (body : CStr) (l : List CStr) (m : OptSt) :
    l.foldl (applySetting body) m = setUserDefault m (lastOutcome body m.optiontype l) := by
  induction l generalizing m with
  | nil => rfl
  | cons ds l ih =>
    simp only [List.foldl_cons, lastOutcome]
    rw [ih, applySetting_outcome, setUserDefault_optiontype]
    cases lastOutcome body m.optiontype l with
    | some p => exact setUserDefault_twice m _ p
    | none => rfl

theorem overInArgMax_fire (c : Core) (m : OptSt) (v : Int) (h : c.nestinglevel < v) :
    overInArgMax c { m with inargmax := v } = argMaxEffect c.currtagbody m := by
  unfold overInArgMax argMaxEffect
  rw [if_pos h]

theorem overInArgMin_fire (c : Core) (m : OptSt) (v : Int) (h : c.nestinglevel < v) :
    overInArgMin c { m with inargmin := v } = argMinEffect c.currtagbody m := by
  unfold overInArgMin argMinEffect
  rw [if_pos h]

theorem clearSentinels_shortname (c : Core) (m : OptSt) (v : Int) (hv : c.nestinglevel < v)
    (h2 : m.inargexecution ≤ c.nestinglevel) (h3 : m.inargpjl ≤ c.nestinglevel)
    (h4 : m.inevshortname ≤ c.nestinglevel) :
    clearSentinels c { m with inargshortname := v } = { m with inargshortname := 0 } := by
  unfold clearSentinels
  dsimp only
  rw [if_pos hv, if_neg (not_lt.mpr h2), if_neg (not_lt.mpr h3), if_neg (not_lt.mpr h4)]

theorem clearSentinels_evshortname (c : Core) (m : OptSt) (v : Int) (hv : c.nestinglevel < v)
    (h1 : m.inargshortname ≤ c.nestinglevel) (h2 : m.inargexecution ≤ c.nestinglevel)
    (h3 : m.inargpjl ≤ c.nestinglevel) :
    clearSentinels c { m with inevshortname := v } = { m with inevshortname := 0 } := by
  unfold clearSentinels
  dsimp only
  rw [if_pos hv, if_neg (not_lt.mpr h1), if_neg (not_lt.mpr h2), if_neg (not_lt.mpr h3)]

theorem collectFields_field (c : Core) (m : OptSt) (k : LeafKind) (v : Int)
    (hv : c.nestinglevel < v) (q : Quiet m c.nestinglevel) (hin : m.inconstraint = 0) :
    collectFields c (k.setSentinel m v) = k.setSentinel m 0 := by
  obtain ⟨q1, q2, q3, q4, q5, q6, q7, q8, q9, q10, q11, q12, q13, q14, q15⟩ := q
  have n1 := not_lt.mpr q1
  have n2 := not_lt.mpr q2
  have n3 := not_lt.mpr q3
  have n4 := not_lt.mpr q4
  have n15 := not_lt.mpr q15
  cases k <;>
    simp only [collectFields, LeafKind.setSentinel, n1, n2, n3, n4, n15, hv, hin, ↓reduceIte,
      ne_eq, not_true_eq_false, and_false, false_and]

theorem setUserDefault_same (m : OptSt) (p : Option (Bool × CStr)) :
    SameSentinels (setUserDefault m p) m := by
  cases p <;> constructor <;> rfl

theorem tagName_arg_shortname : TagName (lit "arg_shortname") := by decide
theorem tagName_ev_shortname : TagName (lit "ev_shortname") := by decide
theorem tagName_arg_max : TagName (lit "arg_max") := by decide
theorem tagName_arg_min : TagName (lit "arg_min") := by decide

theorem optNameM_arg_shortname (ctx : Ctx) (c : Core) (m : OptSt)
    (h : c.currtagname = lit "arg_shortname") :
    optNameM ctx c m = .next { m with inargshortname := c.nestinglevel + 1 } := by
  unfold optNameM
  rw [h]
  rfl

theorem optNameM_ev_shortname (ctx : Ctx) (c : Core) (m : OptSt)
    (h : c.currtagname = lit "ev_shortname") :
    optNameM ctx c m = .next { m with inevshortname := c.nestinglevel + 1 } := by
  unfold optNameM
  rw [h]
  rfl

theorem optNameM_arg_max (ctx : Ctx) (c : Core) (m : OptSt) (h : c.currtagname = lit "arg_max") :
    optNameM ctx c m = .next { m with inargmax := c.nestinglevel + 1 } := by
  unfold optNameM
  rw [h]
  rfl

theorem optNameM_arg_min (ctx : Ctx) (c : Core) (m : OptSt) (h : c.currtagname = lit "arg_min") :
    optNameM ctx c m = .next { m with inargmin := c.nestinglevel + 1 } := by
  unfold optNameM
  rw [h]
  rfl

theorem endCore_close_level (s : OState) (t nm : CStr) (n : Int) (ha : AfterTag s (n + 1)) :
    (endCore s TAG_CLOSE t ['<', '/'] nm).nestinglevel = n := by
  show s.core.nestinglevel + TAG_CLOSE = n
  rw [ha.level, tagClose_eq]; omega

theorem nameCore_level (s : OState) (ty : Int) (t pre nm : CStr) (n : Int) (ha : AfterTag s n) :
    (nameCore s ty t pre nm).nestinglevel = n := ha.level

/-- The `arg_max` element as a scan. -/
theorem scans_argmax (ctx : Ctx) (s : OState) (ws text suf : CStr) (n : Int)
    (ha : AfterTag s n) (r : Rest s.m) (he : s.m.inenumval ≤ n) (ho : s.m.inoption ≤ n)
    (h0 : 0 ≤ n) (hws : ∀ c ∈ ws, c ≠ '<') (htext : ∀ c ∈ text, c ≠ '<') :
    Scans ctx s ((ws ++ ('<' :: lit "arg_max" ++ ['>'])) ++
        (text ++ ('<' :: '/' :: lit "arg_max" ++ ['>']))) suf n
      (s.core.out ++ ((ws ++ ('<' :: lit "arg_max" ++ ['>'])) ++
        (text ++ ('<' :: '/' :: lit "arg_max" ++ ['>']))))
      (argMaxEffect text s.m) := by
  have q : Quiet s.m n := r.quietAt h0 he
  obtain ⟨q1, q2, q3, q4, q5, q6, q7, q8, q9, q10, q11, q12, q13, q14, q15⟩ := q
  have hq : Quiet (argMaxEffect text s.m) n := by
    unfold argMaxEffect
    split <;> constructor <;> assumption
  have hi : (argMaxEffect text s.m).inoption = s.m.inoption := by
    unfold argMaxEffect
    split <;> rfl
  refine scans_pair ctx s ws (lit "arg_max") text suf n { s.m with inargmax := n + 1 }
    { s.m with inargmax := n + 2 } (argMaxEffect text s.m) ha hws htext tagName_arg_max
    (by decide) ?_ ?_ (by show s.m.inoption ≤ n + 1; omega)
    (fun s1 a1 => ?_) (fun s1 a1 => ?_) hq.inconstraints hq.inenumval (by rw [hi]; exact ho)
  · rw [optNameM_arg_max ctx _ _ rfl, nameCore_level s _ _ _ _ n ha]
  · constructor <;> dsimp only <;> omega
  · rw [optNameM_arg_max ctx _ _ rfl, nameCore_level s1 _ _ _ _ (n + 1) a1]
    have e : n + 1 + 1 = n + 2 := by omega
    rw [e]
  · have hl := endCore_close_level s1 text (lit "arg_max") n a1
    exact optEndM_of_overInArgMax ctx _ _ _ (by rw [hl]; exact q9)
      (overInArgMax_fire _ s.m (n + 2) (by rw [hl]; omega)) (by rw [hl]; exact hq)

/-- The `arg_min` element as a scan. -/
theorem scans_argmin (ctx : Ctx) (s : OState) (ws text suf : CStr) (n : Int)
    (ha : AfterTag s n) (r : Rest s.m) (he : s.m.inenumval ≤ n) (ho : s.m.inoption ≤ n)
    (h0 : 0 ≤ n) (hws : ∀ c ∈ ws, c ≠ '<') (htext : ∀ c ∈ text, c ≠ '<') :
    Scans ctx s ((ws ++ ('<' :: lit "arg_min" ++ ['>'])) ++
        (text ++ ('<' :: '/' :: lit "arg_min" ++ ['>']))) suf n
      (s.core.out ++ ((ws ++ ('<' :: lit "arg_min" ++ ['>'])) ++
        (text ++ ('<' :: '/' :: lit "arg_min" ++ ['>']))))
      (argMinEffect text s.m) := by
  have q : Quiet s.m n := r.quietAt h0 he
  obtain ⟨q1, q2, q3, q4, q5, q6, q7, q8, q9, q10, q11, q12, q13, q14, q15⟩ := q
  have hq : Quiet (argMinEffect text s.m) n := by
    unfold argMinEffect
    split <;> constructor <;> assumption
  have hi : (argMinEffect text s.m).inoption = s.m.inoption := by
    unfold argMinEffect
    split <;> rfl
  refine scans_pair ctx s ws (lit "arg_min") text suf n { s.m with inargmin := n + 1 }
    { s.m with inargmin := n + 2 } (argMinEffect text s.m) ha hws htext tagName_arg_min
    (by decide) ?_ ?_ (by show s.m.inoption ≤ n + 1; omega)
    (fun s1 a1 => ?_) (fun s1 a1 => ?_) hq.inconstraints hq.inenumval (by rw [hi]; exact ho)
  · rw [optNameM_arg_min ctx _ _ rfl, nameCore_level s _ _ _ _ n ha]
  · constructor <;> dsimp only <;> omega
  · rw [optNameM_arg_min ctx _ _ rfl, nameCore_level s1 _ _ _ _ (n + 1) a1]
    have e : n + 1 + 1 = n + 2 := by omega
    rw [e]
  · have hl := endCore_close_level s1 text (lit "arg_min") n a1
    exact optEndM_of_overInArgMin ctx _ _ _ (by rw [hl]; exact q9) (by rw [hl]; exact q10)
      (overInArgMin_fire _ s.m (n + 2) (by rw [hl]; omega)) (by rw [hl]; exact hq)

/-- A field element outside constraints as a scan: its text is not read. -/
theorem scans_field (ctx : Ctx) (s : OState) (l : Leaf) (suf : CStr) (n : Int)
    (ha : AfterTag s n) (r : Rest s.m) (he : s.m.inenumval ≤ n) (ho : s.m.inoption ≤ n)
    (h0 : 0 ≤ n) (hl : l.Clean) :
    Scans ctx s l.render suf n (s.core.out ++ l.render) (l.kind.setSentinel s.m 0) := by
  have q : Quiet s.m n := r.quietAt h0 he
  have hq : Quiet (l.kind.setSentinel s.m 0) n := quiet_setSentinel _ _ _ _ q h0
  unfold Leaf.render
  refine scans_pair ctx s l.ws l.kind.tag l.text suf n (l.kind.setSentinel s.m (n + 1))
    (l.kind.setSentinel s.m (n + 2)) (l.kind.setSentinel s.m 0) ha hl.1 hl.2 l.kind.tagName
    l.kind.tag_ne_option ?_ (quiet_setSentinel _ _ _ _ (q.mono (by omega)) (le_refl _))
    (by rw [setSentinel_inoption]; omega)
    (fun s1 a1 => ?_) (fun s1 a1 => ?_) hq.inconstraints hq.inenumval
    (by rw [setSentinel_inoption]; exact ho)
  · rw [optNameM_leaf ctx _ _ l.kind rfl, nameCore_level s _ _ _ _ n ha]
  · rw [optNameM_leaf ctx _ _ l.kind rfl, nameCore_level s1 _ _ _ _ (n + 1) a1,
      setSentinel_setSentinel]
    have e : n + 1 + 1 = n + 2 := by omega
    rw [e]
  · have hlv := endCore_close_level s1 l.text l.kind.tag n a1
    have hq2 : Quiet (l.kind.setSentinel s.m (n + 2)) (n + 2) :=
      quiet_setSentinel _ _ _ _ (q.mono (by omega)) (le_refl _)
    refine optEndM_of_collectFields ctx _ _ _ ?_ ?_ ?_ ?_ ?_ ?_ ?_
      (collectFields_field _ s.m l.kind (n + 2) (by rw [hlv]; omega) (by rw [hlv]; exact q)
        r.inconstraint) (by rw [hlv]; exact hq)
    all_goals rw [hlv]
    all_goals obtain ⟨q1, q2, q3, q4, q5, q6, q7, q8, q9, q10, q11, q12, q13, q14, q15⟩ := q
    all_goals cases l.kind <;> dsimp only [LeafKind.setSentinel] <;> assumption

/-- The `arg_shortname` element as a scan: the settings of the command line
that name the option are applied. -/
theorem scans_shortname (ctx : Ctx) (s : OState) (ws ws1 text ws2 suf : CStr) (n : Int)
    (ha : AfterTag s n) (r : Rest s.m) (he : s.m.inenumval ≤ n) (ho : s.m.inoption ≤ n)
    (h0 : 0 ≤ n) (hws : ∀ c ∈ ws, c ≠ '<') (hws1 : ∀ c ∈ ws1, c ≠ '<')
    (htext : ∀ c ∈ text, c ≠ '<') (hws2 : ∀ c ∈ ws2, c ≠ '<') :
    Scans ctx s (renderWrapped ws (lit "arg_shortname") ws1 text ws2) suf n
      (s.core.out ++ renderWrapped ws (lit "arg_shortname") ws1 text ws2)
      (shortnameEffect ctx text s.m) := by
  have q : Quiet s.m n := r.quietAt h0 he
  obtain ⟨q1, q2, q3, q4, q5, q6, q7, q8, q9, q10, q11, q12, q13, q14, q15⟩ := q
  have hmi : enEffect ctx text { s.m with inargshortname := n + 1 } =
      setUserDefault { s.m with inargshortname := n + 1, inen := 0 }
        (lastOutcome text s.m.optiontype ctx.defaultsettings) := by
    unfold enEffect
    rw [if_pos (by show n + 1 ≠ 0; omega), applySettings_outcome]
  have hsame : SameSentinels (shortnameEffect ctx text s.m)
      { s.m with inen := 0, inargshortname := 0 } := setUserDefault_same _ _
  have hq : Quiet (shortnameEffect ctx text s.m) n :=
    hsame.quietOf (by constructor <;> assumption)
  have hx : ({ setUserDefault { s.m with inargshortname := n + 1, inen := 0 }
      (lastOutcome text s.m.optiontype ctx.defaultsettings) with inargshortname := 0 } : OptSt) =
      shortnameEffect ctx text s.m := by
    unfold shortnameEffect
    cases lastOutcome text s.m.optiontype ctx.defaultsettings <;> rfl
  have hb : SameSentinels (setUserDefault { s.m with inargshortname := n + 1, inen := 0 }
      (lastOutcome text s.m.optiontype ctx.defaultsettings))
      { s.m with inargshortname := n + 1, inen := 0 } := setUserDefault_same _ _
  refine scans_wrap ctx s ws (lit "arg_shortname") _ ws2 suf n
    { s.m with inargshortname := n + 1 }
    (setUserDefault { s.m with inargshortname := n + 1, inen := 0 }
      (lastOutcome text s.m.optiontype ctx.defaultsettings))
    { setUserDefault { s.m with inargshortname := n + 1, inen := 0 }
      (lastOutcome text s.m.optiontype ctx.defaultsettings) with inargshortname := n + 2 }
    (shortnameEffect ctx text s.m) ha hws hws2 tagName_arg_shortname (by decide)
    ?_ ?_ (by show s.m.inoption ≤ n + 1; omega) ?_ (fun s2 a2 => ?_) (fun s2 a2 => ?_)
    hq.inconstraints hq.inenumval (by rw [hsame.inoption]; exact ho)
  · rw [optNameM_arg_shortname ctx _ _ rfl, nameCore_level s _ _ _ _ n ha]
  · constructor <;> dsimp only <;> omega
  · intro s1 suf1 a1 e1
    have := scans_en ctx s1 ws1 text suf1 (n + 1) a1
      (by rw [e1]; constructor <;> dsimp only <;> omega)
      (by rw [e1]; show s.m.inoption ≤ n + 1; omega) (by omega) hws1 htext
    rw [e1, hmi] at this
    exact this
  · rw [optNameM_arg_shortname ctx _ _ rfl, nameCore_level s2 _ _ _ _ (n + 1) a2]
    have e : n + 1 + 1 = n + 2 := by omega
    rw [e]
  · have hl := endCore_close_level s2 ws2 (lit "arg_shortname") n a2
    refine optEndM_of_clearSentinels ctx _ _ _ ?_ ?_ ?_
      ((clearSentinels_shortname _ _ (n + 2) (by rw [hl]; omega) ?_ ?_ ?_).trans hx)
      (by rw [hl]; exact hq)
    · rw [hl]; show (setUserDefault _ _).inen ≤ n; rw [hb.inen]; exact h0
    · rw [hl]; show (setUserDefault _ _).inargmax ≤ n; rw [hb.inargmax]; exact q10
    · rw [hl]; show (setUserDefault _ _).inargmin ≤ n; rw [hb.inargmin]; exact q11
    · rw [hl, hb.inargexecution]; exact q6
    · rw [hl, hb.inargpjl]; exact q7
    · rw [hl, hb.inevshortname]; exact q8

/-- The `ev_shortname` element as a scan: the short name of the enum value is
compared with the value of the user default. -/
theorem scans_evshortname (ctx : Ctx) (s : OState) (ws ws1 text ws2 suf : CStr) (n : Int)
    (ha : AfterTag s n) (r : Rest s.m) (he : s.m.inenumval ≤ n) (ho : s.m.inoption ≤ n)
    (h0 : 0 ≤ n) (hws : ∀ c ∈ ws, c ≠ '<') (hws1 : ∀ c ∈ ws1, c ≠ '<')
    (htext : ∀ c ∈ text, c ≠ '<') (hws2 : ∀ c ∈ ws2, c ≠ '<') :
    Scans ctx s (renderWrapped ws (lit "ev_shortname") ws1 text ws2) suf n
      (s.core.out ++ renderWrapped ws (lit "ev_shortname") ws1 text ws2)
      (evShortnameEffect text s.m) := by
  have q : Quiet s.m n := r.quietAt h0 he
  obtain ⟨q1, q2, q3, q4, q5, q6, q7, q8, q9, q10, q11, q12, q13, q14, q15⟩ := q
  have hsame : SameSentinels (evShortnameEffect text s.m)
      { s.m with inen := 0, inevshortname := 0 } := by
    unfold evShortnameEffect
    split <;> constructor <;> rfl
  have hq : Quiet (evShortnameEffect text s.m) n :=
    hsame.quietOf (by constructor <;> assumption)
  have hmi : enEffect ctx text { s.m with inevshortname := n + 1 } =
      { evShortnameEffect text s.m with inevshortname := n + 1 } := by
    unfold enEffect evShortnameEffect
    rw [if_neg (by simp [r.inargshortname])]
    by_cases hc : s.m.userdefault = true ∧ s.m.userdefaultvalue = text
    · rw [if_pos ⟨by show n + 1 ≠ 0; omega, hc⟩, if_pos hc]
    · rw [if_neg (fun h => hc h.2), if_neg hc]
  have hx : ({ evShortnameEffect text s.m with inevshortname := 0 } : OptSt) =
      evShortnameEffect text s.m := by
    unfold evShortnameEffect
    split <;> rfl
  refine scans_wrap ctx s ws (lit "ev_shortname") _ ws2 suf n
    { s.m with inevshortname := n + 1 }
    { evShortnameEffect text s.m with inevshortname := n + 1 }
    { evShortnameEffect text s.m with inevshortname := n + 2 }
    (evShortnameEffect text s.m) ha hws hws2 tagName_ev_shortname (by decide)
    ?_ ?_ (by show s.m.inoption ≤ n + 1; omega) ?_ (fun s2 a2 => ?_) (fun s2 a2 => ?_)
    hq.inconstraints hq.inenumval (by rw [hsame.inoption]; exact ho)
  · rw [optNameM_ev_shortname ctx _ _ rfl, nameCore_level s _ _ _ _ n ha]
  · constructor <;> dsimp only <;> omega
  · intro s1 suf1 a1 e1
    have := scans_en ctx s1 ws1 text suf1 (n + 1) a1
      (by rw [e1]; constructor <;> dsimp only <;> omega)
      (by rw [e1]; show s.m.inoption ≤ n + 1; omega) (by omega) hws1 htext
    rw [e1, hmi] at this
    exact this
  · rw [optNameM_ev_shortname ctx _ _ rfl, nameCore_level s2 _ _ _ _ (n + 1) a2]
    have e : n + 1 + 1 = n + 2 := by omega
    rw [e]
  · have hl := endCore_close_level s2 ws2 (lit "ev_shortname") n a2
    refine optEndM_of_clearSentinels ctx _ _ _ ?_ ?_ ?_
      ((clearSentinels_evshortname _ _ (n + 2) (by rw [hl]; omega) ?_ ?_ ?_).trans hx)
      (by rw [hl]; exact hq)
    · rw [hl]; exact hq.inen
    · rw [hl]; exact hq.inargmax
    · rw [hl]; exact hq.inargmin
    · rw [hl]; exact hq.inargshortname
    · rw [hl]; exact hq.inargexecution
    · rw [hl]; exact hq.inargpjl

theorem rest_setSentinel (k : LeafKind) (m : OptSt) (r : Rest m) : Rest (k.setSentinel m 0) := by
  obtain ⟨q1, q2, q3, q4, q5, q6, q7, q8, q9, q10, q11, q12, q13, q14⟩ := r
  cases k <;> constructor <;> first | assumption | rfl

theorem setSentinel_inenumval (k : LeafKind) (m : OptSt) (v : Int) :
    (k.setSentinel m v).inenumval = m.inenumval := by
  cases k <;> rfl

theorem frame_filler (f : Filler) (m : OptSt) (e o : Int) (h : Frame m e o) :
    Frame (f.effect m) e o := by
  obtain ⟨r, h1, h2⟩ := h
  cases f with
  | plain ws nm text => exact ⟨r, h1, h2⟩
  | field l =>
    exact ⟨rest_setSentinel _ _ r, by rw [← h1]; exact setSentinel_inenumval _ _ _,
      by rw [← h2]; exact setSentinel_inoption _ _ _⟩
  | wrapped ws nm ws1 text ws2 =>
    obtain ⟨q1, q2, q3, q4, q5, q6, q7, q8, q9, q10, q11, q12, q13, q14⟩ := r
    exact ⟨by constructor <;> first | assumption | rfl, h1, h2⟩

/-- A filler element as a scan. -/
theorem scans_filler (ctx : Ctx) (s : OState) (f : Filler) (suf : CStr) (n e o : Int)
    (ha : AfterTag s n) (hf : Frame s.m e o) (he : e ≤ n) (ho : o ≤ n) (h0 : 0 ≤ n)
    (hc : f.Clean) :
    Scans ctx s f.render suf n (s.core.out ++ f.render) (f.effect s.m) := by
  obtain ⟨r, h1, h2⟩ := hf
  cases f with
  | plain ws nm text =>
    exact scans_plain ctx s ws nm text suf n ha (r.quietAt h0 (by omega)) (by omega)
      hc.1 hc.2.1 hc.2.2.1 hc.2.2.2
  | field l => exact scans_field ctx s l suf n ha r (by omega) (by omega) h0 hc
  | wrapped ws nm ws1 text ws2 =>
    exact scans_wrapped ctx s ws nm ws1 text ws2 suf n ha r (by omega) (by omega) h0
      hc.1 hc.2.1 hc.2.2.1 hc.2.2.2.1 hc.2.2.2.2.1 hc.2.2.2.2.2

theorem frame_evShortname (text : CStr) (m : OptSt) (e o : Int) (h : Frame m e o) :
    Frame (evShortnameEffect text m) e o := by
  obtain ⟨r, h1, h2⟩ := h
  obtain ⟨q1, q2, q3, q4, q5, q6, q7, q8, q9, q10, q11, q12, q13, q14⟩ := r
  unfold evShortnameEffect
  split <;> exact ⟨by constructor <;> first | assumption | rfl, h1, h2⟩

theorem frame_evItem (i : EvItem) (m : OptSt) (e o : Int) (h : Frame m e o) :
    Frame (i.effect m) e o := by
  cases i with
  | filler f => exact frame_filler f m e o h
  | shortname ws ws1 text ws2 => exact frame_evShortname text m e o h

/-- A child element of an enum value as a scan. -/
theorem scans_evItem (ctx : Ctx) (s : OState) (i : EvItem) (suf : CStr) (n e o : Int)
    (ha : AfterTag s n) (hf : Frame s.m e o) (he : e ≤ n) (ho : o ≤ n) (h0 : 0 ≤ n)
    (hc : i.Clean) :
    Scans ctx s i.render suf n (s.core.out ++ i.render) (i.effect s.m) := by
  cases i with
  | filler f => exact scans_filler ctx s f suf n e o ha hf he ho h0 hc
  | shortname ws ws1 text ws2 =>
    obtain ⟨r, h1, h2⟩ := hf
    exact scans_evshortname ctx s ws ws1 text ws2 suf n ha r (by omega) (by omega) h0
      hc.1 hc.2.1 hc.2.2.1 hc.2.2.2

theorem frame_evItems (l : List EvItem) (m : OptSt) (e o : Int) (h : Frame m e o) :
    Frame (evItemsEffect l m) e o := by
  induction l generalizing m with
  | nil => exact h
  | cons i l ih => exact ih _ (frame_evItem i m e o h)

/-- A list of child elements of an enum value as a scan. -/
theorem scans_evItems (ctx : Ctx) (l : List EvItem) (s : OState) (suf : CStr) (n e o : Int)
    (ha : AfterTag s n) (hf : Frame s.m e o) (he : e ≤ n) (ho : o ≤ n) (h0 : 0 ≤ n)
    (hc : ∀ i ∈ l, i.Clean) :
    Scans ctx s (renderEvItems l) suf n (s.core.out ++ renderEvItems l)
      (evItemsEffect l s.m) := by
  induction l generalizing s with
  | nil =>
    simp only [renderEvItems, evItemsEffect, List.append_nil]
    exact scans_nil ctx s suf n ha
  | cons i l ih =>
    simp only [renderEvItems, evItemsEffect]
    refine Scans.append (scans_evItem ctx s i _ n e o ha hf he ho h0 (hc i (by simp))) ?_
    intro s1 a1 o1 m1
    have := ih s1 a1 (by rw [m1]; exact frame_evItem i s.m e o hf)
      (fun i' h' => hc i' (by simp [h']))
    rw [o1, m1, List.append_assoc] at this
    exact this

theorem sentinelBehind_zero (k : LeafKind) (ls : List Leaf) : sentinelBehind k ls 0 = 0 := by
  induction ls with
  | nil => rfl
  | cons l ls ih =>
    simp only [sentinelBehind, ite_self]
    exact ih

theorem rest_collect (c : Constraint) (m : OptSt) (r : Rest m) :
    Rest (collect c.fields (c.start 0 m)) := by
  obtain ⟨q1, q2, q3, q4, q5, q6, q7, q8, q9, q10, q11, q12, q13, q14⟩ := r
  constructor
  all_goals first
    | assumption
    | rfl
    | (show sentinelBehind _ _ _ = 0
       first
        | (show sentinelBehind _ _ m.inmake = 0; rw [q1]; exact sentinelBehind_zero _ _)
        | (show sentinelBehind _ _ m.inmodel = 0; rw [q2]; exact sentinelBehind_zero _ _)
        | (show sentinelBehind _ _ m.indriver = 0; rw [q3]; exact sentinelBehind_zero _ _)
        | (show sentinelBehind _ _ m.inprinter = 0; rw [q4]; exact sentinelBehind_zero _ _)
        | (show sentinelBehind _ _ m.inargdefault = 0; rw [q14]; exact sentinelBehind_zero _ _))

theorem rest_constraint_effect (ctx : Ctx) (c : Constraint) (m : OptSt) (r : Rest m) :
    Rest (c.effect ctx m) := by
  rw [constraint_effect_cases]
  have h := rest_collect c m r
  split
  · obtain ⟨q1, q2, q3, q4, q5, q6, q7, q8, q9, q10, q11, q12, q13, q14⟩ := h
    constructor <;> assumption
  · exact h

theorem rest_constraintsEffect (ctx : Ctx) (cs : List Constraint) (m : OptSt) (r : Rest m) :
    Rest (constraintsEffect ctx cs m) := by
  induction cs generalizing m with
  | nil => exact r
  | cons c cs ih => exact ih _ (rest_constraint_effect ctx c m r)

theorem rest_verdict (ctx : Ctx) (b : Block) (mark : Nat) (m : OptSt) (r : Rest m) :
    Rest (b.verdict ctx mark m) := by
  obtain ⟨q1, q2, q3, q4, q5, q6, q7, q8, q9, q10, q11, q12, q13, q14⟩ := r
  exact rest_constraintsEffect ctx _ _ (by constructor <;> first | assumption | rfl)

theorem verdict_inenumval (ctx : Ctx) (b : Block) (mark : Nat) (m : OptSt) :
    (b.verdict ctx mark m).inenumval = m.inenumval := by
  unfold Block.verdict
  rw [constraintsEffect_inenumval]
  rfl

theorem verdict_lastconstraints (ctx : Ctx) (b : Block) (mark : Nat) (m : OptSt) :
    (b.verdict ctx mark m).lastconstraints = some mark := by
  unfold Block.verdict
  rw [constraintsEffect_lastconstraints]
  rfl

theorem verdict_enumvaltoberemoved (ctx : Ctx) (b : Block) (mark : Nat) (m : OptSt) :
    (b.verdict ctx mark m).enumvaltoberemoved = m.enumvaltoberemoved := by
  unfold Block.verdict
  rw [constraintsEffect_enumvaltoberemoved]
  rfl

theorem verdict_lastenumval (ctx : Ctx) (b : Block) (mark : Nat) (m : OptSt) :
    (b.verdict ctx mark m).lastenumval = m.lastenumval := by
  unfold Block.verdict
  rw [constraintsEffect_lastenumval]
  rfl

theorem verdict_numenumvals (ctx : Ctx) (b : Block) (mark : Nat) (m : OptSt) :
    (b.verdict ctx mark m).numenumvals = m.numenumvals := by
  unfold Block.verdict
  rw [constraintsEffect_numenumvals]
  rfl

theorem frame_verdict (ctx : Ctx) (b : Block) (mark : Nat) (m : OptSt) (e o : Int)
    (h : Frame m e o) : Frame (b.verdict ctx mark m) e o :=
  ⟨rest_verdict ctx b mark m h.rest, (verdict_inenumval ctx b mark m).trans h.inenumval,
    (verdict_inoption ctx b mark m).trans h.inoption⟩

theorem Frame.quietFrom {m : OptSt} {e o lv : Int} (h : Frame m e o) (h0 : 0 ≤ lv) (he : e ≤ lv) :
    Quiet m lv :=
  h.rest.quietAt h0 (by rw [h.inenumval]; exact he)

theorem tagWord_idWord (id : CStr) (h : ∀ c ∈ id, c ≠ chDQ ∧ c ≠ chSQ) : TagWord (idWord id) :=
  TagWord.quoted 'i' (lit "d=") id (by decide) h

theorem optNameM_enum_val_open (ctx : Ctx) (c : Core) (m : OptSt) (e : Nat)
    (h1 : c.currtagname = lit "enum_val") (h2 : c.tagtype = TAG_OPEN)
    (h3 : c.lasttagend = some e) :
    optNameM ctx c m = .next { m with
      inenumval := c.nestinglevel + 1, enumvalqualified := true, enumvaltoberemoved := false,
      lastenumval := some (e + 1) } := by
  unfold optNameM
  rw [h1, h2, h3]
  rfl

theorem dropLast_append_singleton (l : CStr) (a : Char) : (l ++ [a]).dropLast = l := by
  simp

theorem optParamM_enum_val_id (c : Core) (m : OptSt) (id : CStr)
    (h1 : c.currtagname = lit "enum_val") (h2 : c.currtagparam = idWord id) :
    optParamM c m = { m with currevid := id } := by
  unfold optParamM
  rw [h1, h2]
  have e1 : strstr (idWord id) (lit "id") = some (idWord id) := by
    unfold idWord strstr
    rfl
  have e2 : ((idWord id).drop 4).dropLast = id := by
    show (id ++ [chDQ]).dropLast = id
    exact dropLast_append_singleton id chDQ
  rw [if_neg (by decide), if_neg (by decide), if_pos rfl]
  simp only [e1, e2]

theorem SameData.reflD (m : OptSt) : SameData m m := by
  constructor <;> rfl

theorem SameData.transD {a b c : OptSt} (h1 : SameData a b) (h2 : SameData b c) :
    SameData a c := by
  obtain ⟨a1, a2, a3, a4, a5, a6, a7, a8, a9, a10, a11, a12, a13, a14, a15, a16, a17, a18, a19,
    a20, a21, a22⟩ := h1
  obtain ⟨b1, b2, b3, b4, b5, b6, b7, b8, b9, b10, b11, b12, b13, b14, b15, b16, b17, b18, b19,
    b20, b21, b22⟩ := h2
  exact ⟨a1.trans b1, a2.trans b2, a3.trans b3, a4.trans b4, a5.trans b5, a6.trans b6,
    a7.trans b7, a8.trans b8, a9.trans b9, a10.trans b10, a11.trans b11, a12.trans b12,
    a13.trans b13, a14.trans b14, a15.trans b15, a16.trans b16, a17.trans b17, a18.trans b18,
    a19.trans b19, a20.trans b20, a21.trans b21, a22.trans b22⟩

theorem sameData_filler (f : Filler) (m : OptSt) : SameData (f.effect m) m := by
  cases f with
  | plain ws nm text => exact SameData.reflD m
  | field l =>
    show SameData (l.kind.setSentinel m 0) m
    cases l.kind <;> constructor <;> rfl
  | wrapped ws nm ws1 text ws2 => constructor <;> rfl

theorem sameData_evShortname (text : CStr) (m : OptSt) :
    SameData (evShortnameEffect text m) m := by
  unfold evShortnameEffect
  split <;> constructor <;> rfl

theorem sameData_evItem (i : EvItem) (m : OptSt) : SameData (i.effect m) m := by
  cases i with
  | filler f => exact sameData_filler f m
  | shortname ws ws1 text ws2 => exact sameData_evShortname text m

theorem sameData_evItems (l : List EvItem) (m : OptSt) : SameData (evItemsEffect l m) m := by
  induction l generalizing m with
  | nil => exact SameData.reflD m
  | cons i l ih => exact (ih _).transD (sameData_evItem i m)

theorem frame_judgeBlock (ctx : Ctx) (mark : Nat) (m : OptSt) (ob : Option Block) (e o : Int)
    (h : Frame m e o) : Frame (judgeBlock ctx mark m ob) e o := by
  cases ob with
  | none => exact h
  | some b =>
    obtain ⟨r, h1, h2⟩ := frame_verdict ctx b mark m e o h
    obtain ⟨q1, q2, q3, q4, q5, q6, q7, q8, q9, q10, q11, q12, q13, q14⟩ := r
    simp only [judgeBlock]
    split <;> exact ⟨by constructor <;> first | assumption | rfl, h1, h2⟩

theorem judgeBlock_lastenumval (ctx : Ctx) (mark : Nat) (m : OptSt) (ob : Option Block) :
    (judgeBlock ctx mark m ob).lastenumval = m.lastenumval := by
  cases ob with
  | none => rfl
  | some b =>
    simp only [judgeBlock]
    split <;> exact verdict_lastenumval ctx b mark m

theorem judgeBlock_numenumvals (ctx : Ctx) (mark : Nat) (m : OptSt) (ob : Option Block) :
    (judgeBlock ctx mark m ob).numenumvals = m.numenumvals := by
  cases ob with
  | none => rfl
  | some b =>
    simp only [judgeBlock]
    split <;> exact verdict_numenumvals ctx b mark m

/-- The optional `constraints` block of an enum value as a scan: a block that
leaves the enum value in place is cut out, a block that marks the enum value
for removal stays. -/
theorem scans_optBlock (ctx : Ctx) (s : OState) (ob : Option Block) (suf : CStr) (n e o : Int)
    (ha : AfterTag s n) (hf : Frame s.m e o) (hne : e ≠ 0) (he : e ≤ n) (ho : o ≤ n)
    (h0 : 0 ≤ n) (hc : ∀ b ∈ ob, b.Clean) :
    Scans ctx s (renderBlock ob) suf n
      (if (judgeBlock ctx s.core.out.length s.m ob).enumvaltoberemoved = true ∧ ob.isSome = true
        then s.core.out ++ renderBlock ob else s.core.out)
      (judgeBlock ctx s.core.out.length s.m ob) := by
  cases ob with
  | none =>
    simp only [renderBlock, judgeBlock, Option.isSome_none, Bool.false_eq_true, and_false,
      ↓reduceIte]
    exact scans_nil ctx s suf n ha
  | some b =>
    have hq : Quiet s.m n := hf.quietFrom h0 he
    have hi : s.m.inoption ≤ n := by rw [hf.inoption]; exact ho
    have hv : (b.verdict ctx s.core.out.length s.m).inenumval ≠ 0 := by
      rw [verdict_inenumval, hf.inenumval]; exact hne
    have hb : b.Clean := hc b rfl
    simp only [renderBlock, judgeBlock, Option.isSome_some, and_true]
    by_cases hk : (b.verdict ctx s.core.out.length s.m).enumvalqualified = true ∧
        (b.verdict ctx s.core.out.length s.m).enumvaltoberemoved = false
    · rw [if_pos hk]
      have h1 : ({ b.verdict ctx s.core.out.length s.m with inconstraints := 0 } :
          OptSt).enumvaltoberemoved ≠ true := by
        show (b.verdict ctx s.core.out.length s.m).enumvaltoberemoved ≠ true
        rw [hk.2]; simp
      rw [if_neg h1]
      exact scans_block_keep ctx s b suf n ha hq hi h0 hb (by rw [if_neg hv]; exact hk)
        (verdict_lastconstraints ctx b _ s.m)
    · rw [if_neg hk, if_pos rfl]
      refine scans_block_mark ctx s b suf n ha hq hi h0 hb hv ?_
      by_cases h1 : (b.verdict ctx s.core.out.length s.m).enumvalqualified = true
      · right
        by_contra h2
        exact hk ⟨h1, by simpa using h2⟩
      · left
        simpa using h1

theorem Rest.calmAt {m : OptSt} {lv : Int} (r : Rest m) (h0 : 0 ≤ lv) : Calm m lv := by
  obtain ⟨q1, q2, q3, q4, q5, q6, q7, q8, q9, q10, q11, q12, q13, q14⟩ := r
  constructor <;> omega

theorem frame_start (ev : EnumVal) (n : Int) (out : CStr) (m : OptSt) (o : Int)
    (h : Frame m 0 o) : Frame (ev.start n out m) (n + 1) o := by
  obtain ⟨r, h1, h2⟩ := h
  obtain ⟨q1, q2, q3, q4, q5, q6, q7, q8, q9, q10, q11, q12, q13, q14⟩ := r
  exact ⟨by constructor <;> assumption, rfl, h2⟩

theorem frame_judged (ctx : Ctx) (ev : EnumVal) (n : Int) (out : CStr) (m : OptSt) (o : Int)
    (h : Frame m 0 o) : Frame (ev.judged ctx n out m) (n + 1) o :=
  frame_judgeBlock ctx _ _ _ _ _ (frame_evItems _ _ _ _ (frame_start ev n out m o h))

theorem judged_lastenumval (ctx : Ctx) (ev : EnumVal) (n : Int) (out : CStr) (m : OptSt) :
    (ev.judged ctx n out m).lastenumval = some out.length := by
  unfold EnumVal.judged
  rw [judgeBlock_lastenumval, (sameData_evItems _ _).lastenumval]
  rfl

/-- An enum value as a scan: an enum value whose `constraints` block does not
qualify it is cut out of the buffer, white space in front of it included; any
other enum value stays without its block and is counted. -/
theorem scans_enumVal (ctx : Ctx) (s : OState) (ev : EnumVal) (suf : CStr) (n o : Int)
    (ha : AfterTag s n) (hf : Frame s.m 0 o) (ho : o ≤ n) (h0 : 0 ≤ n) (hc : ev.Clean) :
    Scans ctx s ev.render suf n (ev.run ctx n (s.core.out, s.m)).1
      (ev.run ctx n (s.core.out, s.m)).2 := by
  obtain ⟨hc1, hc2, hc3, hc4, hc5⟩ := hc
  have hp := length_pos_of_ne_nil ha.nonempty
  have hf1 : Frame (ev.start n s.core.out s.m) (n + 1) o := frame_start ev n _ _ o hf
  have hopen := scans_open_param ctx s ev.ws (lit "enum_val") (idWord ev.id)
    (renderEvItems ev.items ++ (renderBlock ev.block ++ ev.tail) ++ suf) n
    { s.m with
      inenumval := n + 1, enumvalqualified := true, enumvaltoberemoved := false,
      lastenumval := some s.core.out.length }
    (ev.start n s.core.out s.m) ha hc1 tagName_enum_val (by decide) (tagWord_idWord _ hc2)
    (by
      rw [optNameM_enum_val_open ctx (nameCore s TAG_OPEN ev.ws ['<'] (lit "enum_val")) _
        (s.core.out.length - 1) rfl rfl ha.mark, nameCore_level s _ _ _ _ n ha]
      have e : s.core.out.length - 1 + 1 = s.core.out.length := by omega
      rw [e])
    (by rw [optParamM_enum_val_id _ _ ev.id rfl rfl]; rfl)
    (hf1.quietFrom (by omega) (le_refl _)) (by rw [hf1.inoption]; omega)
  unfold EnumVal.render
  refine Scans.append hopen ?_
  intro s1 a1 o1 e1
  refine Scans.append (scans_evItems ctx ev.items s1 _ (n + 1) (n + 1) o a1
    (by rw [e1]; exact hf1) (le_refl _) (by omega) (by omega) hc3) ?_
  intro s2 a2 o2 e2
  have hf2 : Frame s2.m (n + 1) o := by
    rw [e2, e1]; exact frame_evItems _ _ _ _ hf1
  have ho2 : s2.core.out = s.core.out ++ (ev.head ++ renderEvItems ev.items) := by
    rw [o2, o1, List.append_assoc]
    rfl
  refine Scans.append (scans_optBlock ctx s2 ev.block (ev.tail ++ suf) (n + 1) (n + 1) o a2 hf2
    (by omega) (le_refl _) (by omega) (by omega) hc4) ?_
  intro s3 a3 o3 e3
  have hj : s3.m = ev.judged ctx n s.core.out s.m := by
    rw [e3, e2, e1, ho2]
    rfl
  have hf3 : Frame s3.m (n + 1) o := by
    rw [hj]; exact frame_judged ctx ev n _ _ o hf
  have hcalm : Calm s3.m (n + 1 - 1) := hf3.rest.calmAt (by omega)
  have hic : s3.m.inconstraints ≤ n + 1 - 1 := by rw [hf3.rest.inconstraints]; omega
  have hio : s3.m.inoption ≤ n + 1 - 1 := by rw [hf3.inoption]; omega
  have e0 : n + 1 - 1 = n := by omega
  unfold EnumVal.run
  dsimp only
  by_cases hr : (ev.judged ctx n s.core.out s.m).enumvaltoberemoved = true
  · rw [if_pos hr]
    have hpre : ∃ x, s3.core.out = s.core.out ++ x := by
      rw [o3, ho2]
      split
      · exact ⟨_, List.append_assoc _ _ _⟩
      · exact ⟨_, rfl⟩
    obtain ⟨x, hx⟩ := hpre
    have hcut := scans_enum_val_cut ctx s3 ev.wsEnd suf (n + 1) s.core.out.length a3 hcalm hic
      hio hc5 (by rw [hj]; exact hr) (by rw [hj]; exact judged_lastenumval ctx ev n _ _)
      ⟨hp, by rw [hx, List.length_append]; omega⟩
    rw [hx, List.take_left, hj, e0] at hcut
    exact hcut
  · rw [if_neg hr]
    have hr3 : s3.m.enumvaltoberemoved = false := by
      rw [hj]; simpa using hr
    have hkeep := scans_enum_val_keep ctx s3 ev.wsEnd suf (n + 1) a3 hcalm hic hio hc5 hr3
    have ho3 : s3.core.out = s2.core.out := by
      rw [o3, if_neg]
      rintro ⟨h1, _⟩
      rw [← e3, hr3] at h1
      exact absurd h1 (by simp)
    rw [ho3, ho2, hj, e0] at hkeep
    have ek : s.core.out ++ (ev.head ++ renderEvItems ev.items) ++
        (ev.wsEnd ++ ('<' :: '/' :: lit "enum_val" ++ ['>'])) = s.core.out ++ ev.kept := by
      unfold EnumVal.kept EnumVal.tail
      simp only [List.append_assoc]
    rw [ek] at hkeep
    exact hkeep

theorem frame_enumVal_run (ctx : Ctx) (ev : EnumVal) (n : Int) (x : CStr × OptSt) (o : Int)
    (h : Frame x.2 0 o) : Frame (ev.run ctx n x).2 0 o := by
  obtain ⟨r, h1, h2⟩ := frame_judged ctx ev n x.1 x.2 o h
  obtain ⟨q1, q2, q3, q4, q5, q6, q7, q8, q9, q10, q11, q12, q13, q14⟩ := r
  unfold EnumVal.run
  split <;> exact ⟨by constructor <;> assumption, rfl, h2⟩

theorem enumVal_run_nonempty (ctx : Ctx) (ev : EnumVal) (n : Int) (x : CStr × OptSt)
    (h : x.1 ≠ []) : (ev.run ctx n x).1 ≠ [] := by
  unfold EnumVal.run
  split
  · exact h
  · simp [h]

/-- A list of enum values as a scan. -/
theorem scans_enumVals (ctx : Ctx) (l : List EnumVal) (s : OState) (suf : CStr) (n o : Int)
    (ha : AfterTag s n) (hf : Frame s.m 0 o) (ho : o ≤ n) (h0 : 0 ≤ n)
    (hc : ∀ ev ∈ l, ev.Clean) :
    Scans ctx s (renderEnumVals l) suf n (runEnumVals ctx n l (s.core.out, s.m)).1
      (runEnumVals ctx n l (s.core.out, s.m)).2 := by
  induction l generalizing s with
  | nil => exact scans_nil ctx s suf n ha
  | cons ev l ih =>
    simp only [renderEnumVals, runEnumVals]
    refine Scans.append (scans_enumVal ctx s ev _ n o ha hf ho h0 (hc ev (by simp))) ?_
    intro s1 a1 o1 m1
    have := ih s1 a1 (by rw [m1]; exact frame_enumVal_run ctx ev n _ o hf)
      (fun ev' h' => hc ev' (by simp [h']))
    rw [o1, m1] at this
    exact this

theorem ScansTo.appendTo {ctx : Ctx} {s : OState} {a b suf : CStr} {n : Int} {o1 : CStr}
    {m1 : OptSt} {r : Step (CStr × OptSt)} (h1 : Scans ctx s a (b ++ suf) n o1 m1)
    (h2 : ∀ s1 : OState, AfterTag s1 n → s1.core.out = o1 → s1.m = m1 →
      ScansTo ctx s1 b suf n r) :
    ScansTo ctx s (a ++ b) suf n r := by
  obtain ⟨s1, e1, a1, ho1, hm1, hc1⟩ := h1
  have h := h2 s1 a1 ho1 hm1
  cases r with
  | next x => exact Scans.append ⟨s1, e1, a1, ho1, hm1, hc1⟩ h2
  | discard k =>
    show scanPrefix _ _ _ _ = _
    rw [scanPrefix_append, e1, Step.bind_next]
    have h' : scanPrefix (optionHooks ctx) s1 b suf = .discard s1.core.comboconfirmed := h
    rw [h', hc1]
  | fatal => exact h
  | undefined => exact h

theorem frame_runEnumVals (ctx : Ctx) (n : Int) (l : List EnumVal) (x : CStr × OptSt) (o : Int)
    (h : Frame x.2 0 o) : Frame (runEnumVals ctx n l x).2 0 o := by
  induction l generalizing x with
  | nil => exact h
  | cons ev l ih => exact ih _ (frame_enumVal_run ctx ev n x o h)

theorem tagName_enum_vals : TagName (lit "enum_vals") := by decide

theorem unknown_enum_vals : Unknown (lit "enum_vals") := by decide

/-- The element `enum_vals` with its enum values as a scan. -/
theorem scans_enumvals (ctx : Ctx) (s : OState) (ws : CStr) (evs : List EnumVal)
    (wsEnd suf : CStr) (n o : Int)
    (ha : AfterTag s n) (hf : Frame s.m 0 o) (ho : o ≤ n) (h0 : 0 ≤ n)
    (hws : ∀ c ∈ ws, c ≠ '<') (hc : ∀ ev ∈ evs, ev.Clean) (hwsEnd : ∀ c ∈ wsEnd, c ≠ '<') :
    Scans ctx s (Item.enumvals ws evs wsEnd).render suf n
      ((runEnumVals ctx (n + 1) evs
          (s.core.out ++ (ws ++ ('<' :: lit "enum_vals" ++ ['>'])), s.m)).1 ++
        (wsEnd ++ ('<' :: '/' :: lit "enum_vals" ++ ['>'])))
      (runEnumVals ctx (n + 1) evs
        (s.core.out ++ (ws ++ ('<' :: lit "enum_vals" ++ ['>'])), s.m)).2 := by
  have q : Quiet s.m n := hf.quietFrom h0 (by omega)
  have hopen := scans_open ctx s ws (lit "enum_vals")
    (renderEnumVals evs ++ (wsEnd ++ ('<' :: '/' :: lit "enum_vals" ++ ['>'])) ++ suf) n s.m
    ha hws tagName_enum_vals (by decide) (optNameM_unknown ctx _ _ unknown_enum_vals)
    (q.mono (by omega)) (by rw [hf.inoption]; omega)
  unfold Item.render
  refine Scans.append hopen ?_
  intro s1 a1 o1 m1
  have hevs := scans_enumVals ctx evs s1 ((wsEnd ++ ('<' :: '/' :: lit "enum_vals" ++ ['>'])) ++ suf)
    (n + 1) o a1 (by rw [m1]; exact hf) (by omega) (by omega) hc
  rw [o1, m1] at hevs
  refine Scans.append hevs ?_
  intro s2 a2 o2 m2
  have hf2 : Frame s2.m 0 o := by
    rw [m2]
    exact frame_runEnumVals ctx (n + 1) evs _ o hf
  have q2 : Quiet s2.m n := hf2.quietFrom h0 (by omega)
  have hclose := scans_close_pure ctx s2 wsEnd (lit "enum_vals") suf (n + 1) s2.m s2.m a2 hwsEnd
    tagName_enum_vals (optNameM_unknown ctx _ _ unknown_enum_vals)
    (optEndM_quiet ctx _ _ (by rw [endCore_close_level s2 _ _ n a2]; exact q2))
    (by have := q2.inconstraints; omega) (by have := q2.inenumval; omega)
    (by rw [hf2.inoption]; omega)
  have e0 : n + 1 - 1 = n := by omega
  rw [e0, o2, m2] at hclose
  exact hclose

theorem frame_shortnameEffect (ctx : Ctx) (text : CStr) (m : OptSt) (e o : Int)
    (h : Frame m e o) : Frame (shortnameEffect ctx text m) e o := by
  obtain ⟨r, h1, h2⟩ := h
  obtain ⟨q1, q2, q3, q4, q5, q6, q7, q8, q9, q10, q11, q12, q13, q14⟩ := r
  have hs : SameSentinels (shortnameEffect ctx text m)
      { m with inen := 0, inargshortname := 0 } := setUserDefault_same _ _
  exact ⟨hs.rest (by constructor <;> first | assumption | rfl), hs.inenumval.trans h1,
    hs.inoption.trans h2⟩

theorem frame_argMaxEffect (text : CStr) (m : OptSt) (e o : Int) (h : Frame m e o) :
    Frame (argMaxEffect text m) e o := by
  obtain ⟨r, h1, h2⟩ := h
  obtain ⟨q1, q2, q3, q4, q5, q6, q7, q8, q9, q10, q11, q12, q13, q14⟩ := r
  unfold argMaxEffect
  split <;> exact ⟨by constructor <;> first | assumption | rfl, h1, h2⟩

theorem frame_argMinEffect (text : CStr) (m : OptSt) (e o : Int) (h : Frame m e o) :
    Frame (argMinEffect text m) e o := by
  obtain ⟨r, h1, h2⟩ := h
  obtain ⟨q1, q2, q3, q4, q5, q6, q7, q8, q9, q10, q11, q12, q13, q14⟩ := r
  unfold argMinEffect
  split <;> exact ⟨by constructor <;> first | assumption | rfl, h1, h2⟩

theorem frame_item_run (ctx : Ctx) (n : Int) (i : Item) (x y : CStr × OptSt) (o : Int)
    (h : i.run ctx n x = .next y) (hf : Frame x.2 0 o) : Frame y.2 0 o := by
  cases i with
  | filler f =>
    cases h
    exact frame_filler f _ _ _ hf
  | shortname ws ws1 text ws2 =>
    cases h
    exact frame_shortnameEffect ctx text _ _ _ hf
  | argmax ws text =>
    cases h
    exact frame_argMaxEffect text _ _ _ hf
  | argmin ws text =>
    cases h
    exact frame_argMinEffect text _ _ _ hf
  | block b =>
    simp only [Item.run] at h
    split at h
    · cases h
    · cases h
      obtain ⟨r, h1, h2⟩ := frame_verdict ctx b x.1.length x.2 0 o hf
      obtain ⟨q1, q2, q3, q4, q5, q6, q7, q8, q9, q10, q11, q12, q13, q14⟩ := r
      exact ⟨by constructor <;> first | assumption | rfl, h1, h2⟩
  | enumvals ws evs wsEnd =>
    cases h
    exact frame_runEnumVals ctx (n + 1) evs _ o hf

theorem item_run_nonempty (ctx : Ctx) (n : Int) (i : Item) (x y : CStr × OptSt)
    (h : i.run ctx n x = .next y) (hx : x.1 ≠ []) : y.1 ≠ [] := by
  cases i with
  | filler f => cases h; simp [hx]
  | shortname ws ws1 text ws2 => cases h; simp [hx]
  | argmax ws text => cases h; simp [hx]
  | argmin ws text => cases h; simp [hx]
  | block b =>
    simp only [Item.run] at h
    split at h
    · cases h
    · cases h; exact hx
  | enumvals ws evs wsEnd => cases h; simp

/-- A child element of the option as a scan. -/
theorem scansTo_item (ctx : Ctx) (s : OState) (i : Item) (suf : CStr) (n o : Int)
    (ha : AfterTag s n) (hf : Frame s.m 0 o) (ho : o ≤ n) (h0 : 0 ≤ n) (hc : i.Clean) :
    ScansTo ctx s i.render suf n (i.run ctx n (s.core.out, s.m)) := by
  cases i with
  | filler f => exact scans_filler ctx s f suf n 0 o ha hf h0 ho h0 hc
  | shortname ws ws1 text ws2 =>
    exact scans_shortname ctx s ws ws1 text ws2 suf n ha hf.rest (by rw [hf.inenumval]; exact h0)
      (by rw [hf.inoption]; exact ho) h0 hc.1 hc.2.1 hc.2.2.1 hc.2.2.2
  | argmax ws text =>
    exact scans_argmax ctx s ws text suf n ha hf.rest (by rw [hf.inenumval]; exact h0)
      (by rw [hf.inoption]; exact ho) h0 hc.1 hc.2
  | argmin ws text =>
    exact scans_argmin ctx s ws text suf n ha hf.rest (by rw [hf.inenumval]; exact h0)
      (by rw [hf.inoption]; exact ho) h0 hc.1 hc.2
  | block b =>
    have hq : Quiet s.m n := hf.quietFrom h0 h0
    have hi : s.m.inoption ≤ n := by rw [hf.inoption]; exact ho
    have hv : (b.verdict ctx s.core.out.length s.m).inenumval = 0 := by
      rw [verdict_inenumval, hf.inenumval]
    simp only [Item.run, Item.render]
    by_cases hk : (b.verdict ctx s.core.out.length s.m).optionqualified = false
    · rw [if_pos hk]
      exact scan_block_discard ctx s b suf n ha hq hi h0 hc ⟨hv, hk⟩
    · rw [if_neg hk]
      exact scans_block_keep ctx s b suf n ha hq hi h0 hc
        (by rw [if_pos hv]; simpa using hk) (verdict_lastconstraints ctx b _ s.m)
  | enumvals ws evs wsEnd =>
    exact scans_enumvals ctx s ws evs wsEnd suf n o ha hf ho h0 hc.1 hc.2.1 hc.2.2

/-- A list of child elements of the option as a scan. -/
theorem scansTo_items (ctx : Ctx) (l : List Item) (s : OState) (suf : CStr) (n o : Int)
    (ha : AfterTag s n) (hf : Frame s.m 0 o) (ho : o ≤ n) (h0 : 0 ≤ n)
    (hc : ∀ i ∈ l, i.Clean) :
    ScansTo ctx s (renderItems l) suf n (runItems ctx n l (s.core.out, s.m)) := by
  induction l generalizing s with
  | nil => exact scans_nil ctx s suf n ha
  | cons i l ih =>
    simp only [renderItems, runItems]
    have hi := scansTo_item ctx s i (renderItems l ++ suf) n o ha hf ho h0 (hc i (by simp))
    cases hr : i.run ctx n (s.core.out, s.m) with
    | next y =>
      rw [hr] at hi
      rw [Step.bind_next]
      refine ScansTo.appendTo hi ?_
      intro s1 a1 o1 m1
      have := ih s1 a1 (by rw [m1]; exact frame_item_run ctx n i _ y o hr hf)
        (fun i' h' => hc i' (by simp [h']))
      rw [o1, m1] at this
      exact this
    | discard k =>
      rw [hr] at hi
      show scanPrefix _ _ _ _ = _
      have hi' : scanPrefix (optionHooks ctx) s i.render (renderItems l ++ suf) =
          .discard s.core.comboconfirmed := hi
      rw [scanPrefix_append, hi']
      rfl
    | fatal => rw [hr] at hi; exact hi.elim
    | undefined => rw [hr] at hi; exact hi.elim

theorem frame_runItems (ctx : Ctx) (n : Int) (l : List Item) (x y : CStr × OptSt) (o : Int)
    (h : runItems ctx n l x = .next y) (hf : Frame x.2 0 o) : Frame y.2 0 o := by
  induction l generalizing x with
  | nil => cases h; exact hf
  | cons i l ih =>
    simp only [runItems] at h
    obtain ⟨z, h1, h2⟩ := Step.bind_eq_next h
    exact ih z h2 (frame_item_run ctx n i x z o h1 hf)

/-- The outcome of the parse of an option document whose child elements, behind
a scanned prefix, are the elements `items`: the elements are run one after the
other, and the closing tag of the option decides. -/
theorem parseOption_items (ctx : Ctx) (pre : CStr) (items : List Item) (t trailer : CStr)
    (s : OState) (n o : Int)
    (hpre : scanPrefix (optionHooks ctx) optInit pre
      (renderItems items ++ (t ++ (lit "</option>" ++ trailer))) = .next s)
    (ha : AfterTag s n) (hn : 1 ≤ n) (hf : Frame s.m 0 o) (ho : o ≤ n)
    (hc : ∀ i ∈ items, i.Clean) (ht : ∀ c ∈ t, c ≠ '<') (htr : ∀ c ∈ trailer, c ≠ '<') :
    parseOption ctx (pre ++ (renderItems items ++ (t ++ (lit "</option>" ++ trailer)))) =
      match runItems ctx n items (s.core.out, s.m) with
      | .next x => closeOutcome x.1 x.2 t trailer
      | _ => .returned none 0 := by
  have h := scansTo_items ctx items s (t ++ (lit "</option>" ++ trailer)) n o ha hf ho
    (by omega) hc
  have hfr : ∀ y, runItems ctx n items (s.core.out, s.m) = .next y → Frame y.2 0 o :=
    fun y hy => frame_runItems ctx n items _ y o hy hf
  cases hr : runItems ctx n items (s.core.out, s.m) with
  | next x =>
    rw [hr] at h
    obtain ⟨s1, e1, a1, o1, m1, _⟩ := h
    have hpre1 : scanPrefix (optionHooks ctx) optInit (pre ++ renderItems items)
        (t ++ (lit "</option>" ++ trailer)) = .next s1 := by
      rw [scanPrefix_append, hpre, Step.bind_next, e1]
    have hq : Quiet s1.m (n - 1) := by
      rw [m1]
      exact (hfr x hr).quietFrom (by omega) (by omega)
    have := parseOption_close ctx (pre ++ renderItems items) t trailer s1 n hpre1 a1 hq ht htr
    rw [List.append_assoc] at this
    rw [this, o1, m1]
  | discard k =>
    rw [hr] at h
    exact parseOption_discard ctx pre (renderItems items) _ s hpre h
  | fatal => rw [hr] at h; exact h.elim
  | undefined => rw [hr] at h; exact h.elim

theorem SameUser.reflU (m : OptSt) : SameUser m m := ⟨rfl, rfl, rfl⟩

theorem SameUser.transU {a b c : OptSt} (h1 : SameUser a b) (h2 : SameUser b c) : SameUser a c :=
  ⟨h1.1.trans h2.1, h1.2.trans h2.2, h1.3.trans h2.3⟩

theorem SameData.sameUser {a b : OptSt} (h : SameData a b) : SameUser a b :=
  ⟨h.optiontype, h.userdefault, h.userdefaultvalue⟩

theorem sameUser_constraint_effect (ctx : Ctx) (c : Constraint) (m : OptSt) :
    SameUser (c.effect ctx m) m := by
  rw [constraint_effect_cases]
  split <;> exact ⟨rfl, rfl, rfl⟩

theorem sameUser_constraintsEffect (ctx : Ctx) (cs : List Constraint) (m : OptSt) :
    SameUser (constraintsEffect ctx cs m) m := by
  induction cs generalizing m with
  | nil => exact SameUser.reflU m
  | cons c cs ih => exact (ih _).transU (sameUser_constraint_effect ctx c m)

theorem sameUser_verdict (ctx : Ctx) (b : Block) (mark : Nat) (m : OptSt) :
    SameUser (b.verdict ctx mark m) m :=
  (sameUser_constraintsEffect ctx b.cs _).transU ⟨rfl, rfl, rfl⟩

theorem sameUser_neutral (ctx : Ctx) (n : Int) (i : Item) (x y : CStr × OptSt)
    (hi : i.Neutral) (h : i.run ctx n x = .next y) : SameUser y.2 x.2 := by
  cases i with
  | filler f => cases h; exact (sameData_filler f x.2).sameUser
  | block b =>
    simp only [Item.run] at h
    split at h
    · cases h
    · cases h
      exact @SameUser.transU _ (b.verdict ctx x.1.length x.2) _ ⟨rfl, rfl, rfl⟩
        (sameUser_verdict ctx b x.1.length x.2)
  | shortname ws ws1 text ws2 => exact hi.elim
  | argmax ws text => exact hi.elim
  | argmin ws text => exact hi.elim
  | enumvals ws evs wsEnd => exact hi.elim

theorem runItems_append (ctx : Ctx) (n : Int) (a b : List Item) (x : CStr × OptSt) :
    runItems ctx n (a ++ b) x = (runItems ctx n a x).bind (runItems ctx n b) := by
  induction a generalizing x with
  | nil => rfl
  | cons i a ih =>
    simp only [List.cons_append, runItems]
    cases i.run ctx n x with
    | next y => simp only [Step.bind_next]; exact ih y
    | discard k => rfl
    | fatal => rfl
    | undefined => rfl

theorem sameUser_neutrals (ctx : Ctx) (n : Int) (l : List Item) (x y : CStr × OptSt)
    (hl : ∀ i ∈ l, i.Neutral) (h : runItems ctx n l x = .next y) : SameUser y.2 x.2 := by
  induction l generalizing x with
  | nil => cases h; exact SameUser.reflU _
  | cons i l ih =>
    simp only [runItems] at h
    obtain ⟨z, h1, h2⟩ := Step.bind_eq_next h
    exact (ih z (fun i' h' => hl i' (by simp [h'])) h2).transU
      (sameUser_neutral ctx n i x z (hl i (by simp)) h1)

theorem settingOutcome_int (body ds : CStr) (u : Bool) (v : CStr)
    (h : settingOutcome body .INT ds = some (u, v)) :
    u = !decide (strspn v (lit "+-0123456789") < v.length) := by
  unfold settingOutcome at h
  dsimp only at h
  split_ifs at h with h1 h2 h3 h4
  · simp only [Option.some.injEq, Prod.mk.injEq] at h
    obtain ⟨hu, hv⟩ := h
    subst hv hu
    rw [decide_eq_true h2]
    rfl
  · simp only [Option.some.injEq, Prod.mk.injEq] at h
    obtain ⟨hu, hv⟩ := h
    subst hv hu
    rw [decide_eq_false h2]
    rfl
  · exact absurd h3.2 (by decide)
  · exact absurd h4.2.2 (by decide)

theorem lastOutcome_int (body : CStr) (l : List CStr) (u : Bool) (v : CStr)
    (h : lastOutcome body .INT l = some (u, v)) :
    u = !decide (strspn v (lit "+-0123456789") < v.length) := by
  induction l with
  | nil => cases h
  | cons ds l ih =>
    simp only [lastOutcome] at h
    cases hl : lastOutcome body .INT l with
    | some p =>
      rw [hl] at h
      simp only at h
      exact ih (by rw [hl, h])
    | none =>
      rw [hl] at h
      exact settingOutcome_int body ds u v h

theorem argMaxEffect_int (text : CStr) (m : OptSt) (h : m.optiontype = .INT) :
    (argMaxEffect text m).optiontype = .INT ∧
    (argMaxEffect text m).userdefaultvalue = m.userdefaultvalue ∧
    (argMaxEffect text m).userdefault =
      (if m.userdefault = true ∧ Dbl.lt (atof text) (atof m.userdefaultvalue) = true
        then false else m.userdefault) := by
  unfold argMaxEffect
  rw [if_pos (Or.inl h)]
  exact ⟨h, rfl, rfl⟩

theorem argMinEffect_int (text : CStr) (m : OptSt) (h : m.optiontype = .INT) :
    (argMinEffect text m).optiontype = .INT ∧
    (argMinEffect text m).userdefaultvalue = m.userdefaultvalue ∧
    (argMinEffect text m).userdefault =
      (if m.userdefault = true ∧ Dbl.lt (atof m.userdefaultvalue) (atof text) = true
        then false else m.userdefault) := by
  unfold argMinEffect
  rw [if_pos (Or.inl h)]
  exact ⟨h, rfl, rfl⟩

theorem shortnameEffect_some (ctx : Ctx) (text : CStr) (m : OptSt) (u : Bool) (v : CStr)
    (h : lastOutcome text m.optiontype ctx.defaultsettings = some (u, v)) :
    (shortnameEffect ctx text m).optiontype = m.optiontype ∧
    (shortnameEffect ctx text m).userdefault = u ∧
    (shortnameEffect ctx text m).userdefaultvalue = v := by
  unfold shortnameEffect
  rw [h]
  exact ⟨rfl, rfl, rfl⟩

/-- The user default behind the child elements of an integer option whose
short name comes before its bounds: a value of the last setting that names the
option which holds a character outside `+-0123456789`, or lies above `arg_max`
or below `arg_min`, is not a valid user default. -/
theorem boundedOption_run (ctx : Ctx) (n : Int) (d : BoundedOption) (x y : CStr × OptSt)
    (u : Bool) (v : CStr) (hr : runItems ctx n d.items x = .next y)
    (hint : x.2.optiontype = .INT) (hn : d.Neutral)
    (hlast : lastOutcome d.name .INT ctx.defaultsettings = some (u, v))
    (hbad : strspn v (lit "+-0123456789") < v.length ∨ Dbl.lt (atof d.max) (atof v) = true ∨
      Dbl.lt (atof v) (atof d.min) = true) :
    y.2.userdefault = false := by
  obtain ⟨n1, n2, n3, n4⟩ := hn
  unfold BoundedOption.items at hr
  rw [runItems_append] at hr
  obtain ⟨x1, r1, hr⟩ := Step.bind_eq_next hr
  have s1 := sameUser_neutrals ctx n _ x x1 n1 r1
  simp only [runItems, Item.run, Step.bind_next] at hr
  rw [runItems_append] at hr
  obtain ⟨x3, r3, hr⟩ := Step.bind_eq_next hr
  have s3 := sameUser_neutrals ctx n _ _ x3 n2 r3
  simp only [runItems, Item.run, Step.bind_next] at hr
  rw [runItems_append] at hr
  obtain ⟨x5, r5, hr⟩ := Step.bind_eq_next hr
  have s5 := sameUser_neutrals ctx n _ _ x5 n3 r5
  simp only [runItems, Item.run, Step.bind_next] at hr
  have s7 := sameUser_neutrals ctx n _ _ y n4 hr
  have t1 : x1.2.optiontype = .INT := s1.optiontype.trans hint
  obtain ⟨a1, a2, a3⟩ := shortnameEffect_some ctx d.name x1.2 u v (by rw [t1]; exact hlast)
  have t3 : x3.2.optiontype = .INT := s3.optiontype.trans (a1.trans t1)
  have u3 : x3.2.userdefault = u := s3.userdefault.trans a2
  have v3 : x3.2.userdefaultvalue = v := s3.userdefaultvalue.trans a3
  obtain ⟨b1, b2, b3⟩ := argMaxEffect_int d.max x3.2 t3
  have t5 : x5.2.optiontype = .INT := s5.optiontype.trans b1
  have v5 : x5.2.userdefaultvalue = v := (s5.userdefaultvalue.trans b2).trans v3
  have u5 : x5.2.userdefault =
      (if u = true ∧ Dbl.lt (atof d.max) (atof v) = true then false else u) := by
    rw [s5.userdefault, b3, u3, v3]
  obtain ⟨c1, c2, c3⟩ := argMinEffect_int d.min x5.2 t5
  have u7 : y.2.userdefault =
      (if x5.2.userdefault = true ∧ Dbl.lt (atof v) (atof d.min) = true then false
        else x5.2.userdefault) := by
    rw [s7.userdefault, c3, v5]
  have hu := lastOutcome_int d.name _ u v hlast
  rw [u7, u5]
  rcases hbad with h | h | h
  · rw [decide_eq_true h] at hu
    subst hu
    simp
  · rw [h]
    cases u <;> simp
  · rw [h]
    cases u <;> cases Dbl.lt (atof d.max) (atof v) <;> simp

/-- C9, amended: an integer option whose `arg_shortname` element comes before
its `arg_max` and `arg_min` elements (with elements around them that leave the
user default alone), and command-line settings of which the last one that
names the option has the value `v`.  If `v` holds a character outside
`+-0123456789`, or `atof v` lies above `atof` of `arg_max` or below `atof` of
`arg_min` (a comparison of values of type `double`), the parse
returns without error and `v` is not written: the document is dropped when the
option does not qualify, and otherwise the only default line inserted is that
of the default value of the winning option-level constraint, if it has one. -/
theorem int_user_default_checked (ctx : Ctx) (pre : CStr) (d : BoundedOption)
    (t trailer : CStr) (s : OState) (n o : Int) (u : Bool) (v : CStr)
    (hpre : scanPrefix (optionHooks ctx) optInit pre
      (renderItems d.items ++ (t ++ (lit "</option>" ++ trailer))) = .next s)
    (ha : AfterTag s n) (hn : 1 ≤ n) (hf : Frame s.m 0 o) (ho : o ≤ n)
    (hint : s.m.optiontype = .INT)
    (hc : ∀ i ∈ d.items, i.Clean) (hneutral : d.Neutral)
    (ht : ∀ c ∈ t, c ≠ '<') (htr : ∀ c ∈ trailer, c ≠ '<')
    (hlast : lastOutcome d.name .INT ctx.defaultsettings = some (u, v))
    (hbad : strspn v (lit "+-0123456789") < v.length ∨ Dbl.lt (atof d.max) (atof v) = true ∨
      Dbl.lt (atof v) (atof d.min) = true) :
    parseOption ctx (pre ++ (renderItems d.items ++ (t ++ (lit "</option>" ++ trailer)))) =
      match runItems ctx n d.items (s.core.out, s.m) with
      | .next x =>
        if x.2.numenumvals = 0 ∨ x.2.optionqualified = false then .returned none 0
        else if x.2.argdefault ≠ [] then
          .returned (some (x.1 ++
            (defaultLine x.2.argdefault ++ (t ++ (lit "</option>" ++ trailer))))) 0
        else .returned (some (x.1 ++ (t ++ (lit "</option>" ++ trailer)))) 0
      | _ => .returned none 0 := by
  rw [parseOption_items ctx pre d.items t trailer s n o hpre ha hn hf ho hc ht htr]
  cases hr : runItems ctx n d.items (s.core.out, s.m) with
  | next x =>
    have hu := boundedOption_run ctx n d _ x u v hr hint hneutral hlast hbad
    simp only [closeOutcome, chosenDefault, hu, Bool.false_eq_true, or_false, ↓reduceIte]
  | discard k => rfl
  | fatal => rfl
  | undefined => rfl

set_option maxRecDepth 100000 in
/-- C9 as stated fails three times: the value `1-2` of the setting `Copies=1-2`
is no integer literal, passes the test of the characters, counts as 1 for the
bounds and is written as the default; the value 50 above `arg_max` = 10 is
written when the bounds stand in front of the short name of the option; and the
value 9007199254740993 above `arg_max` = 9007199254740992 is written, because
`atof` rounds both to the same value of type `double`. -/
theorem int_user_default_counterexample :
    parseOption (ctxSetting (lit "Copies=1-2"))
        (copiesHead ++ (renderItems copiesOption.items ++ optionTail)) =
      .returned (some (lit "<option type=\"int\" id=\"opt/Copies\">\n <arg_longname><en>Copies</en></arg_longname>\n <arg_shortname><en>Copies</en></arg_shortname>\n <arg_max>10</arg_max>\n <arg_min>1</arg_min>\n  <arg_defval>1-2</arg_defval>\n</option>\n")) 0 ∧
    parseOption (ctxSetting (lit "Copies=50"))
        (copiesHead ++ (renderItems copiesBoundsFirst ++ optionTail)) =
      .returned (some (lit "<option type=\"int\" id=\"opt/Copies\">\n <arg_max>10</arg_max>\n <arg_min>1</arg_min>\n <arg_shortname><en>Copies</en></arg_shortname>\n  <arg_defval>50</arg_defval>\n</option>\n")) 0 ∧
    parseOption (ctxSetting (lit "Copies=9007199254740993"))
        (copiesHead ++ (renderItems copiesWide ++ optionTail)) =
      .returned (some (lit "<option type=\"int\" id=\"opt/Copies\">\n <arg_shortname><en>Copies</en></arg_shortname>\n <arg_max>9007199254740992</arg_max>\n <arg_min>1</arg_min>\n  <arg_defval>9007199254740993</arg_defval>\n</option>\n")) 0 ∧
    atof (lit "9007199254740993") = atof (lit "9007199254740992") := by
  decide

set_option maxRecDepth 100000 in
/-- Witness of the amended C9: the setting `Copies=50` for the option `Copies`
with the bounds 1 and 10; the default written is that of the constraint. -/
theorem int_user_default_checked_witness :
    parseOption (ctxSetting (lit "Copies=50"))
        (copiesHead ++
          (renderItems copiesOption.items ++ ([chNL] ++ (lit "</option>" ++ [chNL])))) =
      .returned (some (lit "<option type=\"int\" id=\"opt/Copies\">\n <arg_longname><en>Copies</en></arg_longname>\n <arg_shortname><en>Copies</en></arg_shortname>\n <arg_max>10</arg_max>\n <arg_min>1</arg_min>\n  <arg_defval>1</arg_defval>\n</option>\n")) 0 :=
  (int_user_default_checked (ctxSetting (lit "Copies=50")) copiesHead copiesOption [chNL] [chNL]
    stCopies 2 1 true (lit "50")
    (Step.eq_next_getD _ _ (by decide))
    (by decide) (by decide)
    (by decide)
    (by decide) (by decide) (by decide) (by decide) (by decide) (by decide) (by decide)
    (by decide)).trans (by decide)

theorem SameOption.reflO (m : OptSt) : SameOption m m := ⟨rfl, rfl, rfl, rfl, rfl⟩

theorem SameOption.transO {a b c : OptSt} (h1 : SameOption a b) (h2 : SameOption b c) :
    SameOption a c :=
  ⟨h1.1.trans h2.1, h1.2.trans h2.2, h1.3.trans h2.3, h1.4.trans h2.4, h1.5.trans h2.5⟩

theorem SameData.sameOption {a b : OptSt} (h : SameData a b) : SameOption a b :=
  ⟨h.optionqualified, h.argdefault, h.optiontype, h.userdefault, h.userdefaultvalue⟩

theorem sameOption_constraint_effect (ctx : Ctx) (c : Constraint) (m : OptSt)
    (h : m.inenumval ≠ 0) : SameOption (c.effect ctx m) m := by
  rw [constraint_effect_cases]
  split
  · refine ⟨?_, ?_, rfl, rfl, rfl⟩
    · show (if m.inenumval ≠ 0 then m.optionqualified else _) = _
      rw [if_pos h]
    · show (if m.inenumval ≠ 0 then m.argdefault else _) = _
      rw [if_pos h]
  · exact ⟨rfl, rfl, rfl, rfl, rfl⟩

theorem sameOption_constraintsEffect (ctx : Ctx) (cs : List Constraint) (m : OptSt)
    (h : m.inenumval ≠ 0) : SameOption (constraintsEffect ctx cs m) m := by
  induction cs generalizing m with
  | nil => exact SameOption.reflO m
  | cons c cs ih =>
    exact (ih _ (by rw [constraint_effect_inenumval]; exact h)).transO
      (sameOption_constraint_effect ctx c m h)

theorem sameOption_verdict (ctx : Ctx) (b : Block) (mark : Nat) (m : OptSt)
    (h : m.inenumval ≠ 0) : SameOption (b.verdict ctx mark m) m :=
  @SameOption.transO _ (blockStart mark 0 m) _
    (sameOption_constraintsEffect ctx b.cs (blockStart mark 0 m) h) ⟨rfl, rfl, rfl, rfl, rfl⟩

theorem sameOption_judgeBlock (ctx : Ctx) (mark : Nat) (m : OptSt) (ob : Option Block)
    (h : m.inenumval ≠ 0) : SameOption (judgeBlock ctx mark m ob) m := by
  cases ob with
  | none => exact SameOption.reflO m
  | some b =>
    have hv := sameOption_verdict ctx b mark m h
    simp only [judgeBlock]
    split <;> exact ⟨hv.1, hv.2, hv.3, hv.4, hv.5⟩

/-- The high scores and the qualification of the enum value behind the
constraints of a block inside an enum value. -/
theorem constraintsEffect_senseFold (ctx : Ctx) (cs : List Constraint) (m : OptSt)
    (h : m.inenumval ≠ 0) :
    ((constraintsEffect ctx cs m).printerhiscore, (constraintsEffect ctx cs m).driverhiscore,
        (constraintsEffect ctx cs m).enumvalqualified) =
      senseFold ctx cs (m.printerhiscore, m.driverhiscore, m.enumvalqualified) := by
  induction cs generalizing m with
  | nil => rfl
  | cons c cs ih =>
    simp only [constraintsEffect, senseFold]
    rw [ih _ (by rw [constraint_effect_inenumval]; exact h)]
    by_cases hw : c.wins ctx m.printerhiscore m.driverhiscore = true
    · obtain ⟨w1, w2, w3, w4⟩ := constraint_effect_wins ctx c m hw
      rw [if_pos hw, w1, w3, w4, if_pos h]
    · have hw' : c.wins ctx m.printerhiscore m.driverhiscore = false := by simpa using hw
      obtain ⟨l1, l2, l3, l4, l5⟩ := constraint_effect_loses ctx c m hw'
      rw [if_neg hw, l1, l3, l4]

theorem verdict_senseFold (ctx : Ctx) (b : Block) (mark : Nat) (m : OptSt)
    (h : m.inenumval ≠ 0) :
    (b.verdict ctx mark m).enumvalqualified =
      (senseFold ctx b.cs (0, 0, m.enumvalqualified)).2.2 := by
  have := constraintsEffect_senseFold ctx b.cs (blockStart mark 0 m) h
  exact congrArg (fun a => a.2.2) this

/-- An enum value is marked for removal exactly when it does not qualify. -/
theorem judged_toberemoved (ctx : Ctx) (ev : EnumVal) (n : Int) (out : CStr) (m : OptSt)
    (o : Int) (hf : Frame m 0 o) (h0 : 0 ≤ n) :
    (ev.judged ctx n out m).enumvaltoberemoved = !ev.qualifies ctx := by
  have hf2 := frame_evItems ev.items _ _ _ (frame_start ev n out m o hf)
  have hd := sameData_evItems ev.items (ev.start n out m)
  have hq : (evItemsEffect ev.items (ev.start n out m)).enumvalqualified = true :=
    hd.enumvalqualified
  have hr : (evItemsEffect ev.items (ev.start n out m)).enumvaltoberemoved = false :=
    hd.enumvaltoberemoved
  have hi : (evItemsEffect ev.items (ev.start n out m)).inenumval ≠ 0 := by
    rw [hf2.inenumval]; omega
  unfold EnumVal.judged EnumVal.qualifies
  cases ev.block with
  | none => exact hr
  | some b =>
    have hv := verdict_senseFold ctx b (out ++ (ev.head ++ renderEvItems ev.items)).length _ hi
    have hvr := verdict_enumvaltoberemoved ctx b
      (out ++ (ev.head ++ renderEvItems ev.items)).length
      (evItemsEffect ev.items (ev.start n out m))
    rw [hq] at hv
    rw [hr] at hvr
    simp only [judgeBlock]
    rw [← hv]
    generalize b.verdict ctx (out ++ (ev.head ++ renderEvItems ev.items)).length
      (evItemsEffect ev.items (ev.start n out m)) = v at hvr
    cases he : v.enumvalqualified
    · rw [if_neg (by simp)]
      rfl
    · rw [if_pos ⟨rfl, hvr⟩]
      exact hvr

theorem judged_numenumvals (ctx : Ctx) (ev : EnumVal) (n : Int) (out : CStr) (m : OptSt) :
    (ev.judged ctx n out m).numenumvals = m.numenumvals := by
  unfold EnumVal.judged
  rw [judgeBlock_numenumvals, (sameData_evItems _ _).numenumvals]
  rfl

theorem sameOption_judged (ctx : Ctx) (ev : EnumVal) (n : Int) (out : CStr) (m : OptSt)
    (o : Int) (hf : Frame m 0 o) (h0 : 0 ≤ n) : SameOption (ev.judged ctx n out m) m := by
  have hf2 := frame_evItems ev.items _ _ _ (frame_start ev n out m o hf)
  have hi : (evItemsEffect ev.items (ev.start n out m)).inenumval ≠ 0 := by
    rw [hf2.inenumval]; omega
  exact ((sameOption_judgeBlock ctx _ _ ev.block hi).transO
    (sameData_evItems ev.items _).sameOption).transO ⟨rfl, rfl, rfl, rfl, rfl⟩

/-- What an enum value leaves behind: its text without the `constraints` block
when it qualifies, nothing when it does not; it is counted when it qualifies. -/
theorem enumVal_run_eq (ctx : Ctx) (ev : EnumVal) (n : Int) (x : CStr × OptSt) (o : Int)
    (hf : Frame x.2 0 o) (h0 : 0 ≤ n) :
    (ev.run ctx n x).1 = x.1 ++ (if ev.qualifies ctx = true then ev.kept else []) ∧
    (ev.run ctx n x).2.numenumvals =
      x.2.numenumvals + (if ev.qualifies ctx = true then 1 else 0) ∧
    SameOption (ev.run ctx n x).2 x.2 := by
  have hr := judged_toberemoved ctx ev n x.1 x.2 o hf h0
  have hn := judged_numenumvals ctx ev n x.1 x.2
  have hs := sameOption_judged ctx ev n x.1 x.2 o hf h0
  unfold EnumVal.run
  cases hq : ev.qualifies ctx
  · rw [hq] at hr
    rw [if_pos (by rw [hr]; rfl)]
    refine ⟨by simp, ?_, ⟨hs.1, hs.2, hs.3, hs.4, hs.5⟩⟩
    show (ev.judged ctx n x.1 x.2).numenumvals = _
    rw [hn]; simp
  · rw [hq] at hr
    rw [if_neg (by rw [hr]; simp)]
    refine ⟨by simp, ?_, ⟨hs.1, hs.2, hs.3, hs.4, hs.5⟩⟩
    show (ev.judged ctx n x.1 x.2).numenumvals + 1 = _
    rw [hn]; simp

/-- What a list of enum values leaves behind: the texts of those that qualify,
and their count. -/
theorem runEnumVals_eq (ctx : Ctx) (n : Int) (l : List EnumVal) (x : CStr × OptSt) (o : Int)
    (hf : Frame x.2 0 o) (h0 : 0 ≤ n) :
    (runEnumVals ctx n l x).1 = x.1 ++ renderKept ctx l ∧
    (runEnumVals ctx n l x).2.numenumvals =
      x.2.numenumvals + (l.filter (fun ev => ev.qualifies ctx)).length ∧
    SameOption (runEnumVals ctx n l x).2 x.2 := by
  induction l generalizing x with
  | nil => exact ⟨by simp [runEnumVals, renderKept], by simp [runEnumVals], SameOption.reflO _⟩
  | cons ev l ih =>
    obtain ⟨e1, e2, e3⟩ := enumVal_run_eq ctx ev n x o hf h0
    obtain ⟨i1, i2, i3⟩ := ih (ev.run ctx n x) (frame_enumVal_run ctx ev n x o hf)
    simp only [runEnumVals, renderKept]
    refine ⟨by rw [i1, e1, List.append_assoc], ?_, i3.transO e3⟩
    rw [i2, e2, List.filter_cons]
    cases ev.qualifies ctx <;> simp
    omega

theorem filter_qualifies_length (ctx : Ctx) (evs : List EnumVal) :
    (evs.filter (fun ev => ev.qualifies ctx)).length =
      evs.length - (evs.filter (fun ev => !ev.qualifies ctx)).length := by
  induction evs with
  | nil => rfl
  | cons ev l ih =>
    have hle : (l.filter (fun ev => !ev.qualifies ctx)).length ≤ l.length :=
      List.length_filter_le _ _
    simp only [List.filter_cons, List.length_cons]
    cases ev.qualifies ctx
    · simp only [Bool.false_eq_true, ↓reduceIte, Bool.not_false, List.length_cons]
      omega
    · simp only [↓reduceIte, Bool.not_true, Bool.false_eq_true, List.length_cons]
      omega

theorem lit_enum_vals_open : lit "<enum_vals>" = '<' :: lit "enum_vals" ++ ['>'] := rfl

theorem lit_enum_vals_close : lit "</enum_vals>" = '<' :: '/' :: lit "enum_vals" ++ ['>'] := rfl

theorem SameFound.reflF (m : OptSt) : SameFound m m := ⟨rfl, rfl⟩

theorem SameFound.transF {a b c : OptSt} (h1 : SameFound a b) (h2 : SameFound b c) :
    SameFound a c :=
  ⟨h1.1.trans h2.1, h1.2.trans h2.2⟩

theorem sameFound_filler (f : Filler) (m : OptSt) : SameFound (f.effect m) m := by
  cases f with
  | plain ws nm text => exact SameFound.reflF m
  | field l =>
    show SameFound (l.kind.setSentinel m 0) m
    cases l.kind <;> exact ⟨rfl, rfl⟩
  | wrapped ws nm ws1 text ws2 => exact ⟨rfl, rfl⟩

theorem sameFound_constraint_effect (ctx : Ctx) (c : Constraint) (m : OptSt) :
    SameFound (c.effect ctx m) m := by
  rw [constraint_effect_cases]
  split <;> exact ⟨rfl, rfl⟩

theorem sameFound_constraintsEffect (ctx : Ctx) (cs : List Constraint) (m : OptSt) :
    SameFound (constraintsEffect ctx cs m) m := by
  induction cs generalizing m with
  | nil => exact SameFound.reflF m
  | cons c cs ih => exact (ih _).transF (sameFound_constraint_effect ctx c m)

theorem sameFound_verdict (ctx : Ctx) (b : Block) (mark : Nat) (m : OptSt) :
    SameFound (b.verdict ctx mark m) m :=
  @SameFound.transF _ (blockStart mark 0 m) _ (sameFound_constraintsEffect ctx b.cs _) ⟨rfl, rfl⟩

theorem sameFound_judgeBlock (ctx : Ctx) (mark : Nat) (m : OptSt) (ob : Option Block) :
    SameFound (judgeBlock ctx mark m ob) m := by
  cases ob with
  | none => exact SameFound.reflF m
  | some b =>
    have hv := sameFound_verdict ctx b mark m
    simp only [judgeBlock]
    split <;> exact ⟨hv.1, hv.2⟩

theorem sameFound_neutral (ctx : Ctx) (n : Int) (i : Item) (x y : CStr × OptSt)
    (hi : i.Neutral) (h : i.run ctx n x = .next y) : SameFound y.2 x.2 := by
  cases i with
  | filler f => cases h; exact sameFound_filler f x.2
  | block b =>
    simp only [Item.run] at h
    split at h
    · cases h
    · cases h
      exact @SameFound.transF _ (b.verdict ctx x.1.length x.2) _ ⟨rfl, rfl⟩
        (sameFound_verdict ctx b x.1.length x.2)
  | shortname ws ws1 text ws2 => exact hi.elim
  | argmax ws text => exact hi.elim
  | argmin ws text => exact hi.elim
  | enumvals ws evs wsEnd => exact hi.elim

theorem sameFound_neutrals (ctx : Ctx) (n : Int) (l : List Item) (x y : CStr × OptSt)
    (hl : ∀ i ∈ l, i.Neutral) (h : runItems ctx n l x = .next y) : SameFound y.2 x.2 := by
  induction l generalizing x with
  | nil => cases h; exact SameFound.reflF _
  | cons i l ih =>
    simp only [runItems] at h
    obtain ⟨z, h1, h2⟩ := Step.bind_eq_next h
    exact (ih z (fun i' h' => hl i' (by simp [h'])) h2).transF
      (sameFound_neutral ctx n i x z (hl i (by simp)) h1)

theorem evItemsEffect_found (l : List EvItem) (m : OptSt) (v : CStr)
    (hu : m.userdefault = true) (hv : m.userdefaultvalue = v) :
    (evItemsEffect l m).userdefaultfound = (m.userdefaultfound || namedIn v l) ∧
    (evItemsEffect l m).userdefaultid =
      (if namedIn v l = true then m.currevid else m.userdefaultid) := by
  induction l generalizing m with
  | nil => simp [evItemsEffect, namedIn]
  | cons i l ih =>
    cases i with
    | filler f =>
      have hd := sameData_filler f m
      have hf := sameFound_filler f m
      obtain ⟨i1, i2⟩ := ih (f.effect m) (hd.userdefault.trans hu) (hd.userdefaultvalue.trans hv)
      simp only [evItemsEffect, EvItem.effect, namedIn]
      rw [i1, i2, hf.userdefaultfound, hf.userdefaultid, hd.currevid]
      exact ⟨rfl, rfl⟩
    | shortname ws ws1 text ws2 =>
      have hd := sameData_evShortname text m
      obtain ⟨i1, i2⟩ := ih (evShortnameEffect text m) (hd.userdefault.trans hu)
        (hd.userdefaultvalue.trans hv)
      simp only [evItemsEffect, EvItem.effect, namedIn]
      rw [i1, i2, hd.currevid]
      by_cases ht : text = v
      · have e1 : (evShortnameEffect text m).userdefaultfound = true := by
          unfold evShortnameEffect
          rw [if_pos ⟨hu, hv.trans ht.symm⟩]
        have e2 : (evShortnameEffect text m).userdefaultid = m.currevid := by
          unfold evShortnameEffect
          rw [if_pos ⟨hu, hv.trans ht.symm⟩]
        rw [e1, e2]
        simp [ht]
      · have e1 : (evShortnameEffect text m).userdefaultfound = m.userdefaultfound := by
          unfold evShortnameEffect
          rw [if_neg (fun h => ht (h.2.symm.trans hv))]
        have e2 : (evShortnameEffect text m).userdefaultid = m.userdefaultid := by
          unfold evShortnameEffect
          rw [if_neg (fun h => ht (h.2.symm.trans hv))]
        rw [e1, e2]
        simp [ht]

theorem evItemsEffect_nouser (l : List EvItem) (m : OptSt) (hu : m.userdefault = false) :
    SameFound (evItemsEffect l m) m := by
  induction l generalizing m with
  | nil => exact SameFound.reflF m
  | cons i l ih =>
    cases i with
    | filler f =>
      exact (ih (f.effect m) ((sameData_filler f m).userdefault.trans hu)).transF
        (sameFound_filler f m)
    | shortname ws ws1 text ws2 =>
      refine (ih (evShortnameEffect text m)
        ((sameData_evShortname text m).userdefault.trans hu)).transF ?_
      show SameFound (evShortnameEffect text m) m
      unfold evShortnameEffect
      rw [if_neg (by rw [hu]; simp)]
      exact ⟨rfl, rfl⟩

theorem enumVal_run_found (ctx : Ctx) (ev : EnumVal) (n : Int) (x : CStr × OptSt) (v : CStr)
    (hu : x.2.userdefault = true) (hv : x.2.userdefaultvalue = v) :
    (ev.run ctx n x).2.userdefaultfound = (x.2.userdefaultfound || ev.named v) ∧
    (ev.run ctx n x).2.userdefaultid =
      (if ev.named v = true then ev.id else x.2.userdefaultid) := by
  obtain ⟨e1, e2⟩ := evItemsEffect_found ev.items (ev.start n x.1 x.2) v hu hv
  have hj := sameFound_judgeBlock ctx (x.1 ++ (ev.head ++ renderEvItems ev.items)).length
    (evItemsEffect ev.items (ev.start n x.1 x.2)) ev.block
  have f1 : (ev.judged ctx n x.1 x.2).userdefaultfound = (x.2.userdefaultfound || ev.named v) :=
    hj.userdefaultfound.trans e1
  have f2 : (ev.judged ctx n x.1 x.2).userdefaultid =
      (if ev.named v = true then ev.id else x.2.userdefaultid) :=
    hj.userdefaultid.trans e2
  unfold EnumVal.run
  split
  · exact ⟨f1, f2⟩
  · exact ⟨f1, f2⟩

theorem enumVal_run_nouser (ctx : Ctx) (ev : EnumVal) (n : Int) (x : CStr × OptSt)
    (hu : x.2.userdefault = false) : SameFound (ev.run ctx n x).2 x.2 := by
  have e := evItemsEffect_nouser ev.items (ev.start n x.1 x.2) hu
  have hj := sameFound_judgeBlock ctx (x.1 ++ (ev.head ++ renderEvItems ev.items)).length
    (evItemsEffect ev.items (ev.start n x.1 x.2)) ev.block
  have f : SameFound (ev.judged ctx n x.1 x.2) x.2 :=
    (hj.transF e).transF ⟨rfl, rfl⟩
  unfold EnumVal.run
  split
  · exact ⟨f.1, f.2⟩
  · exact ⟨f.1, f.2⟩

/-- The id found for the user default behind a list of enum values: the id of
the last enum value that has the user's value as short name. -/
theorem runEnumVals_found (ctx : Ctx) (n : Int) (l : List EnumVal) (x : CStr × OptSt) (o : Int)
    (v : CStr) (hf : Frame x.2 0 o) (h0 : 0 ≤ n)
    (hu : x.2.userdefault = true) (hv : x.2.userdefaultvalue = v) :
    (runEnumVals ctx n l x).2.userdefaultfound = (x.2.userdefaultfound || (findId v l).isSome) ∧
    (runEnumVals ctx n l x).2.userdefaultid = (findId v l).getD x.2.userdefaultid := by
  induction l generalizing x with
  | nil => simp [runEnumVals, findId]
  | cons ev l ih =>
    obtain ⟨e1, e2⟩ := enumVal_run_found ctx ev n x v hu hv
    obtain ⟨_, _, e3⟩ := enumVal_run_eq ctx ev n x o hf h0
    obtain ⟨i1, i2⟩ := ih (ev.run ctx n x) (frame_enumVal_run ctx ev n x o hf)
      (e3.userdefault.trans hu) (e3.userdefaultvalue.trans hv)
    simp only [runEnumVals, findId]
    rw [i1, i2, e1, e2]
    cases findId v l with
    | some id => simp
    | none => cases ev.named v <;> simp

theorem runEnumVals_nouser (ctx : Ctx) (n : Int) (l : List EnumVal) (x : CStr × OptSt) (o : Int)
    (hf : Frame x.2 0 o) (h0 : 0 ≤ n) (hu : x.2.userdefault = false) :
    SameFound (runEnumVals ctx n l x).2 x.2 := by
  induction l generalizing x with
  | nil => exact SameFound.reflF _
  | cons ev l ih =>
    obtain ⟨_, _, e3⟩ := enumVal_run_eq ctx ev n x o hf h0
    exact (ih (ev.run ctx n x) (frame_enumVal_run ctx ev n x o hf)
      (e3.userdefault.trans hu)).transF (enumVal_run_nouser ctx ev n x hu)

theorem valItems_found (ctx : Ctx) (n : Int) (d : NamedOption) (x y : CStr × OptSt) (o : Int)
    (v : CStr) (hr : runItems ctx n d.valItems x = .next y) (hf : Frame x.2 0 o) (h0 : 0 ≤ n)
    (hu : x.2.userdefault = true) (hv : x.2.userdefaultvalue = v) :
    y.2.userdefaultfound = (x.2.userdefaultfound || (findId v d.evs).isSome) ∧
    y.2.userdefaultid = (findId v d.evs).getD x.2.userdefaultid ∧ SameOption y.2 x.2 := by
  unfold NamedOption.valItems at hr
  unfold NamedOption.evs
  cases hd : d.vals with
  | none =>
    rw [hd] at hr
    cases hr
    exact ⟨by simp [findId], by simp [findId], SameOption.reflO _⟩
  | some p =>
    rw [hd] at hr
    simp only [runItems, Item.run, Step.bind_next] at hr
    cases hr
    obtain ⟨a1, a2⟩ := runEnumVals_found ctx (n + 1) p.2.1
      (x.1 ++ (p.1 ++ ('<' :: lit "enum_vals" ++ ['>'])), x.2) o v hf (by omega) hu hv
    obtain ⟨_, _, a3⟩ := runEnumVals_eq ctx (n + 1) p.2.1
      (x.1 ++ (p.1 ++ ('<' :: lit "enum_vals" ++ ['>'])), x.2) o hf (by omega)
    exact ⟨a1, a2, a3⟩

theorem valItems_sameOption (ctx : Ctx) (n : Int) (d : NamedOption) (x y : CStr × OptSt) (o : Int)
    (hr : runItems ctx n d.valItems x = .next y) (hf : Frame x.2 0 o) (h0 : 0 ≤ n) :
    SameOption y.2 x.2 := by
  unfold NamedOption.valItems at hr
  cases hd : d.vals with
  | none =>
    rw [hd] at hr
    cases hr
    exact SameOption.reflO _
  | some p =>
    rw [hd] at hr
    simp only [runItems, Item.run, Step.bind_next] at hr
    cases hr
    exact (runEnumVals_eq ctx (n + 1) p.2.1
      (x.1 ++ (p.1 ++ ('<' :: lit "enum_vals" ++ ['>'])), x.2) o hf (by omega)).2.2

/-- The default behind the child elements of an option with one short name:
what is written at the closing tag is what `insertedDefault` says. -/
theorem namedOption_run (ctx : Ctx) (n : Int) (d : NamedOption) (x y : CStr × OptSt) (o : Int)
    (hr : runItems ctx n d.items x = .next y) (hf : Frame x.2 0 o) (h0 : 0 ≤ n)
    (hn : d.Neutral) (hu : x.2.userdefault = false) (hfound : x.2.userdefaultfound = false) :
    (if y.2.argdefault ≠ [] ∨ y.2.userdefault = true then some (chosenDefault y.2) else none) =
      insertedDefault x.2.optiontype (lastOutcome d.name x.2.optiontype ctx.defaultsettings)
        d.evs y.2.argdefault := by
  obtain ⟨n1, n2, n3⟩ := hn
  unfold NamedOption.items at hr
  rw [runItems_append] at hr
  obtain ⟨x1, r1, hr⟩ := Step.bind_eq_next hr
  have s1 := sameUser_neutrals ctx n _ x x1 n1 r1
  have g1 := sameFound_neutrals ctx n _ x x1 n1 r1
  have f1 := frame_runItems ctx n _ x x1 o r1 hf
  simp only [runItems, Item.run, Step.bind_next] at hr
  rw [runItems_append] at hr
  obtain ⟨x3, r3, hr⟩ := Step.bind_eq_next hr
  have s3 := sameUser_neutrals ctx n _ _ x3 n2 r3
  have g3 := sameFound_neutrals ctx n _ _ x3 n2 r3
  have f3 := frame_runItems ctx n _ _ x3 o r3
    (frame_item_run ctx n (.shortname d.nameWs d.nameWs1 d.name d.nameWs2) x1 _ o rfl f1)
  rw [runItems_append] at hr
  obtain ⟨x5, r5, hr⟩ := Step.bind_eq_next hr
  have s7 := sameUser_neutrals ctx n _ _ y n3 hr
  have g7 := sameFound_neutrals ctx n _ _ y n3 hr
  have t1 : x1.2.optiontype = x.2.optiontype := s1.optiontype
  have ty3 : x3.2.optiontype = x.2.optiontype := by
    rw [s3.optiontype]
    show (shortnameEffect ctx d.name x1.2).optiontype = _
    rw [← t1]
    unfold shortnameEffect
    cases lastOutcome d.name x1.2.optiontype ctx.defaultsettings <;> rfl
  have found3 : x3.2.userdefaultfound = false := by
    rw [g3.userdefaultfound]
    show (shortnameEffect ctx d.name x1.2).userdefaultfound = _
    unfold shortnameEffect
    cases lastOutcome d.name x1.2.optiontype ctx.defaultsettings <;>
      exact g1.userdefaultfound.trans hfound
  cases hl : lastOutcome d.name x.2.optiontype ctx.defaultsettings with
  | none =>
    have u3 : x3.2.userdefault = false := by
      rw [s3.userdefault]
      show (shortnameEffect ctx d.name x1.2).userdefault = _
      unfold shortnameEffect
      rw [t1, hl]
      exact s1.userdefault.trans hu
    have o5 := valItems_sameOption ctx n d x3 x5 o r5 f3 h0
    have u7 : y.2.userdefault = false := (s7.userdefault.trans o5.userdefault).trans u3
    simp [insertedDefault, chosenDefault, u7]
  | some p =>
    obtain ⟨u, v⟩ := p
    obtain ⟨a1, a2, a3⟩ := shortnameEffect_some ctx d.name x1.2 u v (by rw [t1]; exact hl)
    have u3 : x3.2.userdefault = u := s3.userdefault.trans a2
    have v3 : x3.2.userdefaultvalue = v := s3.userdefaultvalue.trans a3
    cases u with
    | false =>
      have o5 := valItems_sameOption ctx n d x3 x5 o r5 f3 h0
      have u7 : y.2.userdefault = false := (s7.userdefault.trans o5.userdefault).trans u3
      simp [insertedDefault, chosenDefault, u7]
    | true =>
      obtain ⟨b1, b2, o5⟩ := valItems_found ctx n d x3 x5 o v r5 f3 h0 u3 v3
      have u7 : y.2.userdefault = true := (s7.userdefault.trans o5.userdefault).trans u3
      have v7 : y.2.userdefaultvalue = v := (s7.userdefaultvalue.trans o5.userdefaultvalue).trans v3
      have ty7 : y.2.optiontype = x.2.optiontype := (s7.optiontype.trans o5.optiontype).trans ty3
      have fd7 : y.2.userdefaultfound = (findId v d.evs).isSome := by
        rw [g7.userdefaultfound, b1, found3]; rfl
      have id7 : y.2.userdefaultid = (findId v d.evs).getD x3.2.userdefaultid := by
        rw [g7.userdefaultid, b2]
      simp only [insertedDefault, chosenDefault, u7, or_true, ↓reduceIte, ty7, v7, fd7, id7]
      split
      · cases findId v d.evs <;> simp
      · rfl

/-- C8, amended: an option whose child elements are one `arg_shortname`
element and at most one `enum_vals` element behind it, among elements that leave
the user default alone (filler elements and `constraints` blocks).  When the
document survives, the text written into the inserted `arg_defval` element is
what `insertedDefault` says: with a user default that the last setting naming
the option makes valid, the user's value for a boolean or numeric option, and
for an enum option the id of the last enum value (removed or not) whose
`ev_shortname` is the user's value, or else the default value of the winning
option-level constraint, empty or not; without a valid user default, the
default value of the winning option-level constraint when it is not empty; and
otherwise no element is inserted at all. -/
theorem default_priority (ctx : Ctx) (pre : CStr) (d : NamedOption)
    (t trailer : CStr) (s : OState) (n o : Int)
    (hpre : scanPrefix (optionHooks ctx) optInit pre
      (renderItems d.items ++ (t ++ (lit "</option>" ++ trailer))) = .next s)
    (ha : AfterTag s n) (hn : 1 ≤ n) (hf : Frame s.m 0 o) (ho : o ≤ n)
    (hu : s.m.userdefault = false) (hfound : s.m.userdefaultfound = false)
    (hc : ∀ i ∈ d.items, i.Clean) (hneutral : d.Neutral)
    (ht : ∀ c ∈ t, c ≠ '<') (htr : ∀ c ∈ trailer, c ≠ '<') :
    parseOption ctx (pre ++ (renderItems d.items ++ (t ++ (lit "</option>" ++ trailer)))) =
      match runItems ctx n d.items (s.core.out, s.m) with
      | .next x =>
        if x.2.numenumvals = 0 ∨ x.2.optionqualified = false then .returned none 0
        else
          match insertedDefault s.m.optiontype
              (lastOutcome d.name s.m.optiontype ctx.defaultsettings) d.evs x.2.argdefault with
          | some v =>
            .returned (some (x.1 ++ (defaultLine v ++ (t ++ (lit "</option>" ++ trailer))))) 0
          | none => .returned (some (x.1 ++ (t ++ (lit "</option>" ++ trailer)))) 0
      | _ => .returned none 0 := by
  rw [parseOption_items ctx pre d.items t trailer s n o hpre ha hn hf ho hc ht htr]
  cases hr : runItems ctx n d.items (s.core.out, s.m) with
  | next x =>
    have h : (if x.2.argdefault ≠ [] ∨ x.2.userdefault = true then some (chosenDefault x.2)
        else none) = insertedDefault s.m.optiontype
          (lastOutcome d.name s.m.optiontype ctx.defaultsettings) d.evs x.2.argdefault :=
      namedOption_run ctx n d (s.core.out, s.m) x o hr hf (by omega) hneutral hu hfound
    simp only []
    rw [← h]
    unfold closeOutcome
    by_cases h1 : x.2.numenumvals = 0 ∨ x.2.optionqualified = false
    · rw [if_pos h1, if_pos h1]
    · rw [if_neg h1, if_neg h1]
      by_cases h2 : x.2.argdefault ≠ [] ∨ x.2.userdefault = true
      · rw [if_pos h2, if_pos h2]
      · rw [if_neg h2, if_neg h2]
  | discard k => rfl
  | fatal => rfl
  | undefined => rfl

set_option maxRecDepth 100000 in
/-- C8 as stated fails: the option `PageSize` carries its own `arg_defval`
element with the text `ev/A4`, and the winning option-level constraint has no
default value.  For the setting `PageSize=Foo`, which names no enum value, the
inserted element is empty; without any setting no element is inserted.  The
element of the document is copied as it stands and never chosen. -/
theorem default_priority_counterexample :
    parseOption (ctxSetting (lit "PageSize=Foo"))
        (pageSizeHead ++ (renderItems (pageSizeOption [builtinA4] blockGs).items ++
          optionTail)) =
      .returned (some (lit "<option type=\"enum\" id=\"opt/PageSize\">\n <arg_defval>ev/A4</arg_defval>\n <arg_shortname><en>PageSize</en></arg_shortname>\n <enum_vals>\n  <enum_val id=\"ev/A4\">\n   <ev_shortname><en>A4</en></ev_shortname>\n  </enum_val>\n </enum_vals>\n  <arg_defval></arg_defval>\n</option>\n")) 0 ∧
    parseOption ctxLaserJetGs
        (pageSizeHead ++ (renderItems (pageSizeOption [builtinA4] blockGs).items ++
          optionTail)) =
      .returned (some (lit "<option type=\"enum\" id=\"opt/PageSize\">\n <arg_defval>ev/A4</arg_defval>\n <arg_shortname><en>PageSize</en></arg_shortname>\n <enum_vals>\n  <enum_val id=\"ev/A4\">\n   <ev_shortname><en>A4</en></ev_shortname>\n  </enum_val>\n </enum_vals>\n</option>\n")) 0 := by
  decide

set_option maxRecDepth 100000 in
/-- Witness of the amended C8: the setting `PageSize=A3` for the option
`PageSize` whose winning constraint has the default value `ev/A4`; the id of
the enum value with the short name `A3` is written. -/
theorem default_priority_witness :
    parseOption (ctxSetting (lit "PageSize=A3"))
        (pageSizeHead ++ (renderItems (pageSizeOption [] blockGsA4).items ++
          ([chNL] ++ (lit "</option>" ++ [chNL])))) =
      .returned (some (lit "<option type=\"enum\" id=\"opt/PageSize\">\n <arg_shortname><en>PageSize</en></arg_shortname>\n <enum_vals>\n  <enum_val id=\"ev/A4\">\n   <ev_shortname><en>A4</en></ev_shortname>\n  </enum_val>\n </enum_vals>\n  <arg_defval>ev/A3</arg_defval>\n</option>\n")) 0 :=
  (default_priority (ctxSetting (lit "PageSize=A3")) pageSizeHead (pageSizeOption [] blockGsA4)
    [chNL] [chNL] stPageSizeA3 2 1
    (Step.eq_next_getD _ _ (by decide)) (by decide) (by decide) (by decide) (by decide)
    (by decide) (by decide) (by decide) (by decide) (by decide) (by decide)).trans (by decide)

/-! ## The scan of a tag as a sequence of actions -/

theorem span_all_plain (w a b : CStr)
    (h : w.span (fun c => decide (PlainChar c)) = (a, b)) :
    w = a ++ b ∧ ∀ c ∈ a, PlainChar c := by
  rw [List.span_eq_take_drop] at h
  cases h
  refine ⟨(List.takeWhile_append_dropWhile _ _).symm, ?_⟩
  intro c hc
  have := List.mem_takeWhile_imp hc
  simpa using this

theorem wordOk_tagWord (w : CStr) (h : wordOk w = true) : TagWord w := by
  unfold wordOk at h
  split at h
  · rename_i a hs
    obtain ⟨e, hp⟩ := span_all_plain w a [] hs
    cases a with
    | nil => simp at h
    | cons ch a =>
      rw [e, List.append_nil]
      exact TagWord.plain ch a hp
  · rename_i a q v hs
    obtain ⟨e, hp⟩ := span_all_plain w a (q :: v) hs
    simp only [Bool.and_eq_true, Bool.not_eq_true', decide_eq_true_eq, List.all_eq_true] at h
    obtain ⟨⟨⟨h1, h2⟩, h3⟩, h4⟩ := h
    cases a with
    | nil => simp at h1
    | cons ch a =>
      subst h2
      have hv : v = v.dropLast ++ [chDQ] := by
        have := List.dropLast_append_getLast? chDQ (by simpa using h3)
        exact this.symm
      have e2 : w = ch :: a ++ chDQ :: v.dropLast ++ [chDQ] := by
        rw [e]
        conv_lhs => rw [hv]
        simp
      rw [e2]
      exact TagWord.quoted ch a v.dropLast hp (fun c hc => h4 c hc)

theorem textMode_grow {σ : Type} (s : PState σ) (t : CStr) (h : TextMode s.core) :
    TextMode (advanceBy s t).core := h

/-- The `/` in front of the `>` of a tag without body. -/
theorem step_slash_inGap {σ : Type} (h : Hooks σ) (t : PState σ) (rest : CStr)
    (hg : InGap t.core) (hn : t.core.tagnamefound = true) :
    step h t '/' rest = .next (slashState t) := by
  obtain ⟨g1, g2, g3, g4, g5, g6⟩ := hg
  unfold step
  have e1 : ('/' : Char) ≠ '<' := by decide
  have e2 : isDelim '/' = true := by decide
  have e3 : ('/' : Char) ≠ '>' := by decide
  simp only [e1, e2, e3, ↓reduceIte, g1, g2, g3, g4, hn, Bool.false_eq_true, Step.bind_next]
  congr 1
  cases t with
  | mk core m =>
    cases core
    simp_all [advance, slashState, TAG_EMPTY]

/-- The `>` of a tag behind a blank or a `/`. -/
theorem step_gt_inGap {σ : Type} (h : Hooks σ) (t : PState σ) (rest : CStr)
    (hg : InGap t.core) : step h t '>' rest = tagEnd h t := by
  obtain ⟨g1, g2, g3, g4, g5, g6⟩ := hg
  unfold step
  simp only [gt_ne_lt, isDelim_gt, g1, g2, g3, g4, ↓reduceIte, Bool.false_eq_true, gt_ne_slash,
    Step.bind_next]

theorem inGap_of_sameFlags {a b : Core} (h : SameFlags a b) (hg : InGap b) : InGap a := by
  obtain ⟨f1, f2, f3, f4, f5, f6, f7⟩ := h
  obtain ⟨g1, g2, g3, g4, g5, g6⟩ := hg
  exact ⟨f1.trans g1, f2.trans g2, f3.trans g3, f4.trans g4, f5.trans g5, f6.trans g6⟩

theorem inGap_paramState {σ : Type} (t : PState σ) (hw : InWord t.core) :
    InGap (paramState t).core := by
  obtain ⟨h1, h2, h3, h4, h5, h6⟩ := hw
  exact ⟨h1, h2, rfl, h4, h5, h6⟩

theorem inGap_nameState {σ : Type} (t : PState σ) (hw : InWord t.core) :
    InGap (nameState t).core := by
  obtain ⟨h1, h2, h3, h4, h5, h6⟩ := hw
  exact ⟨h1, h2, rfl, h4, h5, h6⟩

theorem inGap_slashState {σ : Type} (t : PState σ) (hg : InGap t.core) :
    InGap (slashState t).core := hg

theorem inGap_advance {σ : Type} (t : PState σ) (ch : Char) (hg : InGap t.core) :
    InGap (advance t ch).core := hg

theorem blank_facts : isDelim ' ' = true ∧ (' ' : Char) ≠ '/' ∧ (' ' : Char) ≠ '>' ∧
    (' ' : Char) ≠ '<' := by decide

/-- The `>` or ` />` that ends a tag, read between two words. -/
theorem scan_stop {σ : Type} (h : Hooks σ) (t : PState σ) (suf : CStr)
    (hg : InGap t.core) (hn : t.core.tagnamefound = true) :
    scanPrefix h (advance t ' ') ['/', '>'] suf =
      (tagEnd h (slashState (advance t ' '))).bind fun s => .next s := by
  rw [scanPrefix_cons, step_slash_inGap h _ _ (inGap_advance t ' ' hg) hn]
  simp only [Step.bind_next]
  rw [scanPrefix_cons, step_gt_inGap h _ _ (inGap_slashState _ (inGap_advance t ' ' hg))]
  cases tagEnd h (slashState (advance t ' ')) <;> simp [scanPrefix, Step.bind]

theorem step_bind_id {α : Type} (x : Step α) : (x.bind fun s => .next s) = x := by
  cases x <;> rfl

/-- The words of a tag behind a parameter, and the end of the tag. -/
theorem scan_tag_params {σ : Type} (h : Hooks σ) (hs : FlagSafe h) (k : TagKind)
    (ps : List CStr) (t : PState σ) (suf : CStr)
    (hw : InWord t.core) (hn : t.core.tagnamefound = true)
    (hp : ∀ w ∈ ps, wordOk w = true) :
    scanPrefix h t (renderWords ps ++ k.stop) suf =
      tagEnd h (closeState k (runWords h ps (h.onParam (paramState t)))) := by
  induction ps generalizing t with
  | nil =>
    have hg : InGap (h.onParam (paramState t)).core :=
      inGap_of_sameFlags (hs.onParam _) (inGap_paramState t hw)
    have hn1 : (h.onParam (paramState t)).core.tagnamefound = true := by
      rw [(hs.onParam _).2.2.2.2.2.2]; exact hn
    cases k with
    | void =>
      show scanPrefix h t (' ' :: ['/', '>']) suf = _
      rw [scanPrefix_cons, step_param_blank h t ' ' _ hw hn blank_facts.1 blank_facts.2.1
        blank_facts.2.2.1 blank_facts.2.2.2]
      simp only [Step.bind_next]
      rw [scan_stop h _ suf hg hn1, step_bind_id]
      rfl
    | opening =>
      show scanPrefix h t ['>'] suf = _
      rw [scanPrefix_cons, step_param_gt h hs t _ hw hn]
      show _ = tagEnd h (h.onParam (paramState t))
      cases tagEnd h (h.onParam (paramState t)) <;> simp [scanPrefix]
    | closing =>
      show scanPrefix h t ['>'] suf = _
      rw [scanPrefix_cons, step_param_gt h hs t _ hw hn]
      show _ = tagEnd h (h.onParam (paramState t))
      cases tagEnd h (h.onParam (paramState t)) <;> simp [scanPrefix]
  | cons w ps ih =>
    have hg : InGap (h.onParam (paramState t)).core :=
      inGap_of_sameFlags (hs.onParam _) (inGap_paramState t hw)
    have hn1 : (h.onParam (paramState t)).core.tagnamefound = true := by
      rw [(hs.onParam _).2.2.2.2.2.2]; exact hn
    have e : renderWords (w :: ps) ++ k.stop = ' ' :: (w ++ (renderWords ps ++ k.stop)) := by
      simp [renderWords]
    rw [e, scanPrefix_cons, step_param_blank h t ' ' _ hw hn blank_facts.1 blank_facts.2.1
      blank_facts.2.2.1 blank_facts.2.2.2]
    simp only [Step.bind_next]
    rw [scanPrefix_append, scanPrefix_word h _ w _ (inGap_advance _ ' ' hg)
      (wordOk_tagWord w (hp w (by simp)))]
    simp only [Step.bind_next]
    rw [ih _ (inWord_afterWord _ w (inGap_advance _ ' ' hg)) hn1
      (fun w1 h1 => hp w1 (by simp [h1])), paramState_afterWord]
    rfl

/-- The words of a tag behind its name, and the end of the tag. -/
theorem scan_tag_name {σ : Type} (h : Hooks σ) (hs : FlagSafe h) (k : TagKind)
    (ps : List CStr) (t : PState σ) (suf : CStr)
    (hw : InWord t.core) (hn : t.core.tagnamefound = false)
    (hp : ∀ w ∈ ps, wordOk w = true) :
    scanPrefix h t (renderWords ps ++ k.stop) suf =
      (h.onName (nameState t)).bind fun s1 =>
        tagEnd h (closeState k (runWords h ps s1)) := by
  cases ps with
  | nil =>
    cases k with
    | void =>
      show scanPrefix h t (' ' :: ['/', '>']) suf = _
      rw [scanPrefix_cons, step_name_blank h t ' ' _ hw hn blank_facts.1 blank_facts.2.1
        blank_facts.2.2.1 blank_facts.2.2.2]
      cases hr : h.onName (nameState t) with
      | next s1 =>
        have hg : InGap s1.core :=
          inGap_of_sameFlags (hs.onName _ _ hr) (inGap_nameState t hw)
        have hn1 : s1.core.tagnamefound = true := by
          rw [(hs.onName _ _ hr).2.2.2.2.2.2]; rfl
        simp only [Step.bind_next]
        rw [scan_stop h _ suf hg hn1, step_bind_id]
        rfl
      | discard r => rfl
      | fatal => rfl
      | undefined => rfl
    | opening =>
      show scanPrefix h t ['>'] suf = _
      rw [scanPrefix_cons, step_name_gt h hs t _ hw hn]
      show _ = (h.onName (nameState t)).bind (tagEnd h)
      cases (h.onName (nameState t)).bind (tagEnd h) <;> simp [scanPrefix]
    | closing =>
      show scanPrefix h t ['>'] suf = _
      rw [scanPrefix_cons, step_name_gt h hs t _ hw hn]
      show _ = (h.onName (nameState t)).bind (tagEnd h)
      cases (h.onName (nameState t)).bind (tagEnd h) <;> simp [scanPrefix]
  | cons w ps =>
    have e : renderWords (w :: ps) ++ k.stop = ' ' :: (w ++ (renderWords ps ++ k.stop)) := by
      simp [renderWords]
    rw [e, scanPrefix_cons, step_name_blank h t ' ' _ hw hn blank_facts.1 blank_facts.2.1
      blank_facts.2.2.1 blank_facts.2.2.2]
    cases hr : h.onName (nameState t) with
    | next s1 =>
      have hg : InGap s1.core :=
        inGap_of_sameFlags (hs.onName _ _ hr) (inGap_nameState t hw)
      have hn1 : s1.core.tagnamefound = true := by
        rw [(hs.onName _ _ hr).2.2.2.2.2.2]; rfl
      simp only [Step.bind_next]
      rw [scanPrefix_append, scanPrefix_word h _ w _ (inGap_advance _ ' ' hg)
        (wordOk_tagWord w (hp w (by simp)))]
      simp only [Step.bind_next]
      rw [scan_tag_params h hs k ps _ suf (inWord_afterWord _ w (inGap_advance _ ' ' hg)) hn1
        (fun w1 h1 => hp w1 (by simp [h1])), paramState_afterWord]
      rfl
    | discard r => rfl
    | fatal => rfl
    | undefined => rfl

/-- The scan of a tag with the text in front of it is the sequence of actions
`runTok`. -/
theorem scan_tok {σ : Type} (h : Hooks σ) (hs : FlagSafe h) (tok : Tok) (s : PState σ)
    (suf : CStr) (ht : TextMode s.core) (hc : tok.Clean) :
    scanPrefix h s tok.render suf = runTok h tok s := by
  obtain ⟨c1, c2, c3⟩ := hc
  have ht1 : TextMode (advanceBy s tok.text).core := textMode_grow s tok.text ht
  unfold Tok.render Tok.tag runTok
  rw [scanPrefix_append, scanPrefix_text h s tok.text _ ht c1]
  simp only [Step.bind_next]
  cases hk : tok.kind with
  | closing =>
    show scanPrefix h _ ('<' :: '/' :: (tok.nm ++ (renderWords tok.params ++ TagKind.closing.stop)))
      suf = _
    rw [scanPrefix_cons, List.cons_append,
      step_lt h _ _ ht1 (opensComment_cons_of_ne _ (by decide))]
    simp only [Step.bind_next]
    rw [scanPrefix_cons, step_slash_afterLt h _ _ ht1]
    simp only [Step.bind_next]
    rw [scanPrefix_append, scanPrefix_word h _ tok.nm _ (inGap_afterLtSlash _ ht1) c2.tagWord]
    simp only [Step.bind_next]
    rw [scan_tag_name h hs .closing tok.params _ suf
      (inWord_afterWord _ tok.nm (inGap_afterLtSlash _ ht1)) rfl c3,
      nameState_afterWord_afterLtSlash]
    rfl
  | opening =>
    show scanPrefix h _ ('<' :: (tok.nm ++ (renderWords tok.params ++ TagKind.opening.stop)))
      suf = _
    rw [scanPrefix_cons, step_lt h _ _ ht1 (by rw [List.append_assoc]; exact c2.noComment _)]
    simp only [Step.bind_next]
    rw [scanPrefix_append, scanPrefix_word h _ tok.nm _ (inGap_afterLt _ ht1) c2.tagWord]
    simp only [Step.bind_next]
    rw [scan_tag_name h hs .opening tok.params _ suf
      (inWord_afterWord _ tok.nm (inGap_afterLt _ ht1)) rfl c3, nameState_afterWord_afterLt]
    rfl
  | void =>
    show scanPrefix h _ ('<' :: (tok.nm ++ (renderWords tok.params ++ TagKind.void.stop)))
      suf = _
    rw [scanPrefix_cons, step_lt h _ _ ht1 (by rw [List.append_assoc]; exact c2.noComment _)]
    simp only [Step.bind_next]
    rw [scanPrefix_append, scanPrefix_word h _ tok.nm _ (inGap_afterLt _ ht1) c2.tagWord]
    simp only [Step.bind_next]
    rw [scan_tag_name h hs .void tok.params _ suf
      (inWord_afterWord _ tok.nm (inGap_afterLt _ ht1)) rfl c3, nameState_afterWord_afterLt]
    rfl

theorem sameFlags_runWords {σ : Type} (h : Hooks σ) (hs : FlagSafe h) (ps : List CStr)
    (t : PState σ) (hg : InGap t.core) (hn : t.core.tagnamefound = true) :
    InGap (runWords h ps t).core ∧ (runWords h ps t).core.tagnamefound = true := by
  induction ps generalizing t with
  | nil => exact ⟨hg, hn⟩
  | cons w ps ih =>
    have f := hs.onParam (atParam (advance t ' ') w)
    obtain ⟨g1, g2, g3, g4, g5, g6⟩ := hg
    exact ih _ (inGap_of_sameFlags f ⟨g1, g2, rfl, g4, g5, g6⟩)
      (by rw [f.2.2.2.2.2.2]; exact hn)

/-- Behind the `>` of a tag the scanner stands between two tags. -/
theorem textMode_tagEnd {σ : Type} (h : Hooks σ) (hs : FlagSafe h) (t s : PState σ)
    (hg : InGap t.core) (hr : tagEnd h t = .next s) : TextMode s.core := by
  obtain ⟨g1, g2, g3, g4, g5, g6⟩ := hg
  unfold tagEnd at hr
  simp only at hr
  split at hr
  · cases hr
  · obtain ⟨b, _, hr⟩ := Step.bind_eq_next hr
    obtain ⟨s3, h3, hr⟩ := Step.bind_eq_next hr
    cases hr
    obtain ⟨f1, f2, f3, f4, f5, f6, f7⟩ := hs.onEnd _ _ h3
    exact ⟨f1, f2.trans g2, f4.trans g4, f5.trans g5, f6.trans g6, f3.trans g3⟩

theorem inGap_closeState {σ : Type} (k : TagKind) (t : PState σ) (hg : InGap t.core) :
    InGap (closeState k t).core := by
  cases k <;> exact hg

/-- Behind a tag the scanner stands between two tags. -/
theorem textMode_runTok {σ : Type} (h : Hooks σ) (hs : FlagSafe h) (tok : Tok) (s s1 : PState σ)
    (ht : TextMode s.core) (hr : runTok h tok s = .next s1) : TextMode s1.core := by
  unfold runTok at hr
  obtain ⟨s2, h2, hr⟩ := Step.bind_eq_next hr
  obtain ⟨t1, t2, t3, t4, t5, t6⟩ := ht
  have f := hs.onName _ _ h2
  have hg : InGap s2.core := inGap_of_sameFlags f ⟨rfl, t2, rfl, t3, t4, t5⟩
  have hn : s2.core.tagnamefound = true := by rw [f.2.2.2.2.2.2]; rfl
  exact textMode_tagEnd h hs _ s1
    (inGap_closeState _ _ (sameFlags_runWords h hs tok.params s2 hg hn).1) hr

/-- The scan of a list of tags is the sequence of actions `runToks`. -/
theorem scan_toks {σ : Type} (h : Hooks σ) (hs : FlagSafe h) (toks : List Tok) (s : PState σ)
    (suf : CStr) (ht : TextMode s.core) (hc : ∀ t ∈ toks, t.Clean) :
    scanPrefix h s (renderToks toks) suf = runToks h toks s := by
  induction toks generalizing s with
  | nil => rfl
  | cons t l ih =>
    simp only [renderToks, runToks]
    rw [scanPrefix_append, scan_tok h hs t s _ ht (hc t (by simp))]
    cases hr : runTok h t s with
    | next s1 =>
      simp only [Step.bind_next]
      exact ih s1 (textMode_runTok h hs t s s1 ht hr) (fun t1 h1 => hc t1 (by simp [h1]))
    | discard r => rfl
    | fatal => rfl
    | undefined => rfl

theorem textMode_runToks {σ : Type} (h : Hooks σ) (hs : FlagSafe h) (toks : List Tok)
    (s s1 : PState σ) (ht : TextMode s.core) (hr : runToks h toks s = .next s1) :
    TextMode s1.core := by
  induction toks generalizing s with
  | nil => cases hr; exact ht
  | cons t l ih =>
    simp only [runToks] at hr
    obtain ⟨s2, h2, hr⟩ := Step.bind_eq_next hr
    exact ih s2 (textMode_runTok h hs t s s2 ht h2) hr

/-- The scan of a document that consists of tags and a text behind the last
tag. -/
theorem scanLoop_toks {σ : Type} (h : Hooks σ) (hs : FlagSafe h) (toks : List Tok)
    (s : PState σ) (trailer : CStr) (ht : TextMode s.core) (hc : ∀ t ∈ toks, t.Clean)
    (htr : ∀ c ∈ trailer, c ≠ '<') :
    scanLoop h s (renderToks toks ++ trailer) =
      (runToks h toks s).bind fun s1 => .next (advanceBy s1 trailer) := by
  rw [scanLoop_append, scan_toks h hs toks s trailer ht hc]
  cases hr : runToks h toks s with
  | next s1 =>
    simp only [Step.bind_next]
    rw [scanLoop_eq_scanPrefix,
      scanPrefix_text h s1 trailer [] (textMode_runToks h hs toks s s1 ht hr) htr]
  | discard r => rfl
  | fatal => rfl
  | undefined => rfl

/-- C17, amended: when the scan of the whole device document goes through and
ends in state `s`, Device-mode parse ends with the fatal error exactly when the
make is empty or the model is empty; one of the two missing is enough. -/
theorem device_fatal_iff (ctx : Ctx) (init s : PrnState) (data : CStr)
    (hs : scanLoop (printerHooks ctx) init data = .next s) :
    parsePrinter ctx init data = .fatal ↔ (s.m.make = [] ∨ s.m.model = []) := by
  unfold parsePrinter parsePrinterState
  rw [hs]
  simp only [Step.bind_next, prnCheck]
  split
  · rename_i h
    exact ⟨fun _ => h, fun _ => rfl⟩
  · rename_i h
    exact ⟨fun e => (by cases e), fun e => absurd e h⟩

set_option maxRecDepth 100000 in
/-- C17 as stated fails: the document has a make, only the model is missing, and
the parse ends with the fatal error all the same. -/
theorem device_fatal_counterexample :
    (scanLoop (printerHooks ctxLaserJetGs) (prnInit [] [] [] []) docMakeOnly).isNext = true ∧
    ((scanLoop (printerHooks ctxLaserJetGs) (prnInit [] [] [] []) docMakeOnly).getD
      (prnInit [] [] [] [])).m.make = lit "HP" ∧
    parsePrinter ctxLaserJetGs (prnInit [] [] [] []) docMakeOnly = .fatal := by
  decide

set_option maxRecDepth 100000 in
/-- Witness of the amended C17: a document with make and model is returned. -/
theorem device_fatal_iff_witness :
    ¬ parsePrinter ctxLaserJetGs (prnInit [] [] [] []) docMakeModel = .fatal :=
  fun e => absurd ((device_fatal_iff ctxLaserJetGs (prnInit [] [] [] [])
    ((scanLoop (printerHooks ctxLaserJetGs) (prnInit [] [] [] []) docMakeModel).getD
      (prnInit [] [] [] [])) docMakeModel (Step.eq_next_getD _ _ (by decide))).mp e) (by decide)

/-- Inside a comment every character but `>` is skipped. -/
theorem step_comment {σ : Type} (h : Hooks σ) (s : PState σ) (ch : Char) (rest : CStr)
    (h1 : s.core.intag = true) (h2 : s.core.incomment = true) (h3 : s.core.inquotes = false)
    (hc : ch ≠ '>') : step h s ch rest = .next (advance s ch) := by
  unfold step
  by_cases hlt : ch = '<'
  · simp [hlt, h1, h2, h3]
  · by_cases hd : isDelim ch = true
    · simp [hlt, hd, h1, h2, h3, hc]
    · simp [hlt, hd, h1, h2]

theorem scanPrefix_comment {σ : Type} (h : Hooks σ) (s : PState σ) (w suf : CStr)
    (h1 : s.core.intag = true) (h2 : s.core.incomment = true) (h3 : s.core.inquotes = false)
    (hc : ∀ c ∈ w, c ≠ '>') : scanPrefix h s w suf = .next (advanceBy s w) := by
  induction w generalizing s with
  | nil => simp [scanPrefix, advanceBy_nil]
  | cons ch w ih =>
    rw [scanPrefix_cons, step_comment h s ch _ h1 h2 h3 (hc ch (by simp))]
    simp only [Step.bind_next]
    rw [ih (advance s ch) h1 h2 h3 (fun c hm => hc c (by simp [hm])), advanceBy_advance]

theorem step_comment_lt {σ : Type} (h : Hooks σ) (s : PState σ) (rest : CStr)
    (ht : TextMode s.core) (hn : opensComment rest = true) :
    step h s '<' rest = .next (afterCommentLt s) := by
  obtain ⟨h1, h2, h3, h4, h5, h6⟩ := ht
  unfold step
  simp only [↓reduceIte, h3, h1, Bool.false_eq_true, hn]
  congr 1
  cases s with
  | mk core m =>
    cases core
    simp_all [advance, afterCommentLt]

theorem scanPrefix_openAtEnd {σ : Type} (h : Hooks σ) (s : PState σ) (tail : CStr)
    (ht : TextMode s.core) (ho : OpenAtEnd tail) :
    ∃ s1, scanPrefix h s tail [] = .next s1 ∧ s1.core.intag = true ∧
      s1.core.out = s.core.out ++ tail ∧ s1.m = s.m ∧
      s1.core.comboconfirmed = s.core.comboconfirmed := by
  rcases ho with ⟨w, rfl, hw⟩ | ⟨nm, rfl, hp, hne⟩
  · refine ⟨advanceBy (afterCommentLt s) (lit "!--" ++ w), ?_, rfl, ?_, rfl, rfl⟩
    · show scanPrefix h s ('<' :: (lit "!--" ++ w)) [] = _
      rw [scanPrefix_cons, List.append_nil, step_comment_lt h s (lit "!--" ++ w) ht (by
        show opensComment ('!' :: '-' :: '-' :: w) = true
        simp [opensComment])]
      simp only [Step.bind_next]
      exact scanPrefix_comment h _ _ [] rfl rfl ht.2.2.1 (by
        intro c hc
        rcases List.mem_append.mp hc with h1 | h1
        · have : c = '!' ∨ c = '-' := by simpa [lit] using h1
          rcases this with rfl | rfl <;> decide
        · exact hw c h1)
    · simp [advanceBy, afterCommentLt, lit]
  · cases nm with
    | nil =>
      refine ⟨afterLt s, ?_, rfl, rfl, rfl, rfl⟩
      rw [scanPrefix_cons, List.append_nil, step_lt h s [] ht (by simp [opensComment])]
      rfl
    | cons ch nm =>
      refine ⟨afterWord (afterLt s) (ch :: nm), ?_, rfl, ?_, rfl, rfl⟩
      · rw [scanPrefix_cons, List.append_nil, step_lt h s (ch :: nm) ht
          (opensComment_cons_of_ne _ (by simpa using hne))]
        simp only [Step.bind_next]
        exact scanPrefix_word h _ _ [] (inGap_afterLt s ht) (TagWord.plain ch nm hp)
      · simp [afterWord, afterLt]

/-- C18, amended: in every mode, a buffer that ends inside a comment or inside
the name of a tag raises no error.  When the scan of the part `pre` in front of
the open tag ends between two tags in state `s`, the scan loop ends at the end
of the buffer with the tag still open, the variables of the mode as in `s` and
the buffer unchanged, and the function goes on to the final actions of the mode
and returns. -/
theorem open_tag_at_end_returns {σ : Type} (h : Hooks σ) (s0 s : PState σ) (pre tail : CStr)
    (hpre : scanPrefix h s0 pre tail = .next s) (ht : TextMode s.core) (ho : OpenAtEnd tail) :
    (∃ s1, scanLoop h s0 (pre ++ tail) = .next s1 ∧ s1.core.intag = true ∧
      s1.core.out = s.core.out ++ tail ∧ s1.m = s.m) ∧
    finish (scanLoop h s0 (pre ++ tail)) =
      .returned (some (s.core.out ++ tail)) s.core.comboconfirmed := by
  obtain ⟨s1, e1, e2, e3, e4, e5⟩ := scanPrefix_openAtEnd h s tail ht ho
  have e : scanLoop h s0 (pre ++ tail) = .next s1 := by
    rw [scanLoop_append, hpre]
    simp only [Step.bind_next]
    rw [scanLoop_eq_scanPrefix, e1]
  refine ⟨⟨s1, e, e2, e3, e4⟩, ?_⟩
  rw [e]
  show Outcome.returned (some s1.core.out) s1.core.comboconfirmed = _
  rw [e3, e5]

set_option maxRecDepth 100000 in
/-- C18 as stated fails: an option document that ends inside the tag `option`,
and one that ends inside a comment, are returned as they are, without error. -/
theorem open_tag_at_end_counterexample :
    parseOption ctxLaserJetGs (lit "<option type=\"bool\"") =
      .returned (some (lit "<option type=\"bool\"")) 0 ∧
    parseOption ctxLaserJetGs (lit "<option type=\"bool\"><!-- abc") =
      .returned (some (lit "<option type=\"bool\"><!-- abc")) 0 := by
  decide

set_option maxRecDepth 100000 in
/-- Witness of the amended C18: an option document that ends inside a comment. -/
theorem open_tag_at_end_returns_witness :
    parseOption ctxLaserJetGs (lit "<option type=\"bool\">" ++ lit "<!-- abc") =
      .returned (some (lit "<option type=\"bool\"><!-- abc")) 0 :=
  (open_tag_at_end_returns (optionHooks ctxLaserJetGs) optInit
    ((scanPrefix (optionHooks ctxLaserJetGs) optInit (lit "<option type=\"bool\">")
      (lit "<!-- abc")).getD optInit)
    (lit "<option type=\"bool\">") (lit "<!-- abc")
    (Step.eq_next_getD _ _ (by decide)) (by decide)
    (Or.inl ⟨lit " abc", rfl, by decide⟩)).2.trans (by decide)

/-- A `<` inside a tag that is not a comment, outside quotes and behind the
file header ends the program. -/
theorem step_nested_lt {σ : Type} (h : Hooks σ) (s : PState σ) (rest : CStr)
    (h1 : s.core.intag = true) (h2 : s.core.incomment = false)
    (h3 : s.core.inxmlheader = false) (h4 : s.core.inquotes = false) :
    step h s '<' rest = .fatal := by
  unfold step
  simp [h1, h2, h3, h4]

/-- C19, amended: in every mode, when the scan of the part `pre` of the buffer
ends inside a tag that is not a comment, outside quotes and behind the file
header (the opening tag of the root element has been read), a `<` as next
character ends the program with the error of nested angle brackets, whatever
follows. -/
theorem nested_lt_fatal {σ : Type} (h : Hooks σ) (s0 s : PState σ) (pre rest : CStr)
    (hpre : scanPrefix h s0 pre ('<' :: rest) = .next s)
    (h1 : s.core.intag = true) (h2 : s.core.incomment = false)
    (h3 : s.core.inxmlheader = false) (h4 : s.core.inquotes = false) :
    step h s '<' rest = .fatal ∧ scanLoop h s0 (pre ++ '<' :: rest) = .fatal ∧
    finish (scanLoop h s0 (pre ++ '<' :: rest)) = .fatal := by
  have e : scanLoop h s0 (pre ++ '<' :: rest) = .fatal := by
    rw [scanLoop_append, hpre]
    simp only [Step.bind_next]
    rw [scanLoop_cons, step_nested_lt h s rest h1 h2 h3 h4]
    rfl
  refine ⟨step_nested_lt h s rest h1 h2 h3 h4, e, ?_⟩
  rw [e]
  rfl

set_option maxRecDepth 100000 in
/-- C19 as stated fails twice: a `<` inside a quoted parameter of a tag is read
as a character of the word, and a `<` inside a tag of the file header, in front
of the root element, is skipped.  Both parses return without error. -/
theorem nested_lt_counterexample :
    parseOption ctxLaserJetGs (lit "<option id=\"a<b\">") =
      .returned (some (lit "<option id=\"a<b\">")) 0 ∧
    parseOption ctxLaserJetGs (lit "<?xml <x ?><option>") =
      .returned (some (lit "<option>")) 0 := by
  decide

set_option maxRecDepth 100000 in
/-- Witness of the amended C19: a `<` inside the tag `constraints` of an option
document. -/
theorem nested_lt_fatal_witness :
    parseOption ctxLaserJetGs (lit "<option><constraints " ++ '<' :: lit "x>") = .fatal :=
  (nested_lt_fatal (optionHooks ctxLaserJetGs) optInit
    ((scanPrefix (optionHooks ctxLaserJetGs) optInit (lit "<option><constraints ")
      ('<' :: lit "x>")).getD optInit)
    (lit "<option><constraints ") (lit "x>")
    (Step.eq_next_getD _ _ (by decide)) (by decide) (by decide) (by decide) (by decide)).2.2

/-- C20: in every mode (for all actions `h` of a mode) and in every state that
is outside a tag, a `>` raises no error and runs no action: the scan goes on in
the same state with the cursor one character further, the variables of the
mode and every mode-independent variable but the scanned part of the buffer are
unchanged, and the buffer keeps the character.  It is treated like every
character that is neither `<` nor a delimiter, and the rest of the buffer is
scanned from the state that the only change is the cursor. -/
theorem dangling_gt_ignored {σ : Type} (h : Hooks σ) (s : PState σ) (rest : CStr)
    (hin : s.core.intag = false) :
    step h s '>' rest = .next (advance s '>') ∧
    (advance s '>').m = s.m ∧
    (advance s '>').core = { s.core with out := s.core.out ++ ['>'] } ∧
    (∀ ch, ch ≠ '<' → step h s ch rest = .next (advance s ch)) ∧
    scanLoop h s ('>' :: rest) = scanLoop h (advance s '>') rest := by
  have hall : ∀ ch, ch ≠ '<' → step h s ch rest = .next (advance s ch) := by
    intro ch hc
    unfold step
    simp only [hc, ↓reduceIte, hin, Bool.false_eq_true, Bool.false_and]
    split
    · split <;> rfl
    · rfl
  refine ⟨hall '>' (by decide), rfl, rfl, hall, ?_⟩
  rw [scanLoop_cons, hall '>' (by decide)]
  rfl

/-- Witness of C20: a `>` at the very start of an option document. -/
theorem dangling_gt_ignored_witness :
    step (optionHooks ctxLaserJetGs) optInit '>' (lit "<option>") =
      .next (advance optInit '>') :=
  (dangling_gt_ignored (optionHooks ctxLaserJetGs) optInit (lit "<option>") rfl).1

/-! ### Simulation of the modes by the effect of their tags -/

theorem runWords_idle {σ : Type} (h : Hooks σ) (hp : ∀ s, h.onParam s = s) (ps : List CStr)
    (t : PState σ) :
    runWords h ps t = { core := wordsCore ps t.core, m := t.m } := by
  induction ps generalizing t with
  | nil => rfl
  | cons w ps ih =>
    simp only [runWords, wordsCore]
    rw [hp, ih]
    rfl

theorem closeState_eq {σ : Type} (k : TagKind) (t : PState σ) :
    closeState k t = { core := closeCore k t.core, m := t.m } := by
  cases k <;> simp [closeState, closeCore, slashState, advance]

theorem sameTag_wordsCore (ps : List CStr) (c : Core) :
    SameTag (wordsCore ps c) c ∧ (wordsCore ps c).out = c.out ++ renderWords ps ∧
    (wordsCore ps c).tagtype = c.tagtype ∧
    (c.intagword = false → (wordsCore ps c).intagword = false) := by
  induction ps generalizing c with
  | nil =>
    exact ⟨⟨rfl, rfl, rfl, rfl, rfl, rfl, rfl, rfl, rfl, rfl, rfl, rfl, rfl, rfl⟩,
      by simp [wordsCore, renderWords], rfl, id⟩
  | cons w ps ih =>
    obtain ⟨i1, i2, i3, i4⟩ := ih { c with
      intagword := false, tagwordstart := (c.out ++ [' ']).length,
      out := c.out ++ [' '] ++ w, currtagparam := w }
    refine ⟨⟨i1.1, i1.2, i1.3, i1.4, i1.5, i1.6, i1.7, i1.8, i1.9, i1.10, i1.11, i1.12, i1.13,
      i1.14⟩, ?_, i3, fun _ => i4 rfl⟩
    simp only [wordsCore]
    rw [i2]
    simp [renderWords]

theorem sameTag_closeCore (k : TagKind) (c : Core) :
    SameTag (closeCore k c) c ∧ (closeCore k c).out = c.out ++ k.stop.dropLast ∧
    (closeCore k c).intagword = c.intagword := by
  cases k <;>
    exact ⟨⟨rfl, rfl, rfl, rfl, rfl, rfl, rfl, rfl, rfl, rfl, rfl, rfl, rfl, rfl⟩,
      by simp [closeCore, TagKind.stop], rfl⟩

theorem stop_eq (k : TagKind) : k.stop = k.stop.dropLast ++ ['>'] := by
  cases k <;> rfl

theorem endCore_endOf (tok : Tok) (c1 : Core) (body : CStr) (hg : InGap c1)
    (hty : c1.tagtype = tok.kind.nameType) :
    EndCore c1 tok (endOf tok.kind tok.params c1 body) ∧
      (endOf tok.kind tok.params c1 body).currtagbody = body := by
  obtain ⟨w1, w2, w3, w4⟩ := sameTag_wordsCore tok.params c1
  obtain ⟨k1, k2, k3⟩ := sameTag_closeCore tok.kind (wordsCore tok.params c1)
  obtain ⟨g1, g2, g3, g4, g5, g6⟩ := hg
  have hty2 : (closeCore tok.kind (wordsCore tok.params c1)).tagtype = tok.kind.endType := by
    cases hk : tok.kind with
    | void => rfl
    | opening =>
      show (wordsCore tok.params c1).tagtype = _
      rw [w3, hty, hk]; rfl
    | closing =>
      show (wordsCore tok.params c1).tagtype = _
      rw [w3, hty, hk]; rfl
  refine ⟨⟨?_, ?_, ?_, ?_, ?_, hty2, rfl, ?_, ?_, ?_, ?_, ?_⟩, rfl⟩
  · show _ + _ = _
    rw [hty2, k1.nestinglevel, w1.nestinglevel]
  · show _ ++ ['>'] = _
    rw [k2, w2]
    conv_rhs => rw [stop_eq tok.kind]
    simp
  · exact k1.comboconfirmed.trans w1.comboconfirmed
  · exact k1.inxmlheader.trans w1.inxmlheader
  · exact k1.currtagname.trans w1.currtagname
  · exact (k1.incomment.trans w1.incomment).trans g2
  · exact (k1.inquotes.trans w1.inquotes).trans g4
  · exact (k1.insinglequotes.trans w1.insinglequotes).trans g5
  · exact (k1.indoublequotes.trans w1.indoublequotes).trans g6
  · exact k3.trans (w4 g3)

/-- The end of a tag behind the first tag: the text in front of the tag is the
body that the end action sees. -/
theorem tagEnd_marked {σ : Type} (h : Hooks σ) (hp : ∀ s, h.onParam s = s) (k : TagKind)
    (ps : List CStr) (t : PState σ) (e : Nat)
    (hn : t.core.tagnamefound = true) (he : t.core.lasttagend = some e)
    (hle : e + 1 ≤ t.core.lasttag) (hin : t.core.lasttag ≤ t.core.out.length) :
    tagEnd h (closeState k (runWords h ps t)) =
      (h.onEnd (PState.mk
          (endOf k ps t.core ((t.core.out.drop (e + 1)).take (t.core.lasttag - e - 1))) t.m)).bind
        fun s3 => .next (markEnd s3) := by
  obtain ⟨w1, w2, w3, w4⟩ := sameTag_wordsCore ps t.core
  obtain ⟨k1, k2, k3⟩ := sameTag_closeCore k (wordsCore ps t.core)
  rw [runWords_idle h hp, closeState_eq]
  have hn2 : (closeCore k (wordsCore ps t.core)).tagnamefound = true :=
    (k1.tagnamefound.trans w1.tagnamefound).trans hn
  have he2 : (closeCore k (wordsCore ps t.core)).lasttagend = some e :=
    (k1.lasttagend.trans w1.lasttagend).trans he
  have hl2 : (closeCore k (wordsCore ps t.core)).lasttag = t.core.lasttag :=
    k1.lasttag.trans w1.lasttag
  rw [tagEnd_eq h _ e hn2 he2 (by rw [hl2]; exact hle)]
  have hb : (((closeCore k (wordsCore ps t.core)).out.drop (e + 1)).take
      ((closeCore k (wordsCore ps t.core)).lasttag - e - 1)) =
      (t.core.out.drop (e + 1)).take (t.core.lasttag - e - 1) := by
    rw [hl2, k2, w2, List.append_assoc, List.drop_append_of_le_length (by omega),
      List.take_append_of_le_length (by simp; omega)]
  have hc2 : (closeCore k (wordsCore ps t.core)).currtagbody = t.core.currtagbody :=
    k1.currtagbody.trans w1.currtagbody
  have ht2 : (closeCore k (wordsCore ps t.core)).bodytail = t.core.bodytail :=
    k1.bodytail.trans w1.bodytail
  unfold endState endOf
  simp only [hb, hc2, ht2, he]

/-- The end of the first tag behind the removal of the header: the body is left
as it was. -/
theorem tagEnd_unmarked {σ : Type} (h : Hooks σ) (hp : ∀ s, h.onParam s = s) (k : TagKind)
    (ps : List CStr) (t : PState σ)
    (hn : t.core.tagnamefound = true) (he : t.core.lasttagend = none) :
    tagEnd h (closeState k (runWords h ps t)) =
      (h.onEnd (PState.mk (endOf k ps t.core t.core.currtagbody) t.m)).bind
        fun s3 => .next (markEnd s3) := by
  obtain ⟨w1, w2, w3, w4⟩ := sameTag_wordsCore ps t.core
  obtain ⟨k1, k2, k3⟩ := sameTag_closeCore k (wordsCore ps t.core)
  rw [runWords_idle h hp, closeState_eq]
  have hn2 : (closeCore k (wordsCore ps t.core)).tagnamefound = true :=
    (k1.tagnamefound.trans w1.tagnamefound).trans hn
  have he2 : (closeCore k (wordsCore ps t.core)).lasttagend = none :=
    (k1.lasttagend.trans w1.lasttagend).trans he
  have hb : (closeCore k (wordsCore ps t.core)).currtagbody = t.core.currtagbody :=
    k1.currtagbody.trans w1.currtagbody
  have ht2 : (closeCore k (wordsCore ps t.core)).bodytail = t.core.bodytail :=
    k1.bodytail.trans w1.bodytail
  unfold tagEnd endOf
  simp only [hn2, he2, he, Bool.not_true, Bool.and_false, Bool.false_eq_true, ↓reduceIte,
    Step.bind_next]
  rw [hb, ht2]
  rfl

theorem sameFlags_removeHeader (c : Core) : SameFlags (removeHeader c) c :=
  ⟨rfl, rfl, rfl, rfl, rfl, rfl, rfl⟩

theorem flagSafe_printerHooks (ctx : Ctx) : FlagSafe (printerHooks ctx) where
  onName := by
    intro s s1 h
    cases h
    show SameFlags (prnNameCore s.core) s.core
    unfold prnNameCore
    split
    · exact sameFlags_removeHeader _
    · exact sameFlags_refl _
  onParam := fun s => sameFlags_refl _
  onEnd := by
    intro s s1 h
    cases h
    show SameFlags (if _ then _ else _) s.core
    split <;> exact ⟨rfl, rfl, rfl, rfl, rfl, rfl, rfl⟩

theorem prnNameM_congr (c c1 : Core) (m : PrnSt) (h1 : c.currtagname = c1.currtagname)
    (h2 : c.nestinglevel = c1.nestinglevel) (h3 : c.tagtype = c1.tagtype) :
    prnNameM c m = prnNameM c1 m := by
  unfold prnNameM
  simp only [h1, h2, h3]

theorem prnEndM_congr (c c1 : Core) (m : PrnSt) (h1 : c.nestinglevel = c1.nestinglevel)
    (h2 : c.currtagbody = c1.currtagbody) : prnEndM c m = prnEndM c1 m := by
  unfold prnEndM overPrnPpd overPrnId overPrnDriver overPrnGroups overPrnMakeModel
  simp only [h1, h2]

theorem prnConfirms_congr (ctx : Ctx) (c c1 : Core) (m : PrnSt)
    (h1 : c.nestinglevel = c1.nestinglevel) (h2 : c.currtagbody = c1.currtagbody) :
    prnConfirms ctx c m = prnConfirms ctx c1 m := by
  unfold prnConfirms driverConfirms postscriptConfirms overPrnId overPrnDriver overPrnGroups
    overPrnMakeModel
  simp only [h1, h2]

/-- The text in front of a tag, cut out of the buffer between the end of the
last tag and the `<` of this one. -/
theorem body_of_behind (out text rest : CStr) (hne : out ≠ []) :
    (((out ++ text) ++ rest).drop (out.length - 1 + 1)).take
      ((out ++ text).length - (out.length - 1) - 1) = text := by
  have hl : 0 < out.length := List.length_pos.mpr hne
  have e1 : out.length - 1 + 1 = out.length := by omega
  have e2 : (out ++ text).length - (out.length - 1) - 1 = text.length := by
    rw [List.length_append]; omega
  rw [e1, e2, List.append_assoc, List.drop_left, List.take_left]

theorem inGap_atTagName {σ : Type} (s : PState σ) (ty : Int) (pre nm : CStr)
    (ht : TextMode s.core) : InGap (atTagName s ty pre nm).core := by
  obtain ⟨t1, t2, t3, t4, t5, t6⟩ := ht
  exact ⟨rfl, t2, rfl, t3, t4, t5⟩

theorem render_assoc (a : CStr) (tok : Tok) :
    ((a ++ tok.text) ++ (tok.kind.start ++ tok.nm)) ++
      (renderWords tok.params ++ tok.kind.stop) = a ++ tok.render := by
  simp [Tok.render, Tok.tag]

/-- The effect of a tag in Device mode, for every tag but the opening tag of the
root element. -/
theorem prn_tok (ctx : Ctx) (tok : Tok) (s : PrnState) (hb : Behind s.core)
    (hr : ¬ tok.Opens (lit "printer")) :
    ∃ s1, runTok (printerHooks ctx) tok s = .next s1 ∧ PrnStep ctx tok s s1 := by
  have hN : prnNameCore (atTagName (advanceBy s tok.text) tok.kind.nameType tok.kind.start
      tok.nm).core = (atTagName (advanceBy s tok.text) tok.kind.nameType tok.kind.start
      tok.nm).core := by
    unfold prnNameCore
    rw [if_neg]
    intro h
    refine hr ⟨h.1, ?_⟩
    intro hk
    have h2 : TagKind.closing.nameType = TAG_OPEN := by rw [← hk]; exact h.2
    exact absurd h2 (by decide)
  have hg := inGap_atTagName (advanceBy s tok.text) tok.kind.nameType tok.kind.start tok.nm
    (textMode_grow s tok.text hb.text)
  obtain ⟨ec, ebody⟩ := endCore_endOf tok
    (atTagName (advanceBy s tok.text) tok.kind.nameType tok.kind.start tok.nm).core tok.text
    hg rfl
  have hl : 0 < s.core.out.length := List.length_pos.mpr hb.nonempty
  have e := tagEnd_marked (printerHooks ctx) (fun _ => rfl) tok.kind tok.params
    (PState.mk (atTagName (advanceBy s tok.text) tok.kind.nameType tok.kind.start tok.nm).core
      (prnNameM (atTagName (advanceBy s tok.text) tok.kind.nameType tok.kind.start
        tok.nm).core s.m)) (s.core.out.length - 1) rfl hb.mark
    (by show _ ≤ (s.core.out ++ tok.text).length; simp only [List.length_append]; omega)
    (by show (s.core.out ++ tok.text).length ≤ ((s.core.out ++ tok.text) ++ _).length
        simp only [List.length_append]; omega)
  have hbody : (((atTagName (advanceBy s tok.text) tok.kind.nameType tok.kind.start
      tok.nm).core.out.drop (s.core.out.length - 1 + 1)).take
      ((atTagName (advanceBy s tok.text) tok.kind.nameType tok.kind.start tok.nm).core.lasttag -
        (s.core.out.length - 1) - 1)) = tok.text :=
    body_of_behind s.core.out tok.text (tok.kind.start ++ tok.nm) hb.nonempty
  simp only [hbody] at e
  have hrun : runTok (printerHooks ctx) tok s = .next (markEnd (PState.mk
      (if prnConfirms ctx (endOf tok.kind tok.params (atTagName (advanceBy s tok.text)
          tok.kind.nameType tok.kind.start tok.nm).core tok.text)
          (prnNameM (atTagName (advanceBy s tok.text) tok.kind.nameType tok.kind.start
            tok.nm).core s.m) = true then
        { endOf tok.kind tok.params (atTagName (advanceBy s tok.text)
          tok.kind.nameType tok.kind.start tok.nm).core tok.text with comboconfirmed := 1 }
      else endOf tok.kind tok.params (atTagName (advanceBy s tok.text)
          tok.kind.nameType tok.kind.start tok.nm).core tok.text)
      (prnEndM (endOf tok.kind tok.params (atTagName (advanceBy s tok.text)
          tok.kind.nameType tok.kind.start tok.nm).core tok.text)
        (prnNameM (atTagName (advanceBy s tok.text) tok.kind.nameType tok.kind.start
            tok.nm).core s.m)))) := by
    unfold runTok
    show tagEnd (printerHooks ctx) (closeState tok.kind (runWords (printerHooks ctx) tok.params
      (PState.mk (prnNameCore _) (prnNameM _ s.m)))) = _
    rw [hN, e]
    rfl
  have hnm : prnNameM (atTagName (advanceBy s tok.text) tok.kind.nameType tok.kind.start
      tok.nm).core s.m = prnNameM (tok.nameProbe s.core.nestinglevel) s.m :=
    prnNameM_congr _ _ _ rfl rfl rfl
  have hm : prnEndM (endOf tok.kind tok.params (atTagName (advanceBy s tok.text)
          tok.kind.nameType tok.kind.start tok.nm).core tok.text)
        (prnNameM (atTagName (advanceBy s tok.text) tok.kind.nameType tok.kind.start
            tok.nm).core s.m) = prnTokM tok s.core.nestinglevel s.m := by
    unfold prnTokM
    rw [hnm]
    exact prnEndM_congr _ (tok.endProbe s.core.nestinglevel) _ ec.level ebody
  have hc : prnConfirms ctx (endOf tok.kind tok.params (atTagName (advanceBy s tok.text)
          tok.kind.nameType tok.kind.start tok.nm).core tok.text)
        (prnNameM (atTagName (advanceBy s tok.text) tok.kind.nameType tok.kind.start
            tok.nm).core s.m) = prnTokConfirms ctx tok s.core.nestinglevel s.m := by
    unfold prnTokConfirms
    rw [hnm]
    exact prnConfirms_congr ctx _ (tok.endProbe s.core.nestinglevel) _ ec.level ebody
  have hout : (endOf tok.kind tok.params (atTagName (advanceBy s tok.text)
      tok.kind.nameType tok.kind.start tok.nm).core tok.text).out =
      s.core.out ++ tok.render := ec.out.trans (render_assoc s.core.out tok)
  refine ⟨_, hrun, ?_⟩
  rw [hm, hc]
  by_cases hq : prnTokConfirms ctx tok s.core.nestinglevel s.m = true
  · rw [if_pos hq]
    exact
      { behind := ⟨⟨ec.intag, ec.incomment, ec.inquotes, ec.insinglequotes, ec.indoublequotes,
          ec.intagword⟩, rfl,
          fun h0 => hb.nonempty (List.append_eq_nil.mp (hout.symm.trans h0)).1⟩
        out := hout
        level := ec.level
        header := ec.header
        m := rfl
        combo := by rw [if_pos hq]; rfl }
  · rw [if_neg hq]
    exact
      { behind := ⟨⟨ec.intag, ec.incomment, ec.inquotes, ec.insinglequotes, ec.indoublequotes,
          ec.intagword⟩, rfl,
          fun h0 => hb.nonempty (List.append_eq_nil.mp (hout.symm.trans h0)).1⟩
        out := hout
        level := ec.level
        header := ec.header
        m := rfl
        combo := by rw [if_neg hq]; exact ec.combo }

/-- The effect of a list of tags in Device mode, none of which opens the root
element: the tags join the scanned part of the buffer as they are. -/
theorem prn_toks (ctx : Ctx) (toks : List Tok) (s : PrnState) (hb : Behind s.core)
    (hr : ∀ t ∈ toks, ¬ t.Opens (lit "printer")) :
    ∃ s1, runToks (printerHooks ctx) toks s = .next s1 ∧ Behind s1.core ∧
      s1.core.out = s.core.out ++ renderToks toks ∧
      s1.core.inxmlheader = s.core.inxmlheader ∧
      PrnAbs.ofState s1 = prnAbsRun ctx toks (PrnAbs.ofState s) := by
  induction toks generalizing s with
  | nil => exact ⟨s, rfl, hb, by simp [renderToks], rfl, rfl⟩
  | cons t l ih =>
    obtain ⟨s1, e1, p1⟩ := prn_tok ctx t s hb (hr t (by simp))
    obtain ⟨s2, e2, b2, o2, h2, a2⟩ := ih s1 p1.behind (fun t1 h1 => hr t1 (by simp [h1]))
    refine ⟨s2, ?_, b2, ?_, h2.trans p1.header, ?_⟩
    · simp only [runToks]
      rw [e1]
      exact e2
    · rw [o2, p1.out, renderToks, List.append_assoc]
    · rw [a2]
      show _ = prnAbsRun ctx l (prnAbsTok ctx (PrnAbs.ofState s) t)
      congr 1
      unfold PrnAbs.ofState prnAbsTok
      rw [p1.level, p1.m, p1.combo]

theorem removeHeader_out (a nm : CStr) (c : Core) (h1 : c.out = a ++ nm)
    (h2 : c.lasttag = a.length) : (removeHeader c).out = nm := by
  show c.out.drop c.lasttag = nm
  rw [h1, h2, List.drop_left]

/-- The effect of the opening tag of the root element in Device mode: the part
of the buffer in front of its `<` is removed. -/
theorem prn_root (ctx : Ctx) (root : Tok) (s : PrnState) (ht : TextMode s.core)
    (hr : root.Opens (lit "printer")) :
    ∃ s1, runTok (printerHooks ctx) root s = .next s1 ∧ Behind s1.core ∧
      s1.core.out = root.tag ∧ s1.core.inxmlheader = false ∧
      PrnAbs.ofState s1 = prnAbsRoot ctx root s := by
  have hty : root.kind.nameType = TAG_OPEN := by
    cases hk : root.kind with
    | closing => exact absurd hk hr.2
    | opening => rfl
    | void => rfl
  have hN : prnNameCore (atTagName (advanceBy s root.text) root.kind.nameType root.kind.start
      root.nm).core = removeHeader (atTagName (advanceBy s root.text) root.kind.nameType
      root.kind.start root.nm).core := by
    unfold prnNameCore
    rw [if_pos ⟨hr.1, hty⟩]
  have hg : InGap (removeHeader (atTagName (advanceBy s root.text) root.kind.nameType
      root.kind.start root.nm).core) :=
    inGap_atTagName (advanceBy s root.text) root.kind.nameType root.kind.start root.nm
      (textMode_grow s root.text ht)
  obtain ⟨ec, ebody⟩ := endCore_endOf root
    (removeHeader (atTagName (advanceBy s root.text) root.kind.nameType root.kind.start
      root.nm).core) s.core.currtagbody hg rfl
  have e := tagEnd_unmarked (printerHooks ctx) (fun _ => rfl) root.kind root.params
    (PState.mk (removeHeader (atTagName (advanceBy s root.text) root.kind.nameType
      root.kind.start root.nm).core)
      (prnNameM (atTagName (advanceBy s root.text) root.kind.nameType root.kind.start
        root.nm).core s.m)) rfl rfl
  have hrun : runTok (printerHooks ctx) root s = .next (markEnd (PState.mk
      (if prnConfirms ctx (endOf root.kind root.params (removeHeader (atTagName
          (advanceBy s root.text) root.kind.nameType root.kind.start root.nm).core)
            s.core.currtagbody)
          (prnNameM (atTagName (advanceBy s root.text) root.kind.nameType root.kind.start
            root.nm).core s.m) = true then
        { endOf root.kind root.params (removeHeader (atTagName (advanceBy s root.text)
          root.kind.nameType root.kind.start root.nm).core) s.core.currtagbody with
          comboconfirmed := 1 }
      else endOf root.kind root.params (removeHeader (atTagName (advanceBy s root.text)
          root.kind.nameType root.kind.start root.nm).core) s.core.currtagbody)
      (prnEndM (endOf root.kind root.params (removeHeader (atTagName (advanceBy s root.text)
          root.kind.nameType root.kind.start root.nm).core) s.core.currtagbody)
        (prnNameM (atTagName (advanceBy s root.text) root.kind.nameType root.kind.start
            root.nm).core s.m)))) := by
    unfold runTok
    show tagEnd (printerHooks ctx) (closeState root.kind (runWords (printerHooks ctx)
      root.params (PState.mk (prnNameCore _) (prnNameM _ s.m)))) = _
    rw [hN, e]
    rfl
  have hnm : prnNameM (atTagName (advanceBy s root.text) root.kind.nameType root.kind.start
      root.nm).core s.m = prnNameM (root.nameProbe s.core.nestinglevel) s.m :=
    prnNameM_congr _ _ _ rfl rfl rfl
  have hlvl : (endOf root.kind root.params (removeHeader (atTagName (advanceBy s root.text)
      root.kind.nameType root.kind.start root.nm).core) s.core.currtagbody).nestinglevel =
      1 + root.kind.endType := ec.level
  have hout : (endOf root.kind root.params (removeHeader (atTagName (advanceBy s root.text)
      root.kind.nameType root.kind.start root.nm).core) s.core.currtagbody).out = root.tag := by
    rw [ec.out, removeHeader_out (s.core.out ++ root.text) (root.kind.start ++ root.nm) _ rfl rfl]
    simp [Tok.tag]
  have hne : root.tag ≠ [] := by
    unfold Tok.tag
    cases root.kind <;> simp [TagKind.start]
  refine ⟨_, hrun, ?_⟩
  rw [hnm]
  have hm := prnEndM_congr (endOf root.kind root.params (removeHeader (atTagName
      (advanceBy s root.text) root.kind.nameType root.kind.start root.nm).core)
        s.core.currtagbody)
      { nestinglevel := 1 + root.kind.endType, currtagbody := s.core.currtagbody }
      (prnNameM (root.nameProbe s.core.nestinglevel) s.m) hlvl ebody
  have hc := prnConfirms_congr ctx (endOf root.kind root.params (removeHeader (atTagName
      (advanceBy s root.text) root.kind.nameType root.kind.start root.nm).core)
        s.core.currtagbody)
      { nestinglevel := 1 + root.kind.endType, currtagbody := s.core.currtagbody }
      (prnNameM (root.nameProbe s.core.nestinglevel) s.m) hlvl ebody
  rw [hm, hc]
  have hbh : ∀ c : Core, c.out = root.tag → c.intag = false → c.incomment = false →
      c.inquotes = false → c.insinglequotes = false → c.indoublequotes = false →
      c.intagword = false →
      Behind (markEnd (PState.mk c (prnEndM
        { nestinglevel := 1 + root.kind.endType, currtagbody := s.core.currtagbody }
        (prnNameM (root.nameProbe s.core.nestinglevel) s.m)))).core :=
    fun c h0 h1 h2 h3 h4 h5 h6 =>
      ⟨⟨h1, h2, h3, h4, h5, h6⟩, rfl, fun hx => hne (h0.symm.trans hx)⟩
  unfold prnAbsRoot PrnAbs.ofState
  by_cases hq : prnConfirms ctx
      { nestinglevel := 1 + root.kind.endType, currtagbody := s.core.currtagbody }
      (prnNameM (root.nameProbe s.core.nestinglevel) s.m) = true
  · rw [if_pos hq, if_pos hq]
    refine ⟨hbh _ hout ec.intag ec.incomment ec.inquotes ec.insinglequotes ec.indoublequotes
      ec.intagword, hout, ec.header, ?_⟩
    show PrnAbs.mk _ _ _ = PrnAbs.mk _ _ _
    congr 1
  · rw [if_neg hq, if_neg hq]
    refine ⟨hbh _ hout ec.intag ec.incomment ec.inquotes ec.insinglequotes ec.indoublequotes
      ec.intagword, hout, ec.header, ?_⟩
    show PrnAbs.mk _ _ _ = PrnAbs.mk _ _ _
    congr 1
    exact ec.combo

theorem sentinelAt_le (x : CStr) (b : Int) (st : List CStr) (hb : 0 ≤ b) :
    0 ≤ sentinelAt x b st ∧ sentinelAt x b st ≤ b + st.length := by
  induction st with
  | nil => simp [sentinelAt]; exact hb
  | cons nm rest ih =>
    simp only [sentinelAt, List.length_cons]
    split
    · constructor <;> push_cast <;> omega
    · constructor
      · exact ih.1
      · push_cast; omega

theorem sentinelAt_eq_zero (x : CStr) (b : Int) (st : List CStr) (hb : 0 ≤ b) :
    sentinelAt x b st = 0 ↔ x ∉ st := by
  induction st with
  | nil => simp [sentinelAt]
  | cons nm rest ih =>
    simp only [sentinelAt, List.mem_cons, not_or]
    split
    · rename_i h
      constructor
      · intro h0; omega
      · intro h1; exact absurd h.symm h1.1
    · rename_i h
      rw [ih]
      constructor
      · intro h1; exact ⟨fun e => h e.symm, h1⟩
      · intro h1; exact h1.2

theorem sameMake_overPrnPpd (c : Core) (m : PrnSt) : SameMake (overPrnPpd c m) m := by
  unfold overPrnPpd
  dsimp only
  split <;> split <;> exact ⟨rfl, rfl, rfl, rfl, rfl⟩

theorem sameMake_overPrnId (c : Core) (m : PrnSt) : SameMake (overPrnId c m) m := by
  unfold overPrnId
  dsimp only
  split <;> split <;> split <;> exact ⟨rfl, rfl, rfl, rfl, rfl⟩

theorem sameMake_overPrnDriver (c : Core) (m : PrnSt) : SameMake (overPrnDriver c m) m := by
  unfold overPrnDriver
  split <;> exact ⟨rfl, rfl, rfl, rfl, rfl⟩

theorem overPrnGroups_make (c : Core) (m : PrnSt) :
    (overPrnGroups c m).make = m.make ∧ (overPrnGroups c m).model = m.model ∧
    (overPrnGroups c m).inmake = m.inmake ∧ (overPrnGroups c m).inmodel = m.inmodel ∧
    (overPrnGroups c m).inautodetect =
      (if c.nestinglevel < m.inautodetect then 0 else m.inautodetect) := by
  unfold overPrnGroups
  dsimp only
  split <;> split <;> simp_all

theorem overPrnMakeModel_make (c : Core) (m : PrnSt) :
    (overPrnMakeModel c m).make =
      (if c.nestinglevel < m.inmake ∧ m.inautodetect = 0 then m.make ++ c.currtagbody
        else m.make) ∧
    (overPrnMakeModel c m).model =
      (if c.nestinglevel < m.inmodel ∧ m.inautodetect = 0 then m.model ++ c.currtagbody
        else m.model) ∧
    (overPrnMakeModel c m).inmake = (if c.nestinglevel < m.inmake then 0 else m.inmake) ∧
    (overPrnMakeModel c m).inmodel = (if c.nestinglevel < m.inmodel then 0 else m.inmodel) ∧
    (overPrnMakeModel c m).inautodetect = m.inautodetect := by
  unfold overPrnMakeModel
  dsimp only
  by_cases h0 : c.nestinglevel < m.inprinter <;> by_cases h1 : c.nestinglevel < m.inmake <;>
    by_cases h2 : c.nestinglevel < m.inmodel <;> by_cases h3 : m.inautodetect = 0 <;>
    simp [h0, h1, h2, h3]

/-- What the end of a tag does to the make, the model and their sentinels. -/
theorem prnEndM_make (c : Core) (m : PrnSt) :
    (prnEndM c m).make =
      (if c.nestinglevel < m.inmake ∧ m.inautodetect = 0 then m.make ++ c.currtagbody
        else m.make) ∧
    (prnEndM c m).model =
      (if c.nestinglevel < m.inmodel ∧ m.inautodetect = 0 then m.model ++ c.currtagbody
        else m.model) ∧
    (prnEndM c m).inmake = (if c.nestinglevel < m.inmake then 0 else m.inmake) ∧
    (prnEndM c m).inmodel = (if c.nestinglevel < m.inmodel then 0 else m.inmodel) ∧
    (prnEndM c m).inautodetect =
      (if c.nestinglevel < m.inautodetect then 0 else m.inautodetect) := by
  obtain ⟨a1, a2, a3, a4, a5⟩ := overPrnMakeModel_make c m
  obtain ⟨b1, b2, b3, b4, b5⟩ := overPrnGroups_make c (overPrnMakeModel c m)
  have d := sameMake_overPrnDriver c (overPrnGroups c (overPrnMakeModel c m))
  have i := sameMake_overPrnId c (overPrnDriver c (overPrnGroups c (overPrnMakeModel c m)))
  have p := sameMake_overPrnPpd c
    (overPrnId c (overPrnDriver c (overPrnGroups c (overPrnMakeModel c m))))
  unfold prnEndM
  refine ⟨?_, ?_, ?_, ?_, ?_⟩
  · rw [p.make, i.make, d.make, b1, a1]
  · rw [p.model, i.model, d.model, b2, a2]
  · rw [p.inmake, i.inmake, d.inmake, b3, a3]
  · rw [p.inmodel, i.inmodel, d.inmodel, b4, a4]
  · rw [p.inautodetect, i.inautodetect, d.inautodetect, b5, a5]

/-- What the name of a tag does to the make, the model and their sentinels. -/
theorem prnNameM_make (c : Core) (m : PrnSt) :
    (prnNameM c m).make = m.make ∧ (prnNameM c m).model = m.model ∧
    (prnNameM c m).inmake =
      (if c.currtagname = lit "make" then c.nestinglevel + 1 else m.inmake) ∧
    (prnNameM c m).inmodel =
      (if c.currtagname = lit "model" then c.nestinglevel + 1 else m.inmodel) ∧
    (prnNameM c m).inautodetect =
      (if c.currtagname = lit "autodetect" then c.nestinglevel + 1 else m.inautodetect) := by
  unfold prnNameM
  dsimp only
  by_cases h1 : c.currtagname = lit "make"
  · rw [if_pos h1]
    simp [h1, lit]
  by_cases h2 : c.currtagname = lit "model"
  · rw [if_neg h1, if_pos h2]
    simp [h2, lit]
  by_cases h3 : c.currtagname = lit "autodetect"
  · rw [if_neg h1, if_neg h2, if_pos h3]
    simp [h3, lit]
  rw [if_neg h1, if_neg h2, if_neg h3]
  simp only [h1, h2, h3, ↓reduceIte]
  repeat' split
  all_goals exact ⟨rfl, rfl, rfl, rfl, rfl⟩

theorem boundAt_le (x : CStr) (b : Int) (st : List CStr) :
    b ≤ boundAt x b st ∧ boundAt x b st ≤ b + st.length := by
  induction st with
  | nil => simp [boundAt]
  | cons nm rest ih =>
    simp only [boundAt, List.length_cons]
    split
    · constructor <;> push_cast <;> omega
    · constructor
      · exact ih.1
      · push_cast; omega

theorem prnAbsTok_make (ctx : Ctx) (a : PrnAbs) (tok : Tok) :
    (prnAbsTok ctx a tok).m.make =
      (if a.lvl + tok.kind.endType <
            (if tok.nm = lit "make" then a.lvl + 1 else a.m.inmake) ∧
          (if tok.nm = lit "autodetect" then a.lvl + 1 else a.m.inautodetect) = 0 then
        a.m.make ++ tok.text else a.m.make) ∧
    (prnAbsTok ctx a tok).m.model =
      (if a.lvl + tok.kind.endType <
            (if tok.nm = lit "model" then a.lvl + 1 else a.m.inmodel) ∧
          (if tok.nm = lit "autodetect" then a.lvl + 1 else a.m.inautodetect) = 0 then
        a.m.model ++ tok.text else a.m.model) ∧
    (prnAbsTok ctx a tok).m.inmake =
      (if a.lvl + tok.kind.endType < (if tok.nm = lit "make" then a.lvl + 1 else a.m.inmake)
        then 0 else (if tok.nm = lit "make" then a.lvl + 1 else a.m.inmake)) ∧
    (prnAbsTok ctx a tok).m.inmodel =
      (if a.lvl + tok.kind.endType < (if tok.nm = lit "model" then a.lvl + 1 else a.m.inmodel)
        then 0 else (if tok.nm = lit "model" then a.lvl + 1 else a.m.inmodel)) ∧
    (prnAbsTok ctx a tok).m.inautodetect =
      (if a.lvl + tok.kind.endType <
          (if tok.nm = lit "autodetect" then a.lvl + 1 else a.m.inautodetect)
        then 0 else (if tok.nm = lit "autodetect" then a.lvl + 1 else a.m.inautodetect)) := by
  obtain ⟨n1, n2, n3, n4, n5⟩ := prnNameM_make (tok.nameProbe a.lvl) a.m
  obtain ⟨e1, e2, e3, e4, e5⟩ := prnEndM_make (tok.endProbe a.lvl)
    (prnNameM (tok.nameProbe a.lvl) a.m)
  show (prnTokM tok a.lvl a.m).make = _ ∧ (prnTokM tok a.lvl a.m).model = _ ∧
    (prnTokM tok a.lvl a.m).inmake = _ ∧ (prnTokM tok a.lvl a.m).inmodel = _ ∧
    (prnTokM tok a.lvl a.m).inautodetect = _
  unfold prnTokM
  rw [e1, e2, e3, e4, e5, n1, n2, n3, n4, n5]
  exact ⟨rfl, rfl, rfl, rfl, rfl⟩

theorem endType_opening : TagKind.opening.endType = 1 := rfl
theorem endType_closing : TagKind.closing.endType = -1 := rfl
theorem endType_void : TagKind.void.endType = 0 := rfl

theorem make_ne_autodetect : lit "make" ≠ lit "autodetect" := by decide
theorem model_ne_autodetect : lit "model" ≠ lit "autodetect" := by decide

/-- The sentinel of an element that holds texts (`make`, `model`) behind a tag:
the end action fires at the closing tag of the element, and nowhere else in a
well-nested document. -/
theorem sentinel_step (x : CStr) (st : List CStr) (lvl v : Int) (tok : Tok)
    (hl : lvl = 1 + st.length) (hv : v ≤ boundAt x 1 st)
    (hn : tok.kind = .closing → st.head? = some tok.nm)
    (hvoid : tok.kind = .void → tok.nm ≠ x) :
    (lvl + tok.kind.endType < (if tok.nm = x then lvl + 1 else v) ↔
      (tok.nm = x ∧ tok.kind = .closing)) ∧
    (if lvl + tok.kind.endType < (if tok.nm = x then lvl + 1 else v) then 0
      else (if tok.nm = x then lvl + 1 else v)) ≤ boundAt x 1 (tok.push st) := by
  have b0 := boundAt_le x 1 st
  cases hk : tok.kind with
  | opening =>
    rw [endType_opening]
    have hp : tok.push st = tok.nm :: st := by simp [Tok.push, hk]
    rw [hp]
    by_cases hx : tok.nm = x
    · simp only [hx, ↓reduceIte, boundAt]
      refine ⟨⟨fun h => by omega, fun h => by simp at h⟩, ?_⟩
      rw [if_neg (by omega)]
      omega
    · simp only [hx, ↓reduceIte, boundAt, false_and, iff_false]
      refine ⟨by omega, ?_⟩
      split <;> omega
  | closing =>
    rw [endType_closing]
    have hh := hn hk
    cases st with
    | nil => simp at hh
    | cons nm rest =>
      have hnm : nm = tok.nm := by simpa using hh
      subst hnm
      have hp : tok.push (tok.nm :: rest) = rest := by simp [Tok.push, hk]
      have b1 := boundAt_le x 1 rest
      rw [hp]
      simp only [List.length_cons] at hl
      push_cast at hl
      by_cases hx : tok.nm = x
      · simp only [hx, ↓reduceIte, true_and]
        refine ⟨⟨fun _ => trivial, fun _ => by omega⟩, ?_⟩
        rw [if_pos (by omega)]
        omega
      · simp only [boundAt, hx, ↓reduceIte] at hv
        simp only [hx, ↓reduceIte, false_and, iff_false]
        refine ⟨by omega, ?_⟩
        split <;> omega
  | void =>
    rw [endType_void]
    have hp : tok.push st = st := by simp [Tok.push, hk]
    have hx : tok.nm ≠ x := hvoid hk
    rw [hp]
    simp only [hx, ↓reduceIte, false_and, iff_false]
    refine ⟨by omega, ?_⟩
    split <;> omega

/-- The sentinel of a container element (`autodetect`) behind a tag of a
well-nested document in which the container is not nested in itself. -/
theorem container_step (x : CStr) (st : List CStr) (lvl : Int) (tok : Tok)
    (hl : lvl = 1 + st.length) (ho : st.count x ≤ 1)
    (hn : tok.kind = .closing → st.head? = some tok.nm)
    (hs : tok.nm = x → tok.kind ≠ .closing → x ∉ st) :
    (if lvl + tok.kind.endType < (if tok.nm = x then lvl + 1 else sentinelAt x 1 st) then 0
      else (if tok.nm = x then lvl + 1 else sentinelAt x 1 st)) =
        sentinelAt x 1 (tok.push st) ∧
    (tok.push st).count x ≤ 1 := by
  have b0 := sentinelAt_le x 1 st (by omega)
  cases hk : tok.kind with
  | opening =>
    rw [endType_opening]
    have hp : tok.push st = tok.nm :: st := by simp [Tok.push, hk]
    rw [hp]
    by_cases hx : tok.nm = x
    · have hnot := hs hx (by rw [hk]; decide)
      simp only [hx, ↓reduceIte, sentinelAt, List.count_cons_self]
      refine ⟨?_, ?_⟩
      · rw [if_neg (by omega)]; omega
      · rw [List.count_eq_zero_of_not_mem hnot]
    · simp only [hx, ↓reduceIte, sentinelAt]
      refine ⟨?_, ?_⟩
      · rw [if_neg (by omega)]
      · rw [List.count_cons_of_ne (fun e => hx e.symm)]; exact ho
  | closing =>
    rw [endType_closing]
    have hh := hn hk
    cases st with
    | nil => simp at hh
    | cons nm rest =>
      have hnm : nm = tok.nm := by simpa using hh
      subst hnm
      have hp : tok.push (tok.nm :: rest) = rest := by simp [Tok.push, hk]
      have b1 := sentinelAt_le x 1 rest (by omega)
      rw [hp]
      simp only [List.length_cons] at hl
      push_cast at hl
      by_cases hx : tok.nm = x
      · simp only [hx, ↓reduceIte]
        rw [hx, List.count_cons_self] at ho
        have h0 : rest.count x = 0 := by omega
        refine ⟨?_, by omega⟩
        rw [if_pos (by omega)]
        exact ((sentinelAt_eq_zero x 1 rest (by omega)).mpr
          (List.count_eq_zero.mp h0)).symm
      · rw [List.count_cons_of_ne (fun e => hx e.symm)] at ho
        simp only [hx, ↓reduceIte, sentinelAt]
        refine ⟨?_, ho⟩
        rw [if_neg (by omega)]
  | void =>
    rw [endType_void]
    have hp : tok.push st = st := by simp [Tok.push, hk]
    rw [hp]
    by_cases hx : tok.nm = x
    · have hnot := hs hx (by rw [hk]; decide)
      simp only [hx, ↓reduceIte]
      refine ⟨?_, ho⟩
      rw [if_pos (by omega)]
      exact ((sentinelAt_eq_zero x 1 st (by omega)).mpr hnot).symm
    · simp only [hx, ↓reduceIte]
      refine ⟨?_, ho⟩
      rw [if_neg (by omega)]

theorem level_step (st : List CStr) (lvl : Int) (tok : Tok) (hl : lvl = 1 + st.length)
    (hn : tok.kind = .closing → st.head? = some tok.nm) :
    lvl + tok.kind.endType = 1 + (tok.push st).length := by
  cases hk : tok.kind with
  | opening => simp [Tok.push, hk, endType_opening]; omega
  | closing =>
    have hh := hn hk
    cases st with
    | nil => simp at hh
    | cons nm rest =>
      simp only [List.length_cons] at hl
      push_cast at hl
      simp [Tok.push, hk, endType_closing]
      omega
  | void => simp [Tok.push, hk, endType_void]; omega

/-- One tag of a well-nested device document: the make grows by the text of a
`make` element that closes outside `autodetect`, and the model likewise. -/
theorem makeInv_tok (ctx : Ctx) (st : List CStr) (a : PrnAbs) (tok : Tok) (hi : MakeInv st a)
    (hn : tok.kind = .closing → st.head? = some tok.nm)
    (hs : tok.nm = lit "autodetect" → tok.kind ≠ .closing → lit "autodetect" ∉ st)
    (hv : tok.kind = .void → tok.nm ≠ lit "make" ∧ tok.nm ≠ lit "model") :
    MakeInv (tok.push st) (prnAbsTok ctx a tok) ∧
    (prnAbsTok ctx a tok).m.make = a.m.make ++
      (if tok.nm = lit "make" ∧ tok.kind = .closing ∧ ¬ lit "autodetect" ∈ st then tok.text
        else []) ∧
    (prnAbsTok ctx a tok).m.model = a.m.model ++
      (if tok.nm = lit "model" ∧ tok.kind = .closing ∧ ¬ lit "autodetect" ∈ st then tok.text
        else []) := by
  obtain ⟨f1, f2, f3, f4, f5⟩ := prnAbsTok_make ctx a tok
  obtain ⟨mk1, mk2⟩ := sentinel_step (lit "make") st a.lvl a.m.inmake tok hi.lvl hi.inmake hn
    (fun h => (hv h).1)
  obtain ⟨md1, md2⟩ := sentinel_step (lit "model") st a.lvl a.m.inmodel tok hi.lvl hi.inmodel hn
    (fun h => (hv h).2)
  obtain ⟨au1, au2⟩ := container_step (lit "autodetect") st a.lvl tok hi.lvl hi.once hn hs
  have hz := sentinelAt_eq_zero (lit "autodetect") 1 st (by omega)
  refine ⟨⟨level_step st a.lvl tok hi.lvl hn, ?_, au2, ?_, ?_⟩, ?_, ?_⟩
  · rw [f5, hi.inautodetect]; exact au1
  · rw [f3]; exact mk2
  · rw [f4]; exact md2
  · rw [f1]
    by_cases hx : tok.nm = lit "make" ∧ tok.kind = .closing
    · have hna : tok.nm ≠ lit "autodetect" := by rw [hx.1]; exact make_ne_autodetect
      rw [if_neg hna, hi.inautodetect]
      by_cases hm : lit "autodetect" ∈ st
      · rw [if_neg (fun h => (hz.mp h.2) hm), if_neg (fun h => h.2.2 hm)]
        simp
      · rw [if_pos ⟨mk1.mpr hx, hz.mpr hm⟩, if_pos ⟨hx.1, hx.2, hm⟩]
    · rw [if_neg (fun h => hx (mk1.mp h.1)), if_neg (fun h => hx ⟨h.1, h.2.1⟩)]
      simp
  · rw [f2]
    by_cases hx : tok.nm = lit "model" ∧ tok.kind = .closing
    · have hna : tok.nm ≠ lit "autodetect" := by rw [hx.1]; exact model_ne_autodetect
      rw [if_neg hna, hi.inautodetect]
      by_cases hm : lit "autodetect" ∈ st
      · rw [if_neg (fun h => (hz.mp h.2) hm), if_neg (fun h => h.2.2 hm)]
        simp
      · rw [if_pos ⟨md1.mpr hx, hz.mpr hm⟩, if_pos ⟨hx.1, hx.2, hm⟩]
    · rw [if_neg (fun h => hx (md1.mp h.1)), if_neg (fun h => hx ⟨h.1, h.2.1⟩)]
      simp

/-- The make and the model behind the tags of a well-nested device document. -/
theorem makeInv_run (ctx : Ctx) (toks : List Tok) (st : List CStr) (a : PrnAbs)
    (hi : MakeInv st a) (hn : nested st toks = true)
    (hs : noSelfNest (lit "autodetect") st toks = true) (hv : NoVoidMake toks) :
    MakeInv (pushAll st toks) (prnAbsRun ctx toks a) ∧
    (prnAbsRun ctx toks a).m.make =
      a.m.make ++ textsOutside (lit "make") (lit "autodetect") st toks ∧
    (prnAbsRun ctx toks a).m.model =
      a.m.model ++ textsOutside (lit "model") (lit "autodetect") st toks := by
  induction toks generalizing st a with
  | nil => exact ⟨hi, by simp [prnAbsRun, textsOutside], by simp [prnAbsRun, textsOutside]⟩
  | cons t l ih =>
    simp only [nested, Bool.and_eq_true] at hn
    simp only [noSelfNest, Bool.and_eq_true] at hs
    have hn1 : t.kind = .closing → st.head? = some t.nm := by
      intro hk
      have := hn.1
      rw [hk] at this
      simpa using this
    have hs1 : t.nm = lit "autodetect" → t.kind ≠ .closing → lit "autodetect" ∉ st := by
      intro h1 h2
      have := hs.1
      rw [if_pos ⟨h1, h2⟩] at this
      simpa using this
    obtain ⟨i1, m1, d1⟩ := makeInv_tok ctx st a t hi hn1 hs1 (hv t (by simp))
    obtain ⟨i2, m2, d2⟩ := ih (t.push st) (prnAbsTok ctx a t) i1 hn.2 hs.2
      (fun t1 h1 => hv t1 (by simp [h1]))
    refine ⟨i2, ?_, ?_⟩
    · show (prnAbsRun ctx l (prnAbsTok ctx a t)).m.make = _
      rw [m2, m1, textsOutside, List.append_assoc]
    · show (prnAbsRun ctx l (prnAbsTok ctx a t)).m.model = _
      rw [d2, d1, textsOutside, List.append_assoc]

/-- The scan of a device document: a header, the opening tag of the root element
`printer`, further tags none of which opens a `printer` element, and a text
behind the last tag.  The buffer is left as it is but for the header. -/
theorem device_doc (ctx : Ctx) (init s0 : PrnState) (hdr : CStr) (root : Tok) (body : List Tok)
    (trailer : CStr)
    (hpre : scanPrefix (printerHooks ctx) init hdr
      (root.render ++ (renderToks body ++ trailer)) = .next s0)
    (ht : TextMode s0.core) (hr : root.Opens (lit "printer")) (hrc : root.Clean)
    (hbc : ∀ t ∈ body, t.Clean) (hno : ∀ t ∈ body, ¬ t.Opens (lit "printer"))
    (htr : ∀ c ∈ trailer, c ≠ '<') :
    ∃ s, scanLoop (printerHooks ctx) init (hdr ++ (root.render ++ (renderToks body ++ trailer)))
        = .next s ∧
      s.core.out = root.tag ++ (renderToks body ++ trailer) ∧
      PrnAbs.ofState s = prnAbsRun ctx body (prnAbsRoot ctx root s0) := by
  obtain ⟨s1, e1, b1, o1, _, a1⟩ := prn_root ctx root s0 ht hr
  obtain ⟨s2, e2, b2, o2, _, a2⟩ := prn_toks ctx body s1 b1 hno
  refine ⟨advanceBy s2 trailer, ?_, ?_, ?_⟩
  · rw [scanLoop_append, hpre]
    simp only [Step.bind_next]
    have e : root.render ++ (renderToks body ++ trailer) =
        renderToks (root :: body) ++ trailer := by simp [renderToks]
    rw [e, scanLoop_toks (printerHooks ctx) (flagSafe_printerHooks ctx) (root :: body) s0 trailer
      ht (by
        intro t h
        rcases List.mem_cons.mp h with h | h
        · rw [h]; exact hrc
        · exact hbc t h) htr]
    simp only [runToks]
    rw [e1]
    simp only [Step.bind_next]
    rw [e2]
    rfl
  · show s2.core.out ++ trailer = _
    rw [o2, o1, List.append_assoc]
  · show PrnAbs.ofState s2 = _
    rw [a2, a1]

theorem makeInv_root (ctx : Ctx) (root : Tok) (s0 : PrnState) (hk : root.kind = .opening)
    (hnm : root.nm = lit "printer")
    (h0 : s0.m.inmake = 0 ∧ s0.m.inmodel = 0 ∧ s0.m.inautodetect = 0) :
    MakeInv [lit "printer"] (prnAbsRoot ctx root s0) ∧
    (prnAbsRoot ctx root s0).m.make = s0.m.make ∧
    (prnAbsRoot ctx root s0).m.model = s0.m.model := by
  obtain ⟨n1, n2, n3, n4, n5⟩ := prnNameM_make (root.nameProbe s0.core.nestinglevel) s0.m
  have x1 : (root.nameProbe s0.core.nestinglevel).currtagname ≠ lit "make" := by
    show root.nm ≠ _; rw [hnm]; decide
  have x2 : (root.nameProbe s0.core.nestinglevel).currtagname ≠ lit "model" := by
    show root.nm ≠ _; rw [hnm]; decide
  have x3 : (root.nameProbe s0.core.nestinglevel).currtagname ≠ lit "autodetect" := by
    show root.nm ≠ _; rw [hnm]; decide
  rw [if_neg x1, h0.1] at n3
  rw [if_neg x2, h0.2.1] at n4
  rw [if_neg x3, h0.2.2] at n5
  have hl : (1 : Int) + root.kind.endType = 2 := by rw [hk]; rfl
  have key : ∀ c : Core, c.nestinglevel = 2 →
      (prnEndM c (prnNameM (root.nameProbe s0.core.nestinglevel) s0.m)).make = s0.m.make ∧
      (prnEndM c (prnNameM (root.nameProbe s0.core.nestinglevel) s0.m)).model = s0.m.model ∧
      (prnEndM c (prnNameM (root.nameProbe s0.core.nestinglevel) s0.m)).inmake = 0 ∧
      (prnEndM c (prnNameM (root.nameProbe s0.core.nestinglevel) s0.m)).inmodel = 0 ∧
      (prnEndM c (prnNameM (root.nameProbe s0.core.nestinglevel) s0.m)).inautodetect = 0 := by
    intro c hc
    obtain ⟨e1, e2, e3, e4, e5⟩ := prnEndM_make c
      (prnNameM (root.nameProbe s0.core.nestinglevel) s0.m)
    simp only [n1, n2, n3, n4, n5, hc] at e1 e2 e3 e4 e5
    norm_num at e1 e2 e3 e4 e5
    exact ⟨e1, e2, e3, e4, e5⟩
  obtain ⟨e1, e2, e3, e4, e5⟩ := key
    { nestinglevel := 1 + root.kind.endType, currtagbody := s0.core.currtagbody } hl
  refine ⟨⟨?_, ?_, ?_, ?_, ?_⟩, e1, e2⟩
  · show 1 + root.kind.endType = _
    rw [hl]; rfl
  · exact e5.trans rfl
  · decide
  · exact le_of_eq_of_le e3 (by decide)
  · exact le_of_eq_of_le e4 (by decide)

/-- C16: a device document with a header, the root element `printer` and
well-nested tags behind its opening tag, in which no `autodetect` element lies
inside another one and no tag without body is named `make` or `model`.  When
the scan of the header has left the sentinels of `make`, `model` and
`autodetect` clear, the scan of the document goes through, and behind it the
static make is what it was in front of the root element (empty, when the parse
starts with empty make and model and the header holds no `make` element)
followed by the texts of the `make` elements outside every `autodetect`
element; the texts of the `make` elements inside `autodetect` do not join it.
The same holds for the model. -/
theorem make_model_outside_autodetect (ctx : Ctx) (init s0 : PrnState) (hdr : CStr) (root : Tok)
    (body : List Tok) (trailer : CStr)
    (hpre : scanPrefix (printerHooks ctx) init hdr
      (root.render ++ (renderToks body ++ trailer)) = .next s0)
    (ht : TextMode s0.core)
    (h0 : s0.m.inmake = 0 ∧ s0.m.inmodel = 0 ∧ s0.m.inautodetect = 0)
    (hk : root.kind = .opening) (hnm : root.nm = lit "printer") (hrc : root.Clean)
    (hbc : ∀ t ∈ body, t.Clean) (hno : ∀ t ∈ body, ¬ t.Opens (lit "printer"))
    (htr : ∀ c ∈ trailer, c ≠ '<')
    (hn : nested [lit "printer"] body = true)
    (hs : noSelfNest (lit "autodetect") [lit "printer"] body = true)
    (hv : NoVoidMake body) :
    ∃ s, scanLoop (printerHooks ctx) init (hdr ++ (root.render ++ (renderToks body ++ trailer)))
        = .next s ∧
      s.m.make = s0.m.make ++
        textsOutside (lit "make") (lit "autodetect") [lit "printer"] body ∧
      s.m.model = s0.m.model ++
        textsOutside (lit "model") (lit "autodetect") [lit "printer"] body := by
  obtain ⟨s, e, _, a⟩ := device_doc ctx init s0 hdr root body trailer hpre ht
    ⟨hnm, by rw [hk]; decide⟩ hrc hbc hno htr
  obtain ⟨i0, m0, d0⟩ := makeInv_root ctx root s0 hk hnm h0
  obtain ⟨_, m1, d1⟩ := makeInv_run ctx body [lit "printer"] (prnAbsRoot ctx root s0) i0 hn hs hv
  refine ⟨s, e, ?_, ?_⟩
  · have : s.m = (prnAbsRun ctx body (prnAbsRoot ctx root s0)).m := congrArg PrnAbs.m a
    rw [this, m1, m0]
  · have : s.m = (prnAbsRun ctx body (prnAbsRoot ctx root s0)).m := congrArg PrnAbs.m a
    rw [this, d1, d0]

set_option maxRecDepth 100000 in
/-- Witness of C16: the make `HP` and the model `LaserJet` of the example
document; the make inside `autodetect` is left out. -/
theorem make_model_outside_autodetect_witness :
    ∃ s, scanLoop (printerHooks ctxLaserJetGs) (prnInit [] [] [] [])
        (devHeader ++ (devRoot.render ++ (renderToks devBody ++ [chNL]))) = .next s ∧
      s.m.make = lit "HP" ∧ s.m.model = lit "LaserJet" :=
  (make_model_outside_autodetect ctxLaserJetGs (prnInit [] [] [] []) stDevHeader devHeader
    devRoot devBody [chNL] (Step.eq_next_getD _ _ (by decide)) (by decide) (by decide) rfl rfl
    (by decide) (by decide) (by decide) (by decide) (by decide) (by decide) (by decide)).imp
    fun _ h => ⟨h.1, h.2.1.trans (by decide), h.2.2.trans (by decide)⟩

theorem overInPrinters_eq (s : DrvState) :
    overInPrinters s = (printersEndA s.core.nestinglevel s.core.out s.m).bind fun r =>
      .next { core := { s.core with out := r.2 }, m := r.1 } := by
  cases s with
  | mk c m =>
    unfold overInPrinters printersEndA
    simp only
    by_cases h : c.nestinglevel < m.inprinters
    · rw [if_pos h, if_pos h]
      cases hp : m.lastprinters with
      | none => simp only [Step.bind_next]
      | some p =>
        simp only
        unfold deleteSpan
        by_cases hle : 1 ≤ p ∧ p ≤ c.out.length
        · rw [if_pos hle, if_pos hle]
          simp only [Step.bind_next]
          by_cases hne : m.printerentry ≠ []
          · rw [if_pos hne]
            unfold insertAt
            simp only [List.length_take, Nat.min_def]
            rw [if_pos (by split <;> omega)]
            simp only [Step.bind_next, List.take_take, Nat.min_self, List.drop_take,
              Nat.sub_self, List.take_zero, List.append_nil]
          · rw [if_neg hne]
            have : m.printerentry = [] := by simpa using hne
            simp only [Step.bind_next, this, List.append_nil]
        · rw [if_neg hle, if_neg hle]
          rfl
    · rw [if_neg h, if_neg h]
      simp only [Step.bind_next]

theorem overInPrinter_eq (s : DrvState) :
    overInPrinter s = (printerEndA s.core.nestinglevel s.core.out s.m).bind fun m1 =>
      .next { s with m := m1 } := by
  cases s with
  | mk c m =>
    unfold overInPrinter printerEndA
    simp only
    by_cases h : c.nestinglevel < m.inprinter
    · rw [if_pos h, if_pos h]
      by_cases hs : m.printertobesaved = true
      · rw [if_pos hs, if_pos hs]
        cases hp : m.lastprinter with
        | none => simp only [Step.bind_next]
        | some p =>
          simp only
          by_cases hle : p ≤ c.out.length
          · rw [if_pos hle, if_pos hle]
            simp only [Step.bind_next]
          · rw [if_neg hle, if_neg hle]
            rfl
      · rw [if_neg hs, if_neg hs]
        simp only [Step.bind_next]
    · rw [if_neg h, if_neg h]
      simp only [Step.bind_next]

theorem overDrvFlags_congr (c c1 : Core) (m : DrvSt) (h : c.nestinglevel = c1.nestinglevel) :
    overDrvFlags c m = overDrvFlags c1 m := by
  unfold overDrvFlags
  simp only [h]

theorem overDrvId_congr (ctx : Ctx) (c c1 : Core) (m : DrvSt)
    (h : c.nestinglevel = c1.nestinglevel) (h2 : c.currtagbody = c1.currtagbody)
    (h3 : c.bodytail = c1.bodytail) :
    overDrvId ctx c m = overDrvId ctx c1 m := by
  unfold overDrvId
  simp only [h, h2, h3]

/-- The end action of Driver mode changes the scanned part of the buffer and
the variables of the mode as `drvEndA` says, and nothing else. -/
theorem drvEnd_eq (ctx : Ctx) (c : Core) (m : DrvSt) :
    drvEnd ctx { core := c, m := m } =
      (drvEndA ctx c.nestinglevel c.currtagbody c.bodytail c.out m).bind fun r =>
        .next { core := { c with out := r.2 }, m := r.1 } := by
  unfold drvEnd drvEndA
  rw [overInPrinters_eq]
  simp only
  rw [overDrvFlags_congr c { nestinglevel := c.nestinglevel } m rfl]
  cases h1 : printersEndA c.nestinglevel c.out
      (overDrvFlags { nestinglevel := c.nestinglevel } m) with
  | next r =>
    simp only [Step.bind_next]
    rw [overInPrinter_eq]
    simp only
    cases h2 : printerEndA c.nestinglevel r.2 r.1 with
    | next m2 =>
      simp only [Step.bind_next]
      have e := overDrvId_congr ctx { c with out := r.2 }
        { nestinglevel := c.nestinglevel, currtagbody := c.currtagbody,
          bodytail := c.bodytail } m2 rfl rfl rfl
      show Step.next (PState.mk _ (overDrvId ctx { c with out := r.2 } m2)) = _
      rw [e]
    | discard k => rfl
    | fatal => rfl
    | undefined => rfl
  | discard k => rfl
  | fatal => rfl
  | undefined => rfl

theorem flagSafe_driverHooks (ctx : Ctx) : FlagSafe (driverHooks ctx) where
  onName := by
    intro s s1 h
    obtain ⟨m1, _, h⟩ := Step.bind_eq_next h
    cases h
    show SameFlags (drvNameCore s.core) s.core
    unfold drvNameCore
    split
    · exact sameFlags_removeHeader _
    · exact sameFlags_refl _
  onParam := fun s => sameFlags_refl _
  onEnd := by
    intro s s1 h
    have e := drvEnd_eq ctx s.core s.m
    rw [show driverHooks ctx = { onName := drvName, onParam := fun s => s, onEnd := drvEnd ctx }
      from rfl] at h
    simp only at h
    rw [show s = { core := s.core, m := s.m } from rfl, e] at h
    obtain ⟨r, _, h⟩ := Step.bind_eq_next h
    cases h
    exact ⟨rfl, rfl, rfl, rfl, rfl, rfl, rfl⟩

theorem drvNameM_congr (c c1 : Core) (m : DrvSt) (h1 : c.currtagname = c1.currtagname)
    (h2 : c.nestinglevel = c1.nestinglevel) (h3 : c.tagtype = c1.tagtype)
    (h4 : c.lasttag = c1.lasttag) (h5 : c.lasttagend = c1.lasttagend) :
    drvNameM c m = drvNameM c1 m := by
  unfold drvNameM
  simp only [h1, h2, h3, h4, h5]

theorem printersEndA_nonempty (lvl : Int) (out : CStr) (m : DrvSt) (r : DrvSt × CStr)
    (h : printersEndA lvl out m = .next r) (hne : out ≠ []) : r.2 ≠ [] := by
  unfold printersEndA at h
  split at h
  · split at h
    · split at h
      · rename_i hle
        cases h
        intro h0
        have hl : 0 < out.length := List.length_pos.mpr hne
        have := congrArg List.length h0
        simp only [List.length_append, List.length_take, List.length_nil] at this
        omega
      · cases h
    · cases h; exact hne
  · cases h; exact hne

theorem drvEndA_nonempty (ctx : Ctx) (lvl : Int) (body tail out : CStr) (m : DrvSt)
    (r : DrvSt × CStr) (h : drvEndA ctx lvl body tail out m = .next r) (hne : out ≠ []) :
    r.2 ≠ [] := by
  unfold drvEndA at h
  obtain ⟨r1, h1, h⟩ := Step.bind_eq_next h
  obtain ⟨m2, _, h⟩ := Step.bind_eq_next h
  cases h
  exact printersEndA_nonempty lvl out _ r1 h1 hne

theorem endOf_bodytail_some (k : TagKind) (ps : List CStr) (c1 : Core) (body : CStr) (e : Nat)
    (h : c1.lasttagend = some e) :
    (endOf k ps c1 body).bodytail = staleBehind c1.currtagbody c1.bodytail body := by
  show (match c1.lasttagend with
    | some _ => staleBehind c1.currtagbody c1.bodytail body
    | none => c1.bodytail) = _
  rw [h]

theorem endOf_bodytail_none (k : TagKind) (ps : List CStr) (c1 : Core) (body : CStr)
    (h : c1.lasttagend = none) : (endOf k ps c1 body).bodytail = c1.bodytail := by
  show (match c1.lasttagend with
    | some _ => staleBehind c1.currtagbody c1.bodytail body
    | none => c1.bodytail) = _
  rw [h]

/-- The effect of a tag in Driver mode, for every tag but the opening tag of the
root element: the state follows the effect `drvAbsTok`. -/
theorem drv_tok (ctx : Ctx) (tok : Tok) (s : DrvState) (a1 : DrvAbs) (hb : Behind s.core)
    (hr : ¬ tok.Opens (lit "driver"))
    (h : drvAbsTok ctx (DrvAbs.ofState s) tok = .next a1) :
    ∃ s1, runTok (driverHooks ctx) tok s = .next s1 ∧ Behind s1.core ∧
      DrvAbs.ofState s1 = a1 ∧ s1.core.inxmlheader = s.core.inxmlheader ∧
      s1.core.comboconfirmed = s.core.comboconfirmed := by
  unfold drvAbsTok at h
  obtain ⟨m1, hm1, h⟩ := Step.bind_eq_next h
  rw [drvEnd_eq] at h
  obtain ⟨s2, hs2, h⟩ := Step.bind_eq_next h
  obtain ⟨r, hr1, hs2⟩ := Step.bind_eq_next hs2
  cases hs2
  cases h
  have hN : drvNameCore (atTagName (advanceBy s tok.text) tok.kind.nameType tok.kind.start
      tok.nm).core = (atTagName (advanceBy s tok.text) tok.kind.nameType tok.kind.start
      tok.nm).core := by
    unfold drvNameCore
    rw [if_neg]
    intro h
    refine hr ⟨h.1, ?_⟩
    intro hk
    have h2 : TagKind.closing.nameType = TAG_OPEN := by rw [← hk]; exact h.2
    exact absurd h2 (by decide)
  have hnm : drvNameM (atTagName (advanceBy s tok.text) tok.kind.nameType tok.kind.start
      tok.nm).core s.m = .next m1 := by
    rw [← hm1]
    exact drvNameM_congr _ _ _ rfl rfl rfl rfl hb.mark
  have hg := inGap_atTagName (advanceBy s tok.text) tok.kind.nameType tok.kind.start tok.nm
    (textMode_grow s tok.text hb.text)
  obtain ⟨ec, ebody⟩ := endCore_endOf tok
    (atTagName (advanceBy s tok.text) tok.kind.nameType tok.kind.start tok.nm).core tok.text
    hg rfl
  have etail : (endOf tok.kind tok.params (atTagName (advanceBy s tok.text)
      tok.kind.nameType tok.kind.start tok.nm).core tok.text).bodytail =
      staleBehind s.core.currtagbody s.core.bodytail tok.text :=
    endOf_bodytail_some tok.kind tok.params _ tok.text (s.core.out.length - 1) hb.mark
  have hl : 0 < s.core.out.length := List.length_pos.mpr hb.nonempty
  have e := tagEnd_marked (driverHooks ctx) (fun _ => rfl) tok.kind tok.params
    (PState.mk (atTagName (advanceBy s tok.text) tok.kind.nameType tok.kind.start tok.nm).core
      m1) (s.core.out.length - 1) rfl hb.mark
    (by show _ ≤ (s.core.out ++ tok.text).length; simp only [List.length_append]; omega)
    (by show (s.core.out ++ tok.text).length ≤ ((s.core.out ++ tok.text) ++ _).length
        simp only [List.length_append]; omega)
  have hbody : (((atTagName (advanceBy s tok.text) tok.kind.nameType tok.kind.start
      tok.nm).core.out.drop (s.core.out.length - 1 + 1)).take
      ((atTagName (advanceBy s tok.text) tok.kind.nameType tok.kind.start tok.nm).core.lasttag -
        (s.core.out.length - 1) - 1)) = tok.text :=
    body_of_behind s.core.out tok.text (tok.kind.start ++ tok.nm) hb.nonempty
  simp only [hbody] at e
  have hout : (endOf tok.kind tok.params (atTagName (advanceBy s tok.text)
      tok.kind.nameType tok.kind.start tok.nm).core tok.text).out =
      s.core.out ++ tok.render := ec.out.trans (render_assoc s.core.out tok)
  have hend : (driverHooks ctx).onEnd (PState.mk (endOf tok.kind tok.params
      (atTagName (advanceBy s tok.text) tok.kind.nameType tok.kind.start tok.nm).core tok.text)
      m1) = .next (PState.mk { endOf tok.kind tok.params (atTagName (advanceBy s tok.text)
        tok.kind.nameType tok.kind.start tok.nm).core tok.text with out := r.2 } r.1) := by
    have hA : drvEndA ctx (endOf tok.kind tok.params (atTagName (advanceBy s tok.text)
        tok.kind.nameType tok.kind.start tok.nm).core tok.text).nestinglevel
        (endOf tok.kind tok.params (atTagName (advanceBy s tok.text)
        tok.kind.nameType tok.kind.start tok.nm).core tok.text).currtagbody
        (endOf tok.kind tok.params (atTagName (advanceBy s tok.text)
        tok.kind.nameType tok.kind.start tok.nm).core tok.text).bodytail
        (endOf tok.kind tok.params (atTagName (advanceBy s tok.text)
        tok.kind.nameType tok.kind.start tok.nm).core tok.text).out m1 = .next r := by
      rw [ec.level, ebody, etail, hout]
      exact hr1
    show drvEnd ctx _ = _
    rw [drvEnd_eq, hA]
    rfl
  rw [hend] at e
  have hrun : runTok (driverHooks ctx) tok s = .next (markEnd (PState.mk
      { endOf tok.kind tok.params (atTagName (advanceBy s tok.text)
        tok.kind.nameType tok.kind.start tok.nm).core tok.text with out := r.2 } r.1)) := by
    unfold runTok
    show ((drvNameM _ s.m).bind fun m1 => Step.next (PState.mk (drvNameCore _) m1)).bind _ = _
    rw [hnm, hN]
    simp only [Step.bind_next]
    rw [e]
    rfl
  have hne : r.2 ≠ [] := drvEndA_nonempty ctx _ _ _ _ m1 r hr1
    (by
      show (s.core.out ++ tok.render) ≠ []
      simp [hb.nonempty])
  refine ⟨_, hrun, ⟨⟨ec.intag, ec.incomment, ec.inquotes, ec.insinglequotes, ec.indoublequotes,
    ec.intagword⟩, rfl, hne⟩, ?_, ec.header, ec.combo⟩
  show DrvAbs.mk _ _ _ _ _ = DrvAbs.mk _ _ _ _ _
  congr 1
  exact ec.level

/-- The effect of a list of tags in Driver mode, none of which opens the root
element: when the effect `drvAbsRun` is defined, the scan follows it. -/
theorem drv_toks (ctx : Ctx) (toks : List Tok) (s : DrvState) (a1 : DrvAbs)
    (hb : Behind s.core) (hr : ∀ t ∈ toks, ¬ t.Opens (lit "driver"))
    (h : drvAbsRun ctx toks (DrvAbs.ofState s) = .next a1) :
    ∃ s1, runToks (driverHooks ctx) toks s = .next s1 ∧ Behind s1.core ∧
      DrvAbs.ofState s1 = a1 ∧ s1.core.inxmlheader = s.core.inxmlheader ∧
      s1.core.comboconfirmed = s.core.comboconfirmed := by
  induction toks generalizing s with
  | nil =>
    cases h
    exact ⟨s, rfl, hb, rfl, rfl, rfl⟩
  | cons t l ih =>
    simp only [drvAbsRun] at h
    obtain ⟨a2, h2, h⟩ := Step.bind_eq_next h
    obtain ⟨s2, e2, b2, o2, x2, c2⟩ := drv_tok ctx t s a2 hb (hr t (by simp)) h2
    rw [← o2] at h
    obtain ⟨s3, e3, b3, o3, x3, c3⟩ := ih s2 b2 (fun t1 h1 => hr t1 (by simp [h1])) h
    refine ⟨s3, ?_, b3, o3, x3.trans x2, c3.trans c2⟩
    simp only [runToks]
    rw [e2]
    exact e3

theorem drvClear_overDrvFlags (c : Core) (m : DrvSt) (h : DrvClear m) :
    DrvClear (overDrvFlags c m) := by
  obtain ⟨h1, h2, h3⟩ := h
  unfold overDrvFlags
  dsimp only
  split <;> split <;> split <;> exact ⟨h1, h2, h3⟩

/-- With the sentinels of the blocks clear, the end action of a tag at a
nesting level that is not negative leaves the buffer alone. -/
theorem drvEndA_clear (ctx : Ctx) (lvl : Int) (body tail out : CStr) (m : DrvSt)
    (hl : 0 ≤ lvl) (h : DrvClear m) :
    drvEndA ctx lvl body tail out m = .next (overDrvFlags { nestinglevel := lvl } m, out) := by
  obtain ⟨h1, h2, h3⟩ := drvClear_overDrvFlags { nestinglevel := lvl } m h
  unfold drvEndA printersEndA
  rw [if_neg (by rw [h1]; omega)]
  simp only [Step.bind_next]
  unfold printerEndA
  rw [if_neg (by rw [h2]; omega)]
  simp only [Step.bind_next]
  unfold overDrvId
  rw [if_neg (by show ¬ lvl < _; rw [h3]; omega)]

/-- The effect of the opening tag of the root element in Driver mode: the part
of the buffer in front of its `<` is removed. -/
theorem drv_root (ctx : Ctx) (root : Tok) (s : DrvState) (ht : TextMode s.core)
    (hk : root.kind = .opening) (hnm : root.nm = lit "driver") (hc : DrvClear s.m) :
    ∃ s1, runTok (driverHooks ctx) root s = .next s1 ∧ Behind s1.core ∧
      DrvAbs.ofState s1 = drvAbsRoot root s ∧ s1.core.inxmlheader = false ∧
      s1.core.comboconfirmed = s.core.comboconfirmed := by
  have hty : root.kind.nameType = TAG_OPEN := by rw [hk]; rfl
  have hN : drvNameCore (atTagName (advanceBy s root.text) root.kind.nameType root.kind.start
      root.nm).core = removeHeader (atTagName (advanceBy s root.text) root.kind.nameType
      root.kind.start root.nm).core := by
    unfold drvNameCore
    rw [if_pos ⟨hnm, hty⟩]
  have hnmM : drvNameM (atTagName (advanceBy s root.text) root.kind.nameType root.kind.start
      root.nm).core s.m = .next { s.m with indriver := s.core.nestinglevel + 1 } := by
    unfold drvNameM
    have e : (atTagName (advanceBy s root.text) root.kind.nameType root.kind.start
      root.nm).core.currtagname = lit "driver" := hnm
    simp only [e]
    rfl
  have hg : InGap (removeHeader (atTagName (advanceBy s root.text) root.kind.nameType
      root.kind.start root.nm).core) :=
    inGap_atTagName (advanceBy s root.text) root.kind.nameType root.kind.start root.nm
      (textMode_grow s root.text ht)
  obtain ⟨ec, ebody⟩ := endCore_endOf root
    (removeHeader (atTagName (advanceBy s root.text) root.kind.nameType root.kind.start
      root.nm).core) s.core.currtagbody hg rfl
  have e := tagEnd_unmarked (driverHooks ctx) (fun _ => rfl) root.kind root.params
    (PState.mk (removeHeader (atTagName (advanceBy s root.text) root.kind.nameType
      root.kind.start root.nm).core) { s.m with indriver := s.core.nestinglevel + 1 }) rfl rfl
  have hlvl : (endOf root.kind root.params (removeHeader (atTagName (advanceBy s root.text)
      root.kind.nameType root.kind.start root.nm).core) s.core.currtagbody).nestinglevel =
      1 + root.kind.endType := ec.level
  have hout : (endOf root.kind root.params (removeHeader (atTagName (advanceBy s root.text)
      root.kind.nameType root.kind.start root.nm).core) s.core.currtagbody).out = root.tag := by
    rw [ec.out, removeHeader_out (s.core.out ++ root.text) (root.kind.start ++ root.nm) _ rfl rfl]
    simp [Tok.tag]
  have hne : root.tag ≠ [] := by
    unfold Tok.tag
    cases root.kind <;> simp [TagKind.start]
  have hcl : DrvClear { s.m with indriver := s.core.nestinglevel + 1 } :=
    ⟨hc.inprinters, hc.inprinter, hc.inid⟩
  have hend : (driverHooks ctx).onEnd (PState.mk (endOf root.kind root.params
      (removeHeader (atTagName (advanceBy s root.text) root.kind.nameType root.kind.start
        root.nm).core) s.core.currtagbody) { s.m with indriver := s.core.nestinglevel + 1 }) =
      .next (PState.mk (endOf root.kind root.params
      (removeHeader (atTagName (advanceBy s root.text) root.kind.nameType root.kind.start
        root.nm).core) s.core.currtagbody)
        (overDrvFlags { nestinglevel := 1 + root.kind.endType }
          { s.m with indriver := s.core.nestinglevel + 1 })) := by
    have hA : drvEndA ctx (endOf root.kind root.params (removeHeader (atTagName
        (advanceBy s root.text) root.kind.nameType root.kind.start root.nm).core)
        s.core.currtagbody).nestinglevel (endOf root.kind root.params (removeHeader (atTagName
        (advanceBy s root.text) root.kind.nameType root.kind.start root.nm).core)
        s.core.currtagbody).currtagbody (endOf root.kind root.params (removeHeader (atTagName
        (advanceBy s root.text) root.kind.nameType root.kind.start root.nm).core)
        s.core.currtagbody).bodytail (endOf root.kind root.params (removeHeader (atTagName
        (advanceBy s root.text) root.kind.nameType root.kind.start root.nm).core)
        s.core.currtagbody).out { s.m with indriver := s.core.nestinglevel + 1 } =
        .next (overDrvFlags { nestinglevel := 1 + root.kind.endType }
          { s.m with indriver := s.core.nestinglevel + 1 },
          (endOf root.kind root.params (removeHeader (atTagName
            (advanceBy s root.text) root.kind.nameType root.kind.start root.nm).core)
            s.core.currtagbody).out) := by
      rw [hlvl]
      exact drvEndA_clear ctx _ _ _ _ _ (by rw [hk]; decide) hcl
    show drvEnd ctx _ = _
    rw [drvEnd_eq, hA]
    rfl
  refine ⟨markEnd (PState.mk (endOf root.kind root.params
      (removeHeader (atTagName (advanceBy s root.text) root.kind.nameType root.kind.start
        root.nm).core) s.core.currtagbody)
        (overDrvFlags { nestinglevel := 1 + root.kind.endType }
          { s.m with indriver := s.core.nestinglevel + 1 })), ?_, ⟨⟨ec.intag, ec.incomment, ec.inquotes, ec.insinglequotes, ec.indoublequotes,
    ec.intagword⟩, rfl, fun h0 => hne (hout.symm.trans h0)⟩, ?_, ec.header, ec.combo⟩
  · unfold runTok
    show ((drvNameM _ s.m).bind fun m1 => Step.next (PState.mk (drvNameCore _) m1)).bind _ = _
    rw [hnmM, hN]
    simp only [Step.bind_next]
    rw [e]
    show ((driverHooks ctx).onEnd (PState.mk (endOf root.kind root.params
      (removeHeader (atTagName (advanceBy s root.text) root.kind.nameType root.kind.start
        root.nm).core) s.core.currtagbody) { s.m with indriver := s.core.nestinglevel + 1 })).bind
      _ = _
    rw [hend]
    rfl
  · have etail : (endOf root.kind root.params (removeHeader (atTagName (advanceBy s root.text)
        root.kind.nameType root.kind.start root.nm).core) s.core.currtagbody).bodytail =
        s.core.bodytail :=
      endOf_bodytail_none root.kind root.params _ s.core.currtagbody rfl
    show DrvAbs.mk _ _ _ _ _ = DrvAbs.mk _ _ _ _ _
    congr 1

/-- The scan of a driver document: a header, the opening tag of the root element
`driver`, further tags none of which opens a `driver` element, and a text behind
the last tag.  When the effect of the tags is defined, the scan follows it. -/
theorem driver_doc (ctx : Ctx) (init s0 : DrvState) (hdr : CStr) (root : Tok) (body : List Tok)
    (trailer : CStr) (a : DrvAbs)
    (hpre : scanPrefix (driverHooks ctx) init hdr
      (root.render ++ (renderToks body ++ trailer)) = .next s0)
    (ht : TextMode s0.core) (hc : DrvClear s0.m)
    (hk : root.kind = .opening) (hnm : root.nm = lit "driver") (hrc : root.Clean)
    (hbc : ∀ t ∈ body, t.Clean) (hno : ∀ t ∈ body, ¬ t.Opens (lit "driver"))
    (htr : ∀ c ∈ trailer, c ≠ '<')
    (ha : drvAbsRun ctx body (drvAbsRoot root s0) = .next a) :
    ∃ s, scanLoop (driverHooks ctx) init (hdr ++ (root.render ++ (renderToks body ++ trailer)))
        = .next s ∧
      s.core.out = a.out ++ trailer ∧ s.m = a.m ∧
      s.core.comboconfirmed = s0.core.comboconfirmed := by
  obtain ⟨s1, e1, b1, a1, _, c1⟩ := drv_root ctx root s0 ht hk hnm hc
  rw [← a1] at ha
  obtain ⟨s2, e2, b2, a2, _, c2⟩ := drv_toks ctx body s1 a b1 hno ha
  refine ⟨advanceBy s2 trailer, ?_, ?_, ?_, c2.trans c1⟩
  · rw [scanLoop_append, hpre]
    simp only [Step.bind_next]
    have e : root.render ++ (renderToks body ++ trailer) =
        renderToks (root :: body) ++ trailer := by simp [renderToks]
    rw [e, scanLoop_toks (driverHooks ctx) (flagSafe_driverHooks ctx) (root :: body) s0 trailer
      ht (by
        intro t h
        rcases List.mem_cons.mp h with h | h
        · rw [h]; exact hrc
        · exact hbc t h) htr]
    simp only [runToks]
    rw [e1]
    simp only [Step.bind_next]
    rw [e2]
    rfl
  · show s2.core.out ++ trailer = _
    rw [← a2]
    rfl
  · show s2.m = _
    rw [← a2]
    rfl

/-! ### Driver mode on well-formed driver documents -/

theorem nameType_eq_open (k : TagKind) : k.nameType = TAG_OPEN ↔ k ≠ .closing := by
  cases k <;> simp [TagKind.nameType, TAG_OPEN, TAG_CLOSE]

/-- The action on the name of a tag of a driver document is defined. -/
theorem drvNameM_probe (tok : Tok) (a : DrvAbs) :
    ∃ m1, drvNameM (tok.drvNameProbe a) a.m = .next m1 ∧ DrvNamed tok a m1 := by
  have n1 : lit "printer" ≠ lit "id" := by decide
  have n2 : lit "printer" ≠ lit "printers" := by decide
  have n3 : lit "printer" ≠ lit "execution" := by decide
  have n4 : lit "printer" ≠ lit "nopjl" := by decide
  have n5 : lit "execution" ≠ lit "id" := by decide
  have n6 : lit "execution" ≠ lit "printers" := by decide
  have n7 : lit "execution" ≠ lit "nopjl" := by decide
  have n8 : lit "nopjl" ≠ lit "id" := by decide
  have n9 : lit "nopjl" ≠ lit "printers" := by decide
  have n10 : lit "id" ≠ lit "printers" := by decide
  have n11 : lit "driver" ≠ lit "id" := by decide
  have n12 : lit "driver" ≠ lit "printers" := by decide
  have n13 : lit "driver" ≠ lit "printer" := by decide
  have n14 : lit "driver" ≠ lit "execution" := by decide
  have n15 : lit "driver" ≠ lit "nopjl" := by decide
  have ht := nameType_eq_open tok.kind
  unfold drvNameM Tok.drvNameProbe
  dsimp only
  by_cases h1 : tok.nm = lit "printer"
  · rw [if_pos h1]
    by_cases hk : tok.kind.nameType = TAG_OPEN
    · rw [if_pos hk]
      exact ⟨_, rfl, by constructor <;> simp [h1, n1, n2, n3, n4, ht.mp hk]⟩
    · rw [if_neg hk]
      have hc : tok.kind = .closing := by
        by_contra h
        exact hk (ht.mpr h)
      exact ⟨_, rfl, by constructor <;> simp [h1, n1, n2, n3, n4, hc]⟩
  rw [if_neg h1]
  by_cases h2 : tok.nm = lit "execution"
  · rw [if_pos h2]
    exact ⟨_, rfl, by constructor <;> simp [h2, n3.symm, n5, n6, n7]⟩
  rw [if_neg h2]
  by_cases h3 : tok.nm = lit "nopjl"
  · rw [if_pos h3]
    by_cases he : a.m.inexecution ≠ 0
    · rw [if_pos he]
      exact ⟨_, rfl, by constructor <;> simp [h3, n4.symm, n7.symm, n8, n9, he]⟩
    · rw [if_neg he]
      exact ⟨_, rfl, by constructor <;> simp [h3, n4.symm, n7.symm, n8, n9, he]⟩
  rw [if_neg h3]
  by_cases h4 : tok.nm = lit "id"
  · rw [if_pos h4]
    exact ⟨_, rfl, by constructor <;> simp [h4, n1.symm, n5.symm, n8.symm, n10]⟩
  rw [if_neg h4]
  by_cases h5 : tok.nm = lit "printers"
  · rw [if_pos h5]
    by_cases hk : tok.kind.nameType = TAG_OPEN
    · rw [if_pos hk]
      exact ⟨_, rfl, by constructor <;> simp [h5, n2.symm, n6.symm, n9.symm, n10.symm, ht.mp hk]⟩
    · rw [if_neg hk]
      have hc : tok.kind = .closing := by
        by_contra h
        exact hk (ht.mpr h)
      exact ⟨_, rfl, by constructor <;> simp [h5, n2.symm, n6.symm, n9.symm, n10.symm, hc]⟩
  rw [if_neg h5]
  by_cases h6 : tok.nm = lit "driver"
  · rw [if_pos h6]
    exact ⟨_, rfl, by constructor <;> simp [h6, n11, n12, n13, n14, n15]⟩
  rw [if_neg h6]
  exact ⟨_, rfl, by constructor <;> simp [h1, h2, h3, h4, h5]⟩

theorem sameBlocks_overDrvFlags (c : Core) (m : DrvSt) : SameBlocks m (overDrvFlags c m) := by
  unfold overDrvFlags
  dsimp only
  split <;> split <;> split <;> exact ⟨rfl, rfl, rfl, rfl, rfl, rfl, rfl, rfl, rfl⟩

theorem overDrvFlags_inexecution (c : Core) (m : DrvSt) :
    (overDrvFlags c m).inexecution =
      if c.nestinglevel < m.inexecution then 0 else m.inexecution := by
  unfold overDrvFlags
  dsimp only
  split <;> split <;> split <;> simp_all

/-- The end action of a tag at which no block of the driver document ends. -/
theorem drvEndA_none (ctx : Ctx) (lvl : Int) (body tail out : CStr) (m : DrvSt)
    (h1 : ¬ lvl < m.inprinters) (h2 : ¬ lvl < m.inprinter) (h3 : ¬ lvl < m.inid) :
    drvEndA ctx lvl body tail out m = .next (overDrvFlags { nestinglevel := lvl } m, out) := by
  have sb := sameBlocks_overDrvFlags { nestinglevel := lvl } m
  unfold drvEndA printersEndA
  rw [if_neg (by rw [sb.inprinters]; exact h1)]
  simp only [Step.bind_next]
  unfold printerEndA
  rw [if_neg (by rw [sb.inprinter]; exact h2)]
  simp only [Step.bind_next]
  unfold overDrvId
  rw [if_neg (by show ¬ lvl < _; rw [sb.inid]; exact h3)]

/-- The end action of the closing tag of an `id` element. -/
theorem drvEndA_id (ctx : Ctx) (lvl : Int) (body tail out : CStr) (m : DrvSt)
    (h1 : ¬ lvl < m.inprinters) (h2 : ¬ lvl < m.inprinter) (h3 : lvl < m.inid) :
    drvEndA ctx lvl body tail out m =
      .next (if ctx.trpid = translateid (strFrom body tail 8) ctx.idlist then
          { overDrvFlags { nestinglevel := lvl } m with
            inid := 0, printerentryfound := true, printertobesaved := true }
        else { overDrvFlags { nestinglevel := lvl } m with inid := 0 }, out) := by
  have sb := sameBlocks_overDrvFlags { nestinglevel := lvl } m
  unfold drvEndA printersEndA
  rw [if_neg (by rw [sb.inprinters]; exact h1)]
  simp only [Step.bind_next]
  unfold printerEndA
  rw [if_neg (by rw [sb.inprinter]; exact h2)]
  simp only [Step.bind_next]
  unfold overDrvId
  rw [if_pos (by show lvl < _; rw [sb.inid]; exact h3)]

/-- The end action of the closing tag of a `printer` element. -/
theorem drvEndA_printer (ctx : Ctx) (lvl : Int) (body tail out : CStr) (m : DrvSt) (q : Nat)
    (h1 : ¬ lvl < m.inprinters) (h2 : lvl < m.inprinter) (h3 : ¬ lvl < m.inid)
    (hq : m.lastprinter = some q) (hl : q ≤ out.length) :
    drvEndA ctx lvl body tail out m =
      .next (if m.printertobesaved = true then
          { overDrvFlags { nestinglevel := lvl } m with
            inprinter := 0, printertobesaved := false,
            printerentry := m.printerentry ++ entryHead ++ out.drop q ++ entryTail }
        else { overDrvFlags { nestinglevel := lvl } m with inprinter := 0 }, out) := by
  have sb := sameBlocks_overDrvFlags { nestinglevel := lvl } m
  unfold drvEndA printersEndA
  rw [if_neg (by rw [sb.inprinters]; exact h1)]
  simp only [Step.bind_next]
  unfold printerEndA
  rw [if_pos (by rw [sb.inprinter]; exact h2), sb.printertobesaved, sb.lastprinter, hq,
    sb.printerentry]
  by_cases ht : m.printertobesaved = true
  · rw [if_pos ht, if_pos ht]
    simp only [if_pos hl, Step.bind_next]
    unfold overDrvId
    rw [if_neg (by show ¬ lvl < _; rw [sb.inid]; exact h3)]
  · rw [if_neg ht, if_neg ht]
    simp only [Step.bind_next]
    unfold overDrvId
    rw [if_neg (by show ¬ lvl < _; rw [sb.inid]; exact h3)]

/-- The end action of the closing tag of the `printers` block. -/
theorem drvEndA_printers (ctx : Ctx) (lvl : Int) (body tail out : CStr) (m : DrvSt) (p : Nat)
    (h1 : lvl < m.inprinters) (h2 : ¬ lvl < m.inprinter) (h3 : ¬ lvl < m.inid)
    (hp : m.lastprinters = some p) (hl : 1 ≤ p ∧ p ≤ out.length) :
    drvEndA ctx lvl body tail out m =
      .next ({ overDrvFlags { nestinglevel := lvl } m with inprinters := 0 },
        out.take p ++ m.printerentry) := by
  have sb := sameBlocks_overDrvFlags { nestinglevel := lvl } m
  unfold drvEndA printersEndA
  rw [if_pos (by rw [sb.inprinters]; exact h1), sb.lastprinters, hp, sb.printerentry]
  simp only [if_pos hl, Step.bind_next]
  unfold printerEndA
  rw [if_neg (by show ¬ lvl < _; rw [sb.inprinter]; exact h2)]
  simp only [Step.bind_next]
  unfold overDrvId
  rw [if_neg (by show ¬ lvl < _; rw [sb.inid]; exact h3)]
  rw [sb.printerentry, sb.lastprinters, hp]

/-- The end action of a tag of a driver document at which at most one block
ends, with the marks of the blocks inside the scanned part of the buffer. -/
theorem drvEndA_ended (ctx : Ctx) (lvl : Int) (body tail out : CStr) (m : DrvSt)
    (P Q I : Prop)
    [Decidable P] [Decidable Q] [Decidable I]
    (hP : lvl < m.inprinters ↔ P) (hQ : lvl < m.inprinter ↔ Q) (hI : lvl < m.inid ↔ I)
    (hPQ : P → ¬ Q) (hPI : P → ¬ I) (hQI : Q → ¬ I)
    (hp : P → ∃ p, m.lastprinters = some p ∧ 1 ≤ p ∧ p ≤ out.length)
    (hq : Q → ∃ q, m.lastprinter = some q ∧ q ≤ out.length) :
    ∃ r, drvEndA ctx lvl body tail out m = .next r ∧
      DrvEnded ctx lvl body tail out m P Q I r := by
  have sb := sameBlocks_overDrvFlags { nestinglevel := lvl } m
  have fe := overDrvFlags_inexecution { nestinglevel := lvl } m
  by_cases p : P
  · have q : ¬ Q := hPQ p
    have i : ¬ I := hPI p
    obtain ⟨n, hn, hl⟩ := hp p
    refine ⟨_, drvEndA_printers ctx lvl body tail out m n (hP.mpr p) (fun h => q (hQ.mp h))
      (fun h => i (hI.mp h)) hn hl, ?_⟩
    constructor <;> simp [p, q, i, hn, sb.inid, sb.inprinter, sb.nopjl, sb.printerentry,
      sb.lastprinters, sb.lastprinter, sb.printertobesaved, sb.printerentryfound, fe]
  by_cases q : Q
  · have i : ¬ I := hQI q
    obtain ⟨n, hn, hl⟩ := hq q
    refine ⟨_, drvEndA_printer ctx lvl body tail out m n (fun h => p (hP.mp h)) (hQ.mpr q)
      (fun h => i (hI.mp h)) hn hl, ?_⟩
    by_cases ht : m.printertobesaved = true
    · rw [if_pos ht]
      constructor <;> simp [p, q, i, hn, ht, sb.inid, sb.inprinters, sb.nopjl,
        sb.lastprinters, sb.lastprinter, sb.printerentryfound, fe]
    · rw [if_neg ht]
      constructor <;> simp [p, q, i, hn, ht, sb.inid, sb.inprinters, sb.nopjl, sb.printerentry,
        sb.lastprinters, sb.lastprinter, sb.printerentryfound, sb.printertobesaved, fe]
  by_cases i : I
  · refine ⟨_, drvEndA_id ctx lvl body tail out m (fun h => p (hP.mp h))
      (fun h => q (hQ.mp h)) (hI.mpr i), ?_⟩
    by_cases ht : ctx.trpid = translateid (strFrom body tail 8) ctx.idlist
    · rw [if_pos ht]
      constructor <;> simp [p, q, i, ← ht, sb.inprinter, sb.inprinters, sb.nopjl,
        sb.printerentry, sb.lastprinters, sb.lastprinter, fe]
    · rw [if_neg ht]
      constructor <;> simp [p, q, i, ht, sb.inprinter, sb.inprinters, sb.nopjl,
        sb.printerentry, sb.lastprinters, sb.lastprinter, sb.printertobesaved,
        sb.printerentryfound, fe]
  · refine ⟨_, drvEndA_none ctx lvl body tail out m (fun h => p (hP.mp h))
      (fun h => q (hQ.mp h)) (fun h => i (hI.mp h)), ?_⟩
    constructor <;> simp [p, q, i, sb.inid, sb.inprinter, sb.inprinters, sb.nopjl,
      sb.printerentry, sb.lastprinters, sb.lastprinter, sb.printertobesaved,
      sb.printerentryfound, fe]

theorem drvAbsTok_eq (ctx : Ctx) (a : DrvAbs) (tok : Tok) :
    drvAbsTok ctx a tok = (drvNameM (tok.drvNameProbe a) a.m).bind fun m1 =>
      (drvEndA ctx (a.lvl + tok.kind.endType) tok.text (staleBehind a.body a.tail tok.text)
        (a.out ++ tok.render) m1).bind fun r =>
        .next { lvl := a.lvl + tok.kind.endType, m := r.1, out := r.2,
                body := tok.text, tail := staleBehind a.body a.tail tok.text } := by
  unfold drvAbsTok
  congr 1
  funext m1
  rw [drvEnd_eq]
  show ((drvEndA ctx (a.lvl + tok.kind.endType) tok.text (staleBehind a.body a.tail tok.text)
    (a.out ++ tok.render) m1).bind _).bind _ = _
  cases drvEndA ctx (a.lvl + tok.kind.endType) tok.text (staleBehind a.body a.tail tok.text)
    (a.out ++ tok.render) m1 <;> rfl

/-- One tag of a well-nested driver document: its effect is defined when the
marks of the printer list lie inside the scanned part of the buffer, the end
actions of the blocks run at their closing tags and nowhere else. -/
theorem drvInv_tok (ctx : Ctx) (st : List CStr) (a : DrvAbs) (tok : Tok) (hi : DrvInv st a)
    (hn : tok.kind = .closing → st.head? = some tok.nm) (hv : tok.NoVoidBlock)
    (hp : tok.nm = lit "printers" → tok.kind = .closing →
      ∃ p, a.m.lastprinters = some p ∧ 1 ≤ p ∧ p ≤ a.out.length)
    (hq : tok.nm = lit "printer" → tok.kind = .closing →
      ∃ q, a.m.lastprinter = some q ∧ q ≤ a.out.length) :
    ∃ a1, drvAbsTok ctx a tok = .next a1 ∧ DrvInv (tok.push st) a1 ∧
      DrvStepped ctx tok a a1 ∧ a1.lvl = a.lvl + tok.kind.endType := by
  have n1 : lit "printer" ≠ lit "id" := by decide
  have n2 : lit "printer" ≠ lit "printers" := by decide
  have n10 : lit "id" ≠ lit "printers" := by decide
  obtain ⟨m1, hm1, nd⟩ := drvNameM_probe tok a
  obtain ⟨i1, i2⟩ := sentinel_step (lit "id") st a.lvl a.m.inid tok hi.lvl hi.inid hn
    (fun h => (hv h).1)
  obtain ⟨q1, q2⟩ := sentinel_step (lit "printer") st a.lvl a.m.inprinter tok hi.lvl
    hi.inprinter hn (fun h => (hv h).2.1)
  obtain ⟨p1, p2⟩ := sentinel_step (lit "printers") st a.lvl a.m.inprinters tok hi.lvl
    hi.inprinters hn (fun h => (hv h).2.2)
  rw [← nd.inid] at i1 i2
  rw [← nd.inprinter] at q1 q2
  rw [← nd.inprinters] at p1 p2
  have hlen : (a.out ++ tok.render).length = a.out.length + tok.render.length :=
    List.length_append _ _
  obtain ⟨r, hr, ed⟩ := drvEndA_ended ctx (a.lvl + tok.kind.endType) tok.text
    (staleBehind a.body a.tail tok.text) (a.out ++ tok.render) m1 _ _ _ p1 q1 i1
    (fun h1 h2 => n2 (h2.1.symm.trans h1.1)) (fun h1 h2 => n10 (h2.1.symm.trans h1.1))
    (fun h1 h2 => n1 (h1.1.symm.trans h2.1))
    (fun h => by
      obtain ⟨p, e, l1, l2⟩ := hp h.1 h.2
      refine ⟨p, ?_, l1, by omega⟩
      rw [nd.lastprinters, if_neg (fun c => c.2 h.2)]
      exact e)
    (fun h => by
      obtain ⟨q, e, l⟩ := hq h.1 h.2
      refine ⟨q, ?_, by omega⟩
      rw [nd.lastprinter, if_neg (fun c => c.2 h.2)]
      exact e)
  have hne : a.out.length ≠ 0 := fun h => hi.out (List.length_eq_zero.mp h)
  refine ⟨DrvAbs.mk (a.lvl + tok.kind.endType) r.1 r.2 tok.text
      (staleBehind a.body a.tail tok.text), ?_, ⟨?_, ?_, ?_, ?_, ?_⟩,
    ⟨?_, ?_, ?_, ?_, ?_, ?_, rfl, rfl⟩, rfl⟩
  · rw [drvAbsTok_eq, hm1]
    simp only [Step.bind_next]
    rw [hr]
    rfl
  · exact level_step st a.lvl tok hi.lvl hn
  · show r.1.inid ≤ _
    rw [ed.inid]
    by_cases c : tok.nm = lit "id" ∧ tok.kind = .closing
    · rw [if_pos (i1.mpr c)] at i2
      rw [if_pos c]
      exact i2
    · rw [if_neg (fun h => c (i1.mp h))] at i2
      rw [if_neg c]
      exact i2
  · show r.1.inprinter ≤ _
    rw [ed.inprinter]
    by_cases c : tok.nm = lit "printer" ∧ tok.kind = .closing
    · rw [if_pos (q1.mpr c)] at q2
      rw [if_pos c]
      exact q2
    · rw [if_neg (fun h => c (q1.mp h))] at q2
      rw [if_neg c]
      exact q2
  · show r.1.inprinters ≤ _
    rw [ed.inprinters]
    by_cases c : tok.nm = lit "printers" ∧ tok.kind = .closing
    · rw [if_pos (p1.mpr c)] at p2
      rw [if_pos c]
      exact p2
    · rw [if_neg (fun h => c (p1.mp h))] at p2
      rw [if_neg c]
      exact p2
  · show r.2 ≠ []
    rw [ed.out]
    by_cases c : tok.nm = lit "printers" ∧ tok.kind = .closing
    · rw [if_pos c]
      obtain ⟨p, e, l1, l2⟩ := hp c.1 c.2
      rw [nd.lastprinters, if_neg (fun h => h.2 c.2), e]
      intro h
      have h2 := congrArg List.length h
      simp only [List.length_append, List.length_take, Option.getD_some, List.length_nil] at h2
      omega
    · rw [if_neg c]
      intro h
      exact hi.out (List.append_eq_nil.mp h).1
  · show r.2 = _
    rw [ed.out, nd.lastprinters, nd.printerentry]
    by_cases c : tok.nm = lit "printers" ∧ tok.kind = .closing
    · rw [if_pos c, if_pos c, if_neg (fun h => h.2 c.2), if_neg (fun h => h.2 c.2)]
    · rw [if_neg c, if_neg c]
  · show r.1.printerentry = _
    rw [ed.printerentry, nd.printerentry, nd.printertobesaved, nd.lastprinter]
    by_cases c : tok.nm = lit "printers" ∧ tok.kind ≠ .closing
    · have nq : ¬ ((tok.nm = lit "printer" ∧ tok.kind = .closing) ∧
          a.m.printertobesaved = true) := fun h => n2 (h.1.1.symm.trans c.1)
      rw [if_neg nq, if_pos c, if_pos c]
    · rw [if_neg c, if_neg c]
      by_cases d : tok.nm = lit "printer" ∧ tok.kind = .closing
      · have e : ¬ (tok.nm = lit "printer" ∧ tok.kind ≠ .closing) := fun h => h.2 d.2
        rw [if_neg e]
        by_cases t : a.m.printertobesaved = true
        · rw [if_pos ⟨d, t⟩, if_pos ⟨d.1, d.2, t⟩]
        · have e1 : ¬ ((tok.nm = lit "printer" ∧ tok.kind = .closing) ∧
              a.m.printertobesaved = true) := fun h => t h.2
          have e2 : ¬ (tok.nm = lit "printer" ∧ tok.kind = .closing ∧
              a.m.printertobesaved = true) := fun h => t h.2.2
          rw [if_neg e1, if_neg e2]
      · have e1 : ¬ ((tok.nm = lit "printer" ∧ tok.kind = .closing) ∧
            a.m.printertobesaved = true) := fun h => d h.1
        have e2 : ¬ (tok.nm = lit "printer" ∧ tok.kind = .closing ∧
            a.m.printertobesaved = true) := fun h => d ⟨h.1, h.2.1⟩
        rw [if_neg e1, if_neg e2]
  · show r.1.lastprinters = _
    rw [ed.lastprinters, nd.lastprinters]
    have e : a.out.length - 1 + 1 = a.out.length := by omega
    rw [e]
  · show r.1.lastprinter = _
    rw [ed.lastprinter, nd.lastprinter]
  · show r.1.printertobesaved = _
    rw [ed.printertobesaved, nd.printertobesaved]
    by_cases d : tok.nm = lit "printer" ∧ tok.kind = .closing
    · rw [if_pos d, if_pos d]
    · rw [if_neg d, if_neg d]
      unfold idMatchesAt
      congr 1
      simp only [and_assoc]
  · show r.1.printerentryfound = _
    rw [ed.printerentryfound, nd.printerentryfound]
    unfold idMatchesAt
    congr 1
    simp only [and_assoc]

theorem nested_cons (st : List CStr) (t : Tok) (l : List Tok) (h : nested st (t :: l) = true) :
    (t.kind = .closing → st.head? = some t.nm) ∧ nested (t.push st) l = true := by
  simp only [nested, Bool.and_eq_true] at h
  refine ⟨fun hk => ?_, h.2⟩
  have h1 := h.1
  rw [hk] at h1
  simpa using h1

theorem nested_append (st : List CStr) (l1 l2 : List Tok) :
    nested st (l1 ++ l2) = (nested st l1 && nested (pushAll st l1) l2) := by
  induction l1 generalizing st with
  | nil => simp [nested, pushAll]
  | cons t l ih =>
    show ((match t.kind with
      | .closing => decide (st.head? = some t.nm)
      | _ => true) && nested (t.push st) (l ++ l2)) =
      (((match t.kind with
      | .closing => decide (st.head? = some t.nm)
      | _ => true) && nested (t.push st) l) && nested (pushAll (t.push st) l) l2)
    rw [ih, Bool.and_assoc]

theorem pushAll_append (st : List CStr) (l1 l2 : List Tok) :
    pushAll st (l1 ++ l2) = pushAll (pushAll st l1) l2 := by
  simp [pushAll, List.foldl_append]

theorem renderToks_append (l1 l2 : List Tok) :
    renderToks (l1 ++ l2) = renderToks l1 ++ renderToks l2 := by
  induction l1 with
  | nil => rfl
  | cons t l ih => simp [renderToks, ih]

theorem drvAbsRun_append (ctx : Ctx) (l1 l2 : List Tok) (a : DrvAbs) :
    drvAbsRun ctx (l1 ++ l2) a = (drvAbsRun ctx l1 a).bind (drvAbsRun ctx l2) := by
  induction l1 generalizing a with
  | nil => rfl
  | cons t l ih =>
    simp only [List.cons_append, drvAbsRun]
    cases drvAbsTok ctx a t with
    | next a1 => simp only [Step.bind_next]; exact ih a1
    | discard r => rfl
    | fatal => rfl
    | undefined => rfl

theorem strFrom_long (s tail : CStr) (k : Nat) (h : k ≤ s.length) :
    strFrom s tail k = s.drop k := by
  unfold strFrom
  rw [if_pos h]

theorem idMatchesAt_of_ne (ctx : Ctx) (b t : CStr) (x : Tok) (h : x.nm ≠ lit "id") :
    idMatchesAt ctx b t x = false := by
  unfold idMatchesAt
  simp [h]

theorem idMatchesAt_long (ctx : Ctx) (b t : CStr) (x : Tok)
    (h : x.nm = lit "id" → x.kind = .closing → 8 ≤ x.text.length) :
    idMatchesAt ctx b t x = idMatches ctx x := by
  unfold idMatchesAt idMatches
  by_cases h1 : x.nm = lit "id"
  · by_cases h2 : x.kind = .closing
    · rw [strFrom_long _ _ 8 (h h1 h2)]
    · simp [h2]
  · simp [h1]

theorem bodyAfter_append (l1 l2 : List Tok) (b t : CStr) :
    bodyAfter (l1 ++ l2) b t = bodyAfter l2 (bodyAfter l1 b t).1 (bodyAfter l1 b t).2 := by
  induction l1 generalizing b t with
  | nil => rfl
  | cons x l ih => exact ih _ _

theorem namedAt_append (ctx : Ctx) (l1 l2 : List Tok) (b t : CStr) :
    namedAt ctx (l1 ++ l2) b t =
      (namedAt ctx l1 b t || namedAt ctx l2 (bodyAfter l1 b t).1 (bodyAfter l1 b t).2) := by
  induction l1 generalizing b t with
  | nil => simp [namedAt, bodyAfter]
  | cons x l ih =>
    show (idMatchesAt ctx b t x || namedAt ctx (l ++ l2) x.text (staleBehind b t x.text)) =
      ((idMatchesAt ctx b t x || namedAt ctx l x.text (staleBehind b t x.text)) ||
        namedAt ctx l2 (bodyAfter l x.text (staleBehind b t x.text)).1
          (bodyAfter l x.text (staleBehind b t x.text)).2)
    rw [ih, Bool.or_assoc]

theorem namedAt_of_ne (ctx : Ctx) (l : List Tok) (b t : CStr)
    (h : ∀ x ∈ l, x.nm ≠ lit "id") : namedAt ctx l b t = false := by
  induction l generalizing b t with
  | nil => rfl
  | cons x l ih =>
    simp only [namedAt]
    rw [idMatchesAt_of_ne ctx b t x (h x (by simp)), ih _ _ (fun y hy => h y (by simp [hy]))]
    rfl

theorem namedAt_long (ctx : Ctx) (l : List Tok) (b t : CStr)
    (h : ∀ x ∈ l, x.nm = lit "id" → x.kind = .closing → 8 ≤ x.text.length) :
    namedAt ctx l b t = l.any (idMatches ctx) := by
  induction l generalizing b t with
  | nil => rfl
  | cons x l ih =>
    simp only [namedAt, List.any_cons]
    rw [idMatchesAt_long ctx b t x (h x (by simp)), ih _ _ (fun y hy => h y (by simp [hy]))]

/-- A well-nested list of tags outside the tags of the printer list. -/
theorem drv_plain_run (ctx : Ctx) (toks : List Tok) (st : List CStr) (a : DrvAbs)
    (hi : DrvInv st a) (hn : nested st toks = true) (hpl : ∀ t ∈ toks, t.Plain) :
    ∃ a1, drvAbsRun ctx toks a = .next a1 ∧ DrvInv (pushAll st toks) a1 ∧
      DrvRan ctx toks a a1 := by
  induction toks generalizing st a with
  | nil =>
    exact ⟨a, rfl, hi, ⟨by simp [renderToks], rfl, rfl, rfl, by simp [namedAt],
      by simp [namedAt], rfl, rfl⟩⟩
  | cons t l ih =>
    obtain ⟨hn1, hn2⟩ := nested_cons st t l hn
    have pt := hpl t (by simp)
    have hv : t.NoVoidBlock := fun hk => ⟨pt.2.2 hk, pt.2.1, pt.1⟩
    obtain ⟨a1, e1, i1, s1, _⟩ := drvInv_tok ctx st a t hi hn1 hv
      (fun h => absurd h pt.1) (fun h => absurd h pt.2.1)
    obtain ⟨a2, e2, i2, r2⟩ := ih (t.push st) a1 i1 hn2 (fun t1 h1 => hpl t1 (by simp [h1]))
    refine ⟨a2, ?_, i2, ⟨?_, ?_, ?_, ?_, ?_, ?_, ?_, ?_⟩⟩
    · simp only [drvAbsRun]
      rw [e1]
      exact e2
    · rw [r2.out, s1.out, if_neg (fun h => pt.1 h.1)]
      simp [renderToks]
    · rw [r2.printerentry, s1.printerentry, if_neg (fun h => pt.1 h.1),
        if_neg (fun h => pt.2.1 h.1)]
    · rw [r2.lastprinters, s1.lastprinters, if_neg (fun h => pt.1 h.1)]
    · rw [r2.lastprinter, s1.lastprinter, if_neg (fun h => pt.2.1 h.1)]
    · rw [r2.printertobesaved, s1.printertobesaved, if_neg (fun h => pt.2.1 h.1), s1.body,
        s1.tail]
      simp [namedAt, Bool.or_assoc]
    · rw [r2.printerentryfound, s1.printerentryfound, s1.body, s1.tail]
      simp [namedAt, Bool.or_assoc]
    · rw [r2.body, s1.body, s1.tail]
      rfl
    · rw [r2.tail, s1.body, s1.tail]
      rfl

theorem idMatches_of_ne (ctx : Ctx) (t : Tok) (h : t.nm ≠ lit "id") : idMatches ctx t = false := by
  unfold idMatches
  simp [h]

theorem listedAt_inner (ctx : Ctx) (e : PrinterEntry) (b t : CStr)
    (ho : e.opening.nm = lit "printer") (hc : e.closing.nm = lit "printer") :
    e.listedAt ctx b t =
      namedAt ctx e.inner e.opening.text (staleBehind b t e.opening.text) := by
  have n1 : lit "printer" ≠ lit "id" := by decide
  unfold PrinterEntry.listedAt PrinterEntry.toks
  show (idMatchesAt ctx b t e.opening || namedAt ctx (e.inner ++ [e.closing]) _ _) = _
  rw [idMatchesAt_of_ne ctx b t _ (fun h => n1 (ho.symm.trans h)), namedAt_append]
  show (false || (_ || (idMatchesAt ctx _ _ e.closing || false))) = _
  rw [idMatchesAt_of_ne ctx _ _ _ (fun h => n1 (hc.symm.trans h))]
  simp

theorem bodyAfter_entry (e : PrinterEntry) (b t : CStr) :
    bodyAfter e.toks b t =
      (e.closing.text,
        staleBehind (bodyAfter e.inner e.opening.text (staleBehind b t e.opening.text)).1
          (bodyAfter e.inner e.opening.text (staleBehind b t e.opening.text)).2
          e.closing.text) := by
  unfold PrinterEntry.toks
  show bodyAfter (e.inner ++ [e.closing]) _ _ = _
  rw [bodyAfter_append]
  rfl

/-- One entry of the printer list. -/
theorem drv_entry (ctx : Ctx) (e : PrinterEntry) (st : List CStr) (a : DrvAbs)
    (hi : DrvInv st a) (he : e.Wf st) (hs : a.m.printertobesaved = false) :
    ∃ a1, drvAbsRun ctx e.toks a = .next a1 ∧ DrvInv st a1 ∧ DrvListed ctx [e] a a1 := by
  obtain ⟨⟨okd, onm⟩, ⟨ck, cn⟩, hpl, hn, hb⟩ := he
  have n1 : lit "printer" ≠ lit "id" := by decide
  have n2 : lit "printer" ≠ lit "printers" := by decide
  have kne : TagKind.opening ≠ TagKind.closing := by decide
  obtain ⟨a1, e1, i1, s1, _⟩ := drvInv_tok ctx st a e.opening hi
    (fun h => absurd (okd.symm.trans h) kne)
    (fun h => absurd (okd.symm.trans h) (by decide))
    (fun h => absurd (onm.symm.trans h) n2)
    (fun _ h => absurd (okd.symm.trans h) kne)
  have hp1 : e.opening.push st = lit "printer" :: st := by simp [Tok.push, okd, onm]
  rw [hp1] at i1
  obtain ⟨a2, e2, i2, r2⟩ := drv_plain_run ctx e.inner (lit "printer" :: st) a1 i1 hn hpl
  rw [hb] at i2
  have o1 : a1.out = a.out ++ e.opening.render := by
    rw [s1.out, if_neg (fun h => n2 (onm.symm.trans h.1))]
  have l1 : a1.m.lastprinter = some (a.out ++ e.opening.text).length := by
    rw [s1.lastprinter, if_pos ⟨onm, fun h => kne (okd.symm.trans h)⟩]
  have o2 : a2.out = a.out ++ e.opening.text ++ (e.opening.tag ++ renderToks e.inner) := by
    rw [r2.out, o1]
    simp [Tok.render]
  obtain ⟨a3, e3, i3, s3, _⟩ := drvInv_tok ctx (lit "printer" :: st) a2 e.closing i2
    (fun _ => by simp [cn])
    (fun h => absurd (ck.symm.trans h) (by decide))
    (fun h => absurd (cn.symm.trans h) n2)
    (fun _ _ => ⟨_, r2.lastprinter.trans l1, by
      rw [o2]
      simp only [List.length_append]
      omega⟩)
  have hp3 : e.closing.push (lit "printer" :: st) = st := by simp [Tok.push, ck]
  rw [hp3] at i3
  have t1 : a1.m.printertobesaved = false := by
    rw [s1.printertobesaved, if_neg (fun h => kne (okd.symm.trans h.2)), hs,
      idMatchesAt_of_ne ctx _ _ _ (fun h => n1 (onm.symm.trans h))]
    rfl
  have t2 : a2.m.printertobesaved = e.listedAt ctx a.body a.tail := by
    rw [r2.printertobesaved, t1, s1.body, s1.tail, listedAt_inner ctx e _ _ onm cn]
    simp
  have p1 : a1.m.printerentry = a.m.printerentry := by
    rw [s1.printerentry, if_neg (fun h => n2 (onm.symm.trans h.1)),
      if_neg (fun h => kne (okd.symm.trans h.2.1))]
  have f1 : a1.m.printerentryfound = a.m.printerentryfound := by
    rw [s1.printerentryfound, idMatchesAt_of_ne ctx _ _ _ (fun h => n1 (onm.symm.trans h))]
    simp
  have hto : entriesToks [e] = e.toks := by simp [entriesToks]
  have hba := bodyAfter_entry e a.body a.tail
  refine ⟨a3, ?_, i3, ⟨?_, ?_, ?_, ?_, ?_, ?_, ?_⟩⟩
  · unfold PrinterEntry.toks
    simp only [drvAbsRun]
    rw [e1]
    simp only [Step.bind_next]
    rw [drvAbsRun_append, e2]
    simp only [Step.bind_next, drvAbsRun]
    rw [e3]
    rfl
  · rw [s3.out, if_neg (fun h => n2 (cn.symm.trans h.1)), o2]
    simp [entriesToks, PrinterEntry.toks, renderToks, renderToks_append, Tok.render]
  · rw [s3.printerentry, if_neg (fun h => n2 (cn.symm.trans h.1)), t2, r2.printerentry, p1,
      r2.lastprinter, l1]
    by_cases hl : e.listedAt ctx a.body a.tail = true
    · rw [if_pos ⟨cn, ck, hl⟩]
      simp only [savedEntriesAt, if_pos hl, List.append_nil, Option.getD_some]
      have hd : (a2.out ++ e.closing.render).drop (a.out ++ e.opening.text).length =
          e.element := by
        rw [o2, List.append_assoc, List.drop_left]
        simp [PrinterEntry.element]
      rw [hd]
      simp
    · rw [if_neg (fun h => hl h.2.2)]
      simp [savedEntriesAt, hl]
  · rw [s3.lastprinters, if_neg (fun h => n2 (cn.symm.trans h.1)), r2.lastprinters,
      s1.lastprinters, if_neg (fun h => n2 (onm.symm.trans h.1))]
  · rw [s3.printertobesaved, if_pos ⟨cn, ck⟩]
  · rw [s3.printerentryfound, idMatchesAt_of_ne ctx _ _ _ (fun h => n1 (cn.symm.trans h)),
      r2.printerentryfound, f1, s1.body, s1.tail, hto]
    show _ = (_ || e.listedAt ctx a.body a.tail)
    rw [listedAt_inner ctx e _ _ onm cn]
    simp
  · rw [s3.body, hto, hba]
  · rw [s3.tail, r2.body, r2.tail, s1.body, s1.tail, hto, hba]

/-- The entries of the printer list. -/
theorem drv_entries (ctx : Ctx) (es : List PrinterEntry) (st : List CStr) (a : DrvAbs)
    (hi : DrvInv st a) (he : ∀ e ∈ es, e.Wf st) (hs : a.m.printertobesaved = false) :
    ∃ a1, drvAbsRun ctx (entriesToks es) a = .next a1 ∧ DrvInv st a1 ∧
      DrvListed ctx es a a1 := by
  induction es generalizing a with
  | nil =>
    exact ⟨a, rfl, hi, ⟨by simp [entriesToks, renderToks], by simp [savedEntriesAt], rfl, hs,
      by simp [entriesToks, namedAt], rfl, rfl⟩⟩
  | cons e l ih =>
    obtain ⟨a1, e1, i1, d1⟩ := drv_entry ctx e st a hi (he e (by simp)) hs
    obtain ⟨a2, e2, i2, d2⟩ := ih a1 i1 (fun x h => he x (by simp [h])) d1.printertobesaved
    have hto : entriesToks [e] = e.toks := by simp [entriesToks]
    have hb1 : a1.body = (bodyAfter e.toks a.body a.tail).1 := by rw [d1.body, hto]
    have ht1 : a1.tail = (bodyAfter e.toks a.body a.tail).2 := by rw [d1.tail, hto]
    refine ⟨a2, ?_, i2, ⟨?_, ?_, ?_, d2.printertobesaved, ?_, ?_, ?_⟩⟩
    · simp only [entriesToks]
      rw [drvAbsRun_append, e1]
      exact e2
    · rw [d2.out, d1.out]
      simp [entriesToks, renderToks_append]
    · rw [d2.printerentry, d1.printerentry, hb1, ht1]
      simp [savedEntriesAt]
    · rw [d2.lastprinters, d1.lastprinters]
    · rw [d2.printerentryfound, d1.printerentryfound, hb1, ht1, hto]
      show _ = (_ || namedAt ctx (e.toks ++ entriesToks l) a.body a.tail)
      rw [namedAt_append, Bool.or_assoc]
    · rw [d2.body, hb1, ht1]
      show _ = (bodyAfter (e.toks ++ entriesToks l) a.body a.tail).1
      rw [bodyAfter_append]
    · rw [d2.tail, hb1, ht1]
      show _ = (bodyAfter (e.toks ++ entriesToks l) a.body a.tail).2
      rw [bodyAfter_append]

/-- The printer list: its place in the buffer is taken by the saved entries. -/
theorem drv_block (ctx : Ctx) (po pc : Tok) (es : List PrinterEntry) (st : List CStr)
    (a : DrvAbs) (hi : DrvInv st a)
    (hpo : po.kind = .opening ∧ po.nm = lit "printers")
    (he : ∀ e ∈ es, e.Wf (lit "printers" :: st))
    (hpc : pc.kind = .closing ∧ pc.nm = lit "printers")
    (hs : a.m.printertobesaved = false) :
    ∃ a1, drvAbsRun ctx (po :: (entriesToks es ++ [pc])) a = .next a1 ∧ DrvInv st a1 ∧
      a1.out = a.out ++ savedEntriesAt ctx es po.text (staleBehind a.body a.tail po.text) ∧
      a1.m.printertobesaved = false ∧
      a1.m.printerentryfound = (a.m.printerentryfound ||
        namedAt ctx (entriesToks es) po.text (staleBehind a.body a.tail po.text)) ∧
      a1.body = (bodyAfter (po :: (entriesToks es ++ [pc])) a.body a.tail).1 ∧
      a1.tail = (bodyAfter (po :: (entriesToks es ++ [pc])) a.body a.tail).2 := by
  obtain ⟨okd, onm⟩ := hpo
  obtain ⟨ck, cn⟩ := hpc
  have n1 : lit "printers" ≠ lit "id" := by decide
  have n2 : lit "printers" ≠ lit "printer" := by decide
  have kne : TagKind.opening ≠ TagKind.closing := by decide
  obtain ⟨a1, e1, i1, s1, _⟩ := drvInv_tok ctx st a po hi
    (fun h => absurd (okd.symm.trans h) kne)
    (fun h => absurd (okd.symm.trans h) (by decide))
    (fun _ h => absurd (okd.symm.trans h) kne)
    (fun h => absurd (onm.symm.trans h) n2)
  have hp1 : po.push st = lit "printers" :: st := by simp [Tok.push, okd, onm]
  rw [hp1] at i1
  have hopen : po.nm = lit "printers" ∧ po.kind ≠ .closing :=
    ⟨onm, fun h => kne (okd.symm.trans h)⟩
  have t1 : a1.m.printertobesaved = false := by
    rw [s1.printertobesaved, if_neg (fun h => n2 (onm.symm.trans h.1)), hs,
      idMatchesAt_of_ne ctx _ _ _ (fun h => n1 (onm.symm.trans h))]
    rfl
  obtain ⟨a2, e2, i2, d2⟩ := drv_entries ctx es (lit "printers" :: st) a1 i1 he t1
  have o1 : a1.out = a.out ++ po.render := by
    rw [s1.out, if_neg (fun h => kne (okd.symm.trans h.2))]
  have l2 : a2.m.lastprinters = some a.out.length := by
    rw [d2.lastprinters, s1.lastprinters, if_pos hopen]
  have hne : a.out.length ≠ 0 := fun h => hi.out (List.length_eq_zero.mp h)
  obtain ⟨a3, e3, i3, s3, _⟩ := drvInv_tok ctx (lit "printers" :: st) a2 pc i2
    (fun _ => by simp [cn])
    (fun h => absurd (ck.symm.trans h) (by decide))
    (fun _ _ => ⟨_, l2, by omega, by
      rw [d2.out, o1]
      simp only [List.length_append]
      omega⟩)
    (fun h => absurd (cn.symm.trans h) n2)
  have hp3 : pc.push (lit "printers" :: st) = st := by simp [Tok.push, ck]
  rw [hp3] at i3
  have hba : bodyAfter (po :: (entriesToks es ++ [pc])) a.body a.tail =
      (pc.text, staleBehind a2.body a2.tail pc.text) := by
    show bodyAfter (entriesToks es ++ [pc]) po.text (staleBehind a.body a.tail po.text) = _
    rw [bodyAfter_append, d2.body, d2.tail, s1.body, s1.tail]
    rfl
  refine ⟨a3, ?_, i3, ?_, ?_, ?_, ?_, ?_⟩
  · simp only [drvAbsRun]
    rw [e1]
    simp only [Step.bind_next]
    rw [drvAbsRun_append, e2]
    simp only [Step.bind_next, drvAbsRun]
    rw [e3]
    rfl
  · rw [s3.out, if_pos ⟨cn, ck⟩, l2, d2.printerentry, s1.printerentry, if_pos hopen, d2.out, o1,
      s1.body, s1.tail]
    simp only [Option.getD_some, List.append_assoc, List.nil_append]
    rw [List.take_left]
  · rw [s3.printertobesaved, if_neg (fun h => n2 (cn.symm.trans h.1)), d2.printertobesaved,
      idMatchesAt_of_ne ctx _ _ _ (fun h => n1 (cn.symm.trans h))]
    rfl
  · rw [s3.printerentryfound, idMatchesAt_of_ne ctx _ _ _ (fun h => n1 (cn.symm.trans h)),
      d2.printerentryfound, s1.printerentryfound,
      idMatchesAt_of_ne ctx _ _ _ (fun h => n1 (onm.symm.trans h)), s1.body, s1.tail]
    simp
  · rw [s3.body, hba]
  · rw [s3.tail, hba]

theorem any_idMatches_neutral (ctx : Ctx) (toks : List Tok) (h : ∀ t ∈ toks, t.Neutral) :
    toks.any (idMatches ctx) = false := by
  rw [List.any_eq_false]
  intro t ht
  rw [idMatches_of_ne ctx t (h t ht).2.2]
  simp

theorem namedAt_neutral (ctx : Ctx) (toks : List Tok) (b t : CStr)
    (h : ∀ x ∈ toks, x.Neutral) : namedAt ctx toks b t = false :=
  namedAt_of_ne ctx toks b t (fun x hx => (h x hx).2.2)

theorem plain_of_neutral (t : Tok) (h : t.Neutral) : t.Plain := ⟨h.1, h.2.1, fun _ => h.2.2⟩

/-- The sentinels behind the opening tag of the root element `driver`. -/
theorem drvInv_root (root : Tok) (s0 : DrvState) (hk : root.kind = .opening)
    (hc : DrvClear s0.m) : DrvInv [lit "driver"] (drvAbsRoot root s0) := by
  have sb := sameBlocks_overDrvFlags { nestinglevel := 1 + root.kind.endType }
    { s0.m with indriver := s0.core.nestinglevel + 1 }
  refine ⟨?_, ?_, ?_, ?_, ?_⟩
  · show 1 + root.kind.endType = _
    rw [hk]
    rfl
  · show (overDrvFlags _ _).inid ≤ _
    rw [sb.inid]
    show s0.m.inid ≤ _
    rw [hc.inid]
    decide
  · show (overDrvFlags _ _).inprinter ≤ _
    rw [sb.inprinter]
    show s0.m.inprinter ≤ _
    rw [hc.inprinter]
    decide
  · show (overDrvFlags _ _).inprinters ≤ _
    rw [sb.inprinters]
    show s0.m.inprinters ≤ _
    rw [hc.inprinters]
    decide
  · show root.tag ≠ []
    unfold Tok.tag
    cases root.kind <;> simp [TagKind.start]

theorem bodyAt_nil (d : DriverDoc) (b t : CStr) :
    d.bodyAt b t =
      (d.popen.text, staleBehind (bodyAfter d.before b t).1 (bodyAfter d.before b t).2
        d.popen.text) := by
  unfold DriverDoc.bodyAt
  rw [bodyAfter_append]
  rfl

/-- The effect of the tags of a well-formed driver document: the printer list
is replaced by the saved entries, and the printer counts as found when `parse`
reads it at the end of an `id` element of an entry. -/
theorem drv_doc_run (ctx : Ctx) (d : DriverDoc) (s0 : DrvState) (hs : DrvStart s0)
    (hd : d.Wf) :
    ∃ a, drvAbsRun ctx d.body (drvAbsRoot d.root s0) = .next a ∧
      a.out = d.rewrittenAt ctx s0.core.currtagbody s0.core.bodytail ∧
      a.m.printerentryfound = namedAt ctx (entriesToks d.entries)
        (d.bodyAt s0.core.currtagbody s0.core.bodytail).1
        (d.bodyAt s0.core.currtagbody s0.core.bodytail).2 := by
  obtain ⟨⟨rk, _, _⟩, _, ⟨bn, bnest⟩, hpo, he, hpc, ⟨an, anest⟩⟩ := hd
  have sb := sameBlocks_overDrvFlags { nestinglevel := 1 + d.root.kind.endType }
    { s0.m with indriver := s0.core.nestinglevel + 1 }
  have i0 := drvInv_root d.root s0 rk hs.clear
  have t0 : (drvAbsRoot d.root s0).m.printertobesaved = false := by
    show (overDrvFlags _ _).printertobesaved = _
    rw [sb.printertobesaved]
    exact hs.printertobesaved
  have f0 : (drvAbsRoot d.root s0).m.printerentryfound = false := by
    show (overDrvFlags _ _).printerentryfound = _
    rw [sb.printerentryfound]
    exact hs.printerentryfound
  obtain ⟨a1, e1, i1, r1⟩ := drv_plain_run ctx d.before [lit "driver"] _ i0 bnest
    (fun t h => plain_of_neutral t (bn t h))
  have t1 : a1.m.printertobesaved = false := by
    rw [r1.printertobesaved, t0, namedAt_neutral ctx _ _ _ bn]
    rfl
  have f1 : a1.m.printerentryfound = false := by
    rw [r1.printerentryfound, f0, namedAt_neutral ctx _ _ _ bn]
    rfl
  have b1 : a1.body = (bodyAfter d.before s0.core.currtagbody s0.core.bodytail).1 := r1.body
  have c1 : a1.tail = (bodyAfter d.before s0.core.currtagbody s0.core.bodytail).2 := r1.tail
  obtain ⟨a2, e2, i2, o2, t2, f2, _, _⟩ := drv_block ctx d.popen d.pclose d.entries d.stack a1
    i1 hpo he hpc t1
  obtain ⟨a3, e3, i3, r3⟩ := drv_plain_run ctx d.after d.stack a2 i2 anest
    (fun t h => plain_of_neutral t (an t h))
  have hb0 := bodyAt_nil d s0.core.currtagbody s0.core.bodytail
  refine ⟨a3, ?_, ?_, ?_⟩
  · unfold DriverDoc.body DriverDoc.block
    rw [drvAbsRun_append, e1]
    simp only [Step.bind_next]
    rw [drvAbsRun_append, e2]
    exact e3
  · rw [r3.out, o2, r1.out, b1, c1]
    unfold DriverDoc.rewrittenAt
    rw [hb0]
    show d.root.tag ++ _ ++ _ ++ _ = _
    simp only [List.append_assoc]
  · rw [r3.printerentryfound, f2, f1, namedAt_neutral ctx _ _ _ an, b1, c1, hb0]
    simp

/-- The scan of a well-formed driver document returns: the buffer holds the
document with the printer list replaced by the saved entries, in front of the
text behind the last tag. -/
theorem driver_doc_scan (ctx : Ctx) (init s0 : DrvState) (hdr : CStr) (d : DriverDoc)
    (trailer : CStr)
    (hpre : scanPrefix (driverHooks ctx) init hdr
      (d.root.render ++ (renderToks d.body ++ trailer)) = .next s0)
    (hs : DrvStart s0) (hd : d.Wf) (htr : ∀ c ∈ trailer, c ≠ '<') :
    ∃ s a, scanLoop (driverHooks ctx) init
        (hdr ++ (d.root.render ++ (renderToks d.body ++ trailer))) = .next s ∧
      drvAbsRun ctx d.body (drvAbsRoot d.root s0) = .next a ∧ s.m = a.m ∧
      s.core.out = d.rewrittenAt ctx s0.core.currtagbody s0.core.bodytail ++ trailer ∧
      s.m.printerentryfound = namedAt ctx (entriesToks d.entries)
        (d.bodyAt s0.core.currtagbody s0.core.bodytail).1
        (d.bodyAt s0.core.currtagbody s0.core.bodytail).2 ∧
      s.core.comboconfirmed = 0 := by
  obtain ⟨a, ha, ho, hf⟩ := drv_doc_run ctx d s0 hs hd
  obtain ⟨s, e, o, m, c⟩ := driver_doc ctx init s0 hdr d.root d.body trailer a hpre hs.text
    hs.clear hd.1.1 hd.1.2.1 hd.1.2.2 (fun t h => (hd.2.1 t h).1) (fun t h => (hd.2.1 t h).2)
    htr ha
  exact ⟨s, a, e, ha, m, by rw [o, ho], by rw [m, hf], c.trans hs.combo⟩

theorem printersEndA_exec (lvl : Int) (out : CStr) (m : DrvSt) (r : DrvSt × CStr)
    (h : printersEndA lvl out m = .next r) :
    r.1.inexecution = m.inexecution ∧ r.1.nopjl = m.nopjl := by
  unfold printersEndA at h
  split at h
  · split at h
    · split at h
      · cases h; exact ⟨rfl, rfl⟩
      · cases h
    · cases h; exact ⟨rfl, rfl⟩
  · cases h; exact ⟨rfl, rfl⟩

theorem printerEndA_exec (lvl : Int) (out : CStr) (m m1 : DrvSt)
    (h : printerEndA lvl out m = .next m1) :
    m1.inexecution = m.inexecution ∧ m1.nopjl = m.nopjl := by
  unfold printerEndA at h
  split at h
  · split at h
    · split at h
      · split at h
        · cases h; exact ⟨rfl, rfl⟩
        · cases h
      · cases h; exact ⟨rfl, rfl⟩
    · cases h; exact ⟨rfl, rfl⟩
  · cases h; exact ⟨rfl, rfl⟩

theorem overDrvId_exec (ctx : Ctx) (c : Core) (m : DrvSt) :
    (overDrvId ctx c m).inexecution = m.inexecution ∧ (overDrvId ctx c m).nopjl = m.nopjl := by
  unfold overDrvId
  split
  · split <;> exact ⟨rfl, rfl⟩
  · exact ⟨rfl, rfl⟩

/-- The end action of Driver mode, whatever it does to the printer list, ends
`execution` when the nesting level has fallen below its sentinel and leaves
`*nopjl` alone. -/
theorem drvEndA_exec (ctx : Ctx) (lvl : Int) (body tail out : CStr) (m : DrvSt)
    (r : DrvSt × CStr) (h : drvEndA ctx lvl body tail out m = .next r) :
    r.1.inexecution = (if lvl < m.inexecution then 0 else m.inexecution) ∧
      r.1.nopjl = m.nopjl := by
  have sb := sameBlocks_overDrvFlags { nestinglevel := lvl } m
  have fe := overDrvFlags_inexecution { nestinglevel := lvl } m
  unfold drvEndA at h
  obtain ⟨r1, h1, h⟩ := Step.bind_eq_next h
  obtain ⟨m2, h2, h⟩ := Step.bind_eq_next h
  cases h
  obtain ⟨a1, a2⟩ := printersEndA_exec _ _ _ _ h1
  obtain ⟨b1, b2⟩ := printerEndA_exec _ _ _ _ h2
  obtain ⟨c1, c2⟩ := overDrvId_exec ctx
    { nestinglevel := lvl, currtagbody := body, bodytail := tail } m2
  exact ⟨by rw [c1, b1, a1, fe], by rw [c2, b2, a2, sb.nopjl]⟩

/-- One tag of a well-nested driver document: `*nopjl` is set by a tag `nopjl`
inside an `execution` element, by nothing else, and it is never cleared. -/
theorem execInv_tok (ctx : Ctx) (st : List CStr) (a a1 : DrvAbs) (tok : Tok)
    (hi : ExecInv st a) (h : drvAbsTok ctx a tok = .next a1)
    (hn : tok.kind = .closing → st.head? = some tok.nm)
    (hs : tok.nm = lit "execution" → tok.kind ≠ .closing → lit "execution" ∉ st) :
    ExecInv (tok.push st) a1 ∧
      a1.m.nopjl = (a.m.nopjl || decide (tok.nm = lit "nopjl" ∧ lit "execution" ∈ st)) := by
  rw [drvAbsTok_eq] at h
  obtain ⟨m1, hm1, h⟩ := Step.bind_eq_next h
  obtain ⟨r, hr, h⟩ := Step.bind_eq_next h
  cases h
  obtain ⟨m1b, hm1b, nd⟩ := drvNameM_probe tok a
  rw [hm1] at hm1b
  cases hm1b
  obtain ⟨x1, x2⟩ := drvEndA_exec ctx _ _ _ _ _ _ hr
  obtain ⟨c1, c2⟩ := container_step (lit "execution") st a.lvl tok hi.lvl hi.once hn hs
  have hz := sentinelAt_eq_zero (lit "execution") 1 st (by omega)
  refine ⟨⟨level_step st a.lvl tok hi.lvl hn, ?_, c2⟩, ?_⟩
  · show r.1.inexecution = _
    rw [x1, nd.inexecution, hi.inexecution]
    exact c1
  · show r.1.nopjl = _
    rw [x2, nd.nopjl, hi.inexecution]
    congr 2
    apply propext
    constructor
    · exact fun h => ⟨h.1, by_contra fun c => h.2 (hz.mpr c)⟩
    · exact fun h => ⟨h.1, fun c => (hz.mp c) h.2⟩

/-- The cell `*nopjl` behind the tags of a well-nested driver document. -/
theorem execInv_run (ctx : Ctx) (toks : List Tok) (st : List CStr) (a a1 : DrvAbs)
    (hi : ExecInv st a) (h : drvAbsRun ctx toks a = .next a1) (hn : nested st toks = true)
    (hs : noSelfNest (lit "execution") st toks = true) :
    a1.m.nopjl = (a.m.nopjl || nopjlInside st toks) := by
  induction toks generalizing st a with
  | nil =>
    cases h
    simp [nopjlInside]
  | cons t l ih =>
    simp only [drvAbsRun] at h
    obtain ⟨a2, h2, h⟩ := Step.bind_eq_next h
    obtain ⟨hn1, hn2⟩ := nested_cons st t l hn
    simp only [noSelfNest, Bool.and_eq_true] at hs
    have hs1 : t.nm = lit "execution" → t.kind ≠ .closing → lit "execution" ∉ st := by
      intro q1 q2
      have := hs.1
      rw [if_pos ⟨q1, q2⟩] at this
      simpa using this
    obtain ⟨i2, n2⟩ := execInv_tok ctx st a a2 t hi h2 hn1 hs1
    rw [ih (t.push st) a2 i2 h hn2 hs.2, n2, nopjlInside, Bool.or_assoc]

theorem nested_entry (st : List CStr) (e : PrinterEntry) (he : e.Ok st) :
    nested st e.toks = true ∧ pushAll st e.toks = st := by
  obtain ⟨⟨okd, onm⟩, ⟨ck, cn⟩, _, hn, hb, _⟩ := he
  have hp1 : e.opening.push st = lit "printer" :: st := by simp [Tok.push, okd, onm]
  have hp3 : e.closing.push (lit "printer" :: st) = st := by simp [Tok.push, ck]
  constructor
  · unfold PrinterEntry.toks
    simp only [nested, okd, Bool.true_and]
    rw [hp1, nested_append, hn, hb]
    simp [nested, ck, cn]
  · unfold PrinterEntry.toks
    show pushAll (e.opening.push st) (e.inner ++ [e.closing]) = st
    rw [hp1, pushAll_append, hb]
    exact hp3

theorem nested_entries (st : List CStr) (es : List PrinterEntry) (he : ∀ e ∈ es, e.Ok st) :
    nested st (entriesToks es) = true ∧ pushAll st (entriesToks es) = st := by
  induction es with
  | nil => exact ⟨rfl, rfl⟩
  | cons e l ih =>
    obtain ⟨h1, h2⟩ := nested_entry st e (he e (by simp))
    obtain ⟨h3, h4⟩ := ih (fun x h => he x (by simp [h]))
    simp only [entriesToks]
    rw [nested_append, pushAll_append, h1, h2, h3, h4]
    exact ⟨rfl, rfl⟩

/-- The tags of a well-formed driver document are well nested. -/
theorem nested_body (d : DriverDoc) (hd : d.Ok) : nested [lit "driver"] d.body = true := by
  obtain ⟨_, _, ⟨_, bnest⟩, ⟨pk, pn⟩, he, ⟨ck, cn⟩, ⟨_, anest⟩⟩ := hd
  obtain ⟨h1, h2⟩ := nested_entries _ d.entries he
  have hp1 : d.popen.push d.stack = lit "printers" :: d.stack := by simp [Tok.push, pk, pn]
  have hp3 : d.pclose.push (lit "printers" :: d.stack) = d.stack := by simp [Tok.push, ck]
  unfold DriverDoc.body DriverDoc.block
  rw [nested_append, bnest]
  show nested d.stack (d.popen :: (entriesToks d.entries ++ [d.pclose]) ++ d.after) = true
  simp only [List.cons_append, nested, pk, Bool.true_and]
  rw [hp1]
  show nested _ ((entriesToks d.entries ++ [d.pclose]) ++ d.after) = true
  rw [List.append_assoc, nested_append, h1, h2]
  simp only [List.singleton_append, nested, ck, cn, Bool.true_and]
  rw [hp3]
  simpa using anest

theorem wf_of_ok (d : DriverDoc) (h : d.Ok) : d.Wf :=
  ⟨h.1, h.2.1, h.2.2.1, h.2.2.2.1,
    fun e he => ⟨(h.2.2.2.2.1 e he).1, (h.2.2.2.2.1 e he).2.1, (h.2.2.2.2.1 e he).2.2.1,
      (h.2.2.2.2.1 e he).2.2.2.1, (h.2.2.2.2.1 e he).2.2.2.2.1⟩,
    h.2.2.2.2.2.1, h.2.2.2.2.2.2⟩

theorem namedAt_entries (ctx : Ctx) (es : List PrinterEntry) (b t : CStr) :
    namedAt ctx (entriesToks es) b t = true ↔ true ∈ entryFlags ctx es b t := by
  induction es generalizing b t with
  | nil => simp [entriesToks, namedAt, entryFlags]
  | cons e l ih =>
    show namedAt ctx (e.toks ++ entriesToks l) b t = true ↔
      true ∈ e.listedAt ctx b t ::
        entryFlags ctx l (bodyAfter e.toks b t).1 (bodyAfter e.toks b t).2
    rw [namedAt_append, Bool.or_eq_true, ih, List.mem_cons]
    constructor
    · rintro (h | h)
      · exact Or.inl h.symm
      · exact Or.inr h
    · rintro (h | h)
      · exact Or.inl h.symm
      · exact Or.inr h

theorem savedEntriesAt_none (ctx : Ctx) (es : List PrinterEntry) (b t : CStr)
    (h : entryFlags ctx es b t = es.map fun _ => false) : savedEntriesAt ctx es b t = [] := by
  induction es generalizing b t with
  | nil => rfl
  | cons e l ih =>
    simp only [entryFlags, List.map_cons, List.cons.injEq] at h
    simp only [savedEntriesAt]
    rw [if_neg (by rw [h.1]; decide), ih _ _ h.2]
    rfl

theorem savedEntriesAt_one (ctx : Ctx) (l1 : List PrinterEntry) (e : PrinterEntry)
    (l2 : List PrinterEntry) (b t : CStr)
    (h : entryFlags ctx (l1 ++ e :: l2) b t =
      (l1.map fun _ => false) ++ true :: l2.map fun _ => false) :
    savedEntriesAt ctx (l1 ++ e :: l2) b t = entryHead ++ e.element ++ entryTail := by
  induction l1 generalizing b t with
  | nil =>
    simp only [List.nil_append, entryFlags, List.map_nil, List.cons.injEq] at h
    simp only [List.nil_append, savedEntriesAt]
    rw [if_pos h.1, savedEntriesAt_none ctx l2 _ _ h.2, List.append_nil]
  | cons x l ih =>
    simp only [List.cons_append, entryFlags, List.map_cons, List.cons.injEq] at h
    simp only [List.cons_append, savedEntriesAt]
    rw [if_neg (by rw [h.1]; decide)]
    exact (List.nil_append _).trans (ih _ _ h.2)

theorem entryFlags_long (ctx : Ctx) (es : List PrinterEntry) (st : List CStr) (b t : CStr)
    (hw : ∀ e ∈ es, e.Wf st) (hl : ∀ e ∈ es, e.LongIds) :
    entryFlags ctx es b t = es.map (PrinterEntry.listed ctx) := by
  induction es generalizing b t with
  | nil => rfl
  | cons e l ih =>
    have he := hw e (by simp)
    simp only [entryFlags, List.map_cons]
    rw [ih _ _ (fun x hx => hw x (by simp [hx])) (fun x hx => hl x (by simp [hx])),
      listedAt_inner ctx e b t he.1.2 he.2.1.2, namedAt_long ctx e.inner _ _ (hl e (by simp))]
    rfl

/-- The outcome of Driver mode on a well-formed driver document: the printer
list is replaced by the entries at which `parse` reads the requested printer,
and the result is 1 when there is such an entry. -/
theorem parseDriver_doc (ctx : Ctx) (init s0 : DrvState) (hdr : CStr) (d : DriverDoc)
    (trailer : CStr)
    (hpre : scanPrefix (driverHooks ctx) init hdr
      (d.root.render ++ (renderToks d.body ++ trailer)) = .next s0)
    (hs : DrvStart s0) (hd : d.Wf) (htr : ∀ c ∈ trailer, c ≠ '<') :
    parseDriver ctx init (hdr ++ (d.root.render ++ (renderToks d.body ++ trailer))) =
      .returned (some (d.rewrittenAt ctx s0.core.currtagbody s0.core.bodytail ++ trailer))
        (if true ∈ d.listedFlags ctx s0.core.currtagbody s0.core.bodytail then 1 else 0) := by
  obtain ⟨s, a, e, _, _, o, f, c⟩ := driver_doc_scan ctx init s0 hdr d trailer hpre hs hd htr
  have key := namedAt_entries ctx d.entries
    (d.bodyAt s0.core.currtagbody s0.core.bodytail).1
    (d.bodyAt s0.core.currtagbody s0.core.bodytail).2
  unfold parseDriver parseDriverState
  rw [e]
  simp only [Step.bind_next, finish, drvCheck]
  by_cases hl : true ∈ d.listedFlags ctx s0.core.currtagbody s0.core.bodytail
  · rw [if_pos (f.trans (key.mpr hl)), if_pos hl]
    simp only [o]
  · rw [if_neg (fun h => hl (key.mp (f.symm.trans h))), if_neg hl]
    simp only [o, c]

/-- C14: Driver mode on a well-formed driver document in which no `execution`
element lies inside another one.  The call returns, and behind it `*nopjl` is
set if and only if a tag `nopjl` stands inside an `execution` element; the
value `np` that the cell held before the call plays no part. -/
theorem nopjl_iff_marker (ctx : Ctx) (pe : CStr) (np : Bool) (s0 : DrvState) (hdr : CStr)
    (d : DriverDoc) (trailer : CStr)
    (hpre : scanPrefix (driverHooks ctx) (drvInit pe np) hdr
      (d.root.render ++ (renderToks d.body ++ trailer)) = .next s0)
    (hs : DrvStart s0) (hx : s0.m.inexecution = 0 ∧ s0.m.nopjl = false) (hd : d.Ok)
    (hse : noSelfNest (lit "execution") [lit "driver"] d.body = true)
    (htr : ∀ c ∈ trailer, c ≠ '<') :
    nopjlAfter ctx (drvInit pe np) (hdr ++ (d.root.render ++ (renderToks d.body ++ trailer))) =
      some (nopjlInside [lit "driver"] d.body) := by
  obtain ⟨s, a, e, ha, m, _, _, _⟩ := driver_doc_scan ctx _ s0 hdr d trailer hpre hs
    (wf_of_ok d hd) htr
  have sb := sameBlocks_overDrvFlags { nestinglevel := 1 + d.root.kind.endType }
    { s0.m with indriver := s0.core.nestinglevel + 1 }
  have fe := overDrvFlags_inexecution { nestinglevel := 1 + d.root.kind.endType }
    { s0.m with indriver := s0.core.nestinglevel + 1 }
  have i0 : ExecInv [lit "driver"] (drvAbsRoot d.root s0) := by
    refine ⟨?_, ?_, by decide⟩
    · show 1 + d.root.kind.endType = _
      rw [hd.1.1]
      rfl
    · show (overDrvFlags _ _).inexecution = _
      rw [fe]
      show (if _ < s0.m.inexecution then 0 else s0.m.inexecution) = _
      rw [hx.1]
      have n : lit "driver" ≠ lit "execution" := by decide
      simp [sentinelAt, n]
  have n0 : (drvAbsRoot d.root s0).m.nopjl = false := by
    show (overDrvFlags _ _).nopjl = _
    rw [sb.nopjl]
    exact hx.2
  have hr := execInv_run ctx d.body [lit "driver"] _ a i0 ha (nested_body d hd) hse
  unfold nopjlAfter parseDriverState
  rw [e]
  simp only [Step.bind_next, drvCheck]
  have hm : s.m.nopjl = nopjlInside [lit "driver"] d.body := by
    rw [m, hr, n0]
    rfl
  split <;> simp [hm]

set_option maxRecDepth 100000 in
/-- Counterexample to C12 as stated.  In the first document no entry of the
printer list has the id of the requested printer `HP-LaserJet`: the ids are
`printer/Foo` and `X`.  At the closing tag of the second `id` element the text
`X` stands in `currtagbody`, and behind it what is left of the comment
`Same as HP-LaserJet`, whose ninth character starts the name of the requested
printer: the call returns 1.  In the second document the id of the only entry
is `archive/HP-LaserJet`, which does not start with `printer/`; its first eight
characters are skipped unseen, and the call returns 1. -/
theorem driver_confirms_counterexample :
    (∃ buf, parseDriver ctxLaserJetGs (drvInit [] false) docStaleId =
      .returned (some buf) 1) ∧
    (∃ buf, parseDriver ctxLaserJetGs (drvInit [] false) docOtherPrefix =
      .returned (some buf) 1) := by
  exact ⟨⟨lit ("<driver id=\"driver/gs\">\n <printers>\n  " ++
      "<printer><id>X</id></printer>\n </printers>\n</driver>\n"), by decide⟩,
    ⟨lit ("<driver id=\"driver/gs\">\n <printers>\n  " ++
      "<printer><id>archive/HP-LaserJet</id></printer>\n </printers>\n</driver>\n"),
      by decide⟩⟩

set_option maxRecDepth 100000 in
/-- Counterexample to C13 as stated: in neither document an entry of the
printer list has the id `printer/HP-LaserJet` of the requested printer, and the
printer list is not removed.  In the first the entry with the id `X` is kept,
because the bytes behind the text `X` in `currtagbody` are those of the comment
of the entry in front of it.  In the second the entry with the id
`archive/HP-LaserJet` is kept, because the first eight characters of the id are
skipped unseen. -/
theorem driver_printers_counterexample :
    parseDriver ctxLaserJetGs (drvInit [] false) docStaleId =
      .returned (some (lit ("<driver id=\"driver/gs\">\n <printers>\n  " ++
        "<printer><id>X</id></printer>\n </printers>\n</driver>\n"))) 1 ∧
    parseDriver ctxLaserJetGs (drvInit [] false) docOtherPrefix =
      .returned (some (lit ("<driver id=\"driver/gs\">\n <printers>\n  " ++
        "<printer><id>archive/HP-LaserJet</id></printer>\n </printers>\n</driver>\n"))) 1 := by
  decide

set_option maxRecDepth 100000 in
/-- Witness of C14: the example document holds `<nopjl />` inside `execution`,
and the call sets `*nopjl`. -/
theorem nopjl_iff_marker_witness :
    nopjlAfter ctxLaserJetGs (drvInit (lit "old") true) drvExampleText = some true :=
  (nopjl_iff_marker ctxLaserJetGs (lit "old") true stDrvHeader drvHeader drvExample [chNL]
    (Step.eq_next_getD _ _ (by decide)) (by decide) (by decide) (by decide) (by decide)
    (by decide)).trans (by decide)

/-- Device mode leaves a device document as it is but for the header, and ends
the program when make or model is missing. -/
theorem parsePrinter_doc (ctx : Ctx) (init s0 : PrnState) (hdr : CStr) (root : Tok)
    (body : List Tok) (trailer : CStr)
    (hpre : scanPrefix (printerHooks ctx) init hdr
      (root.render ++ (renderToks body ++ trailer)) = .next s0)
    (ht : TextMode s0.core) (hr : root.Opens (lit "printer")) (hrc : root.Clean)
    (hb : ∀ t ∈ body, t.Clean ∧ ¬ t.Opens (lit "printer")) (htr : ∀ c ∈ trailer, c ≠ '<') :
    parsePrinter ctx init (hdr ++ (root.render ++ (renderToks body ++ trailer))) = .fatal ∨
    ∃ ret, parsePrinter ctx init (hdr ++ (root.render ++ (renderToks body ++ trailer))) =
      .returned (some (root.tag ++ (renderToks body ++ trailer))) ret := by
  obtain ⟨s, e, o, _⟩ := device_doc ctx init s0 hdr root body trailer hpre ht hr hrc
    (fun t h => (hb t h).1) (fun t h => (hb t h).2) htr
  unfold parsePrinter parsePrinterState
  rw [e]
  simp only [Step.bind_next, prnCheck]
  by_cases hm : s.m.make = [] ∨ s.m.model = []
  · rw [if_pos hm]
    exact Or.inl rfl
  · rw [if_neg hm]
    refine Or.inr ⟨s.core.comboconfirmed, ?_⟩
    simp only [finish, o]

/-- Driver mode leaves a well-nested driver document without tags of a printer
list as it is but for the header. -/
theorem parseDriver_plain (ctx : Ctx) (init s0 : DrvState) (hdr : CStr) (root : Tok)
    (body : List Tok) (trailer : CStr)
    (hpre : scanPrefix (driverHooks ctx) init hdr
      (root.render ++ (renderToks body ++ trailer)) = .next s0)
    (ht : TextMode s0.core) (hc : DrvClear s0.m)
    (hr : root.kind = .opening ∧ root.nm = lit "driver" ∧ root.Clean)
    (hb : ∀ t ∈ body, t.Clean ∧ ¬ t.Opens (lit "driver") ∧ t.Plain)
    (hn : nested [lit "driver"] body = true) (htr : ∀ c ∈ trailer, c ≠ '<') :
    ∃ ret, parseDriver ctx init (hdr ++ (root.render ++ (renderToks body ++ trailer))) =
      .returned (some (root.tag ++ (renderToks body ++ trailer))) ret := by
  obtain ⟨a, ha, _, r⟩ := drv_plain_run ctx body [lit "driver"] (drvAbsRoot root s0)
    (drvInv_root root s0 hr.1 hc) hn (fun t h => (hb t h).2.2)
  obtain ⟨s, e, o, _, _⟩ := driver_doc ctx init s0 hdr root body trailer a hpre ht hc hr.1
    hr.2.1 hr.2.2 (fun t h => (hb t h).1) (fun t h => (hb t h).2.1) htr ha
  have o2 : s.core.out = root.tag ++ (renderToks body ++ trailer) := by
    rw [o, r.out]
    show root.tag ++ _ ++ _ = _
    rw [List.append_assoc]
  unfold parseDriver parseDriverState
  rw [e]
  simp only [Step.bind_next, drvCheck]
  by_cases hf : s.m.printerentryfound = true
  · rw [if_pos hf]
    exact ⟨1, by simp only [finish, o2]⟩
  · rw [if_neg hf]
    exact ⟨s.core.comboconfirmed, by simp only [finish, o2]⟩

/-- C11, as amended: Device mode on a device document (a header, the root
element `printer`, further tags) either ends the program (make or model
missing) or returns with the buffer equal to the document without its header;
Driver mode on a well-nested driver document that holds no tag `printers` or
`printer` returns with the buffer equal to the document without its header. -/
theorem round_trip (ctx : Ctx) (hdr : CStr) (root : Tok) (body : List Tok) (trailer : CStr)
    (hrc : root.Clean) (hbc : ∀ t ∈ body, t.Clean) (htr : ∀ c ∈ trailer, c ≠ '<') :
    (∀ init s0 : PrnState,
      scanPrefix (printerHooks ctx) init hdr (root.render ++ (renderToks body ++ trailer))
        = .next s0 →
      TextMode s0.core → root.Opens (lit "printer") →
      (∀ t ∈ body, ¬ t.Opens (lit "printer")) →
      parsePrinter ctx init (hdr ++ (root.render ++ (renderToks body ++ trailer))) = .fatal ∨
      ∃ ret, parsePrinter ctx init (hdr ++ (root.render ++ (renderToks body ++ trailer))) =
        .returned (some (root.tag ++ (renderToks body ++ trailer))) ret) ∧
    (∀ init s0 : DrvState,
      scanPrefix (driverHooks ctx) init hdr (root.render ++ (renderToks body ++ trailer))
        = .next s0 →
      TextMode s0.core → DrvClear s0.m → root.kind = .opening → root.nm = lit "driver" →
      (∀ t ∈ body, ¬ t.Opens (lit "driver") ∧ t.Plain) → nested [lit "driver"] body = true →
      ∃ ret, parseDriver ctx init (hdr ++ (root.render ++ (renderToks body ++ trailer))) =
        .returned (some (root.tag ++ (renderToks body ++ trailer))) ret) :=
  ⟨fun init s0 hpre ht hr hno =>
      parsePrinter_doc ctx init s0 hdr root body trailer hpre ht hr hrc
        (fun t h => ⟨hbc t h, hno t h⟩) htr,
    fun init s0 hpre ht hc hk hnm hb hn =>
      parseDriver_plain ctx init s0 hdr root body trailer hpre ht hc ⟨hk, hnm, hrc⟩
        (fun t h => ⟨hbc t h, (hb t h).1, (hb t h).2⟩) hn htr⟩

set_option maxRecDepth 100000 in
/-- Counterexample to C11 as stated: in Option mode a document without
constraints is discarded, and in Driver mode the printer list of a document is
removed when it does not name the requested printer. -/
theorem round_trip_counterexample :
    parseOption ctxLaserJetGs docEnumNoConstraints = .returned none 0 ∧
    parseDriver ctxLaserJetGs (drvInit [] false) docDriverList =
      .returned (some (lit "<driver id=\"driver/gs\">\n</driver>\n")) 0 := by
  decide

set_option maxRecDepth 100000 in
/-- Witness of C11 as amended: the example device document and a driver
document without printer list come back without their header. -/
theorem round_trip_witness :
    (parsePrinter ctxLaserJetGs (prnInit [] [] [] [])
        (devHeader ++ (devRoot.render ++ (renderToks devBody ++ [chNL]))) = .fatal ∨
      ∃ ret, parsePrinter ctxLaserJetGs (prnInit [] [] [] [])
        (devHeader ++ (devRoot.render ++ (renderToks devBody ++ [chNL]))) =
        .returned (some (devRoot.tag ++ (renderToks devBody ++ [chNL]))) ret) ∧
    ∃ ret, parseDriver ctxLaserJetGs (drvInit [] false)
        (drvHeader ++ (drvExample.root.render ++ (renderToks drvPlainBody ++ [chNL]))) =
      .returned (some (drvExample.root.tag ++ (renderToks drvPlainBody ++ [chNL]))) ret :=
  ⟨(round_trip ctxLaserJetGs devHeader devRoot devBody [chNL] (by decide) (by decide)
      (by decide)).1 (prnInit [] [] [] []) stDevHeader (Step.eq_next_getD _ _ (by decide))
      (by decide) (by decide) (by decide),
    (round_trip ctxLaserJetGs drvHeader drvExample.root drvPlainBody [chNL] (by decide)
      (by decide) (by decide)).2 (drvInit [] false) stDrvPlain
      (Step.eq_next_getD _ _ (by decide)) (by decide) (by decide) rfl rfl (by decide)
      (by decide)⟩

set_option maxRecDepth 100000 in
/-- C15 at a concrete document: the list of drivers holds an entry for `hpijs`
and an entry for `gs`, each with a PPD file.  Device mode confirms the
combination for the requested driver `hpijs` (result 1) and not for the
requested driver `gs` (result 0): behind the first `ppd` element the id in
`cid` is replaced by `Postscript` at the end of every tag (source line 923), and
the opening tag of a `driver` entry clears `cid` but not `cppd` (line 446). -/
theorem drivers_entry_missed :
    parsePrinter ctxLaserJetHpijs (prnInit [] [] [] []) docTwoDrivers =
      .returned (some docTwoDrivers) 1 ∧
    parsePrinter ctxLaserJetGs (prnInit [] [] [] []) docTwoDrivers =
      .returned (some docTwoDrivers) 0 := by
  decide

/-- C30: `translateid` consults the table by exact match of the old id.  When
the table holds an entry whose old id is the given id, the result is the new id
of the first such entry in table order; when it holds none, the result is the
given id. -/
theorem translateid_spec (id : CStr) (idlist : IdList) :
    (∀ pre o n post, idlist = pre ++ (o, n) :: post → o = id → (∀ e ∈ pre, e.1 ≠ id) →
      translateid id idlist = n) ∧
    ((∀ e ∈ idlist, e.1 ≠ id) → translateid id idlist = id) := by
  constructor
  · intro pre o n post he ho hpre
    subst he
    subst ho
    induction pre with
    | nil => simp [translateid]
    | cons p l ih =>
      obtain ⟨po, pn⟩ := p
      have hne : o ≠ po := fun e => hpre (po, pn) (by simp) e.symm
      simp only [List.cons_append, translateid, if_neg hne]
      exact ih (fun e he => hpre e (by simp [he]))
  · intro h
    induction idlist with
    | nil => rfl
    | cons p l ih =>
      obtain ⟨po, pn⟩ := p
      have hne : id ≠ po := fun e => h (po, pn) (by simp) e.symm
      simp only [translateid, if_neg hne]
      exact ih (fun e he => h e (by simp [he]))

/-- Witness of C30: with the table `old1 -> new1, old2 -> new2, old2 -> new3` the
id `old2` becomes `new2`, and the id `other` passes unchanged. -/
theorem translateid_spec_witness :
    translateid (lit "old2")
        [(lit "old1", lit "new1"), (lit "old2", lit "new2"), (lit "old2", lit "new3")]
      = lit "new2" ∧
    translateid (lit "other")
        [(lit "old1", lit "new1"), (lit "old2", lit "new2"), (lit "old2", lit "new3")]
      = lit "other" :=
  ⟨(translateid_spec (lit "old2")
      [(lit "old1", lit "new1"), (lit "old2", lit "new2"), (lit "old2", lit "new3")]).1
      [(lit "old1", lit "new1")] (lit "old2") (lit "new2") [(lit "old2", lit "new3")] rfl rfl
      (by decide),
    (translateid_spec (lit "other")
      [(lit "old1", lit "new1"), (lit "old2", lit "new2"), (lit "old2", lit "new3")]).2
      (by decide)⟩

/-! ## Comments: the scan -/

/-- Inside a comment a `>` that does not follow two `-` is skipped. -/
theorem step_comment_gt {σ : Type} (h : Hooks σ) (s : PState σ) (rest : CStr)
    (h1 : s.core.intag = true) (h2 : s.core.incomment = true) (h3 : s.core.inquotes = false)
    (hn : (lit "--").isSuffixOf s.core.out = false) :
    step h s '>' rest = .next (advance s '>') := by
  unfold step
  have hd : isDelim '>' = true := by decide
  have hn2 : ¬ lit "--" <:+ s.core.out := by
    rw [← List.isSuffixOf_iff_suffix, hn]
    decide
  simp [hd, h1, h2, h3, hn2]

/-- Inside a comment the scan skips every character up to the `>` that follows
two `-`. -/
theorem scanPrefix_inComment {σ : Type} (h : Hooks σ) (s : PState σ) (w suf : CStr)
    (h1 : s.core.intag = true) (h2 : s.core.incomment = true) (h3 : s.core.inquotes = false)
    (hc : ∀ a b, w = a ++ '>' :: b → (lit "--").isSuffixOf (s.core.out ++ a) = false) :
    scanPrefix h s w suf = .next (advanceBy s w) := by
  induction w generalizing s with
  | nil => simp [scanPrefix, advanceBy_nil]
  | cons ch w ih =>
    have hstep : step h s ch (w ++ suf) = .next (advance s ch) := by
      by_cases hg : ch = '>'
      · subst hg
        exact step_comment_gt h s _ h1 h2 h3 (by simpa using hc [] w rfl)
      · exact step_comment h s ch _ h1 h2 h3 hg
    rw [scanPrefix_cons, hstep]
    simp only [Step.bind_next]
    rw [ih (advance s ch) h1 h2 h3 (fun a b e => by
      have := hc (ch :: a) b (by rw [e]; rfl)
      simpa [advance] using this), advanceBy_advance]

/-- The `>` behind two `-` ends the comment. -/
theorem step_comment_end {σ : Type} (h : Hooks σ) (s : PState σ) (rest : CStr)
    (h1 : s.core.intag = true) (h2 : s.core.incomment = true) (h3 : s.core.inquotes = false)
    (hn : (lit "--").isSuffixOf s.core.out = true) :
    step h s '>' rest =
      .next (advance { s with core := { s.core with incomment := false, intag := false } } '>')
    := by
  unfold step
  have hd : isDelim '>' = true := by decide
  have hn2 : lit "--" <:+ s.core.out := List.isSuffixOf_iff_suffix.mp hn
  simp [hd, h1, h2, h3, hn2]

theorem isSuffixOf_dashes (x a : CStr) (hx : 2 ≤ a.length) :
    (lit "--").isSuffixOf (x ++ a) = (lit "--").isSuffixOf a := by
  rw [Bool.eq_iff_iff]
  simp only [List.isSuffixOf_iff_suffix]
  constructor
  · rintro ⟨t, ht⟩
    have hl : (t ++ lit "--").length = (x ++ a).length := congrArg List.length ht
    simp only [List.length_append] at hl
    have hl2 : (lit "--").length = 2 := rfl
    have e1 : (t ++ lit "--").drop x.length = a := by rw [ht, List.drop_left]
    rw [List.drop_append_of_le_length (by omega)] at e1
    exact ⟨t.drop x.length, e1⟩
  · rintro ⟨t, ht⟩
    exact ⟨x ++ t, by rw [List.append_assoc, ht]⟩

/-- C21: a comment `<!--`, text, `-->` met between two tags, where `-->` is the
first `>` that follows two `-`.  Whatever the text holds (`<`, `>`, `/`,
quotes), the scan goes through the comment without error and without calling
an action of the mode: for every mode the state behind the comment is the state
in front of it with the scanned part of the buffer grown by the comment and
`tagtype` set to `TAG_EMPTY`; the nesting level, the names and marks of the
last tag and the variables of the mode are unchanged. -/
theorem comment_skipped {σ : Type} (h : Hooks σ) (s : PState σ) (body suf : CStr)
    (ht : TextMode s.core) (hb : CommentBody body) :
    scanPrefix h s (lit "<!--" ++ body ++ lit "-->") suf =
      .next (afterComment s (lit "<!--" ++ body ++ lit "-->")) := by
  have e0 : lit "<!--" ++ body ++ lit "-->" = '<' :: ((lit "!--" ++ body ++ lit "--") ++ ['>']) := by
    simp [lit]
  rw [e0, scanPrefix_cons, step_comment_lt h s _ ht (by simp [lit, opensComment])]
  simp only [Step.bind_next]
  rw [scanPrefix_append, scanPrefix_inComment h (afterCommentLt s) _ _ rfl rfl ht.2.2.1]
  · simp only [Step.bind_next]
    have hend : (lit "--").isSuffixOf
        (advanceBy (afterCommentLt s) (lit "!--" ++ body ++ lit "--")).core.out = true := by
      show (lit "--").isSuffixOf ((s.core.out ++ ['<']) ++ (lit "!--" ++ body ++ lit "--")) = true
      rw [isSuffixOf_dashes _ _ (by simp [lit])]
      simp only [List.isSuffixOf_iff_suffix]
      exact ⟨lit "!--" ++ body, rfl⟩
    rw [scanPrefix_cons, step_comment_end h (advanceBy (afterCommentLt s) _) _ rfl rfl
      ht.2.2.1 hend]
    simp only [Step.bind_next, scanPrefix]
    obtain ⟨t1, t2, t3, t4, t5, t6⟩ := ht
    congr 1
    cases s with
    | mk core m =>
      cases core
      simp_all [advance, advanceBy, afterCommentLt, afterComment, lit]
  · intro a b e
    show (lit "--").isSuffixOf ((s.core.out ++ ['<']) ++ a) = false
    have e3 : ∃ a2, a = lit "!--" ++ a2 ∧ body ++ lit "--" = a2 ++ '>' :: b := by
      have e' : '!' :: '-' :: '-' :: (body ++ lit "--") = a ++ '>' :: b := by
        rw [← e]; simp [lit]
      match a, e' with
      | [], e' => simp at e'
      | [_], e' => simp at e'
      | [_, _], e' => simp at e'
      | x :: y :: z :: a2, e' =>
        simp only [List.cons_append, List.cons.injEq] at e'
        obtain ⟨rfl, rfl, rfl, e'⟩ := e'
        exact ⟨a2, rfl, e'⟩
    obtain ⟨a2, ea, eb⟩ := e3
    rw [ea]
    have e5 : (s.core.out ++ ['<']) ++ (lit "!--" ++ a2) =
        (s.core.out ++ ['<'] ++ ['!']) ++ (lit "--" ++ a2) := by simp [lit]
    rw [e5, isSuffixOf_dashes _ _ (by simp [lit])]
    by_contra hc
    rw [Bool.not_eq_false, List.isSuffixOf_iff_suffix] at hc
    obtain ⟨y, hy⟩ := hc
    apply hb
    refine ⟨y, b, ?_⟩
    have : lit "--" ++ body ++ lit "--" = (lit "--" ++ a2) ++ '>' :: b := by
      rw [List.append_assoc, eb, List.append_assoc]
    rw [this, ← hy]
    simp [lit]

theorem comment_skipped_witness :
    scanPrefix (optionHooks ctxLaserJetGs) optInit
        (lit "<!--" ++ lit " <a b=\"c\"> </d> 'e -> " ++ lit "-->") (lit "<option>") =
      .next (afterComment optInit (lit "<!--" ++ lit " <a b=\"c\"> </d> 'e -> " ++ lit "-->")) :=
  comment_skipped (optionHooks ctxLaserJetGs) optInit (lit " <a b=\"c\"> </d> 'e -> ")
    (lit "<option>") ⟨rfl, rfl, rfl, rfl, rfl, rfl⟩ (by decide)

/-! ## The printer list of the overview -/

theorem takeWhile_dash (a b : CStr) (h : ∀ c ∈ a, c ≠ '-') :
    (a ++ '-' :: b).takeWhile (fun c => decide (c ≠ '-')) = a := by
  induction a with
  | nil => simp
  | cons x l ih =>
    have hx : x ≠ '-' := h x (by simp)
    simp only [List.cons_append, List.takeWhile_cons, hx, ne_eq, not_false_eq_true, decide_True,
      ↓reduceIte, List.cons.injEq, true_and]
    exact ih fun c hc => h c (by simp [hc])

theorem dropWhile_dash (a b : CStr) (h : ∀ c ∈ a, c ≠ '-') :
    (a ++ '-' :: b).dropWhile (fun c => decide (c ≠ '-')) = '-' :: b := by
  induction a with
  | nil => simp
  | cons x l ih =>
    have hx : x ≠ '-' := h x (by simp)
    simp only [List.cons_append, List.dropWhile_cons, hx, ne_eq, not_false_eq_true, decide_True,
      ↓reduceIte]
    exact ih fun c hc => h c (by simp [hc])

theorem takeWhile_noDash (a : CStr) (h : ∀ c ∈ a, c ≠ '-') :
    a.takeWhile (fun c => decide (c ≠ '-')) = a := by
  rw [List.takeWhile_eq_self_iff]
  intro c hc
  simpa using h c hc

theorem dropWhile_noDash (a : CStr) (h : ∀ c ∈ a, c ≠ '-') :
    a.dropWhile (fun c => decide (c ≠ '-')) = [] := by
  rw [List.dropWhile_eq_nil_iff]
  intro c hc
  simpa using h c hc

/-- C29: the entry printed for a printer left in the list.  When the id is `a`,
`-`, `b` with no `-` in `a`, the make is `a` and the model is `b`, each with every
`_` replaced by a blank; when the id holds no `-`, the make is the id with every
`_` replaced by a blank and the model is `Unknown model`. -/
theorem leftover_make_model (e : CatalogEntry) :
    (∀ a b, e.id = a ++ '-' :: b → (∀ c ∈ a, c ≠ '-') →
      guessMake e.id = blankUnderscores a ∧ guessModel e.id = blankUnderscores b) ∧
    ((∀ c ∈ e.id, c ≠ '-') →
      guessMake e.id = blankUnderscores e.id ∧ guessModel e.id = lit "Unknown model") ∧
    ∃ tail, leftoverEntry e =
      lit "  <printer>" ++ [chNL] ++ lit "    <id>" ++ e.id ++ lit "</id>" ++ [chNL] ++
        lit "    <make>" ++ guessMake e.id ++ lit "</make>" ++ [chNL] ++
        lit "    <model>" ++ guessModel e.id ++ lit "</model>" ++ [chNL] ++ tail := by
  refine ⟨?_, ?_, ?_⟩
  · intro a b he ha
    unfold guessMake guessModel
    rw [he, takeWhile_dash a b ha, dropWhile_dash a b ha]
    exact ⟨rfl, rfl⟩
  · intro h
    unfold guessMake guessModel
    rw [takeWhile_noDash _ h, dropWhile_noDash _ h]
    exact ⟨rfl, rfl⟩
  · refine ⟨lit "    <noxmlentry />" ++ [chNL] ++
      (if e.drivers ≠ [] then driversSection (lit "    <drivers>" ++ [chNL]) e.drivers else []) ++
      lit "  </printer>" ++ [chNL], ?_⟩
    unfold leftoverEntry
    simp only [List.append_assoc]

/-- Witness of C29: the id `hp-laserjet` gives the make `hp` and the model
`laserjet`, the id `Brother-HL_1250` the model `HL 1250`, and the id `generic`
the model `Unknown model`. -/
theorem leftover_make_model_witness :
    (guessMake (lit "hp-laserjet") = lit "hp" ∧ guessModel (lit "hp-laserjet") = lit "laserjet") ∧
    (guessMake (lit "Brother-HL_1250") = lit "Brother" ∧
      guessModel (lit "Brother-HL_1250") = lit "HL 1250") ∧
    (guessMake (lit "generic") = lit "generic" ∧ guessModel (lit "generic") = lit "Unknown model") :=
  ⟨(leftover_make_model { id := lit "hp-laserjet" }).1 (lit "hp") (lit "laserjet") rfl (by decide),
    (leftover_make_model { id := lit "Brother-HL_1250" }).1 (lit "Brother") (lit "HL_1250") rfl
      (by decide),
    (leftover_make_model { id := lit "generic" }).2.1 (by decide)⟩

theorem addDriverOnce_order (name : CStr) (ds : List DriverRef) :
    addDriverOnce name ds = ds ∨ addDriverOnce name ds = ds ++ [{ name := name }] := by
  induction ds with
  | nil => exact Or.inr rfl
  | cons d l ih =>
    unfold addDriverOnce
    by_cases h : strcaseeq d.name name = true
    · rw [if_pos h]
      exact Or.inl rfl
    · rw [if_neg h]
      rcases ih with e | e
      · exact Or.inl (by rw [e])
      · exact Or.inr (by rw [e]; rfl)

theorem removeDriver_order (name : CStr) (ds : List DriverRef) :
    removeDriver name ds = ds ∨
      ∃ l1 d l2, ds = l1 ++ d :: l2 ∧ removeDriver name ds = l1 ++ l2 := by
  induction ds with
  | nil => exact Or.inl rfl
  | cons d l ih =>
    unfold removeDriver
    by_cases h : strcaseeq d.name name = true
    · rw [if_pos h]
      exact Or.inr ⟨[], d, l, rfl, rfl⟩
    · rw [if_neg h]
      rcases ih with e | ⟨l1, d1, l2, e1, e2⟩
      · exact Or.inl (by rw [e])
      · exact Or.inr ⟨d :: l1, d1, l2, by rw [e1]; rfl, by rw [e2]; rfl⟩

theorem withPrinter_order (id : CStr) (f : List DriverRef → List DriverRef) (pl : Catalog) :
    withPrinter id f pl = pl ++ [{ id := id, drivers := f [] }] ∨
      ∃ l1 e l2, pl = l1 ++ e :: l2 ∧
        withPrinter id f pl = l1 ++ { id := e.id, drivers := f e.drivers } :: l2 := by
  induction pl with
  | nil => exact Or.inl rfl
  | cons e l ih =>
    unfold withPrinter
    by_cases h : e.id = id
    · rw [if_pos h]
      exact Or.inr ⟨[], e, l, rfl, rfl⟩
    · rw [if_neg h]
      rcases ih with e1 | ⟨l1, e1, l2, h1, h2⟩
      · exact Or.inl (by rw [e1]; rfl)
      · exact Or.inr ⟨e :: l1, e1, l2, by rw [h1]; rfl, by rw [h2]; rfl⟩

theorem inPrinter_order (id : CStr) (f : List DriverRef → List DriverRef) (pl : Catalog) :
    inPrinter id f pl = pl ∨
      ∃ l1 e l2, pl = l1 ++ e :: l2 ∧
        inPrinter id f pl = l1 ++ { id := e.id, drivers := f e.drivers } :: l2 := by
  induction pl with
  | nil => exact Or.inl rfl
  | cons e l ih =>
    unfold inPrinter
    by_cases h : e.id = id
    · rw [if_pos h]
      exact Or.inr ⟨[], e, l, rfl, rfl⟩
    · rw [if_neg h]
      rcases ih with e1 | ⟨l1, e1, l2, h1, h2⟩
      · exact Or.inl (by rw [e1])
      · exact Or.inr ⟨e :: l1, e1, l2, by rw [h1]; rfl, by rw [h2]; rfl⟩

theorem consumePrinter_order (id : CStr) (pl : Catalog) :
    consumePrinter id pl = pl ∨
      ∃ l1 e l2, pl = l1 ++ e :: l2 ∧ consumePrinter id pl = l1 ++ l2 := by
  induction pl with
  | nil => exact Or.inl rfl
  | cons e l ih =>
    unfold consumePrinter
    by_cases h : e.id = id
    · rw [if_pos h]
      exact Or.inr ⟨[], e, l, rfl, rfl⟩
    · rw [if_neg h]
      rcases ih with e1 | ⟨l1, e1, l2, h1, h2⟩
      · exact Or.inl (by rw [e1])
      · exact Or.inr ⟨e :: l1, e1, l2, by rw [h1]; rfl, by rw [h2]; rfl⟩

/-- C28: the operations on the printer list keep the order of the list.
A new driver is linked behind the drivers of its list (`appendDriver`,
`addDriverOnce`), a new printer behind the printers of the list (`withPrinter`,
which otherwise changes the drivers of one printer in place); the removal of
a driver (`removeDriver`, for one printer through `inPrinter`, for every printer
through `retractDriver`) and of a printer (`consumePrinter`) takes one item out
and leaves the others in their order; the registration under the first entry
(`registerProto`) changes the drivers of that entry alone. -/
theorem catalog_order_kept (id name : CStr) (d : DriverRef)
    (f : List DriverRef → List DriverRef) (ds : List DriverRef) (pl : Catalog) :
    appendDriver d ds = ds ++ [d] ∧
    (addDriverOnce name ds = ds ∨ addDriverOnce name ds = ds ++ [{ name := name }]) ∧
    (removeDriver name ds = ds ∨
      ∃ l1 x l2, ds = l1 ++ x :: l2 ∧ removeDriver name ds = l1 ++ l2) ∧
    (withPrinter id f pl = pl ++ [{ id := id, drivers := f [] }] ∨
      ∃ l1 e l2, pl = l1 ++ e :: l2 ∧
        withPrinter id f pl = l1 ++ { id := e.id, drivers := f e.drivers } :: l2) ∧
    (inPrinter id f pl = pl ∨
      ∃ l1 e l2, pl = l1 ++ e :: l2 ∧
        inPrinter id f pl = l1 ++ { id := e.id, drivers := f e.drivers } :: l2) ∧
    (consumePrinter id pl = pl ∨
      ∃ l1 e l2, pl = l1 ++ e :: l2 ∧ consumePrinter id pl = l1 ++ l2) ∧
    ((retractDriver name pl).map (fun e => e.id) = pl.map (fun e => e.id) ∧
      (retractDriver name pl).map (fun e => e.drivers) =
        pl.map (fun e => removeDriver name e.drivers)) ∧
    (∀ e l, pl = e :: l →
      registerProto name pl = .next ({ id := e.id, drivers := addDriverOnce name e.drivers } :: l))
    := by
  refine ⟨rfl, addDriverOnce_order name ds, removeDriver_order name ds, withPrinter_order id f pl,
    inPrinter_order id f pl, consumePrinter_order id pl, ⟨?_, ?_⟩, ?_⟩
  · simp [retractDriver, List.map_map, Function.comp_def]
  · simp [retractDriver, List.map_map, Function.comp_def]
  · intro e l h
    rw [h]
    rfl

set_option maxRecDepth 100000 in
/-- C27 at a concrete document: a driver document whose list of printers names
the printer `X` twice.  The end of each `printer` element links the driver to
the list of the printer without looking for its name there (source lines
1538-1557): behind the call the list of `X` holds the driver `B` twice. -/
theorem driver_listed_twice :
    parseOvDriver ovAll (ovdInit [] [] [] []) drvListsTwice =
      .returned (some (lit "<driver id=\"driver/B\">\n <execution>\n </execution>\n</driver>\n"))
        [{ id := lit "X", drivers := [{ name := lit "B" }, { name := lit "B" }] }] := by
  decide

set_option maxRecDepth 100000 in
/-- C24 at concrete documents, with `pid` set.  For a driver document whose
empty `prototype` element stands behind the list of printers, the call frees
the buffer and returns at the end of `prototype` (source lines 1604-1612): the
driver `B` stays in the list of the printer `X`.  For the document without
`prototype` element the actions behind the scan loop (source lines 1917-1961)
free the buffer and take the driver out of the list of `X`. -/
theorem empty_prototype_not_retracted :
    parseOvDriver ovPpd (ovdInit [] [] [] [{ id := lit "proto" }]) drvEmptyProtoLate =
      .returned none
        [{ id := lit "proto" }, { id := lit "X", drivers := [{ name := lit "B" }] }] ∧
    parseOvDriver ovPpd (ovdInit [] [] [] [{ id := lit "proto" }]) drvNoProto =
      .returned none [{ id := lit "proto" }, { id := lit "X" }] := by
  decide

/-! ## Relations kept by a scan -/

theorem wordEnd_rel {σ : Type} (h : Hooks σ) (R : σ → σ → Prop) (hk : Respects h R)
    (s s1 : PState σ) (hw : wordEnd h s = .next s1) : R s.m s1.m := by
  unfold wordEnd at hw
  simp only at hw
  split at hw
  · cases hw
    exact hk.onParam (PState.mk { s.core with
      intagword := false, currtagparam := s.core.out.drop s.core.tagwordstart } s.m)
  · have := hk.onName _ _ hw
    exact this

theorem tagEnd_rel {σ : Type} (h : Hooks σ) (R : σ → σ → Prop) (hk : Respects h R)
    (s s1 : PState σ) (hw : tagEnd h s = .next s1) : R s.m s1.m := by
  unfold tagEnd at hw
  simp only at hw
  split at hw
  · cases hw
  · obtain ⟨b, _, h2⟩ := Step.bind_eq_next hw
    obtain ⟨s3, h3, h4⟩ := Step.bind_eq_next h2
    cases h4
    have := hk.onEnd _ _ h3
    exact this

theorem step_rel {σ : Type} (h : Hooks σ) (R : σ → σ → Prop) (hk : Respects h R)
    (s s1 : PState σ) (ch : Char) (rest : CStr) (hs : step h s ch rest = .next s1) :
    R s.m s1.m := by
  unfold step at hs
  simp only at hs
  split at hs
  · split at hs
    · cases hs; exact hk.refl _
    · split at hs
      · split at hs
        · cases hs
        · cases hs; exact hk.refl _
      · cases hs
        exact hk.refl _
  · split at hs
    · split at hs
      · cases hs; exact hk.refl _
      · split at hs
        · obtain ⟨s2, h2, h3⟩ := Step.bind_eq_next hs
          have e2 : R s.m s2.m := by
            split at h2
            · cases h2; exact hk.refl _
            · obtain ⟨sw, h4, h5⟩ := Step.bind_eq_next h2
              have e4 : R s.m sw.m := by
                split at h4
                · exact wordEnd_rel h R hk _ _ h4
                · cases h4; exact hk.refl _
              split at h5
              · cases h5; exact e4
              · cases h5; exact e4
          split at h3
          · split at h3
            · split at h3
              · cases h3; exact e2
              · cases h3; exact e2
            · exact hk.trans _ _ _ e2 (tagEnd_rel h R hk _ _ h3)
          · cases h3; exact e2
        · cases hs; exact hk.refl _
    · split at hs
      · cases hs
        exact hk.refl _
      · cases hs; exact hk.refl _

theorem scanPrefix_rel {σ : Type} (h : Hooks σ) (R : σ → σ → Prop) (hk : Respects h R)
    (s s1 : PState σ) (pre suf : CStr) (hs : scanPrefix h s pre suf = .next s1) :
    R s.m s1.m := by
  induction pre generalizing s with
  | nil =>
    simp only [scanPrefix, Step.next.injEq] at hs
    rw [hs]
    exact hk.refl _
  | cons ch pre ih =>
    rw [scanPrefix_cons] at hs
    obtain ⟨s2, h2, h3⟩ := Step.bind_eq_next hs
    exact hk.trans _ _ _ (step_rel h R hk _ _ _ _ h2) (ih s2 h3)

theorem scanLoop_rel {σ : Type} (h : Hooks σ) (R : σ → σ → Prop) (hk : Respects h R)
    (s s1 : PState σ) (data : CStr) (hs : scanLoop h s data = .next s1) : R s.m s1.m := by
  rw [scanLoop_eq_scanPrefix] at hs
  exact scanPrefix_rel h R hk s s1 data [] hs

theorem stopLoop_rel {σ : Type} (h : Hooks σ) (stop : σ → Bool) (R : σ → σ → Prop)
    (hk : Respects h R) (s s1 : PState σ) (data : CStr)
    (hs : stopLoop h stop s data = .next s1) : R s.m s1.m := by
  induction data generalizing s with
  | nil =>
    simp only [stopLoop, Step.next.injEq] at hs
    rw [hs]
    exact hk.refl _
  | cons ch rest ih =>
    unfold stopLoop at hs
    split at hs
    · cases hs
      exact hk.refl _
    · split at hs
      · rename_i s2 h2
        exact hk.trans _ _ _ (step_rel h R hk _ _ _ _ h2) (ih s2 hs)
      · cases hs
      · cases hs
      · cases hs

/-! ## The ids of the printer list -/

theorem withPrinter_ids (id : CStr) (f : List DriverRef → List DriverRef) (pl : Catalog) :
    (withPrinter id f pl).map (fun e => e.id) =
      if id ∈ pl.map (fun e => e.id) then pl.map (fun e => e.id)
      else pl.map (fun e => e.id) ++ [id] := by
  induction pl with
  | nil => rfl
  | cons e l ih =>
    unfold withPrinter
    by_cases h : e.id = id
    · rw [if_pos h, if_pos (by simp [h])]
      rfl
    · rw [if_neg h]
      simp only [List.map_cons, ih, List.mem_cons]
      have hne : ¬ id = e.id := fun x => h x.symm
      by_cases hm : id ∈ l.map (fun e => e.id)
      · rw [if_pos hm, if_pos (Or.inr hm)]
      · rw [if_neg hm, if_neg (by simp [hne, hm])]
        rfl

theorem inPrinter_ids (id : CStr) (f : List DriverRef → List DriverRef) (pl : Catalog) :
    (inPrinter id f pl).map (fun e => e.id) = pl.map (fun e => e.id) := by
  induction pl with
  | nil => rfl
  | cons e l ih =>
    unfold inPrinter
    by_cases h : e.id = id
    · rw [if_pos h]
      rfl
    · rw [if_neg h]
      simp only [List.map_cons, ih]

theorem retractDriver_ids (name : CStr) (pl : Catalog) :
    (retractDriver name pl).map (fun e => e.id) = pl.map (fun e => e.id) := by
  simp [retractDriver, List.map_map, Function.comp_def]

theorem consumePrinter_ids (id : CStr) (pl : Catalog) :
    (consumePrinter id pl).map (fun e => e.id) = (pl.map (fun e => e.id)).erase id := by
  induction pl with
  | nil => rfl
  | cons e l ih =>
    unfold consumePrinter
    by_cases h : e.id = id
    · rw [if_pos h]
      simp [h]
    · rw [if_neg h]
      simp only [List.map_cons, ih]
      rw [List.erase_cons_tail (by simpa using h)]

theorem distinctIds_withPrinter (id : CStr) (f : List DriverRef → List DriverRef) (pl : Catalog)
    (h : distinctIds pl) : distinctIds (withPrinter id f pl) := by
  unfold distinctIds at h ⊢
  rw [withPrinter_ids]
  split
  · exact h
  · rename_i hm
    rw [List.nodup_append]
    refine ⟨h, List.nodup_singleton _, ?_⟩
    intro a ha hb
    rw [List.mem_singleton] at hb
    subst hb
    exact hm ha

theorem distinctIds_inPrinter (id : CStr) (f : List DriverRef → List DriverRef) (pl : Catalog)
    (h : distinctIds pl) : distinctIds (inPrinter id f pl) := by
  unfold distinctIds at h ⊢
  rw [inPrinter_ids]
  exact h

theorem distinctIds_retractDriver (name : CStr) (pl : Catalog) (h : distinctIds pl) :
    distinctIds (retractDriver name pl) := by
  unfold distinctIds at h ⊢
  rw [retractDriver_ids]
  exact h

theorem distinctIds_consumePrinter (id : CStr) (pl : Catalog) (h : distinctIds pl) :
    distinctIds (consumePrinter id pl) := by
  unfold distinctIds at h ⊢
  rw [consumePrinter_ids]
  exact h.erase id

theorem distinctIds_registerProto (name : CStr) (pl pl1 : Catalog) (h : distinctIds pl)
    (hr : registerProto name pl = .next pl1) : distinctIds pl1 := by
  cases pl with
  | nil => cases hr
  | cons e l =>
    simp only [registerProto, Step.next.injEq] at hr
    subst hr
    exact h

/-- Behind the removal of the first entry with the id `id` from a list with
distinct ids, no entry of the list has this id. -/
theorem consumePrinter_gone (id : CStr) (pl : Catalog) (h : distinctIds pl) :
    ∀ e ∈ consumePrinter id pl, e.id ≠ id := by
  intro e he hid
  have hm : id ∈ (consumePrinter id pl).map (fun e => e.id) :=
    List.mem_map.mpr ⟨e, he, hid⟩
  rw [consumePrinter_ids] at hm
  unfold distinctIds at h
  exact (List.Nodup.mem_erase_iff h).mp hm |>.1 rfl

theorem consumePrinter_split (id : CStr) (l1 l2 : Catalog) (e : CatalogEntry)
    (h1 : ∀ x ∈ l1, x.id ≠ id) (h : e.id = id) :
    consumePrinter id (l1 ++ e :: l2) = l1 ++ l2 ∧
      locatePrinter id (l1 ++ e :: l2) = some e := by
  induction l1 with
  | nil => simp [consumePrinter, locatePrinter, h]
  | cons x l ih =>
    have hx : x.id ≠ id := h1 x (by simp)
    have := ih (fun y hy => h1 y (by simp [hy]))
    show consumePrinter id (x :: (l ++ e :: l2)) = x :: (l ++ l2) ∧
      locatePrinter id (x :: (l ++ e :: l2)) = some e
    simp only [consumePrinter, locatePrinter, if_neg hx, this.1, this.2, and_self]

theorem consumePrinter_absent (id : CStr) (pl : Catalog) (h : ∀ x ∈ pl, x.id ≠ id) :
    consumePrinter id pl = pl ∧ locatePrinter id pl = none := by
  induction pl with
  | nil => exact ⟨rfl, rfl⟩
  | cons x l ih =>
    have hx : x.id ≠ id := h x (by simp)
    have := ih (fun y hy => h y (by simp [hy]))
    simp only [consumePrinter, locatePrinter, if_neg hx, this.1, this.2, and_self]

/-! ## The printer list along a parse in the overview modes -/

theorem ovpNameM_printerlist (c : Core) (m : OvpSt) :
    (ovpNameM c m).printerlist = m.printerlist := by
  unfold ovpNameM
  simp only [apply_ite OvpSt.printerlist, ite_self]

theorem ovpParamM_printerlist (c : Core) (m : OvpSt) :
    (ovpParamM c m).printerlist = m.printerlist := by
  unfold ovpParamM
  split
  · split
    · split <;> rfl
    · rfl
  · rfl

theorem overOvpFields_printerlist (c : Core) (m : OvpSt) :
    (overOvpFields c m).printerlist = m.printerlist := by
  unfold overOvpFields
  simp only [apply_ite OvpSt.printerlist, ite_self]

theorem overOvpIdPpd_printerlist (c : Core) (m : OvpSt) :
    (overOvpIdPpd c m).printerlist = m.printerlist := by
  unfold overOvpIdPpd
  simp only [apply_ite OvpSt.printerlist, ite_self]

theorem overOvpAutodetect_printerlist (c : Core) (m m1 : OvpSt)
    (h : overOvpAutodetect c m = .next m1) : m1.printerlist = m.printerlist := by
  unfold overOvpAutodetect at h
  split at h
  · split at h
    · split at h
      · cases h; rfl
      · cases h
    · cases h; rfl
  · cases h; rfl

theorem overOvpIds_printerlist (c : Core) (m m1 : OvpSt) (h : overOvpIds c m = .next m1) :
    m1.printerlist = m.printerlist := by
  rw [overOvpAutodetect_printerlist c _ m1 h, overOvpIdPpd_printerlist]

theorem overOvpDriverFlags_eq (c : Core) (m : OvpSt) :
    (overOvpDriverFlags c m).printerlist = m.printerlist ∧
      (overOvpDriverFlags c m).cprinter = m.cprinter ∧
      (overOvpDriverFlags c m).cid = m.cid ∧ (overOvpDriverFlags c m).cppd = m.cppd := by
  unfold overOvpDriverFlags
  simp only [apply_ite OvpSt.printerlist, apply_ite OvpSt.cprinter, apply_ite OvpSt.cid,
    apply_ite OvpSt.cppd, ite_self, and_self]

/-- The list behind the end of the entry of a driver: the driver has joined the
list of the printer, or it has left it. -/
theorem ovpCombo_printerlist (ctx : OvCtx) (m m1 : OvpSt) (h : ovpCombo ctx m = .next m1) :
    m1.printerlist = m.printerlist ∨
      m1.printerlist = withPrinter m.cprinter (addDriverOnce m.cid) m.printerlist ∨
      m1.printerlist = inPrinter m.cprinter (removeDriver m.cid) m.printerlist := by
  unfold ovpCombo at h
  simp only at h
  obtain ⟨hp, _, h2⟩ := Step.bind_eq_next h
  split at h2
  · cases h2
    refine Or.inr ?_
    show (if comboShown ctx hp m.cppd = true then
        withPrinter m.cprinter (addDriverOnce m.cid) m.printerlist
      else inPrinter m.cprinter (removeDriver m.cid) m.printerlist) = _ ∨ _
    split
    · exact Or.inl rfl
    · exact Or.inr rfl
  · cases h2
    exact Or.inl rfl

theorem overOvpDriver_printerlist (ctx : OvCtx) (c : Core) (m m1 : OvpSt)
    (h : overOvpDriver ctx c m = .next m1) :
    m1.printerlist = m.printerlist ∨
      (∃ id name, m1.printerlist = withPrinter id (addDriverOnce name) m.printerlist) ∨
      ∃ id name, m1.printerlist = inPrinter id (removeDriver name) m.printerlist := by
  unfold overOvpDriver at h
  split at h
  · split at h
    · rcases ovpCombo_printerlist ctx _ m1 h with e | e | e
      · exact Or.inl (e.trans (overOvpDriverFlags_eq c m).1)
      · rw [(overOvpDriverFlags_eq c m).1] at e
        exact Or.inr (Or.inl ⟨_, _, e⟩)
      · rw [(overOvpDriverFlags_eq c m).1] at e
        exact Or.inr (Or.inr ⟨_, _, e⟩)
    · cases h
      exact Or.inl (overOvpDriverFlags_eq c m).1
  · cases h
    exact Or.inl rfl

theorem ovpEndM_printerlist (ctx : OvCtx) (c : Core) (m m1 : OvpSt)
    (h : ovpEndM ctx c m = .next m1) :
    m1.printerlist = m.printerlist ∨
      (∃ id name, m1.printerlist = withPrinter id (addDriverOnce name) m.printerlist) ∨
      ∃ id name, m1.printerlist = inPrinter id (removeDriver name) m.printerlist := by
  unfold ovpEndM at h
  obtain ⟨m2, h2, h3⟩ := Step.bind_eq_next h
  rw [overOvpIds_printerlist c m2 m1 h3, ← overOvpFields_printerlist c m]
  exact overOvpDriver_printerlist ctx c _ m2 h2

/-- Every action of the overview mode for printer files keeps a property of the
printer list that the addition of a driver to a printer and the removal of a
driver from a printer keep. -/
theorem respects_ovPrinterHooks (ctx : OvCtx) (P : Catalog → Prop)
    (hadd : ∀ id name pl, P pl → P (withPrinter id (addDriverOnce name) pl))
    (hdel : ∀ id name pl, P pl → P (inPrinter id (removeDriver name) pl)) :
    Respects (ovPrinterHooks ctx) fun a b => P a.printerlist → P b.printerlist where
  refl := fun _ h => h
  trans := fun _ _ _ h1 h2 h => h2 (h1 h)
  onName := by
    intro s s1 h hp
    simp only [ovPrinterHooks, ovpName, Step.next.injEq] at h
    subst h
    show P (ovpNameM s.core s.m).printerlist
    rw [ovpNameM_printerlist]
    exact hp
  onParam := by
    intro s hp
    show P (ovpParamM s.core s.m).printerlist
    rw [ovpParamM_printerlist]
    exact hp
  onEnd := by
    intro s s1 h hp
    simp only [ovPrinterHooks, ovpEnd] at h
    obtain ⟨m1, h1, h2⟩ := Step.bind_eq_next h
    cases h2
    show P m1.printerlist
    rcases ovpEndM_printerlist ctx s.core s.m m1 h1 with e | ⟨id, name, e⟩ | ⟨id, name, e⟩
    · rw [e]; exact hp
    · rw [e]; exact hadd _ _ _ hp
    · rw [e]; exact hdel _ _ _ hp

/-- The ids of the printer list stay distinct along the scan in the overview
mode for printer files. -/
theorem scan_ovPrinter_distinct (ctx : OvCtx) (init s : OvpState) (data : CStr)
    (hs : scanLoop (ovPrinterHooks ctx) init data = .next s)
    (hd : distinctIds init.m.printerlist) : distinctIds s.m.printerlist :=
  scanLoop_rel _ _ (respects_ovPrinterHooks ctx distinctIds
    (fun _ _ _ h => distinctIds_withPrinter _ _ _ h)
    (fun _ _ _ h => distinctIds_inPrinter _ _ _ h)) init s data hs hd

/-! ## The rule for showing a combination -/

theorem strcaseeq_iff (a b : CStr) :
    strcaseeq a b = true ↔ a.map Char.toLower = b.map Char.toLower := by
  unfold strcaseeq
  exact beq_iff_eq

theorem strcaseeq_self (a : CStr) : strcaseeq a a = true := (strcaseeq_iff a a).mpr rfl

theorem strcaseeq_false_of (a b c : CStr) (h1 : strcaseeq a c = true)
    (h2 : strcaseeq a b = false ∨ strcaseeq b a = false) : strcaseeq b c = false := by
  rw [strcaseeq_iff] at h1
  rw [Bool.eq_false_iff, ne_eq, strcaseeq_iff]
  intro h3
  rcases h2 with h2 | h2
  · rw [Bool.eq_false_iff, ne_eq, strcaseeq_iff] at h2
    exact h2 (h1.trans h3.symm)
  · rw [Bool.eq_false_iff, ne_eq, strcaseeq_iff] at h2
    exact h2 (h3.trans h1.symm)

theorem addDriverOnce_any (name : CStr) (ds : List DriverRef) :
    (addDriverOnce name ds).any (fun d => strcaseeq d.name name) = true := by
  induction ds with
  | nil => simp [addDriverOnce, strcaseeq_self]
  | cons d l ih =>
    unfold addDriverOnce
    by_cases h : strcaseeq d.name name = true
    · rw [if_pos h]
      simp [h]
    · rw [if_neg h]
      rw [List.any_cons, ih, Bool.or_true]

theorem removeDriver_any (name : CStr) (ds : List DriverRef) (hd : distinctDrivers ds) :
    (removeDriver name ds).any (fun d => strcaseeq d.name name) = false := by
  induction ds with
  | nil => rfl
  | cons d l ih =>
    unfold distinctDrivers at hd
    rw [List.pairwise_cons] at hd
    unfold removeDriver
    by_cases h : strcaseeq d.name name = true
    · rw [if_pos h, List.any_eq_false]
      intro x hx
      rw [Bool.not_eq_true]
      exact strcaseeq_false_of d.name x.name name h (Or.inl (hd.1 x hx))
    · rw [if_neg h, List.any_cons, ih hd.2, Bool.or_false]
      exact Bool.not_eq_true _ ▸ h

theorem locatePrinter_withPrinter (id : CStr) (f : List DriverRef → List DriverRef)
    (pl : Catalog) :
    ∃ e, locatePrinter id (withPrinter id f pl) = some e ∧
      e.drivers = f (match locatePrinter id pl with
        | some e0 => e0.drivers
        | none => []) := by
  induction pl with
  | nil => exact ⟨{ id := id, drivers := f [] }, by simp [withPrinter, locatePrinter], rfl⟩
  | cons x l ih =>
    unfold withPrinter
    by_cases h : x.id = id
    · rw [if_pos h]
      exact ⟨{ x with drivers := f x.drivers }, by simp [locatePrinter, h],
        by simp [locatePrinter, h]⟩
    · rw [if_neg h]
      obtain ⟨e, h1, h2⟩ := ih
      exact ⟨e, by simp [locatePrinter, h, h1], by simp [locatePrinter, h, h2]⟩

theorem locatePrinter_inPrinter (id : CStr) (f : List DriverRef → List DriverRef)
    (pl : Catalog) :
    locatePrinter id (inPrinter id f pl) =
      (locatePrinter id pl).map fun e => { id := e.id, drivers := f e.drivers } := by
  induction pl with
  | nil => rfl
  | cons x l ih =>
    unfold inPrinter
    by_cases h : x.id = id
    · rw [if_pos h]
      simp [locatePrinter, h]
    · rw [if_neg h]
      simp [locatePrinter, h, ih]

theorem listsDriver_added (id name : CStr) (pl : Catalog) :
    listsDriver (withPrinter id (addDriverOnce name) pl) id name = true := by
  obtain ⟨e, h1, h2⟩ := locatePrinter_withPrinter id (addDriverOnce name) pl
  unfold listsDriver
  rw [h1]
  show e.drivers.any _ = true
  rw [h2]
  exact addDriverOnce_any name _

theorem listsDriver_removed (id name : CStr) (pl : Catalog)
    (hd : ∀ e, locatePrinter id pl = some e → distinctDrivers e.drivers) :
    listsDriver (inPrinter id (removeDriver name) pl) id name = false := by
  unfold listsDriver
  rw [locatePrinter_inPrinter]
  cases h : locatePrinter id pl with
  | none => rfl
  | some e => exact removeDriver_any name e.drivers (hd e h)

theorem listedUnderFirst_eq (name : CStr) (pl : Catalog) (h : pl ≠ []) :
    listedUnderFirst name pl = .next (underProto name pl) := by
  cases pl with
  | nil => exact absurd rfl h
  | cons e l => rfl

/-- The rule of the code and the rule in the words of the specification differ
in one case: `pid` is set without the wish for ready-made PPD files, the driver
has a command line and the entry has a ready-made PPD file. -/
theorem comboShownSpec_differs (ctx : OvCtx) (hasproto : Bool) (cppd : CStr) :
    comboShownSpec ctx hasproto cppd ≠ comboShown ctx hasproto cppd ↔
      ctx.pid.isSome = true ∧ ctx.readyMade = false ∧ hasproto = true ∧ cppd ≠ [] := by
  unfold comboShownSpec comboShown
  cases h1 : ctx.pid.isSome <;> cases h2 : ctx.readyMade <;> cases hasproto <;>
    by_cases h3 : cppd = [] <;> simp [h3, Option.isNone_iff_eq_none, ← Option.not_isSome_iff_eq_none, h1]

/-- C23, amended: the end of the entry of a driver with the id `cid`, in a list
that is not empty when `pid` is set (it begins with the entry `proto` then).
The driver is added to the list of the printer, unless it is there, if `pid` is
not set; or the driver is registered under the first entry `proto` and the entry
has no ready-made PPD file or ready-made PPD files are requested; or the entry
has a ready-made PPD file and ready-made PPD files are requested.  Otherwise the
first driver of this name is removed from the list of the printer.  When the
list of the printer holds no driver twice, it holds the driver behind the entry
if and only if the rule holds. -/
theorem combo_rule (ctx : OvCtx) (m : OvpSt) (hid : m.cid ≠ [])
    (hpl : ctx.pid.isSome = true → m.printerlist ≠ []) :
    ∃ m1, ovpCombo ctx m = .next m1 ∧
      ((ctx.pid = none ∨
          (underProto m.cid m.printerlist = true ∧ (m.cppd = [] ∨ ctx.readyMade = true)) ∨
          (m.cppd ≠ [] ∧ ctx.readyMade = true)) →
        m1.printerlist = withPrinter m.cprinter (addDriverOnce m.cid) m.printerlist) ∧
      (¬ (ctx.pid = none ∨
          (underProto m.cid m.printerlist = true ∧ (m.cppd = [] ∨ ctx.readyMade = true)) ∨
          (m.cppd ≠ [] ∧ ctx.readyMade = true)) →
        m1.printerlist = inPrinter m.cprinter (removeDriver m.cid) m.printerlist) ∧
      ((∀ e, locatePrinter m.cprinter m.printerlist = some e → distinctDrivers e.drivers) →
        (listsDriver m1.printerlist m.cprinter m.cid = true ↔
          (ctx.pid = none ∨
            (underProto m.cid m.printerlist = true ∧ (m.cppd = [] ∨ ctx.readyMade = true)) ∨
            (m.cppd ≠ [] ∧ ctx.readyMade = true)))) := by
  have hproto : (if m.cid ≠ [] ∧ ctx.pid.isSome = true then listedUnderFirst m.cid m.printerlist
      else .next false) = .next (ctx.pid.isSome && underProto m.cid m.printerlist) := by
    cases hp : ctx.pid.isSome with
    | false => simp
    | true =>
      rw [if_pos ⟨hid, rfl⟩, listedUnderFirst_eq _ _ (hpl hp)]
      rfl
  have hrule : comboShown ctx (ctx.pid.isSome && underProto m.cid m.printerlist) m.cppd = true ↔
      (ctx.pid = none ∨
        (underProto m.cid m.printerlist = true ∧ (m.cppd = [] ∨ ctx.readyMade = true)) ∨
        (m.cppd ≠ [] ∧ ctx.readyMade = true)) := by
    unfold comboShown
    cases hp : ctx.pid with
    | none => simp
    | some p => simp
  unfold ovpCombo
  simp only [hproto, Step.bind_next, if_pos hid]
  refine ⟨_, rfl, ?_, ?_, ?_⟩
  · intro hr
    show (if comboShown ctx (ctx.pid.isSome && underProto m.cid m.printerlist) m.cppd
        = true then withPrinter m.cprinter (addDriverOnce m.cid) m.printerlist
      else inPrinter m.cprinter (removeDriver m.cid) m.printerlist) = _
    rw [if_pos (hrule.mpr hr)]
  · intro hr
    show (if comboShown ctx (ctx.pid.isSome && underProto m.cid m.printerlist) m.cppd
        = true then withPrinter m.cprinter (addDriverOnce m.cid) m.printerlist
      else inPrinter m.cprinter (removeDriver m.cid) m.printerlist) = _
    rw [if_neg (fun h => hr (hrule.mp h))]
  · intro hd
    show listsDriver (if comboShown ctx (ctx.pid.isSome && underProto m.cid m.printerlist) m.cppd
        = true then withPrinter m.cprinter (addDriverOnce m.cid) m.printerlist
      else inPrinter m.cprinter (removeDriver m.cid) m.printerlist) m.cprinter m.cid = true ↔ _
    rw [← hrule]
    by_cases hc : comboShown ctx (ctx.pid.isSome && underProto m.cid m.printerlist) m.cppd = true
    · rw [if_pos hc, listsDriver_added]
      simp [hc]
    · rw [if_neg hc, listsDriver_removed _ _ _ hd]
      simp [hc]

/-- Witness of C23: the driver `A` with a ready-made PPD file for the printer
`X`, in the overview of the combinations with a PPD file. -/
theorem combo_rule_witness :
    ∃ m1, ovpCombo ovPpd stComboPpd = .next m1 ∧
      listsDriver m1.printerlist (lit "X") (lit "A") = true :=
  (combo_rule ovPpd stComboPpd (by decide) (by decide)).imp fun _ h =>
    ⟨h.1, (h.2.2.2 (by decide)).mpr (by decide)⟩

set_option maxRecDepth 100000 in
/-- C23 as stated fails: in the overview without ready-made PPD files (`pid` is
`"c"`) the driver `A` has a command line and its entry for the printer `X` has a
ready-made PPD file.  The rule in the words of the specification shows the
combination; the parse of the document takes the driver out of the list of the
printer, and the entry of the printer in the overview names the driver `B`
alone. -/
theorem combo_rule_counterexample :
    comboShownSpec ovNoReadyMade (underProto (lit "A") catAfterDrivers) (lit "PPD/X.ppd") = true ∧
    parseOvPrinter ovNoReadyMade (ovpInit {} catAfterDrivers) prnWithPpd =
      .returned
        (some (lit ("  <printer>\n    <id>X</id>\n    <make>HP</make>\n    <model>LJ</model>" ++
          "\n    <functionality>A</functionality>\n\n    <drivers>\n      <driver>B</driver>" ++
          "\n    </drivers>\n  </printer>\n")))
        [{ id := lit "proto", drivers := [{ name := lit "A" }] },
         { id := lit "Y", drivers := [{ name := lit "A" }] },
         { id := lit "Z", drivers := [{ name := lit "B" }] }] := by
  decide

/-! ## The entry of a printer leaves the list -/

theorem driversSection_lines (head : CStr) (ds : List DriverRef) :
    ∃ b, driversSection head ds = head ++ driverLines ds ++ lit "    </drivers>" ++ [chNL] ++ b :=
  ⟨_, rfl⟩

theorem ovpSummary_lines (m : OvpSt) (id : CStr) (e : CatalogEntry) :
    ∃ a b, ovpSummary m id (some e) =
      a ++ lit "    <drivers>" ++ [chNL] ++ driverLines e.drivers ++ lit "    </drivers>" ++
        [chNL] ++ b := by
  obtain ⟨b, hb⟩ := driversSection_lines ([chNL] ++ lit "    <drivers>" ++ [chNL]) e.drivers
  refine ⟨lit "  <printer>" ++ [chNL] ++ lit "    <id>" ++ id ++ lit "</id>" ++ [chNL] ++
    lit "    <make>" ++ m.cmake ++ lit "</make>" ++ [chNL] ++
    lit "    <model>" ++ m.cmodel ++ lit "</model>" ++ [chNL] ++
    lit "    <functionality>" ++ m.cfunctionality ++ lit "</functionality>" ++ [chNL] ++
    (if m.cunverified = true then
      lit "    <unverified>" ++ m.cfunctionality ++ lit "</unverified>" ++ [chNL]
    else []) ++
    (if m.cdriver ≠ [] then lit "    <driver>" ++ m.cdriver ++ lit "</driver>" ++ [chNL]
    else []) ++
    (if m.cautodetectentry ≠ [] then lit "    " ++ m.cautodetectentry else []) ++ [chNL],
    b ++ (if m.ppdlist ≠ [] then
      lit "    <ppds>" ++ [chNL] ++ ppdLines m.ppdlist ++ lit "    </ppds>" ++ [chNL]
    else []) ++ lit "  </printer>" ++ [chNL], ?_⟩
  unfold ovpSummary
  simp only []
  rw [hb]
  simp only [List.append_assoc, List.cons_append, List.nil_append]

set_option maxRecDepth 100000 in
/-- C25 at a concrete database, in the overview of all combinations with a
table that renames the printer `Old` to `New`: the driver document of `A` lists
the printer `Old`, and the device document has the id `Old` and names the
driver `A`.  The driver pass translates the id it reads (source lines 1485-1486)
and leaves the list `[New:[A]]`.  The parse of the device document links the
driver `A` to the entry of the id `Old` as it stands in the root tag, which it
has to create (source lines 1699-1719); the final actions translate the id
(line 1973), print the entry of `New` and take it out of the list: behind the
call the list holds the new entry `Old:[A]`.  The overview then prints a second
entry, made up from the id `Old`, for the printer that has a device document. -/
theorem renamed_printer_leaves_entry :
    parseOvDriver ovRenamed (ovdInit [] [] [] []) drvListsOld =
      .returned (some (lit "<driver id=\"driver/A\">\n <execution>\n </execution>\n</driver>\n"))
        [{ id := lit "New", drivers := [{ name := lit "A" }] }] ∧
    parseOvPrinter ovRenamed (ovpInit {} [{ id := lit "New", drivers := [{ name := lit "A" }] }])
        prnRenamed =
      .returned (some (lit ("  <printer>\n    <id>New</id>\n    <make>M</make>\n    <model>N</model>" ++
        "\n    <functionality>A</functionality>\n\n    <drivers>\n      <driver>A</driver>" ++
        "\n    </drivers>\n  </printer>\n")))
        [{ id := lit "Old", drivers := [{ name := lit "A" }] }] ∧
    overview ovRenamed [{ stack := {}, data := drvListsOld }] [{ stack := {}, data := prnRenamed }] =
      .next (lit ("<overview>\n<driver id=\"driver/A\">\n <execution>\n </execution>\n</driver>\n\n" ++
        "  <printer>\n    <id>New</id>\n    <make>M</make>\n    <model>N</model>" ++
        "\n    <functionality>A</functionality>\n\n    <drivers>\n      <driver>A</driver>" ++
        "\n    </drivers>\n  </printer>\n" ++
        "  <printer>\n    <id>Old</id>\n    <make>Old</make>\n    <model>Unknown model</model>" ++
        "\n    <noxmlentry />\n    <drivers>\n      <driver>A</driver>\n    </drivers>\n  </printer>\n" ++
        "</overview>\n")) :=
  ⟨by decide, by decide,
    (Step.eq_next_getD _ [] (by decide)).trans (congrArg Step.next (by decide))⟩

/-! ## The ids of the printer list along the overview -/

theorem ovdNameM_printerlist (c : Core) (m m1 : OvdSt) (h : ovdNameM c m = .next m1) :
    m1.printerlist = m.printerlist := by
  unfold ovdNameM at h
  simp only at h
  repeat' split at h
  all_goals (cases h; try rfl)

theorem ovdParamM_printerlist (c : Core) (m : OvdSt) :
    (ovdParamM c m).printerlist = m.printerlist := by
  unfold ovdParamM
  repeat' split
  all_goals rfl

theorem overOvdBlocks_printerlist (s s1 : OvdState) (h : overOvdBlocks s = .next s1) :
    s1.m.printerlist = s.m.printerlist := by
  unfold overOvdBlocks at h
  obtain ⟨t, h1, h2⟩ := Step.bind_eq_next h
  have e1 : t.m.printerlist = s.m.printerlist := by
    unfold overOvdPrinters at h1
    have e0 : (overOvdDriver s.core s.m).printerlist = s.m.printerlist := by
      unfold overOvdDriver
      split <;> rfl
    split at h1
    · split at h1
      · obtain ⟨c1, _, h3⟩ := Step.bind_eq_next h1
        cases h3
        exact e0
      · cases h1
        exact e0
    · cases h1
      exact e0
  have e2 : s1.m.printerlist = t.m.printerlist := by
    unfold overOvdComments at h2
    split at h2
    · split at h2
      · split at h2
        · obtain ⟨c1, _, h3⟩ := Step.bind_eq_next h2
          cases h3
          rfl
        · cases h2
          rfl
      · cases h2
        rfl
    · cases h2
      rfl
  rw [e2, e1]

theorem overOvdEntry_printerlist (ctx : OvCtx) (s s1 : OvdState)
    (h : overOvdEntry ctx s = .next s1) : s1.m.printerlist = s.m.printerlist := by
  unfold overOvdEntry at h
  have e0 : (overOvdIds ctx s.core s.m).printerlist = s.m.printerlist := by
    unfold overOvdIds
    simp only
    split <;> split <;> rfl
  unfold overOvdFunctionality at h
  split at h
  · split at h
    · split at h
      · cases h
        exact e0
      · cases h
    · cases h
      exact e0
  · cases h
    exact e0

theorem ovdEnd_distinct (ctx : OvCtx) (s s1 : OvdState) (h : ovdEnd ctx s = .next s1)
    (hd : distinctIds s.m.printerlist) : distinctIds s1.m.printerlist := by
  unfold ovdEnd at h
  split at h
  · cases h
    exact hd
  · split at h
    · cases h
    · obtain ⟨t1, h1, h⟩ := Step.bind_eq_next h
      obtain ⟨t2, h2, h⟩ := Step.bind_eq_next h
      have d2 : distinctIds t2.m.printerlist := by
        rw [overOvdEntry_printerlist ctx _ _ h2, overOvdBlocks_printerlist _ _ h1]
        exact hd
      have d3 : distinctIds (overOvdPrinter t2.m t2.core.nestinglevel).printerlist := by
        unfold overOvdPrinter
        split
        · exact distinctIds_withPrinter _ _ _ d2
        · exact d2
      unfold overOvdPrototype at h
      split at h
      · obtain ⟨m2, h3, h⟩ := Step.bind_eq_next h
        have d4 : distinctIds m2.printerlist := by
          unfold ovdRegister at h3
          split at h3
          · split at h3
            · obtain ⟨pl, h4, h3⟩ := Step.bind_eq_next h3
              cases h3
              exact distinctIds_registerProto _ _ _ d3 h4
            · cases h3
              exact d3
          · cases h3
            exact d3
        unfold ovdCutPrototype at h
        split at h
        · cases h
          exact d4
        · split at h
          · obtain ⟨c1, _, h⟩ := Step.bind_eq_next h
            cases h
            exact d4
          · cases h
            exact d4
      · cases h
        exact d3

theorem respects_ovDriverHooks (ctx : OvCtx) :
    Respects (ovDriverHooks ctx)
      fun a b => distinctIds a.printerlist → distinctIds b.printerlist where
  refl := fun _ h => h
  trans := fun _ _ _ h1 h2 h => h2 (h1 h)
  onName := by
    intro s s1 h hp
    simp only [ovDriverHooks, ovdName] at h
    split at h
    · cases h
      exact hp
    · split at h
      · cases h
      · obtain ⟨m1, h1, h⟩ := Step.bind_eq_next h
        cases h
        show distinctIds m1.printerlist
        rw [ovdNameM_printerlist _ _ _ h1]
        exact hp
  onParam := by
    intro s hp
    show distinctIds (ovdParam s).m.printerlist
    unfold ovdParam
    split
    · exact hp
    · show distinctIds (ovdParamM s.core s.m).printerlist
      rw [ovdParamM_printerlist]
      exact hp
  onEnd := fun s s1 h hp => ovdEnd_distinct ctx s s1 h hp

/-- The ids of the printer list stay distinct over the parse of a driver
document in the overview mode for driver files. -/
theorem parseOvDriver_distinct (ctx : OvCtx) (init : OvdState) (data : CStr)
    (d : Option CStr) (pl : Catalog) (h : parseOvDriver ctx init data = .returned d pl)
    (hd : distinctIds init.m.printerlist) : distinctIds pl := by
  unfold parseOvDriver at h
  split at h
  · rename_i s hs
    have hds := stopLoop_rel _ _ _ (respects_ovDriverHooks ctx) init s data hs hd
    unfold ovdFinish at h
    split at h
    · cases h
      exact hds
    · split at h
      · cases h
        exact distinctIds_retractDriver _ _ hds
      · cases h
        exact hds
  · cases h
  · cases h
  · cases h

/-- The ids of the printer list stay distinct over the parse of a device
document in the overview mode for printer files. -/
theorem parseOvPrinter_distinct (ctx : OvCtx) (init : OvpState) (data : CStr)
    (d : Option CStr) (pl : Catalog) (h : parseOvPrinter ctx init data = .returned d pl)
    (hd : distinctIds init.m.printerlist) : distinctIds pl := by
  unfold parseOvPrinter at h
  split at h
  · rename_i s hs
    have hds := scan_ovPrinter_distinct ctx init s data hs hd
    unfold ovpFinish at h
    split at h
    · cases h
      exact distinctIds_consumePrinter _ _ hds
    · cases h
      exact hds
  · cases h
  · cases h
  · cases h

/-- The ids of the printer list are distinct behind the pass over the driver
files. -/
theorem driverPass_distinct (ctx : OvCtx) (fs : List (OvFile OvdSt)) (pl pl1 : Catalog)
    (out out1 : CStr) (h : driverPass ctx fs pl out = .next (pl1, out1))
    (hd : distinctIds pl) : distinctIds pl1 := by
  induction fs generalizing pl out with
  | nil =>
    simp only [driverPass, Step.next.injEq, Prod.mk.injEq] at h
    rw [← h.1]
    exact hd
  | cons f fs ih =>
    unfold driverPass at h
    split at h
    · cases h
    · split at h
      · rename_i d pl2 hp
        exact ih _ _ h (parseOvDriver_distinct ctx _ _ _ _ hp hd)
      · rename_i pl2 hp
        exact ih _ _ h (parseOvDriver_distinct ctx _ _ _ _ hp hd)
      · cases h
      · cases h

theorem printerPass_distinct (ctx : OvCtx) (fs : List (OvFile OvpSt)) (pl pl1 : Catalog)
    (out out1 : CStr) (h : printerPass ctx fs pl out = .next (pl1, out1))
    (hd : distinctIds pl) : distinctIds pl1 := by
  induction fs generalizing pl out with
  | nil =>
    simp only [printerPass, Step.next.injEq, Prod.mk.injEq] at h
    rw [← h.1]
    exact hd
  | cons f fs ih =>
    unfold printerPass at h
    split at h
    · cases h
    · split at h
      · rename_i d pl2 hp
        exact ih _ _ h (parseOvPrinter_distinct ctx _ _ _ _ hp hd)
      · cases h
      · cases h
      · cases h

theorem distinctIds_initialCatalog (ctx : OvCtx) : distinctIds (initialCatalog ctx) := by
  unfold initialCatalog distinctIds
  split <;> simp

/-! ## The removal of the file header -/

/-- Scanning the head of a tag with parameters: `<nm` and a blank, a tab or a
line break. -/
theorem scan_tag_head_delim {σ : Type} (h : Hooks σ) (s : PState σ) (nm suf : CStr) (ch : Char)
    (ht : TextMode s.core) (hn : TagName nm) (hd : isDelim ch = true) (c1 : ch ≠ '/')
    (c2 : ch ≠ '>') :
    scanPrefix h s ('<' :: nm ++ [ch]) suf =
      (h.onName (atTagName s TAG_OPEN ['<'] nm)).bind fun s1 => .next (advance s1 ch) := by
  have c3 : ch ≠ '<' := by
    intro e
    subst e
    exact absurd hd (by decide)
  have e : '<' :: nm ++ [ch] = '<' :: (nm ++ [ch]) := by simp
  rw [e, scanPrefix_cons, step_lt h s _ ht (by rw [List.append_assoc]; exact hn.noComment _)]
  simp only [Step.bind_next]
  rw [scanPrefix_append, scanPrefix_word h _ nm _ (inGap_afterLt s ht) hn.tagWord]
  simp only [Step.bind_next]
  rw [scanPrefix_cons, step_name_blank h _ ch _ (inWord_afterWord _ nm (inGap_afterLt s ht)) rfl
    hd c1 c2 c3, nameState_afterWord_afterLt]
  cases h.onName (atTagName s TAG_OPEN ['<'] nm) <;> simp [scanPrefix]

theorem removeHeader_atTagName {σ : Type} (s : PState σ) (nm : CStr) :
    (removeHeader (atTagName s TAG_OPEN ['<'] nm).core).out = '<' :: nm :=
  removeHeader_out s.core.out ('<' :: nm) _ rfl rfl

/-- A mode whose action on the name of an opening tag `root` is the removal of
the header removes the header at the opening tag of `root`. -/
theorem removesHeader_of {σ : Type} (h : Hooks σ) (root : CStr) (ok : σ → Prop)
    (hn : TagName root)
    (hr : ∀ s : PState σ, ok s.m → ∃ s1, h.onName (atTagName s TAG_OPEN ['<'] root) = .next s1 ∧
      s1.core = removeHeader (atTagName s TAG_OPEN ['<'] root).core) :
    RemovesHeader h root ok := by
  intro s ht hok
  obtain ⟨s1, h1, h2⟩ := hr s hok
  have ho : s1.core.out = '<' :: root := by rw [h2, removeHeader_atTagName]
  refine ⟨⟨s1, h1, ho⟩, ?_⟩
  intro ch suf hd c1 c2
  refine ⟨advance s1 ch, ?_, ?_⟩
  · rw [scan_tag_head_delim h s root suf ch ht hn hd c1 c2, h1]
    rfl
  · show s1.core.out ++ [ch] = _
    rw [ho]

theorem tagName_printer : TagName (lit "printer") :=
  ⟨'p', lit "rinter", rfl, by decide, by decide⟩

theorem tagName_driver : TagName (lit "driver") :=
  ⟨'d', lit "river", rfl, by decide, by decide⟩

/-- C22, amended: in each of the five modes the opening tag of the root element
of the mode (`printer`, `driver`, `option`) removes what stands in front of its
`<`, so that the buffer begins with the tag.  This holds from every state
between two tags, whatever was scanned and removed before: the removal takes
place at every opening tag with the name of the root element.  (In the overview
mode for driver files the state is one in which the call has not returned and
the parameter action has not left the model.) -/
theorem header_removed (ctx : Ctx) (ov : OvCtx) :
    RemovesHeader (printerHooks ctx) (lit "printer") (fun _ => True) ∧
    RemovesHeader (driverHooks ctx) (lit "driver") (fun _ => True) ∧
    RemovesHeader (optionHooks ctx) (lit "option") (fun _ => True) ∧
    RemovesHeader (ovDriverHooks ov) (lit "driver")
      (fun m => m.returned = false ∧ m.paramfault = false) ∧
    RemovesHeader (ovPrinterHooks ov) (lit "printer") (fun _ => True) := by
  refine ⟨?_, ?_, ?_, ?_, ?_⟩
  · exact removesHeader_of _ _ _ tagName_printer fun s _ => ⟨_, rfl, rfl⟩
  · refine removesHeader_of _ _ _ tagName_driver fun s _ =>
      ⟨{ core := removeHeader (atTagName s TAG_OPEN ['<'] (lit "driver")).core,
         m := { s.m with indriver := s.core.nestinglevel + 1 } }, ?_, rfl⟩
    rfl
  · refine removesHeader_of _ _ _ tagName_option fun s _ =>
      ⟨{ core := removeHeader (atTagName s TAG_OPEN ['<'] (lit "option")).core,
         m := { s.m with inoption := s.core.nestinglevel + 1, argdefault := [] } }, ?_, rfl⟩
    rfl
  · refine removesHeader_of _ _ _ tagName_driver fun s hok =>
      ⟨{ core := removeHeader (atTagName s TAG_OPEN ['<'] (lit "driver")).core,
         m := { s.m with indriver := s.core.nestinglevel + 1 } }, ?_, rfl⟩
    have e1 : ¬ (atTagName s TAG_OPEN ['<'] (lit "driver")).m.returned = true := by
      show ¬ s.m.returned = true
      rw [hok.1]
      decide
    have e2 : ¬ (atTagName s TAG_OPEN ['<'] (lit "driver")).m.paramfault = true := by
      show ¬ s.m.paramfault = true
      rw [hok.2]
      decide
    show ovdName _ = _
    unfold ovdName
    rw [if_neg e1, if_neg e2]
    rfl
  · exact removesHeader_of _ _ _ tagName_printer fun s _ => ⟨_, rfl, rfl⟩

/-- Witness of C22: in the mode for printer files, behind a line of text in
front of the document, the scan of the opening tag of `printer` leaves the tag
alone in the scanned part of the buffer. -/
theorem header_removed_witness :
    ∃ s2, scanPrefix (printerHooks ctxLaserJetGs)
        (advanceBy (prnInit [] [] [] []) (lit "database entry\n")) (lit "<printer ")
        (lit "id=\"printer/X\">") = .next s2 ∧
      s2.core.out = lit "<printer " :=
  ((header_removed ctxLaserJetGs ovAll).1
    (advanceBy (prnInit [] [] [] []) (lit "database entry\n")) ⟨rfl, rfl, rfl, rfl, rfl, rfl⟩
    trivial).2 ' ' (lit "id=\"printer/X\">") (by decide) (by decide) (by decide)

set_option maxRecDepth 100000 in
/-- C22 as stated fails: a device document in which an element inside the root
element is named `printer` as well.  The opening tag of the root element removes
the header, so that the scanned part of the buffer is `<printer `; the second
opening tag `printer` removes what stands in front of it once more, the opening
tag of the root element included, and the parse returns the buffer from the
second tag on. -/
theorem header_removed_counterexample :
    (∃ s1, scanPrefix (printerHooks ctxLaserJetGs) (prnInit [] [] [] [])
        (lit "<?xml version=\"1.0\"?>\n<printer ")
        (lit ("id=\"printer/X\">\n <make>HP</make>\n <model>LJ</model>" ++
          "\n <compatible>\n  <printer>Y</printer>\n </compatible>\n</printer>\n")) = .next s1 ∧
      s1.core.out = lit "<printer ") ∧
    parsePrinter ctxLaserJetGs (prnInit [] [] [] []) docNestedPrinter =
      .returned (some (lit "<printer>Y</printer>\n </compatible>\n</printer>\n")) 0 := by
  refine ⟨⟨_, Step.eq_next_getD _ (prnInit [] [] [] []) (by decide), by decide⟩, by decide⟩

/-! ## Tags without parameters, for every mode -/

theorem reframe_self (c : Core) : reframe c c = c := rfl

theorem reframe_eq (c p : Core) (h1 : c.nestinglevel = p.nestinglevel)
    (h2 : c.currtagbody = p.currtagbody) (h3 : c.out = p.out) : reframe c p = c := by
  cases c
  simp only at h1 h2 h3
  subst h1 h2 h3
  rfl

/-- The end of a tag without parameters behind an earlier tag: the text in front
of the tag is the body that the end action sees. -/
theorem tagEnd_plain {σ : Type} (h : Hooks σ) (k : TagKind) (t : PState σ) (e : Nat)
    (hn : t.core.tagnamefound = true) (he : t.core.lasttagend = some e)
    (hle : e + 1 ≤ t.core.lasttag) (hin : t.core.lasttag ≤ t.core.out.length) :
    tagEnd h (closeState k t) =
      (h.onEnd (PState.mk
          (endOf k [] t.core ((t.core.out.drop (e + 1)).take (t.core.lasttag - e - 1))) t.m)).bind
        fun s3 => .next (markEnd s3) := by
  obtain ⟨k1, k2, k3⟩ := sameTag_closeCore k t.core
  rw [closeState_eq]
  have hn2 : (closeCore k t.core).tagnamefound = true := k1.tagnamefound.trans hn
  have he2 : (closeCore k t.core).lasttagend = some e := k1.lasttagend.trans he
  have hl2 : (closeCore k t.core).lasttag = t.core.lasttag := k1.lasttag
  rw [tagEnd_eq h _ e hn2 he2 (by rw [hl2]; exact hle)]
  have hb : (((closeCore k t.core).out.drop (e + 1)).take
      ((closeCore k t.core).lasttag - e - 1)) =
      (t.core.out.drop (e + 1)).take (t.core.lasttag - e - 1) := by
    rw [hl2, k2, List.drop_append_of_le_length (by omega),
      List.take_append_of_le_length (by simp; omega)]
  have hc2 : (closeCore k t.core).currtagbody = t.core.currtagbody := k1.currtagbody
  have ht2 : (closeCore k t.core).bodytail = t.core.bodytail := k1.bodytail
  unfold endState endOf
  simp only [hb, hc2, ht2, he, wordsCore]

/-- A tag without parameters behind an earlier tag, in a mode whose action on
the name leaves the mode-independent variables alone: the end action runs on the
variables `endOf` with the text of the tag as body. -/
theorem runTok_plain {σ : Type} (h : Hooks σ) (tok : Tok) (s s1 : PState σ)
    (hb : Behind s.core) (hp : tok.params = [])
    (hn : h.onName (atTagName (advanceBy s tok.text) tok.kind.nameType tok.kind.start tok.nm) =
      .next s1)
    (hc : s1.core =
      (atTagName (advanceBy s tok.text) tok.kind.nameType tok.kind.start tok.nm).core) :
    runTok h tok s =
      (h.onEnd (PState.mk (endOf tok.kind []
        (atTagName (advanceBy s tok.text) tok.kind.nameType tok.kind.start tok.nm).core
        tok.text) s1.m)).bind fun s3 => .next (markEnd s3) := by
  have hl : 0 < s.core.out.length := List.length_pos.mpr hb.nonempty
  have e := tagEnd_plain h tok.kind
    (PState.mk (atTagName (advanceBy s tok.text) tok.kind.nameType tok.kind.start tok.nm).core
      s1.m) (s.core.out.length - 1) rfl hb.mark
    (by show _ ≤ (s.core.out ++ tok.text).length; simp only [List.length_append]; omega)
    (by show (s.core.out ++ tok.text).length ≤ ((s.core.out ++ tok.text) ++ _).length
        simp only [List.length_append]; omega)
  have hbody : (((atTagName (advanceBy s tok.text) tok.kind.nameType tok.kind.start
      tok.nm).core.out.drop (s.core.out.length - 1 + 1)).take
      ((atTagName (advanceBy s tok.text) tok.kind.nameType tok.kind.start tok.nm).core.lasttag -
        (s.core.out.length - 1) - 1)) = tok.text :=
    body_of_behind s.core.out tok.text (tok.kind.start ++ tok.nm) hb.nonempty
  simp only [hbody] at e
  unfold runTok
  rw [hn, hp]
  simp only [Step.bind_next, runWords]
  rw [show s1 = PState.mk s1.core s1.m from rfl, hc]
  exact e

/-- The variables `endOf` of a tag without parameters that starts right behind an
earlier tag. -/
theorem endOf_plain {σ : Type} (tok : Tok) (s : PState σ) (hb : Behind s.core)
    (hp : tok.params = []) :
    (endOf tok.kind []
      (atTagName (advanceBy s tok.text) tok.kind.nameType tok.kind.start tok.nm).core
      tok.text).nestinglevel = s.core.nestinglevel + tok.kind.endType ∧
    (endOf tok.kind []
      (atTagName (advanceBy s tok.text) tok.kind.nameType tok.kind.start tok.nm).core
      tok.text).currtagbody = tok.text ∧
    (endOf tok.kind []
      (atTagName (advanceBy s tok.text) tok.kind.nameType tok.kind.start tok.nm).core
      tok.text).out = s.core.out ++ tok.render ∧
    TextMode (endOf tok.kind []
      (atTagName (advanceBy s tok.text) tok.kind.nameType tok.kind.start tok.nm).core
      tok.text) := by
  cases tok with
  | mk text kind nm params =>
    simp only at hp
    subst hp
    have hg := inGap_atTagName (advanceBy s text) kind.nameType kind.start nm
      (textMode_grow s text hb.text)
    obtain ⟨ec, ebody⟩ := endCore_endOf ⟨text, kind, nm, []⟩
      (atTagName (advanceBy s text) kind.nameType kind.start nm).core text hg rfl
    exact ⟨ec.level, ebody, ec.out.trans (render_assoc s.core.out ⟨text, kind, nm, []⟩),
      ⟨ec.intag, ec.incomment, ec.inquotes, ec.insinglequotes, ec.indoublequotes, ec.intagword⟩⟩

/-! ## Tags in the overview mode for printer files -/

theorem ovpNameM_congr (c c1 : Core) (m : OvpSt) (h1 : c.currtagname = c1.currtagname)
    (h2 : c.nestinglevel = c1.nestinglevel) (h3 : c.tagtype = c1.tagtype)
    (h4 : c.lasttag = c1.lasttag) : ovpNameM c m = ovpNameM c1 m := by
  unfold ovpNameM
  simp only [h1, h2, h3, h4]

theorem ovpEndM_congr (ctx : OvCtx) (c c1 : Core) (m : OvpSt)
    (h1 : c.nestinglevel = c1.nestinglevel) (h2 : c.currtagbody = c1.currtagbody)
    (h3 : c.out = c1.out) : ovpEndM ctx c m = ovpEndM ctx c1 m := by
  unfold ovpEndM overOvpIds overOvpAutodetect overOvpIdPpd overOvpDriver overOvpDriverFlags
    overOvpFields
  simp only [h1, h2, h3]

theorem flagSafe_ovPrinterHooks (ctx : OvCtx) : FlagSafe (ovPrinterHooks ctx) where
  onName := by
    intro s s1 h
    cases h
    show SameFlags (ovpNameCore s.core) s.core
    unfold ovpNameCore
    split
    · exact sameFlags_removeHeader _
    · exact sameFlags_refl _
  onParam := fun s => sameFlags_refl _
  onEnd := by
    intro s s1 h
    simp only [ovPrinterHooks, ovpEnd] at h
    obtain ⟨m1, _, h⟩ := Step.bind_eq_next h
    cases h
    exact sameFlags_refl _

/-- The effect of a tag without parameters in the overview mode for printer
files, for every tag but the opening tag of the root element: the state follows
the effect `ovpAbsTok`. -/
theorem ovp_tok (ctx : OvCtx) (tok : Tok) (s : OvpState) (a1 : OvAbs OvpSt)
    (hb : Behind s.core) (hp : tok.params = []) (hr : ¬ tok.Opens (lit "printer"))
    (ha : ovpAbsTok ctx (OvAbs.ofState s) tok = .next a1) :
    ∃ s1, runTok (ovPrinterHooks ctx) tok s = .next s1 ∧ Behind s1.core ∧
      OvAbs.ofState s1 = a1 := by
  have hN : ovpNameCore (atTagName (advanceBy s tok.text) tok.kind.nameType tok.kind.start
      tok.nm).core = (atTagName (advanceBy s tok.text) tok.kind.nameType tok.kind.start
      tok.nm).core := by
    unfold ovpNameCore
    rw [if_neg]
    intro h
    refine hr ⟨h.1, ?_⟩
    intro hk
    have h2 : TagKind.closing.nameType = TAG_OPEN := by rw [← hk]; exact h.2
    exact absurd h2 (by decide)
  obtain ⟨e1, e2, e3, e4⟩ := endOf_plain tok s hb hp
  have hrun := runTok_plain (ovPrinterHooks ctx) tok s
    (PState.mk (atTagName (advanceBy s tok.text) tok.kind.nameType tok.kind.start tok.nm).core
      (ovpNameM (atTagName (advanceBy s tok.text) tok.kind.nameType tok.kind.start tok.nm).core
        s.m)) hb hp
    (by
      show ovpName _ = _
      unfold ovpName
      rw [hN]
      rfl) rfl
  have hnm : ovpNameM (atTagName (advanceBy s tok.text) tok.kind.nameType tok.kind.start
      tok.nm).core s.m = ovpNameM (tok.ovNameProbe s.core.nestinglevel s.core.out) s.m :=
    ovpNameM_congr _ _ _ rfl rfl rfl rfl
  have hend := ovpEndM_congr ctx _ (tok.ovEndProbe s.core.nestinglevel s.core.out)
    (ovpNameM (tok.ovNameProbe s.core.nestinglevel s.core.out) s.m) e1 e2 e3
  unfold ovpAbsTok at ha
  obtain ⟨m2, hm2, ha⟩ := Step.bind_eq_next ha
  cases ha
  refine ⟨markEnd (PState.mk (endOf tok.kind []
    (atTagName (advanceBy s tok.text) tok.kind.nameType tok.kind.start tok.nm).core tok.text)
    m2), ?_, ⟨e4, rfl, ?_⟩, ?_⟩
  · rw [hrun]
    show (ovpEnd ctx _).bind _ = _
    unfold ovpEnd
    simp only
    rw [hnm, hend]
    show ((ovpEndM ctx (tok.ovEndProbe (OvAbs.ofState s).lvl (OvAbs.ofState s).out)
      (ovpNameM (tok.ovNameProbe (OvAbs.ofState s).lvl (OvAbs.ofState s).out)
        (OvAbs.ofState s).m)).bind _).bind _ = _
    rw [hm2]
    rfl
  · intro h0
    have : s.core.out ++ tok.render = [] := e3.symm.trans h0
    exact hb.nonempty (List.append_eq_nil.mp this).1
  · have q1 : (markEnd (PState.mk (endOf tok.kind []
        (atTagName (advanceBy s tok.text) tok.kind.nameType tok.kind.start tok.nm).core tok.text)
        m2)).core.nestinglevel = s.core.nestinglevel + tok.kind.endType := e1
    have q3 : (markEnd (PState.mk (endOf tok.kind []
        (atTagName (advanceBy s tok.text) tok.kind.nameType tok.kind.start tok.nm).core tok.text)
        m2)).core.out = s.core.out ++ tok.render := e3
    unfold OvAbs.ofState
    rw [q1, q3]
    rfl

/-- The effect of a list of tags without parameters in the overview mode for
printer files, none of which opens the root element. -/
theorem ovp_toks (ctx : OvCtx) (toks : List Tok) (s : OvpState) (a1 : OvAbs OvpSt)
    (hb : Behind s.core) (hp : ∀ t ∈ toks, t.params = [])
    (hr : ∀ t ∈ toks, ¬ t.Opens (lit "printer"))
    (ha : ovpAbsRun ctx toks (OvAbs.ofState s) = .next a1) :
    ∃ s1, runToks (ovPrinterHooks ctx) toks s = .next s1 ∧ Behind s1.core ∧
      OvAbs.ofState s1 = a1 := by
  induction toks generalizing s with
  | nil =>
    cases ha
    exact ⟨s, rfl, hb, rfl⟩
  | cons t l ih =>
    simp only [ovpAbsRun] at ha
    obtain ⟨a2, h2, ha⟩ := Step.bind_eq_next ha
    obtain ⟨s2, e2, b2, o2⟩ := ovp_tok ctx t s a2 hb (hp t (by simp)) (hr t (by simp)) h2
    rw [← o2] at ha
    obtain ⟨s3, e3, b3, o3⟩ := ih s2 b2 (fun t1 h1 => hp t1 (by simp [h1]))
      (fun t1 h1 => hr t1 (by simp [h1])) ha
    refine ⟨s3, ?_, b3, o3⟩
    simp only [runToks]
    rw [e2]
    exact e3

/-! ## The parameter `id` of the root element -/

theorem strstr_prefix (hay needle : CStr) (h : needle.isPrefixOf hay = true) (hne : hay ≠ []) :
    strstr hay needle = some hay := by
  cases hay with
  | nil => exact absurd rfl hne
  | cons c hs =>
    unfold strstr
    rw [if_pos h]

theorem strstr_skip (c : Char) (hs needle : CStr) (h : needle.isPrefixOf (c :: hs) = false) :
    strstr (c :: hs) needle = strstr hs needle := by
  conv_lhs => unfold strstr
  rw [if_neg (by rw [h]; decide)]

theorem isPrefixOf_append2 (a b d : CStr) : a.isPrefixOf (a ++ b ++ d) = true := by
  rw [List.isPrefixOf_iff_prefix, List.append_assoc]
  exact List.prefix_append _ _

theorem ovpParamM_id (c : Core) (m : OvpSt) (x : CStr) (hn : c.currtagname = lit "printer")
    (hp : c.currtagparam = lit "id=\"printer/" ++ x ++ [chDQ]) :
    ovpParamM c m = { m with cprinter := x } := by
  have e1 : strstr (lit "id=\"printer/" ++ x ++ [chDQ]) (lit "id") =
      some (lit "id=\"printer/" ++ x ++ [chDQ]) :=
    strstr_prefix _ _ rfl (by simp [lit])
  have e2 : (lit "id=\"printer/" ++ x ++ [chDQ]).drop 2 =
      '=' :: chDQ :: (lit "printer/" ++ x ++ [chDQ]) := rfl
  have e3 : strstr ('=' :: chDQ :: (lit "printer/" ++ x ++ [chDQ])) (lit "printer/") =
      some (lit "printer/" ++ x ++ [chDQ]) := by
    rw [strstr_skip '=' (chDQ :: (lit "printer/" ++ x ++ [chDQ])) (lit "printer/") (by rfl),
      strstr_skip chDQ (lit "printer/" ++ x ++ [chDQ]) (lit "printer/") (by rfl)]
    exact strstr_prefix (lit "printer/" ++ x ++ [chDQ]) (lit "printer/")
      (isPrefixOf_append2 _ _ _) (by simp [lit])
  have e4 : ((lit "printer/" ++ x ++ [chDQ]).drop 8).dropLast = x := by
    show (x ++ [chDQ]).dropLast = x
    exact List.dropLast_concat
  unfold ovpParamM
  rw [if_pos hn, hp, e1]
  simp only [e2, e3, e4]

theorem tagWord_id (pre x : CStr) (hx : ∀ c ∈ x, c ≠ chDQ ∧ c ≠ chSQ)
    (hpre : ∀ c ∈ pre, c ≠ chDQ ∧ c ≠ chSQ) :
    TagWord (lit "id=" ++ [chDQ] ++ pre ++ x ++ [chDQ]) := by
  have e : lit "id=" ++ [chDQ] ++ pre ++ x ++ [chDQ] =
      'i' :: lit "d=" ++ chDQ :: (pre ++ x) ++ [chDQ] := by simp [lit]
  rw [e]
  refine TagWord.quoted 'i' (lit "d=") (pre ++ x) (by decide) ?_
  intro c hc
  rcases List.mem_append.mp hc with h | h
  · exact hpre c h
  · exact hx c h

/-- The variables of the mode behind the opening tag of the root element in the
overview mode for printer files. -/
theorem ovp_root (ctx : OvCtx) (j : OvpSt) (pl : Catalog) (x suf : CStr)
    (hx : ∀ c ∈ x, c ≠ chDQ ∧ c ≠ chSQ) :
    ∃ sR, scanPrefix (ovPrinterHooks ctx) (ovpInit j pl) (deviceRootTag x) suf = .next sR ∧
      Behind sR.core ∧
      OvAbs.ofState sR =
        { lvl := 2, out := deviceRootTag x,
          m := { inprinter := 1, cprinter := x, cid := j.cid, cppd := j.cppd,
                 printerlist := pl } } := by
  have hw : TagWord (lit "id=\"printer/" ++ x ++ [chDQ]) := by
    have := tagWord_id (lit "printer/") x hx (by decide)
    have e : lit "id=" ++ [chDQ] ++ lit "printer/" ++ x ++ [chDQ] =
        lit "id=\"printer/" ++ x ++ [chDQ] := by simp [lit, chDQ]
    rw [e] at this
    exact this
  have e : deviceRootTag x =
      ('<' :: lit "printer" ++ [' ']) ++ ((lit "id=\"printer/" ++ x ++ [chDQ]) ++ ['>']) := by
    simp [deviceRootTag, lit, chDQ]
  rw [e, scanPrefix_append,
    scan_tag_head (ovPrinterHooks ctx) (ovpInit j pl) (lit "printer") _ ⟨rfl, rfl, rfl, rfl, rfl, rfl⟩
      tagName_printer]
  have hname : (ovPrinterHooks ctx).onName (atTagName (ovpInit j pl) TAG_OPEN ['<']
      (lit "printer")) =
      .next (PState.mk (removeHeader (atTagName (ovpInit j pl) TAG_OPEN ['<'] (lit "printer")).core)
        (ovpNameM (atTagName (ovpInit j pl) TAG_OPEN ['<'] (lit "printer")).core
          (ovpInit j pl).m)) := rfl
  rw [hname]
  simp only [Step.bind_next]
  rw [scan_param_gt (ovPrinterHooks ctx) (flagSafe_ovPrinterHooks ctx) _ _ suf
    ⟨rfl, rfl, rfl, rfl, rfl, rfl⟩ rfl hw]
  have hpar : (ovPrinterHooks ctx).onParam (atParam (advance (PState.mk
      (removeHeader (atTagName (ovpInit j pl) TAG_OPEN ['<'] (lit "printer")).core)
      (ovpNameM (atTagName (ovpInit j pl) TAG_OPEN ['<'] (lit "printer")).core
        (ovpInit j pl).m)) ' ') (lit "id=\"printer/" ++ x ++ [chDQ])) =
      PState.mk (atParam (advance (PState.mk
        (removeHeader (atTagName (ovpInit j pl) TAG_OPEN ['<'] (lit "printer")).core)
        (ovpInit j pl).m) ' ') (lit "id=\"printer/" ++ x ++ [chDQ])).core
        { inprinter := 1, cprinter := x, cid := j.cid, cppd := j.cppd, printerlist := pl } := by
    show ovpParam _ = _
    unfold ovpParam
    rw [ovpParamM_id _ _ x rfl rfl]
    rfl
  rw [hpar]
  refine ⟨markEnd (PState.mk
    { (atParam (advance (PState.mk
        (removeHeader (atTagName (ovpInit j pl) TAG_OPEN ['<'] (lit "printer")).core)
        (ovpInit j pl).m) ' ') (lit "id=\"printer/" ++ x ++ [chDQ])).core with
      intag := false, currtagbody := [], nestinglevel := 2,
      out := (atParam (advance (PState.mk
        (removeHeader (atTagName (ovpInit j pl) TAG_OPEN ['<'] (lit "printer")).core)
        (ovpInit j pl).m) ' ') (lit "id=\"printer/" ++ x ++ [chDQ])).core.out ++ ['>'] }
    { inprinter := 1, cprinter := x, cid := j.cid, cppd := j.cppd, printerlist := pl }),
    rfl, ⟨⟨rfl, rfl, rfl, rfl, rfl, rfl⟩, rfl, ?_⟩, ?_⟩
  · exact List.append_ne_nil_of_right_ne_nil _ (List.cons_ne_nil _ _)
  · show OvAbs.mk _ _ _ = _
    congr 1

/-! ## The device document of a small database -/

/-- The end of the entry of a driver without ready-made PPD file, with `pid`
set: the driver joins the list of the printer when it is registered under the
first entry of the list, and leaves it otherwise. -/
theorem ovpCombo_plain (ctx : OvCtx) (m : OvpSt) (e : CatalogEntry) (l : Catalog) (p : CStr)
    (hpid : ctx.pid = some p) (hid : m.cid ≠ []) (hppd : m.cppd = [])
    (hpl : m.printerlist = e :: l) :
    ovpCombo ctx m = .next { m with
      driverhasproto := e.drivers.any fun d => strcaseeq d.name m.cid
      printerlist :=
        if (e.drivers.any fun d => strcaseeq d.name m.cid) = true then
          withPrinter m.cprinter (addDriverOnce m.cid) m.printerlist
        else inPrinter m.cprinter (removeDriver m.cid) m.printerlist } := by
  unfold ovpCombo
  have h1 : (if m.cid ≠ [] ∧ ctx.pid.isSome = true then listedUnderFirst m.cid m.printerlist
      else .next false) = .next (e.drivers.any fun d => strcaseeq d.name m.cid) := by
    rw [if_pos ⟨hid, by rw [hpid]; rfl⟩, hpl]
    rfl
  simp only [h1, Step.bind_next, if_pos hid]
  have h2 : ∀ hp : Bool, comboShown ctx hp [] = hp := by
    intro hp
    unfold comboShown
    rw [hpid]
    cases hp <;> simp
  have h3 : ¬ (m.cppd ≠ [] ∧ (ctx.pid.isNone = true ∨ ctx.readyMade = true)) :=
    fun h => h.1 hppd
  simp only [hppd, h2]
  rw [if_neg (by simp [hppd])]



theorem overOvpDriver_fires (ctx : OvCtx) (c : Core) (m : OvpSt)
    (h1 : c.nestinglevel < m.indriver) (h2 : (overOvpDriverFlags c m).indrivers ≠ 0) :
    overOvpDriver ctx c m = ovpCombo ctx (overOvpDriverFlags c m) := by
  unfold overOvpDriver
  rw [if_pos (Or.inl h1), if_pos (Or.inl h2)]

theorem ovpAbsRun_append (ctx : OvCtx) (l1 l2 : List Tok) (a : OvAbs OvpSt) :
    ovpAbsRun ctx (l1 ++ l2) a = (ovpAbsRun ctx l1 a).bind (ovpAbsRun ctx l2) := by
  induction l1 generalizing a with
  | nil => rfl
  | cons t l ih =>
    simp only [List.cons_append, ovpAbsRun]
    cases ovpAbsTok ctx a t with
    | next a1 => exact ih a1
    | discard r => rfl
    | fatal => rfl
    | undefined => rfl

/-- The end of the entry of a driver in the device document: the driver joins
the list of the printer when it is registered under the first entry of the
list, and leaves it otherwise. -/
theorem deviceBody_driverEnd (ctx : OvCtx) (p O x mk md f cid : CStr) (hp0 : Bool)
    (e : CatalogEntry) (l : Catalog) (hp : ctx.pid = some p) (hc : cid ≠ []) :
    ovpAbsTok ctx { lvl := 4, out := O, m := inDriversSt x mk md f cid 4 hp0 (e :: l) }
      (tokClose (lit "\n  ") (lit "driver")) =
      .next { lvl := 3, out := O ++ (tokClose (lit "\n  ") (lit "driver")).render,
              m := inDriversSt x mk md f cid 0 (e.drivers.any fun d => strcaseeq d.name cid)
                (if (e.drivers.any fun d => strcaseeq d.name cid) = true then
                  withPrinter x (addDriverOnce cid) (e :: l)
                else inPrinter x (removeDriver cid) (e :: l)) } := by
  unfold ovpAbsTok
  have hN : ovpNameM ((tokClose (lit "\n  ") (lit "driver")).ovNameProbe 4 O)
      (inDriversSt x mk md f cid 4 hp0 (e :: l)) =
      inDriversSt x mk md f cid 5 hp0 (e :: l) := rfl
  simp only [hN]
  unfold ovpEndM
  have hF : overOvpFields ((tokClose (lit "\n  ") (lit "driver")).ovEndProbe 4 O)
      (inDriversSt x mk md f cid 5 hp0 (e :: l)) = inDriversSt x mk md f cid 5 hp0 (e :: l) := rfl
  have hL : overOvpDriverFlags ((tokClose (lit "\n  ") (lit "driver")).ovEndProbe 4 O)
      (inDriversSt x mk md f cid 5 hp0 (e :: l)) = inDriversSt x mk md f cid 0 hp0 (e :: l) := rfl
  rw [hF, overOvpDriver_fires ctx ((tokClose (lit "\n  ") (lit "driver")).ovEndProbe 4 O)
      (inDriversSt x mk md f cid 5 hp0 (e :: l)) (show (3 : Int) < 5 by decide)
      (show (3 : Int) ≠ 0 by decide), hL,
    ovpCombo_plain ctx _ e l p hp hc rfl rfl]
  rfl



theorem deviceBody_head (ctx : OvCtx) (O x mk md f a jc jp : CStr) (pl : Catalog) :
    ∃ o, ovpAbsRun ctx
      [tokOpen (lit "\n ") (lit "make"), tokClose mk (lit "make"),
       tokOpen (lit "\n ") (lit "model"), tokClose md (lit "model"),
       tokOpen (lit "\n ") (lit "functionality"), tokClose f (lit "functionality"),
       tokOpen (lit "\n ") (lit "drivers"),
       tokOpen (lit "\n  ") (lit "driver"), tokOpen (lit "\n   ") (lit "id"),
       tokClose a (lit "id")]
      { lvl := 2, out := O,
        m := { inprinter := 1, cprinter := x, cid := jc, cppd := jp, printerlist := pl } } =
      .next { lvl := 4, out := o, m := inDriversSt x mk md f a 4 false pl } := by
  simp +decide [ovpAbsRun, ovpAbsTok, tokOpen, tokClose, Tok.ovNameProbe,
    Tok.ovEndProbe, ovpNameM, ovpEndM, overOvpFields, overOvpDriver, overOvpDriverFlags,
    overOvpIds, overOvpIdPpd, overOvpAutodetect, TagKind.nameType, TagKind.endType,
    TAG_OPEN, TAG_CLOSE, Step.bind, inDriversSt]

theorem deviceBody_next (ctx : OvCtx) (O x mk md f a b : CStr) (hp : Bool) (pl : Catalog) :
    ∃ o, ovpAbsRun ctx
      [tokOpen (lit "\n  ") (lit "driver"), tokOpen (lit "\n   ") (lit "id"),
       tokClose b (lit "id")]
      { lvl := 3, out := O, m := inDriversSt x mk md f a 0 hp pl } =
      .next { lvl := 4, out := o, m := inDriversSt x mk md f b 4 hp pl } := by
  simp +decide [ovpAbsRun, ovpAbsTok, tokOpen, tokClose, Tok.ovNameProbe,
    Tok.ovEndProbe, ovpNameM, ovpEndM, overOvpFields, overOvpDriver, overOvpDriverFlags,
    overOvpIds, overOvpIdPpd, overOvpAutodetect, TagKind.nameType, TagKind.endType,
    TAG_OPEN, TAG_CLOSE, Step.bind, inDriversSt]

theorem deviceBody_tail (ctx : OvCtx) (O x mk md f b : CStr) (hp : Bool) (pl : Catalog) :
    ∃ o, ovpAbsRun ctx [tokClose (lit "\n ") (lit "drivers"), tokClose (lit "\n") (lit "printer")]
      { lvl := 3, out := O, m := inDriversSt x mk md f b 0 hp pl } =
      .next { lvl := 1, out := o,
              m := { cprinter := x, cmake := mk, cmodel := md, cfunctionality := f, cid := b,
                     driverhasproto := hp, printerlist := pl } } := by
  simp +decide [ovpAbsRun, ovpAbsTok, tokOpen, tokClose, Tok.ovNameProbe,
    Tok.ovEndProbe, ovpNameM, ovpEndM, overOvpFields, overOvpDriver, overOvpDriverFlags,
    overOvpIds, overOvpIdPpd, overOvpAutodetect, TagKind.nameType, TagKind.endType,
    TAG_OPEN, TAG_CLOSE, Step.bind, inDriversSt]

/-- The variables of the mode behind the tags of the device document, from the
list in which the driver `a` is registered under `proto`: the list of the
printer `x` holds the driver `a` and not the driver `b`. -/
theorem deviceBody_run (ctx : OvCtx) (p O x mk md f a b jc jp : CStr) (hp : ctx.pid = some p)
    (ha : a ≠ []) (hb : b ≠ []) (hab : strcaseeq a b = false) (hx : x ≠ lit "proto") :
    ∃ o, ovpAbsRun ctx (deviceBodyToks mk md f a b)
      { lvl := 2, out := O,
        m := { inprinter := 1, cprinter := x, cid := jc, cppd := jp,
               printerlist := [{ id := lit "proto", drivers := [{ name := a }] }] } } =
      .next { lvl := 1, out := o,
              m := { cprinter := x, cmake := mk, cmodel := md, cfunctionality := f, cid := b,
                     printerlist := [{ id := lit "proto", drivers := [{ name := a }] },
                                     { id := x, drivers := [{ name := a }] }] } } := by
  obtain ⟨o1, h1⟩ := deviceBody_head ctx O x mk md f a jc jp
    [{ id := lit "proto", drivers := [{ name := a }] }]
  have h2 := deviceBody_driverEnd ctx p o1 x mk md f a false
    { id := lit "proto", drivers := [{ name := a }] } [] hp ha
  simp only [List.any_cons, List.any_nil, strcaseeq_self, Bool.or_false, if_true, withPrinter,
    addDriverOnce, if_neg (Ne.symm hx)] at h2
  obtain ⟨o3, h3⟩ := deviceBody_next ctx (o1 ++ (tokClose (lit "\n  ") (lit "driver")).render)
    x mk md f a b true
    [{ id := lit "proto", drivers := [{ name := a }] }, { id := x, drivers := [{ name := a }] }]
  have h4 := deviceBody_driverEnd ctx p o3 x mk md f b true
    { id := lit "proto", drivers := [{ name := a }] } [{ id := x, drivers := [{ name := a }] }]
    hp hb
  simp only [List.any_cons, List.any_nil, hab, Bool.or_false, Bool.false_eq_true, if_false,
    inPrinter, removeDriver, if_neg (Ne.symm hx), if_true] at h4
  obtain ⟨o5, h5⟩ := deviceBody_tail ctx (o3 ++ (tokClose (lit "\n  ") (lit "driver")).render)
    x mk md f b false
    [{ id := lit "proto", drivers := [{ name := a }] }, { id := x, drivers := [{ name := a }] }]
  refine ⟨o5, ?_⟩
  have hsplit : deviceBodyToks mk md f a b =
      [tokOpen (lit "\n ") (lit "make"), tokClose mk (lit "make"),
       tokOpen (lit "\n ") (lit "model"), tokClose md (lit "model"),
       tokOpen (lit "\n ") (lit "functionality"), tokClose f (lit "functionality"),
       tokOpen (lit "\n ") (lit "drivers"),
       tokOpen (lit "\n  ") (lit "driver"), tokOpen (lit "\n   ") (lit "id"),
       tokClose a (lit "id")] ++ (tokClose (lit "\n  ") (lit "driver") ::
      ([tokOpen (lit "\n  ") (lit "driver"), tokOpen (lit "\n   ") (lit "id"),
        tokClose b (lit "id")] ++ (tokClose (lit "\n  ") (lit "driver") ::
      [tokClose (lit "\n ") (lit "drivers"), tokClose (lit "\n") (lit "printer")]))) := rfl
  rw [hsplit, ovpAbsRun_append, h1]
  simp only [Step.bind_next]
  rw [ovpAbsRun, h2]
  simp only [Step.bind_next]
  rw [ovpAbsRun_append, h3]
  simp only [Step.bind_next]
  rw [ovpAbsRun, h4]
  simp only [Step.bind_next]
  exact h5

theorem clean_tokOpen (text nm : CStr) (ht : ∀ c ∈ text, c ≠ '<') (hn : TagName nm) :
    (tokOpen text nm).Clean :=
  ⟨ht, hn, fun _ h => absurd h (List.not_mem_nil _)⟩

theorem clean_tokClose (text nm : CStr) (ht : ∀ c ∈ text, c ≠ '<') (hn : TagName nm) :
    (tokClose text nm).Clean :=
  ⟨ht, hn, fun _ h => absurd h (List.not_mem_nil _)⟩

theorem deviceBody_clean (mk md f a b : CStr) (hmk : ∀ c ∈ mk, c ≠ '<')
    (hmd : ∀ c ∈ md, c ≠ '<') (hf : ∀ c ∈ f, c ≠ '<') (ha : ∀ c ∈ a, c ≠ '<')
    (hb : ∀ c ∈ b, c ≠ '<') :
    ∀ t ∈ deviceBodyToks mk md f a b,
      t.Clean ∧ t.params = [] ∧ ¬ t.Opens (lit "printer") := by
  intro t ht
  simp only [deviceBodyToks, List.mem_cons, List.mem_singleton, List.not_mem_nil, or_false] at ht
  rcases ht with h | h | h | h | h | h | h | h | h | h | h | h | h | h | h | h | h <;> subst h
  · exact ⟨clean_tokOpen _ _ (by decide) (by decide), rfl, by decide⟩
  · exact ⟨clean_tokClose _ _ hmk (by decide), rfl, fun h => h.2 rfl⟩
  · exact ⟨clean_tokOpen _ _ (by decide) (by decide), rfl, by decide⟩
  · exact ⟨clean_tokClose _ _ hmd (by decide), rfl, fun h => h.2 rfl⟩
  · exact ⟨clean_tokOpen _ _ (by decide) (by decide), rfl, by decide⟩
  · exact ⟨clean_tokClose _ _ hf (by decide), rfl, fun h => h.2 rfl⟩
  · exact ⟨clean_tokOpen _ _ (by decide) (by decide), rfl, by decide⟩
  · exact ⟨clean_tokOpen _ _ (by decide) (by decide), rfl, by decide⟩
  · exact ⟨clean_tokOpen _ _ (by decide) (by decide), rfl, by decide⟩
  · exact ⟨clean_tokClose _ _ ha (by decide), rfl, fun h => h.2 rfl⟩
  · exact ⟨clean_tokClose _ _ (by decide) (by decide), rfl, by decide⟩
  · exact ⟨clean_tokOpen _ _ (by decide) (by decide), rfl, by decide⟩
  · exact ⟨clean_tokOpen _ _ (by decide) (by decide), rfl, by decide⟩
  · exact ⟨clean_tokClose _ _ hb (by decide), rfl, fun h => h.2 rfl⟩
  · exact ⟨clean_tokClose _ _ (by decide) (by decide), rfl, by decide⟩
  · exact ⟨clean_tokClose _ _ (by decide) (by decide), rfl, by decide⟩
  · exact ⟨clean_tokClose _ _ (by decide) (by decide), rfl, by decide⟩

theorem deviceEntry_eq (x mk md f a b : CStr) (pl : Catalog) :
    ovpSummary
      { cprinter := x, cmake := mk, cmodel := md, cfunctionality := f, cid := b, printerlist := pl }
      x (some { id := x, drivers := [{ name := a }] }) = deviceEntry x mk md f a := by
  simp only [ovpSummary, deviceEntry, driversSection, driverLines, List.any_cons, List.any_nil,
    Option.isSome_none, Bool.or_false, Bool.false_eq_true, if_false, ne_eq, not_true_eq_false,
    List.append_nil, List.append_assoc]
  simp only [lit, chNL]
  rfl
/-- The parse of the device document of the printer `x` in the overview mode
for printer files with `pid` set, from the list in which the driver `a` is
registered under `proto`: the buffer holds the entry of the printer with the
driver `a` alone, and the printer has left the list. -/
theorem device_parse (ctx : OvCtx) (p x mk md f a b : CStr) (j : OvpSt)
    (hp : ctx.pid = some p) (hid : translateid x ctx.idlist = x)
    (hx : x ≠ [] ∧ x ≠ lit "proto" ∧ ∀ c ∈ x, c ≠ chDQ ∧ c ≠ chSQ)
    (hmk : mk ≠ [] ∧ ∀ c ∈ mk, c ≠ '<') (hmd : md ≠ [] ∧ ∀ c ∈ md, c ≠ '<')
    (hf : f ≠ [] ∧ ∀ c ∈ f, c ≠ '<') (ha : a ≠ [] ∧ ∀ c ∈ a, c ≠ '<')
    (hb : b ≠ [] ∧ ∀ c ∈ b, c ≠ '<') (hab : strcaseeq a b = false) :
    parseOvPrinter ctx (ovpInit j [{ id := lit "proto", drivers := [{ name := a }] }])
        (deviceDoc x mk md f a b) =
      .returned (some (deviceEntry x mk md f a))
        [{ id := lit "proto", drivers := [{ name := a }] }] := by
  obtain ⟨sR, hR, bR, aR⟩ := ovp_root ctx j [{ id := lit "proto", drivers := [{ name := a }] }] x
    (renderToks (deviceBodyToks mk md f a b) ++ [chNL]) hx.2.2
  obtain ⟨o, hrun⟩ := deviceBody_run ctx p (deviceRootTag x) x mk md f a b j.cid j.cppd hp ha.1
    hb.1 hab hx.2.1
  have hcl := deviceBody_clean mk md f a b hmk.2 hmd.2 hf.2 ha.2 hb.2
  rw [← aR] at hrun
  obtain ⟨s1, h1, b1, a1⟩ := ovp_toks ctx (deviceBodyToks mk md f a b) sR _ bR
    (fun t ht => (hcl t ht).2.1) (fun t ht => (hcl t ht).2.2) hrun
  have hm : s1.m =
      { cprinter := x, cmake := mk, cmodel := md, cfunctionality := f, cid := b,
        printerlist := [{ id := lit "proto", drivers := [{ name := a }] },
                        { id := x, drivers := [{ name := a }] }] } := congrArg OvAbs.m a1
  have hscan : scanLoop (ovPrinterHooks ctx)
      (ovpInit j [{ id := lit "proto", drivers := [{ name := a }] }]) (deviceDoc x mk md f a b) =
      .next (advanceBy s1 [chNL]) := by
    unfold deviceDoc
    rw [scanLoop_append, hR]
    simp only [Step.bind_next]
    rw [scanLoop_toks (ovPrinterHooks ctx) (flagSafe_ovPrinterHooks ctx) _ sR [chNL] bR.text
      (fun t ht => (hcl t ht).1) (by decide), h1]
    rfl
  unfold parseOvPrinter
  rw [hscan]
  show ovpFinish ctx (advanceBy s1 [chNL]) = _
  have hfin : ∀ s : OvpState, s.m =
      { cprinter := x, cmake := mk, cmodel := md, cfunctionality := f, cid := b,
        printerlist := [{ id := lit "proto", drivers := [{ name := a }] },
                        { id := x, drivers := [{ name := a }] }] } →
      ovpFinish ctx s = .returned (some (deviceEntry x mk md f a))
        [{ id := lit "proto", drivers := [{ name := a }] }] := by
    intro s hs
    unfold ovpFinish
    rw [hs]
    have hc : OvpSt.complete
        { cprinter := x, cmake := mk, cmodel := md, cfunctionality := f, cid := b,
          printerlist := [{ id := lit "proto", drivers := [{ name := a }] },
                          { id := x, drivers := [{ name := a }] }] } = true := by
      simp [OvpSt.complete, hx.1, hmk.1, hmd.1, hf.1]
    rw [if_pos hc]
    simp only [hid, locatePrinter, consumePrinter, if_neg (Ne.symm hx.2.1), if_true]
    rw [deviceEntry_eq]
  exact hfin _ hm

/-! ## Tags in the overview mode for driver files -/

theorem ovdNameM_congr (c c1 : Core) (m : OvdSt) (h1 : c.currtagname = c1.currtagname)
    (h2 : c.nestinglevel = c1.nestinglevel) (h3 : c.tagtype = c1.tagtype)
    (h4 : c.lasttag = c1.lasttag) (h5 : c.lasttagend = c1.lasttagend) :
    ovdNameM c m = ovdNameM c1 m := by
  unfold ovdNameM
  simp only [h1, h2, h3, h4, h5]

/-- The action on the name of a tag that does not open the root element, read
off the variables that it looks at. -/
theorem ovdName_congr (c c1 : Core) (m : OvdSt) (sN : OvdState)
    (h1 : c.currtagname = c1.currtagname)
    (h2 : c.nestinglevel = c1.nestinglevel) (h3 : c.tagtype = c1.tagtype)
    (h4 : c.lasttag = c1.lasttag) (h5 : c.lasttagend = c1.lasttagend)
    (hr : ¬ (c.currtagname = lit "driver" ∧ c.tagtype = TAG_OPEN))
    (h : ovdName { core := c1, m := m } = .next sN) :
    ovdName { core := c, m := m } = .next { core := c, m := sN.m } := by
  unfold ovdName at h ⊢
  simp only at h ⊢
  split at h
  · cases h
    rename_i hret
    rw [if_pos hret]
  · rename_i hret
    rw [if_neg hret]
    split at h
    · cases h
    · rename_i hf
      rw [if_neg hf]
      obtain ⟨m1, hm1, h⟩ := Step.bind_eq_next h
      cases h
      rw [ovdNameM_congr c c1 m h1 h2 h3 h4 h5, hm1]
      simp only [Step.bind_next]
      unfold ovdNameCore
      rw [if_neg hr]

theorem deleteSpan_reframe (c0 c : Core) (p : Nat) :
    deleteSpan (reframe c0 c) p = (deleteSpan c p).bind fun c1 => .next (reframe c0 c1) := by
  unfold deleteSpan
  split
  · rename_i h
    have h' : 1 ≤ p ∧ p ≤ c.out.length := h
    rw [if_pos h']
    rfl
  · rename_i h
    have h' : ¬ (1 ≤ p ∧ p ≤ c.out.length) := h
    rw [if_neg h']
    rfl

theorem overOvdPrinters_reframe (c0 c : Core) (m : OvdSt) :
    overOvdPrinters { core := reframe c0 c, m := m } =
      (overOvdPrinters { core := c, m := m }).bind fun s =>
        .next { core := reframe c0 s.core, m := s.m } := by
  unfold overOvdPrinters
  show (if c.nestinglevel < m.inprinters then _ else _) = _
  split
  · cases m.lastprinters with
    | none => rfl
    | some p =>
      show (deleteSpan (reframe c0 c) p).bind _ = ((deleteSpan c p).bind _).bind _
      rw [deleteSpan_reframe]
      cases deleteSpan c p <;> rfl
  · rfl

theorem overOvdComments_reframe (c0 c : Core) (m : OvdSt) :
    overOvdComments { core := reframe c0 c, m := m } =
      (overOvdComments { core := c, m := m }).bind fun s =>
        .next { core := reframe c0 s.core, m := s.m } := by
  unfold overOvdComments
  show (if c.nestinglevel < m.incomments then _ else _) = _
  split
  · cases m.lastcomments with
    | none => rfl
    | some p =>
      show (if m.inprinter = 0 then (deleteSpan (reframe c0 c) p).bind _ else _) =
        (if m.inprinter = 0 then (deleteSpan c p).bind _ else _).bind _
      split
      · rw [deleteSpan_reframe]
        cases deleteSpan c p <;> rfl
      · rfl
  · rfl

theorem overOvdBlocks_reframe (c0 c : Core) (m : OvdSt) :
    overOvdBlocks { core := reframe c0 c, m := m } =
      (overOvdBlocks { core := c, m := m }).bind fun s =>
        .next { core := reframe c0 s.core, m := s.m } := by
  unfold overOvdBlocks
  show (overOvdPrinters { core := reframe c0 c, m := overOvdDriver c m }).bind _ = _
  rw [overOvdPrinters_reframe]
  show ((overOvdPrinters { core := c, m := overOvdDriver c m }).bind _).bind _ =
    ((overOvdPrinters { core := c, m := overOvdDriver c m }).bind _).bind _
  cases overOvdPrinters { core := c, m := overOvdDriver c m } with
  | next s => exact overOvdComments_reframe c0 s.core s.m
  | discard r => rfl
  | fatal => rfl
  | undefined => rfl

theorem overOvdFunctionality_reframe (c0 c : Core) (m : OvdSt) :
    overOvdFunctionality { core := reframe c0 c, m := m } =
      (overOvdFunctionality { core := c, m := m }).bind fun s =>
        .next { core := reframe c0 s.core, m := s.m } := by
  unfold overOvdFunctionality
  show (if c.nestinglevel < m.indfunctionality then _ else _) = _
  split
  · cases m.lastdfunctionality with
    | none => rfl
    | some p =>
      by_cases hp : p ≤ c.out.length
      · have hp2 : p ≤ (reframe c0 c).out.length := hp
        simp only [if_pos hp, if_pos hp2]
        rfl
      · have hp2 : ¬ p ≤ (reframe c0 c).out.length := hp
        simp only [if_neg hp, if_neg hp2]
        rfl
  · rfl

theorem overOvdEntry_reframe (ctx : OvCtx) (c0 c : Core) (m : OvdSt) :
    overOvdEntry ctx { core := reframe c0 c, m := m } =
      (overOvdEntry ctx { core := c, m := m }).bind fun s =>
        .next { core := reframe c0 s.core, m := s.m } :=
  overOvdFunctionality_reframe c0 c (overOvdIds ctx c m)

theorem ovdCutPrototype_reframe (c0 c : Core) (m : OvdSt) :
    ovdCutPrototype { core := reframe c0 c, m := m } =
      (ovdCutPrototype { core := c, m := m }).bind fun s =>
        .next { core := reframe c0 s.core, m := s.m } := by
  unfold ovdCutPrototype
  show (if m.returned = true then _ else _) = _
  split
  · rfl
  · cases m.lastprototype with
    | none => rfl
    | some p =>
      show (deleteSpan (reframe c0 c) p).bind _ = ((deleteSpan c p).bind _).bind _
      rw [deleteSpan_reframe]
      cases deleteSpan c p <;> rfl

theorem overOvdPrototype_reframe (ctx : OvCtx) (c0 c : Core) (m : OvdSt) :
    overOvdPrototype ctx { core := reframe c0 c, m := m } =
      (overOvdPrototype ctx { core := c, m := m }).bind fun s =>
        .next { core := reframe c0 s.core, m := s.m } := by
  unfold overOvdPrototype
  show (if c.nestinglevel < m.inprototype then
    (ovdRegister ctx c.currtagbody { m with inprototype := 0 }).bind _ else _) = _
  split
  · show _ = ((ovdRegister ctx c.currtagbody { m with inprototype := 0 }).bind _).bind _
    cases ovdRegister ctx c.currtagbody { m with inprototype := 0 } with
    | next m2 => exact ovdCutPrototype_reframe c0 c m2
    | discard r => rfl
    | fatal => rfl
    | undefined => rfl
  · rfl

/-- The end action of the overview mode for driver files reads the nesting level,
the text in front of the tag and the scanned part of the buffer, and writes the
scanned part of the buffer. -/
theorem ovdEnd_reframe (ctx : OvCtx) (c0 c : Core) (m : OvdSt) :
    ovdEnd ctx { core := reframe c0 c, m := m } =
      (ovdEnd ctx { core := c, m := m }).bind fun s =>
        .next { core := reframe c0 s.core, m := s.m } := by
  unfold ovdEnd
  show (if m.returned = true then _ else _) = _
  split
  · rfl
  · show (if m.paramfault = true then _ else _) = _
    split
    · rfl
    · rw [overOvdBlocks_reframe]
      cases overOvdBlocks { core := c, m := m } with
      | next s1 =>
        simp only [Step.bind_next]
        rw [overOvdEntry_reframe]
        cases overOvdEntry ctx { core := s1.core, m := s1.m } with
        | next s2 =>
          simp only [Step.bind_next]
          exact overOvdPrototype_reframe ctx c0 s2.core _
        | discard r => rfl
        | fatal => rfl
        | undefined => rfl
      | discard r => rfl
      | fatal => rfl
      | undefined => rfl

theorem deleteSpan_nonempty (c c1 : Core) (p : Nat) (h : deleteSpan c p = .next c1) :
    c1.out ≠ [] := by
  unfold deleteSpan at h
  split at h
  · rename_i hp
    cases h
    intro h0
    have := congrArg List.length h0
    simp only [List.length_take, List.length_nil] at this
    omega
  · cases h

theorem overOvdPrinters_nonempty (s s1 : OvdState) (h : overOvdPrinters s = .next s1)
    (hne : s.core.out ≠ []) : s1.core.out ≠ [] := by
  unfold overOvdPrinters at h
  split at h
  · split at h
    · obtain ⟨c1, h1, h⟩ := Step.bind_eq_next h
      cases h
      exact deleteSpan_nonempty _ _ _ h1
    · cases h; exact hne
  · cases h; exact hne

theorem overOvdComments_nonempty (s s1 : OvdState) (h : overOvdComments s = .next s1)
    (hne : s.core.out ≠ []) : s1.core.out ≠ [] := by
  unfold overOvdComments at h
  split at h
  · split at h
    · split at h
      · obtain ⟨c1, h1, h⟩ := Step.bind_eq_next h
        cases h
        exact deleteSpan_nonempty _ _ _ h1
      · cases h; exact hne
    · cases h; exact hne
  · cases h; exact hne

theorem overOvdFunctionality_nonempty (s s1 : OvdState) (h : overOvdFunctionality s = .next s1)
    (hne : s.core.out ≠ []) : s1.core.out ≠ [] := by
  unfold overOvdFunctionality at h
  split at h
  · split at h
    · split at h
      · cases h; exact hne
      · cases h
    · cases h; exact hne
  · cases h; exact hne

theorem ovdCutPrototype_nonempty (s s1 : OvdState) (h : ovdCutPrototype s = .next s1)
    (hne : s.core.out ≠ []) : s1.core.out ≠ [] := by
  unfold ovdCutPrototype at h
  split at h
  · cases h; exact hne
  · split at h
    · obtain ⟨c1, h1, h⟩ := Step.bind_eq_next h
      cases h
      exact deleteSpan_nonempty _ _ _ h1
    · cases h; exact hne

theorem ovdEnd_nonempty (ctx : OvCtx) (s s1 : OvdState) (h : ovdEnd ctx s = .next s1)
    (hne : s.core.out ≠ []) : s1.core.out ≠ [] := by
  unfold ovdEnd at h
  split at h
  · cases h; exact hne
  · split at h
    · cases h
    · obtain ⟨t1, h1, h⟩ := Step.bind_eq_next h
      obtain ⟨t2, h2, h⟩ := Step.bind_eq_next h
      unfold overOvdBlocks at h1
      obtain ⟨t0, h0, h1⟩ := Step.bind_eq_next h1
      have n0 := overOvdPrinters_nonempty _ _ h0 hne
      have n1 := overOvdComments_nonempty _ _ h1 n0
      have n2 := overOvdFunctionality_nonempty _ _ h2 n1
      unfold overOvdPrototype at h
      split at h
      · obtain ⟨m2, _, h⟩ := Step.bind_eq_next h
        exact ovdCutPrototype_nonempty _ _ h n2
      · cases h; exact n2

/-- The end action of the overview mode for driver files leaves every
mode-independent variable but the scanned part of the buffer alone. -/
theorem ovdEnd_frame (ctx : OvCtx) (c : Core) (m : OvdSt) (s1 : OvdState)
    (h : ovdEnd ctx { core := c, m := m } = .next s1) : s1.core = reframe c s1.core := by
  have e := ovdEnd_reframe ctx c c m
  rw [reframe_self, h] at e
  simp only [Step.bind_next, Step.next.injEq] at e
  exact congrArg PState.core e

theorem flagSafe_ovDriverHooks (ctx : OvCtx) : FlagSafe (ovDriverHooks ctx) where
  onName := by
    intro s s1 h
    simp only [ovDriverHooks, ovdName] at h
    split at h
    · cases h; exact sameFlags_refl _
    · split at h
      · cases h
      · obtain ⟨m1, _, h⟩ := Step.bind_eq_next h
        cases h
        show SameFlags (ovdNameCore s.core) s.core
        unfold ovdNameCore
        split
        · exact sameFlags_removeHeader _
        · exact sameFlags_refl _
  onParam := by
    intro s
    show SameFlags (ovdParam s).core s.core
    unfold ovdParam
    split <;> exact sameFlags_refl _
  onEnd := by
    intro s s1 h
    have e := ovdEnd_frame ctx s.core s.m s1 h
    rw [e]
    exact ⟨rfl, rfl, rfl, rfl, rfl, rfl, rfl⟩

/-- The effect of a tag without parameters in the overview mode for driver
files, for every tag but the opening tag of the root element: the state follows
the effect `ovdAbsTok`. -/
theorem ovd_tok (ctx : OvCtx) (tok : Tok) (s : OvdState) (a1 : OvAbs OvdSt)
    (hb : Behind s.core) (hp : tok.params = []) (hr : ¬ tok.Opens (lit "driver"))
    (ha : ovdAbsTok ctx (OvAbs.ofState s) tok = .next a1) :
    ∃ s1, runTok (ovDriverHooks ctx) tok s = .next s1 ∧ Behind s1.core ∧
      OvAbs.ofState s1 = a1 := by
  unfold ovdAbsTok at ha
  obtain ⟨sN, hN, ha⟩ := Step.bind_eq_next ha
  obtain ⟨sE, hE, ha⟩ := Step.bind_eq_next ha
  cases ha
  have hr2 : ¬ ((atTagName (advanceBy s tok.text) tok.kind.nameType tok.kind.start
      tok.nm).core.currtagname = lit "driver" ∧
      (atTagName (advanceBy s tok.text) tok.kind.nameType tok.kind.start
      tok.nm).core.tagtype = TAG_OPEN) := by
    intro h
    refine hr ⟨h.1, ?_⟩
    intro hk
    have h2 : TagKind.closing.nameType = TAG_OPEN := by rw [← hk]; exact h.2
    exact absurd h2 (by decide)
  have hname := ovdName_congr
    (atTagName (advanceBy s tok.text) tok.kind.nameType tok.kind.start tok.nm).core
    (tok.ovNameProbe s.core.nestinglevel s.core.out) s.m sN rfl rfl rfl rfl hb.mark hr2 hN
  obtain ⟨e1, e2, e3, e4⟩ := endOf_plain tok s hb hp
  have hrun := runTok_plain (ovDriverHooks ctx) tok s
    (PState.mk (atTagName (advanceBy s tok.text) tok.kind.nameType tok.kind.start tok.nm).core
      sN.m) hb hp hname rfl
  have hfr := reframe_eq (endOf tok.kind []
    (atTagName (advanceBy s tok.text) tok.kind.nameType tok.kind.start tok.nm).core tok.text)
    (tok.ovEndProbe s.core.nestinglevel s.core.out) e1 e2 e3
  have hend := ovdEnd_reframe ctx (endOf tok.kind []
    (atTagName (advanceBy s tok.text) tok.kind.nameType tok.kind.start tok.nm).core tok.text)
    (tok.ovEndProbe s.core.nestinglevel s.core.out) sN.m
  rw [hfr] at hend
  have hE2 : ovdEnd ctx { core := tok.ovEndProbe s.core.nestinglevel s.core.out, m := sN.m } =
      .next sE := hE
  rw [hE2] at hend
  simp only [Step.bind_next] at hend
  have hne : sE.core.out ≠ [] := by
    refine ovdEnd_nonempty ctx _ sE hE2 ?_
    show s.core.out ++ tok.render ≠ []
    intro h0
    exact hb.nonempty (List.append_eq_nil.mp h0).1
  refine ⟨markEnd (PState.mk (reframe (endOf tok.kind []
    (atTagName (advanceBy s tok.text) tok.kind.nameType tok.kind.start tok.nm).core tok.text)
    sE.core) sE.m), ?_, ⟨e4, rfl, hne⟩, rfl⟩
  rw [hrun]
  show (ovdEnd ctx _).bind _ = _
  rw [hend]
  rfl

theorem ovd_toks (ctx : OvCtx) (toks : List Tok) (s : OvdState) (a1 : OvAbs OvdSt)
    (hb : Behind s.core) (hp : ∀ t ∈ toks, t.params = [])
    (hr : ∀ t ∈ toks, ¬ t.Opens (lit "driver"))
    (ha : ovdAbsRun ctx toks (OvAbs.ofState s) = .next a1) :
    ∃ s1, runToks (ovDriverHooks ctx) toks s = .next s1 ∧ Behind s1.core ∧
      OvAbs.ofState s1 = a1 := by
  induction toks generalizing s with
  | nil =>
    cases ha
    exact ⟨s, rfl, hb, rfl⟩
  | cons t l ih =>
    simp only [ovdAbsRun] at ha
    obtain ⟨a2, h2, ha⟩ := Step.bind_eq_next ha
    obtain ⟨s2, e2, b2, o2⟩ := ovd_tok ctx t s a2 hb (hp t (by simp)) (hr t (by simp)) h2
    rw [← o2] at ha
    obtain ⟨s3, e3, b3, o3⟩ := ih s2 b2 (fun t1 h1 => hp t1 (by simp [h1]))
      (fun t1 h1 => hr t1 (by simp [h1])) ha
    refine ⟨s3, ?_, b3, o3⟩
    simp only [runToks]
    rw [e2]
    exact e3

/-! ## The return from inside the scan loop -/

/-- A loop that is left as soon as `stop` holds ends with the variables of the
mode that the full scan ends with, when the actions of the mode do nothing once
`stop` holds; and it ends in the state of the full scan when `stop` does not
hold there. -/
theorem stopLoop_of_scanLoop {σ : Type} (h : Hooks σ) (stop : σ → Bool)
    (hk : Respects h (fun a b => stop a = true → b = a)) (s s1 : PState σ) (data : CStr)
    (hs : scanLoop h s data = .next s1) :
    ∃ s2, stopLoop h stop s data = .next s2 ∧ s2.m = s1.m ∧ (stop s1.m = false → s2 = s1) := by
  induction data generalizing s with
  | nil =>
    simp only [scanLoop, Step.next.injEq] at hs
    exact ⟨s, rfl, by rw [hs], fun _ => hs⟩
  | cons ch rest ih =>
    by_cases hst : stop s.m = true
    · have hr := scanLoop_rel h _ hk s s1 (ch :: rest) hs hst
      refine ⟨s, ?_, hr.symm, ?_⟩
      · unfold stopLoop
        rw [if_pos hst]
      · intro h0
        rw [hr, hst] at h0
        cases h0
    · rw [scanLoop_cons] at hs
      obtain ⟨s3, h3, h4⟩ := Step.bind_eq_next hs
      obtain ⟨s2, e2, e3, e4⟩ := ih s3 h4
      refine ⟨s2, ?_, e3, e4⟩
      unfold stopLoop
      rw [if_neg hst, h3]
      exact e2

theorem frozen_ovDriverHooks (ctx : OvCtx) :
    Respects (ovDriverHooks ctx) (fun a b => a.returned = true → b = a) where
  refl := fun _ _ => rfl
  trans := by
    intro a b c h1 h2 ha
    have hb := h1 ha
    rw [hb] at h2
    rw [h2 ha]
  onName := by
    intro s s1 h hr
    simp only [ovDriverHooks, ovdName, if_pos hr, Step.next.injEq] at h
    rw [← h]
  onParam := by
    intro s hr
    show (ovdParam s).m = s.m
    unfold ovdParam
    rw [if_pos hr]
  onEnd := by
    intro s s1 h hr
    simp only [ovDriverHooks, ovdEnd, if_pos hr, Step.next.injEq] at h
    rw [← h]

/-! ## The driver documents of a small database -/

theorem ovdParamM_id (c : Core) (m : OvdSt) (a : CStr) (hn : c.currtagname = lit "driver")
    (hp : c.currtagparam = lit "id=\"driver/" ++ a ++ [chDQ]) :
    ovdParamM c m = { m with cdriver := a } := by
  have e1 : strstr (lit "id=\"driver/" ++ a ++ [chDQ]) (lit "id") =
      some (lit "id=\"driver/" ++ a ++ [chDQ]) :=
    strstr_prefix _ _ rfl (by simp [lit])
  have e2 : (lit "id=\"driver/" ++ a ++ [chDQ]).drop 2 =
      '=' :: chDQ :: (lit "driver/" ++ a ++ [chDQ]) := rfl
  have e3 : strstr ('=' :: chDQ :: (lit "driver/" ++ a ++ [chDQ])) (lit "driver/") =
      some (lit "driver/" ++ a ++ [chDQ]) := by
    rw [strstr_skip '=' (chDQ :: (lit "driver/" ++ a ++ [chDQ])) (lit "driver/") (by rfl),
      strstr_skip chDQ (lit "driver/" ++ a ++ [chDQ]) (lit "driver/") (by rfl)]
    exact strstr_prefix (lit "driver/" ++ a ++ [chDQ]) (lit "driver/")
      (isPrefixOf_append2 _ _ _) (by simp [lit])
  have e4 : ((lit "driver/" ++ a ++ [chDQ]).drop 7).dropLast = a := by
    show (a ++ [chDQ]).dropLast = a
    exact List.dropLast_concat
  unfold ovdParamM
  rw [if_pos hn, hp, e1]
  simp only [e2, e3, e4]

theorem ovdParam_live (s : OvdState) (h : s.m.returned = false) :
    ovdParam s = { s with m := ovdParamM s.core s.m } := by
  unfold ovdParam
  rw [if_neg (by rw [h]; decide)]

/-- The variables of the mode behind the opening tag of the root element in the
overview mode for driver files. -/
theorem ovd_root (ctx : OvCtx) (cp cd df : CStr) (pl : Catalog) (a suf : CStr)
    (ha : ∀ c ∈ a, c ≠ chDQ ∧ c ≠ chSQ) :
    ∃ sR, scanPrefix (ovDriverHooks ctx) (ovdInit cp cd df pl) (driverRootTag a) suf = .next sR ∧
      Behind sR.core ∧
      OvAbs.ofState sR =
        { lvl := 2, out := driverRootTag a,
          m := { indriver := 1, cprinter := cp, cdriver := a, dfunctionalityentry := df,
                 printerlist := pl } } := by
  have hw : TagWord (lit "id=\"driver/" ++ a ++ [chDQ]) := by
    have := tagWord_id (lit "driver/") a ha (by decide)
    have e : lit "id=" ++ [chDQ] ++ lit "driver/" ++ a ++ [chDQ] =
        lit "id=\"driver/" ++ a ++ [chDQ] := by simp [lit, chDQ]
    rw [e] at this
    exact this
  have e : driverRootTag a =
      ('<' :: lit "driver" ++ [' ']) ++ ((lit "id=\"driver/" ++ a ++ [chDQ]) ++ ['>']) := by
    simp [driverRootTag, lit, chDQ]
  rw [e, scanPrefix_append,
    scan_tag_head (ovDriverHooks ctx) (ovdInit cp cd df pl) (lit "driver") _
      ⟨rfl, rfl, rfl, rfl, rfl, rfl⟩ tagName_driver]
  have hname : (ovDriverHooks ctx).onName (atTagName (ovdInit cp cd df pl) TAG_OPEN ['<']
      (lit "driver")) =
      .next (PState.mk
        (removeHeader (atTagName (ovdInit cp cd df pl) TAG_OPEN ['<'] (lit "driver")).core)
        { indriver := 1, cprinter := cp, cdriver := cd, dfunctionalityentry := df,
          printerlist := pl }) := rfl
  rw [hname]
  simp only [Step.bind_next]
  rw [scan_param_gt (ovDriverHooks ctx) (flagSafe_ovDriverHooks ctx) _ _ suf
    ⟨rfl, rfl, rfl, rfl, rfl, rfl⟩ rfl hw]
  have hpar : (ovDriverHooks ctx).onParam (atParam (advance (PState.mk
      (removeHeader (atTagName (ovdInit cp cd df pl) TAG_OPEN ['<'] (lit "driver")).core)
      { indriver := 1, cprinter := cp, cdriver := cd, dfunctionalityentry := df,
        printerlist := pl }) ' ') (lit "id=\"driver/" ++ a ++ [chDQ])) =
      PState.mk (atParam (advance (PState.mk
        (removeHeader (atTagName (ovdInit cp cd df pl) TAG_OPEN ['<'] (lit "driver")).core)
        (ovdInit cp cd df pl).m) ' ') (lit "id=\"driver/" ++ a ++ [chDQ])).core
        { indriver := 1, cprinter := cp, cdriver := a, dfunctionalityentry := df,
          printerlist := pl } := by
    dsimp only [ovDriverHooks]
    rw [ovdParam_live _ rfl, ovdParamM_id _ _ a rfl rfl]
    rfl
  rw [hpar]
  refine ⟨markEnd (PState.mk
    { (atParam (advance (PState.mk
        (removeHeader (atTagName (ovdInit cp cd df pl) TAG_OPEN ['<'] (lit "driver")).core)
        (ovdInit cp cd df pl).m) ' ') (lit "id=\"driver/" ++ a ++ [chDQ])).core with
      intag := false, currtagbody := [], nestinglevel := 2,
      out := (atParam (advance (PState.mk
        (removeHeader (atTagName (ovdInit cp cd df pl) TAG_OPEN ['<'] (lit "driver")).core)
        (ovdInit cp cd df pl).m) ' ') (lit "id=\"driver/" ++ a ++ [chDQ])).core.out ++ ['>'] }
    { indriver := 1, cprinter := cp, cdriver := a, dfunctionalityentry := df,
      printerlist := pl }),
    rfl, ⟨⟨rfl, rfl, rfl, rfl, rfl, rfl⟩, rfl, ?_⟩, ?_⟩
  · exact List.append_ne_nil_of_right_ne_nil _ (List.cons_ne_nil _ _)
  · show OvAbs.mk _ _ _ = _
    congr 1

theorem ovdAbsRun_append (ctx : OvCtx) (l1 l2 : List Tok) (a : OvAbs OvdSt) :
    ovdAbsRun ctx (l1 ++ l2) a = (ovdAbsRun ctx l1 a).bind (ovdAbsRun ctx l2) := by
  induction l1 generalizing a with
  | nil => rfl
  | cons t l ih =>
    simp only [List.cons_append, ovdAbsRun]
    cases ovdAbsTok ctx a t with
    | next a1 => exact ih a1
    | discard r => rfl
    | fatal => rfl
    | undefined => rfl

theorem driverBody_head (ctx : OvCtx) (O cp a df : CStr) (pl : Catalog) :
    ovdAbsRun ctx [tokOpen (lit "\n ") (lit "execution"), tokOpen (lit "\n  ") (lit "prototype")]
      { lvl := 2, out := O,
        m := { indriver := 1, cprinter := cp, cdriver := a, dfunctionalityentry := df,
               printerlist := pl } } =
      .next { lvl := 4, out := O ++ lit "\n <execution>" ++ lit "\n  <prototype>",
              m := { indriver := 1, inexecution := 3, inprototype := 4,
                     lastprototype := some ((O ++ lit "\n <execution>").length - 1 + 1),
                     cprinter := cp, cdriver := a, dfunctionalityentry := df,
                     printerlist := pl } } := by
  have r1 : (tokOpen (lit "\n ") (lit "execution")).render = lit "\n <execution>" := by decide
  have r2 : (tokOpen (lit "\n  ") (lit "prototype")).render = lit "\n  <prototype>" := by decide
  rw [← r1, ← r2]
  simp +decide [ovdAbsRun, ovdAbsTok, Tok.ovNameProbe, Tok.ovEndProbe,
    ovdName, ovdNameM, ovdNameCore, ovdEnd, overOvdBlocks, overOvdDriver, overOvdPrinters,
    overOvdComments, overOvdEntry, overOvdIds, overOvdFunctionality, overOvdPrinter,
    overOvdPrototype, TagKind.nameType, TagKind.endType, TAG_OPEN, TAG_CLOSE, Step.bind]

theorem driverBody_tail (ctx : OvCtx) (O cp a df : CStr) (lp : Option Nat) (hp : Bool)
    (pl : Catalog) :
    ovdAbsRun ctx [tokClose (lit "\n ") (lit "execution"), tokClose (lit "\n") (lit "driver")]
      { lvl := 3, out := O,
        m := { indriver := 1, inexecution := 3, lastprototype := lp, driverhasproto := hp,
               cprinter := cp, cdriver := a, dfunctionalityentry := df, printerlist := pl } } =
      .next { lvl := 1, out := O ++ lit "\n </execution>\n</driver>",
              m := { lastprototype := lp, driverhasproto := hp,
                     cprinter := cp, cdriver := a, dfunctionalityentry := df,
                     printerlist := pl } } := by
  have r1 : lit "\n </execution>\n</driver>" = (tokClose (lit "\n ") (lit "execution")).render ++
      (tokClose (lit "\n") (lit "driver")).render := by decide
  rw [r1]
  simp +decide [ovdAbsRun, ovdAbsTok, Tok.ovNameProbe, Tok.ovEndProbe,
    ovdName, ovdNameM, ovdNameCore, ovdEnd, overOvdBlocks, overOvdDriver, overOvdPrinters,
    overOvdComments, overOvdEntry, overOvdIds, overOvdFunctionality, overOvdPrinter,
    overOvdPrototype, TagKind.nameType, TagKind.endType, TAG_OPEN, TAG_CLOSE, Step.bind]

theorem overOvdPrototype_fires (ctx : OvCtx) (s : OvdState)
    (h : s.core.nestinglevel < s.m.inprototype) :
    overOvdPrototype ctx s =
      (ovdRegister ctx s.core.currtagbody { s.m with inprototype := 0 }).bind fun m2 =>
        ovdCutPrototype { s with m := m2 } := by
  unfold overOvdPrototype
  rw [if_pos h]

theorem ovdCutPrototype_live (s : OvdState) (p : Nat) (h : s.m.returned = false)
    (hp : s.m.lastprototype = some p) :
    ovdCutPrototype s = (deleteSpan s.core p).bind fun c1 => .next { core := c1, m := s.m } := by
  unfold ovdCutPrototype
  rw [if_neg (by rw [h]; decide), hp]

theorem ovdEnd_live (ctx : OvCtx) (s : OvdState) (h1 : s.m.returned = false)
    (h2 : s.m.paramfault = false) :
    ovdEnd ctx s =
      (overOvdBlocks s).bind fun s1 =>
        (overOvdEntry ctx s1).bind fun s2 =>
          overOvdPrototype ctx { s2 with m := overOvdPrinter s2.m s2.core.nestinglevel } := by
  unfold ovdEnd
  rw [if_neg (by rw [h1]; decide), if_neg (by rw [h2]; decide)]

/-- The end of the `prototype` element with a command line that is not blank,
with `pid` set: the driver is registered under the first entry of the list and
the element is cut out of the buffer. -/
theorem driverBody_protoShown (ctx : OvCtx) (q O cp a df p : CStr) (mark : Nat)
    (e : CatalogEntry) (l : Catalog) (hq : ctx.pid = some q)
    (hne : p.dropWhile isPpdBlank ≠ []) (h1 : 1 ≤ mark) (h2 : mark ≤ O.length) :
    ovdAbsTok ctx
      { lvl := 4, out := O,
        m := { indriver := 1, inexecution := 3, inprototype := 4, lastprototype := some mark,
               cprinter := cp, cdriver := a, dfunctionalityentry := df,
               printerlist := e :: l } }
      (tokClose p (lit "prototype")) =
      .next { lvl := 3, out := O.take mark,
              m := { indriver := 1, inexecution := 3, lastprototype := some mark,
                     driverhasproto := true, cprinter := cp, cdriver := a,
                     dfunctionalityentry := df,
                     printerlist := { e with drivers := addDriverOnce a e.drivers } :: l } } := by
  have hd : deleteSpan ((tokClose p (lit "prototype")).ovEndProbe 4 O) mark =
      .next { (tokClose p (lit "prototype")).ovEndProbe 4 O with out := O.take mark } := by
    unfold deleteSpan
    have hl : mark ≤ ((tokClose p (lit "prototype")).ovEndProbe 4 O).out.length := by
      show mark ≤ (O ++ (tokClose p (lit "prototype")).render).length
      rw [List.length_append]
      omega
    rw [if_pos ⟨h1, hl⟩]
    show Step.next { (tokClose p (lit "prototype")).ovEndProbe 4 O with
      out := (O ++ (tokClose p (lit "prototype")).render).take mark } = _
    rw [List.take_append_of_le_length h2]
  have hN : ovdName (PState.mk ((tokClose p (lit "prototype")).ovNameProbe 4 O)
      { indriver := 1, inexecution := 3, inprototype := 4, lastprototype := some mark,
        cprinter := cp, cdriver := a, dfunctionalityentry := df, printerlist := e :: l }) =
      .next (PState.mk ((tokClose p (lit "prototype")).ovNameProbe 4 O)
        { indriver := 1, inexecution := 3, inprototype := 5, lastprototype := some mark,
          cprinter := cp, cdriver := a, dfunctionalityentry := df, printerlist := e :: l }) := rfl
  have hB : overOvdBlocks (PState.mk ((tokClose p (lit "prototype")).ovEndProbe 4 O)
      { indriver := 1, inexecution := 3, inprototype := 5, lastprototype := some mark,
        cprinter := cp, cdriver := a, dfunctionalityentry := df, printerlist := e :: l }) =
      .next (PState.mk ((tokClose p (lit "prototype")).ovEndProbe 4 O)
        { indriver := 1, inexecution := 3, inprototype := 5, lastprototype := some mark,
          cprinter := cp, cdriver := a, dfunctionalityentry := df, printerlist := e :: l }) := rfl
  have hE : overOvdEntry ctx (PState.mk ((tokClose p (lit "prototype")).ovEndProbe 4 O)
      { indriver := 1, inexecution := 3, inprototype := 5, lastprototype := some mark,
        cprinter := cp, cdriver := a, dfunctionalityentry := df, printerlist := e :: l }) =
      .next (PState.mk ((tokClose p (lit "prototype")).ovEndProbe 4 O)
        { indriver := 1, inexecution := 3, inprototype := 5, lastprototype := some mark,
          cprinter := cp, cdriver := a, dfunctionalityentry := df, printerlist := e :: l }) := rfl
  have hR : ovdRegister ctx p
      { indriver := 1, inexecution := 3, inprototype := 0, lastprototype := some mark,
        cprinter := cp, cdriver := a, dfunctionalityentry := df, printerlist := e :: l } =
      .next { indriver := 1, inexecution := 3, lastprototype := some mark,
              driverhasproto := true, cprinter := cp, cdriver := a, dfunctionalityentry := df,
              printerlist := { e with drivers := addDriverOnce a e.drivers } :: l } := by
    unfold ovdRegister
    rw [if_pos (by rw [hq]; rfl), if_pos hne]
    rfl
  have hP : overOvdPrototype ctx (PState.mk ((tokClose p (lit "prototype")).ovEndProbe 4 O)
      { indriver := 1, inexecution := 3, inprototype := 5, lastprototype := some mark,
        cprinter := cp, cdriver := a, dfunctionalityentry := df, printerlist := e :: l }) =
      .next (PState.mk { (tokClose p (lit "prototype")).ovEndProbe 4 O with out := O.take mark }
        { indriver := 1, inexecution := 3, lastprototype := some mark,
          driverhasproto := true, cprinter := cp, cdriver := a, dfunctionalityentry := df,
          printerlist := { e with drivers := addDriverOnce a e.drivers } :: l }) := by
    rw [overOvdPrototype_fires ctx _ (show (3 : Int) < 5 by decide)]
    show (ovdRegister ctx p _).bind _ = _
    rw [hR]
    simp only [Step.bind_next]
    rw [ovdCutPrototype_live _ mark rfl rfl]
    show (deleteSpan ((tokClose p (lit "prototype")).ovEndProbe 4 O) mark).bind _ = _
    rw [hd]
    rfl
  unfold ovdAbsTok
  rw [hN]
  simp only [Step.bind_next]
  rw [ovdEnd_live ctx _ rfl rfl, hB]
  simp only [Step.bind_next]
  rw [hE]
  simp only [Step.bind_next]
  have hO : overOvdPrinter
      { indriver := 1, inexecution := 3, inprototype := 5, lastprototype := some mark,
        cprinter := cp, cdriver := a, dfunctionalityentry := df, printerlist := e :: l }
      ((tokClose p (lit "prototype")).ovEndProbe 4 O).nestinglevel =
      { indriver := 1, inexecution := 3, inprototype := 5, lastprototype := some mark,
        cprinter := cp, cdriver := a, dfunctionalityentry := df, printerlist := e :: l } := rfl
  rw [hO, hP]
  rfl

/-- The end of the `prototype` element with a blank command line, with `pid`
set: the function returns, and the list is as it was. -/
theorem driverBody_protoBlank (ctx : OvCtx) (q O cp a df p : CStr) (lp : Option Nat)
    (pl : Catalog) (hq : ctx.pid = some q) (hbl : p.dropWhile isPpdBlank = []) :
    ovdAbsTok ctx
      { lvl := 4, out := O,
        m := { indriver := 1, inexecution := 3, inprototype := 4, lastprototype := lp,
               cprinter := cp, cdriver := a, dfunctionalityentry := df, printerlist := pl } }
      (tokClose p (lit "prototype")) =
      .next { lvl := 3, out := O ++ (tokClose p (lit "prototype")).render,
              m := { indriver := 1, inexecution := 3, lastprototype := lp,
                     cprinter := cp, cdriver := a, dfunctionalityentry := df,
                     printerlist := pl, returned := true } } := by
  have hN : ovdName (PState.mk ((tokClose p (lit "prototype")).ovNameProbe 4 O)
      { indriver := 1, inexecution := 3, inprototype := 4, lastprototype := lp,
        cprinter := cp, cdriver := a, dfunctionalityentry := df, printerlist := pl }) =
      .next (PState.mk ((tokClose p (lit "prototype")).ovNameProbe 4 O)
        { indriver := 1, inexecution := 3, inprototype := 5, lastprototype := lp,
          cprinter := cp, cdriver := a, dfunctionalityentry := df, printerlist := pl }) := rfl
  have hB : overOvdBlocks (PState.mk ((tokClose p (lit "prototype")).ovEndProbe 4 O)
      { indriver := 1, inexecution := 3, inprototype := 5, lastprototype := lp,
        cprinter := cp, cdriver := a, dfunctionalityentry := df, printerlist := pl }) =
      .next (PState.mk ((tokClose p (lit "prototype")).ovEndProbe 4 O)
        { indriver := 1, inexecution := 3, inprototype := 5, lastprototype := lp,
          cprinter := cp, cdriver := a, dfunctionalityentry := df, printerlist := pl }) := rfl
  have hE : overOvdEntry ctx (PState.mk ((tokClose p (lit "prototype")).ovEndProbe 4 O)
      { indriver := 1, inexecution := 3, inprototype := 5, lastprototype := lp,
        cprinter := cp, cdriver := a, dfunctionalityentry := df, printerlist := pl }) =
      .next (PState.mk ((tokClose p (lit "prototype")).ovEndProbe 4 O)
        { indriver := 1, inexecution := 3, inprototype := 5, lastprototype := lp,
          cprinter := cp, cdriver := a, dfunctionalityentry := df, printerlist := pl }) := rfl
  have hR : ovdRegister ctx p
      { indriver := 1, inexecution := 3, inprototype := 0, lastprototype := lp,
        cprinter := cp, cdriver := a, dfunctionalityentry := df, printerlist := pl } =
      .next { indriver := 1, inexecution := 3, lastprototype := lp,
              cprinter := cp, cdriver := a, dfunctionalityentry := df,
              printerlist := pl, returned := true } := by
    unfold ovdRegister
    rw [if_pos (by rw [hq]; rfl), if_neg (by rw [hbl]; exact fun h => h rfl)]
  have hP : overOvdPrototype ctx (PState.mk ((tokClose p (lit "prototype")).ovEndProbe 4 O)
      { indriver := 1, inexecution := 3, inprototype := 5, lastprototype := lp,
        cprinter := cp, cdriver := a, dfunctionalityentry := df, printerlist := pl }) =
      .next (PState.mk ((tokClose p (lit "prototype")).ovEndProbe 4 O)
        { indriver := 1, inexecution := 3, lastprototype := lp,
          cprinter := cp, cdriver := a, dfunctionalityentry := df,
          printerlist := pl, returned := true }) := by
    rw [overOvdPrototype_fires ctx _ (show (3 : Int) < 5 by decide)]
    show (ovdRegister ctx p _).bind _ = _
    rw [hR]
    rfl
  unfold ovdAbsTok
  rw [hN]
  simp only [Step.bind_next]
  rw [ovdEnd_live ctx _ rfl rfl, hB]
  simp only [Step.bind_next]
  rw [hE]
  simp only [Step.bind_next]
  have hO : overOvdPrinter
      { indriver := 1, inexecution := 3, inprototype := 5, lastprototype := lp,
        cprinter := cp, cdriver := a, dfunctionalityentry := df, printerlist := pl }
      ((tokClose p (lit "prototype")).ovEndProbe 4 O).nestinglevel =
      { indriver := 1, inexecution := 3, inprototype := 5, lastprototype := lp,
        cprinter := cp, cdriver := a, dfunctionalityentry := df, printerlist := pl } := rfl
  rw [hO, hP]
  rfl

/-- The tags behind the return from inside the scan loop change no variable of
the mode. -/
theorem ovdAbsRun_returned (ctx : OvCtx) (toks : List Tok) (a : OvAbs OvdSt)
    (h : a.m.returned = true) : ∃ o, ovdAbsRun ctx toks a = .next o ∧ o.m = a.m := by
  induction toks generalizing a with
  | nil => exact ⟨a, rfl, rfl⟩
  | cons t l ih =>
    have e : ovdAbsTok ctx a t =
        .next { lvl := a.lvl + t.kind.endType, out := a.out ++ t.render, m := a.m } := by
      unfold ovdAbsTok ovdName
      rw [if_pos h]
      simp only [Step.bind_next]
      unfold ovdEnd
      rw [if_pos h]
      rfl
    obtain ⟨o, h1, h2⟩ := ih { lvl := a.lvl + t.kind.endType, out := a.out ++ t.render, m := a.m } h
    refine ⟨o, ?_, h2⟩
    simp only [ovdAbsRun]
    rw [e]
    exact h1

theorem driverBody_clean (p : CStr) (hp : ∀ c ∈ p, c ≠ '<') :
    ∀ t ∈ driverBodyToks p, t.Clean ∧ t.params = [] ∧ ¬ t.Opens (lit "driver") := by
  intro t ht
  simp only [driverBodyToks, List.mem_cons, List.mem_singleton, List.not_mem_nil, or_false] at ht
  rcases ht with h | h | h | h | h <;> subst h
  · exact ⟨clean_tokOpen _ _ (by decide) (by decide), rfl, by decide⟩
  · exact ⟨clean_tokOpen _ _ (by decide) (by decide), rfl, by decide⟩
  · exact ⟨clean_tokClose _ _ hp (by decide), rfl, fun h => h.2 rfl⟩
  · exact ⟨clean_tokClose _ _ (by decide) (by decide), rfl, by decide⟩
  · exact ⟨clean_tokClose _ _ (by decide) (by decide), rfl, by decide⟩

/-- The variables of the mode behind the tags of the driver document of a
driver with a command line, with `pid` set: the driver is registered under the
first entry of the list and the `prototype` element has left the buffer. -/
theorem driverBody_shown (ctx : OvCtx) (q O cp a df p : CStr) (e : CatalogEntry) (l : Catalog)
    (hq : ctx.pid = some q) (hne : p.dropWhile isPpdBlank ≠ []) :
    ovdAbsRun ctx (driverBodyToks p)
      { lvl := 2, out := O,
        m := { indriver := 1, cprinter := cp, cdriver := a, dfunctionalityentry := df,
               printerlist := e :: l } } =
      .next { lvl := 1, out := O ++ lit "\n <execution>" ++ lit "\n </execution>\n</driver>",
              m := { lastprototype := some ((O ++ lit "\n <execution>").length - 1 + 1),
                     driverhasproto := true, cprinter := cp, cdriver := a,
                     dfunctionalityentry := df,
                     printerlist := { e with drivers := addDriverOnce a e.drivers } :: l } } := by
  have hm : (O ++ lit "\n <execution>").length - 1 + 1 = (O ++ lit "\n <execution>").length := by
    have : (O ++ lit "\n <execution>").length = O.length + 13 := by
      rw [List.length_append]
      rfl
    omega
  have h2 := driverBody_protoShown ctx q (O ++ lit "\n <execution>" ++ lit "\n  <prototype>")
    cp a df p ((O ++ lit "\n <execution>").length - 1 + 1) e l hq hne (by omega)
    (by rw [hm, List.length_append (O ++ lit "\n <execution>")]; omega)
  have ht : (O ++ lit "\n <execution>" ++ lit "\n  <prototype>").take
      ((O ++ lit "\n <execution>").length - 1 + 1) = O ++ lit "\n <execution>" := by
    rw [hm]
    exact List.take_left' rfl
  rw [ht] at h2
  have hsplit : driverBodyToks p =
      [tokOpen (lit "\n ") (lit "execution"), tokOpen (lit "\n  ") (lit "prototype")] ++
      (tokClose p (lit "prototype") ::
       [tokClose (lit "\n ") (lit "execution"), tokClose (lit "\n") (lit "driver")]) := rfl
  rw [hsplit, ovdAbsRun_append, driverBody_head]
  simp only [Step.bind_next]
  rw [ovdAbsRun, h2]
  simp only [Step.bind_next]
  exact driverBody_tail ctx _ cp a df _ true _

/-- The variables of the mode behind the tags of the driver document of a
driver with a blank command line, with `pid` set: the function has returned and
the list is as it was. -/
theorem driverBody_freed (ctx : OvCtx) (q O cp a df p : CStr) (pl : Catalog)
    (hq : ctx.pid = some q) (hbl : p.dropWhile isPpdBlank = []) :
    ∃ o, ovdAbsRun ctx (driverBodyToks p)
      { lvl := 2, out := O,
        m := { indriver := 1, cprinter := cp, cdriver := a, dfunctionalityentry := df,
               printerlist := pl } } = .next o ∧
      o.m.returned = true ∧ o.m.printerlist = pl := by
  have h2 := driverBody_protoBlank ctx q (O ++ lit "\n <execution>" ++ lit "\n  <prototype>")
    cp a df p (some ((O ++ lit "\n <execution>").length - 1 + 1)) pl hq hbl
  obtain ⟨o, h3, h4⟩ := ovdAbsRun_returned ctx
    [tokClose (lit "\n ") (lit "execution"), tokClose (lit "\n") (lit "driver")]
    { lvl := 3, out := O ++ lit "\n <execution>" ++ lit "\n  <prototype>" ++
        (tokClose p (lit "prototype")).render,
      m := { indriver := 1, inexecution := 3,
             lastprototype := some ((O ++ lit "\n <execution>").length - 1 + 1),
             cprinter := cp, cdriver := a, dfunctionalityentry := df,
             printerlist := pl, returned := true } } rfl
  refine ⟨o, ?_, by rw [h4], by rw [h4]⟩
  have hsplit : driverBodyToks p =
      [tokOpen (lit "\n ") (lit "execution"), tokOpen (lit "\n  ") (lit "prototype")] ++
      (tokClose p (lit "prototype") ::
       [tokClose (lit "\n ") (lit "execution"), tokClose (lit "\n") (lit "driver")]) := rfl
  rw [hsplit, ovdAbsRun_append, driverBody_head]
  simp only [Step.bind_next]
  rw [ovdAbsRun, h2]
  simp only [Step.bind_next]
  exact h3

/-- The scan of a driver document in the overview mode for driver files ends in
a state whose variables follow the effect of its tags. -/
theorem driverDoc_scan (ctx : OvCtx) (cp cd df a p : CStr) (pl : Catalog) (o : OvAbs OvdSt)
    (ha : ∀ c ∈ a, c ≠ chDQ ∧ c ≠ chSQ) (hp : ∀ c ∈ p, c ≠ '<')
    (hrun : ovdAbsRun ctx (driverBodyToks p)
      { lvl := 2, out := driverRootTag a,
        m := { indriver := 1, cprinter := cp, cdriver := a, dfunctionalityentry := df,
               printerlist := pl } } = .next o) :
    ∃ s1, scanLoop (ovDriverHooks ctx) (ovdInit cp cd df pl) (driverDoc a p) = .next s1 ∧
      s1.m = o.m ∧ s1.core.out = o.out ++ [chNL] := by
  obtain ⟨sR, hR, bR, aR⟩ := ovd_root ctx cp cd df pl a (renderToks (driverBodyToks p) ++ [chNL]) ha
  have hcl := driverBody_clean p hp
  rw [← aR] at hrun
  obtain ⟨s1, h1, b1, a1⟩ := ovd_toks ctx (driverBodyToks p) sR _ bR
    (fun t ht => (hcl t ht).2.1) (fun t ht => (hcl t ht).2.2) hrun
  refine ⟨advanceBy s1 [chNL], ?_, by rw [← a1]; rfl, by rw [← a1]; rfl⟩
  unfold driverDoc
  rw [scanLoop_append, hR]
  simp only [Step.bind_next]
  rw [scanLoop_toks (ovDriverHooks ctx) (flagSafe_ovDriverHooks ctx) _ sR [chNL] bR.text
    (fun t ht => (hcl t ht).1) (by decide), h1]
  rfl

/-- The parse of the driver document of a driver with a command line in the
overview mode for driver files, with `pid` set: the driver is registered under
the first entry of the list, and the buffer holds the document without its
`prototype` element. -/
theorem driver_parse_shown (ctx : OvCtx) (q cp cd df a p : CStr) (e : CatalogEntry) (l : Catalog)
    (hq : ctx.pid = some q) (ha : ∀ c ∈ a, c ≠ chDQ ∧ c ≠ chSQ) (hp : ∀ c ∈ p, c ≠ '<')
    (hne : p.dropWhile isPpdBlank ≠ []) :
    parseOvDriver ctx (ovdInit cp cd df (e :: l)) (driverDoc a p) =
      .returned (some (driverDocShown a))
        ({ e with drivers := addDriverOnce a e.drivers } :: l) := by
  obtain ⟨s1, h1, hm, ho⟩ := driverDoc_scan ctx cp cd df a p (e :: l) _ ha hp
    (driverBody_shown ctx q (driverRootTag a) cp a df p e l hq hne)
  obtain ⟨s2, e2, _, e4⟩ := stopLoop_of_scanLoop (ovDriverHooks ctx) (fun m => m.returned)
    (frozen_ovDriverHooks ctx) _ _ _ h1
  have e5 : s2 = s1 := e4 (by rw [hm])
  subst e5
  unfold parseOvDriver
  rw [e2]
  show ovdFinish ctx s2 = _
  have hout : driverRootTag a ++ lit "\n <execution>" ++ lit "\n </execution>\n</driver>" ++
      [chNL] = driverDocShown a := by
    unfold driverDocShown
    rw [List.append_assoc, List.append_assoc]
    rfl
  unfold ovdFinish
  rw [hm, ho]
  simp only [Bool.false_eq_true, if_false, and_false, Bool.true_eq_false]
  rw [hout]

/-- The parse of the driver document of a driver with a blank command line in
the overview mode for driver files, with `pid` set: the buffer is freed and the
list is as it was. -/
theorem driver_parse_freed (ctx : OvCtx) (q cp cd df a p : CStr) (pl : Catalog)
    (hq : ctx.pid = some q) (ha : ∀ c ∈ a, c ≠ chDQ ∧ c ≠ chSQ) (hp : ∀ c ∈ p, c ≠ '<')
    (hbl : p.dropWhile isPpdBlank = []) :
    parseOvDriver ctx (ovdInit cp cd df pl) (driverDoc a p) = .returned none pl := by
  obtain ⟨o, hrun, hr, hl⟩ := driverBody_freed ctx q (driverRootTag a) cp a df p pl hq hbl
  obtain ⟨s1, h1, hm, _⟩ := driverDoc_scan ctx cp cd df a p pl o ha hp hrun
  obtain ⟨s2, e2, e3, _⟩ := stopLoop_of_scanLoop (ovDriverHooks ctx) (fun m => m.returned)
    (frozen_ovDriverHooks ctx) _ _ _ h1
  unfold parseOvDriver
  rw [e2]
  show ovdFinish ctx s2 = _
  unfold ovdFinish
  rw [e3, hm, if_pos hr, hl]

theorem driverDoc_ne_nil (a p : CStr) : driverDoc a p ≠ [] := by
  simp [driverDoc, driverRootTag, lit]

theorem deviceDoc_ne_nil (x mk md f a b : CStr) : deviceDoc x mk md f a b ≠ [] := by
  simp [deviceDoc, deviceRootTag, lit]

theorem driverPass_shown (ctx : OvCtx) (f : OvFile OvdSt) (fs : List (OvFile OvdSt))
    (pl pl1 : Catalog) (out d : CStr) (hne : f.data ≠ [])
    (h : parseOvDriver ctx
      (ovdInit f.stack.cprinter f.stack.cdriver f.stack.dfunctionalityentry pl) f.data =
      .returned (some d) pl1) :
    driverPass ctx (f :: fs) pl out = driverPass ctx fs pl1 (out ++ d ++ [chNL]) := by
  rw [driverPass, if_neg hne, h]

theorem driverPass_freed (ctx : OvCtx) (f : OvFile OvdSt) (fs : List (OvFile OvdSt))
    (pl pl1 : Catalog) (out : CStr) (hne : f.data ≠ [])
    (h : parseOvDriver ctx
      (ovdInit f.stack.cprinter f.stack.cdriver f.stack.dfunctionalityentry pl) f.data =
      .returned none pl1) :
    driverPass ctx (f :: fs) pl out = driverPass ctx fs pl1 out := by
  rw [driverPass, if_neg hne, h]

theorem printerPass_shown (ctx : OvCtx) (f : OvFile OvpSt) (fs : List (OvFile OvpSt))
    (pl pl1 : Catalog) (out d : CStr) (hne : f.data ≠ [])
    (h : parseOvPrinter ctx (ovpInit f.stack pl) f.data = .returned (some d) pl1) :
    printerPass ctx (f :: fs) pl out = printerPass ctx fs pl1 (out ++ d) := by
  rw [printerPass, if_neg hne, h]

/-- The pass over the driver documents of a driver `a` with a command line and
a driver `b` with a blank command line, in either order, with `pid` set: the
driver `a` is registered under `proto` and its document alone is printed. -/
theorem driverPass_two (ctx : OvCtx) (q a b p w : CStr) (j1 j2 : OvdSt)
    (drivers : List (OvFile OvdSt)) (hq : ctx.pid = some q)
    (ha : ∀ c ∈ a, c ≠ chDQ ∧ c ≠ chSQ) (hb : ∀ c ∈ b, c ≠ chDQ ∧ c ≠ chSQ)
    (hp : p.dropWhile isPpdBlank ≠ [] ∧ ∀ c ∈ p, c ≠ '<')
    (hw : w.dropWhile isPpdBlank = [] ∧ ∀ c ∈ w, c ≠ '<')
    (hd : drivers = [{ stack := j1, data := driverDoc a p }, { stack := j2, data := driverDoc b w }] ∨
      drivers = [{ stack := j2, data := driverDoc b w }, { stack := j1, data := driverDoc a p }]) :
    driverPass ctx drivers (initialCatalog ctx) (lit "<overview>" ++ [chNL]) =
      .next ([{ id := lit "proto", drivers := [{ name := a }] }],
        lit "<overview>" ++ [chNL] ++ driverDocShown a ++ [chNL]) := by
  have hA : parseOvDriver ctx
      (ovdInit j1.cprinter j1.cdriver j1.dfunctionalityentry [{ id := lit "proto" }])
        (driverDoc a p) =
      .returned (some (driverDocShown a)) [{ id := lit "proto", drivers := [{ name := a }] }] :=
    driver_parse_shown ctx q _ _ _ a p { id := lit "proto" } [] hq ha hp.2 hp.1
  have hB : ∀ (pl : Catalog),
      parseOvDriver ctx (ovdInit j2.cprinter j2.cdriver j2.dfunctionalityentry pl) (driverDoc b w) =
      .returned none pl :=
    fun pl => driver_parse_freed ctx q _ _ _ b w pl hq hb hw.2 hw.1
  have hI : initialCatalog ctx = [{ id := lit "proto" }] := by
    unfold initialCatalog
    rw [hq]
    rfl
  rw [hI]
  rcases hd with h | h <;> subst h
  · rw [driverPass_shown ctx { stack := j1, data := driverDoc a p }
        [{ stack := j2, data := driverDoc b w }] [{ id := lit "proto" }]
        [{ id := lit "proto", drivers := [{ name := a }] }] (lit "<overview>" ++ [chNL])
        (driverDocShown a) (driverDoc_ne_nil a p) hA,
      driverPass_freed ctx { stack := j2, data := driverDoc b w } []
        [{ id := lit "proto", drivers := [{ name := a }] }]
        [{ id := lit "proto", drivers := [{ name := a }] }] _ (driverDoc_ne_nil b w)
        (hB _)]
    simp only [driverPass]
  · rw [driverPass_freed ctx { stack := j2, data := driverDoc b w }
        [{ stack := j1, data := driverDoc a p }] [{ id := lit "proto" }]
        [{ id := lit "proto" }] (lit "<overview>" ++ [chNL]) (driverDoc_ne_nil b w) (hB _),
      driverPass_shown ctx { stack := j1, data := driverDoc a p } [] [{ id := lit "proto" }]
        [{ id := lit "proto", drivers := [{ name := a }] }] (lit "<overview>" ++ [chNL])
        (driverDocShown a) (driverDoc_ne_nil a p) hA]
    simp only [driverPass]

/-- C26: in an overview with `pid` set over the driver documents of a driver `a`
with a command line and a driver `b` with a blank command line, read in either
order, and the device document of a printer `x` whose list of drivers names `a`
and `b`: the two passes end with the list that holds the pseudo printer `proto`
alone, so that no entry of `x` is left in it, and the text on the standard
output is the document of `a`, followed by the entry of `x` with the driver `a`
and without the driver `b`, and by no entry made up from the rest of the list. -/
theorem overview_lists_driver_with_command_line (ctx : OvCtx) (q x mk md f a b p w : CStr)
    (j1 j2 : OvdSt) (j3 : OvpSt) (drivers : List (OvFile OvdSt))
    (hq : ctx.pid = some q) (hid : translateid x ctx.idlist = x)
    (hx : x ≠ [] ∧ x ≠ lit "proto" ∧ ∀ c ∈ x, c ≠ chDQ ∧ c ≠ chSQ)
    (hmk : mk ≠ [] ∧ ∀ c ∈ mk, c ≠ '<') (hmd : md ≠ [] ∧ ∀ c ∈ md, c ≠ '<')
    (hf : f ≠ [] ∧ ∀ c ∈ f, c ≠ '<')
    (ha : a ≠ [] ∧ ∀ c ∈ a, c ≠ '<' ∧ c ≠ chDQ ∧ c ≠ chSQ)
    (hb : b ≠ [] ∧ ∀ c ∈ b, c ≠ '<' ∧ c ≠ chDQ ∧ c ≠ chSQ)
    (hab : strcaseeq a b = false)
    (hp : p.dropWhile isPpdBlank ≠ [] ∧ ∀ c ∈ p, c ≠ '<')
    (hw : w.dropWhile isPpdBlank = [] ∧ ∀ c ∈ w, c ≠ '<')
    (hd : drivers = [{ stack := j1, data := driverDoc a p }, { stack := j2, data := driverDoc b w }] ∨
      drivers = [{ stack := j2, data := driverDoc b w }, { stack := j1, data := driverDoc a p }]) :
    ((driverPass ctx drivers (initialCatalog ctx) (lit "<overview>" ++ [chNL])).bind fun r =>
        printerPass ctx [{ stack := j3, data := deviceDoc x mk md f a b }] r.1 r.2) =
      .next ([{ id := lit "proto", drivers := [{ name := a }] }],
        lit "<overview>" ++ [chNL] ++ driverDocShown a ++ [chNL] ++ deviceEntry x mk md f a) ∧
    locatePrinter x [{ id := lit "proto", drivers := [{ name := a }] }] = none ∧
    overview ctx drivers [{ stack := j3, data := deviceDoc x mk md f a b }] =
      .next (lit "<overview>" ++ [chNL] ++ driverDocShown a ++ [chNL] ++ deviceEntry x mk md f a ++
        lit "</overview>" ++ [chNL]) := by
  have hD := driverPass_two ctx q a b p w j1 j2 drivers hq (fun c hc => (ha.2 c hc).2)
    (fun c hc => (hb.2 c hc).2) hp hw hd
  have hX := device_parse ctx q x mk md f a b j3 hq hid hx hmk hmd hf
    ⟨ha.1, fun c hc => (ha.2 c hc).1⟩ ⟨hb.1, fun c hc => (hb.2 c hc).1⟩ hab
  have hP : printerPass ctx [{ stack := j3, data := deviceDoc x mk md f a b }]
      [{ id := lit "proto", drivers := [{ name := a }] }]
      (lit "<overview>" ++ [chNL] ++ driverDocShown a ++ [chNL]) =
      .next ([{ id := lit "proto", drivers := [{ name := a }] }],
        lit "<overview>" ++ [chNL] ++ driverDocShown a ++ [chNL] ++ deviceEntry x mk md f a) := by
    rw [printerPass_shown ctx { stack := j3, data := deviceDoc x mk md f a b } []
      [{ id := lit "proto", drivers := [{ name := a }] }]
      [{ id := lit "proto", drivers := [{ name := a }] }]
      (lit "<overview>" ++ [chNL] ++ driverDocShown a ++ [chNL]) (deviceEntry x mk md f a)
      (deviceDoc_ne_nil x mk md f a b) hX]
    simp only [printerPass]
  have hL : locatePrinter x [{ id := lit "proto", drivers := [{ name := a }] }] = none := by
    unfold locatePrinter
    rw [if_neg (Ne.symm hx.2.1)]
    rfl
  refine ⟨?_, hL, ?_⟩
  · rw [hD]
    simp only [Step.bind_next]
    exact hP
  · unfold overview
    rw [hD]
    simp only [Step.bind_next]
    rw [hP]
    simp only [Step.bind_next, leftovers, ne_eq, not_true_eq_false, if_false, List.append_nil]

theorem overview_lists_driver_with_command_line_witness :
    overview ovPpd
        [{ stack := {}, data := driverDoc (lit "B") (lit " ") },
         { stack := {}, data := driverDoc (lit "A") (lit "gs -q") }]
        [{ stack := {}, data := deviceDoc (lit "X") (lit "HP") (lit "LJ") (lit "A") (lit "A")
            (lit "B") }] =
      .next (lit "<overview>" ++ [chNL] ++ driverDocShown (lit "A") ++ [chNL] ++
        deviceEntry (lit "X") (lit "HP") (lit "LJ") (lit "A") (lit "A") ++
        lit "</overview>" ++ [chNL]) :=
  (overview_lists_driver_with_command_line ovPpd (lit "C") (lit "X") (lit "HP") (lit "LJ")
    (lit "A") (lit "A") (lit "B") (lit "gs -q") (lit " ") {} {} {} _ rfl (by decide)
    (by decide) (by decide) (by decide) (by decide) (by decide) (by decide) (by decide)
    (by decide) (by decide) (Or.inr rfl)).2.2

/-! ### Constraints without effect -/

theorem wins_false_of_flawed (ctx : Ctx) (c : Constraint) (hp hd : Int)
    (h : (c.selector .make = [] ∧ c.selector .model = [] ∧ c.selector .printer = [] ∧
        c.selector .driver = []) ∨
      ((c.selector .make ≠ [] ∨ c.selector .model ≠ []) ∧ c.selector .printer ≠ [])) :
    c.wins ctx hp hd = false := by
  unfold Constraint.wins constraintWins isNullConstraint hasPrinterAndMake
  rcases h with ⟨h1, h2, h3, h4⟩ | ⟨h1, h2⟩
  · simp [h1, h2, h3, h4]
  · simp only [h1, h2]
    simp
    intro h3
    exact absurd h3 h2

theorem evalConstraint_flawed (ctx : Ctx) (m : OptSt)
    (h : isNullConstraint m = true ∨ hasPrinterAndMake m = true) :
    evalConstraint ctx m = m := by
  unfold evalConstraint
  rcases h with h | h
  · rw [if_pos h]
  · split
    · rfl
    · rfl

theorem beatsBest_zero (ps ds : Int) (h : gotMatch ps ds = true) : beatsBest ps ds 0 0 = true := by
  unfold gotMatch at h
  unfold beatsBest
  simp only [decide_eq_true_eq] at h ⊢
  omega

theorem wins_split (ctx : Ctx) (c : Constraint) (hp hd : Int) :
    c.wins ctx hp hd =
      (c.wins ctx 0 0 && beatsBest (c.printerScore ctx) (c.driverScore ctx) hp hd) := by
  unfold Constraint.wins constraintWins Constraint.printerScore Constraint.driverScore
    isNullConstraint hasPrinterAndMake
  simp only
  cases hg : gotMatch (printerScore ctx (c.selector .printer) (c.selector .make)
      (c.selector .model)) (driverScore ctx (c.selector .driver)) with
  | false => simp
  | true => rw [beatsBest_zero _ _ hg]; simp

theorem constraintsEffect_append (ctx : Ctx) (l1 l2 : List Constraint) (m : OptSt) :
    constraintsEffect ctx (l1 ++ l2) m = constraintsEffect ctx l2 (constraintsEffect ctx l1 m) := by
  induction l1 generalizing m with
  | nil => rfl
  | cons c l ih => exact ih (c.effect ctx m)

theorem constraintsEffect_nowin (ctx : Ctx) (cs : List Constraint) (m : OptSt)
    (h : ∀ x y c, cs = x ++ c :: y → winsBehind ctx x m c = false) :
    SameVerdict (constraintsEffect ctx cs m) m := by
  induction cs generalizing m with
  | nil => exact ⟨rfl, rfl, rfl, rfl, rfl⟩
  | cons c cs ih =>
    obtain ⟨l1, l2, l3, l4, l5⟩ := constraint_effect_loses ctx c m (h [] cs c rfl)
    have r := ih (c.effect ctx m) (fun x y c1 e => h (c :: x) y c1 (by rw [e]; rfl))
    exact ⟨r.printerhiscore.trans l3, r.driverhiscore.trans l4, r.enumvalqualified.trans l1,
      r.optionqualified.trans l2, r.argdefault.trans l5⟩

theorem constraint_effect_default (ctx : Ctx) (c : Constraint) (m : OptSt)
    (h : c.wins ctx m.printerhiscore m.driverhiscore = true) :
    (c.effect ctx m).argdefault =
      if m.inenumval ≠ 0 then m.argdefault else c.selector .argdefval := by
  rw [constraint_effect_cases, if_pos h]
  rfl

theorem winsBehind_append (ctx : Ctx) (pre x : List Constraint) (a c : Constraint) (m : OptSt) :
    winsBehind ctx (pre ++ a :: x) m c =
      winsBehind ctx x (a.effect ctx (constraintsEffect ctx pre m)) c := by
  unfold winsBehind
  rw [constraintsEffect_append]
  rfl

theorem beatsBest_again (ps ds hp hd : Int) (h : beatsBest ps ds hp hd = true) :
    beatsBest ps ds (if ps > hp then ps else hp) (if ds > hd then ds else hd) = true := by
  unfold beatsBest at h ⊢
  simp only [decide_eq_true_eq] at h ⊢
  split <;> split <;> omega

/-- The verdict of a block in which the constraint `a` wins, the constraint `b`
behind it has the same scores, and no other constraint behind `a` wins. -/
theorem tie_verdict (ctx : Ctx) (pre mid post : List Constraint) (a b : Constraint) (m0 : OptSt)
    (hbm : b.wins ctx 0 0 = true)
    (hp : a.printerScore ctx = b.printerScore ctx) (hd : a.driverScore ctx = b.driverScore ctx)
    (hwa : winsBehind ctx pre m0 a = true)
    (hmid : ∀ x y c, mid = x ++ c :: y → winsBehind ctx (pre ++ a :: x) m0 c = false)
    (hpost : ∀ x y c, post = x ++ c :: y →
      winsBehind ctx (pre ++ a :: (mid ++ b :: x)) m0 c = false) :
    (m0.inenumval ≠ 0 →
      (constraintsEffect ctx (pre ++ a :: (mid ++ b :: post)) m0).enumvalqualified = b.sense) ∧
    (m0.inenumval = 0 →
      (constraintsEffect ctx (pre ++ a :: (mid ++ b :: post)) m0).optionqualified = b.sense ∧
      (constraintsEffect ctx (pre ++ a :: (mid ++ b :: post)) m0).argdefault =
        b.selector .argdefval) := by
  have i1 : (constraintsEffect ctx pre m0).inenumval = m0.inenumval :=
    constraintsEffect_inenumval ctx pre m0
  have wa : a.wins ctx (constraintsEffect ctx pre m0).printerhiscore
      (constraintsEffect ctx pre m0).driverhiscore = true := hwa
  obtain ⟨_, _, a3, a4⟩ := constraint_effect_wins ctx a (constraintsEffect ctx pre m0) wa
  have i2 : (a.effect ctx (constraintsEffect ctx pre m0)).inenumval = m0.inenumval :=
    (constraint_effect_inenumval ctx a _).trans i1
  have v3 := constraintsEffect_nowin ctx mid (a.effect ctx (constraintsEffect ctx pre m0))
    (fun x y c e => by rw [← winsBehind_append]; exact hmid x y c e)
  have i3 : (constraintsEffect ctx mid (a.effect ctx (constraintsEffect ctx pre m0))).inenumval =
      m0.inenumval := (constraintsEffect_inenumval ctx mid _).trans i2
  have wb : b.wins ctx
      (constraintsEffect ctx mid (a.effect ctx (constraintsEffect ctx pre m0))).printerhiscore
      (constraintsEffect ctx mid (a.effect ctx (constraintsEffect ctx pre m0))).driverhiscore =
        true := by
    rw [wins_split, hbm, v3.printerhiscore, v3.driverhiscore, a3, a4, ← hp, ← hd]
    rw [wins_split] at wa
    simp only [Bool.and_eq_true] at wa
    simpa using beatsBest_again _ _ _ _ wa.2
  obtain ⟨b1, b2, _, _⟩ := constraint_effect_wins ctx b _ wb
  have b5 := constraint_effect_default ctx b _ wb
  have e5 : constraintsEffect ctx (pre ++ a :: (mid ++ b :: post)) m0 =
      constraintsEffect ctx post (b.effect ctx
        (constraintsEffect ctx mid (a.effect ctx (constraintsEffect ctx pre m0)))) := by
    rw [constraintsEffect_append]
    show constraintsEffect ctx (mid ++ b :: post) _ = _
    rw [constraintsEffect_append]
    rfl
  have v5 := constraintsEffect_nowin ctx post (b.effect ctx
      (constraintsEffect ctx mid (a.effect ctx (constraintsEffect ctx pre m0))))
    (fun x y c e => by
      have := hpost x y c e
      rw [winsBehind_append, winsBehind] at this
      rw [winsBehind]
      have e6 : constraintsEffect ctx (mid ++ b :: x)
          (a.effect ctx (constraintsEffect ctx pre m0)) =
          constraintsEffect ctx x (b.effect ctx
            (constraintsEffect ctx mid (a.effect ctx (constraintsEffect ctx pre m0)))) := by
        rw [constraintsEffect_append]; rfl
      rw [e6] at this
      exact this)
  rw [e5]
  constructor
  · intro h
    rw [v5.enumvalqualified, b1, i3, if_pos h]
  · intro h
    rw [v5.optionqualified, v5.argdefault, b2, b5, i3]
    simp [h]

theorem senseFold_nowin (ctx : Ctx) (cs : List Constraint) (a : Int × Int × Bool)
    (h : ∀ c ∈ cs, c.wins ctx 0 0 = false) : senseFold ctx cs a = a := by
  induction cs generalizing a with
  | nil => rfl
  | cons c cs ih =>
    have hc : c.wins ctx a.1 a.2.1 = false := by
      rw [wins_split, h c (List.mem_cons_self _ _)]
      rfl
    unfold senseFold
    rw [if_neg (by rw [hc]; decide)]
    exact ih a (fun c1 h1 => h c1 (List.mem_cons_of_mem _ h1))

theorem senseFold_false (ctx : Ctx) (cs : List Constraint) (a : Int × Int × Bool)
    (h : (senseFold ctx cs a).2.2 = false) :
    a.2.2 = false ∨ ∃ x c y, cs = x ++ c :: y ∧
      c.wins ctx (senseFold ctx x a).1 (senseFold ctx x a).2.1 = true ∧ c.sense = false := by
  induction cs generalizing a with
  | nil => exact Or.inl h
  | cons c cs ih =>
    unfold senseFold at h
    split at h
    · rename_i hw
      rcases ih _ h with h1 | ⟨x, c1, y, e, w, hs⟩
      · exact Or.inr ⟨[], c, cs, rfl, hw, h1⟩
      · refine Or.inr ⟨c :: x, c1, y, by rw [e]; rfl, ?_, hs⟩
        have e2 : senseFold ctx (c :: x) a = senseFold ctx x
            (if c.printerScore ctx > a.1 then c.printerScore ctx else a.1,
              if c.driverScore ctx > a.2.1 then c.driverScore ctx else a.2.1, c.sense) := by
          conv_lhs => unfold senseFold
          rw [if_pos hw]
        rw [e2]
        exact w
    · rename_i hw
      rcases ih _ h with h1 | ⟨x, c1, y, e, w, hs⟩
      · exact Or.inl h1
      · refine Or.inr ⟨c :: x, c1, y, by rw [e]; rfl, ?_, hs⟩
        have e2 : senseFold ctx (c :: x) a = senseFold ctx x a := by
          conv_lhs => unfold senseFold
          rw [if_neg hw]
        rw [e2]
        exact w

set_option maxRecDepth 100000 in
/-- C38: there is an input for which the inserted `arg_defval` element names an
enum value that is absent from the result.  For the printer `HP-LaserJet` of the
make `HP` with the user default `PageSize=A3`, the option `PageSize` has the
enum value `ev/A4` without constraints and the enum value `ev/A3` (short name
`A3`) whose only constraint, on the make `HP`, wins with sense `false`.  The
parse returns the buffer: the enum value `ev/A3` is cut out, the enum value
`ev/A4` survives, and the inserted element carries the id `ev/A3`. -/
theorem user_default_names_excised_value :
    (lit "<enum_val id=\"ev/A3\">" <:+: pageSizeDoc) ∧
    (∃ b, evA3.block = some b ∧ b.cs = [cNotHP] ∧ cNotHP.sense = false ∧
      cNotHP.wins (ctxSetting (lit "PageSize=A3")) 0 0 = true) ∧
    parseOption (ctxSetting (lit "PageSize=A3")) pageSizeDoc =
      .returned (some pageSizeResult) 0 ∧
    (lit "<arg_defval>ev/A3</arg_defval>" <:+: pageSizeResult) ∧
    (lit "<enum_val id=\"ev/A4\">" <:+: pageSizeResult) ∧
    ¬ (lit "<enum_val id=\"ev/A3\">" <:+: pageSizeResult) := by
  refine ⟨by decide, ⟨blockNotHP, rfl, rfl, rfl, by decide⟩, by decide, by decide, by decide,
    by decide⟩

/-! ### Quotes inside a tag -/

theorem isDelim_sq : isDelim chSQ = false := by decide
theorem chSQ_ne_lt : chSQ ≠ '<' := by decide
theorem chSQ_ne_dq : chSQ ≠ chDQ := by decide

/-- An apostrophe inside double quotes sets `insinglequotes`, and the double
quotes stay open. -/
theorem step_sq_inDQ {σ : Type} (h : Hooks σ) (s : PState σ) (rest : CStr)
    (hq : InDQ s.core) : step h s chSQ rest = .next (pendingSQ s true [chSQ]) := by
  obtain ⟨q1, q2, q3, q4, q5, q6⟩ := hq
  unfold step
  simp only [chSQ_ne_lt, isDelim_sq, q1, q2, q3, q5, q6, chSQ_ne_dq, ↓reduceIte,
    Bool.false_eq_true, Bool.not_false, Bool.and_self, Bool.or_true, Bool.true_or]
  congr 1
  cases s with
  | mk core m =>
    cases core
    simp_all [advance, pendingSQ]

/-- Behind an apostrophe without partner every character but an apostrophe is
passed over: a double quote toggles `indoublequotes`, and `inquotes` stays
set. -/
theorem step_inSQ {σ : Type} (h : Hooks σ) (s : PState σ) (ch : Char) (rest : CStr)
    (hq : InSQ s.core) (h1 : ch ≠ chSQ) :
    step h s ch rest =
      .next (pendingSQ s (if ch = chDQ then !s.core.indoublequotes else s.core.indoublequotes)
        [ch]) := by
  obtain ⟨q1, q2, q3, q4, q5⟩ := hq
  unfold step
  by_cases hlt : ch = '<'
  · have : ch ≠ chDQ := by rw [hlt]; decide
    simp only [hlt, q4, ↓reduceIte]
    congr 1
    cases s with
    | mk core m =>
      cases core
      simp_all [advance, pendingSQ]
  · by_cases hd : isDelim ch = true
    · have : ch ≠ chDQ := by
        intro e
        rw [e] at hd
        exact absurd hd (by decide)
      simp only [hlt, hd, q4, ↓reduceIte]
      congr 1
      cases s with
      | mk core m =>
        cases core
        simp_all [advance, pendingSQ]
    · simp only [hlt, hd, q1, q2, q3, q5, h1, ↓reduceIte, Bool.false_eq_true,
        Bool.not_false, Bool.and_self, Bool.true_or]
      congr 1
      cases s with
      | mk core m =>
        cases core
        simp_all [advance, pendingSQ]

theorem inSQ_pendingSQ {σ : Type} (s : PState σ) (d : Bool) (w : CStr)
    (h : s.core.intag = true ∧ s.core.incomment = false ∧ s.core.intagword = true) :
    InSQ (pendingSQ s d w).core := ⟨h.1, h.2.1, h.2.2, rfl, rfl⟩

theorem pendingSQ_pendingSQ {σ : Type} (s : PState σ) (d1 d2 : Bool) (w1 w2 : CStr) :
    pendingSQ (pendingSQ s d1 w1) d2 w2 = pendingSQ s d2 (w1 ++ w2) := by
  simp [pendingSQ, List.append_assoc]

theorem pendingSQ_advanceBy {σ : Type} (s : PState σ) (d : Bool) (w1 w2 : CStr) :
    pendingSQ (advanceBy s w1) d w2 = pendingSQ s d (w1 ++ w2) := by
  simp [pendingSQ, advanceBy, List.append_assoc]

theorem scanPrefix_inSQ {σ : Type} (h : Hooks σ) (x : CStr) (s : PState σ) (d : Bool)
    (w suf : CStr)
    (hs : s.core.intag = true ∧ s.core.incomment = false ∧ s.core.intagword = true)
    (hx : ∀ c ∈ x, c ≠ chSQ) :
    scanPrefix h (pendingSQ s d w) x suf = .next (pendingSQ s (dqAfter x d) (w ++ x)) := by
  induction x generalizing d w with
  | nil => simp [scanPrefix, dqAfter]
  | cons ch x ih =>
    rw [scanPrefix_cons, step_inSQ h _ ch _ (inSQ_pendingSQ s d w hs) (hx ch (by simp))]
    simp only [Step.bind_next]
    rw [pendingSQ_pendingSQ, ih _ _ (fun c hm => hx c (by simp [hm]))]
    simp [dqAfter, pendingSQ, List.append_assoc]

theorem dqAfter_plain (v : CStr) (d : Bool) (h : ∀ c ∈ v, c ≠ chDQ ∧ c ≠ chSQ) :
    dqAfter v d = d := by
  induction v with
  | nil => rfl
  | cons ch v ih =>
    unfold dqAfter
    rw [if_neg (h ch (by simp)).1]
    exact ih (fun c hm => h c (by simp [hm]))

theorem dqAfter_append (v w : CStr) (d : Bool) : dqAfter (v ++ w) d = dqAfter w (dqAfter v d) := by
  induction v generalizing d with
  | nil => rfl
  | cons ch v ih => exact ih _

/-- The apostrophe that is the partner of a pending one, outside double quotes,
ends the quotation. -/
theorem step_sq_inSQ {σ : Type} (h : Hooks σ) (s : PState σ) (rest : CStr)
    (hq : InSQ s.core) (hd : s.core.indoublequotes = false) :
    step h s chSQ rest = .next (balanced s [chSQ]) := by
  obtain ⟨q1, q2, q3, q4, q5⟩ := hq
  unfold step
  simp only [chSQ_ne_lt, isDelim_sq, q1, q2, q3, q5, hd, chSQ_ne_dq, ↓reduceIte,
    Bool.false_eq_true, Bool.not_false, Bool.not_true, Bool.and_self, Bool.or_self]
  congr 1
  cases s with
  | mk core m =>
    cases core
    simp_all [advance, balanced]

/-- The scan of a quoted value with one apostrophe, from inside the double
quotes, up to and past the closing double quote. -/
theorem scan_pending {σ : Type} (h : Hooks σ) (s : PState σ) (v1 y suf : CStr)
    (hq : InDQ s.core) (h1 : ∀ c ∈ v1, c ≠ chDQ ∧ c ≠ chSQ) (hy : ∀ c ∈ y, c ≠ chSQ) :
    scanPrefix h s (v1 ++ chSQ :: y) suf =
      .next (pendingSQ s (dqAfter y true) (v1 ++ chSQ :: y)) := by
  rw [scanPrefix_append, scanPrefix_inDQ h s v1 _ hq h1]
  simp only [Step.bind_next]
  rw [scanPrefix_cons, step_sq_inDQ h _ _ (inDQ_advanceBy s v1 hq)]
  simp only [Step.bind_next]
  rw [pendingSQ_advanceBy,
    scanPrefix_inSQ h y s true (v1 ++ [chSQ]) suf ⟨hq.1, hq.2.1, hq.2.2.1⟩ hy]
  simp [List.append_assoc]

/-- C40: single and double quotes are toggled independently.  From inside the
double quotes of a word of a tag, in every mode: a value that holds exactly one
apostrophe, between `v1` and `v2`, leaves both `insinglequotes` and `inquotes` set at the
closing double quote, where `indoublequotes` is cleared.  The `>` behind it, and
every text `x` without an apostrophe behind that, is passed over: the scan goes
on in a state that differs from the one inside the quotes only in the cursor
and the quote flags, so the tag is still open, no action of the mode has run
and the nesting level is the same.  When `x` leaves no double quote open, then
behind the next apostrophe the quotation is over, and a `>` there ends the tag:
the action on the parameter and the end of the tag run. -/
theorem apostrophe_in_double_quotes {σ : Type} (h : Hooks σ) (s : PState σ)
    (v1 v2 x suf : CStr) (hq : InDQ s.core)
    (h1 : ∀ c ∈ v1, c ≠ chDQ ∧ c ≠ chSQ) (h2 : ∀ c ∈ v2, c ≠ chDQ ∧ c ≠ chSQ)
    (hx : ∀ c ∈ x, c ≠ chSQ) :
    scanPrefix h s (v1 ++ chSQ :: (v2 ++ [chDQ])) ('>' :: (x ++ suf)) =
      .next (pendingSQ s false (v1 ++ chSQ :: (v2 ++ [chDQ]))) ∧
    scanPrefix h s (v1 ++ chSQ :: (v2 ++ chDQ :: '>' :: x)) suf =
      .next (pendingSQ s (dqAfter x false) (v1 ++ chSQ :: (v2 ++ chDQ :: '>' :: x))) ∧
    (dqAfter x false = false → FlagSafe h → s.core.tagnamefound = true →
      scanPrefix h s (v1 ++ chSQ :: (v2 ++ chDQ :: '>' :: x) ++ [chSQ]) ('>' :: suf) =
        .next (balanced s (v1 ++ chSQ :: (v2 ++ chDQ :: '>' :: x) ++ [chSQ])) ∧
      step h (balanced s (v1 ++ chSQ :: (v2 ++ chDQ :: '>' :: x) ++ [chSQ])) '>' suf =
        tagEnd h (h.onParam
          (paramState (balanced s (v1 ++ chSQ :: (v2 ++ chDQ :: '>' :: x) ++ [chSQ]))))) := by
  have d1 : dqAfter (v2 ++ [chDQ]) true = false := by
    rw [dqAfter_append, dqAfter_plain v2 true h2]
    rfl
  have d2 : dqAfter (v2 ++ chDQ :: '>' :: x) true = dqAfter x false := by
    rw [dqAfter_append, dqAfter_plain v2 true h2]
    rfl
  have p1 : ∀ c ∈ v2 ++ [chDQ], c ≠ chSQ := by
    intro c hc
    rcases List.mem_append.mp hc with hc | hc
    · exact (h2 c hc).2
    · rw [List.mem_singleton.mp hc]; decide
  have p2 : ∀ c ∈ v2 ++ chDQ :: '>' :: x, c ≠ chSQ := by
    intro c hc
    rcases List.mem_append.mp hc with hc | hc
    · exact (h2 c hc).2
    · rcases List.mem_cons.mp hc with hc | hc
      · rw [hc]; decide
      · rcases List.mem_cons.mp hc with hc | hc
        · rw [hc]; decide
        · exact hx c hc
  have e1 := scan_pending h s v1 (v2 ++ [chDQ]) ('>' :: (x ++ suf)) hq h1 p1
  have e2 := scan_pending h s v1 (v2 ++ chDQ :: '>' :: x) suf hq h1 p2
  rw [d1] at e1
  rw [d2] at e2
  refine ⟨e1, e2, ?_⟩
  intro hd hs hn
  have e3 := scan_pending h s v1 (v2 ++ chDQ :: '>' :: x) (chSQ :: '>' :: suf) hq h1 p2
  rw [d2, hd] at e3
  have hin : InSQ (pendingSQ s false (v1 ++ chSQ :: (v2 ++ chDQ :: '>' :: x))).core :=
    inSQ_pendingSQ s false _ ⟨hq.1, hq.2.1, hq.2.2.1⟩
  have hw : InWord (balanced s (v1 ++ chSQ :: (v2 ++ chDQ :: '>' :: x) ++ [chSQ])).core :=
    ⟨hq.1, hq.2.1, hq.2.2.1, rfl, rfl, rfl⟩
  constructor
  · rw [scanPrefix_append]
    have : [chSQ] ++ '>' :: suf = chSQ :: '>' :: suf := rfl
    rw [this, e3]
    simp only [Step.bind_next]
    rw [scanPrefix_cons, step_sq_inSQ h _ _ hin rfl]
    simp only [Step.bind_next, scanPrefix]
    congr 1
    simp [balanced, pendingSQ, List.append_assoc]
  · exact step_param_gt h hs _ suf hw hn

set_option maxRecDepth 100000 in
/-- Witness of C40: the tag `<option id="it?s">` with an apostrophe in the place
of `?`, in Option mode.  Behind the closing double quote the scanner is still
inside quotes, and the `>` and the rest of the document are passed over. -/
theorem apostrophe_in_double_quotes_witness :
    scanPrefix (optionHooks ctxLaserJetGs) stInQuotes valueWithApostrophe
        ('>' :: (lit "\n</option>" ++ [])) =
      .next (pendingSQ stInQuotes false valueWithApostrophe) ∧
    scanPrefix (optionHooks ctxLaserJetGs) stInQuotes
        (lit "it" ++ chSQ :: (lit "s" ++ chDQ :: '>' :: lit "\n</option>")) [] =
      .next (pendingSQ stInQuotes (dqAfter (lit "\n</option>") false)
        (lit "it" ++ chSQ :: (lit "s" ++ chDQ :: '>' :: lit "\n</option>"))) :=
  have w := apostrophe_in_double_quotes (optionHooks ctxLaserJetGs) stInQuotes (lit "it")
    (lit "s") (lit "\n</option>") [] (by decide) (by decide) (by decide) (by decide)
  ⟨w.1, w.2.1⟩

/-! ### The nesting level behind a tag -/

theorem tagEnd_level {σ : Type} (h : Hooks σ) (root : CStr) (live : σ → Prop)
    (hl : LevelSafe h root live) (t s1 : PState σ) (hw : tagEnd h t = .next s1) :
    s1.core.nestinglevel = t.core.nestinglevel + t.core.tagtype := by
  unfold tagEnd at hw
  simp only at hw
  split at hw
  · cases hw
  · obtain ⟨b, _, h2⟩ := Step.bind_eq_next hw
    obtain ⟨s3, h3, h4⟩ := Step.bind_eq_next h2
    cases h4
    exact (hl.onEnd _ s3 h3).trans rfl

theorem runWords_level {σ : Type} (h : Hooks σ) (root : CStr) (live : σ → Prop)
    (hl : LevelSafe h root live) (ps : List CStr) (t : PState σ) :
    (runWords h ps t).core.nestinglevel = t.core.nestinglevel ∧
    (runWords h ps t).core.tagtype = t.core.tagtype := by
  induction ps generalizing t with
  | nil => exact ⟨rfl, rfl⟩
  | cons w l ih =>
    obtain ⟨i1, i2⟩ := ih (h.onParam (atParam (advance t ' ') w))
    obtain ⟨p1, p2⟩ := hl.onParam (atParam (advance t ' ') w)
    exact ⟨(i1.trans p1).trans rfl, (i2.trans p2).trans rfl⟩

theorem closeState_level {σ : Type} (k : TagKind) (t : PState σ)
    (ht : t.core.tagtype = k.nameType) :
    (closeState k t).core.nestinglevel + (closeState k t).core.tagtype =
      t.core.nestinglevel + k.endType := by
  cases k with
  | opening => exact congrArg _ ht
  | closing => exact congrArg _ ht
  | void => rfl

theorem opens_iff (tok : Tok) (root : CStr) :
    (tok.nm = root ∧ tok.kind.nameType = TAG_OPEN) ↔ tok.Opens root := by
  unfold Tok.Opens
  cases tok.kind <;> simp [TagKind.nameType, TAG_OPEN, TAG_CLOSE]

/-- The nesting level behind a tag, for every mode whose actions write the
nesting level only where the header is removed. -/
theorem depthRule_of_levelSafe {σ : Type} (h : Hooks σ) (root : CStr) (live : σ → Prop)
    (hs : FlagSafe h) (hl : LevelSafe h root live) : DepthRule h root live := by
  intro tok s s1 suf ht hc hlive hrun
  rw [scan_tok h hs tok s suf ht hc] at hrun
  unfold runTok at hrun
  obtain ⟨sN, hN, hE⟩ := Step.bind_eq_next hrun
  obtain ⟨n1, n2⟩ := hl.onName
    (atTagName (advanceBy s tok.text) tok.kind.nameType tok.kind.start tok.nm) sN hlive hN
  obtain ⟨w1, w2⟩ := runWords_level h root live hl tok.params sN
  have e := tagEnd_level h root live hl _ s1 hE
  rw [closeState_level tok.kind (runWords h tok.params sN) (w2.trans (n2.trans rfl)), w1, n1] at e
  rw [e]
  congr 1
  have : ((atTagName (advanceBy s tok.text) tok.kind.nameType tok.kind.start
      tok.nm).core.currtagname = root ∧ (atTagName (advanceBy s tok.text) tok.kind.nameType
      tok.kind.start tok.nm).core.tagtype = TAG_OPEN) ↔ tok.Opens root := opens_iff tok root
  by_cases ho : tok.Opens root
  · rw [if_pos ho, if_pos (this.mpr ho)]
  · rw [if_neg ho, if_neg (fun x => ho (this.mp x))]
    rfl

theorem level_removeHeader_or (c : Core) (root : CStr) :
    (if c.currtagname = root ∧ c.tagtype = TAG_OPEN then removeHeader c else c).nestinglevel =
      (if c.currtagname = root ∧ c.tagtype = TAG_OPEN then 1 else c.nestinglevel) ∧
    (if c.currtagname = root ∧ c.tagtype = TAG_OPEN then removeHeader c else c).tagtype =
      c.tagtype := by
  split
  · exact ⟨rfl, rfl⟩
  · exact ⟨rfl, rfl⟩

theorem level_of_sameButOut {a b : Core} (h : SameButOut a b) :
    a.nestinglevel = b.nestinglevel := by
  unfold SameButOut at h
  rw [h]

theorem levelSafe_optionHooks (ctx : Ctx) :
    LevelSafe (optionHooks ctx) (lit "option") (fun _ => True) where
  onName := by
    intro s s1 _ h
    obtain ⟨m1, _, h⟩ := Step.bind_eq_next h
    cases h
    exact level_removeHeader_or s.core (lit "option")
  onParam := fun _ => ⟨rfl, rfl⟩
  onEnd := fun s s1 h => level_of_sameButOut (optEnd_core ctx s s1 h)

theorem levelSafe_printerHooks (ctx : Ctx) :
    LevelSafe (printerHooks ctx) (lit "printer") (fun _ => True) where
  onName := by
    intro s s1 _ h
    cases h
    exact level_removeHeader_or s.core (lit "printer")
  onParam := fun _ => ⟨rfl, rfl⟩
  onEnd := by
    intro s s1 h
    cases h
    show (if _ then _ else _ : Core).nestinglevel = _
    split <;> rfl

theorem levelSafe_driverHooks (ctx : Ctx) :
    LevelSafe (driverHooks ctx) (lit "driver") (fun _ => True) where
  onName := by
    intro s s1 _ h
    obtain ⟨m1, _, h⟩ := Step.bind_eq_next h
    cases h
    exact level_removeHeader_or s.core (lit "driver")
  onParam := fun _ => ⟨rfl, rfl⟩
  onEnd := by
    intro s s1 h
    have e := drvEnd_eq ctx s.core s.m
    rw [show driverHooks ctx = { onName := drvName, onParam := fun s => s, onEnd := drvEnd ctx }
      from rfl] at h
    simp only at h
    rw [show s = PState.mk s.core s.m from rfl, e] at h
    obtain ⟨r, _, h⟩ := Step.bind_eq_next h
    cases h
    rfl

theorem levelSafe_ovPrinterHooks (ctx : OvCtx) :
    LevelSafe (ovPrinterHooks ctx) (lit "printer") (fun _ => True) where
  onName := by
    intro s s1 _ h
    cases h
    exact level_removeHeader_or s.core (lit "printer")
  onParam := fun _ => ⟨rfl, rfl⟩
  onEnd := by
    intro s s1 h
    simp only [ovPrinterHooks, ovpEnd] at h
    obtain ⟨m1, _, h⟩ := Step.bind_eq_next h
    cases h
    rfl

theorem level_deleteSpan (c c1 : Core) (p : Nat) (h : deleteSpan c p = .next c1) :
    c1.nestinglevel = c.nestinglevel :=
  level_of_sameButOut (sameButOut_deleteSpan c c1 p h)

theorem overOvdPrinters_level (s s1 : OvdState) (h : overOvdPrinters s = .next s1) :
    s1.core.nestinglevel = s.core.nestinglevel := by
  unfold overOvdPrinters at h
  split at h
  · split at h
    · obtain ⟨c1, h1, h⟩ := Step.bind_eq_next h
      cases h
      exact level_deleteSpan _ _ _ h1
    · cases h; rfl
  · cases h; rfl

theorem overOvdComments_level (s s1 : OvdState) (h : overOvdComments s = .next s1) :
    s1.core.nestinglevel = s.core.nestinglevel := by
  unfold overOvdComments at h
  split at h
  · split at h
    · split at h
      · obtain ⟨c1, h1, h⟩ := Step.bind_eq_next h
        cases h
        exact level_deleteSpan _ _ _ h1
      · cases h; rfl
    · cases h; rfl
  · cases h; rfl

theorem overOvdFunctionality_level (s s1 : OvdState) (h : overOvdFunctionality s = .next s1) :
    s1.core.nestinglevel = s.core.nestinglevel := by
  unfold overOvdFunctionality at h
  split at h
  · split at h
    · split at h
      · cases h; rfl
      · cases h
    · cases h; rfl
  · cases h; rfl

theorem ovdCutPrototype_level (s s1 : OvdState) (h : ovdCutPrototype s = .next s1) :
    s1.core.nestinglevel = s.core.nestinglevel := by
  unfold ovdCutPrototype at h
  split at h
  · cases h; rfl
  · split at h
    · obtain ⟨c1, h1, h⟩ := Step.bind_eq_next h
      cases h
      exact level_deleteSpan _ _ _ h1
    · cases h; rfl

theorem ovdEnd_level (ctx : OvCtx) (s s1 : OvdState) (h : ovdEnd ctx s = .next s1) :
    s1.core.nestinglevel = s.core.nestinglevel := by
  unfold ovdEnd at h
  split at h
  · cases h; rfl
  · split at h
    · cases h
    · obtain ⟨t1, h1, h⟩ := Step.bind_eq_next h
      obtain ⟨t2, h2, h⟩ := Step.bind_eq_next h
      unfold overOvdBlocks at h1
      obtain ⟨t0, h0, h1⟩ := Step.bind_eq_next h1
      have n0 := overOvdPrinters_level _ _ h0
      have n1 := overOvdComments_level _ _ h1
      have n2 := overOvdFunctionality_level _ _ h2
      have n3 : s1.core.nestinglevel = t2.core.nestinglevel := by
        unfold overOvdPrototype at h
        split at h
        · obtain ⟨m2, _, h⟩ := Step.bind_eq_next h
          exact (ovdCutPrototype_level _ _ h).trans rfl
        · cases h; rfl
      exact ((n3.trans n2).trans n1).trans n0

theorem levelSafe_ovDriverHooks (ctx : OvCtx) :
    LevelSafe (ovDriverHooks ctx) (lit "driver") (fun m => m.returned = false) where
  onName := by
    intro s s1 hlive h
    simp only [ovDriverHooks, ovdName] at h
    rw [if_neg (by rw [hlive]; decide)] at h
    split at h
    · cases h
    · obtain ⟨m1, _, h⟩ := Step.bind_eq_next h
      cases h
      exact level_removeHeader_or s.core (lit "driver")
  onParam := by
    intro s
    show (ovdParam s).core.nestinglevel = _ ∧ (ovdParam s).core.tagtype = _
    unfold ovdParam
    split
    · exact ⟨rfl, rfl⟩
    · exact ⟨rfl, rfl⟩
  onEnd := fun s s1 h => ovdEnd_level ctx s s1 h

/-- C33, amended: in each of the five modes the nesting level behind a tag that
is completed outside a comment, scanned from between two tags and behind which
the scan goes on, is the level in front of the tag plus 1 for an opening tag,
minus 1 for a closing tag and unchanged for a tag without body, for every tag
but one that is read as an opening tag of the root element of the mode
(`option`, `printer` or `driver`, opening or without body): there the header is
removed and the level restarts at 1, so that it is 2 behind the opening tag and
1 behind the tag without body, whatever it was in front of the tag.  In the
overview mode for driver files this holds as long as the function has not
returned. -/
theorem depth_follows_tag_type (ctx : Ctx) (octx : OvCtx) :
    DepthRule (optionHooks ctx) (lit "option") (fun _ => True) ∧
    DepthRule (printerHooks ctx) (lit "printer") (fun _ => True) ∧
    DepthRule (driverHooks ctx) (lit "driver") (fun _ => True) ∧
    DepthRule (ovDriverHooks octx) (lit "driver") (fun m => m.returned = false) ∧
    DepthRule (ovPrinterHooks octx) (lit "printer") (fun _ => True) :=
  ⟨depthRule_of_levelSafe _ _ _ (flagSafe_optionHooks ctx) (levelSafe_optionHooks ctx),
    depthRule_of_levelSafe _ _ _ (flagSafe_printerHooks ctx) (levelSafe_printerHooks ctx),
    depthRule_of_levelSafe _ _ _ (flagSafe_driverHooks ctx) (levelSafe_driverHooks ctx),
    depthRule_of_levelSafe _ _ _ (flagSafe_ovDriverHooks octx) (levelSafe_ovDriverHooks octx),
    depthRule_of_levelSafe _ _ _ (flagSafe_ovPrinterHooks octx) (levelSafe_ovPrinterHooks octx)⟩

set_option maxRecDepth 100000 in
/-- Witness of the amended C33 in Option mode: the tag `<constraints>` behind
the opening tag of a boolean option takes the level from 2 to 3. -/
theorem depth_follows_tag_type_witness :
    stBehindOpen.core.nestinglevel = stBoolHead.core.nestinglevel + 1 :=
  (depth_follows_tag_type ctxLaserJetGs ovAll).1 tokConstraints stBoolHead stBehindOpen
    optionTail (by decide) (by decide) trivial (Step.eq_next_getD _ _ (by decide))

set_option maxRecDepth 100000 in
/-- Counterexample to C33 as stated: the opening tag `<option type="bool"
id="opt/5">` at the start of an option document is completed outside a
comment; the nesting level is 0 in front of it and 2 behind it. -/
theorem depth_counterexample :
    optInit.core.nestinglevel = 0 ∧
    scanPrefix (optionHooks ctxLaserJetGs) optInit boolHead optionTail = .next stRoot ∧
    stRoot.core.nestinglevel = 2 := by
  refine ⟨rfl, ?_, ?_⟩
  · exact Step.eq_next_getD _ _ (by decide)
  · decide

/-! ### The buffer as memory -/

theorem memmove_parts (p q t rest : List Char) :
    memmove (p ++ (q ++ (t ++ rest))) p.length (p.length + q.length) t.length =
      some (p ++ (t ++ (p ++ (q ++ (t ++ rest))).drop (p.length + t.length))) := by
  unfold memmove
  rw [if_pos (by simp only [List.length_append]; omega)]
  congr 2
  · simp
  · congr 1
    rw [← List.append_assoc, List.drop_append_of_le_length (by simp),
      show p.length + q.length = (p ++ q).length by simp, List.drop_length]
    simp

theorem memmove_back (p t rest : List Char) (l : Nat) (hl : l ≤ rest.length) :
    memmove (p ++ (t ++ rest)) (p.length + l) p.length t.length =
      some ((p ++ (t ++ rest)).take (p.length + l) ++ (t ++ rest.drop l)) := by
  unfold memmove
  rw [if_pos (by simp only [List.length_append]; omega)]
  congr 2
  congr 1
  · simp
  · rw [show p.length + l + t.length = p.length + (t.length + l) by omega, ← List.drop_drop,
      List.drop_left, ← List.drop_drop, List.drop_left]

theorem split_three (b : CStr) (i j : Nat) (hij : i ≤ j) :
    b = b.take i ++ ((b.drop i).take (j - i) ++ b.drop j) := by
  have e1 : (b.drop i).take (j - i) ++ b.drop j = b.drop i := by
    have : b.drop j = (b.drop i).drop (j - i) := by
      rw [List.drop_drop]
      congr 1
      omega
    rw [this, List.take_append_drop]
  rw [e1, List.take_append_drop]

theorem memmove_length (mem m1 : List Char) (d s n : Nat) (h : memmove mem d s n = some m1) :
    m1.length = mem.length := by
  unfold memmove at h
  split at h
  · rename_i hb
    cases h
    simp only [List.length_append, List.length_take, List.length_drop]
    omega
  · cases h

theorem memput_length (mem m1 : List Char) (d : Nat) (t : CStr) (h : memput mem d t = some m1) :
    m1.length = mem.length := by
  unfold memput at h
  split at h
  · rename_i hb
    cases h
    simp only [List.length_append, List.length_take, List.length_drop]
    omega
  · cases h

/-- The span deletion on a buffer that holds the C string `b`: the buffer holds
`b` without the span behind it. -/
theorem rawDelete_spec (r : Raw) (last : Nat) (b slack : CStr) (hh : r.Holds b slack)
    (h1 : 1 ≤ last) (h2 : last ≤ r.scan + 1) (h3 : r.scan + 1 ≤ b.length) :
    ∃ r1 slack1, rawDelete r last = some r1 ∧
      r1.Holds (b.take last ++ b.drop (r.scan + 1)) slack1 ∧
      r1.mem.length = r.mem.length ∧
      r1.datalength + (r.scan + 1 - last) = r.datalength ∧
      r1.scan = last - 1 ∧ r1.lasttag = r.lasttag ∧ r1.lasttagend = r.lasttagend ∧
      r1.tagwordstart = r.tagwordstart := by
  obtain ⟨hm, hd⟩ := hh
  have e := memmove_parts (b.take last) ((b.drop last).take (r.scan + 1 - last))
    (b.drop (r.scan + 1) ++ [chNUL]) slack
  have l1 : (b.take last).length = last := by rw [List.length_take]; omega
  have l2 : ((b.drop last).take (r.scan + 1 - last)).length = r.scan + 1 - last := by
    rw [List.length_take, List.length_drop]; omega
  have l3 : (b.drop (r.scan + 1) ++ [chNUL]).length = r.datalength - r.scan := by
    rw [List.length_append, List.length_drop, List.length_singleton]; omega
  have hmem : r.mem = b.take last ++ ((b.drop last).take (r.scan + 1 - last) ++
      ((b.drop (r.scan + 1) ++ [chNUL]) ++ slack)) := by
    rw [hm]
    conv_lhs => rw [split_three b last (r.scan + 1) h2]
    simp only [List.append_assoc, List.singleton_append]
  rw [l1, l2, l3, show last + (r.scan + 1 - last) = r.scan + 1 by omega, ← hmem] at e
  have hdel : rawDelete r last = some { r with
      mem := b.take last ++ ((b.drop (r.scan + 1) ++ [chNUL]) ++
        r.mem.drop (last + (r.datalength - r.scan)))
      datalength := r.datalength - (r.scan + 1 - last)
      scan := last - 1 } := by
    unfold rawDelete
    rw [if_pos ⟨h1, h2, by omega⟩, e]
    rfl
  refine ⟨_, r.mem.drop (last + (r.datalength - r.scan)), hdel, ⟨?_, ?_⟩, ?_, ?_, rfl, rfl, rfl,
    rfl⟩
  · simp only [List.append_assoc, List.singleton_append]
  · show r.datalength - (r.scan + 1 - last) = _
    rw [List.length_append, List.length_take, List.length_drop]
    omega
  · exact memmove_length _ _ _ _ _ e
  · show r.datalength - (r.scan + 1 - last) + (r.scan + 1 - last) = r.datalength
    omega

/-- The insertion on a buffer that holds the C string `b` and has room for the
text: the buffer holds `b` with the text at the mark. -/
theorem rawInsert_spec (r : Raw) (pos : Nat) (text b slack : CStr) (hh : r.Holds b slack)
    (h1 : pos ≤ b.length) (h2 : text.length ≤ slack.length) :
    ∃ r1 slack1, rawInsert r pos text = some r1 ∧
      r1.Holds (b.take pos ++ (text ++ b.drop pos)) slack1 ∧
      r1.mem.length = r.mem.length ∧
      r1.datalength = r.datalength + text.length ∧
      r1.scan = r.scan + text.length ∧ r1.lasttag = r.lasttag ∧
      r1.lasttagend = r.lasttagend ∧ r1.tagwordstart = r.tagwordstart := by
  obtain ⟨hm, hd⟩ := hh
  have e := memmove_back (b.take pos) (b.drop pos ++ [chNUL]) slack text.length h2
  have l1 : (b.take pos).length = pos := by rw [List.length_take]; omega
  have l3 : (b.drop pos ++ [chNUL]).length = r.datalength - pos + 1 := by
    rw [List.length_append, List.length_drop, List.length_singleton]; omega
  have hmem : r.mem = b.take pos ++ ((b.drop pos ++ [chNUL]) ++ slack) := by
    rw [hm]
    conv_lhs => rw [← List.take_append_drop pos b]
    simp only [List.append_assoc, List.singleton_append]
  rw [l1, l3, ← hmem] at e
  have hlen : pos + text.length ≤ r.mem.length := by
    rw [hm, List.length_append, List.length_cons]; omega
  have hput : memput (r.mem.take (pos + text.length) ++
        ((b.drop pos ++ [chNUL]) ++ slack.drop text.length)) pos text =
      some (b.take pos ++ (text ++ ((b.drop pos ++ [chNUL]) ++ slack.drop text.length))) := by
    unfold memput
    rw [if_pos (by simp only [List.length_append, List.length_take]; omega)]
    congr 2
    · rw [List.take_append_of_le_length (by rw [List.length_take]; omega), List.take_take,
        Nat.min_eq_left (by omega), hm, List.take_append_of_le_length (by omega)]
    · congr 1
      rw [List.drop_append_of_le_length (by rw [List.length_take]; omega)]
      have : (r.mem.take (pos + text.length)).length = pos + text.length := by
        rw [List.length_take]; omega
      rw [List.drop_eq_nil_of_le (by omega)]
      rfl
  have hins : rawInsert r pos text = some { r with
      mem := b.take pos ++ (text ++ ((b.drop pos ++ [chNUL]) ++ slack.drop text.length))
      datalength := r.datalength + text.length
      scan := r.scan + text.length } := by
    unfold rawInsert
    rw [if_pos (by omega), e]
    show (memput _ pos text).map _ = _
    rw [hput]
    rfl
  refine ⟨_, slack.drop text.length, hins, ⟨?_, ?_⟩, ?_, rfl, rfl, rfl, rfl, rfl⟩
  · simp only [List.append_assoc, List.singleton_append]
  · show r.datalength + text.length = _
    simp only [List.length_append, List.length_take, List.length_drop]
    omega
  · show (b.take pos ++ (text ++ ((b.drop pos ++ [chNUL]) ++ slack.drop text.length))).length = _
    rw [hm]
    simp only [List.length_append, List.length_take, List.length_drop, List.length_cons,
      List.length_nil]
    omega

/-- The removal of the header on a buffer that holds the C string `b`: the
buffer holds `b` from the mark `lasttag` on. -/
theorem rawRemoveHeader_spec (r : Raw) (b slack : CStr) (hh : r.Holds b slack)
    (h1 : r.lasttag ≤ r.tagwordstart) (h2 : r.tagwordstart ≤ r.scan)
    (h3 : r.scan ≤ b.length) :
    ∃ r1 slack1, rawRemoveHeader r = some r1 ∧
      r1.Holds (b.drop r.lasttag) slack1 ∧
      r1.mem.length = r.mem.length ∧
      r1.datalength + r.lasttag = r.datalength ∧
      r1.scan + r.lasttag = r.scan ∧ r1.lasttag + r.lasttag = r.lasttag ∧
      r1.lasttagend = none ∧ r1.tagwordstart + r.lasttag = r.tagwordstart := by
  obtain ⟨hm, hd⟩ := hh
  have e := memmove_parts [] (b.take r.lasttag) (b.drop r.lasttag ++ [chNUL]) slack
  have l2 : (b.take r.lasttag).length = r.lasttag := by rw [List.length_take]; omega
  have l3 : (b.drop r.lasttag ++ [chNUL]).length = r.datalength + 1 - r.lasttag := by
    rw [List.length_append, List.length_drop, List.length_singleton]; omega
  have hmem : r.mem = [] ++ (b.take r.lasttag ++ ((b.drop r.lasttag ++ [chNUL]) ++ slack)) := by
    rw [hm]
    conv_lhs => rw [← List.take_append_drop r.lasttag b]
    simp only [List.append_assoc, List.singleton_append, List.nil_append]
  rw [← hmem, l2, l3] at e
  simp only [List.length_nil, Nat.zero_add, List.nil_append] at e
  have hrem : rawRemoveHeader r = some
      { mem := (b.drop r.lasttag ++ [chNUL]) ++ r.mem.drop (r.datalength + 1 - r.lasttag)
        datalength := r.datalength - r.lasttag
        scan := r.scan - r.lasttag
        lasttag := 0
        lasttagend := none
        tagwordstart := r.tagwordstart - r.lasttag } := by
    unfold rawRemoveHeader
    rw [if_pos ⟨h1, h2, by omega⟩, e]
    rfl
  refine ⟨_, r.mem.drop (r.datalength + 1 - r.lasttag), hrem, ⟨?_, ?_⟩, ?_, ?_, ?_, ?_, rfl, ?_⟩
  · simp only [List.append_assoc, List.singleton_append]
  · show r.datalength - r.lasttag = _
    rw [List.length_drop]
    omega
  · exact memmove_length _ _ _ _ _ e
  · show r.datalength - r.lasttag + r.lasttag = r.datalength
    omega
  · show r.scan - r.lasttag + r.lasttag = r.scan
    omega
  · exact Nat.zero_add _
  · show r.tagwordstart - r.lasttag + r.lasttag = r.tagwordstart
    omega

theorem holds_take (r : Raw) (b slack : CStr) (hh : r.Holds b slack) :
    r.mem.take r.datalength = b := by
  obtain ⟨hm, hd⟩ := hh
  rw [hm, hd, List.take_left]

theorem holds_nul (r : Raw) (b slack : CStr) (hh : r.Holds b slack) :
    r.mem[r.datalength]? = some chNUL := by
  obtain ⟨hm, hd⟩ := hh
  rw [hm, hd, List.getElem?_append_right (Nat.le_refl _), Nat.sub_self]
  simp

theorem holds_ahead (r : Raw) (b slack : CStr) (hh : r.Holds b slack) :
    r.ahead = b.drop (r.scan + 1) := by
  unfold Raw.ahead
  rw [holds_take r b slack hh]

theorem holds_upto (r : Raw) (b slack : CStr) (hh : r.Holds b slack)
    (hs : r.scan + 1 ≤ b.length) : r.upto = b.take (r.scan + 1) := by
  unfold Raw.upto
  rw [hh.1, List.take_append_of_le_length hs]

/-- The span deletion on the array is the span deletion `deleteSpan` of the
scan loop. -/
theorem rawDelete_upto (r r1 : Raw) (last : Nat) (b slack slack1 : CStr)
    (hh : r.Holds b slack) (h1 : 0 < last) (h2 : last ≤ r.scan + 1) (h3 : r.scan + 1 ≤ b.length)
    (hh1 : r1.Holds (b.take last ++ b.drop (r.scan + 1)) slack1) (s1 : r1.scan = last - 1)
    (c : Core) (hc : c.out = r.upto) :
    deleteSpan c last = .next { c with out := r1.upto } := by
  have hl : (b.take last).length = last := by rw [List.length_take]; omega
  have hu : r1.upto = c.out.take last := by
    unfold Raw.upto
    rw [s1, hh1.1, show last - 1 + 1 = last by omega, List.append_assoc,
      List.take_append_of_le_length (by omega), List.take_of_length_le (by omega), hc,
      holds_upto r b slack hh h3, List.take_take, Nat.min_eq_left h2]
  unfold deleteSpan
  rw [if_pos ⟨h1, by rw [hc, holds_upto r b slack hh h3, List.length_take]; omega⟩, hu]

/-- The insertion on the array is the insertion `insertAt` of the scan loop. -/
theorem rawInsert_upto (r r1 : Raw) (pos : Nat) (text b slack slack1 : CStr)
    (hh : r.Holds b slack) (h1 : pos ≤ r.scan + 1) (h3 : r.scan + 1 ≤ b.length)
    (hh1 : r1.Holds (b.take pos ++ (text ++ b.drop pos)) slack1)
    (s1 : r1.scan = r.scan + text.length) (c : Core) (hc : c.out = r.upto) :
    insertAt c pos text = .next { c with out := r1.upto } := by
  have hl : (b.take pos).length = pos := by rw [List.length_take]; omega
  have hl2 : (b.drop pos).length = b.length - pos := List.length_drop _ _
  have ho : c.out = b.take (r.scan + 1) := by rw [hc, holds_upto r b slack hh h3]
  have hb : b.length = pos + (b.drop pos).length := by rw [List.length_drop]; omega
  have hsum : r.scan + text.length + 1 ≤ (b.take pos ++ (text ++ b.drop pos)).length := by
    simp only [List.length_append, hl]
    omega
  have t1 : (b.take pos).take (r.scan + text.length + 1) = b.take pos :=
    List.take_of_length_le (by omega)
  have t2 : text.take (r.scan + text.length + 1 - pos) = text :=
    List.take_of_length_le (by omega)
  have t3 : c.out.drop pos = (b.drop pos).take (r.scan + text.length + 1 - pos - text.length) := by
    rw [ho, List.drop_take]
    congr 1
    omega
  have t4 : c.out.take pos = b.take pos := by
    rw [ho, List.take_take, Nat.min_eq_left h1]
  have hu : r1.upto = c.out.take pos ++ text ++ c.out.drop pos := by
    unfold Raw.upto
    rw [s1, hh1.1, List.take_append_of_le_length hsum,
      List.take_append_eq_append_take, List.take_append_eq_append_take, hl, t1, t2, t3, t4,
      List.append_assoc]
  unfold insertAt
  rw [if_pos (by rw [ho, List.length_take]; omega), hu]

/-- The removal of the header on the array is `removeHeader` of the scan loop,
where the scanned part of the buffer is `data[0 .. scan)`. -/
theorem rawRemoveHeader_before (r r1 : Raw) (b slack slack1 : CStr) (hh : r.Holds b slack)
    (h3 : r.scan ≤ b.length) (hh1 : r1.Holds (b.drop r.lasttag) slack1)
    (s1 : r1.scan + r.lasttag = r.scan) (c : Core) (hc : c.out = r.mem.take r.scan)
    (hl : c.lasttag = r.lasttag) :
    (removeHeader c).out = r1.mem.take r1.scan := by
  have e1 : c.out = b.take r.scan := by
    rw [hc, hh.1, List.take_append_of_le_length h3]
  have e2 : r1.mem.take r1.scan = (b.drop r.lasttag).take r1.scan := by
    rw [hh1.1, List.take_append_of_le_length (by rw [List.length_drop]; omega)]
  show c.out.drop c.lasttag = _
  rw [e2, e1, hl, List.drop_take]
  congr 1
  omega

/-- C32: every span deletion of the engine, of the span from a mark `last` up to
and including the byte under the cursor, on a buffer that holds the C string
`b` with `0 < last <= scan + 1 <= length(b)` (the span `[start, end)` with
`start = last` and `end = scan + 1`): the statements are defined, the buffer
content becomes `b[0..start) ++ b[end..)`, the tracked length is reduced by
`end - start`, the terminator stands at the new end, and the cursor is
`start - 1`.  In the terms of the scan loop: the scanned part of the buffer is
cut back to `last` bytes, as `deleteSpan` says, and the bytes behind the cursor
are the same. -/
theorem span_deletion (r : Raw) (last : Nat) (b slack : CStr) (hh : r.Holds b slack)
    (h1 : 0 < last) (h2 : last ≤ r.scan + 1) (h3 : r.scan + 1 ≤ b.length) :
    ∃ r1, rawDelete r last = some r1 ∧
      r1.mem.take r1.datalength = b.take last ++ b.drop (r.scan + 1) ∧
      r1.datalength = b.length - (r.scan + 1 - last) ∧
      r1.mem[r1.datalength]? = some chNUL ∧
      r1.scan = last - 1 ∧
      (∀ c : Core, c.out = r.upto → deleteSpan c last = .next { c with out := r1.upto }) ∧
      r1.ahead = r.ahead := by
  obtain ⟨r1, slack1, e, hh1, _, d1, s1, _, _, _⟩ := rawDelete_spec r last b slack hh h1 h2 h3
  have hl : (b.take last).length = last := by rw [List.length_take]; omega
  refine ⟨r1, e, holds_take r1 _ slack1 hh1, ?_, holds_nul r1 _ slack1 hh1, s1, ?_, ?_⟩
  · rw [← hh.2]; omega
  · exact rawDelete_upto r r1 last b slack slack1 hh h1 h2 h3 hh1 s1
  · rw [holds_ahead r1 _ slack1 hh1, holds_ahead r b slack hh, s1,
      show last - 1 + 1 = last by omega, List.drop_append_of_le_length (by omega),
      List.drop_of_length_le (by omega)]
    rfl

/-- Witness of C32: the tag `<x>` is cut out of the buffer `ab<x>cd`. -/
theorem span_deletion_witness :
    ∃ r1, rawDelete rawSample 2 = some r1 ∧
      r1.mem.take r1.datalength = lit "ab" ++ lit "cd" ∧
      r1.datalength = 7 - (4 + 1 - 2) ∧
      r1.mem[r1.datalength]? = some chNUL ∧
      r1.scan = 2 - 1 ∧
      (∀ c : Core, c.out = rawSample.upto →
        deleteSpan c 2 = .next { c with out := r1.upto }) ∧
      r1.ahead = rawSample.ahead :=
  span_deletion rawSample 2 (lit "ab<x>cd") (lit "zz") (by decide) (by decide) (by decide)
    (by decide)

theorem overInOption_marks (s s1 : OState) (h : overInOption s = .next s1) :
    s1.core.lasttag = s.core.lasttag ∧ s1.core.lasttagend = s.core.lasttagend ∧
    s1.core.tagwordstart = s.core.tagwordstart ∧ s1.m.lastoption = s.m.lastoption ∧
    s1.m.lastenumval = s.m.lastenumval ∧ s1.m.lastconstraints = s.m.lastconstraints := by
  have hc := overInOption_core s s1 h
  unfold SameButOut at hc
  unfold overInOption at h
  obtain ⟨r, h1, h2⟩ := Step.bind_eq_next h
  obtain ⟨c, _, h4⟩ := Step.bind_eq_next h2
  cases h4
  have hm : r.1.lastoption = s.m.lastoption ∧ r.1.lastenumval = s.m.lastenumval ∧
      r.1.lastconstraints = s.m.lastconstraints := by
    unfold optionEndM at h1
    split at h1
    · split at h1
      · cases h1
      · split at h1
        · split at h1
          · cases h1; exact ⟨rfl, rfl, rfl⟩
          · cases h1; exact ⟨rfl, rfl, rfl⟩
        · cases h1; exact ⟨rfl, rfl, rfl⟩
    · cases h1; exact ⟨rfl, rfl, rfl⟩
  have hc1 : c = { s.core with out := c.out } := hc
  have t1 : c.lasttag = s.core.lasttag := by rw [hc1]
  have t2 : c.lasttagend = s.core.lasttagend := by rw [hc1]
  have t3 : c.tagwordstart = s.core.tagwordstart := by rw [hc1]
  exact ⟨t1, t2, t3, hm.1, hm.2.1, hm.2.2⟩

theorem getElem?_shift (a t c : List Char) (i : Nat) (hi : a.length ≤ i) :
    (a ++ (t ++ c))[i + t.length]? = (a ++ c)[i]? := by
  rw [List.getElem?_append_right (by omega), List.getElem?_append_right (by omega),
    List.getElem?_append_right hi]
  congr 1
  omega

theorem getElem?_slack (c s1 s2 : List Char) (j : Nat) (hj : j ≤ c.length) :
    (c ++ chNUL :: s1)[j]? = (c ++ chNUL :: s2)[j]? := by
  by_cases hlt : j < c.length
  · rw [List.getElem?_append_left hlt, List.getElem?_append_left hlt]
  · have e : j = c.length := by omega
    rw [e, List.getElem?_append_right (Nat.le_refl _), List.getElem?_append_right (Nat.le_refl _),
      Nat.sub_self]
    simp

/-- C31, amended: what the three kinds of mutation do to the pointers into the
buffer, on a buffer that holds the C string `b`.  The span deletion from a mark
`last` moves the cursor and the tracked length back by the number of bytes
removed, and leaves the marks of the tag scanner as they are.  The insertion of
a text of `L` bytes at a mark `pos` advances the cursor and the tracked length
by `L`, and every byte from `pos` on stands `L` bytes further; but the marks of
the tag scanner (start of the last tag, start of the last word, end of the last
tag) keep their values, also when they pointed behind `pos`, and so do the marks
of Option mode at the end action of `option`, where the default line is
inserted.  Only the removal of the header shifts marks: the cursor, the start
of the last tag and the start of the last word move back by the number of bytes
removed, like the tracked length and like every byte from there on, and the end
of the last tag is set to `NULL`. -/
theorem splice_moves_cursor (r : Raw) (b slack : CStr) (hh : r.Holds b slack)
    (hs : r.scan + 1 ≤ b.length) :
    (∀ last, 0 < last → last ≤ r.scan + 1 →
      ∃ r1, rawDelete r last = some r1 ∧
        r1.scan + (r.scan + 1 - last) = r.scan ∧
        r1.datalength + (r.scan + 1 - last) = r.datalength ∧
        r1.lasttag = r.lasttag ∧ r1.lasttagend = r.lasttagend ∧
        r1.tagwordstart = r.tagwordstart) ∧
    (∀ pos text, pos ≤ r.scan + 1 → text.length ≤ slack.length →
      ∃ r1, rawInsert r pos text = some r1 ∧
        r1.scan = r.scan + text.length ∧
        r1.datalength = r.datalength + text.length ∧
        (∀ i, pos ≤ i → i ≤ r.datalength → r1.mem[i + text.length]? = r.mem[i]?) ∧
        r1.lasttag = r.lasttag ∧ r1.lasttagend = r.lasttagend ∧
        r1.tagwordstart = r.tagwordstart) ∧
    (∀ s s1 : OState, overInOption s = .next s1 →
      s1.core.lasttag = s.core.lasttag ∧ s1.core.lasttagend = s.core.lasttagend ∧
      s1.core.tagwordstart = s.core.tagwordstart ∧ s1.m.lastoption = s.m.lastoption ∧
      s1.m.lastenumval = s.m.lastenumval ∧ s1.m.lastconstraints = s.m.lastconstraints) ∧
    (r.lasttag ≤ r.tagwordstart → r.tagwordstart ≤ r.scan →
      ∃ r1, rawRemoveHeader r = some r1 ∧
        r1.scan + r.lasttag = r.scan ∧
        r1.datalength + r.lasttag = r.datalength ∧
        (∀ i, r.lasttag ≤ i → i ≤ r.datalength → r1.mem[i - r.lasttag]? = r.mem[i]?) ∧
        r1.lasttag + r.lasttag = r.lasttag ∧
        r1.tagwordstart + r.lasttag = r.tagwordstart ∧
        r1.lasttagend = none) := by
  refine ⟨?_, ?_, overInOption_marks, ?_⟩
  · intro last h1 h2
    obtain ⟨r1, _, e, _, _, d1, s1, m1, m2, m3⟩ := rawDelete_spec r last b slack hh h1 h2 hs
    exact ⟨r1, e, by rw [s1]; omega, d1, m1, m2, m3⟩
  · intro pos text h1 h2
    obtain ⟨r1, slack1, e, hh1, _, d1, s1, m1, m2, m3⟩ :=
      rawInsert_spec r pos text b slack hh (by omega) h2
    refine ⟨r1, e, s1, d1, ?_, m1, m2, m3⟩
    intro i hi1 hi2
    have hl : (b.take pos).length = pos := by rw [List.length_take]; omega
    have e1 : r1.mem = b.take pos ++ (text ++ (b.drop pos ++ chNUL :: slack1)) := by
      rw [hh1.1]
      simp only [List.append_assoc]
    have e2 : r.mem = b.take pos ++ (b.drop pos ++ chNUL :: slack) := by
      rw [hh.1, ← List.append_assoc, List.take_append_drop]
    have hl2 : (b.drop pos).length = b.length - pos := List.length_drop _ _
    have hd := hh.2
    have hi : (b.take pos).length ≤ i := by omega
    rw [e1, e2, getElem?_shift _ _ _ _ hi, List.getElem?_append_right hi,
      List.getElem?_append_right hi]
    exact getElem?_slack _ _ _ _ (by omega)
  · intro h1 h2
    obtain ⟨r1, slack1, e, hh1, _, d1, s1, m1, m2, m3⟩ :=
      rawRemoveHeader_spec r b slack hh h1 h2 (by omega)
    refine ⟨r1, e, s1, d1, ?_, m1, m3, m2⟩
    intro i hi1 hi2
    have hd := hh.2
    have hl : (b.take r.lasttag).length = r.lasttag := by rw [List.length_take]; omega
    have hl2 : (b.drop r.lasttag).length = b.length - r.lasttag := List.length_drop _ _
    have e2 : r.mem = b.take r.lasttag ++ (b.drop r.lasttag ++ chNUL :: slack) := by
      rw [hh.1, ← List.append_assoc, List.take_append_drop]
    have e3 : (b.take r.lasttag ++ (b.drop r.lasttag ++ chNUL :: slack))[i]? =
        (b.drop r.lasttag ++ chNUL :: slack)[i - r.lasttag]? := by
      rw [List.getElem?_append_right (by omega), hl]
    rw [hh1.1, e2, e3]
    exact getElem?_slack _ _ _ _ (by omega)

/-- Witness of the amended C31: the text `yy` is inserted at offset 1 of the
buffer `ab<x>cd`; the cursor moves from 4 to 6, the mark of the last tag stays
at 2. -/
theorem splice_moves_cursor_witness :
    ∃ r1, rawInsert rawSample 1 (lit "yy") = some r1 ∧
      r1.scan = rawSample.scan + (lit "yy").length ∧
      r1.datalength = rawSample.datalength + (lit "yy").length ∧
      (∀ i, 1 ≤ i → i ≤ rawSample.datalength →
        r1.mem[i + (lit "yy").length]? = rawSample.mem[i]?) ∧
      r1.lasttag = rawSample.lasttag ∧ r1.lasttagend = rawSample.lasttagend ∧
      r1.tagwordstart = rawSample.tagwordstart :=
  (splice_moves_cursor rawSample (lit "ab<x>cd") (lit "zz") (by decide) (by decide)).2.1 1
    (lit "yy") (by decide) (by decide)

set_option maxRecDepth 100000 in
/-- Counterexample to C31 as stated: the option document whose winning
constraint carries the default value `ev/A4`, in Option mode.  In front of the
`>` of the closing tag of the option the mark of the last tag (offset 32) points
at the `<` of that tag.  At the `>` the mark `lastoption` is set to offset 31,
the default line of 33 bytes is inserted there, and the cursor moves by 33
bytes and the loop increment.  The mark of the last tag pointed behind the
place of the insertion, but it has the value that it had: the `<` that it
pointed at stands 33 bytes further, and the mark points into the inserted
line. -/
theorem insertion_counterexample :
    (defaultLine (lit "ev/A4")).length = 33 ∧
    (scanPrefix (optionHooks ctxLaserJetGs) optInit docDefaultOpen (lit ">\n")).isNext = true ∧
    (scanPrefix (optionHooks ctxLaserJetGs) optInit (docDefaultOpen ++ ['>'])
      [chNL]).isNext = true ∧
    stBeforeInsert.core.lasttag = 32 ∧
    stBeforeInsert.core.out[32]? = some '<' ∧
    stAfterInsert.m.lastoption = some 31 ∧
    stAfterInsert.core.out.length = stBeforeInsert.core.out.length + 1 + 33 ∧
    stAfterInsert.core.out.drop 31 = defaultLine (lit "ev/A4") ++ lit "\n</option>" ∧
    stAfterInsert.core.lasttag = 32 ∧
    stAfterInsert.core.out[32]? = some ' ' ∧
    stAfterInsert.core.out[32 + 33]? = some '<' := by
  decide

/-- The scan loop ends within as many iterations as the buffer holds bytes
behind the cursor. -/
theorem scanFuel_enough {σ : Type} (h : Hooks σ) (stop : σ → Bool) (data : CStr)
    (s : PState σ) (n : Nat) (hn : data.length ≤ n) :
    scanFuel h stop n s data = some (stopLoop h stop s data) := by
  induction data generalizing s n with
  | nil => cases n <;> rfl
  | cons ch rest ih =>
    cases n with
    | zero => simp at hn
    | succ n =>
      unfold scanFuel stopLoop
      split
      · rfl
      · cases hst : step h s ch rest with
        | next s1 => exact ih s1 n (by simpa using hn)
        | discard r => rfl
        | fatal => rfl
        | undefined => rfl

/-- The scan loop of a mode that never leaves the loop early. -/
theorem scanLoop_eq_stopLoop {σ : Type} (h : Hooks σ) (data : CStr) (s : PState σ) :
    scanLoop h s data = stopLoop h (fun _ => false) s data := by
  induction data generalizing s with
  | nil => rfl
  | cons ch rest ih =>
    unfold scanLoop stopLoop
    rw [if_neg (by decide)]
    cases hst : step h s ch rest with
    | next s1 => exact ih s1
    | discard r => rfl
    | fatal => rfl
    | undefined => rfl

/-- The scan loop over the rest of the input with a budget of iterations, and
the mutations of the array against those of the scanned part of the buffer.
With a budget of as many iterations as the input holds bytes the loop over the
rest of the input has ended, in the result of the loop.  On a buffer that holds
the C string `b`, with the cursor on one of its bytes, each of the three kinds
of mutation is defined and leaves the number `datalength - scan` and the bytes
behind the cursor as they are (span deletion from a mark `last` with `0 < last
<= scan + 1`; insertion at a mark `pos <= scan + 1` of a text for which the
allocation has room; removal of the header), and the loop increment reduces the
number by one.  Each mutation of the array is the one that the scan loop over
the rest of the input performs on the scanned part of the buffer (`deleteSpan`,
`insertAt`, `removeHeader`). -/
theorem mutations_on_scanned_part {σ : Type} (h : Hooks σ) (stop : σ → Bool) (s : PState σ)
    (data : CStr) (r : Raw) (b slack : CStr) (hh : r.Holds b slack)
    (hs : r.scan + 1 ≤ b.length) :
    scanFuel h stop data.length s data = some (stopLoop h stop s data) ∧
    scanFuel h (fun _ => false) data.length s data = some (scanLoop h s data) ∧
    (∀ last, 0 < last → last ≤ r.scan + 1 →
      ∃ r1, rawDelete r last = some r1 ∧
        r1.datalength - r1.scan = r.datalength - r.scan ∧ r1.ahead = r.ahead ∧
        ∀ c : Core, c.out = r.upto → deleteSpan c last = .next { c with out := r1.upto }) ∧
    (∀ pos text, pos ≤ r.scan + 1 → text.length ≤ slack.length →
      ∃ r1, rawInsert r pos text = some r1 ∧
        r1.datalength - r1.scan = r.datalength - r.scan ∧ r1.ahead = r.ahead ∧
        ∀ c : Core, c.out = r.upto → insertAt c pos text = .next { c with out := r1.upto }) ∧
    (r.lasttag ≤ r.tagwordstart → r.tagwordstart ≤ r.scan →
      ∃ r1, rawRemoveHeader r = some r1 ∧
        r1.datalength - r1.scan = r.datalength - r.scan ∧ r1.ahead = r.ahead ∧
        ∀ c : Core, c.out = r.mem.take r.scan → c.lasttag = r.lasttag →
          (removeHeader c).out = r1.mem.take r1.scan) ∧
    (rawAdvance r).datalength - (rawAdvance r).scan + 1 = r.datalength - r.scan := by
  have hd := hh.2
  refine ⟨scanFuel_enough h stop data s _ (Nat.le_refl _), ?_, ?_, ?_, ?_, ?_⟩
  · rw [scanLoop_eq_stopLoop]
    exact scanFuel_enough h _ data s _ (Nat.le_refl _)
  · intro last h1 h2
    obtain ⟨r1, slack1, e, hh1, _, d1, s1, _, _, _⟩ := rawDelete_spec r last b slack hh h1 h2 hs
    have hl : (b.take last).length = last := by rw [List.length_take]; omega
    refine ⟨r1, e, by omega, ?_, rawDelete_upto r r1 last b slack slack1 hh h1 h2 hs hh1 s1⟩
    rw [holds_ahead r1 _ slack1 hh1, holds_ahead r b slack hh, s1,
      show last - 1 + 1 = last by omega, List.drop_append_of_le_length (by omega),
      List.drop_of_length_le (by omega)]
    rfl
  · intro pos text h1 h2
    obtain ⟨r1, slack1, e, hh1, _, d1, s1, _, _, _⟩ :=
      rawInsert_spec r pos text b slack hh (by omega) h2
    have hl : (b.take pos).length = pos := by rw [List.length_take]; omega
    refine ⟨r1, e, by omega, ?_, rawInsert_upto r r1 pos text b slack slack1 hh h1 hs hh1 s1⟩
    rw [holds_ahead r1 _ slack1 hh1, holds_ahead r b slack hh, s1, ← List.append_assoc,
      List.drop_append_eq_append_drop,
      List.drop_of_length_le (by rw [List.length_append]; omega), List.nil_append,
      List.drop_drop]
    congr 1
    rw [List.length_append]
    omega
  · intro h1 h2
    obtain ⟨r1, slack1, e, hh1, _, d1, s1, _, _, _⟩ :=
      rawRemoveHeader_spec r b slack hh h1 h2 (by omega)
    refine ⟨r1, e, by omega, ?_,
      rawRemoveHeader_before r r1 b slack slack1 hh (by omega) hh1 s1⟩
    rw [holds_ahead r1 _ slack1 hh1, holds_ahead r b slack hh, List.drop_drop]
    congr 1
    omega
  · show r.datalength - (r.scan + 1) + 1 = r.datalength - r.scan
    omega

/-! ## The scan loop on the buffer as memory: termination -/

theorem Raw.Kept.rfl' (r : Raw) : r.Kept r := fun h => ⟨h, rfl⟩

theorem Raw.Kept.trans' {r r1 r2 : Raw} (h1 : r.Kept r1) (h2 : r1.Kept r2) : r.Kept r2 :=
  fun h => ⟨(h2 (h1 h).1).1, (h2 (h1 h).1).2.trans (h1 h).2⟩

/-- The marks of the tag scanner do not matter for the cursor and the content. -/
theorem kept_of_same (r r1 : Raw) (h1 : r1.mem = r.mem) (h2 : r1.datalength = r.datalength)
    (h3 : r1.scan = r.scan) : r.Kept r1 := by
  rintro ⟨hs, b, slack, hm, hd⟩
  refine ⟨⟨by omega, b, slack, ?_, ?_⟩, ?_⟩
  · rw [h1]; exact hm
  · rw [h2]; exact hd
  · unfold Raw.left; omega

theorem rawDelete_kept (r r1 : Raw) (last : Nat) (h : rawDelete r last = some r1) :
    r.Kept r1 := by
  rintro ⟨hs, b, slack, hh⟩
  have hg : 1 ≤ last ∧ last ≤ r.scan + 1 ∧ r.scan ≤ r.datalength := by
    unfold rawDelete at h
    split at h
    · assumption
    · cases h
  obtain ⟨r2, slack1, e, hh1, _, d1, s1, _⟩ :=
    rawDelete_spec r last b slack hh hg.1 hg.2.1 (by rw [← hh.2]; omega)
  rw [h] at e
  cases e
  refine ⟨⟨by omega, _, _, hh1⟩, ?_⟩
  unfold Raw.left
  omega

theorem rawInsert_kept (r r1 : Raw) (pos : Nat) (text : CStr)
    (h : rawInsert r pos text = some r1) : r.Kept r1 := by
  rintro ⟨hs, b, slack, hh⟩
  have hg : pos ≤ r.datalength ∧ text.length ≤ slack.length := by
    unfold rawInsert at h
    split at h
    · rename_i hp
      refine ⟨hp, ?_⟩
      cases hm : memmove r.mem (pos + text.length) pos (r.datalength - pos + 1) with
      | none => rw [hm] at h; cases h
      | some m1 =>
        unfold memmove at hm
        split at hm
        · rename_i hb
          have hl : r.mem.length = b.length + 1 + slack.length := by
            rw [hh.1]; simp; omega
          have hd := hh.2
          omega
        · cases hm
    · cases h
  obtain ⟨r2, slack1, e, hh1, _, d1, s1, _⟩ :=
    rawInsert_spec r pos text b slack hh (by rw [← hh.2]; exact hg.1) hg.2
  rw [h] at e
  cases e
  refine ⟨⟨by omega, _, _, hh1⟩, ?_⟩
  unfold Raw.left
  omega

theorem rawRemoveHeader_kept (r r1 : Raw) (h : rawRemoveHeader r = some r1) : r.Kept r1 := by
  rintro ⟨hs, b, slack, hh⟩
  have hg : r.lasttag ≤ r.tagwordstart ∧ r.tagwordstart ≤ r.scan ∧ r.scan ≤ r.datalength := by
    unfold rawRemoveHeader at h
    split at h
    · assumption
    · cases h
  obtain ⟨r2, slack1, e, hh1, _, d1, s1, _⟩ :=
    rawRemoveHeader_spec r b slack hh hg.1 hg.2.1 (by rw [← hh.2]; exact hg.2.2)
  rw [h] at e
  cases e
  refine ⟨⟨by omega, _, _, hh1⟩, ?_⟩
  unfold Raw.left
  omega

theorem header_kept {σ : Type} (s s1 : RState σ) (h : s.header = .next s1) :
    s.raw.Kept s1.raw := by
  unfold RState.header at h
  split at h
  · rename_i r hr
    cases h
    exact rawRemoveHeader_kept _ _ hr
  · cases h

theorem delete_kept {σ : Type} (s s1 : RState σ) (last : Nat) (h : s.delete last = .next s1) :
    s.raw.Kept s1.raw := by
  unfold RState.delete at h
  split at h
  · rename_i r hr
    cases h
    exact rawDelete_kept _ _ _ hr
  · cases h

theorem insert_kept {σ : Type} (s s1 : RState σ) (pos : Nat) (text : CStr)
    (h : s.insert pos text = .next s1) : s.raw.Kept s1.raw := by
  unfold RState.insert at h
  split at h
  · rename_i r hr
    cases h
    exact rawInsert_kept _ _ _ _ hr
  · cases h

theorem deleteFrom_kept {σ : Type} (s s1 : RState σ) (p : Option Nat)
    (h : s.deleteFrom p = .next s1) : s.raw.Kept s1.raw := by
  cases p with
  | none => cases h; exact Raw.Kept.rfl' _
  | some p => exact delete_kept s s1 p h

theorem insertLine_kept {σ : Type} (s s1 : RState σ) (p : Option (Nat × CStr))
    (h : s.insertLine p = .next s1) : s.raw.Kept s1.raw := by
  cases p with
  | none => cases h; exact Raw.Kept.rfl' _
  | some p => exact insert_kept s s1 p.1 p.2 h

theorem rawRoot_kept {σ : Type} (root : CStr) (s s1 : RState σ) (h : rawRoot root s = .next s1) :
    s.raw.Kept s1.raw := by
  unfold rawRoot at h
  split at h
  · exact header_kept s s1 h
  · cases h; exact Raw.Kept.rfl' _

/-! ### The actions of the five modes -/

theorem keeps_rawOptName (ctx : Ctx) : Keeps (rawOptName ctx) := by
  intro s s1 h
  unfold rawOptName at h
  obtain ⟨m1, _, h2⟩ := Step.bind_eq_next h
  exact rawRoot_kept (lit "option") { s with m := m1 } s1 h2

theorem keeps_rawOverInConstraints : Keeps rawOverInConstraints := by
  intro s s1 h
  unfold rawOverInConstraints at h
  obtain ⟨r, _, h2⟩ := Step.bind_eq_next h
  obtain ⟨s2, h3, h4⟩ := Step.bind_eq_next h2
  cases h4
  exact deleteFrom_kept s s2 _ h3

theorem keeps_rawOverInEnumVal : Keeps rawOverInEnumVal := by
  intro s s1 h
  unfold rawOverInEnumVal at h
  obtain ⟨s2, h3, h4⟩ := Step.bind_eq_next h
  cases h4
  exact deleteFrom_kept s s2 _ h3

theorem keeps_rawOverInOption : Keeps rawOverInOption := by
  intro s s1 h
  unfold rawOverInOption at h
  obtain ⟨r, _, h2⟩ := Step.bind_eq_next h
  obtain ⟨s2, h3, h4⟩ := Step.bind_eq_next h2
  cases h4
  exact insertLine_kept s s2 _ h3

theorem keeps_rawOptEnd (ctx : Ctx) : Keeps (rawOptEnd ctx) := by
  intro s s1 h
  unfold rawOptEnd at h
  obtain ⟨s7, h1, h2⟩ := Step.bind_eq_next h
  obtain ⟨s8, h3, h4⟩ := Step.bind_eq_next h2
  exact ((keeps_rawOverInConstraints { s with m := optEndM ctx (s.view 1) s.m } s7 h1).trans'
    (keeps_rawOverInEnumVal s7 s8 h3)).trans' (keeps_rawOverInOption s8 s1 h4)

theorem keeps_rawPrnName : Keeps rawPrnName := by
  intro s s1 h
  exact rawRoot_kept (lit "printer") { s with m := prnNameM (s.view 0) s.m } s1 h

theorem keeps_rawPrnEnd (ctx : Ctx) : Keeps (rawPrnEnd ctx) := by
  intro s s1 h
  cases h
  exact Raw.Kept.rfl' _

theorem keeps_rawDrvName : Keeps rawDrvName := by
  intro s s1 h
  unfold rawDrvName at h
  obtain ⟨m1, _, h2⟩ := Step.bind_eq_next h
  exact rawRoot_kept (lit "driver") { s with m := m1 } s1 h2

theorem keeps_rawOverInPrinters : Keeps rawOverInPrinters := by
  intro s s1 h
  unfold rawOverInPrinters at h
  split at h
  · split at h
    · obtain ⟨s2, h1, h2⟩ := Step.bind_eq_next h
      obtain ⟨s3, h3, h4⟩ := Step.bind_eq_next h2
      cases h4
      refine (delete_kept s s2 _ h1).trans' ?_
      split at h3
      · exact insert_kept s2 s3 _ _ h3
      · cases h3; exact Raw.Kept.rfl' _
    · cases h; exact Raw.Kept.rfl' _
  · cases h; exact Raw.Kept.rfl' _

theorem keeps_rawOverInPrinter : Keeps rawOverInPrinter := by
  intro s s1 h
  unfold rawOverInPrinter at h
  repeat' split at h
  all_goals first | (cases h; exact Raw.Kept.rfl' _) | cases h

theorem keeps_rawDrvEnd (ctx : Ctx) : Keeps (rawDrvEnd ctx) := by
  intro s s1 h
  unfold rawDrvEnd at h
  obtain ⟨s2, h1, h2⟩ := Step.bind_eq_next h
  obtain ⟨s3, h3, h4⟩ := Step.bind_eq_next h2
  cases h4
  exact (keeps_rawOverInPrinters { s with m := overDrvFlags (s.view 1) s.m } s2 h1).trans'
    (keeps_rawOverInPrinter s2 s3 h3)

theorem keeps_rawOvdName : Keeps rawOvdName := by
  intro s s1 h
  unfold rawOvdName at h
  split at h
  · cases h; exact Raw.Kept.rfl' _
  · split at h
    · cases h
    · obtain ⟨m1, _, h2⟩ := Step.bind_eq_next h
      exact rawRoot_kept (lit "driver") { s with m := m1 } s1 h2

theorem keeps_rawOverOvdPrinters : Keeps rawOverOvdPrinters := by
  intro s s1 h
  unfold rawOverOvdPrinters at h
  split at h
  · split at h
    · obtain ⟨s2, h1, h2⟩ := Step.bind_eq_next h
      cases h2
      exact delete_kept s s2 _ h1
    · cases h; exact Raw.Kept.rfl' _
  · cases h; exact Raw.Kept.rfl' _

theorem keeps_rawOverOvdComments : Keeps rawOverOvdComments := by
  intro s s1 h
  unfold rawOverOvdComments at h
  split at h
  · split at h
    · split at h
      · obtain ⟨s2, h1, h2⟩ := Step.bind_eq_next h
        cases h2
        exact delete_kept s s2 _ h1
      · cases h; exact Raw.Kept.rfl' _
    · cases h; exact Raw.Kept.rfl' _
  · cases h; exact Raw.Kept.rfl' _

theorem keeps_rawOverOvdFunctionality : Keeps rawOverOvdFunctionality := by
  intro s s1 h
  unfold rawOverOvdFunctionality at h
  repeat' split at h
  all_goals first | (cases h; exact Raw.Kept.rfl' _) | cases h

theorem keeps_rawOvdCutPrototype : Keeps rawOvdCutPrototype := by
  intro s s1 h
  unfold rawOvdCutPrototype at h
  split at h
  · cases h; exact Raw.Kept.rfl' _
  · split at h
    · exact delete_kept s s1 _ h
    · cases h; exact Raw.Kept.rfl' _

theorem keeps_rawOverOvdPrototype (ctx : OvCtx) : Keeps (rawOverOvdPrototype ctx) := by
  intro s s1 h
  unfold rawOverOvdPrototype at h
  split at h
  · obtain ⟨m2, _, h2⟩ := Step.bind_eq_next h
    exact keeps_rawOvdCutPrototype { s with m := m2 } s1 h2
  · cases h; exact Raw.Kept.rfl' _

theorem keeps_rawOvdEnd (ctx : OvCtx) : Keeps (rawOvdEnd ctx) := by
  intro s s1 h
  unfold rawOvdEnd at h
  split at h
  · cases h; exact Raw.Kept.rfl' _
  · split at h
    · cases h
    · obtain ⟨s2, h1, h2⟩ := Step.bind_eq_next h
      obtain ⟨s3, h3, h4⟩ := Step.bind_eq_next h2
      obtain ⟨s4, h5, h6⟩ := Step.bind_eq_next h4
      exact (((keeps_rawOverOvdPrinters { s with m := overOvdDriver (s.view 1) s.m } s2 h1).trans'
        (keeps_rawOverOvdComments s2 s3 h3)).trans'
        (keeps_rawOverOvdFunctionality { s3 with m := overOvdIds ctx (s3.view 1) s3.m } s4 h5)).trans'
        (keeps_rawOverOvdPrototype ctx { s4 with m := overOvdPrinter s4.m s4.core.nestinglevel } s1 h6)

theorem keeps_rawOvpName : Keeps rawOvpName := by
  intro s s1 h
  exact rawRoot_kept (lit "printer") { s with m := ovpNameM (s.view 0) s.m } s1 h

theorem keeps_rawOvpEnd (ctx : OvCtx) : Keeps (rawOvpEnd ctx) := by
  intro s s1 h
  unfold rawOvpEnd at h
  obtain ⟨m1, _, h2⟩ := Step.bind_eq_next h
  cases h2
  exact Raw.Kept.rfl' _

/-! ### The tag scanner and the loop -/

theorem keeps_rawWordEnd {σ : Type} (h : RawHooks σ) (hk : KeepsHooks h) :
    Keeps (rawWordEnd h) := by
  intro s s1 e
  unfold rawWordEnd at e
  simp only at e
  split at e
  · cases e
    exact (show ∀ x : RState σ, x.raw = s.raw → s.raw.Kept (h.onParam x).raw from
      fun x hx => hx ▸ hk.onParam x) _ rfl
  · exact (show ∀ x : RState σ, h.onName x = .next s1 → x.raw = s.raw → s.raw.Kept s1.raw from
      fun x hn hx => hx ▸ hk.onName x s1 hn) _ e rfl

theorem keeps_rawTagEnd {σ : Type} (h : RawHooks σ) (hk : KeepsHooks h) :
    Keeps (rawTagEnd h) := by
  intro s s1 e
  unfold rawTagEnd at e
  simp only at e
  split at e
  · cases e
  · obtain ⟨b, _, e2⟩ := Step.bind_eq_next e
    obtain ⟨s3, e3, e4⟩ := Step.bind_eq_next e2
    cases e4
    exact (hk.onEnd _ _ e3).trans' (kept_of_same _ _ rfl rfl rfl)

theorem keeps_rawStep {σ : Type} (h : RawHooks σ) (hk : KeepsHooks h) (ch : Char) :
    Keeps (fun s => rawStep h s ch) := by
  intro s s1 e
  simp only [rawStep] at e
  split at e
  · -- `<`
    repeat' split at e
    all_goals first
      | (cases e; done)
      | (cases e; exact Raw.Kept.rfl' _)
  · split at e
    · -- a delimiter
      split at e
      · cases e; exact Raw.Kept.rfl' _
      · split at e
        · obtain ⟨s2, e1, e2⟩ := Step.bind_eq_next e
          have k1 : s.raw.Kept s2.raw := by
            split at e1
            · cases e1; exact Raw.Kept.rfl' _
            · obtain ⟨s3, e3, e4⟩ := Step.bind_eq_next e1
              have k0 : s.raw.Kept s3.raw := by
                split at e3
                · exact keeps_rawWordEnd h hk _ _ e3
                · cases e3; exact Raw.Kept.rfl' _
              split at e4
              · cases e4; exact k0
              · cases e4; exact k0
          refine k1.trans' ?_
          split at e2
          · split at e2
            · split at e2
              · cases e2; exact Raw.Kept.rfl' _
              · cases e2; exact Raw.Kept.rfl' _
            · exact keeps_rawTagEnd h hk _ _ e2
          · cases e2; exact Raw.Kept.rfl' _
        · cases e; exact Raw.Kept.rfl' _
    · -- any other byte
      repeat' split at e
      all_goals (cases e; exact Raw.Kept.rfl' _)

theorem atHead_getElem {r : Raw} (h : r.AtHead) : ∃ ch, r.mem[r.scan]? = some ch := by
  obtain ⟨hs, b, slack, hm, hd⟩ := h
  have hl : r.scan < r.mem.length := by
    rw [hm]; simp; omega
  exact ⟨r.mem[r.scan], List.getElem?_eq_getElem hl⟩

theorem inside_of_byte {r : Raw} (h : r.AtHead) (ch : Char) (e : r.mem[r.scan]? = some ch)
    (hn : ch ≠ chNUL) : r.Inside := by
  obtain ⟨hs, b, slack, hh⟩ := h
  refine ⟨?_, b, slack, hh⟩
  have hz := holds_nul r b slack hh
  by_contra hc
  have : r.scan = r.datalength := by omega
  rw [this, hz] at e
  exact hn (Option.some.inj e).symm

theorem atHead_advance {r : Raw} (h : r.Inside) : (rawAdvance r).AtHead ∧
    (rawAdvance r).left + 1 = r.left := by
  obtain ⟨hs, b, slack, hh⟩ := h
  refine ⟨⟨?_, b, slack, hh⟩, ?_⟩
  · show r.scan + 1 ≤ r.datalength
    omega
  · show r.datalength - (r.scan + 1) + 1 = r.datalength - r.scan
    omega

theorem rawLoop_ends {σ : Type} (h : RawHooks σ) (hk : KeepsHooks h) (stop : σ → Bool) :
    ∀ (n : Nat) (s : RState σ), s.raw.AtHead → s.raw.left < n →
      ∃ res, rawLoop h stop n s = some res := by
  intro n
  induction n with
  | zero => intro s _ hl; omega
  | succ n ih =>
    intro s ha hl
    obtain ⟨ch, hch⟩ := atHead_getElem ha
    unfold rawLoop
    rw [hch]
    simp only
    split
    · exact ⟨_, rfl⟩
    · rename_i hn
      split
      · exact ⟨_, rfl⟩
      · cases hst : rawStep h s ch with
        | next s1 =>
          have hin := inside_of_byte ha ch hch hn
          obtain ⟨hin1, hl1⟩ := keeps_rawStep h hk ch s s1 hst hin
          obtain ⟨ha2, hl2⟩ := atHead_advance hin1
          exact ih _ ha2 (by show (rawAdvance s1.raw).left < n; omega)
        | discard r => exact ⟨_, rfl⟩
        | fatal => exact ⟨_, rfl⟩
        | undefined => exact ⟨_, rfl⟩

theorem atHead_start (data slack : CStr) : (rawStart data slack).AtHead :=
  ⟨Nat.zero_le _, data, slack, rfl, rfl⟩

theorem loopEnds_of_keeps {σ : Type} (h : RawHooks σ) (hk : KeepsHooks h) (stop : σ → Bool) :
    LoopEnds h stop := by
  refine ⟨?_, ?_, ?_⟩
  · intro init data slack
    exact rawLoop_ends h hk stop _ _ (atHead_start data slack)
      (by show data.length - 0 < data.length + 1; omega)
  · intro s ha
    exact rawLoop_ends h hk stop _ s ha (Nat.lt_succ_self _)
  · intro s s1 ch ha hch hn hst
    have hin := inside_of_byte ha ch hch hn
    obtain ⟨hin1, hl1⟩ := keeps_rawStep h hk ch s s1 hst hin
    obtain ⟨ha2, hl2⟩ := atHead_advance hin1
    exact ⟨hl1, ha2, by omega⟩

theorem keepsHooks_option (ctx : Ctx) : KeepsHooks (rawOptionHooks ctx) :=
  ⟨keeps_rawOptName ctx, fun _ => Raw.Kept.rfl' _, keeps_rawOptEnd ctx⟩

theorem keepsHooks_printer (ctx : Ctx) : KeepsHooks (rawPrinterHooks ctx) :=
  ⟨keeps_rawPrnName, fun _ => Raw.Kept.rfl' _, keeps_rawPrnEnd ctx⟩

theorem keepsHooks_driver (ctx : Ctx) : KeepsHooks (rawDriverHooks ctx) :=
  ⟨keeps_rawDrvName, fun _ => Raw.Kept.rfl' _, keeps_rawDrvEnd ctx⟩

theorem keepsHooks_ovDriver (ctx : OvCtx) : KeepsHooks (rawOvDriverHooks ctx) := by
  refine ⟨keeps_rawOvdName, ?_, keeps_rawOvdEnd ctx⟩
  intro s
  show s.raw.Kept (rawOvdParam s).raw
  unfold rawOvdParam
  split <;> exact Raw.Kept.rfl' _

theorem keepsHooks_ovPrinter (ctx : OvCtx) : KeepsHooks (rawOvPrinterHooks ctx) :=
  ⟨keeps_rawOvpName, fun _ => Raw.Kept.rfl' _, keeps_rawOvpEnd ctx⟩

theorem rawDelete_shift (r r1 : Raw) (last : Nat) (hi : r.Inside)
    (h : rawDelete r last = some r1) :
    r1.scan + (r.scan + 1 - last) = r.scan ∧
      r1.datalength + (r.scan + 1 - last) = r.datalength := by
  obtain ⟨hs, b, slack, hh⟩ := hi
  have hg : 1 ≤ last ∧ last ≤ r.scan + 1 ∧ r.scan ≤ r.datalength := by
    unfold rawDelete at h
    split at h
    · assumption
    · cases h
  obtain ⟨r2, slack1, e, hh1, _, d1, s1, _⟩ :=
    rawDelete_spec r last b slack hh hg.1 hg.2.1 (by rw [← hh.2]; omega)
  rw [h] at e
  cases e
  omega

theorem rawInsert_shift (r r1 : Raw) (pos : Nat) (text : CStr)
    (h : rawInsert r pos text = some r1) :
    r1.scan = r.scan + text.length ∧ r1.datalength = r.datalength + text.length := by
  unfold rawInsert at h
  split at h
  · cases hm : memmove r.mem (pos + text.length) pos (r.datalength - pos + 1) with
    | none => rw [hm] at h; cases h
    | some m1 =>
      rw [hm] at h
      cases hp : memput m1 pos text with
      | none =>
        simp only [Option.bind, hp, Option.map] at h
        cases h
      | some m2 =>
        simp only [Option.bind, hp, Option.map] at h
        cases h
        exact ⟨rfl, rfl⟩
  · cases h

theorem rawRemoveHeader_shift (r r1 : Raw) (h : rawRemoveHeader r = some r1) :
    r1.scan + r.lasttag = r.scan ∧ r1.datalength + r.lasttag = r.datalength := by
  unfold rawRemoveHeader at h
  split at h
  · rename_i hg
    cases hm : memmove r.mem 0 r.lasttag (r.datalength + 1 - r.lasttag) with
    | none => rw [hm] at h; cases h
    | some m1 =>
      rw [hm] at h
      cases h
      constructor
      · show r.scan - r.lasttag + r.lasttag = r.scan
        omega
      · show r.datalength - r.lasttag + r.lasttag = r.datalength
        omega
  · cases h

/-- C36: the scan loop of `parse` on the buffer as memory, with the actions of
each of the five modes (`rawLoop` tests the byte under the cursor, and the
actions move the content of the array and the cursor by the `memmove`
statements of the source, with the marks they hold).  For every input and every
state of the variables, in an allocation with any bytes behind the terminator,
the loop ends within `strlen(data) + 1` iterations: at the terminator, by the
`return` or `exit` of an action, or where the C code leaves the model (a mark
outside the buffer, no room for an insertion); and in every iteration that goes
on, the body of the loop leaves the number of bytes between the cursor and the
end of the buffer content as it is and the loop increment reduces it by one
(`LoopEnds`).  Every span deletion, insertion and header removal that is
defined on an array that holds a C string with the cursor on one of its bytes
leaves this number as it is, and moves the cursor and the end of the content by
the length removed or added. -/
theorem scan_loop_terminates (ctx : Ctx) (octx : OvCtx) :
    LoopEnds (rawOptionHooks ctx) (fun _ => false) ∧
    LoopEnds (rawPrinterHooks ctx) (fun _ => false) ∧
    LoopEnds (rawDriverHooks ctx) (fun _ => false) ∧
    LoopEnds (rawOvDriverHooks octx) (fun m => m.returned) ∧
    LoopEnds (rawOvPrinterHooks octx) (fun _ => false) ∧
    (∀ (r r1 : Raw) (last : Nat), r.Inside → rawDelete r last = some r1 →
      r1.left = r.left ∧ r1.scan + (r.scan + 1 - last) = r.scan ∧
        r1.datalength + (r.scan + 1 - last) = r.datalength) ∧
    (∀ (r r1 : Raw) (pos : Nat) (text : CStr), r.Inside → rawInsert r pos text = some r1 →
      r1.left = r.left ∧ r1.scan = r.scan + text.length ∧
        r1.datalength = r.datalength + text.length) ∧
    (∀ r r1 : Raw, r.Inside → rawRemoveHeader r = some r1 →
      r1.left = r.left ∧ r1.scan + r.lasttag = r.scan ∧
        r1.datalength + r.lasttag = r.datalength) :=
  ⟨loopEnds_of_keeps _ (keepsHooks_option ctx) _,
    loopEnds_of_keeps _ (keepsHooks_printer ctx) _,
    loopEnds_of_keeps _ (keepsHooks_driver ctx) _,
    loopEnds_of_keeps _ (keepsHooks_ovDriver octx) _,
    loopEnds_of_keeps _ (keepsHooks_ovPrinter octx) _,
    fun r r1 last hi h => ⟨(rawDelete_kept r r1 last h hi).2, rawDelete_shift r r1 last hi h⟩,
    fun r r1 pos text hi h => ⟨(rawInsert_kept r r1 pos text h hi).2, rawInsert_shift r r1 pos text h⟩,
    fun r r1 hi h => ⟨(rawRemoveHeader_kept r r1 h hi).2, rawRemoveHeader_shift r r1 h⟩⟩

/-- Witness of C36: the scan loop in Option mode over the document of the option
`Copies`, in an allocation with sixty bytes behind the terminator, ends within
`strlen(data) + 1` iterations. -/
theorem scan_loop_terminates_witness :
    ∃ res, rawLoop (rawOptionHooks (ctxSetting (lit "Copies=5"))) (fun _ => false)
      ((copiesHead ++ (renderItems copiesOption.items ++ optionTail)).length + 1)
      (RState.start optInit (copiesHead ++ (renderItems copiesOption.items ++ optionTail))
        (List.replicate 60 'z')) = some res :=
  (scan_loop_terminates (ctxSetting (lit "Copies=5")) ovAll).1.1 optInit _ _

/-! ### The two scan loops side by side -/

theorem Step.Agree.right {α β : Type} (R : α → β → Prop) (x : Step α) :
    Step.Agree R x .undefined := by
  cases x <;> trivial

theorem Step.Agree.left {α β : Type} (R : α → β → Prop) (y : Step β) :
    Step.Agree R .undefined y := by
  cases y <;> trivial

theorem Step.Agree.bind {α β α' β' : Type} {R : α → α' → Prop} {Q : β → β' → Prop}
    {x : Step α} {y : Step α'} {f : α → Step β} {g : α' → Step β'}
    (h : Step.Agree R x y) (hf : ∀ a a', R a a' → Step.Agree Q (f a) (g a')) :
    Step.Agree Q (x.bind f) (y.bind g) := by
  cases x with
  | next a =>
    cases y with
    | next b => exact hf a b h
    | discard r => cases h
    | fatal => cases h
    | undefined => exact Step.Agree.right Q _
  | discard r =>
    cases y with
    | next b => cases h
    | discard q => exact h
    | fatal => cases h
    | undefined => trivial
  | fatal =>
    cases y with
    | next b => cases h
    | discard q => cases h
    | fatal => trivial
    | undefined => trivial
  | undefined => exact Step.Agree.left Q _

theorem Step.Agree.same {α β β' : Type} {Q : β → β' → Prop}
    (x : Step α) {f : α → Step β} {g : α → Step β'}
    (hf : ∀ a, Step.Agree Q (f a) (g a)) : Step.Agree Q (x.bind f) (x.bind g) := by
  cases x with
  | next a => exact hf a
  | discard r => exact rfl
  | fatal => trivial
  | undefined => trivial

theorem Step.Agree.imp {α β : Type} {R Q : α → β → Prop} {x : Step α} {y : Step β}
    (h : Step.Agree R x y) (hq : ∀ a b, R a b → Q a b) : Step.Agree Q x y := by
  cases x <;> cases y <;> first | exact hq _ _ h | exact h

theorem RState.Follows.self {σ : Type} (s : RState σ) (h : s.raw.Inside) : s.Follows s := ⟨h, rfl⟩

theorem RState.Follows.chain {σ : Type} {s s1 s2 : RState σ} (h1 : s.Follows s1)
    (h2 : s1.Follows s2) : s.Follows s2 := ⟨h2.1, h2.2.trans h1.2⟩

theorem inside_length {r : Raw} (h : r.Inside) : r.scan + 1 < r.mem.length := by
  obtain ⟨hs, b, slack, hm, hd⟩ := h
  rw [hm]
  simp
  omega

/-- The removal of the header on the array is that of the scanned part. -/
theorem header_sim {σ : Type} (s : RState σ) (hin : s.raw.Inside) :
    Step.Agree (fun s1 z1 => z1 = s1.toP 0 ∧ s.Follows s1) s.header
      (.next { core := removeHeader (s.view 0), m := s.m }) := by
  unfold RState.header
  cases hr : rawRemoveHeader s.raw with
  | none => exact Step.Agree.left _ _
  | some r1 =>
    show _ = _ ∧ _
    obtain ⟨hs, b, slack, hh⟩ := hin
    have hg : s.raw.lasttag ≤ s.raw.tagwordstart ∧ s.raw.tagwordstart ≤ s.raw.scan ∧
        s.raw.scan ≤ s.raw.datalength := by
      unfold rawRemoveHeader at hr
      split at hr
      · assumption
      · cases hr
    obtain ⟨r2, slack1, e, hh1, _, d1, s1, l1, le1, t1⟩ :=
      rawRemoveHeader_spec s.raw b slack hh hg.1 hg.2.1 (by rw [← hh.2]; exact hg.2.2)
    rw [hr] at e
    cases e
    have hout := rawRemoveHeader_before s.raw r1 b slack slack1 hh (by rw [← hh.2]; exact hg.2.2)
      hh1 s1 (s.view 0) rfl rfl
    refine ⟨?_, ⟨show r1.scan < r1.datalength by omega, _, _, hh1⟩, ?_⟩
    · show PState.mk (removeHeader (s.view 0)) s.m = PState.mk _ s.m
      congr 1
      unfold removeHeader RState.view
      simp only [Nat.add_zero]
      have e1 : r1.lasttag = 0 := by omega
      have e2 : r1.tagwordstart = s.raw.tagwordstart - s.raw.lasttag := by omega
      rw [e1, le1, e2]
      have := hout
      unfold removeHeader RState.view at this
      simp only [Nat.add_zero] at this
      rw [this]
    · rw [holds_ahead r1 _ slack1 hh1, holds_ahead s.raw b slack hh, List.drop_drop]
      congr 1
      omega


theorem header_byte {σ : Type} (s s1 : RState σ) (h : s.header = .next s1) (hin : s.raw.Inside) :
    s1.raw.mem[s1.raw.scan]? = s.raw.mem[s.raw.scan]? := by
  unfold RState.header at h
  split at h
  · rename_i r1 hr
    cases h
    obtain ⟨hs, b, slack, hh⟩ := hin
    have hg : s.raw.lasttag ≤ s.raw.tagwordstart ∧ s.raw.tagwordstart ≤ s.raw.scan ∧
        s.raw.scan ≤ s.raw.datalength := by
      unfold rawRemoveHeader at hr
      split at hr
      · assumption
      · cases hr
    obtain ⟨r2, slack1, e, hh1, _, d1, s1, l1, le1, t1⟩ :=
      rawRemoveHeader_spec s.raw b slack hh hg.1 hg.2.1 (by rw [← hh.2]; exact hg.2.2)
    rw [hr] at e
    cases e
    show r1.mem[r1.scan]? = s.raw.mem[s.raw.scan]?
    have hd := hh.2
    have hd1 := hh1.2
    rw [hh1.1, hh.1, List.getElem?_append_left (by rw [List.length_drop]; omega),
      List.getElem?_append_left (by omega), List.getElem?_drop]
    congr 1
    omega
  · cases h

theorem rawRoot_byte {σ : Type} (root : CStr) (s s1 : RState σ) (h : rawRoot root s = .next s1)
    (hin : s.raw.Inside) : s1.raw.mem[s1.raw.scan]? = s.raw.mem[s.raw.scan]? := by
  unfold rawRoot at h
  split at h
  · exact header_byte s s1 h hin
  · cases h; rfl

theorem byte_rawOptName (ctx : Ctx) (s s1 : RState OptSt) (h : rawOptName ctx s = .next s1)
    (hin : s.raw.Inside) : s1.raw.mem[s1.raw.scan]? = s.raw.mem[s.raw.scan]? := by
  unfold rawOptName at h
  obtain ⟨m1, _, h2⟩ := Step.bind_eq_next h
  exact rawRoot_byte (lit "option") { s with m := m1 } s1 h2 hin

theorem byte_rawPrnName (s s1 : RState PrnSt) (h : rawPrnName s = .next s1)
    (hin : s.raw.Inside) : s1.raw.mem[s1.raw.scan]? = s.raw.mem[s.raw.scan]? :=
  rawRoot_byte (lit "printer") { s with m := prnNameM (s.view 0) s.m } s1 h hin

theorem byte_rawDrvName (s s1 : RState DrvSt) (h : rawDrvName s = .next s1)
    (hin : s.raw.Inside) : s1.raw.mem[s1.raw.scan]? = s.raw.mem[s.raw.scan]? := by
  unfold rawDrvName at h
  obtain ⟨m1, _, h2⟩ := Step.bind_eq_next h
  exact rawRoot_byte (lit "driver") { s with m := m1 } s1 h2 hin

theorem byte_rawOvdName (s s1 : RState OvdSt) (h : rawOvdName s = .next s1)
    (hin : s.raw.Inside) : s1.raw.mem[s1.raw.scan]? = s.raw.mem[s.raw.scan]? := by
  unfold rawOvdName at h
  split at h
  · cases h; rfl
  · split at h
    · cases h
    · obtain ⟨m1, _, h2⟩ := Step.bind_eq_next h
      exact rawRoot_byte (lit "driver") { s with m := m1 } s1 h2 hin

theorem byte_rawOvpName (s s1 : RState OvpSt) (h : rawOvpName s = .next s1)
    (hin : s.raw.Inside) : s1.raw.mem[s1.raw.scan]? = s.raw.mem[s.raw.scan]? :=
  rawRoot_byte (lit "printer") { s with m := ovpNameM (s.view 0) s.m } s1 h hin

theorem Step.Agree.withLeft {α β : Type} {R : α → β → Prop} {P : α → Prop} {x : Step α}
    {y : Step β} (h : Step.Agree R x y) (hp : ∀ a, x = .next a → P a) :
    Step.Agree (fun a b => R a b ∧ P a) x y := by
  cases x with
  | next a =>
    cases y with
    | next b => exact ⟨h, hp a rfl⟩
    | discard r => cases h
    | fatal => cases h
    | undefined => trivial
  | discard r => cases y <;> exact h
  | fatal => cases y <;> exact h
  | undefined => exact Step.Agree.left _ _

theorem view_out_length {σ : Type} (s : RState σ) (hin : s.raw.Inside) :
    (s.view 1).out.length = s.raw.scan + 1 := by
  have := inside_length hin
  show (s.raw.mem.take (s.raw.scan + 1)).length = _
  rw [List.length_take]
  omega

/-- The span deletion on the array is that of the scanned part. -/
theorem delete_sim {σ : Type} (s : RState σ) (hin : s.raw.Inside) (last : Nat) :
    Step.Agree (fun s1 c1 => c1 = s1.view 1 ∧ s1.m = s.m ∧ s1.core = s.core ∧ s.Follows s1)
      (s.delete last) (deleteSpan (s.view 1) last) := by
  unfold RState.delete
  cases hr : rawDelete s.raw last with
  | none => exact Step.Agree.left _ _
  | some r1 =>
    obtain ⟨hs, b, slack, hh⟩ := hin
    have hg : 1 ≤ last ∧ last ≤ s.raw.scan + 1 ∧ s.raw.scan ≤ s.raw.datalength := by
      unfold rawDelete at hr
      split at hr
      · assumption
      · cases hr
    have h3 : s.raw.scan + 1 ≤ b.length := by rw [← hh.2]; omega
    obtain ⟨r2, slack1, e, hh1, _, d1, s1, l1, le1, t1⟩ :=
      rawDelete_spec s.raw last b slack hh hg.1 hg.2.1 h3
    rw [hr] at e
    cases e
    have hz := rawDelete_upto s.raw r1 last b slack slack1 hh hg.1 hg.2.1 h3 hh1 s1
      (s.view 1) rfl
    rw [hz]
    refine ⟨?_, rfl, rfl, ⟨show r1.scan < r1.datalength by omega, _, _, hh1⟩, ?_⟩
    · show ({ s.view 1 with out := r1.upto } : Core) = _
      unfold RState.view Raw.upto
      simp only [l1, le1, t1]
    · have hl : (b.take last).length = last := by rw [List.length_take]; omega
      rw [holds_ahead r1 _ slack1 hh1, holds_ahead s.raw b slack hh, s1,
        show last - 1 + 1 = last by omega, List.drop_append_of_le_length (by omega),
        List.drop_of_length_le (by omega)]
      rfl

/-- The insertion on the array is that of the scanned part. -/
theorem insert_sim {σ : Type} (s : RState σ) (hin : s.raw.Inside) (pos : Nat) (text : CStr) :
    Step.Agree (fun s1 c1 => c1 = s1.view 1 ∧ s1.m = s.m ∧ s1.core = s.core ∧ s.Follows s1)
      (s.insert pos text) (insertAt (s.view 1) pos text) := by
  by_cases hp : pos ≤ s.raw.scan + 1
  · unfold RState.insert
    cases hr : rawInsert s.raw pos text with
    | none => exact Step.Agree.left _ _
    | some r1 =>
      have hk := rawInsert_kept s.raw r1 pos text hr hin
      obtain ⟨hs, b, slack, hh⟩ := hin
      have h3 : s.raw.scan + 1 ≤ b.length := by rw [← hh.2]; omega
      have hg : pos ≤ s.raw.datalength ∧ text.length ≤ slack.length := by
        unfold rawInsert at hr
        split at hr
        · rename_i hp
          refine ⟨hp, ?_⟩
          cases hm : memmove s.raw.mem (pos + text.length) pos (s.raw.datalength - pos + 1) with
          | none => rw [hm] at hr; cases hr
          | some m1 =>
            unfold memmove at hm
            split at hm
            · rename_i hb
              have hl : s.raw.mem.length = b.length + 1 + slack.length := by
                rw [hh.1]; simp; omega
              have hd := hh.2
              omega
            · cases hm
        · cases hr
      obtain ⟨r2, slack1, e, hh1, _, d1, s1, l1, le1, t1⟩ :=
        rawInsert_spec s.raw pos text b slack hh (by rw [← hh.2]; exact hg.1) hg.2
      rw [hr] at e
      cases e
      have hz := rawInsert_upto s.raw r1 pos text b slack slack1 hh hp h3 hh1 s1 (s.view 1) rfl
      rw [hz]
      refine ⟨?_, rfl, rfl, ⟨show r1.scan < r1.datalength by omega, _, _, hh1⟩, ?_⟩
      · show ({ s.view 1 with out := r1.upto } : Core) = _
        unfold RState.view Raw.upto
        simp only [l1, le1, t1]
      · rw [holds_ahead r1 _ slack1 hh1, holds_ahead s.raw b slack hh, s1, ← List.append_assoc,
          List.drop_append_eq_append_drop,
          List.drop_of_length_le (by rw [List.length_append, List.length_take]; omega),
          List.nil_append, List.drop_drop]
        congr 1
        rw [List.length_append, List.length_take]
        omega
  · have hz : insertAt (s.view 1) pos text = .undefined := by
      unfold insertAt
      rw [if_neg (by rw [view_out_length s hin]; exact hp)]
    rw [hz]
    exact Step.Agree.right _ _

theorem deleteFrom_sim {σ : Type} (s : RState σ) (hin : s.raw.Inside) (p : Option Nat) :
    Step.Agree (fun s1 c1 => c1 = s1.view 1 ∧ s1.m = s.m ∧ s1.core = s.core ∧ s.Follows s1)
      (s.deleteFrom p) (deleteFrom (s.view 1) p) := by
  cases p with
  | none => exact ⟨rfl, rfl, rfl, RState.Follows.self s hin⟩
  | some p => exact delete_sim s hin p

theorem insertLine_sim {σ : Type} (s : RState σ) (hin : s.raw.Inside) (p : Option (Nat × CStr)) :
    Step.Agree (fun s1 c1 => c1 = s1.view 1 ∧ s1.m = s.m ∧ s1.core = s.core ∧ s.Follows s1)
      (s.insertLine p) (insertLine (s.view 1) p) := by
  cases p with
  | none => exact ⟨rfl, rfl, rfl, RState.Follows.self s hin⟩
  | some p => exact insert_sim s hin p.1 p.2

theorem rawRoot_sim {σ : Type} (root : CStr) (s : RState σ) (hin : s.raw.Inside) :
    Step.Agree (fun s1 z1 => z1 = s1.toP 0 ∧ s.Follows s1) (rawRoot root s)
      (.next { core := if (s.view 0).currtagname = root ∧ (s.view 0).tagtype = TAG_OPEN
          then removeHeader (s.view 0) else s.view 0, m := s.m }) := by
  unfold rawRoot
  by_cases h : s.core.currtagname = root ∧ s.core.tagtype = TAG_OPEN
  · rw [if_pos h, if_pos (show (s.view 0).currtagname = root ∧ (s.view 0).tagtype = TAG_OPEN from h)]
    exact header_sim s hin
  · rw [if_neg h, if_neg (show ¬ ((s.view 0).currtagname = root ∧ (s.view 0).tagtype = TAG_OPEN) from h)]
    exact ⟨rfl, RState.Follows.self s hin⟩

/-! ### Option mode -/

theorem sim_rawOptName (ctx : Ctx) : SimHook 0 (rawOptName ctx) (optName ctx) := by
  intro s hin
  unfold rawOptName optName
  refine Step.Agree.same (optNameM ctx (s.view 0) s.m) ?_
  intro m1
  exact rawRoot_sim (lit "option") { s with m := m1 } hin

theorem sim_rawOverInConstraints : SimHook 1 rawOverInConstraints overInConstraints := by
  intro s hin
  unfold rawOverInConstraints overInConstraints
  refine Step.Agree.same (constraintsEndM (s.view 1) s.m) ?_
  intro r
  refine Step.Agree.bind (deleteFrom_sim s hin r.2) ?_
  rintro s1 c1 ⟨e1, e2, e3, e4⟩
  subst e1
  exact ⟨rfl, e4⟩

theorem sim_rawOverInEnumVal : SimHook 1 rawOverInEnumVal overInEnumVal := by
  intro s hin
  unfold rawOverInEnumVal overInEnumVal
  refine Step.Agree.bind (deleteFrom_sim s hin _) ?_
  rintro s1 c1 ⟨e1, e2, e3, e4⟩
  subst e1
  exact ⟨rfl, e4⟩

theorem sim_rawOverInOption : SimHook 1 rawOverInOption overInOption := by
  intro s hin
  unfold rawOverInOption overInOption
  refine Step.Agree.same (optionEndM (s.view 1) s.m) ?_
  intro r
  refine Step.Agree.bind (insertLine_sim s hin r.2) ?_
  rintro s1 c1 ⟨e1, e2, e3, e4⟩
  subst e1
  exact ⟨rfl, e4⟩

theorem SimHook.comp {σ : Type} {k : Nat} {rf rg : RState σ → Step (RState σ)}
    {f g : PState σ → Step (PState σ)} (h1 : SimHook k rf f) (h2 : SimHook k rg g) :
    SimHook k (fun s => (rf s).bind rg) (fun z => (f z).bind g) := by
  intro s hin
  refine Step.Agree.bind (h1 s hin) ?_
  rintro s1 z1 ⟨e1, e2⟩
  subst e1
  exact (h2 s1 e2.1).imp fun a b hab => ⟨hab.1, e2.chain hab.2⟩

theorem sim_rawOptEnd (ctx : Ctx) : SimHook 1 (rawOptEnd ctx) (optEnd ctx) := by
  intro s hin
  exact (sim_rawOverInConstraints.comp (sim_rawOverInEnumVal.comp sim_rawOverInOption))
    { s with m := optEndM ctx (s.view 1) s.m } hin

theorem simHooks_option (ctx : Ctx) : SimHooks (rawOptionHooks ctx) (optionHooks ctx) :=
  ⟨sim_rawOptName ctx, byte_rawOptName ctx, fun _ => ⟨rfl, rfl⟩, sim_rawOptEnd ctx⟩

/-! ### Device mode -/

theorem sim_rawPrnName : SimHook 0 rawPrnName prnName := by
  intro s hin
  exact rawRoot_sim (lit "printer") { s with m := prnNameM (s.view 0) s.m } hin

theorem sim_rawPrnEnd (ctx : Ctx) : SimHook 1 (rawPrnEnd ctx) (prnEnd ctx) := by
  intro s hin
  unfold rawPrnEnd prnEnd
  refine ⟨?_, RState.Follows.self s hin⟩
  show PState.mk _ _ = PState.mk _ _
  congr 1
  show (if prnConfirms ctx (s.view 1) s.m = true then _ else _) = _
  split <;> rfl

theorem simHooks_printer (ctx : Ctx) : SimHooks (rawPrinterHooks ctx) (printerHooks ctx) :=
  ⟨sim_rawPrnName, byte_rawPrnName, fun _ => ⟨rfl, rfl⟩, sim_rawPrnEnd ctx⟩

/-! ### Driver mode -/

theorem sim_rawDrvName : SimHook 0 rawDrvName drvName := by
  intro s hin
  unfold rawDrvName drvName
  refine Step.Agree.same (drvNameM (s.view 0) s.m) ?_
  intro m1
  exact rawRoot_sim (lit "driver") { s with m := m1 } hin

theorem sim_rawOverInPrinters : SimHook 1 rawOverInPrinters overInPrinters := by
  intro s hin
  unfold rawOverInPrinters overInPrinters
  by_cases h1 : s.core.nestinglevel < s.m.inprinters
  · rw [if_pos h1, if_pos (show (s.toP 1).core.nestinglevel < (s.toP 1).m.inprinters from h1)]
    show Step.Agree _ (match s.m.lastprinters with | some p => _ | none => _)
      (match s.m.lastprinters with | some p => _ | none => _)
    cases hl : s.m.lastprinters with
    | none => exact ⟨rfl, RState.Follows.self s hin⟩
    | some p =>
      refine Step.Agree.bind (delete_sim s hin p) ?_
      rintro s1 c1 ⟨e1, e2, e3, e4⟩
      subst e1
      by_cases hp : s.m.printerentry ≠ []
      · rw [if_pos hp, if_pos (show (s.toP 1).m.printerentry ≠ [] from hp)]
        refine Step.Agree.bind (insert_sim s1 e4.1 p s.m.printerentry) ?_
        rintro s2 c2 ⟨f1, f2, f3, f4⟩
        subst f1
        exact ⟨rfl, e4.chain f4⟩
      · rw [if_neg hp, if_neg (show ¬ (s.toP 1).m.printerentry ≠ [] from hp)]
        exact ⟨rfl, e4⟩
  · rw [if_neg h1, if_neg (show ¬ (s.toP 1).core.nestinglevel < (s.toP 1).m.inprinters from h1)]
    exact ⟨rfl, RState.Follows.self s hin⟩

theorem sim_rawOverInPrinter : SimHook 1 rawOverInPrinter overInPrinter := by
  intro s hin
  unfold rawOverInPrinter overInPrinter
  show Step.Agree _
    (if s.core.nestinglevel < s.m.inprinter then
      if s.m.printertobesaved = true then
        match s.m.lastprinter with
        | some p => if p ≤ (s.view 1).out.length then _ else _
        | none => _
      else _
    else _)
    (if s.core.nestinglevel < s.m.inprinter then
      if s.m.printertobesaved = true then
        match s.m.lastprinter with
        | some p => if p ≤ (s.view 1).out.length then _ else _
        | none => _
      else _
    else _)
  split
  · split
    · cases s.m.lastprinter with
      | none => exact ⟨rfl, RState.Follows.self s hin⟩
      | some p =>
        show Step.Agree _ (if p ≤ (s.view 1).out.length then _ else _)
          (if p ≤ (s.view 1).out.length then _ else _)
        split
        · exact ⟨rfl, RState.Follows.self s hin⟩
        · exact Step.Agree.left _ _
    · exact ⟨rfl, RState.Follows.self s hin⟩
  · exact ⟨rfl, RState.Follows.self s hin⟩

theorem sim_rawDrvEnd (ctx : Ctx) : SimHook 1 (rawDrvEnd ctx) (drvEnd ctx) := by
  intro s hin
  unfold rawDrvEnd drvEnd
  refine Step.Agree.bind
    (sim_rawOverInPrinters { s with m := overDrvFlags (s.view 1) s.m } hin) ?_
  rintro s1 z1 ⟨e1, e2⟩
  subst e1
  refine Step.Agree.bind (sim_rawOverInPrinter s1 e2.1) ?_
  rintro s2 z2 ⟨f1, f2⟩
  subst f1
  exact ⟨rfl, e2.chain f2⟩

theorem simHooks_driver (ctx : Ctx) : SimHooks (rawDriverHooks ctx) (driverHooks ctx) :=
  ⟨sim_rawDrvName, byte_rawDrvName, fun _ => ⟨rfl, rfl⟩, sim_rawDrvEnd ctx⟩

/-! ### Overview of the printers -/

theorem sim_rawOvpName : SimHook 0 rawOvpName ovpName := by
  intro s hin
  exact rawRoot_sim (lit "printer") { s with m := ovpNameM (s.view 0) s.m } hin

theorem sim_rawOvpEnd (ctx : OvCtx) : SimHook 1 (rawOvpEnd ctx) (ovpEnd ctx) := by
  intro s hin
  unfold rawOvpEnd ovpEnd
  refine Step.Agree.same (ovpEndM ctx (s.view 1) s.m) ?_
  intro m1
  exact ⟨rfl, RState.Follows.self s hin⟩

theorem simHooks_ovPrinter (ctx : OvCtx) : SimHooks (rawOvPrinterHooks ctx) (ovPrinterHooks ctx) :=
  ⟨sim_rawOvpName, byte_rawOvpName, fun _ => ⟨rfl, rfl⟩, sim_rawOvpEnd ctx⟩

/-! ### Overview of the drivers -/

theorem Step.bind_assoc {α β γ : Type} (x : Step α) (f : α → Step β) (g : β → Step γ) :
    (x.bind f).bind g = x.bind fun a => (f a).bind g := by
  cases x <;> rfl

theorem sim_rawOvdName : SimHook 0 rawOvdName ovdName := by
  intro s hin
  unfold rawOvdName ovdName
  by_cases h1 : s.m.returned = true
  · rw [if_pos h1, if_pos (show (s.toP 0).m.returned = true from h1)]
    exact ⟨rfl, RState.Follows.self s hin⟩
  · rw [if_neg h1, if_neg (show ¬ (s.toP 0).m.returned = true from h1)]
    by_cases h2 : s.m.paramfault = true
    · rw [if_pos h2]
      exact Step.Agree.left _ _
    · rw [if_neg h2, if_neg (show ¬ (s.toP 0).m.paramfault = true from h2)]
      refine Step.Agree.same (ovdNameM (s.view 0) s.m) ?_
      intro m1
      exact rawRoot_sim (lit "driver") { s with m := m1 } hin

theorem sim_rawOverOvdPrinters : SimHook 1 rawOverOvdPrinters overOvdPrinters := by
  intro s hin
  unfold rawOverOvdPrinters overOvdPrinters
  by_cases h1 : s.core.nestinglevel < s.m.inprinters
  · rw [if_pos h1, if_pos (show (s.toP 1).core.nestinglevel < (s.toP 1).m.inprinters from h1)]
    show Step.Agree _ (match s.m.lastprinters with | some p => _ | none => _)
      (match s.m.lastprinters with | some p => _ | none => _)
    cases hl : s.m.lastprinters with
    | none => exact ⟨rfl, RState.Follows.self s hin⟩
    | some p =>
      refine Step.Agree.bind (delete_sim s hin p) ?_
      rintro s1 c1 ⟨e1, e2, e3, e4⟩
      subst e1
      exact ⟨rfl, e4⟩
  · rw [if_neg h1, if_neg (show ¬ (s.toP 1).core.nestinglevel < (s.toP 1).m.inprinters from h1)]
    exact ⟨rfl, RState.Follows.self s hin⟩

theorem sim_rawOverOvdComments : SimHook 1 rawOverOvdComments overOvdComments := by
  intro s hin
  unfold rawOverOvdComments overOvdComments
  by_cases h1 : s.core.nestinglevel < s.m.incomments
  · rw [if_pos h1, if_pos (show (s.toP 1).core.nestinglevel < (s.toP 1).m.incomments from h1)]
    show Step.Agree _ (match s.m.lastcomments with | some p => _ | none => _)
      (match s.m.lastcomments with | some p => _ | none => _)
    cases hl : s.m.lastcomments with
    | none => exact ⟨rfl, RState.Follows.self s hin⟩
    | some p =>
      by_cases h2 : s.m.inprinter = 0
      · simp only []
        rw [if_pos h2, if_pos (show (s.toP 1).m.inprinter = 0 from h2)]
        refine Step.Agree.bind (delete_sim s hin p) ?_
        rintro s1 c1 ⟨e1, e2, e3, e4⟩
        subst e1
        exact ⟨rfl, e4⟩
      · simp only []
        rw [if_neg h2, if_neg (show ¬ (s.toP 1).m.inprinter = 0 from h2)]
        exact ⟨rfl, RState.Follows.self s hin⟩
  · rw [if_neg h1, if_neg (show ¬ (s.toP 1).core.nestinglevel < (s.toP 1).m.incomments from h1)]
    exact ⟨rfl, RState.Follows.self s hin⟩

theorem sim_rawOverOvdFunctionality : SimHook 1 rawOverOvdFunctionality overOvdFunctionality := by
  intro s hin
  unfold rawOverOvdFunctionality overOvdFunctionality
  show Step.Agree _
    (if s.core.nestinglevel < s.m.indfunctionality then
      match s.m.lastdfunctionality with
      | some p => if p ≤ (s.view 1).out.length then _ else _
      | none => _
    else _)
    (if s.core.nestinglevel < s.m.indfunctionality then
      match s.m.lastdfunctionality with
      | some p => if p ≤ (s.view 1).out.length then _ else _
      | none => _
    else _)
  split
  · cases s.m.lastdfunctionality with
    | none => exact ⟨rfl, RState.Follows.self s hin⟩
    | some p =>
      show Step.Agree _ (if p ≤ (s.view 1).out.length then _ else _)
        (if p ≤ (s.view 1).out.length then _ else _)
      split
      · exact ⟨rfl, RState.Follows.self s hin⟩
      · exact Step.Agree.left _ _
  · exact ⟨rfl, RState.Follows.self s hin⟩

theorem sim_rawOvdCutPrototype : SimHook 1 rawOvdCutPrototype ovdCutPrototype := by
  intro s hin
  unfold rawOvdCutPrototype ovdCutPrototype
  by_cases h1 : s.m.returned = true
  · rw [if_pos h1, if_pos (show (s.toP 1).m.returned = true from h1)]
    exact ⟨rfl, RState.Follows.self s hin⟩
  · rw [if_neg h1, if_neg (show ¬ (s.toP 1).m.returned = true from h1)]
    show Step.Agree _ (match s.m.lastprototype with | some p => _ | none => _)
      (match s.m.lastprototype with | some p => _ | none => _)
    cases hl : s.m.lastprototype with
    | none => exact ⟨rfl, RState.Follows.self s hin⟩
    | some p =>
      show Step.Agree _ (s.delete p) ((deleteSpan (s.view 1) p).bind _)
      have h := delete_sim s hin p
      cases hd : s.delete p with
      | next s1 =>
        rw [hd] at h
        cases hz : deleteSpan (s.view 1) p with
        | next c1 =>
          rw [hz] at h
          obtain ⟨e1, e2, e3, e4⟩ := h
          subst e1
          refine ⟨?_, e4⟩
          show PState.mk (s1.view 1) s.m = PState.mk (s1.view 1) s1.m
          rw [e2]
        | discard r => rw [hz] at h; cases h
        | fatal => rw [hz] at h; cases h
        | undefined => exact Step.Agree.right _ _
      | discard r =>
        unfold RState.delete at hd
        split at hd <;> cases hd
      | fatal =>
        unfold RState.delete at hd
        split at hd <;> cases hd
      | undefined => exact Step.Agree.left _ _

theorem sim_rawOverOvdPrototype (ctx : OvCtx) :
    SimHook 1 (rawOverOvdPrototype ctx) (overOvdPrototype ctx) := by
  intro s hin
  unfold rawOverOvdPrototype overOvdPrototype
  by_cases h1 : s.core.nestinglevel < s.m.inprototype
  · rw [if_pos h1, if_pos (show (s.toP 1).core.nestinglevel < (s.toP 1).m.inprototype from h1)]
    refine Step.Agree.same (ovdRegister ctx s.core.currtagbody { s.m with inprototype := 0 }) ?_
    intro m2
    exact sim_rawOvdCutPrototype { s with m := m2 } hin
  · rw [if_neg h1, if_neg (show ¬ (s.toP 1).core.nestinglevel < (s.toP 1).m.inprototype from h1)]
    exact ⟨rfl, RState.Follows.self s hin⟩

theorem sim_rawOvdEnd (ctx : OvCtx) : SimHook 1 (rawOvdEnd ctx) (ovdEnd ctx) := by
  intro s hin
  unfold rawOvdEnd ovdEnd
  by_cases h1 : s.m.returned = true
  · rw [if_pos h1, if_pos (show (s.toP 1).m.returned = true from h1)]
    exact ⟨rfl, RState.Follows.self s hin⟩
  · rw [if_neg h1, if_neg (show ¬ (s.toP 1).m.returned = true from h1)]
    by_cases h2 : s.m.paramfault = true
    · rw [if_pos h2]
      exact Step.Agree.left _ _
    · rw [if_neg h2, if_neg (show ¬ (s.toP 1).m.paramfault = true from h2)]
      unfold overOvdBlocks
      rw [Step.bind_assoc]
      refine Step.Agree.bind
        (sim_rawOverOvdPrinters { s with m := overOvdDriver (s.view 1) s.m } hin) ?_
      rintro s1 z1 ⟨e1, e2⟩
      subst e1
      refine Step.Agree.bind (sim_rawOverOvdComments s1 e2.1) ?_
      rintro s2 z2 ⟨f1, f2⟩
      subst f1
      unfold overOvdEntry
      refine Step.Agree.bind
        (sim_rawOverOvdFunctionality { s2 with m := overOvdIds ctx (s2.view 1) s2.m } f2.1) ?_
      rintro s3 z3 ⟨g1, g2⟩
      subst g1
      exact (sim_rawOverOvdPrototype ctx
        { s3 with m := overOvdPrinter s3.m s3.core.nestinglevel } g2.1).imp
        fun a b hab => ⟨hab.1, (e2.chain f2).chain (g2.chain hab.2)⟩

theorem simHooks_ovDriver (ctx : OvCtx) : SimHooks (rawOvDriverHooks ctx) (ovDriverHooks ctx) := by
  refine ⟨sim_rawOvdName, byte_rawOvdName, ?_, sim_rawOvdEnd ctx⟩
  intro s
  show (rawOvdParam s).toP 0 = ovdParam (s.toP 0) ∧ (rawOvdParam s).raw = s.raw
  unfold rawOvdParam ovdParam
  by_cases h1 : s.m.returned = true
  · rw [if_pos h1, if_pos (show (s.toP 0).m.returned = true from h1)]
    exact ⟨rfl, rfl⟩
  · rw [if_neg h1, if_neg (show ¬ (s.toP 0).m.returned = true from h1)]
    exact ⟨rfl, rfl⟩

/-! ### The tag scanner -/

theorem inside_scan_lt {r : Raw} (h : r.Inside) : r.scan < r.mem.length := by
  have := inside_length h
  omega

theorem view_zero_length {σ : Type} (s : RState σ) (hin : s.raw.Inside) :
    (s.raw.mem.take s.raw.scan).length = s.raw.scan := by
  have := inside_scan_lt hin
  rw [List.length_take]
  omega

theorem take_byte {mem : List Char} {n : Nat} {ch : Char} (h : mem[n]? = some ch) :
    mem.take n ++ [ch] = mem.take (n + 1) := by
  rw [List.take_succ, h]
  rfl

theorem toP_one_out {σ : Type} (s : RState σ) (c1 : Core) (ch : Char)
    (hch : s.raw.mem[s.raw.scan]? = some ch) :
    (RState.mk s.raw c1 s.m).toP 1 =
      { core := { (RState.mk s.raw c1 s.m).view 0 with out := s.raw.mem.take s.raw.scan ++ [ch] },
        m := s.m } := by
  show PState.mk _ _ = PState.mk _ _
  congr 1
  unfold RState.view
  simp only [Nat.add_zero, take_byte hch]

theorem sim_wordEnd {σ : Type} (rh : RawHooks σ) (h : Hooks σ) (hs : SimHooks rh h) :
    SimHook 0 (rawWordEnd rh) (wordEnd h) := by
  intro s hin
  unfold rawWordEnd wordEnd
  simp only []
  by_cases h1 : s.core.tagnamefound = true
  · rw [if_pos h1, if_pos (show (s.toP 0).core.tagnamefound = true from h1)]
    have e := hs.onParam (RState.mk s.raw
      { s.core with intagword := false, currtagparam := (s.raw.mem.take s.raw.scan).drop s.raw.tagwordstart }
      s.m)
    refine ⟨e.1.symm, ?_⟩
    show (rh.onParam _).raw.Inside ∧ (rh.onParam _).raw.ahead = s.raw.ahead
    rw [e.2]
    exact ⟨hin, rfl⟩
  · rw [if_neg h1, if_neg (show ¬ (s.toP 0).core.tagnamefound = true from h1)]
    exact hs.onName (RState.mk s.raw
      { s.core with intagword := false, tagnamefound := true, currtagname := (s.raw.mem.take s.raw.scan).drop s.raw.tagwordstart }
      s.m) hin

theorem sim_tagEnd {σ : Type} (rh : RawHooks σ) (h : Hooks σ) (hs : SimHooks rh h)
    (s : RState σ) (hin : s.raw.Inside) (hch : s.raw.mem[s.raw.scan]? = some '>') :
    Step.Agree (fun s1 z1 => z1 = s1.toP 1 ∧ s.Follows s1) (rawTagEnd rh s)
      (tagEnd h (s.toP 0)) := by
  unfold rawTagEnd tagEnd
  simp only []
  by_cases h1 : (!s.core.inxmlheader && !s.core.tagnamefound) = true
  · rw [if_pos h1, if_pos (show (!(s.toP 0).core.inxmlheader && !(s.toP 0).core.tagnamefound) = true from h1)]
    trivial
  · rw [if_neg h1, if_neg (show ¬ (!(s.toP 0).core.inxmlheader && !(s.toP 0).core.tagnamefound) = true from h1)]
    refine Step.Agree.same _ ?_
    intro b
    have hz := hs.onEnd (RState.mk s.raw
      { s.core with intag := false, currtagbody := b, bodytail := (match s.raw.lasttagend with | some _ => staleBehind s.core.currtagbody s.core.bodytail b | none => s.core.bodytail), nestinglevel := s.core.nestinglevel + s.core.tagtype }
      s.m) hin
    rw [toP_one_out s _ '>' hch] at hz
    refine Step.Agree.bind hz ?_
    rintro s3 z3 ⟨e1, e2⟩
    subst e1
    refine ⟨?_, e2⟩
    show PState.mk _ _ = PState.mk _ _
    congr 1
    have hl := view_out_length s3 e2.1
    show ({ s3.view 1 with lasttagend := some ((s3.view 1).out.length - 1) } : Core) = _
    rw [hl]
    rfl

theorem wordEnd_byte {σ : Type} (rh : RawHooks σ) (h : Hooks σ) (hs : SimHooks rh h)
    (s s1 : RState σ) (e : rawWordEnd rh s = .next s1) (hin : s.raw.Inside) :
    s1.raw.mem[s1.raw.scan]? = s.raw.mem[s.raw.scan]? := by
  unfold rawWordEnd at e
  simp only at e
  split at e
  · cases e
    rw [(hs.onParam _).2]
  · exact (show ∀ x : RState σ, rh.onName x = .next s1 → x.raw = s.raw →
      s1.raw.mem[s1.raw.scan]? = s.raw.mem[s.raw.scan]? from
      fun x hn hx => hx ▸ hs.byte x s1 hn (hx ▸ hin)) _ e rfl

/-- The words of a tag up to a delimiter (source lines 420-860). -/
theorem sim_words {σ : Type} (rh : RawHooks σ) (h : Hooks σ) (hs : SimHooks rh h)
    (s : RState σ) (hin : s.raw.Inside) (ch : Char) (hch : s.raw.mem[s.raw.scan]? = some ch) :
    Step.Agree
      (fun s2 z2 => (z2 = s2.toP 0 ∧ s.Follows s2) ∧ s2.raw.mem[s2.raw.scan]? = some ch)
      (if s.core.incomment = true then .next s
        else
          (if s.core.intagword = true then rawWordEnd rh s else .next s).bind fun s1 =>
            if ch = '/' then
              .next { s1 with core := { s1.core with
                tagtype := if s1.core.tagnamefound then TAG_EMPTY else TAG_CLOSE } }
            else .next s1)
      (if s.core.incomment = true then .next (s.toP 0)
        else
          (if s.core.intagword = true then wordEnd h (s.toP 0) else .next (s.toP 0)).bind fun z1 =>
            if ch = '/' then
              .next { z1 with core := { z1.core with
                tagtype := if z1.core.tagnamefound then TAG_EMPTY else TAG_CLOSE } }
            else .next z1) := by
  by_cases hi : s.core.incomment = true
  · rw [if_pos hi, if_pos hi]
    exact ⟨⟨rfl, RState.Follows.self s hin⟩, hch⟩
  · rw [if_neg hi, if_neg hi]
    have hw : Step.Agree
        (fun s1 z1 => (z1 = s1.toP 0 ∧ s.Follows s1) ∧ s1.raw.mem[s1.raw.scan]? = some ch)
        (if s.core.intagword = true then rawWordEnd rh s else .next s)
        (if s.core.intagword = true then wordEnd h (s.toP 0) else .next (s.toP 0)) := by
      by_cases hw : s.core.intagword = true
      · rw [if_pos hw, if_pos hw]
        exact (sim_wordEnd rh h hs s hin).withLeft fun a ha =>
          (wordEnd_byte rh h hs s a ha hin).trans hch
      · rw [if_neg hw, if_neg hw]
        exact ⟨⟨rfl, RState.Follows.self s hin⟩, hch⟩
    refine Step.Agree.bind hw ?_
    rintro s1 z1 ⟨⟨e1, e2⟩, e3⟩
    subst e1
    by_cases hs : ch = '/'
    · rw [if_pos hs, if_pos hs]
      exact ⟨⟨rfl, e2⟩, e3⟩
    · rw [if_neg hs, if_neg hs]
      exact ⟨⟨rfl, e2⟩, e3⟩

theorem sim_step {σ : Type} (rh : RawHooks σ) (h : Hooks σ) (hs : SimHooks rh h)
    (s : RState σ) (hin : s.raw.Inside) (ch : Char) (hch : s.raw.mem[s.raw.scan]? = some ch) :
    Step.Agree (fun s1 z1 => z1 = s1.toP 1 ∧ s.Follows s1) (rawStep rh s ch)
      (step h (s.toP 0) ch s.raw.ahead) := by
  have hl := view_zero_length s hin
  have hb := take_byte hch
  unfold rawStep step
  by_cases hlt : ch = '<'
  · subst hlt
    simp only [RState.toP, RState.view, Nat.add_zero, ↓reduceIte, Bool.false_eq_true]
    by_cases hq : s.core.inquotes = true
    · simp only [hq, ↓reduceIte, Bool.false_eq_true]
      refine ⟨?_, hin, rfl⟩
      simp only [advance, hb, hl, hq, ↓reduceIte, Bool.false_eq_true]
    · simp only [hq, ↓reduceIte, Bool.false_eq_true]
      by_cases ht : s.core.intag = true
      · simp only [ht, ↓reduceIte, Bool.false_eq_true]
        by_cases hf : (!s.core.incomment && !s.core.inxmlheader) = true
        · simp only [hf, ↓reduceIte, Bool.false_eq_true]
          trivial
        · simp only [hf, ↓reduceIte, Bool.false_eq_true]
          refine ⟨?_, hin, rfl⟩
          simp only [advance, hb, hl, hq, ht, ↓reduceIte, Bool.false_eq_true]
      · simp only [ht, ↓reduceIte, Bool.false_eq_true]
        by_cases hc : opensComment s.raw.ahead = true
        · simp only [hc, ↓reduceIte, Bool.false_eq_true]
          refine ⟨?_, hin, rfl⟩
          simp only [advance, hb, hl, hq, ht, ↓reduceIte, Bool.false_eq_true]
        · simp only [hc, ↓reduceIte, Bool.false_eq_true]
          by_cases hi : s.core.incomment = true
          · simp only [hi, ↓reduceIte, Bool.false_eq_true]
            refine ⟨?_, hin, rfl⟩
            simp only [advance, hb, hl, hq, ht, hi, ↓reduceIte, Bool.false_eq_true]
          · simp only [hi, ↓reduceIte, Bool.false_eq_true]
            refine ⟨?_, hin, rfl⟩
            simp only [advance, hb, hl, hq, ht, hi, ↓reduceIte, Bool.false_eq_true]
  · rw [if_neg hlt, if_neg hlt]
    by_cases hd : isDelim ch = true
    · rw [if_pos hd, if_pos hd]
      by_cases hq : s.core.inquotes = true
      · rw [if_pos hq, if_pos (show (s.toP 0).core.inquotes = true from hq)]
        refine ⟨?_, hin, rfl⟩
        simp only [advance, RState.toP, RState.view, Nat.add_zero, hb]
      · rw [if_neg hq, if_neg (show ¬ (s.toP 0).core.inquotes = true from hq)]
        by_cases ht : s.core.intag = true
        · rw [if_pos ht, if_pos (show (s.toP 0).core.intag = true from ht)]
          refine Step.Agree.bind (sim_words rh h hs s hin ch hch) ?_
          rintro s2 z2 ⟨⟨e1, e2⟩, e3⟩
          subst e1
          have hl2 := view_zero_length s2 e2.1
          have hb2 := take_byte e3
          by_cases hg : ch = '>'
          · subst hg
            rw [if_pos rfl, if_pos rfl]
            by_cases hi2 : s2.core.incomment = true
            · rw [if_pos hi2, if_pos (show (s2.toP 0).core.incomment = true from hi2)]
              by_cases hsuf : (lit "--").isSuffixOf (s2.raw.mem.take s2.raw.scan) = true
              · rw [if_pos hsuf, if_pos (show (lit "--").isSuffixOf (s2.toP 0).core.out = true from hsuf)]
                refine ⟨?_, e2⟩
                simp only [advance, RState.toP, RState.view, Nat.add_zero, hb2]
              · rw [if_neg hsuf, if_neg (show ¬ (lit "--").isSuffixOf (s2.toP 0).core.out = true from hsuf)]
                refine ⟨?_, e2⟩
                simp only [advance, RState.toP, RState.view, Nat.add_zero, hb2]
            · rw [if_neg hi2, if_neg (show ¬ (s2.toP 0).core.incomment = true from hi2)]
              exact (sim_tagEnd rh h hs s2 e2.1 e3).imp fun a b hab => ⟨hab.1, e2.chain hab.2⟩
          · rw [if_neg hg, if_neg hg]
            refine ⟨?_, e2⟩
            simp only [advance, RState.toP, RState.view, Nat.add_zero, hb2]
        · rw [if_neg ht, if_neg (show ¬ (s.toP 0).core.intag = true from ht)]
          refine ⟨?_, hin, rfl⟩
          simp only [advance, RState.toP, RState.view, Nat.add_zero, hb]
    · rw [if_neg hd, if_neg hd]
      simp only [RState.toP, RState.view, Nat.add_zero]
      by_cases hw : (s.core.intag && !s.core.incomment) = true
      · simp only [hw, ↓reduceIte, Bool.false_eq_true]
        by_cases hiw : s.core.intagword = true
        · simp only [hiw, ↓reduceIte, Bool.false_eq_true]
          refine ⟨?_, hin, rfl⟩
          simp only [advance, hb, hl, hiw, ↓reduceIte, Bool.false_eq_true]
        · simp only [hiw, ↓reduceIte, Bool.false_eq_true]
          refine ⟨?_, hin, rfl⟩
          simp only [advance, hb, hl, hiw, ↓reduceIte, Bool.false_eq_true]
      · simp only [hw, ↓reduceIte, Bool.false_eq_true]
        refine ⟨?_, hin, rfl⟩
        simp only [advance, hb, hl, ↓reduceIte, Bool.false_eq_true]

/-! ### The loops -/

theorem rest_of_head {r : Raw} (ha : r.AtHead) (ch : Char) (hch : r.mem[r.scan]? = some ch)
    (hn : ch ≠ chNUL) : (r.mem.take r.datalength).drop r.scan = ch :: r.ahead := by
  have hin := inside_of_byte ha ch hch hn
  obtain ⟨hs, b, slack, hh⟩ := hin
  unfold Raw.ahead
  rw [holds_take r b slack hh]
  have hb : b[r.scan]? = some ch := by
    rw [← hch, hh.1, List.getElem?_append_left (by rw [← hh.2]; exact hs)]
  have hlt : r.scan < b.length := by rw [← hh.2]; exact hs
  rw [List.getElem?_eq_getElem hlt] at hb
  rw [List.drop_eq_getElem_cons hlt, Option.some.inj hb]

theorem rest_of_nul {r : Raw} (ha : r.AtHead) (hch : r.mem[r.scan]? = some chNUL)
    (hr : chNUL ∉ (r.mem.take r.datalength).drop r.scan) :
    (r.mem.take r.datalength).drop r.scan = [] := by
  obtain ⟨hs, b, slack, hh⟩ := ha
  rw [holds_take r b slack hh] at hr ⊢
  by_cases hlt : r.scan < b.length
  · exfalso
    apply hr
    have hb : b[r.scan]? = some chNUL := by
      rw [← hch, hh.1, List.getElem?_append_left hlt]
    rw [List.getElem?_eq_getElem hlt] at hb
    rw [List.drop_eq_getElem_cons hlt, Option.some.inj hb]
    exact List.mem_cons_self _ _
  · exact List.drop_of_length_le (by omega)

/-- The scan loop on the buffer as memory and the scan loop over the rest of the
input agree, from states that belong together. -/
theorem sim_loop {σ : Type} (rh : RawHooks σ) (h : Hooks σ) (hs : SimHooks rh h)
    (stop : σ → Bool) :
    ∀ (n : Nat) (s : RState σ) (rest : CStr), s.raw.AtHead →
      (s.raw.mem.take s.raw.datalength).drop s.raw.scan = rest → chNUL ∉ rest →
      ∀ res, rawLoop rh stop n s = some res →
        Step.Agree (fun s1 z1 => z1 = s1.toP 0) res (stopLoop h stop (s.toP 0) rest) := by
  intro n
  induction n with
  | zero => intro s rest _ _ _ res e; cases e
  | succ n ih =>
    intro s rest ha hr hnul res e
    obtain ⟨ch, hch⟩ := atHead_getElem ha
    unfold rawLoop at e
    rw [hch] at e
    simp only at e
    by_cases hz : ch = chNUL
    · rw [if_pos hz] at e
      cases e
      subst hz
      have h0 := rest_of_nul ha hch (hr ▸ hnul)
      rw [← hr, h0]
      unfold stopLoop
      exact rfl
    · rw [if_neg hz] at e
      have hc := rest_of_head ha ch hch hz
      rw [← hr, hc]
      unfold stopLoop
      by_cases hst : stop s.m = true
      · rw [if_pos hst] at e
        cases e
        rw [if_pos (show stop (s.toP 0).m = true from hst)]
        exact rfl
      · rw [if_neg hst] at e
        rw [if_neg (show ¬ stop (s.toP 0).m = true from hst)]
        have hin := inside_of_byte ha ch hch hz
        have hstep := sim_step rh h hs s hin ch hch
        cases hraw : rawStep rh s ch with
        | next s1 =>
          rw [hraw] at e hstep
          simp only at e
          cases hzs : step h (s.toP 0) ch s.raw.ahead with
          | next z1 =>
            rw [hzs] at hstep
            obtain ⟨e1, e2⟩ := hstep
            subst e1
            simp only
            obtain ⟨ha2, _⟩ := atHead_advance e2.1
            have hnul2 : chNUL ∉ s.raw.ahead := by
              intro hm
              apply hnul
              rw [← hr, hc]
              exact List.mem_cons_of_mem _ hm
            exact ih { s1 with raw := rawAdvance s1.raw } s.raw.ahead ha2 e2.2 hnul2 res e
          | discard r => rw [hzs] at hstep; cases hstep
          | fatal => rw [hzs] at hstep; cases hstep
          | undefined => exact Step.Agree.right _ _
        | discard r =>
          rw [hraw] at e hstep
          cases e
          cases hzs : step h (s.toP 0) ch s.raw.ahead with
          | next z1 => rw [hzs] at hstep; cases hstep
          | discard q => rw [hzs] at hstep; exact hstep
          | fatal => rw [hzs] at hstep; cases hstep
          | undefined => trivial
        | fatal =>
          rw [hraw] at e hstep
          cases e
          cases hzs : step h (s.toP 0) ch s.raw.ahead with
          | next z1 => rw [hzs] at hstep; cases hstep
          | discard q => rw [hzs] at hstep; cases hstep
          | fatal => trivial
          | undefined => trivial
        | undefined =>
          rw [hraw] at e
          cases e
          exact Step.Agree.left _ _


theorem start_toP {σ : Type} (init : PState σ) (data slack : CStr)
    (h1 : init.core.out = []) (h2 : init.core.lasttag = 0) (h3 : init.core.lasttagend = none)
    (h4 : init.core.tagwordstart = 0) : (RState.start init data slack).toP 0 = init := by
  obtain ⟨core, m⟩ := init
  cases core
  simp only at h1 h2 h3 h4
  subst h1 h2 h3 h4
  rfl

theorem loopsAgree_of_sim {σ : Type} (rh : RawHooks σ) (h : Hooks σ) (hs : SimHooks rh h)
    (stop : σ → Bool) : LoopsAgree rh h stop := by
  intro init data slack res h1 h2 h3 h4 hn e
  have hl := sim_loop rh h hs stop (data.length + 1) (RState.start init data slack) data
    (atHead_start data slack)
    (show ((data ++ chNUL :: slack).take data.length).drop 0 = data by
      rw [List.drop_zero, List.take_left']
      rfl) hn res e
  rw [start_toP init data slack h1 h2 h3 h4] at hl
  exact hl

/-- In each of the five modes, the scan loop on the buffer as memory and the
scan loop over the rest of the input agree. -/
theorem raw_loops_agree (ctx : Ctx) (octx : OvCtx) :
    LoopsAgree (rawOptionHooks ctx) (optionHooks ctx) (fun _ => false) ∧
    LoopsAgree (rawPrinterHooks ctx) (printerHooks ctx) (fun _ => false) ∧
    LoopsAgree (rawDriverHooks ctx) (driverHooks ctx) (fun _ => false) ∧
    LoopsAgree (rawOvDriverHooks octx) (ovDriverHooks octx) (fun m => m.returned) ∧
    LoopsAgree (rawOvPrinterHooks octx) (ovPrinterHooks octx) (fun _ => false) :=
  ⟨loopsAgree_of_sim _ _ (simHooks_option ctx) _, loopsAgree_of_sim _ _ (simHooks_printer ctx) _,
    loopsAgree_of_sim _ _ (simHooks_driver ctx) _, loopsAgree_of_sim _ _ (simHooks_ovDriver octx) _,
    loopsAgree_of_sim _ _ (simHooks_ovPrinter octx) _⟩

/-! ### The scan loop on the buffer as memory at concrete documents -/

set_option maxRecDepth 100000 in
set_option maxHeartbeats 2000000 in
/-- The scan loop on the buffer as memory in Option mode, at a qualified boolean
option whose winning constraint carries the default `0`, in an allocation with
eight bytes behind the terminator: within `strlen(data) + 1` iterations the loop
ends at the terminator, the constraints block is deleted and the line of the
default value inserted; the content of the buffer is the one that
`parseOption` gives back. -/
theorem raw_option_sample :
    rawBuffer (rawLoop (rawOptionHooks ctxLaserJetGs) (fun _ => false)
        ((docBoolWithDefaultPre ++ ([chNL] ++ (lit "</option>" ++ [chNL]))).length + 1)
        (RState.start optInit (docBoolWithDefaultPre ++ ([chNL] ++ (lit "</option>" ++ [chNL])))
          (List.replicate 8 'z'))) =
      some (lit "<option type=\"bool\" id=\"opt/3\">\n <arg_shortname><en>Duplex</en></arg_shortname>\n  <arg_defval>0</arg_defval>\n</option>\n") := by
  decide

set_option maxRecDepth 100000 in
set_option maxHeartbeats 2000000 in
/-- The scan loop on the buffer as memory in Device mode, at a document with a
file header, in an allocation with sixty bytes behind the terminator: the header
is removed, and the content of the buffer is the one that `parsePrinter` gives
back. -/
theorem raw_printer_sample :
    rawBuffer (rawLoop (rawPrinterHooks ctxLaserJetGs) (fun _ => false) (docWithHeader.length + 1)
        (RState.start (prnInit [] [] [] []) docWithHeader (List.replicate 60 'z'))) =
      some docMakeModelLine := by
  decide

set_option maxRecDepth 100000 in
set_option maxHeartbeats 2000000 in
/-- The scan loop on the buffer as memory in Driver mode, in an allocation with
sixty bytes behind the terminator: the content of the buffer is the one that
`parseDriver` gives back. -/
theorem raw_driver_sample :
    rawBuffer (rawLoop (rawDriverHooks ctxLaserJetGs) (fun _ => false) (docOtherPrefix.length + 1)
        (RState.start (drvInit [] false) docOtherPrefix (List.replicate 60 'z'))) =
      some (lit ("<driver id=\"driver/gs\">\n <printers>\n  " ++
        "<printer><id>archive/HP-LaserJet</id></printer>\n </printers>\n</driver>\n")) := by
  decide

set_option maxRecDepth 100000 in
set_option maxHeartbeats 2000000 in
/-- The scan loop on the buffer as memory in the overview mode for driver files,
in an allocation with sixty bytes behind the terminator: the list of printers is
deleted, and the content of the buffer is the one that `parseOvDriver` gives
back. -/
theorem raw_ovDriver_sample :
    rawBuffer (rawLoop (rawOvDriverHooks ovRenamed) (fun m => m.returned) (drvListsOld.length + 1)
        (RState.start (ovdInit [] [] [] []) drvListsOld (List.replicate 60 'z'))) =
      some (lit "<driver id=\"driver/A\">\n <execution>\n </execution>\n</driver>\n") := by
  decide

set_option maxRecDepth 100000 in
set_option maxHeartbeats 2000000 in
/-- The scan loop on the buffer as memory in the overview mode for printer files,
in an allocation with sixty bytes behind the terminator: the loop ends at the
terminator and leaves the document as it is. -/
theorem raw_ovPrinter_sample :
    rawBuffer (rawLoop (rawOvPrinterHooks ovRenamed) (fun _ => false) (prnRenamed.length + 1)
        (RState.start (ovpInit {} []) prnRenamed (List.replicate 60 'z'))) =
      some prnRenamed := by
  decide

/-! ### The buffer in Device mode -/

theorem rooted_append (o w : CStr) (h : Rooted o) : Rooted (o ++ w) := by
  obtain ⟨gap, rest, e, hg⟩ := h
  exact ⟨gap, rest ++ w, by rw [e]; simp, hg⟩

theorem gapChar_type (ty ty1 : Int) (ch : Char) (h : GapChar ty ch)
    (e : ty1 = ty ∨ ty1 ≠ TAG_OPEN) : GapChar ty1 ch := by
  refine ⟨h.1, h.2.1, ?_⟩
  intro h1
  rcases e with e | e
  · exact h.2.2 (e ▸ h1)
  · exact absurd h1 e

theorem dev_of_notHead (c1 : Core) (pre : CStr) (hs : c1.out <:+ pre)
    (hr : c1.out = pre ∨ Rooted c1.out)
    (hi : c1.intag = false ∨ c1.incomment = true → c1.intagword = false)
    (hn : ¬ Head c1) : Dev c1 pre :=
  ⟨hs, hr, hi, fun h => absurd h hn, fun h => absurd h hn, fun h => absurd h hn⟩

theorem suffix_grow (o pre : CStr) (ch : Char) (h : o <:+ pre) : o ++ [ch] <:+ pre ++ [ch] := by
  obtain ⟨t, e⟩ := h
  exact ⟨t, by rw [← e, List.append_assoc]⟩

theorem rooted_grow (o pre : CStr) (ch : Char) (h : o = pre ∨ Rooted o) :
    o ++ [ch] = pre ++ [ch] ∨ Rooted (o ++ [ch]) := by
  rcases h with h | h
  · exact Or.inl (by rw [h])
  · exact Or.inr (rooted_append o [ch] h)

/-- The invariant of Device mode behind a character that joins the scanned part
of the buffer without starting or ending a word, a tag or a comment. -/
theorem dev_grow (c c1 : Core) (pre : CStr) (ch : Char) (hd : Dev c pre)
    (e_out : c1.out = c.out ++ [ch]) (e_intag : c1.intag = c.intag)
    (e_incomment : c1.incomment = c.incomment) (e_found : c1.tagnamefound = c.tagnamefound)
    (e_word : c1.intagword = c.intagword) (e_lasttag : c1.lasttag = c.lasttag)
    (e_start : c1.tagwordstart = c.tagwordstart)
    (e_type : c1.tagtype = c.tagtype ∨ c1.tagtype ≠ TAG_OPEN)
    (e_quotes : c1.intagword = false → c1.inquotes = c.inquotes)
    (hg : Head c → c.intagword = false → GapChar c1.tagtype ch) : Dev c1 (pre ++ [ch]) := by
  have hh : Head c1 → Head c := by
    intro h
    exact ⟨e_intag ▸ h.1, e_incomment ▸ h.2.1, e_found ▸ h.2.2⟩
  refine ⟨?_, ?_, ?_, ?_, ?_, ?_⟩
  · rw [e_out]; exact suffix_grow _ _ _ hd.suffix
  · rw [e_out]; exact rooted_grow _ _ _ hd.rooted
  · rw [e_intag, e_incomment, e_word]; exact hd.idle
  · intro h
    obtain ⟨m1, m2⟩ := hd.mark (hh h)
    rw [e_out, e_lasttag, List.length_append, List.getElem?_append_left m1]
    exact ⟨by omega, m2⟩
  · intro h hw
    obtain ⟨g1, g2⟩ := hd.gap (hh h) (e_word ▸ hw)
    obtain ⟨m1, _⟩ := hd.mark (hh h)
    refine ⟨(e_quotes hw).trans g1, ?_⟩
    intro x hx
    rw [e_out, e_lasttag, List.drop_append_of_le_length (by omega)] at hx
    rcases List.mem_append.mp hx with hx | hx
    · exact gapChar_type _ _ _ (g2 x hx) e_type
    · rw [List.mem_singleton.mp hx]
      exact hg (hh h) (e_word ▸ hw)
  · intro h hw
    obtain ⟨w1, w2, w3⟩ := hd.word (hh h) (e_word ▸ hw)
    rw [e_out, e_lasttag, e_start, List.length_append, List.take_append_of_le_length w2]
    exact ⟨w1, by omega, fun x hx => gapChar_type _ _ _ (w3 x hx) e_type⟩

/-- The invariant of Device mode behind a character that the scanner passes
over without a look at the state of the tag. -/
theorem dev_advance {σ : Type} (s : PState σ) (pre : CStr) (ch : Char) (hd : Dev s.core pre)
    (hg : Head s.core → s.core.intagword = false → GapChar s.core.tagtype ch) :
    Dev (advance s ch).core (pre ++ [ch]) :=
  dev_grow s.core (advance s ch).core pre ch hd rfl rfl rfl rfl rfl rfl rfl (Or.inl rfl)
    (fun _ => rfl) hg

theorem step_lt_cases {σ : Type} (h : Hooks σ) (s : PState σ) (rest : CStr) :
    step h s '<' rest =
      if s.core.inquotes = true then .next (advance s '<')
      else if s.core.intag = true then
        if s.core.incomment = false ∧ s.core.inxmlheader = false then .fatal
        else .next (advance s '<')
      else if opensComment rest = true ∨ s.core.incomment = true then
        .next (advance { s with core := { s.core with
          intag := true
          incomment := true
          tagtype := if opensComment rest = true then TAG_EMPTY else s.core.tagtype } } '<')
      else
        .next (advance { s with core := { s.core with
          intag := true, tagnamefound := false, tagtype := TAG_OPEN,
          lasttag := s.core.out.length } } '<') := by
  unfold step
  simp only [↓reduceIte]
  by_cases hq : s.core.inquotes = true
  · simp [hq]
  · by_cases ht : s.core.intag = true
    · simp only [hq, ht, ↓reduceIte, Bool.false_eq_true]
      by_cases hc : s.core.incomment = true <;> by_cases hx : s.core.inxmlheader = true <;>
        simp [hc, hx]
    · simp only [hq, ht, ↓reduceIte, Bool.false_eq_true]
      by_cases ho : opensComment rest = true
      · simp [ho]
      · by_cases hc : s.core.incomment = true
        · simp only [ho, hc, Bool.false_eq_true, ↓reduceIte, or_true]
        · simp [ho, hc]

theorem dev_step_lt {σ : Type} (h : Hooks σ) (s s1 : PState σ) (rest pre : CStr)
    (hd : Dev s.core pre) (hs : step h s '<' rest = .next s1) :
    Dev s1.core (pre ++ ['<']) := by
  have glt : ∀ ty, GapChar ty '<' := fun ty => ⟨Or.inl rfl, by decide, fun _ => by decide⟩
  rw [step_lt_cases] at hs
  split at hs
  · cases hs
    exact dev_advance s pre '<' hd (fun _ _ => glt _)
  · split at hs
    · split at hs
      · cases hs
      · cases hs
        exact dev_advance s pre '<' hd (fun _ _ => glt _)
    · rename_i hq ht
      have ht0 : s.core.intag = false := by simpa using ht
      split at hs
      · cases hs
        refine dev_of_notHead _ _ (suffix_grow _ _ _ hd.suffix) (rooted_grow _ _ _ hd.rooted)
          (fun _ => hd.idle (Or.inl ht0)) ?_
        intro hh
        have h2 : true = false := hh.2.1
        cases h2
      · rename_i hc
        cases hs
        have hw : s.core.intagword = false := hd.idle (Or.inl ht0)
        refine ⟨suffix_grow _ _ _ hd.suffix, rooted_grow _ _ _ hd.rooted,
          fun _ => hw, ?_, ?_, ?_⟩
        · intro _
          show s.core.out.length < (s.core.out ++ ['<']).length ∧
            (s.core.out ++ ['<'])[s.core.out.length]? = some '<'
          rw [List.length_append, List.getElem?_append_right (Nat.le_refl _), Nat.sub_self]
          exact ⟨by simp, rfl⟩
        · intro _ _
          refine ⟨by simpa using hq, ?_⟩
          show ∀ ch ∈ (s.core.out ++ ['<']).drop (s.core.out.length + 1), _
          rw [List.drop_of_length_le (by simp)]
          intro ch hch
          cases hch
        · intro _ hw1
          have h2 : s.core.intagword = true := hw1
          rw [hw] at h2
          cases h2

theorem step_other_cases {σ : Type} (h : Hooks σ) (s : PState σ) (ch : Char) (rest : CStr)
    (h1 : ch ≠ '<') (h2 : isDelim ch = false) :
    step h s ch rest =
      if s.core.intag = true ∧ s.core.incomment = false then
        .next { s with core := wordCore s.core ch }
      else .next (advance s ch) := by
  unfold step
  simp only [h1, h2, ↓reduceIte, Bool.false_eq_true]
  by_cases ht : s.core.intag = true
  · by_cases hc : s.core.incomment = true
    · simp [ht, hc]
    · have hc0 : s.core.incomment = false := by simpa using hc
      simp only [ht, hc0, Bool.not_false, Bool.and_self, ↓reduceIte, and_self]
      congr 1
      by_cases hw : s.core.intagword = true
      · simp [hw, wordCore, advance, ht, hc0]
      · simp [hw, wordCore, advance, ht, hc0]
  · simp [ht]

theorem dev_step_other {σ : Type} (h : Hooks σ) (s s1 : PState σ) (ch : Char)
    (rest pre : CStr) (h1 : ch ≠ '<') (h2 : isDelim ch = false)
    (hd : Dev s.core pre) (hs : step h s ch rest = .next s1) :
    Dev s1.core (pre ++ [ch]) := by
  rw [step_other_cases h s ch rest h1 h2] at hs
  split at hs
  · rename_i hin
    cases hs
    show Dev (wordCore s.core ch) (pre ++ [ch])
    by_cases hw : s.core.intagword = true
    · refine dev_grow s.core (wordCore s.core ch) pre ch hd rfl rfl rfl rfl ?_ rfl ?_
        (Or.inl rfl) ?_ ?_
      · exact hw.symm
      · show (if s.core.intagword = true then _ else _) = _
        rw [if_pos hw]
      · intro hf
        cases hf
      · intro _ hf
        rw [hw] at hf
        cases hf
    · have hw0 : s.core.intagword = false := by simpa using hw
      refine ⟨suffix_grow _ _ _ hd.suffix, rooted_grow _ _ _ hd.rooted, ?_, ?_, ?_, ?_⟩
      · intro hx
        rcases hx with hx | hx
        · have : s.core.intag = false := hx
          rw [hin.1] at this
          cases this
        · have : s.core.incomment = true := hx
          rw [hin.2] at this
          cases this
      · intro hh
        obtain ⟨m1, m2⟩ := hd.mark hh
        show s.core.lasttag < (s.core.out ++ [ch]).length ∧
          (s.core.out ++ [ch])[s.core.lasttag]? = some '<'
        rw [List.length_append, List.getElem?_append_left m1]
        exact ⟨by omega, m2⟩
      · intro _ hf
        cases hf
      · intro hh _
        obtain ⟨m1, _⟩ := hd.mark hh
        obtain ⟨_, g2⟩ := hd.gap hh hw0
        show s.core.lasttag < (if s.core.intagword = true then _ else _) ∧
          (if s.core.intagword = true then _ else _) ≤ (s.core.out ++ [ch]).length ∧
          ∀ x ∈ ((s.core.out ++ [ch]).take (if s.core.intagword = true then _ else _)).drop
            (s.core.lasttag + 1), GapChar s.core.tagtype x
        rw [if_neg hw, List.length_append, List.take_left]
        exact ⟨m1, by omega, g2⟩
  · rename_i hin
    cases hs
    refine dev_advance s pre ch hd ?_
    intro hh _
    exact absurd ⟨hh.1, hh.2.1⟩ hin

theorem drop_mark (l : CStr) (i j : Nat) (a : Char) (hij : i < j) (hj : j ≤ l.length)
    (ha : l[i]? = some a) : l.drop i = a :: ((l.take j).drop (i + 1) ++ l.drop j) := by
  have hi : i < l.length := by omega
  have e1 : l.drop i = l[i] :: l.drop (i + 1) := List.drop_eq_getElem_cons hi
  have e2 : l[i] = a := by
    rw [List.getElem?_eq_getElem hi] at ha
    exact Option.some.inj ha
  have e3 : l.drop (i + 1) = (l.take j).drop (i + 1) ++ l.drop j := by
    conv_lhs => rw [← List.take_append_drop j l]
    rw [List.drop_append_of_le_length (by rw [List.length_take]; omega)]
  rw [e1, e2, e3]

theorem gapChar_open (ch : Char) (h : GapChar TAG_OPEN ch) :
    ch = '<' ∨ ch = ' ' ∨ ch = chNL ∨ ch = chTAB ∨ ch = chCR := by
  obtain ⟨h1, h2, h3⟩ := h
  have h4 := h3 rfl
  rcases h1 with h1 | h1
  · exact Or.inl h1
  · unfold isDelim at h1
    simp only [Bool.or_eq_true, decide_eq_true_eq] at h1
    rcases h1 with ((((h1 | h1) | h1) | h1) | h1) | h1
    · exact Or.inr (Or.inr (Or.inl h1))
    · exact absurd h1 h4
    · exact absurd h1 h2
    · exact Or.inr (Or.inl h1)
    · exact Or.inr (Or.inr (Or.inr (Or.inl h1)))
    · exact Or.inr (Or.inr (Or.inr (Or.inr h1)))

/-- The end of a word inside a tag in Device mode: the buffer is cut only at an
opening tag named `printer`, and then it starts with that tag. -/
theorem dev_wordEnd (ctx : Ctx) (s s1 : PrnState) (pre : CStr) (hd : Dev s.core pre)
    (ht : s.core.intag = true) (hc : s.core.incomment = false)
    (hw : s.core.intagword = true) (hs : wordEnd (printerHooks ctx) s = .next s1) :
    s1.core.out <:+ pre ∧ (s1.core.out = pre ∨ Rooted s1.core.out) ∧
    s1.core.tagnamefound = true ∧ s1.core.intag = true ∧ s1.core.incomment = false ∧
    s1.core.intagword = false := by
  unfold wordEnd at hs
  simp only at hs
  split at hs
  · cases hs
    exact ⟨hd.suffix, hd.rooted, by assumption, ht, hc, rfl⟩
  · rename_i hf
    have hf0 : s.core.tagnamefound = false := by simpa using hf
    have hh : Head s.core := ⟨ht, hc, hf0⟩
    cases hs
    show (prnNameCore _).out <:+ pre ∧ ((prnNameCore _).out = pre ∨ Rooted (prnNameCore _).out) ∧
      (prnNameCore _).tagnamefound = true ∧ (prnNameCore _).intag = true ∧
      (prnNameCore _).incomment = false ∧ (prnNameCore _).intagword = false
    unfold prnNameCore
    split
    · rename_i hr
      obtain ⟨m1, m2⟩ := hd.mark hh
      obtain ⟨w1, w2, w3⟩ := hd.word hh hw
      have hname : s.core.out.drop s.core.tagwordstart = lit "printer" := hr.1
      have hty : s.core.tagtype = TAG_OPEN := hr.2
      have e := drop_mark s.core.out s.core.lasttag s.core.tagwordstart '<' w1 w2 m2
      rw [hname] at e
      refine ⟨?_, Or.inr ⟨(s.core.out.take s.core.tagwordstart).drop (s.core.lasttag + 1), [],
        ?_, ?_⟩, rfl, ht, hc, rfl⟩
      · exact (List.drop_suffix _ _).trans hd.suffix
      · show s.core.out.drop s.core.lasttag = _
        rw [e, List.append_nil]
      · intro ch hch
        exact gapChar_open ch (hty ▸ w3 ch hch)
    · exact ⟨hd.suffix, hd.rooted, rfl, ht, hc, rfl⟩

/-- The end of a tag in Device mode: the `>` joins the scanned part of the
buffer, and nothing else is done to the buffer. -/
theorem dev_tagEnd (ctx : Ctx) (s s1 : PrnState) (hs : tagEnd (printerHooks ctx) s = .next s1) :
    s1.core.out = s.core.out ++ ['>'] ∧ s1.core.intag = false ∧
    s1.core.intagword = s.core.intagword := by
  unfold tagEnd at hs
  simp only at hs
  split at hs
  · cases hs
  · obtain ⟨b, _, h2⟩ := Step.bind_eq_next hs
    obtain ⟨s3, h3, h4⟩ := Step.bind_eq_next h2
    cases h4
    cases h3
    show (if _ then _ else _ : Core).out = _ ∧ (if _ then _ else _ : Core).intag = false ∧
      (if _ then _ else _ : Core).intagword = _
    split <;> exact ⟨rfl, rfl, rfl⟩

theorem wordEnd_prn_not_discard (ctx : Ctx) (s : PrnState) (k : Int) :
    wordEnd (printerHooks ctx) s ≠ .discard k := by
  unfold wordEnd
  simp only
  split
  · intro h; cases h
  · intro h; cases h

theorem tagEnd_prn_not_discard (ctx : Ctx) (s : PrnState) (k : Int) :
    tagEnd (printerHooks ctx) s ≠ .discard k := by
  unfold tagEnd
  simp only
  split
  · intro h; cases h
  · intro h
    split at h
    · split at h
      · simp only [Step.bind_next] at h
        cases h
      · cases h
    · simp only [Step.bind_next] at h
      cases h

theorem Step.bind_eq_discard {α β : Type} {x : Step α} {f : α → Step β} {k : Int}
    (h : x.bind f = .discard k) : x = .discard k ∨ ∃ a, x = .next a ∧ f a = .discard k := by
  cases x with
  | next a => exact Or.inr ⟨a, rfl, h⟩
  | discard r =>
    cases h
    exact Or.inl rfl
  | fatal => cases h
  | undefined => cases h

/-- No iteration of the scan loop in Device mode frees the buffer. -/
theorem step_prn_not_discard (ctx : Ctx) (s : PrnState) (ch : Char) (rest : CStr) (k : Int) :
    step (printerHooks ctx) s ch rest ≠ .discard k := by
  intro h
  unfold step at h
  simp only at h
  split at h
  · split at h
    · cases h
    · split at h
      · split at h <;> cases h
      · cases h
  · split at h
    · split at h
      · cases h
      · split at h
        · rcases Step.bind_eq_discard h with h1 | ⟨s2, _, h1⟩
          · split at h1
            · cases h1
            · rcases Step.bind_eq_discard h1 with h2 | ⟨s3, _, h2⟩
              · split at h2
                · exact wordEnd_prn_not_discard ctx s k h2
                · cases h2
              · split at h2 <;> cases h2
          · split at h1
            · split at h1
              · split at h1 <;> cases h1
              · exact tagEnd_prn_not_discard ctx s2 k h1
            · cases h1
        · cases h
    · split at h <;> cases h

theorem scanLoop_next_or_fatal_prn (ctx : Ctx) (data : CStr) (s : PrnState) (k : Int) :
    scanLoop (printerHooks ctx) s data ≠ .discard k := by
  induction data generalizing s with
  | nil => intro h; cases h
  | cons ch rest ih =>
    intro h
    rw [scanLoop_cons] at h
    rcases Step.bind_eq_discard h with h1 | ⟨s2, _, h1⟩
    · exact step_prn_not_discard ctx s ch rest k h1
    · exact ih s2 h1

theorem gapChar_delim (ty : Int) (ch : Char) (h2 : isDelim ch = true) (h3 : ch ≠ '>')
    (h4 : ty = TAG_OPEN → ch ≠ '/') : GapChar ty ch := ⟨Or.inr h2, h3, h4⟩

/-- The invariant of Device mode behind a word delimiter. -/
theorem dev_step_delim (ctx : Ctx) (s s1 : PrnState) (ch : Char) (rest pre : CStr)
    (h1 : ch ≠ '<') (h2 : isDelim ch = true) (hd : Dev s.core pre)
    (hs : step (printerHooks ctx) s ch rest = .next s1) : Dev s1.core (pre ++ [ch]) := by
  unfold step at hs
  simp only [h1, h2, ↓reduceIte] at hs
  by_cases hq : s.core.inquotes = true
  · simp only [hq, ↓reduceIte] at hs
    cases hs
    refine dev_advance s pre ch hd ?_
    intro hh hw
    have := (hd.gap hh hw).1
    rw [hq] at this
    cases this
  · have hq0 : s.core.inquotes = false := by simpa using hq
    simp only [hq0, Bool.false_eq_true, ↓reduceIte] at hs
    by_cases ht : s.core.intag = true
    · simp only [ht, ↓reduceIte] at hs
      by_cases hc : s.core.incomment = true
      · simp only [hc, ↓reduceIte, Step.bind_next] at hs
        have hnh : ¬ Head s.core := fun hh => by
          have := hh.2.1
          rw [hc] at this
          cases this
        split at hs
        · split at hs
          · cases hs
            refine dev_of_notHead _ _ (suffix_grow _ _ _ hd.suffix) (rooted_grow _ _ _ hd.rooted)
              (fun _ => hd.idle (Or.inr hc)) ?_
            intro hh
            have h3 : false = true := hh.1
            cases h3
          · cases hs
            exact dev_advance s pre ch hd (fun hh _ => absurd hh hnh)
        · cases hs
          exact dev_advance s pre ch hd (fun hh _ => absurd hh hnh)
      · have hc0 : s.core.incomment = false := by simpa using hc
        simp only [hc0, Bool.false_eq_true, ↓reduceIte] at hs
        obtain ⟨s2, hwords, hfin⟩ := Step.bind_eq_next hs
        obtain ⟨s3, hword, hslash⟩ := Step.bind_eq_next hwords
        -- the state behind the end of the word
        have h3 : Dev s3.core pre ∧ s3.core.intag = true ∧ s3.core.incomment = false ∧
            s3.core.intagword = false := by
          by_cases hw : s.core.intagword = true
          · rw [if_pos hw] at hword
            obtain ⟨a1, a2, a3, a4, a5, a6⟩ := dev_wordEnd ctx s s3 pre hd ht hc0 hw hword
            refine ⟨dev_of_notHead _ _ a1 a2 (fun _ => a6) ?_, a4, a5, a6⟩
            intro hh
            have := hh.2.2
            rw [a3] at this
            cases this
          · rw [if_neg hw] at hword
            cases hword
            exact ⟨hd, ht, hc0, by simpa using hw⟩
        obtain ⟨d3, t3, c3, w3⟩ := h3
        -- the state behind the test for `/`
        have h4 : Dev s2.core pre ∧ s2.core.intag = true ∧ s2.core.incomment = false ∧
            s2.core.intagword = false ∧ (ch = '/' → s2.core.tagtype ≠ TAG_OPEN) := by
          split at hslash
          · rename_i hsl
            cases hslash
            have hty : (if s3.core.tagnamefound = true then TAG_EMPTY else TAG_CLOSE) ≠
                TAG_OPEN := by
              split <;> decide
            refine ⟨⟨d3.suffix, d3.rooted, fun _ => w3, fun hh => d3.mark hh, ?_, ?_⟩, t3, c3, w3,
              fun _ => hty⟩
            · intro hh hw
              obtain ⟨g1, g2⟩ := d3.gap hh hw
              exact ⟨g1, fun x hx => gapChar_type _ _ _ (g2 x hx) (Or.inr hty)⟩
            · intro _ hw
              have : s3.core.intagword = true := hw
              rw [w3] at this
              cases this
          · rename_i hsl
            cases hslash
            exact ⟨d3, t3, c3, w3, fun e => absurd e hsl⟩
        obtain ⟨d2, t2, c2, w2, sl2⟩ := h4
        split at hfin
        · rename_i hgt
          rw [if_neg (by rw [c2]; decide)] at hfin
          obtain ⟨o1, i1, q1⟩ := dev_tagEnd ctx s2 s1 hfin
          rw [hgt]
          refine dev_of_notHead _ _ ?_ ?_ (fun _ => q1.trans w2) ?_
          · rw [o1]; exact suffix_grow _ _ _ d2.suffix
          · rw [o1]; exact rooted_grow _ _ _ d2.rooted
          · intro hh
            have := hh.1
            rw [i1] at this
            cases this
        · rename_i hgt
          cases hfin
          exact dev_advance s2 pre ch d2
            (fun _ _ => gapChar_delim _ ch h2 hgt (fun e => by
              intro e2
              exact sl2 e2 e))
    · simp only [ht, Bool.false_eq_true, ↓reduceIte] at hs
      cases hs
      refine dev_advance s pre ch hd ?_
      intro hh _
      exact absurd hh.1 ht

/-- One iteration of the scan loop in Device mode keeps the invariant. -/
theorem dev_step (ctx : Ctx) (s s1 : PrnState) (ch : Char) (rest pre : CStr)
    (hd : Dev s.core pre) (hs : step (printerHooks ctx) s ch rest = .next s1) :
    Dev s1.core (pre ++ [ch]) := by
  by_cases h1 : ch = '<'
  · subst h1
    exact dev_step_lt _ s s1 rest pre hd hs
  · by_cases h2 : isDelim ch = true
    · exact dev_step_delim ctx s s1 ch rest pre h1 h2 hd hs
    · exact dev_step_other _ s s1 ch rest pre h1 (by simpa using h2) hd hs

/-- The scan loop in Device mode keeps the invariant. -/
theorem dev_scanLoop (ctx : Ctx) (data : CStr) (s s1 : PrnState) (pre : CStr)
    (hd : Dev s.core pre) (hs : scanLoop (printerHooks ctx) s data = .next s1) :
    Dev s1.core (pre ++ data) := by
  induction data generalizing s pre with
  | nil =>
    simp only [scanLoop, Step.next.injEq] at hs
    rw [← hs, List.append_nil]
    exact hd
  | cons ch rest ih =>
    rw [scanLoop_cons] at hs
    obtain ⟨s2, h2, h3⟩ := Step.bind_eq_next hs
    have := ih s2 (pre ++ [ch]) (dev_step ctx s s2 ch rest pre hd h2) h3
    rw [List.append_assoc] at this
    exact this

theorem dev_init : Dev ({} : Core) [] := by
  refine ⟨List.suffix_refl _, Or.inl rfl, fun _ => rfl, ?_, ?_, ?_⟩
  · intro hh
    have := hh.1
    cases this
  · intro hh
    have := hh.1
    cases this
  · intro hh
    have := hh.1
    cases this

theorem parsePrinter_returned (ctx : Ctx) (init : PrnState) (data d : CStr) (r : Int)
    (h : parsePrinter ctx init data = .returned (some d) r) :
    ∃ s, scanLoop (printerHooks ctx) init data = .next s ∧ s.core.out = d := by
  unfold parsePrinter parsePrinterState at h
  cases hl : scanLoop (printerHooks ctx) init data with
  | next s =>
    rw [hl] at h
    simp only [Step.bind_next] at h
    unfold prnCheck at h
    split at h
    · cases h
    · simp only [finish, Outcome.returned.injEq, Option.some.injEq] at h
      exact ⟨s, rfl, h.1⟩
  | discard k => rw [hl] at h; cases h
  | fatal => rw [hl] at h; cases h
  | undefined => rw [hl] at h; cases h

/-- C37, amended: Device mode changes the buffer only by the removal of the
header.  For every input on which `parse` returns in Device mode, whatever the
static arrays hold at the start, the buffer is not freed and the result is a
suffix of the input, with no byte altered: it is the whole input, or it starts
at the `<` of a tag that is read as an opening tag named `printer` (between the
`<` and the name there are at most line breaks, blanks, tabs, carriage returns
and further `<`).  An input in which no such tag is read comes back as it
is. -/
theorem device_buffer (ctx : Ctx) (mk md cid cppd data : CStr) (out : Option CStr) (r : Int)
    (h : parsePrinter ctx (prnInit mk md cid cppd) data = .returned out r) :
    ∃ d, out = some d ∧ d <:+ data ∧ (d = data ∨ Rooted d) := by
  cases out with
  | none =>
    exfalso
    unfold parsePrinter parsePrinterState at h
    cases hl : scanLoop (printerHooks ctx) (prnInit mk md cid cppd) data with
    | next s =>
      rw [hl] at h
      simp only [Step.bind_next] at h
      unfold prnCheck at h
      split at h <;> cases h
    | discard k =>
      have := scanLoop_next_or_fatal_prn ctx data (prnInit mk md cid cppd) k
      exact this hl
    | fatal => rw [hl] at h; cases h
    | undefined => rw [hl] at h; cases h
  | some d =>
    obtain ⟨s, hs, ho⟩ := parsePrinter_returned ctx _ data d r h
    have hd := dev_scanLoop ctx data (prnInit mk md cid cppd) s [] dev_init hs
    rw [List.nil_append] at hd
    exact ⟨d, rfl, ho ▸ hd.suffix, ho ▸ hd.rooted⟩

set_option maxRecDepth 100000 in
/-- Witness of the amended C37: a device document behind a file header of one
line; the result starts at the `<` of the tag `printer`. -/
theorem device_buffer_witness :
    ∃ d, some docMakeModelLine = some d ∧ d <:+ docWithHeader ∧
      (d = docWithHeader ∨ Rooted d) :=
  device_buffer ctxLaserJetGs [] [] [] [] docWithHeader (some docMakeModelLine) 0 (by decide)

set_option maxRecDepth 100000 in
/-- Counterexample to C37 as stated: a text with a make and a model and without
any `printer` tag.  The call returns, and the result is the whole input: it
does not start at the `<` of an opening `printer` tag, since it holds none. -/
theorem device_buffer_counterexample :
    parsePrinter ctxLaserJetGs (prnInit [] [] [] []) docNoRoot = .returned (some docNoRoot) 0 ∧
    ¬ (lit "printer" <:+: docNoRoot) := by
  decide

end Foomatic
